import Mathlib

/-!
TXMLEngine: a shallow embedding of `io/xml/src/TXMLEngine.cxx`

Conventions of the embedding.

* A C string is the list of its bytes (`List Nat`, each byte a value below 256) without the
  terminating NUL; a null `const char*` is `none` where the source distinguishes it.
* `Int_t` lengths, positions and buffer sizes are natural numbers: the development is about
  sources whose sizes stay below `2^30`, where no `Int_t` computation of the source wraps.
* A node is a value: `fChild`/`fNext`/`fLastChild` are the list of children, `fParent` is the
  position in the tree, `fAttr`/`fNext` of an attribute is the list of attributes.  The pointer
  `fNs` is kept as `NsPtr`, which records whether it points into the node's own attribute list.
* Code that mutates its arguments returns the new values (explicit state passing).
* Dereferencing the null `fOut` of a string sink is the outcome `none` of `Write`.
* Loops that the source bounds only by the input are given a fuel argument; the entry points
  fix the fuel from the length of the input.
-/

/-! ## Bytes -/

/-- The bytes of an ASCII literal. -/
def bytes (s : String) : List Nat := s.toList.map Char.toNat

/-! ## TXMLOutputStream -/

/-- `TXMLOutputStream`: a write buffer in front of a file (`fOut`) or of a `TString` (`fOutStr`). -/
structure TXMLOutputStream where
  /-- whether `fOut != nullptr` (constructor over a file name); otherwise `fOutStr != nullptr` -/
  fOut : Bool
  /-- the bytes that have reached the destination (file content or target string) -/
  dest : List Nat
  /-- the pending bytes `fBuf .. fCurrent` -/
  fBuf : List Nat
  /-- the capacity `fMaxAddr - fBuf` -/
  fMaxAddr : Nat
  /-- the soft limit `fLimitAddr - fBuf` -/
  fLimitAddr : Nat
deriving DecidableEq, Repr

namespace TXMLOutputStream

/-- `Init(bufsize)` after the constructor over a file name: `fLimitAddr = fBuf + int(bufsize*0.75)`. -/
def ofFile (bufsize : Nat) : TXMLOutputStream :=
  { fOut := true, dest := [], fBuf := [], fMaxAddr := bufsize, fLimitAddr := bufsize * 3 / 4 }

/-- `Init(bufsize)` after the constructor over a `TString*` that currently holds `outstr`. -/
def ofString (outstr : List Nat) (bufsize : Nat) : TXMLOutputStream :=
  { fOut := false, dest := outstr, fBuf := [], fMaxAddr := bufsize, fLimitAddr := bufsize * 3 / 4 }

/-- `OutputCurrent()`: hand the pending bytes to the destination. -/
def OutputCurrent (out : TXMLOutputStream) : TXMLOutputStream :=
  { out with dest := out.dest ++ out.fBuf, fBuf := [] }

/-- `Write(str)`.  When the text does not fit, the source flushes and then calls
`fOut->write(str,len)` whatever the kind of sink: on a string sink `fOut` is null, which is
the outcome `none`. -/
def Write (out : TXMLOutputStream) (str : List Nat) : Option TXMLOutputStream :=
  if out.fBuf.length + str.length ≥ out.fMaxAddr then
    let out := out.OutputCurrent
    if out.fOut then some { out with dest := out.dest ++ str } else none
  else
    let out := { out with fBuf := out.fBuf ++ str }
    if out.fBuf.length > out.fLimitAddr then some out.OutputCurrent else some out

/-- `Put(symb, cnt)`; the loop of `OutputChar(symb)` delivers `cnt` copies of `symb`. -/
def Put (out : TXMLOutputStream) (symb : Nat) (cnt : Nat := 1) : TXMLOutputStream :=
  let out := if out.fBuf.length + cnt ≥ out.fMaxAddr then out.OutputCurrent else out
  if out.fBuf.length + cnt ≥ out.fMaxAddr then
    { out with dest := out.dest ++ List.replicate cnt symb }
  else
    let out := { out with fBuf := out.fBuf ++ List.replicate cnt symb }
    if out.fBuf.length > out.fLimitAddr then out.OutputCurrent else out

/-- The destructor: flush what is pending; the result is the final content of the destination. -/
def close (out : TXMLOutputStream) : List Nat :=
  (if out.fBuf ≠ [] then out.OutputCurrent else out).dest

/-- Everything written so far, delivered or pending. -/
def written (out : TXMLOutputStream) : List Nat := out.dest ++ out.fBuf

end TXMLOutputStream

/-! ## The tree -/

/-- `EXmlNodeType`. -/
inductive EXmlNodeType where
  | kXML_NODE
  | kXML_COMMENT
  | kXML_PI_NODE
  | kXML_RAWLINE
  | kXML_CONTENT
deriving DecidableEq, Repr

/-- `SXmlAttr_t`: the name and the value stored behind the header (`fNext` is the list tail). -/
structure SXmlAttr_t where
  name : List Nat
  value : List Nat
deriving DecidableEq, Repr

/-- The target of a non-null `fNs`. -/
inductive NsPtr where
  /-- the attribute number `i` (from 0) of the node's own list `fAttr` -/
  | own (i : Nat)
  /-- an attribute that is not in the node's own list (it belongs to an ancestor) -/
  | outer (a : SXmlAttr_t)
deriving DecidableEq, Repr

/-- `SXmlNode_t`: type, name (or text), attributes, namespace pointer, children in order. -/
inductive SXmlNode_t where
  | mk (fType : EXmlNodeType) (fName : List Nat) (fAttr : List SXmlAttr_t)
      (fNs : Option NsPtr) (fChild : List SXmlNode_t)
deriving Repr

namespace SXmlNode_t

def fType : SXmlNode_t → EXmlNodeType
  | mk t _ _ _ _ => t

def fName : SXmlNode_t → List Nat
  | mk _ n _ _ _ => n

def fAttr : SXmlNode_t → List SXmlAttr_t
  | mk _ _ a _ _ => a

def fNs : SXmlNode_t → Option NsPtr
  | mk _ _ _ ns _ => ns

def fChild : SXmlNode_t → List SXmlNode_t
  | mk _ _ _ _ c => c

/-- The attribute a non-null `fNs` points to (`none` for a null `fNs`). -/
def nsAttr (node : SXmlNode_t) : Option SXmlAttr_t :=
  match node.fNs with
  | none => none
  | some (NsPtr.own i) => some (node.fAttr.getD i ⟨[], []⟩)
  | some (NsPtr.outer a) => some a

/-- `fNs != nullptr && fNs != fAttr`. -/
def nsNotFirst (node : SXmlNode_t) : Bool :=
  match node.fNs with
  | none => false
  | some (NsPtr.own i) => i != 0
  | some (NsPtr.outer _) => true

end SXmlNode_t

mutual
/-- Equality of nodes can be decided. -/
def SXmlNode_t.decEq : (a b : SXmlNode_t) → Decidable (a = b)
  | SXmlNode_t.mk t1 n1 a1 ns1 c1, SXmlNode_t.mk t2 n2 a2 ns2 c2 =>
    if h1 : t1 = t2 then
      if h2 : n1 = n2 then
        if h3 : a1 = a2 then
          if h4 : ns1 = ns2 then
            match SXmlNode_t.decEqList c1 c2 with
            | isTrue h5 => isTrue (by rw [h1, h2, h3, h4, h5])
            | isFalse h5 => isFalse (fun e => h5 (SXmlNode_t.mk.inj e).2.2.2.2)
          else isFalse (fun e => h4 (SXmlNode_t.mk.inj e).2.2.2.1)
        else isFalse (fun e => h3 (SXmlNode_t.mk.inj e).2.2.1)
      else isFalse (fun e => h2 (SXmlNode_t.mk.inj e).2.1)
    else isFalse (fun e => h1 (SXmlNode_t.mk.inj e).1)
/-- Equality of lists of nodes can be decided. -/
def SXmlNode_t.decEqList : (a b : List SXmlNode_t) → Decidable (a = b)
  | [], [] => isTrue rfl
  | [], _ :: _ => isFalse (fun e => List.noConfusion e)
  | _ :: _, [] => isFalse (fun e => List.noConfusion e)
  | x :: xs, y :: ys =>
    match SXmlNode_t.decEq x y with
    | isTrue h1 =>
      match SXmlNode_t.decEqList xs ys with
      | isTrue h2 => isTrue (by rw [h1, h2])
      | isFalse h2 => isFalse (fun e => h2 (List.cons.inj e).2)
    | isFalse h1 => isFalse (fun e => h1 (List.cons.inj e).1)
end

instance : DecidableEq SXmlNode_t := SXmlNode_t.decEq

/-- The C string at `SXmlAttr_t::Name(attr) + 6`: the name and the value lie behind each
other, each with its NUL. -/
def SXmlAttr_t.nameFrom6 (a : SXmlAttr_t) : List Nat :=
  ((a.name ++ 0 :: a.value).drop 6).takeWhile (fun b => b != 0)

/-- `SXmlDoc_t`. -/
structure SXmlDoc_t where
  fRootNode : SXmlNode_t
  fDtdName : Option (List Nat)
  fDtdRoot : Option (List Nat)
deriving DecidableEq

namespace TXMLEngine

/-! ## Escaping -/

/-- The loop of `UnpackSpecialCharacters` over the `srclen` bytes of `source`; the first
argument counts the bytes that the last step has already consumed (`source+=4` is one step
and three bytes to pass over). -/
def UnpackLoop : Nat → List Nat → List Nat
  | _, [] => []
  | skip + 1, _ :: rest => UnpackLoop skip rest
  | 0, symb :: rest =>
    if symb = 38 then
      if rest.take 3 = [108, 116, 59] then 60 :: UnpackLoop 3 rest
      else if rest.take 3 = [103, 116, 59] then 62 :: UnpackLoop 3 rest
      else if rest.take 4 = [97, 109, 112, 59] then 38 :: UnpackLoop 4 rest
      else if rest.take 5 = [113, 117, 111, 116, 59] then 34 :: UnpackLoop 5 rest
      else if rest.take 5 = [97, 112, 111, 115, 59] then 39 :: UnpackLoop 5 rest
      else symb :: UnpackLoop 0 rest
    else symb :: UnpackLoop 0 rest

/-- `UnpackSpecialCharacters(target, source, srclen)`: `source` is the list of the `srclen`
bytes; the result is what is stored in `target`. -/
def UnpackSpecialCharacters (source : List Nat) : List Nat := UnpackLoop 0 source

/-- The loop of `OutputValue`: `last` is the text between the previous special character and
the read position; `strpbrk(last, "<&>\"")` stops at `<` (60), `&` (38), `>` (62) and `"` (34). -/
def OutputValueLoop : List Nat → List Nat → TXMLOutputStream → Option TXMLOutputStream
  | [], last, out => if last ≠ [] then out.Write last else some out
  | symb :: rest, last, out =>
    if symb = 60 ∨ symb = 38 ∨ symb = 62 ∨ symb = 34 then
      (out.Write last).bind fun out =>
      (if symb = 60 then out.Write (bytes "&lt;")
       else if symb = 62 then out.Write (bytes "&gt;")
       else if symb = 38 then out.Write (bytes "&amp;")
       else if symb = 39 then out.Write (bytes "&apos;")
       else out.Write (bytes "&quot;")).bind fun out =>
      OutputValueLoop rest [] out
    else OutputValueLoop rest (last ++ [symb]) out

/-- `OutputValue(value, out)` for a non-null `value`. -/
def OutputValue (value : List Nat) (out : TXMLOutputStream) : Option TXMLOutputStream :=
  OutputValueLoop value [] out

/-! ## SaveNode -/

/-- The attribute loop of `SaveNode`. -/
def SaveNodeAttrs : List SXmlAttr_t → TXMLOutputStream → Option TXMLOutputStream
  | [], out => some out
  | attr :: rest, out =>
    ((out.Put 32).Write attr.name).bind fun out =>
    (out.Write (bytes "=\"")).bind fun out =>
    (OutputValue attr.value out).bind fun out =>
    SaveNodeAttrs rest (out.Put 34)

/-- The namespace part of a tag: `Write(Name(fNs)+6); Put(':')` when `fNs` is set and is not
the first attribute. -/
def SaveNodeNs (node : SXmlNode_t) (out : TXMLOutputStream) : Option TXMLOutputStream :=
  match node.nsAttr with
  | some a =>
    if node.nsNotFirst then (out.Write a.nameFrom6).map fun out => out.Put 58 else some out
  | none => some out

/-- The branches of `SaveNode` for a comment, a raw line and a content node, entered after
the indentation. -/
def SaveNodeSpecial (node : SXmlNode_t) (out : TXMLOutputStream) (layout : Int) :
    Option TXMLOutputStream :=
  if node.fType = EXmlNodeType.kXML_COMMENT then
    (out.Write (bytes "<!--")).bind fun out =>
    (out.Write node.fName).bind fun out =>
    (out.Write (bytes "-->")).bind fun out =>
    some (if layout > 0 then out.Put 10 else out)
  else
    (out.Write node.fName).bind fun out =>
    some (if layout > 0 then out.Put 10 else out)

/-- The part of `SaveNode` from `out->Put('<')` to the end of the attribute loop. -/
def SaveNodeOpen (node : SXmlNode_t) (out : TXMLOutputStream) : Option TXMLOutputStream :=
  let out := out.Put 60
  let out := if node.fType = EXmlNodeType.kXML_PI_NODE then out.Put 63 else out
  (SaveNodeNs node out).bind fun out =>
  (out.Write node.fName).bind fun out =>
  SaveNodeAttrs node.fAttr out

/-- The end of `SaveNode` for a node without children: `?>` or `/>`. -/
def SaveNodeSingleLine (node : SXmlNode_t) (out : TXMLOutputStream) (layout : Int) :
    Option TXMLOutputStream :=
  (if node.fType = EXmlNodeType.kXML_PI_NODE then out.Write (bytes "?>")
   else out.Write (bytes "/>")).bind fun out =>
  some (if layout > 0 then out.Put 10 else out)

/-- The end of `SaveNode` for a node with children: the closing tag. -/
def SaveNodeClose (node : SXmlNode_t) (out : TXMLOutputStream) (layout : Int) :
    Option TXMLOutputStream :=
  (out.Write (bytes "</")).bind fun out =>
  (SaveNodeNs node out).bind fun out =>
  (out.Write node.fName).bind fun out =>
  let out := out.Put 62
  some (if layout > 0 then out.Put 10 else out)

/-- Whether the node type is one of those that `SaveNode` writes as plain text. -/
def isSpecial (fType : EXmlNodeType) : Bool :=
  fType = EXmlNodeType.kXML_COMMENT || fType = EXmlNodeType.kXML_RAWLINE ||
  fType = EXmlNodeType.kXML_CONTENT

mutual
/-- `SaveNode(xmlnode, out, layout, level)` for a non-null node. -/
def SaveNode : SXmlNode_t → TXMLOutputStream → Int → Nat → Option TXMLOutputStream
  | SXmlNode_t.mk fType fName fAttr fNs fChild, out, layout, level =>
    if isSpecial fType then
      SaveNodeSpecial (SXmlNode_t.mk fType fName fAttr fNs fChild)
        (if layout > 0 then out.Put 32 level else out) layout
    else
      (SaveNodeOpen (SXmlNode_t.mk fType fName fAttr fNs fChild)
        (if layout > 0 then out.Put 32 level else out)).bind fun out =>
      match fChild with
      | [] => SaveNodeSingleLine (SXmlNode_t.mk fType fName fAttr fNs fChild) out layout
      | child :: next =>
        (if child.fType = EXmlNodeType.kXML_CONTENT ∧ next.isEmpty then
          (out.Put 62).Write child.fName
         else
          (SaveNodeChildren (child :: next) (if layout > 0 then (out.Put 62).Put 10 else out.Put 62)
            layout (level + 2)).bind fun out =>
          some (if layout > 0 then out.Put 32 level else out)).bind fun out =>
        SaveNodeClose (SXmlNode_t.mk fType fName fAttr fNs fChild) out layout
/-- The loop `while (child != nullptr) { SaveNode(child, out, layout, level+2); child = child->fNext; }`. -/
def SaveNodeChildren : List SXmlNode_t → TXMLOutputStream → Int → Nat → Option TXMLOutputStream
  | [], out, _, _ => some out
  | child :: next, out, layout, level =>
    (SaveNode child out layout level).bind fun out => SaveNodeChildren next out layout level
end

/-- `SaveSingleNode(xmlnode, res, layout)` for non-null arguments: the content of `*res`
after the call (`none`: the call dereferences the null `fOut`). -/
def SaveSingleNode (xmlnode : SXmlNode_t) (res : List Nat) (layout : Int) : Option (List Nat) :=
  (SaveNode xmlnode (TXMLOutputStream.ofString res 10000) layout 0).map TXMLOutputStream.close

/-- `SaveDoc(xmldoc, filename, layout)` for a non-null document: the content of the file.
The `do ... while` runs `SaveNode` on every top-level node (on the null child of an empty
document `SaveNode` returns at once). -/
def SaveDoc (xmldoc : SXmlDoc_t) (layout : Int) : Option (List Nat) :=
  (SaveNodeChildren xmldoc.fRootNode.fChild (TXMLOutputStream.ofFile 100000) layout 0).map
    TXMLOutputStream.close

end TXMLEngine

/-! ## TXMLInputStream (over an in-memory string) -/

/-- `TXMLEntity`: `GetName()`, `GetTitle()` (the substitution text or the file name) and `fSystem`. -/
structure TXMLEntity where
  name : List Nat
  title : List Nat
  fSystem : Bool
deriving DecidableEq, Repr

/-- `TXMLInputStream` built with `isfilename == false`.  Pointers into the buffer are offsets
from `fBuf`; `fMaxAddr - fBuf` is the length of `fBuf`. -/
structure TXMLInputStream where
  /-- the part of the source string that was not yet read (`fInpStrLen` is its length) -/
  fInpStr : List Nat
  /-- the bytes `fBuf .. fMaxAddr` -/
  fBuf : List Nat
  fBufSize : Nat
  fLimitAddr : Nat
  fTotalPos : Nat
  fCurrentLine : Nat
  fEntities : List TXMLEntity
  fCurrent : Nat
  /-- platform: whether plain `char` is a signed type -/
  charSigned : Bool
  /-- the byte in the cell at `fMaxAddr`, which the source reads without having written it -/
  pastByte : Nat
deriving DecidableEq, Repr

namespace TXMLInputStream

/-- `*p` for the offset `p`. -/
def deref (inp : TXMLInputStream) (p : Nat) : Nat := inp.fBuf.getD p inp.pastByte

/-- The value of a byte held in a plain `char`. -/
def asChar (inp : TXMLInputStream) (b : Nat) : Int :=
  if b ≥ 128 ∧ inp.charSigned then (b : Int) - 256 else (b : Int)

/-- The `len` bytes from the offset `p`. -/
def slice (inp : TXMLInputStream) (p len : Nat) : List Nat := (inp.fBuf.drop p).take len

/-- `EndOfFile()`. -/
def EndOfFile (inp : TXMLInputStream) : Bool := inp.fInpStr.length ≤ 0

/-- `EndOfStream()`. -/
def EndOfStream (inp : TXMLInputStream) : Bool := inp.EndOfFile && inp.fCurrent ≥ inp.fBuf.length

/-- `NumEntities()`. -/
def NumEntities (inp : TXMLInputStream) : Nat := inp.fEntities.length

/-- `AddEntity(ent)`. -/
def AddEntity (inp : TXMLInputStream) (ent : TXMLEntity) : TXMLInputStream :=
  { inp with fEntities := inp.fEntities ++ [ent] }

/-- `FindEntity(beg, len)`, `text` being the `len` bytes at `beg`. -/
def FindEntity (inp : TXMLInputStream) (text : List Nat) : Option TXMLEntity :=
  if text.length ≤ 0 then none else inp.fEntities.find? fun entity => entity.name = text

/-- `DoRead(buf, maxsize)`: the bytes read and the stream after it. -/
def DoRead (inp : TXMLInputStream) (maxsize : Nat) : List Nat × TXMLInputStream :=
  if inp.EndOfFile then ([], inp)
  else
    let maxsize := if maxsize > inp.fInpStr.length then inp.fInpStr.length else maxsize
    (inp.fInpStr.take maxsize, { inp with fInpStr := inp.fInpStr.drop maxsize })

/-- The constructor `TXMLInputStream(false, str, ibufsize)`. -/
def ofString (str : List Nat) (ibufsize : Nat) (charSigned : Bool) (pastByte : Nat) :
    TXMLInputStream :=
  let inp : TXMLInputStream :=
    { fInpStr := str, fBuf := [], fBufSize := ibufsize, fLimitAddr := 0, fTotalPos := 0,
      fCurrentLine := 0, fEntities := [], fCurrent := 0, charSigned := charSigned,
      pastByte := pastByte }
  let r := inp.DoRead inp.fBufSize
  { r.2 with fBuf := r.1, fCurrent := 0, fLimitAddr := r.1.length * 3 / 4, fTotalPos := 0,
             fCurrentLine := 1 }

/-- `ExpandStream()`. -/
def ExpandStream (inp : TXMLInputStream) : Bool × TXMLInputStream :=
  if inp.EndOfFile then (false, inp)
  else
    let inp := { inp with fBufSize := inp.fBufSize * 2 }
    let curlength := inp.fBuf.length
    let r := inp.DoRead (inp.fBufSize - curlength)
    if r.1.length = 0 then (false, r.2)
    else (true, { r.2 with fBuf := inp.fBuf ++ r.1,
                           fLimitAddr := inp.fLimitAddr + r.1.length * 3 / 4 })

/-- `ShiftStream()` (its result is always `kTRUE`). -/
def ShiftStream (inp : TXMLInputStream) : TXMLInputStream :=
  if inp.fCurrent < inp.fLimitAddr then inp
  else if inp.EndOfFile then inp
  else
    let rest := inp.fBuf.drop inp.fCurrent
    let r := inp.DoRead (inp.fBufSize - rest.length)
    { r.2 with fBuf := rest ++ r.1, fCurrent := 0,
               fLimitAddr := (rest.length + r.1.length) * 3 / 4 }

/-- The loop of `ShiftCurrent`. -/
def ShiftCurrentLoop : Nat → TXMLInputStream → Bool × TXMLInputStream
  | 0, inp => (true, inp)
  | n + 1, inp =>
    let inp := if inp.deref inp.fCurrent = 10 then
      { inp with fCurrentLine := inp.fCurrentLine + 1 } else inp
    if inp.fCurrent ≥ inp.fLimitAddr then
      let inp := inp.ShiftStream
      if inp.fCurrent ≥ inp.fBuf.length then (false, inp)
      else ShiftCurrentLoop n { inp with fCurrent := inp.fCurrent + 1 }
    else ShiftCurrentLoop n { inp with fCurrent := inp.fCurrent + 1 }

/-- `ShiftCurrent(sz)`. -/
def ShiftCurrent (inp : TXMLInputStream) (sz : Nat := 1) : Bool × TXMLInputStream :=
  match ShiftCurrentLoop sz inp with
  | (false, inp) => (false, inp)
  | (true, inp) => (true, { inp with fTotalPos := inp.fTotalPos + sz })

/-- The bytes that can still be consumed: a bound for the loops over the input. -/
def avail (inp : TXMLInputStream) : Nat := inp.fBuf.length - inp.fCurrent + inp.fInpStr.length

/-- The loop of `SkipSpaces`. -/
def SkipSpacesLoop (tillendl : Bool) : Nat → TXMLInputStream → Bool × TXMLInputStream
  | 0, inp => (false, inp)
  | fuel + 1, inp =>
    if inp.fCurrent < inp.fBuf.length then
      let symb := inp.deref inp.fCurrent
      if inp.asChar symb > 26 ∧ symb ≠ 32 then (true, inp)
      else
        match inp.ShiftCurrent with
        | (false, inp) => (false, inp)
        | (true, inp) =>
          if tillendl ∧ symb = 10 then (true, inp) else SkipSpacesLoop tillendl fuel inp
    else (false, inp)

/-- `SkipSpaces(tillendl)`. -/
def SkipSpaces (inp : TXMLInputStream) (tillendl : Bool := false) : Bool × TXMLInputStream :=
  SkipSpacesLoop tillendl (inp.avail + 1) inp

/-- The loop `while (need > fMaxAddr) if (!ExpandStream()) return ...`: whether the buffer
now reaches the offset `need`. -/
def ExpandTo (need : Nat) : Nat → TXMLInputStream → Bool × TXMLInputStream
  | 0, inp => (decide (need ≤ inp.fBuf.length), inp)
  | fuel + 1, inp =>
    if need > inp.fBuf.length then
      match inp.ExpandStream with
      | (false, inp) => (false, inp)
      | (true, inp) => ExpandTo need fuel inp
    else (true, inp)

/-- `CheckFor(str)`. -/
def CheckFor (inp : TXMLInputStream) (str : List Nat) : Bool × TXMLInputStream :=
  match ExpandTo (inp.fCurrent + str.length) (inp.fInpStr.length + 1) inp with
  | (false, inp) => (false, inp)
  | (true, inp) =>
    if inp.slice inp.fCurrent str.length = str then inp.ShiftCurrent str.length
    else (false, inp)

/-- The loop of `SearchFor`, `curr` being the offset that was tried last. -/
def SearchForLoop (str : List Nat) : Nat → Nat → TXMLInputStream → Int × TXMLInputStream
  | 0, _, inp => (-1, inp)
  | fuel + 1, curr, inp =>
    let curr := curr + 1
    match ExpandTo (curr + str.length) (inp.fInpStr.length + 1) inp with
    | (false, inp) => (-1, inp)
    | (true, inp) =>
      if inp.slice curr str.length = str then ((curr : Int) - inp.fCurrent, inp)
      else if curr < inp.fBuf.length then SearchForLoop str fuel curr inp
      else (-1, inp)

/-- `SearchFor(str)`. -/
def SearchFor (inp : TXMLInputStream) (str : List Nat) : Int × TXMLInputStream :=
  SearchForLoop str (inp.avail + 1) inp.fCurrent inp

/-- `GoodStartSymbol(symb)` for an `unsigned char`. -/
def GoodStartSymbol (symb : Nat) : Bool :=
  (97 ≤ symb && symb ≤ 122) || (65 ≤ symb && symb ≤ 90) || symb == 95 ||
  (192 ≤ symb && symb ≤ 214) || (216 ≤ symb && symb ≤ 246) || symb > 248

/-- The test of `LocateIdentifier` for the bytes after the first. -/
def GoodNextSymbol (symb : Nat) : Bool :=
  GoodStartSymbol symb || (48 ≤ symb && symb ≤ 57) || symb == 58 || symb == 45 ||
  symb == 46 || symb == 183

/-- `if (curr>=fMaxAddr) if (!ExpandStream()) return ...`: `false` when the source returns. -/
def ExpandAt (inp : TXMLInputStream) (curr : Nat) : Bool × TXMLInputStream :=
  if curr ≥ inp.fBuf.length then inp.ExpandStream else (true, inp)

/-- The loop of `LocateIdentifier`. -/
def LocateIdentifierLoop : Nat → Nat → TXMLInputStream → Nat × TXMLInputStream
  | 0, _, inp => (0, inp)
  | fuel + 1, curr, inp =>
    let curr := curr + 1
    match inp.ExpandAt curr with
    | (false, inp) => (0, inp)
    | (true, inp) =>
      if !GoodNextSymbol (inp.deref curr) then (curr - inp.fCurrent, inp)
      else if curr < inp.fBuf.length then LocateIdentifierLoop fuel curr inp
      else (0, inp)

/-- `LocateIdentifier()`. -/
def LocateIdentifier (inp : TXMLInputStream) : Nat × TXMLInputStream :=
  if !GoodStartSymbol (inp.deref inp.fCurrent) then (0, inp)
  else LocateIdentifierLoop (inp.avail + 1) inp.fCurrent inp

/-- The loop of `LocateContent`. -/
def LocateContentLoop : Nat → Nat → TXMLInputStream → Int × TXMLInputStream
  | 0, _, inp => (-1, inp)
  | fuel + 1, curr, inp =>
    if curr < inp.fBuf.length then
      if inp.deref curr = 60 then ((curr : Int) - inp.fCurrent, inp)
      else
        match inp.ExpandAt (curr + 1) with
        | (false, inp) => (-1, inp)
        | (true, inp) => LocateContentLoop fuel (curr + 1) inp
    else (-1, inp)

/-- `LocateContent()`. -/
def LocateContent (inp : TXMLInputStream) : Int × TXMLInputStream :=
  LocateContentLoop (inp.avail + 1) inp.fCurrent inp

/-- The closing loop of `LocateValue`. -/
def LocateValueLoop (start quote : Nat) : Nat → Nat → TXMLInputStream → Nat × TXMLInputStream
  | 0, _, inp => (0, inp)
  | fuel + 1, curr, inp =>
    let curr := curr + 1
    match inp.ExpandAt curr with
    | (false, inp) => (0, inp)
    | (true, inp) =>
      if inp.deref curr = quote then (curr - start + 1, inp)
      else if curr < inp.fBuf.length then LocateValueLoop start quote fuel curr inp
      else (0, inp)

/-- The part of `LocateValue` from the test for the opening quote at `curr`. -/
def LocateValueQuoted (inp : TXMLInputStream) (start curr : Nat) : Nat × TXMLInputStream :=
  if inp.deref curr ≠ 34 ∧ inp.deref curr ≠ 39 then (0, inp)
  else LocateValueLoop start (inp.deref curr) (inp.avail + 1) curr inp

/-- `LocateValue(start, withequalsign)`. -/
def LocateValue (inp : TXMLInputStream) (start : Nat) (withequalsign : Bool := true) :
    Nat × TXMLInputStream :=
  match inp.ExpandAt start with
  | (false, inp) => (0, inp)
  | (true, inp) =>
    if withequalsign then
      if inp.deref start ≠ 61 then (0, inp)
      else
        match inp.ExpandAt (start + 1) with
        | (false, inp) => (0, inp)
        | (true, inp) => inp.LocateValueQuoted start (start + 1)
    else inp.LocateValueQuoted start start

end TXMLInputStream

/-! ## The parser -/

/-- The engine: `fSkipComments`, and what the source takes from its environment. -/
structure TXMLEngine where
  fSkipComments : Bool
  /-- platform: whether plain `char` is a signed type -/
  charSigned : Bool
  /-- the byte that lies just behind the data of an input buffer -/
  pastByte : Nat
  /-- the result of `ParseFile(filename)`: the file system is not part of the model -/
  ParseFile : List Nat → Option SXmlDoc_t

/-- How a call ends in the model. -/
inductive Outcome (α : Type) where
  /-- the call returns -/
  | done (a : α)
  /-- the fuel of the model did not suffice -/
  | outOfFuel
  /-- the call frees a node that is still linked into the tree -/
  | useAfterFree

/-- What `ReadNode` leaves behind: `resvalue`, the returned node, the parent after the call
(its children and its name can change) and the stream. -/
structure ReadResult where
  resvalue : Int
  node : Option SXmlNode_t
  parent : Option SXmlNode_t
  inp : TXMLInputStream

namespace TXMLEngine

/-- `AddChild(parent, child)` for a child without siblings: `child` becomes the last child. -/
def AddChild (parent child : SXmlNode_t) : SXmlNode_t :=
  SXmlNode_t.mk parent.fType parent.fName parent.fAttr parent.fNs (parent.fChild ++ [child])

/-- The effect of `AllocateNode(len, xmlparent)` on `xmlparent` once the node is filled:
`AddChild` when the parent is not null. -/
def attach (xmlparent : Option SXmlNode_t) (node : SXmlNode_t) : Option SXmlNode_t :=
  xmlparent.map fun parent => AddChild parent node

/-- `UnlinkNode(node)` for the node that is the last child of `parent`. -/
def UnlinkLast (parent : SXmlNode_t) : SXmlNode_t :=
  SXmlNode_t.mk parent.fType parent.fName parent.fAttr parent.fNs parent.fChild.dropLast

/-- `AddNodeContent(xmlnode, content, len)` with the `len` bytes `content`. -/
def AddNodeContent (xmlnode : SXmlNode_t) (content : List Nat) : SXmlNode_t :=
  AddChild xmlnode (SXmlNode_t.mk EXmlNodeType.kXML_CONTENT content [] none [])

/-- `FindNs(xmlnode, name)`, the list being `xmlnode` and its `fParent` chain. -/
def FindNs : List SXmlNode_t → List Nat → Option SXmlAttr_t
  | [], _ => none
  | node :: up, name =>
    match node.nsAttr with
    | some a => if a.nameFrom6 = name then some a else FindNs up name
    | none => FindNs up name

/-- The name that `TruncateNsExtension` leaves: the part behind the first colon, if any. -/
def truncatedName (name : List Nat) : List Nat :=
  if 58 ∈ name then (name.dropWhile fun b => b != 58).drop 1 else name

/-- `TruncateNsExtension(xmlnode)`. -/
def TruncateNsExtension (node : SXmlNode_t) : SXmlNode_t :=
  SXmlNode_t.mk node.fType (truncatedName node.fName) node.fAttr node.fNs node.fChild

/-- `if (node->fNs != nullptr) TruncateNsExtension(node)`. -/
def truncateIfNs (node : SXmlNode_t) : SXmlNode_t :=
  if node.fNs.isSome then TruncateNsExtension node else node

/-- `NewChild(nullptr, ns, name, content)`: the new node; it gets a Content child when
`content` is not null and not empty. -/
def NewChild (ns : Option NsPtr) (name : List Nat) (content : Option (List Nat)) : SXmlNode_t :=
  SXmlNode_t.mk EXmlNodeType.kXML_NODE name [] ns
    (match content with
     | some text =>
       if text.length > 0 then [SXmlNode_t.mk EXmlNodeType.kXML_CONTENT text [] none []] else []
     | none => [])

/-- `NewAttr(xmlnode, nullptr, name, value)`: the node after the call (the attribute is
appended to the list). -/
def NewAttr (xmlnode : SXmlNode_t) (name value : List Nat) : SXmlNode_t :=
  SXmlNode_t.mk xmlnode.fType xmlnode.fName (xmlnode.fAttr ++ [⟨name, value⟩]) xmlnode.fNs
    xmlnode.fChild

/-- `NewDoc(nullptr)`: the document with the synthetic root node only. -/
def NewDocNull : SXmlDoc_t :=
  { fRootNode := SXmlNode_t.mk EXmlNodeType.kXML_NODE (bytes "??DummyTopNode??") [] none [],
    fDtdName := none, fDtdRoot := none }

/-- The nodes that the loop after `DocGetRootElement(entitydoc)` moves: the first child of
type `kXML_NODE` and all its following siblings. -/
def entityNodes (doc : SXmlDoc_t) : List SXmlNode_t :=
  doc.fRootNode.fChild.dropWhile fun n => n.fType != EXmlNodeType.kXML_NODE

/-- The state of the entity scan of `ReadNode`: offsets into the text of the content node. -/
structure ScanState where
  beg : Option Nat
  lastentity : Option Nat
  /-- whether `UnlinkNode(contnode)` was called -/
  unlinked : Bool
  /-- whether `ParseFile` returned null (the scan ends with `resvalue = -14`) -/
  failed : Bool
  parent : SXmlNode_t

/-- The loop `while (*curr != 0)` over the text `contptr`; the first argument counts the
bytes from `curr` to the end. -/
def ScanEntities (eng : TXMLEngine) (inp : TXMLInputStream) (contptr : List Nat) :
    Nat → ScanState → ScanState
  | 0, st => st
  | n + 1, st =>
    let curr := contptr.length - (n + 1)
    let symb := contptr.getD curr 0
    let beg := if st.beg.isNone ∧ symb = 38 then some curr else st.beg
    match beg with
    | none => ScanEntities eng inp contptr n { st with beg := beg }
    | some b =>
      if symb ≠ 59 then ScanEntities eng inp contptr n { st with beg := beg }
      else
        let st : ScanState :=
          match inp.FindEntity ((contptr.drop (b + 1)).take (curr - b - 1)) with
          | none => st
          | some entity =>
            let st := if st.lastentity.isNone then
              { st with lastentity := some 0, unlinked := true, parent := UnlinkLast st.parent }
              else st
            let last := st.lastentity.getD 0
            let st := if last ≠ b then
              { st with parent := AddNodeContent st.parent ((contptr.drop last).take (b - last)) }
              else st
            if entity.fSystem then
              match eng.ParseFile entity.title with
              | none => { st with failed := true }
              | some entitydoc =>
                { st with parent := (entityNodes entitydoc).foldl AddChild st.parent }
            else { st with parent := AddNodeContent st.parent entity.title }
        if st.failed then st
        else ScanEntities eng inp contptr n { st with beg := none, lastentity := some (curr + 1) }

/-- The comment branch of `ReadNode`, entered after `CheckFor("<!--")` succeeded. -/
def ReadComment (eng : TXMLEngine) (xmlparent : Option SXmlNode_t) (inp : TXMLInputStream) :
    ReadResult :=
  match inp.SearchFor (bytes "-->") with
  | (commentlen, inp) =>
    if commentlen ≤ 0 then ⟨-10, none, xmlparent, inp⟩
    else
      let node : Option SXmlNode_t :=
        if !eng.fSkipComments then
          some (SXmlNode_t.mk EXmlNodeType.kXML_COMMENT
            (inp.slice inp.fCurrent commentlen.toNat) [] none [])
        else none
      let xmlparent := match node with
        | some n => attach xmlparent n
        | none => xmlparent
      match inp.ShiftCurrent (commentlen.toNat + 3) with
      | (false, inp) => ⟨-1, node, xmlparent, inp⟩
      | (true, inp) =>
        match inp.SkipSpaces with
        | (false, inp) => ⟨-1, node, xmlparent, inp⟩
        | (true, inp) => ⟨2, node, xmlparent, inp⟩

/-- The content branch of `ReadNode`, entered with `*inp->fCurrent != '<'`. -/
def ReadContent (eng : TXMLEngine) (xmlparent : Option SXmlNode_t) (inp : TXMLInputStream) :
    Outcome ReadResult :=
  match xmlparent with
  | none => Outcome.done ⟨-2, none, none, inp⟩
  | some parent =>
    match inp.LocateContent with
    | (contlen, inp) =>
      if contlen < 0 then Outcome.done ⟨0, none, some parent, inp⟩
      else
        let contptr := UnpackSpecialCharacters (inp.slice inp.fCurrent contlen.toNat)
        let contnode := SXmlNode_t.mk EXmlNodeType.kXML_CONTENT contptr [] none []
        let parent := AddChild parent contnode
        match inp.ShiftCurrent contlen.toNat with
        | (false, inp) => Outcome.done ⟨0, none, some parent, inp⟩
        | (true, inp) =>
          if inp.NumEntities ≤ 0 then Outcome.done ⟨2, some contnode, some parent, inp⟩
          else
            let st := ScanEntities eng inp contptr contptr.length ⟨none, none, false, false, parent⟩
            if st.failed then Outcome.done ⟨-14, some contnode, some st.parent, inp⟩
            else
              match st.lastentity with
              | none => Outcome.done ⟨2, some contnode, some st.parent, inp⟩
              | some last =>
                let parent := if (contptr.drop last).length > 0 then
                  AddNodeContent st.parent (contptr.drop last) else st.parent
                if st.unlinked then Outcome.done ⟨2, none, some parent, inp⟩
                else Outcome.useAfterFree

/-- The closing-tag branch of `ReadNode`, entered with `*inp->fCurrent == '/'`. -/
def ReadClosing (xmlparent : Option SXmlNode_t) (inp : TXMLInputStream) : ReadResult :=
  match inp.ShiftCurrent with
  | (false, inp) => ⟨0, none, xmlparent, inp⟩
  | (true, inp) =>
  match inp.SkipSpaces with
  | (false, inp) => ⟨0, none, xmlparent, inp⟩
  | (true, inp) =>
  match inp.LocateIdentifier with
  | (len, inp) =>
  if len ≤ 0 then ⟨-3, none, xmlparent, inp⟩
  else
  match xmlparent with
  | none => ⟨-4, none, none, inp⟩
  | some parent =>
  if parent.fName.take len ≠ inp.slice inp.fCurrent len then ⟨-5, none, some parent, inp⟩
  else
  match inp.ShiftCurrent len with
  | (false, inp) => ⟨0, none, some parent, inp⟩
  | (true, inp) =>
  match inp.SkipSpaces with
  | (false, inp) => ⟨0, none, some parent, inp⟩
  | (true, inp) =>
  if inp.deref inp.fCurrent ≠ 62 then ⟨0, none, some parent, inp⟩
  else
  match inp.ShiftCurrent with
  | (false, inp) => ⟨0, none, some parent, inp⟩
  | (true, inp) =>
  ⟨1, none, some (truncateIfNs parent), (inp.SkipSpaces true).2⟩

/-- One `<!ENTITY ...>` clause, entered after `CheckFor("<!ENTITY")` succeeded: `false` when
the source returns with `resvalue = -13`, and the stream at that point. -/
def ReadEntityClause (inp : TXMLInputStream) : Bool × TXMLInputStream :=
  match inp.SkipSpaces with
  | (false, inp) => (false, inp)
  | (true, inp) =>
  match inp.LocateIdentifier with
  | (namelen, inp) =>
  if namelen ≤ 0 then (false, inp)
  else
  let entity_name := inp.slice inp.fCurrent namelen
  match inp.ShiftCurrent namelen with
  | (false, inp) => (false, inp)
  | (true, inp) =>
  match inp.SkipSpaces with
  | (false, inp) => (false, inp)
  | (true, inp) =>
  let sys : Bool × Bool × TXMLInputStream :=
    match inp.CheckFor (bytes "SYSTEM") with
    | (true, inp) =>
      match inp.SkipSpaces with
      | (false, inp) => (false, true, inp)
      | (true, inp) => (true, true, inp)
    | (false, inp) => (true, false, inp)
  match sys with
  | (false, _, inp) => (false, inp)
  | (true, is_system, inp) =>
  let valuestart := inp.fCurrent
  match inp.LocateValue valuestart false with
  | (valuelen, inp) =>
  if valuelen < 2 then (false, inp)
  else
  let entity_value := inp.slice (valuestart + 1) (valuelen - 2)
  match inp.ShiftCurrent valuelen with
  | (false, inp) => (false, inp)
  | (true, inp) =>
  let inp := inp.SkipSpaces.2
  if inp.deref inp.fCurrent ≠ 62 then (false, inp)
  else
  match inp.ShiftCurrent with
  | (false, inp) => (false, inp)
  | (true, inp) =>
  let inp := inp.SkipSpaces.2
  (true, inp.AddEntity ⟨entity_name, entity_value, is_system⟩)

/-- One `<!ELEMENT ...>` clause, entered after `CheckFor("<!ELEMENT")` succeeded: `false` when
the source returns with `resvalue = -13`, and the stream at that point. -/
def ReadElementClause (inp : TXMLInputStream) : Bool × TXMLInputStream :=
  match inp.SkipSpaces with
  | (false, inp) => (false, inp)
  | (true, inp) =>
  match inp.LocateIdentifier with
  | (namelen, inp) =>
  if namelen ≤ 0 then (false, inp)
  else
  match inp.ShiftCurrent namelen with
  | (false, inp) => (false, inp)
  | (true, inp) =>
  match inp.SkipSpaces with
  | (false, inp) => (false, inp)
  | (true, inp) =>
  match inp.CheckFor (bytes "(") with
  | (false, inp) => (false, inp)
  | (true, inp) =>
  match inp.SearchFor (bytes ")") with
  | (found, inp) =>
  if found ≤ 0 then (false, inp)
  else
  let inp := inp.SkipSpaces.2
  if inp.deref inp.fCurrent ≠ 62 then (false, inp)
  else
  match inp.ShiftCurrent with
  | (false, inp) => (false, inp)
  | (true, inp) => (true, inp.SkipSpaces.2)

/-- The loop `while (true)` over the clauses between `[` and `]`: `true` and the stream at
the first position that starts no clause, or `false` for a return with `resvalue = -13`. -/
def ReadDtdClauses : Nat → TXMLInputStream → Outcome (Bool × TXMLInputStream)
  | 0, _ => Outcome.outOfFuel
  | fuel + 1, inp =>
    match inp.CheckFor (bytes "<!ENTITY") with
    | (true, inp) =>
      match ReadEntityClause inp with
      | (false, inp) => Outcome.done (false, inp)
      | (true, inp) => ReadDtdClauses fuel inp
    | (false, inp) =>
      match inp.CheckFor (bytes "<!ELEMENT") with
      | (true, inp) =>
        match ReadElementClause inp with
        | (false, inp) => Outcome.done (false, inp)
        | (true, inp) => ReadDtdClauses fuel inp
      | (false, inp) => Outcome.done (true, inp)

/-- The end of the DTD branch: `inp->SkipSpaces(); if (!inp->CheckFor(">")) ...`. -/
def ReadDtdEnd (xmlparent : Option SXmlNode_t) (inp : TXMLInputStream) : ReadResult :=
  match inp.SkipSpaces.2.CheckFor (bytes ">") with
  | (false, inp) => ⟨-13, none, xmlparent, inp⟩
  | (true, inp) => ⟨2, none, xmlparent, inp⟩

/-- The DTD branch of `ReadNode`, entered with `*inp->fCurrent == '!'`. -/
def ReadDtd (xmlparent : Option SXmlNode_t) (inp : TXMLInputStream) : Outcome ReadResult :=
  match inp.ShiftCurrent with
  | (false, inp) => Outcome.done ⟨0, none, xmlparent, inp⟩
  | (true, inp) =>
  match inp.CheckFor (bytes "DOCTYPE") with
  | (false, inp) => Outcome.done ⟨-12, none, xmlparent, inp⟩
  | (true, inp) =>
  match inp.SkipSpaces with
  | (false, inp) => Outcome.done ⟨-13, none, xmlparent, inp⟩
  | (true, inp) =>
  match inp.LocateIdentifier with
  | (len, inp) =>
  if len ≤ 0 then Outcome.done ⟨-13, none, xmlparent, inp⟩
  else
  match inp.ShiftCurrent len with
  | (false, inp) => Outcome.done ⟨-13, none, xmlparent, inp⟩
  | (true, inp) =>
  match inp.SkipSpaces with
  | (false, inp) => Outcome.done ⟨-13, none, xmlparent, inp⟩
  | (true, inp) =>
  match inp.CheckFor (bytes "[") with
  | (false, inp) => Outcome.done (ReadDtdEnd xmlparent inp)
  | (true, inp) =>
    match inp.SkipSpaces with
    | (false, inp) => Outcome.done ⟨0, none, xmlparent, inp⟩
    | (true, inp) =>
      match ReadDtdClauses (inp.avail + 1) inp with
      | Outcome.outOfFuel => Outcome.outOfFuel
      | Outcome.useAfterFree => Outcome.useAfterFree
      | Outcome.done (false, inp) => Outcome.done ⟨-13, none, xmlparent, inp⟩
      | Outcome.done (true, inp) =>
        match inp.CheckFor (bytes "]") with
        | (false, inp) => Outcome.done ⟨-13, none, xmlparent, inp⟩
        | (true, inp) => Outcome.done (ReadDtdEnd xmlparent inp)

/-- What the attribute loop of `ReadNode` carries: the node under construction and `resvalue`. -/
structure OpenTag where
  node : SXmlNode_t
  resvalue : Int
  canhaschildren : Bool
  endsymbol : Nat

/-- One attribute of the open tag (the last branch of the attribute loop): the tag after
it, or the error return (`false`) with `resvalue`. -/
def ReadAttr (tag : OpenTag) (inp : TXMLInputStream) : Bool × OpenTag × TXMLInputStream :=
  match inp.LocateIdentifier with
  | (attrlen, inp) =>
  if attrlen ≤ 0 then (false, { tag with resvalue := -6 }, inp)
  else
  let valuestart := inp.fCurrent + attrlen
  match inp.LocateValue valuestart true with
  | (valuelen, inp) =>
  if valuelen < 3 then (false, { tag with resvalue := -7 }, inp)
  else
  let attrname := inp.slice inp.fCurrent attrlen
  let attr : SXmlAttr_t :=
    ⟨attrname, UnpackSpecialCharacters (inp.slice (valuestart + 2) (valuelen - 3))⟩
  let node := tag.node
  let node := SXmlNode_t.mk node.fType node.fName (node.fAttr ++ [attr]) node.fNs node.fChild
  match inp.ShiftCurrent (attrlen + valuelen) with
  | (false, inp) => (false, { tag with node := node }, inp)
  | (true, inp) =>
    if attrname.length > 6 ∧ attrname.take 6 = bytes "xmlns:" then
      let resvalue := if node.fName ≠ attrname.drop 6 then -8 else tag.resvalue
      let resvalue := if node.fNs.isSome then -9 else resvalue
      let node := SXmlNode_t.mk node.fType node.fName node.fAttr
        (some (NsPtr.own (node.fAttr.length - 1))) node.fChild
      (true, { tag with node := node, resvalue := resvalue }, inp)
    else (true, { tag with node := node }, inp)

/-- The head of an element or processing instruction, from behind the `<` up to the
identifier: the new node with its name and namespace, or the error return (`none`). -/
def ReadOpenTag (up : List SXmlNode_t) (xmlparent : Option SXmlNode_t) (inp : TXMLInputStream) :
    Option OpenTag × TXMLInputStream :=
  let pi := inp.deref inp.fCurrent = 63
  match (if pi then inp.ShiftCurrent else (true, inp)) with
  | (false, inp) => (none, inp)
  | (true, inp) =>
  match inp.SkipSpaces with
  | (false, inp) => (none, inp)
  | (true, inp) =>
  match inp.LocateIdentifier with
  | (len, inp) =>
  if len ≤ 0 then (none, inp)
  else
  let name := inp.slice inp.fCurrent len
  let fNs : Option NsPtr :=
    match xmlparent with
    | some parent =>
      if 58 ∈ name then
        (FindNs (parent :: up) (name.takeWhile fun b => b != 58)).map NsPtr.outer
      else none
    | none => none
  let nodetype := if pi then EXmlNodeType.kXML_PI_NODE else EXmlNodeType.kXML_NODE
  (some ⟨SXmlNode_t.mk nodetype name [] fNs [], 0, !pi, if pi then 63 else 47⟩, inp)

/-- What one round of the attribute loop of `ReadNode` leads to. -/
inductive TagStep where
  /-- `ReadNode` returns -/
  | ret (r : ReadResult)
  /-- an attribute was read: the loop goes on -/
  | more (tag : OpenTag) (inp : TXMLInputStream)
  /-- the `>` of an open tag was passed: the children are read next -/
  | children (inp : TXMLInputStream)

/-- One round of the attribute loop of `ReadNode`, up to the loop over the children. -/
def ReadTagStep (xmlparent : Option SXmlNode_t) (tag : OpenTag) (inp : TXMLInputStream) :
    TagStep :=
  match inp.SkipSpaces with
  | (false, inp) => TagStep.ret ⟨tag.resvalue, none, attach xmlparent tag.node, inp⟩
  | (true, inp) =>
  let nextsymb := inp.deref inp.fCurrent
  if nextsymb = tag.endsymbol then
    match inp.ShiftCurrent with
    | (false, inp) => TagStep.ret ⟨tag.resvalue, none, attach xmlparent tag.node, inp⟩
    | (true, inp) =>
      if inp.deref inp.fCurrent = 62 then
        match inp.ShiftCurrent with
        | (false, inp) => TagStep.ret ⟨tag.resvalue, none, attach xmlparent tag.node, inp⟩
        | (true, inp) =>
          let node := truncateIfNs tag.node
          TagStep.ret ⟨2, some node, attach xmlparent node, (inp.SkipSpaces true).2⟩
      else TagStep.ret ⟨tag.resvalue, none, attach xmlparent tag.node, inp⟩
  else if nextsymb = 62 then
    if !tag.canhaschildren then TagStep.ret ⟨-11, none, attach xmlparent tag.node, inp⟩
    else
      match inp.ShiftCurrent with
      | (false, inp) => TagStep.ret ⟨tag.resvalue, none, attach xmlparent tag.node, inp⟩
      | (true, inp) => TagStep.children inp
  else
    match ReadAttr tag inp with
    | (false, tag, inp) => TagStep.ret ⟨tag.resvalue, none, attach xmlparent tag.node, inp⟩
    | (true, tag, inp) => TagStep.more tag inp

/-- The `fParent` chain of a new child of `xmlparent`. -/
def chainOf (xmlparent : Option SXmlNode_t) (up : List SXmlNode_t) : List SXmlNode_t :=
  match xmlparent with
  | some parent => parent :: up
  | none => up

/-- The end of `ReadNode` after the loop over the children, `r` being what the last call
for a child left: `if (resvalue==1) { resvalue = 2; return node; } else return nullptr;`. -/
def ReadNodeClosed (xmlparent : Option SXmlNode_t) (tag : OpenTag) (r : ReadResult) :
    ReadResult :=
  let node := r.parent.getD tag.node
  if r.resvalue = 1 then ⟨2, some node, attach xmlparent node, r.inp⟩
  else ⟨r.resvalue, none, attach xmlparent node, r.inp⟩

/-- The dispatch of `ReadNode` up to the open tag. -/
inductive NodeStart where
  /-- `ReadNode` returns -/
  | ret (r : Outcome ReadResult)
  /-- the name of an element or processing instruction was read -/
  | tag (tag : OpenTag) (inp : TXMLInputStream)

/-- `ReadNode` from its start up to the attribute loop. -/
def ReadNodeStart (eng : TXMLEngine) (up : List SXmlNode_t) (xmlparent : Option SXmlNode_t)
    (inp : TXMLInputStream) : NodeStart :=
  match inp.SkipSpaces with
  | (false, inp) => NodeStart.ret (Outcome.done ⟨-1, none, xmlparent, inp⟩)
  | (true, inp) =>
  match inp.CheckFor (bytes "<!--") with
  | (true, inp) => NodeStart.ret (Outcome.done (ReadComment eng xmlparent inp))
  | (false, inp) =>
  if inp.deref inp.fCurrent ≠ 60 then NodeStart.ret (ReadContent eng xmlparent inp)
  else
  match inp.ShiftCurrent with
  | (false, inp) => NodeStart.ret (Outcome.done ⟨0, none, xmlparent, inp⟩)
  | (true, inp) =>
  if inp.deref inp.fCurrent = 47 then NodeStart.ret (Outcome.done (ReadClosing xmlparent inp))
  else if inp.deref inp.fCurrent = 33 then NodeStart.ret (ReadDtd xmlparent inp)
  else
  match ReadOpenTag up xmlparent inp with
  | (none, inp) => NodeStart.ret (Outcome.done ⟨0, none, xmlparent, inp⟩)
  | (some tag, inp) =>
    match inp.ShiftCurrent tag.node.fName.length with
    | (false, inp) => NodeStart.ret (Outcome.done ⟨0, none, attach xmlparent tag.node, inp⟩)
    | (true, inp) => NodeStart.tag tag inp

mutual
/-- `ReadNode(xmlparent, inp, resvalue)`; `up` is the `fParent` chain above `xmlparent`. -/
def ReadNode (eng : TXMLEngine) :
    Nat → List SXmlNode_t → Option SXmlNode_t → TXMLInputStream → Outcome ReadResult
  | 0, _, _, _ => Outcome.outOfFuel
  | fuel + 1, up, xmlparent, inp =>
    match ReadNodeStart eng up xmlparent inp with
    | NodeStart.ret r => r
    | NodeStart.tag tag inp => ReadNodeAttrs eng fuel up xmlparent tag inp
/-- The attribute loop `do { ... } while (true)` of `ReadNode`. -/
def ReadNodeAttrs (eng : TXMLEngine) :
    Nat → List SXmlNode_t → Option SXmlNode_t → OpenTag → TXMLInputStream → Outcome ReadResult
  | 0, _, _, _, _ => Outcome.outOfFuel
  | fuel + 1, up, xmlparent, tag, inp =>
    match ReadTagStep xmlparent tag inp with
    | TagStep.ret r => Outcome.done r
    | TagStep.more tag inp => ReadNodeAttrs eng fuel up xmlparent tag inp
    | TagStep.children inp =>
      match ReadNodeChildren eng fuel (chainOf xmlparent up) tag.node inp with
      | Outcome.outOfFuel => Outcome.outOfFuel
      | Outcome.useAfterFree => Outcome.useAfterFree
      | Outcome.done r => Outcome.done (ReadNodeClosed xmlparent tag r)
/-- The loop `do { ReadNode(node, inp, resvalue); } while (resvalue==2);`: the result of the
last call. -/
def ReadNodeChildren (eng : TXMLEngine) :
    Nat → List SXmlNode_t → SXmlNode_t → TXMLInputStream → Outcome ReadResult
  | 0, _, _, _ => Outcome.outOfFuel
  | fuel + 1, up, node, inp =>
    match ReadNode eng fuel up (some node) inp with
    | Outcome.outOfFuel => Outcome.outOfFuel
    | Outcome.useAfterFree => Outcome.useAfterFree
    | Outcome.done r =>
      if r.resvalue = 2 then ReadNodeChildren eng fuel up (r.parent.getD node) r.inp
      else Outcome.done r
end

/-- How `ParseString`, `ParseStream` and `ReadSingleNode` end. -/
inductive ParseResult (α : Type) where
  /-- the non-null result -/
  | ok (a : α)
  /-- a null result after `DisplayError(error, linenumber)` -/
  | error (error : Int) (linenumber : Nat)
  /-- a null result without a call of `DisplayError` -/
  | null
  /-- the fuel of the model did not suffice -/
  | outOfFuel
  /-- the call frees a node that is still linked into the tree -/
  | useAfterFree
deriving DecidableEq

/-- The loop of `ParseStream` over the top-level nodes. -/
def ParseStreamLoop (eng : TXMLEngine) :
    Nat → SXmlNode_t → TXMLInputStream → ParseResult SXmlDoc_t
  | 0, _, _ => ParseResult.outOfFuel
  | fuel + 1, root, inp =>
    match ReadNode eng fuel [] (some root) inp with
    | Outcome.outOfFuel => ParseResult.outOfFuel
    | Outcome.useAfterFree => ParseResult.useAfterFree
    | Outcome.done r =>
      if r.resvalue ≠ 2 then ParseResult.error r.resvalue r.inp.fCurrentLine
      else
        let root := r.parent.getD root
        let inp := if !r.inp.EndOfStream then r.inp.SkipSpaces.2 else r.inp
        if inp.EndOfStream then ParseResult.ok { NewDocNull with fRootNode := root }
        else ParseStreamLoop eng fuel root inp

/-- `ParseStream(inp)` for a non-null stream. -/
def ParseStream (eng : TXMLEngine) (inp : TXMLInputStream) : ParseResult SXmlDoc_t :=
  ParseStreamLoop eng (2 * inp.avail + 4) NewDocNull.fRootNode inp

/-- `ParseString(xmlstring)` for a non-null string. -/
def ParseString (eng : TXMLEngine) (xmlstring : List Nat) : ParseResult SXmlDoc_t :=
  if xmlstring.length = 0 then ParseResult.null
  else ParseStream eng
    (TXMLInputStream.ofString xmlstring (2 * xmlstring.length) eng.charSigned eng.pastByte)

/-- `ReadSingleNode(src)` for a non-null string. -/
def ReadSingleNode (eng : TXMLEngine) (src : List Nat) : ParseResult SXmlNode_t :=
  let inp := TXMLInputStream.ofString src 10000 eng.charSigned eng.pastByte
  match ReadNode eng (2 * inp.avail + 4) [] none inp with
  | Outcome.outOfFuel => ParseResult.outOfFuel
  | Outcome.useAfterFree => ParseResult.useAfterFree
  | Outcome.done r =>
    if r.resvalue ≤ 0 then ParseResult.error r.resvalue r.inp.fCurrentLine
    else
      match r.node with
      | some node => ParseResult.ok node
      | none => ParseResult.null

end TXMLEngine

/-! ## The text that the serializer writes -/

namespace TXMLOutputStream

/-- A sink on which a text of up to `k` bytes can be written: a file sink, or a string
sink whose pending bytes are within the soft limit and whose capacity leaves room for `k`
bytes behind the soft limit. -/
def roomFor (out : TXMLOutputStream) (k : Nat) : Prop :=
  out.fOut = true ∨ (out.fBuf.length ≤ out.fLimitAddr ∧ out.fLimitAddr + k < out.fMaxAddr)

instance (out : TXMLOutputStream) (k : Nat) : Decidable (out.roomFor k) := by
  unfold roomFor; infer_instance

/-- The sink `out2` is the sink `out1` after `text` was written to it. -/
def Extends (out1 out2 : TXMLOutputStream) (text : List Nat) : Prop :=
  out2.written = out1.written ++ text ∧ out2.fOut = out1.fOut ∧
  out2.fMaxAddr = out1.fMaxAddr ∧ out2.fLimitAddr = out1.fLimitAddr ∧
  (out1.fBuf.length ≤ out1.fLimitAddr → out2.fBuf.length ≤ out2.fLimitAddr)

/-- The call with the result `r` succeeds on the sink `out` and writes `text`. -/
def Writes (r : Option TXMLOutputStream) (out : TXMLOutputStream) (text : List Nat) : Prop :=
  ∃ out2, r = some out2 ∧ Extends out out2 text

end TXMLOutputStream

namespace TXMLEngine

/-- The entity that stands for a byte in the output of `OutputValue`, or the byte itself. -/
def escapeByte (symb : Nat) : List Nat :=
  if symb = 60 then bytes "&lt;"
  else if symb = 62 then bytes "&gt;"
  else if symb = 38 then bytes "&amp;"
  else if symb = 34 then bytes "&quot;"
  else [symb]

/-- The text that `OutputValue` writes for a value. -/
def escapeText : List Nat → List Nat
  | [] => []
  | symb :: rest => escapeByte symb ++ escapeText rest

/-- The text of the attribute loop of `SaveNode`. -/
def attrsText : List SXmlAttr_t → List Nat
  | [] => []
  | attr :: rest =>
    32 :: attr.name ++ bytes "=\"" ++ escapeText attr.value ++ [34] ++ attrsText rest

/-- The namespace text in front of the name in a tag. -/
def nsText (node : SXmlNode_t) : List Nat :=
  match node.nsAttr with
  | some a => if node.nsNotFirst then a.nameFrom6 ++ [58] else []
  | none => []

/-- The text up to the end of the attributes: `<`, `?` for a processing instruction, the
namespace, the name and the attributes. -/
def openText (node : SXmlNode_t) : List Nat :=
  60 :: (if node.fType = EXmlNodeType.kXML_PI_NODE then [63] else []) ++ nsText node ++
    node.fName ++ attrsText node.fAttr

/-- The closing tag. -/
def closeText (node : SXmlNode_t) : List Nat :=
  bytes "</" ++ nsText node ++ node.fName ++ [62]

/-- The indentation that `Put(' ', level)` writes when the layout is on. -/
def indent (lay : Bool) (level : Nat) : List Nat := if lay then List.replicate level 32 else []

/-- The newline that `Put('\n')` writes when the layout is on. -/
def newline (lay : Bool) : List Nat := if lay then [10] else []

/-- The text of a comment, a raw line or a content node behind its indentation. -/
def specialText (lay : Bool) (node : SXmlNode_t) : List Nat :=
  if node.fType = EXmlNodeType.kXML_COMMENT then
    bytes "<!--" ++ node.fName ++ bytes "-->" ++ newline lay
  else node.fName ++ newline lay

/-- The end of a tag without children. -/
def singleLineText (lay : Bool) (node : SXmlNode_t) : List Nat :=
  (if node.fType = EXmlNodeType.kXML_PI_NODE then bytes "?>" else bytes "/>") ++ newline lay

mutual
/-- The text that `SaveNode(node, out, layout, level)` writes; `lay` is `layout > 0`. -/
def nodeText (lay : Bool) : Nat → SXmlNode_t → List Nat
  | level, SXmlNode_t.mk fType fName fAttr fNs fChild =>
    if isSpecial fType then
      indent lay level ++ specialText lay (SXmlNode_t.mk fType fName fAttr fNs fChild)
    else
      indent lay level ++ openText (SXmlNode_t.mk fType fName fAttr fNs fChild) ++
      match fChild with
      | [] => singleLineText lay (SXmlNode_t.mk fType fName fAttr fNs fChild)
      | child :: next =>
        62 ::
        (if child.fType = EXmlNodeType.kXML_CONTENT ∧ next.isEmpty then child.fName
         else newline lay ++ childrenText lay (level + 2) (child :: next) ++ indent lay level) ++
        closeText (SXmlNode_t.mk fType fName fAttr fNs fChild) ++ newline lay
/-- The text of the loop over the children. -/
def childrenText (lay : Bool) : Nat → List SXmlNode_t → List Nat
  | _, [] => []
  | level, child :: next => nodeText lay level child ++ childrenText lay level next
end

/-- The longest text that `SaveNodeAttrs` hands to `Write` in one call. -/
def attrsWidest : List SXmlAttr_t → Nat
  | [] => 0
  | attr :: rest => max attr.name.length (max attr.value.length (attrsWidest rest))

mutual
/-- A bound for the texts that `SaveNode` hands to `Write` in one call (the literals of the
source have up to 6 bytes). -/
def widest : SXmlNode_t → Nat
  | SXmlNode_t.mk fType fName fAttr fNs fChild =>
    max 6 (max fName.length (max (attrsWidest fAttr)
      (max (nsText (SXmlNode_t.mk fType fName fAttr fNs fChild)).length (widestList fChild))))
/-- The bound for a list of nodes. -/
def widestList : List SXmlNode_t → Nat
  | [] => 0
  | child :: next => max (widest child) (widestList next)
end

end TXMLEngine

/-! ## The layout rule of the specification -/

namespace TXMLEngine

mutual
/-- The output of the serializer for a node at nesting depth `depth`, as the specification
describes it for `layout > 0`, cut into pieces: a piece tagged `true` is white space of the
serializer's own (the `2*depth` spaces in front of a node's opening text or of its close tag,
the newline behind a construct), a piece tagged `false` is text of the node.  A lone
`Content` child is part of the text of its parent. -/
def layoutPieces : Nat → SXmlNode_t → List (Bool × List Nat)
  | depth, SXmlNode_t.mk fType fName fAttr fNs fChild =>
    if isSpecial fType then
      [(true, List.replicate (2 * depth) 32),
       (false, specialText false (SXmlNode_t.mk fType fName fAttr fNs fChild)), (true, [10])]
    else
      match fChild with
      | [] =>
        [(true, List.replicate (2 * depth) 32),
         (false, openText (SXmlNode_t.mk fType fName fAttr fNs fChild) ++
           singleLineText false (SXmlNode_t.mk fType fName fAttr fNs fChild)), (true, [10])]
      | child :: next =>
        if child.fType = EXmlNodeType.kXML_CONTENT ∧ next.isEmpty then
          [(true, List.replicate (2 * depth) 32),
           (false, openText (SXmlNode_t.mk fType fName fAttr fNs fChild) ++ [62] ++
             child.fName ++ closeText (SXmlNode_t.mk fType fName fAttr fNs fChild)),
           (true, [10])]
        else
          [(true, List.replicate (2 * depth) 32),
           (false, openText (SXmlNode_t.mk fType fName fAttr fNs fChild) ++ [62]), (true, [10])] ++
          layoutPiecesList (depth + 1) (child :: next) ++
          [(true, List.replicate (2 * depth) 32),
           (false, closeText (SXmlNode_t.mk fType fName fAttr fNs fChild)), (true, [10])]
/-- The pieces of a sequence of siblings. -/
def layoutPiecesList : Nat → List SXmlNode_t → List (Bool × List Nat)
  | _, [] => []
  | depth, child :: next => layoutPieces depth child ++ layoutPiecesList depth next
end

/-- All pieces in order: the output for `layout > 0`. -/
def layoutOn : List (Bool × List Nat) → List Nat
  | [] => []
  | p :: ps => p.2 ++ layoutOn ps

/-- The pieces without the white space of the serializer: the output for `layout <= 0`. -/
def layoutOff : List (Bool × List Nat) → List Nat
  | [] => []
  | p :: ps => (if p.1 then [] else p.2) ++ layoutOff ps

end TXMLEngine

/-! ## Streams that hold all of their source -/

namespace TXMLInputStream

/-- The whole source has been read into the buffer (as after `ParseString`, and after
`ReadSingleNode` for a source of up to 10000 bytes). -/
def Buffered (inp : TXMLInputStream) : Prop :=
  inp.fInpStr = [] ∧ inp.fLimitAddr ≤ inp.fBuf.length

/-- The buffered bytes from the read position on. -/
def rest (inp : TXMLInputStream) : List Nat := inp.fBuf.drop inp.fCurrent

/-- The stream after `n` bytes were consumed: the position, the total position and the
line count move on. -/
def advance (inp : TXMLInputStream) (n : Nat) : TXMLInputStream :=
  { inp with fCurrent := inp.fCurrent + n, fTotalPos := inp.fTotalPos + n,
             fCurrentLine := inp.fCurrentLine + (inp.rest.take n).count 10 }

/-- The bytes that `SkipSpaces` passes over: the `char` is not above 26, or it is a blank. -/
def isSpace (inp : TXMLInputStream) (b : Nat) : Bool :=
  !(decide (inp.asChar b > 26) && b != 32)

end TXMLInputStream

/-! ## The trees that the round trip is proved for -/

namespace TXMLEngine

/-- The test of `SkipSpaces` on a platform with signed (`true`) or unsigned plain `char`. -/
def spaceByte (charSigned : Bool) (b : Nat) : Bool :=
  !(decide ((if b ≥ 128 ∧ charSigned then (b : Int) - 256 else (b : Int)) > 26) && b != 32)

/-- A name that the parser reads back as it stands: an identifier of `LocateIdentifier`
whose first byte `SkipSpaces` does not pass over (on a platform with signed `char` the
first byte is below 128). -/
def isName (charSigned : Bool) : List Nat → Bool
  | [] => false
  | n0 :: ns =>
    TXMLInputStream.GoodStartSymbol n0 && !spaceByte charSigned n0 &&
      ns.all TXMLInputStream.GoodNextSymbol

/-- An attribute that the parser reads back as it stands: its name is a name, and it is
not taken for a namespace declaration (longer than 6 bytes and starting with `xmlns:`). -/
def plainAttr (charSigned : Bool) (attr : SXmlAttr_t) : Bool :=
  isName charSigned attr.name &&
    !(decide (attr.name.length > 6) && attr.name.take 6 == bytes "xmlns:")

/-- A text that the parser reads as one Content node: not empty, no `<`, and the first
byte is not one that `SkipSpaces` passes over. -/
def plainText (charSigned : Bool) : List Nat → Bool
  | [] => false
  | c0 :: cs => !spaceByte charSigned c0 && !(c0 :: cs).contains 60

/-- The children are a single Content node with a plain text. -/
def loneContent (charSigned : Bool) : List SXmlNode_t → Bool
  | [child] =>
    child.fType == EXmlNodeType.kXML_CONTENT && plainText charSigned child.fName &&
      child.fAttr.isEmpty && child.fNs.isNone && child.fChild.isEmpty
  | _ => false

mutual
/-- An element as the tree interface builds it without namespaces (`NewChild`, `NewAttr`),
with names and attributes that the parser reads back, whose children are either a single
Content node with a plain text or elements of the same kind. -/
def plain (charSigned : Bool) : SXmlNode_t → Bool
  | SXmlNode_t.mk fType fName fAttr fNs fChild =>
    fType == EXmlNodeType.kXML_NODE && fNs.isNone && isName charSigned fName &&
      fAttr.all (plainAttr charSigned) &&
      (loneContent charSigned fChild || plainList charSigned fChild)
/-- All nodes of the list are plain elements. -/
def plainList (charSigned : Bool) : List SXmlNode_t → Bool
  | [] => true
  | child :: next => plain charSigned child && plainList charSigned next
end

mutual
/-- The tree with `UnpackSpecialCharacters` applied to the text of every Content node: what
the parser stores for the text it reads. -/
def unpacked : SXmlNode_t → SXmlNode_t
  | SXmlNode_t.mk fType fName fAttr fNs fChild =>
    SXmlNode_t.mk fType
      (if fType = EXmlNodeType.kXML_CONTENT then UnpackSpecialCharacters fName else fName)
      fAttr fNs (unpackedList fChild)
/-- The list of the unpacked nodes. -/
def unpackedList : List SXmlNode_t → List SXmlNode_t
  | [] => []
  | child :: next => unpacked child :: unpackedList next
end

mutual
/-- Fuel that suffices for `ReadNode` on the text of a node. -/
def fuelNeed : SXmlNode_t → Nat
  | SXmlNode_t.mk _ _ fAttr _ fChild => 2 + fAttr.length + childrenNeed fChild
/-- Fuel that suffices for the loop over the children and the closing tag. -/
def childrenNeed : List SXmlNode_t → Nat
  | [] => 2
  | child :: next => 1 + fuelNeed child + childrenNeed next
end

end TXMLEngine

/-! ## Namespace declarations and the attribute interface -/

namespace TXMLEngine

/-- The test of the attribute loop for a namespace declaration:
`(attrlen > 6) && (strncmp(attrname, "xmlns:", 6) == 0)`. -/
def isNsName (attrname : List Nat) : Bool :=
  decide (attrname.length > 6) && attrname.take 6 == bytes "xmlns:"

/-- The namespace pointer of a node after the attribute loop has read `attrs`, when it was
`ns` before and the node had `seen` attributes: every `xmlns:` attribute takes the slot. -/
def slotAfter (ns : Option NsPtr) (seen : Nat) : List SXmlAttr_t → Option NsPtr
  | [] => ns
  | attr :: attrs =>
    slotAfter (if isNsName attr.name then some (NsPtr.own seen) else ns) (seen + 1) attrs

/-- The namespace pointer that `ReadNode` gives to a new node with the name `name` before
its attributes are read: `FindNs(xmlparent, name before the colon)`. -/
def openNs (up : List SXmlNode_t) (xmlparent : Option SXmlNode_t) (name : List Nat) :
    Option NsPtr :=
  match xmlparent with
  | some parent =>
    if 58 ∈ name then
      (FindNs (parent :: up) (name.takeWhile fun b => b != 58)).map NsPtr.outer
    else none
  | none => none

/-- `GetFirstAttr(xmlnode)` for a node that is not null. An attribute pointer is the list
from that attribute on (`fNext` is the tail), the null pointer is the empty list. -/
def GetFirstAttr (node : SXmlNode_t) : List SXmlAttr_t :=
  match node.fAttr with
  | [] => []
  | attr :: next => if node.fNs = some (NsPtr.own 0) then next else attr :: next

/-- `GetNextAttr(xmlattr)`. -/
def GetNextAttr (xmlattr : List SXmlAttr_t) : List SXmlAttr_t :=
  match xmlattr with
  | [] => []
  | _ :: next => next

/-- The attributes that the loop
`for (attr = GetFirstAttr(node); attr != nullptr; attr = GetNextAttr(attr))` visits. -/
def attrsVisited : Nat → List SXmlAttr_t → List SXmlAttr_t
  | 0, _ => []
  | fuel + 1, xmlattr =>
    match xmlattr with
    | [] => []
    | attr :: _ => attr :: attrsVisited fuel (GetNextAttr xmlattr)

/-- `NewNS(xmlnode, reference, name)`: the node after the call. A null `name` stands for
the name of the node; the new attribute becomes the first of the list and `fNs` points to
it. -/
def NewNS (xmlnode : SXmlNode_t) (reference : List Nat) (name : Option (List Nat)) :
    SXmlNode_t :=
  let name := name.getD xmlnode.fName
  SXmlNode_t.mk xmlnode.fType xmlnode.fName (⟨bytes "xmlns:" ++ name, reference⟩ :: xmlnode.fAttr)
    (some (NsPtr.own 0)) xmlnode.fChild

end TXMLEngine

/-! ## The tree in memory: nodes linked by pointers

The mutators of the tree interface (`AddChild`, `UnlinkNode`, `FreeNode`, ...) change single
pointer fields of nodes that other nodes point to. For them the nodes are modelled as they
lie in memory: a heap maps the address of every allocated node to its fields, a pointer is
an address or null (`none`), and a call returns `none` when it reads or writes through a
pointer that is null or not allocated (or when the fuel of a loop runs out). -/

namespace Mem

/-- `SXmlNode_t` in memory. `fAttr` is the attribute list that the node owns and `name` the
C string behind the header. -/
structure SXmlNode_t where
  fType : EXmlNodeType
  fAttr : List SXmlAttr_t
  fNs : Option NsPtr
  fNext : Option Nat
  fChild : Option Nat
  fLastChild : Option Nat
  fParent : Option Nat
  name : List Nat
deriving DecidableEq

/-- `SXmlDoc_t` in memory. -/
structure SXmlDoc_t where
  fRootNode : Option Nat
  fDtdName : Option (List Nat)
  fDtdRoot : Option (List Nat)
deriving DecidableEq

/-- The allocated nodes by address. -/
structure Heap where
  node : Nat → Option SXmlNode_t

namespace Heap

/-- The heap without nodes. -/
def empty : Heap := ⟨fun _ => none⟩

/-- The heap with the node `n` at the address `p`. -/
def write (h : Heap) (p : Nat) (n : SXmlNode_t) : Heap := ⟨Function.update h.node p (some n)⟩

/-- The heap after `free(p)`. -/
def free (h : Heap) (p : Nat) : Heap := ⟨Function.update h.node p none⟩

/-- An assignment to fields of the node at `p`. -/
def modify (h : Heap) (p : Nat) (f : SXmlNode_t → SXmlNode_t) : Option Heap :=
  (h.node p).map fun n => h.write p (f n)

/-- The value of `p->fNext`. -/
def next (h : Heap) (p : Nat) : Option (Option Nat) := (h.node p).map fun n => n.fNext

end Heap

/-- `AddChild(parent, child)`. -/
def AddChild (h : Heap) (parent child : Option Nat) : Option Heap :=
  match parent, child with
  | some pnode, some cnode =>
    (h.modify cnode fun n => { n with fParent := some pnode }).bind fun h =>
    (h.node pnode).bind fun p =>
    match p.fLastChild with
    | none =>
      (h.modify pnode fun n => { n with fChild := some cnode }).bind fun h =>
      h.modify pnode fun n => { n with fLastChild := some cnode }
    | some last =>
      (h.modify last fun n => { n with fNext := some cnode }).bind fun h =>
      h.modify pnode fun n => { n with fLastChild := some cnode }
  | _, _ => some h

/-- `AddChildFirst(parent, child)`. -/
def AddChildFirst (h : Heap) (parent child : Option Nat) : Option Heap :=
  match parent, child with
  | some pnode, some cnode =>
    (h.modify cnode fun n => { n with fParent := some pnode }).bind fun h =>
    (h.node pnode).bind fun p =>
    (h.modify cnode fun n => { n with fNext := p.fChild }).bind fun h =>
    (h.modify pnode fun n => { n with fChild := some cnode }).bind fun h =>
    (h.node pnode).bind fun p =>
    if p.fLastChild = none then h.modify pnode fun n => { n with fLastChild := some cnode }
    else some h
  | _, _ => some h

/-- `AllocateNode(namelen, parent)`; `a` is the address that `malloc` returns. -/
def AllocateNode (h : Heap) (a : Nat) (parent : Option Nat) : Option Heap :=
  let h := h.write a ⟨EXmlNodeType.kXML_NODE, [], none, none, none, none, none, []⟩
  match parent with
  | none => some h
  | some p => AddChild h (some p) (some a)

/-- `NewAttr(xmlnode, nullptr, name, value)`: the attribute is appended to the list of the
node; a null `name` or `value` gives the empty string. -/
def NewAttr (h : Heap) (xmlnode : Option Nat) (name value : Option (List Nat)) : Option Heap :=
  match xmlnode with
  | none => some h
  | some node =>
    h.modify node fun n => { n with fAttr := n.fAttr ++ [⟨name.getD [], value.getD []⟩] }

/-- `NewChild(parent, ns, name, content)`; `a` and `b` are the addresses that `malloc`
returns for the node and for its Content node. -/
def NewChild (h : Heap) (a b : Nat) (parent : Option Nat) (ns : Option NsPtr)
    (name content : Option (List Nat)) : Option Heap :=
  (AllocateNode h a parent).bind fun h =>
  (h.modify a fun n => { n with name := name.getD [] }).bind fun h =>
  (h.modify a fun n => { n with fNs := ns }).bind fun h =>
  if (content.getD []).length > 0 then
    (AllocateNode h b (some a)).bind fun h =>
    (h.modify b fun n => { n with fType := EXmlNodeType.kXML_CONTENT }).bind fun h =>
    h.modify b fun n => { n with name := content.getD [] }
  else some h

/-- `AddComment(xmlnode, comment)`. -/
def AddComment (h : Heap) (a : Nat) (xmlnode : Option Nat) (comment : Option (List Nat)) :
    Option (Bool × Heap) :=
  match xmlnode, comment with
  | some node, some text =>
    (AllocateNode h a (some node)).bind fun h =>
    (h.modify a fun n => { n with fType := EXmlNodeType.kXML_COMMENT }).bind fun h =>
    (h.modify a fun n => { n with name := text }).bind fun h =>
    some (true, h)
  | _, _ => some (false, h)

/-- `AddRawLine(xmlnode, line)`. -/
def AddRawLine (h : Heap) (a : Nat) (xmlnode : Option Nat) (line : Option (List Nat)) :
    Option (Bool × Heap) :=
  match xmlnode, line with
  | some node, some text =>
    (AllocateNode h a (some node)).bind fun h =>
    (h.modify a fun n => { n with fType := EXmlNodeType.kXML_RAWLINE }).bind fun h =>
    (h.modify a fun n => { n with name := text }).bind fun h =>
    some (true, h)
  | _, _ => some (false, h)

/-- `AddStyleSheet(xmlnode, href, type, title, alternate, media, charset)`. -/
def AddStyleSheet (h : Heap) (a : Nat) (xmlnode : Option Nat) (href type title : Option (List Nat))
    (alternate : Int) (media charset : Option (List Nat)) : Option (Bool × Heap) :=
  match xmlnode, href, type with
  | some node, some _, some _ =>
    (AllocateNode h a (some node)).bind fun h =>
    (h.modify a fun n => { n with fType := EXmlNodeType.kXML_PI_NODE }).bind fun h =>
    (h.modify a fun n => { n with name := bytes "xml-stylesheet" }).bind fun h =>
    (if alternate ≥ 0 then
      NewAttr h (some a) (some (bytes "alternate"))
        (some (if alternate > 0 then bytes "yes" else bytes "no"))
     else some h).bind fun h =>
    (if title ≠ none then NewAttr h (some a) (some (bytes "title")) title else some h).bind fun h =>
    (NewAttr h (some a) (some (bytes "href")) href).bind fun h =>
    (NewAttr h (some a) (some (bytes "type")) type).bind fun h =>
    (if media ≠ none then NewAttr h (some a) (some (bytes "media")) media else some h).bind fun h =>
    (if charset ≠ none then NewAttr h (some a) (some (bytes "charset")) charset
     else some h).bind fun h =>
    some (true, h)
  | _, _, _ => some (false, h)

/-- The loop `while (ch->fNext != node) ch = ch->fNext;` of `UnlinkNode`: the `ch` it ends
with. -/
def UnlinkScan (h : Heap) (node : Nat) : Nat → Option Nat → Option Nat
  | 0, _ => none
  | _ + 1, none => none
  | fuel + 1, some ch =>
    (h.node ch).bind fun c =>
    if c.fNext = some node then some ch else UnlinkScan h node fuel c.fNext

/-- `UnlinkNode(xmlnode)`. -/
def UnlinkNode (fuel : Nat) (h : Heap) (xmlnode : Option Nat) : Option Heap :=
  match xmlnode with
  | none => some h
  | some node =>
    (h.node node).bind fun n =>
    match n.fParent with
    | none => some h
    | some parent =>
      (h.node parent).bind fun p =>
      if p.fChild = some node then
        (h.modify parent fun c => { c with fChild := n.fNext }).bind fun h =>
        (h.node parent).bind fun p =>
        if p.fLastChild = some node then
          (h.node node).bind fun n =>
          h.modify parent fun c => { c with fLastChild := n.fNext }
        else some h
      else
        (UnlinkScan h node fuel p.fChild).bind fun ch =>
        (h.modify ch fun c => { c with fNext := n.fNext }).bind fun h =>
        (h.node parent).bind fun p =>
        if p.fLastChild = some node then
          h.modify parent fun c => { c with fLastChild := some ch }
        else some h

mutual
/-- `FreeNode(xmlnode)`: the children are freed first, then the attributes (they are part of
the node here) and the node. -/
def FreeNode : Nat → Heap → Option Nat → Option Heap
  | 0, _, _ => none
  | _ + 1, h, none => some h
  | fuel + 1, h, some node =>
    match h.node node with
    | none => none
    | some n =>
      match FreeChildren fuel h n.fChild with
      | none => none
      | some h =>
        match h.node node with
        | none => none
        | some _ => some (h.free node)
/-- The loop `while (child != nullptr) { next = child->fNext; FreeNode(child); child = next; }`
of `FreeNode`. -/
def FreeChildren : Nat → Heap → Option Nat → Option Heap
  | 0, _, _ => none
  | _ + 1, h, none => some h
  | fuel + 1, h, some child =>
    match h.node child with
    | none => none
    | some c =>
      match FreeNode fuel h (some child) with
      | none => none
      | some h => FreeChildren fuel h c.fNext
end

/-- `UnlinkFreeNode(xmlnode)`. -/
def UnlinkFreeNode (fuel : Nat) (h : Heap) (xmlnode : Option Nat) : Option Heap :=
  (UnlinkNode fuel h xmlnode).bind fun h => FreeNode fuel h xmlnode

/-- `GetNodeContent(xmlnode)`: the C string returned, or the null pointer. -/
def GetNodeContent (h : Heap) (xmlnode : Option Nat) : Option (Option (List Nat)) :=
  match xmlnode with
  | none => some none
  | some node =>
    (h.node node).bind fun n =>
    match n.fChild with
    | none => some none
    | some child =>
      (h.node child).bind fun c =>
      if c.fType ≠ EXmlNodeType.kXML_CONTENT then some none else some (some c.name)

/-- `SetNodeContent(xmlnode, content, len)`; `a` is the address that `malloc` returns. The
C string that `strncpy` and the closing NUL leave is the first `len` bytes of `content`. -/
def SetNodeContent (fuel : Nat) (h : Heap) (a : Nat) (xmlnode : Option Nat)
    (content : Option (List Nat)) (len : Int) : Option Heap :=
  match xmlnode with
  | none => some h
  | some node =>
    (h.node node).bind fun n =>
    (match n.fChild with
     | none => some h
     | some child =>
       (h.node child).bind fun c =>
       if c.fType = EXmlNodeType.kXML_CONTENT then UnlinkFreeNode fuel h (some child)
       else some h).bind fun h =>
    match content with
    | none => some h
    | some text =>
      let len := if len ≤ 0 then text.length else len.toNat
      (AllocateNode h a none).bind fun h =>
      (h.modify a fun c => { c with fType := EXmlNodeType.kXML_CONTENT }).bind fun h =>
      (h.modify a fun c => { c with name := text.take len }).bind fun h =>
      AddChildFirst h (some node) (some a)

/-- `AddNodeContent(xmlnode, content, len)`. -/
def AddNodeContent (h : Heap) (a : Nat) (xmlnode : Option Nat) (content : Option (List Nat))
    (len : Int) : Option Heap :=
  match xmlnode, content with
  | some node, some text =>
    let len := if len ≤ 0 then text.length else len.toNat
    (AllocateNode h a (some node)).bind fun h =>
    (h.modify a fun c => { c with fType := EXmlNodeType.kXML_CONTENT }).bind fun h =>
    h.modify a fun c => { c with name := text.take len }
  | _, _ => some h

/-- `ShiftToNext(xmlnode, realnode)`: the pointer that the reference argument holds after
the call. -/
def ShiftToNext (h : Heap) (realnode : Bool) : Nat → Option Nat → Option (Option Nat)
  | 0, _ => none
  | _ + 1, none => some none
  | fuel + 1, some node =>
    (h.node node).bind fun n =>
    match n.fNext with
    | none => some none
    | some nx =>
      if !realnode then some (some nx)
      else
        (h.node nx).bind fun m =>
        if m.fType ≠ EXmlNodeType.kXML_NODE then ShiftToNext h realnode fuel (some nx)
        else some (some nx)

/-- `GetChild(xmlnode, realnode)`. -/
def GetChild (fuel : Nat) (h : Heap) (xmlnode : Option Nat) (realnode : Bool) :
    Option (Option Nat) :=
  match xmlnode with
  | none => some none
  | some node =>
    (h.node node).bind fun n =>
    match n.fChild with
    | none => some none
    | some res =>
      if realnode then
        (h.node res).bind fun r =>
        if r.fType ≠ EXmlNodeType.kXML_NODE then ShiftToNext h true fuel (some res)
        else some (some res)
      else some (some res)

/-- `GetParent(xmlnode)`. -/
def GetParent (h : Heap) (xmlnode : Option Nat) : Option (Option Nat) :=
  match xmlnode with
  | none => some none
  | some node => (h.node node).map fun n => n.fParent

/-- `DocGetRootElement(xmldoc)`. -/
def DocGetRootElement (fuel : Nat) (h : Heap) (xmldoc : Option SXmlDoc_t) : Option (Option Nat) :=
  match xmldoc with
  | none => some none
  | some doc => GetChild fuel h doc.fRootNode true

/-- `NewDoc(version)`; `r` and `v` are the addresses that `malloc` returns for the synthetic
root node and for the `xml` node with the version. -/
def NewDoc (h : Heap) (r v : Nat) (version : Option (List Nat)) : Option (SXmlDoc_t × Heap) :=
  (NewChild h r 0 none none (some (bytes "??DummyTopNode??")) none).bind fun h =>
  (match version with
   | none => some h
   | some text =>
     (NewChild h v 0 (some r) none (some (bytes "xml")) none).bind fun h =>
     (h.modify v fun n => { n with fType := EXmlNodeType.kXML_PI_NODE }).bind fun h =>
     NewAttr h (some v) (some (bytes "version")) (some text)).bind fun h =>
  some (⟨some r, none, none⟩, h)

/-- `AddDocComment(xmldoc, comment)`. -/
def AddDocComment (fuel : Nat) (h : Heap) (a : Nat) (xmldoc : Option SXmlDoc_t)
    (comment : Option (List Nat)) : Option (Bool × Heap) :=
  match xmldoc with
  | none => some (false, h)
  | some doc =>
    (DocGetRootElement fuel h (some doc)).bind fun rootnode =>
    (UnlinkNode fuel h rootnode).bind fun h =>
    (AddComment h a doc.fRootNode comment).bind fun res =>
    (AddChild res.2 doc.fRootNode rootnode).bind fun h =>
    some (res.1, h)

/-- `AddDocRawLine(xmldoc, line)`; the document pointer is read without a test for null. -/
def AddDocRawLine (fuel : Nat) (h : Heap) (a : Nat) (xmldoc : Option SXmlDoc_t)
    (line : Option (List Nat)) : Option (Bool × Heap) :=
  (DocGetRootElement fuel h xmldoc).bind fun rootnode =>
  (UnlinkNode fuel h rootnode).bind fun h =>
  xmldoc.bind fun doc =>
  (AddRawLine h a doc.fRootNode line).bind fun res =>
  (AddChild res.2 doc.fRootNode rootnode).bind fun h =>
  some (res.1, h)

/-- `AddDocStyleSheet(xmldoc, href, type, title, alternate, media, charset)`. -/
def AddDocStyleSheet (fuel : Nat) (h : Heap) (a : Nat) (xmldoc : Option SXmlDoc_t)
    (href type title : Option (List Nat)) (alternate : Int) (media charset : Option (List Nat)) :
    Option (Bool × Heap) :=
  match xmldoc with
  | none => some (false, h)
  | some doc =>
    (DocGetRootElement fuel h (some doc)).bind fun rootnode =>
    (UnlinkNode fuel h rootnode).bind fun h =>
    (AddStyleSheet h a doc.fRootNode href type title alternate media charset).bind fun res =>
    (AddChild res.2 doc.fRootNode rootnode).bind fun h =>
    some (res.1, h)

end Mem

/-! ## Child sequences and subtrees in memory -/

namespace Mem

/-- The nodes from `start` along `fNext` up to the null pointer are `cs`. -/
def Chain (h : Heap) : Option Nat → List Nat → Prop
  | start, [] => start = none
  | start, c :: cs => start = some c ∧ ∃ nx, h.next c = some nx ∧ Chain h nx cs

/-- The test for `Chain`. -/
def Chain.dec (h : Heap) : (start : Option Nat) → (cs : List Nat) → Decidable (Chain h start cs)
  | start, [] => inferInstanceAs (Decidable (start = none))
  | start, c :: cs =>
    match hn : h.next c with
    | none => isFalse (by rintro ⟨_, nx, h1, _⟩; rw [hn] at h1; cases h1)
    | some nx =>
      match Chain.dec h nx cs with
      | isFalse hc =>
        isFalse (by
          rintro ⟨_, nx2, h1, h2⟩
          rw [hn] at h1
          cases h1
          exact hc h2)
      | isTrue hc =>
        if hs : start = some c then isTrue ⟨hs, nx, hn, hc⟩
        else isFalse (fun hx => hs hx.1)

instance (h : Heap) (start : Option Nat) (cs : List Nat) : Decidable (Chain h start cs) :=
  Chain.dec h start cs

/-- The child sequence of the node `p` is `cs`: `fChild` starts the chain of the nodes `cs`,
`fLastChild` is the last of them, each of them has `p` as its `fParent`, and `p` is not
among them. -/
def Children (h : Heap) (p : Nat) (cs : List Nat) : Prop :=
  (∃ n, h.node p = some n ∧ Chain h n.fChild cs ∧ n.fLastChild = cs.getLast?) ∧
    (∀ c ∈ cs, (h.node c).map (fun m => m.fParent) = some (some p)) ∧ p ∉ cs

instance (h : Heap) (p : Nat) (cs : List Nat) : Decidable (Children h p cs) :=
  match hn : h.node p with
  | none =>
    isFalse (by rintro ⟨⟨n, h1, _⟩, _⟩; rw [hn] at h1; cases h1)
  | some n =>
    if hc : (Chain h n.fChild cs ∧ n.fLastChild = cs.getLast?) ∧
        (∀ c ∈ cs, (h.node c).map (fun m => m.fParent) = some (some p)) ∧ p ∉ cs then
      isTrue ⟨⟨n, hn, hc.1.1, hc.1.2⟩, hc.2⟩
    else
      isFalse (by
        rintro ⟨⟨n2, h1, h2, h3⟩, h4⟩
        rw [hn] at h1
        cases h1
        exact hc ⟨⟨h2, h3⟩, h4⟩)

mutual
/-- The nodes that `FreeNode(node)` frees: the node and everything below it. -/
def subtree (h : Heap) : Nat → Nat → Option (List Nat)
  | 0, _ => none
  | fuel + 1, node =>
    match h.node node with
    | none => none
    | some n => (forest h fuel n.fChild).map fun below => node :: below
/-- The nodes that the loop over the children in `FreeNode` frees, from `child` on. -/
def forest (h : Heap) : Nat → Option Nat → Option (List Nat)
  | 0, _ => none
  | _ + 1, none => some []
  | fuel + 1, some child =>
    match h.node child with
    | none => none
    | some c =>
      match subtree h fuel child, forest h fuel c.fNext with
      | some s, some r => some (s ++ r)
      | _, _ => none
end

/-- The nodes that are visited from `start` along `fNext` with the given number of steps at
most: `none` when the null pointer is not reached. -/
def walk (h : Heap) : Nat → Option Nat → Option (List Nat)
  | _, none => some []
  | 0, some _ => none
  | fuel + 1, some c =>
    match h.next c with
    | none => none
    | some nx => (walk h fuel nx).map fun cs => c :: cs

end Mem

namespace Mem

/-- A document with the root element `a` followed by the comment `k` at the top level, as
`NewDoc(nullptr)`, `NewChild(root, nullptr, "a", nullptr)` and `AddComment(root, "k")` build
it when `malloc` returns the addresses 1, 2 and 3. -/
def docTrailingComment : Option (SXmlDoc_t × Heap) :=
  (NewDoc Heap.empty 1 0 none).bind fun d =>
  (NewChild d.2 2 0 d.1.fRootNode none (some (bytes "a")) none).bind fun h =>
  (AddComment h 3 d.1.fRootNode (some (bytes "k"))).bind fun r =>
  some (d.1, r.2)

/-- The node `n` with the two Content children `x` and `y`, as `NewChild` and two calls of
`AddNodeContent` build it when `malloc` returns the addresses 1, 2 and 3. -/
def nodeTwoContents : Option Heap :=
  (NewChild Heap.empty 1 0 none none (some (bytes "n")) none).bind fun h =>
  (AddNodeContent h 2 (some 1) (some (bytes "x")) 0).bind fun h =>
  AddNodeContent h 3 (some 1) (some (bytes "y")) 0

end Mem

namespace Mem

/-- The children that `SetNodeContent` keeps: all but a first child that is a Content
node. -/
def keptChildren (h : Heap) : List Nat → List Nat
  | [] => []
  | c :: rest =>
    if (h.node c).map (fun m => m.fType) = some EXmlNodeType.kXML_CONTENT then rest
    else c :: rest

end Mem

/-! ## Attribute and namespace getters, the xml declaration -/

namespace TXMLEngine

/-- `GetNS(xmlnode)` for a node that is not null. -/
def GetNS (xmlnode : SXmlNode_t) : Option NsPtr := xmlnode.fNs

/-- `GetAttrName(xmlattr)`; the null pointer is `none`. -/
def GetAttrName (xmlattr : Option SXmlAttr_t) : Option (List Nat) :=
  xmlattr.map fun a => a.name

/-- `GetAttrValue(xmlattr)`: the C string behind the name. -/
def GetAttrValue (xmlattr : Option SXmlAttr_t) : Option (List Nat) :=
  xmlattr.map fun a => a.value

/-- `GetNSName(ns)`: the name of the attribute without a leading `xmlns:`. -/
def GetNSName (ns : Option SXmlAttr_t) : Option (List Nat) :=
  (GetAttrName ns).map fun nsname =>
    if nsname.take 6 = bytes "xmlns:" then nsname.drop 6 else nsname

/-- `GetNSReference(ns)`. -/
def GetNSReference (ns : Option SXmlAttr_t) : Option (List Nat) := GetAttrValue ns

/-- `GetAttr(xmlnode, name)` for a node that is not null: the value of the first attribute
with that name, or the null pointer. -/
def GetAttr (xmlnode : SXmlNode_t) (name : List Nat) : Option (List Nat) :=
  (xmlnode.fAttr.find? fun a => a.name == name).map fun a => a.value

/-- `NewDoc(version)`: the synthetic root node, with the processing instruction `xml` that
holds the version when `version` is not null. -/
def NewDoc (version : Option (List Nat)) : SXmlDoc_t :=
  let root := NewChild none (bytes "??DummyTopNode??") none
  match version with
  | none => ⟨root, none, none⟩
  | some v =>
    let vernode := NewChild none (bytes "xml") none
    let vernode := SXmlNode_t.mk EXmlNodeType.kXML_PI_NODE vernode.fName vernode.fAttr
      vernode.fNs vernode.fChild
    ⟨AddChild root (NewAttr vernode (bytes "version") v), none, none⟩

/-- `ValidateVersion(xmldoc, version)`. -/
def ValidateVersion (xmldoc : Option SXmlDoc_t) (version : Option (List Nat)) : Bool :=
  match xmldoc with
  | none => false
  | some doc =>
    match doc.fRootNode.fChild.head? with
    | none => false
    | some vernode =>
      if vernode.fType ≠ EXmlNodeType.kXML_PI_NODE then false
      else if vernode.fName ≠ bytes "xml" then false
      else
        match GetAttr vernode (bytes "version") with
        | none => false
        | some value => decide (version.getD (bytes "1.0") = value)

end TXMLEngine

/-! ## Identifiers of the round trip claims -/

namespace TXMLEngine

/-- An ASCII letter. -/
def asciiLetter (b : Nat) : Bool := (97 ≤ b && b ≤ 122) || (65 ≤ b && b ≤ 90)

/-- An ASCII identifier without a colon: a letter or `_`, followed by letters, digits, `_`,
`-` and `.`. -/
def asciiIdent : List Nat → Bool
  | [] => false
  | c :: cs =>
    (asciiLetter c || c == 95) &&
      cs.all fun b => asciiLetter b || (48 ≤ b && b ≤ 57) || b == 95 || b == 45 || b == 46

end TXMLEngine

/-! ## More of the tree interface in memory -/

namespace Mem

/-- `GetNext(xmlnode, realnode)`: the same loop as `ShiftToNext`, on a copy of the
pointer. -/
def GetNext (h : Heap) (realnode : Bool) : Nat → Option Nat → Option (Option Nat)
  | 0, _ => none
  | _ + 1, none => some none
  | fuel + 1, some node =>
    (h.node node).bind fun n =>
    match n.fNext with
    | none => some none
    | some nx =>
      if !realnode then some (some nx)
      else
        (h.node nx).bind fun m =>
        if m.fType ≠ EXmlNodeType.kXML_NODE then GetNext h realnode fuel (some nx)
        else some (some nx)

/-- `DocSetRootElement(xmldoc, xmlnode)`. -/
def DocSetRootElement (fuel : Nat) (h : Heap) (xmldoc : Option SXmlDoc_t)
    (xmlnode : Option Nat) : Option Heap :=
  match xmldoc with
  | none => some h
  | some doc =>
    (DocGetRootElement fuel h (some doc)).bind fun rootnode =>
    (FreeNode fuel h rootnode).bind fun h =>
    AddChild h doc.fRootNode xmlnode

/-- `CleanNode(xmlnode)`. -/
def CleanNode (fuel : Nat) (h : Heap) (xmlnode : Option Nat) : Option Heap :=
  match xmlnode with
  | none => some h
  | some node =>
    (h.node node).bind fun n =>
    (FreeChildren fuel h n.fChild).bind fun h =>
    (h.modify node fun c => { c with fChild := none }).bind fun h =>
    h.modify node fun c => { c with fLastChild := none }

/-- Whether the node at `x` is an Element (`kXML_NODE`). -/
def isElement (h : Heap) (x : Nat) : Bool :=
  (h.node x).map (fun n => n.fType) == some EXmlNodeType.kXML_NODE

/-- The invariant of the child links at every allocated node: `fLastChild` is null exactly
when `fChild` is null. -/
def LinkInv (h : Heap) : Prop :=
  ∀ x n, h.node x = some n → (n.fLastChild = none ↔ n.fChild = none)

/-- A document with the root element `a` alone, as `NewDoc(nullptr)` and
`NewChild(root, nullptr, "a", nullptr)` build it when `malloc` returns the addresses 1 and
2, together with the detached node `n` at the address 3. -/
def docWithRoot : Option (SXmlDoc_t × Heap) :=
  (NewDoc Heap.empty 1 0 none).bind fun d =>
  (NewChild d.2 2 0 d.1.fRootNode none (some (bytes "a")) none).bind fun h =>
  (NewChild h 3 0 none none (some (bytes "n")) none).bind fun h =>
  some (d.1, h)

end Mem

/-- The value of a node in memory that has no children: what `SaveNode` is given. -/
def leafOf (n : Mem.SXmlNode_t) : SXmlNode_t :=
  SXmlNode_t.mk n.fType n.name n.fAttr n.fNs []

namespace Mem

/-- The attributes of the processing instruction `xml-stylesheet` as the comment of
`AddStyleSheet` lists them: `alternate` (unless negative), `title` (if given), `href`,
`type`, `media` (if given), `charset` (if given). -/
def styleSheetAttrs (href type : List Nat) (title : Option (List Nat)) (alternate : Int)
    (media charset : Option (List Nat)) : List SXmlAttr_t :=
  (if alternate ≥ 0 then
      [⟨bytes "alternate", if alternate > 0 then bytes "yes" else bytes "no"⟩]
    else []) ++
  (title.toList.map fun t => ⟨bytes "title", t⟩) ++
  [⟨bytes "href", href⟩, ⟨bytes "type", type⟩] ++
  (media.toList.map fun t => ⟨bytes "media", t⟩) ++
  (charset.toList.map fun t => ⟨bytes "charset", t⟩)

end Mem

namespace Mem

/-- Two parents `r` (address 1) and `q` (address 3) that share children: `a` (address 2) is
made a child of `r` by `NewChild` and then added to `q` with `AddChild`, `x` (address 4) is
made a child of `q` by `NewChild` and then added to `r` with `AddChild`; then `x` and `a`
are unlinked. -/
def crossLinked : Option Heap :=
  (NewChild Heap.empty 1 0 none none (some (bytes "r")) none).bind fun h =>
  (NewChild h 2 0 (some 1) none (some (bytes "a")) none).bind fun h =>
  (NewChild h 3 0 none none (some (bytes "q")) none).bind fun h =>
  (AddChild h (some 3) (some 2)).bind fun h =>
  (NewChild h 4 0 (some 3) none (some (bytes "x")) none).bind fun h =>
  (AddChild h (some 1) (some 4)).bind fun h =>
  (UnlinkNode 10 h (some 4)).bind fun h =>
  UnlinkNode 10 h (some 2)

end Mem

namespace Mem

/-- A node `r` (address 1) with the children `a` (address 2) and `b` (address 3). -/
def twoChildren : Heap :=
  ((Heap.empty.write 1 ⟨EXmlNodeType.kXML_NODE, [], none, none, some 2, some 3, none, bytes "r"⟩).write
    2 ⟨EXmlNodeType.kXML_NODE, [], none, some 3, none, none, some 1, bytes "a"⟩).write
    3 ⟨EXmlNodeType.kXML_NODE, [], none, none, none, none, some 1, bytes "b"⟩

end Mem

namespace TXMLEngine

mutual
/-- The tree without the Comment nodes below `node`. -/
def stripNode : SXmlNode_t → SXmlNode_t
  | SXmlNode_t.mk fType fName fAttr fNs fChild =>
    SXmlNode_t.mk fType fName fAttr fNs (stripList fChild)
/-- The list without its Comment nodes, each node that is left without the Comment nodes
below it. -/
def stripList : List SXmlNode_t → List SXmlNode_t
  | [] => []
  | child :: next =>
    if child.fType = EXmlNodeType.kXML_COMMENT then stripList next
    else stripNode child :: stripList next
end

/-- The document without its Comment nodes. -/
def stripDoc (doc : SXmlDoc_t) : SXmlDoc_t :=
  { doc with fRootNode := stripNode doc.fRootNode }

/-- The result of a parse with a function applied to the document or node it returns. -/
def mapResult {α β : Type} (f : α → β) : ParseResult α → ParseResult β
  | ParseResult.ok a => ParseResult.ok (f a)
  | ParseResult.error error linenumber => ParseResult.error error linenumber
  | ParseResult.null => ParseResult.null
  | ParseResult.outOfFuel => ParseResult.outOfFuel
  | ParseResult.useAfterFree => ParseResult.useAfterFree

/-- What a call of `ReadNode` with the parent `xmlparent` leaves when comments are skipped
(`r2`), against what the call leaves when they are kept (`r1`): the same `resvalue` and
stream, and the parent without the Comment nodes; the type of the parent is as before. -/
def SkipRel (xmlparent : Option SXmlNode_t) (r1 r2 : ReadResult) : Prop :=
  r2.resvalue = r1.resvalue ∧ r2.inp = r1.inp ∧ r2.parent = r1.parent.map stripNode ∧
    r1.parent.map (fun n => n.fType) = xmlparent.map (fun n => n.fType)

/-- The relation `SkipRel` between two ends of a call. -/
def SkipOutcome (xmlparent : Option SXmlNode_t) :
    Outcome ReadResult → Outcome ReadResult → Prop
  | Outcome.done r1, Outcome.done r2 => SkipRel xmlparent r1 r2
  | Outcome.outOfFuel, Outcome.outOfFuel => True
  | Outcome.useAfterFree, Outcome.useAfterFree => True
  | _, _ => False

/-- Two engines that differ in `fSkipComments` only: `eng1` keeps the comments, `eng2` skips
them, also in the files of the system entities. -/
def SkipPair (eng1 eng2 : TXMLEngine) : Prop :=
  eng1.fSkipComments = false ∧ eng2.fSkipComments = true ∧
    eng2.charSigned = eng1.charSigned ∧ eng2.pastByte = eng1.pastByte ∧
    ∀ filename, eng2.ParseFile filename = (eng1.ParseFile filename).map stripDoc

end TXMLEngine

namespace TXMLEngine

/-- The node of an open tag before its children are read: it is no Comment node and has no
children. -/
def OpenTag.bare (tag : OpenTag) : Prop :=
  tag.node.fType ≠ EXmlNodeType.kXML_COMMENT ∧ tag.node.fChild = []

/-- The state of the entity scan when comments are skipped, for the state when they are
kept. -/
def ScanState.strip (st : ScanState) : ScanState :=
  { st with parent := stripNode st.parent }

end TXMLEngine

namespace TXMLEngine

/-- The relation between the two rounds of the attribute loop, with comments skipped and
with comments kept. -/
def SkipStep (xmlparent : Option SXmlNode_t) : TagStep → TagStep → Prop
  | TagStep.ret r1, TagStep.ret r2 => SkipRel xmlparent r1 r2
  | TagStep.more t1 i1, TagStep.more t2 i2 => t2 = t1 ∧ i2 = i1 ∧ t1.bare
  | TagStep.children i1, TagStep.children i2 => i2 = i1
  | _, _ => False

/-- The relation between the two starts of `ReadNode`, with comments skipped and with
comments kept. -/
def SkipStart (xmlparent : Option SXmlNode_t) : NodeStart → NodeStart → Prop
  | NodeStart.ret o1, NodeStart.ret o2 => SkipOutcome xmlparent o1 o2
  | NodeStart.tag t1 i1, NodeStart.tag t2 i2 => t2 = t1 ∧ i2 = i1 ∧ t1.bare
  | _, _ => False

end TXMLEngine

namespace TXMLEngine

/-- The body of the entity scan for an entity that was found: the text in front of the
reference and the value of the entity (or the nodes of its file) become children of the
parent. -/
def entityStep (eng : TXMLEngine) (contptr : List Nat) (b : Nat) (entity : TXMLEntity)
    (st : ScanState) : ScanState :=
  let st := if st.lastentity.isNone then
    { st with lastentity := some 0, unlinked := true, parent := UnlinkLast st.parent }
    else st
  let last := st.lastentity.getD 0
  let st := if last ≠ b then
    { st with parent := AddNodeContent st.parent ((contptr.drop last).take (b - last)) }
    else st
  if entity.fSystem then
    match eng.ParseFile entity.title with
    | none => { st with failed := true }
    | some entitydoc =>
      { st with parent := (entityNodes entitydoc).foldl AddChild st.parent }
  else { st with parent := AddNodeContent st.parent entity.title }

/-- The state of the entity scan behind a `;` that ends a reference which started at `b`. -/
def scanFound (eng : TXMLEngine) (inp : TXMLInputStream) (contptr : List Nat) (curr b : Nat)
    (st : ScanState) : ScanState :=
  match inp.FindEntity ((contptr.drop (b + 1)).take (curr - b - 1)) with
  | none => st
  | some entity => entityStep eng contptr b entity st

end TXMLEngine

/-! ## `LocateValue` with the addresses of the buffer

`ExpandStream` calls `realloc(fBuf, fBufSize)` and moves the members `fBuf`, `fMaxAddr`,
`fCurrent` and `fLimitAddr` to the block that `realloc` returns. The `char*` locals of its
callers are not moved: when `realloc` returns another address they point into the block
that was freed. -/

namespace TXMLInputStream

/-- A `char*` into a buffer: the address of the block and the offset in it. -/
structure BufPtr where
  block : Nat
  off : Nat
deriving DecidableEq, Repr

/-- How a call that works with `char*` locals ends. -/
inductive PtrOutcome (α : Type) where
  /-- the call returns -/
  | done (a : α)
  /-- the call uses a pointer into a block that `realloc` has freed -/
  | stale
deriving DecidableEq

/-- The stream together with the address of the block that `fBuf` points to. -/
structure PtrStream where
  inp : TXMLInputStream
  fBufAddr : Nat
deriving DecidableEq

namespace PtrStream

/-- `ExpandStream()`, with `realloc old size` for the address that `realloc(fBuf, fBufSize)`
returns (not null). -/
def ExpandStream (s : PtrStream) (realloc : Nat → Nat → Nat) : Bool × PtrStream :=
  if s.inp.EndOfFile then (false, s)
  else (s.inp.ExpandStream.1, ⟨s.inp.ExpandStream.2, realloc s.fBufAddr (s.inp.fBufSize * 2)⟩)

/-- `*p` for a `char*` local `p`: `none` when `p` points into a freed block. -/
def read (s : PtrStream) (p : BufPtr) : Option Nat :=
  if p.block = s.fBufAddr then some (s.inp.deref p.off) else none

/-- `if (curr>=fMaxAddr) if (!ExpandStream()) return ...`: `false` when the source
returns. -/
def ExpandAt (s : PtrStream) (realloc : Nat → Nat → Nat) (curr : BufPtr) :
    PtrOutcome (Bool × PtrStream) :=
  if curr.block ≠ s.fBufAddr then PtrOutcome.stale
  else if curr.off ≥ s.inp.fBuf.length then PtrOutcome.done (s.ExpandStream realloc)
  else PtrOutcome.done (true, s)

/-- The closing loop of `LocateValue`. -/
def LocateValueLoop (realloc : Nat → Nat → Nat) (start : BufPtr) (quote : Nat) :
    Nat → BufPtr → PtrStream → PtrOutcome (Nat × PtrStream)
  | 0, _, s => PtrOutcome.done (0, s)
  | fuel + 1, curr, s =>
    let curr : BufPtr := ⟨curr.block, curr.off + 1⟩
    match s.ExpandAt realloc curr with
    | PtrOutcome.stale => PtrOutcome.stale
    | PtrOutcome.done (false, s) => PtrOutcome.done (0, s)
    | PtrOutcome.done (true, s) =>
      match s.read curr with
      | none => PtrOutcome.stale
      | some symb =>
        if symb = quote then PtrOutcome.done (curr.off - start.off + 1, s)
        else if curr.off < s.inp.fBuf.length then LocateValueLoop realloc start quote fuel curr s
        else PtrOutcome.done (0, s)

/-- The part of `LocateValue` from the test for the opening quote at `curr`. -/
def LocateValueQuoted (s : PtrStream) (realloc : Nat → Nat → Nat) (start curr : BufPtr) :
    PtrOutcome (Nat × PtrStream) :=
  match s.read curr with
  | none => PtrOutcome.stale
  | some symb =>
    if symb ≠ 34 ∧ symb ≠ 39 then PtrOutcome.done (0, s)
    else LocateValueLoop realloc start symb (s.inp.avail + 1) curr s

/-- `LocateValue(start, withequalsign)`. -/
def LocateValue (s : PtrStream) (realloc : Nat → Nat → Nat) (start : BufPtr)
    (withequalsign : Bool) : PtrOutcome (Nat × PtrStream) :=
  match s.ExpandAt realloc start with
  | PtrOutcome.stale => PtrOutcome.stale
  | PtrOutcome.done (false, s) => PtrOutcome.done (0, s)
  | PtrOutcome.done (true, s) =>
    if withequalsign then
      match s.read start with
      | none => PtrOutcome.stale
      | some symb =>
        if symb ≠ 61 then PtrOutcome.done (0, s)
        else
          match s.ExpandAt realloc ⟨start.block, start.off + 1⟩ with
          | PtrOutcome.stale => PtrOutcome.stale
          | PtrOutcome.done (false, s) => PtrOutcome.done (0, s)
          | PtrOutcome.done (true, s) =>
            s.LocateValueQuoted realloc start ⟨start.block, start.off + 1⟩
    else s.LocateValueQuoted realloc start start

end PtrStream

end TXMLInputStream

/-! ## Sequences of calls on the output sink -/

namespace TXMLOutputStream

/-- A call on the sink: `Write(str)` or `Put(symb, cnt)`. -/
inductive SinkCall where
  | write (str : List Nat)
  | put (symb cnt : Nat)
deriving DecidableEq, Repr

/-- The call on the sink `out`; `none` for the call of `fOut->write` with a null `fOut`. -/
def SinkCall.run (out : TXMLOutputStream) : SinkCall → Option TXMLOutputStream
  | SinkCall.write str => out.Write str
  | SinkCall.put symb cnt => some (out.Put symb cnt)

/-- The calls one after the other. -/
def runCalls : List SinkCall → TXMLOutputStream → Option TXMLOutputStream
  | [], out => some out
  | call :: calls, out => (call.run out).bind (runCalls calls)

/-- The bytes that a call hands over: the text, or the repeated character. -/
def SinkCall.text : SinkCall → List Nat
  | SinkCall.write str => str
  | SinkCall.put symb cnt => List.replicate cnt symb

/-- The bytes of the calls in call order. -/
def callsText : List SinkCall → List Nat
  | [] => []
  | call :: calls => call.text ++ callsText calls

end TXMLOutputStream

/-! ## The read position of a buffered input stream during a parse -/

namespace TXMLInputStream

/-- The stream `inp2` is the stream `inp` after at least `n` more bytes of the buffer were
consumed by successful calls of `ShiftCurrent`; entities may have been registered on the
way, but only when the buffer holds the text `<!ENTITY`. -/
def Reach (n : Nat) (inp inp2 : TXMLInputStream) : Prop :=
  ∃ (j : Nat) (es : List TXMLEntity), n ≤ j ∧ j ≤ inp.rest.length ∧
    inp2 = { inp.advance j with fEntities := es } ∧
    (¬ bytes "<!ENTITY" <:+: inp.fBuf → es = inp.fEntities)

/-- The counters of the stream agree with its read position: the current line is 1 plus
the number of newline bytes in front of the read position, and the total position is the
number of bytes in front of it. -/
def LineInv (inp : TXMLInputStream) : Prop :=
  inp.fCurrentLine = 1 + (inp.fBuf.take inp.fCurrent).count 10 ∧ inp.fTotalPos = inp.fCurrent

instance (inp : TXMLInputStream) : Decidable inp.LineInv := by
  unfold LineInv; infer_instance

end TXMLInputStream

/-! ## Properties of all nodes of a tree -/

namespace TXMLEngine

mutual
/-- Whether the test `ok` holds for the node and for every node below it. -/
def allNodes (ok : SXmlNode_t → Bool) : SXmlNode_t → Bool
  | SXmlNode_t.mk fType fName fAttr fNs fChild =>
    ok (SXmlNode_t.mk fType fName fAttr fNs fChild) && allNodesList ok fChild
/-- Whether the test `ok` holds for every node of the list and for every node below them. -/
def allNodesList (ok : SXmlNode_t → Bool) : List SXmlNode_t → Bool
  | [] => true
  | child :: next => allNodes ok child && allNodesList ok next
end

/-- A node of one of the types Content, Comment and processing instruction has no
children. -/
def leafKind (node : SXmlNode_t) : Bool :=
  !(node.fType == EXmlNodeType.kXML_CONTENT || node.fType == EXmlNodeType.kXML_COMMENT ||
      node.fType == EXmlNodeType.kXML_PI_NODE) || node.fChild.isEmpty

/-- The text of a Content node is not empty and its first byte is no white space (not a
byte up to 26 and not the space). -/
def textStart (node : SXmlNode_t) : Bool :=
  node.fType != EXmlNodeType.kXML_CONTENT ||
    match node.fName with
    | [] => false
    | b :: _ => decide (26 < b) && b != 32

end TXMLEngine

namespace TXMLEngine

/-- An element all of whose nodes pass the test `ok`. -/
def elementTree (ok : SXmlNode_t → Bool) (node : SXmlNode_t) : Prop :=
  node.fType = EXmlNodeType.kXML_NODE ∧ allNodes ok node = true

/-- The parent that `ReadNode` works on is null or an element all of whose nodes pass the
test `ok`. -/
def ParentOk (ok : SXmlNode_t → Bool) (xmlparent : Option SXmlNode_t) : Prop :=
  ∀ node, xmlparent = some node → elementTree ok node

/-- The node that `ReadNode` returns is null or a node all of whose nodes pass the test
`ok`. -/
def NodeOk (ok : SXmlNode_t → Bool) (node : Option SXmlNode_t) : Prop :=
  ∀ n, node = some n → allNodes ok n = true

/-- The node of an open tag while its attributes are read: it has no children, it is no
Content node, and it is an element when it can have children. -/
def TagOk (tag : OpenTag) : Prop :=
  tag.node.fChild = [] ∧ tag.node.fType ≠ EXmlNodeType.kXML_CONTENT ∧
    (tag.canhaschildren = true → tag.node.fType = EXmlNodeType.kXML_NODE)

/-- A stream that holds the whole source in its buffer, without registered entities and
without the text `<!ENTITY` in the source. -/
def NoEntities (inp : TXMLInputStream) : Prop :=
  inp.Buffered ∧ inp.fEntities = [] ∧ ¬ bytes "<!ENTITY" <:+: inp.fBuf

end TXMLEngine

section

open TXMLEngine

/-! # Theorems -/

/-! ## The sink -/

namespace TXMLOutputStream

theorem Extends.refl (out : TXMLOutputStream) : Extends out out [] := by
  simp [Extends]

theorem Extends.trans {a b c : TXMLOutputStream} {s t : List Nat}
    (h1 : Extends a b s) (h2 : Extends b c t) : Extends a c (s ++ t) := by
  obtain ⟨w1, f1, m1, l1, i1⟩ := h1
  obtain ⟨w2, f2, m2, l2, i2⟩ := h2
  refine ⟨?_, ?_, ?_, ?_, ?_⟩
  · rw [w2, w1, List.append_assoc]
  · rw [f2, f1]
  · rw [m2, m1]
  · rw [l2, l1]
  · intro h; exact i2 (i1 h)

theorem roomFor.mono {out : TXMLOutputStream} {k n : Nat} (h : out.roomFor k) (hn : n ≤ k) :
    out.roomFor n := by
  rcases h with h | ⟨h1, h2⟩
  · exact Or.inl h
  · exact Or.inr ⟨h1, by omega⟩

theorem roomFor.step {a b : TXMLOutputStream} {s : List Nat} {k : Nat}
    (h : a.roomFor k) (e : Extends a b s) : b.roomFor k := by
  obtain ⟨_, f, m, l, i⟩ := e
  rcases h with h | ⟨h1, h2⟩
  · exact Or.inl (by rw [f, h])
  · exact Or.inr ⟨i h1, by rw [l, m]; exact h2⟩

theorem Put_extends (out : TXMLOutputStream) (symb cnt : Nat) :
    Extends out (out.Put symb cnt) (List.replicate cnt symb) := by
  unfold Put Extends written OutputCurrent
  by_cases h1 : out.fBuf.length + cnt ≥ out.fMaxAddr
  · by_cases h2 : cnt ≥ out.fMaxAddr
    · simp [h1, h2]
    · by_cases h3 : cnt > out.fLimitAddr
      · simp [h1, h2, h3]
      · simp [h1, h2, h3]; omega
  · by_cases h3 : out.fBuf.length + cnt > out.fLimitAddr
    · simp [h1, h3]
    · simp [h1, h3]; omega

theorem Write_extends (out : TXMLOutputStream) (str : List Nat)
    (h : out.roomFor str.length) : ∃ out2, out.Write str = some out2 ∧ Extends out out2 str := by
  unfold Write Extends written OutputCurrent
  by_cases h1 : out.fBuf.length + str.length ≥ out.fMaxAddr
  · rcases h with h | ⟨h2, h3⟩
    · simp [h1, h]
    · omega
  · by_cases h3 : out.fBuf.length + str.length > out.fLimitAddr
    · simp [h1, h3]
    · simp [h1, h3]; omega

theorem ite_Put_extends (c : Prop) [Decidable c] (out : TXMLOutputStream) (symb cnt : Nat) :
    Extends out (if c then out.Put symb cnt else out)
      (if decide c then List.replicate cnt symb else []) := by
  by_cases h : c
  · simp [h, Put_extends]
  · simp [h, Extends.refl]

theorem close_eq_written (out : TXMLOutputStream) : out.close = out.written := by
  unfold close written OutputCurrent
  by_cases h : out.fBuf = [] <;> simp [h]

theorem roomFor_ofFile (bufsize k : Nat) : (ofFile bufsize).roomFor k := Or.inl rfl

end TXMLOutputStream

open TXMLOutputStream

/-! ## OutputValue -/

theorem bytes_lt : bytes "&lt;" = [38, 108, 116, 59] := by decide
theorem bytes_gt : bytes "&gt;" = [38, 103, 116, 59] := by decide
theorem bytes_amp : bytes "&amp;" = [38, 97, 109, 112, 59] := by decide
theorem bytes_quot : bytes "&quot;" = [38, 113, 117, 111, 116, 59] := by decide
theorem bytes_apos : bytes "&apos;" = [38, 97, 112, 111, 115, 59] := by decide

theorem escapeByte_length_le (symb : Nat) : (escapeByte symb).length ≤ 6 := by
  unfold escapeByte
  split_ifs <;> simp [bytes_lt, bytes_gt, bytes_amp, bytes_quot]

theorem OutputValueLoop_extends (value : List Nat) :
    ∀ (last : List Nat) (out : TXMLOutputStream) (k : Nat), 6 ≤ k →
      last.length + value.length ≤ k → out.roomFor k →
      ∃ out2, OutputValueLoop value last out = some out2 ∧
        Extends out out2 (last ++ escapeText value) := by
  induction value with
  | nil =>
    intro last out k _ hl hr
    unfold OutputValueLoop
    by_cases h : last = []
    · subst h; exact ⟨out, by simp, by simpa [escapeText] using Extends.refl out⟩
    · obtain ⟨o, ho, e⟩ := Write_extends out last (hr.mono (by simpa using hl))
      exact ⟨o, by simp [h, ho], by simpa [escapeText] using e⟩
  | cons symb rest ih =>
    intro last out k hk hl hr
    simp only [List.length_cons] at hl
    unfold OutputValueLoop
    by_cases h : symb = 60 ∨ symb = 38 ∨ symb = 62 ∨ symb = 34
    · obtain ⟨o1, ho1, e1⟩ := Write_extends out last (hr.mono (by omega))
      have hr1 := hr.step e1
      have hent : ∃ o2, (if symb = 60 then o1.Write (bytes "&lt;")
          else if symb = 62 then o1.Write (bytes "&gt;")
          else if symb = 38 then o1.Write (bytes "&amp;")
          else if symb = 39 then o1.Write (bytes "&apos;")
          else o1.Write (bytes "&quot;")) = some o2 ∧ Extends o1 o2 (escapeByte symb) := by
        unfold escapeByte
        rcases h with h | h | h | h <;> subst h <;> simp <;>
          exact Write_extends o1 _ (hr1.mono (by simpa using hk.trans' (by decide)))
      obtain ⟨o2, ho2, e2⟩ := hent
      obtain ⟨o3, ho3, e3⟩ := ih [] o2 k hk (by simp; omega) (hr1.step e2)
      refine ⟨o3, ?_, ?_⟩
      · simp only [if_pos h, ho1, Option.some_bind, ho2]; simpa using ho3
      · have := (e1.trans e2).trans e3
        simpa [escapeText, List.append_assoc] using this
    · obtain ⟨o3, ho3, e3⟩ := ih (last ++ [symb]) out k hk (by simp; omega) hr
      refine ⟨o3, by simpa [if_neg h] using ho3, ?_⟩
      have hb : escapeByte symb = [symb] := by
        unfold escapeByte; simp only [not_or] at h; simp [h.1, h.2.1, h.2.2.1, h.2.2.2]
      simpa [escapeText, hb, List.append_assoc] using e3

theorem OutputValue_extends (value : List Nat) (out : TXMLOutputStream) (k : Nat)
    (hk : 6 ≤ k) (hl : value.length ≤ k) (hr : out.roomFor k) :
    ∃ out2, OutputValue value out = some out2 ∧ Extends out out2 (escapeText value) := by
  simpa [OutputValue] using OutputValueLoop_extends value [] out k hk (by simpa using hl) hr

theorem UnpackLoop_cons_ne (c : Nat) (rest : List Nat) (h : c ≠ 38) :
    UnpackLoop 0 (c :: rest) = c :: UnpackLoop 0 rest := by
  simp [UnpackLoop, h]

theorem UnpackLoop_escapeText (s : List Nat) : UnpackLoop 0 (escapeText s) = s := by
  induction s with
  | nil => simp [escapeText, UnpackLoop]
  | cons c rest ih =>
    unfold escapeText escapeByte
    by_cases h1 : c = 60
    · subst h1; simp [bytes_lt, UnpackLoop, ih]
    by_cases h2 : c = 62
    · subst h2; simp [bytes_gt, UnpackLoop, ih]
    by_cases h3 : c = 38
    · subst h3; simp [bytes_amp, UnpackLoop, ih]
    by_cases h4 : c = 34
    · subst h4; simp [bytes_quot, UnpackLoop, ih]
    simp [h1, h2, h3, h4, UnpackLoop_cons_ne c _ h3, ih]

theorem Unpack_escapeText (s : List Nat) : UnpackSpecialCharacters (escapeText s) = s :=
  UnpackLoop_escapeText s

end

section

open TXMLEngine TXMLOutputStream

namespace TXMLOutputStream

theorem Writes.congr {r : Option TXMLOutputStream} {out : TXMLOutputStream} {s t : List Nat}
    (h : Writes r out s) (e : s = t) : Writes r out t := e ▸ h

theorem Writes.pure {a b : TXMLOutputStream} {s : List Nat} (e : Extends a b s) :
    Writes (some b) a s := ⟨b, rfl, e⟩

theorem Writes.after {a b : TXMLOutputStream} {r : Option TXMLOutputStream} {s t : List Nat}
    (e : Extends a b s) (h : Writes r b t) : Writes r a (s ++ t) := by
  obtain ⟨o, ho, e2⟩ := h
  exact ⟨o, ho, e.trans e2⟩

theorem Writes.bind {r : Option TXMLOutputStream} {out : TXMLOutputStream} {s t : List Nat}
    {g : TXMLOutputStream → Option TXMLOutputStream}
    (h : Writes r out s) (hg : ∀ o, Extends out o s → Writes (g o) o t) :
    Writes (r.bind g) out (s ++ t) := by
  obtain ⟨o, ho, e⟩ := h
  obtain ⟨o2, ho2, e2⟩ := hg o e
  exact ⟨o2, by simp [ho, ho2], e.trans e2⟩

theorem Writes.map {r : Option TXMLOutputStream} {out : TXMLOutputStream} {s t : List Nat}
    {g : TXMLOutputStream → TXMLOutputStream}
    (h : Writes r out s) (hg : ∀ o, Extends o (g o) t) :
    Writes (r.map g) out (s ++ t) := by
  obtain ⟨o, ho, e⟩ := h
  exact ⟨g o, by simp [ho], e.trans (hg o)⟩

theorem Writes.room {r : Option TXMLOutputStream} {out : TXMLOutputStream} {s : List Nat}
    (h : Writes r out s) : ∃ o, r = some o ∧ Extends out o s := h

theorem Write_writes (out : TXMLOutputStream) (str : List Nat) (k : Nat)
    (hr : out.roomFor k) (hl : str.length ≤ k) : Writes (out.Write str) out str :=
  Write_extends out str (hr.mono hl)

end TXMLOutputStream

theorem OutputValue_writes (value : List Nat) (out : TXMLOutputStream) (k : Nat)
    (hk : 6 ≤ k) (hl : value.length ≤ k) (hr : out.roomFor k) :
    Writes (OutputValue value out) out (escapeText value) :=
  OutputValue_extends value out k hk hl hr

theorem bytes_eqq : bytes "=\"" = [61, 34] := by decide
theorem bytes_copen : bytes "<!--" = [60, 33, 45, 45] := by decide
theorem bytes_cclose : bytes "-->" = [45, 45, 62] := by decide
theorem bytes_piend : bytes "?>" = [63, 62] := by decide
theorem bytes_selfend : bytes "/>" = [47, 62] := by decide
theorem bytes_closetag : bytes "</" = [60, 47] := by decide

theorem SaveNodeAttrs_writes (attrs : List SXmlAttr_t) :
    ∀ (out : TXMLOutputStream) (k : Nat), 6 ≤ k → attrsWidest attrs ≤ k → out.roomFor k →
      Writes (SaveNodeAttrs attrs out) out (attrsText attrs) := by
  induction attrs with
  | nil => intro out k _ _ _; exact Writes.pure (Extends.refl out)
  | cons attr rest ih =>
    intro out k hk hw hr
    simp only [attrsWidest, max_le_iff] at hw
    unfold SaveNodeAttrs
    have e0 := Put_extends out 32 1
    have h1 : Writes ((out.Put 32).Write attr.name) out ([32] ++ attr.name) :=
      Writes.after e0 (Write_writes _ _ k (hr.step e0) hw.1)
    refine Writes.congr (s := ([32] ++ attr.name) ++ (bytes "=\"" ++ (escapeText attr.value ++
      ([34] ++ attrsText rest)))) ?_ (by simp [attrsText])
    refine h1.bind fun o1 e1 => ?_
    have r1 := hr.step e1
    refine (Write_writes o1 _ k r1 (by simp [bytes_eqq]; omega)).bind fun o2 e2 => ?_
    have r2 := r1.step e2
    refine (OutputValue_writes attr.value o2 k hk hw.2.1 r2).bind fun o3 e3 => ?_
    have r3 := r2.step e3
    have e4 := Put_extends o3 34 1
    exact Writes.after e4 (ih _ k hk hw.2.2 (r3.step e4))

theorem SaveNodeNs_writes (node : SXmlNode_t) (out : TXMLOutputStream) (k : Nat)
    (hw : (nsText node).length ≤ k) (hr : out.roomFor k) :
    Writes (SaveNodeNs node out) out (nsText node) := by
  unfold SaveNodeNs
  unfold nsText at hw ⊢
  cases hn : node.nsAttr with
  | none => simpa using Writes.pure (Extends.refl out)
  | some a =>
    simp only [hn] at hw ⊢
    by_cases hf : node.nsNotFirst = true
    · simp only [hf, if_true] at hw ⊢
      exact (Write_writes out _ k hr (by simp only [List.length_append, List.length_singleton] at hw; omega)).map fun o => Put_extends o 58 1
    · simp only [hf] at hw ⊢
      simpa using Writes.pure (Extends.refl out)

theorem ite_Put_writes (c : Prop) [Decidable c] (out : TXMLOutputStream) (symb cnt : Nat) :
    Writes (some (if c then out.Put symb cnt else out)) out
      (if decide c then List.replicate cnt symb else []) :=
  Writes.pure (ite_Put_extends c out symb cnt)

theorem SaveNodeSpecial_writes (node : SXmlNode_t) (out : TXMLOutputStream) (layout : Int)
    (k : Nat) (hk : 6 ≤ k) (hname : node.fName.length ≤ k) (hr : out.roomFor k) :
    Writes (SaveNodeSpecial node out layout) out (specialText (decide (layout > 0)) node) := by
  unfold SaveNodeSpecial specialText newline
  by_cases hc : node.fType = EXmlNodeType.kXML_COMMENT
  · simp only [hc, if_true]
    refine Writes.congr (s := bytes "<!--" ++ (node.fName ++ (bytes "-->" ++
      (if decide (layout > 0) then List.replicate 1 10 else [])))) ?_ (by simp)
    refine (Write_writes out _ k hr (by simp [bytes_copen]; omega)).bind fun o1 e1 => ?_
    have r1 := hr.step e1
    refine (Write_writes o1 _ k r1 hname).bind fun o2 e2 => ?_
    have r2 := r1.step e2
    refine (Write_writes o2 _ k r2 (by simp [bytes_cclose]; omega)).bind fun o3 e3 => ?_
    exact ite_Put_writes _ o3 10 1
  · simp only [hc, if_false]
    refine Writes.congr (s := node.fName ++
      (if decide (layout > 0) then List.replicate 1 10 else [])) ?_ (by simp)
    refine (Write_writes out _ k hr hname).bind fun o1 e1 => ?_
    exact ite_Put_writes _ o1 10 1

theorem SaveNodeOpen_writes (node : SXmlNode_t) (out : TXMLOutputStream)
    (k : Nat) (hk : 6 ≤ k) (hname : node.fName.length ≤ k)
    (hattrs : attrsWidest node.fAttr ≤ k) (hns : (nsText node).length ≤ k)
    (hr : out.roomFor k) :
    Writes (SaveNodeOpen node out) out (openText node) := by
  unfold SaveNodeOpen openText
  have e0 := Put_extends out 60 1
  have e1 := ite_Put_extends (node.fType = EXmlNodeType.kXML_PI_NODE) (out.Put 60) 63 1
  have e01 := e0.trans e1
  have r1 := hr.step e01
  refine Writes.congr (s := (List.replicate 1 60 ++
    (if decide (node.fType = EXmlNodeType.kXML_PI_NODE) then List.replicate 1 63 else [])) ++
    (nsText node ++ (node.fName ++ attrsText node.fAttr))) ?_ ?_
  · refine Writes.after e01 ?_
    refine (SaveNodeNs_writes node _ k hns r1).bind fun o2 e2 => ?_
    have r2 := r1.step e2
    refine (Write_writes o2 _ k r2 hname).bind fun o3 e3 => ?_
    exact SaveNodeAttrs_writes _ o3 k hk hattrs (r2.step e3)
  · by_cases h : node.fType = EXmlNodeType.kXML_PI_NODE <;> simp [h]

theorem SaveNodeSingleLine_writes (node : SXmlNode_t) (out : TXMLOutputStream) (layout : Int)
    (k : Nat) (hk : 6 ≤ k) (hr : out.roomFor k) :
    Writes (SaveNodeSingleLine node out layout) out
      (singleLineText (decide (layout > 0)) node) := by
  unfold SaveNodeSingleLine singleLineText newline
  have h1 : Writes (if node.fType = EXmlNodeType.kXML_PI_NODE then out.Write (bytes "?>")
      else out.Write (bytes "/>")) out
      (if node.fType = EXmlNodeType.kXML_PI_NODE then bytes "?>" else bytes "/>") := by
    split_ifs
    · exact Write_writes out _ k hr (by simp [bytes_piend]; omega)
    · exact Write_writes out _ k hr (by simp [bytes_selfend]; omega)
  refine Writes.congr (s := (if node.fType = EXmlNodeType.kXML_PI_NODE then bytes "?>"
    else bytes "/>") ++ (if decide (layout > 0) then List.replicate 1 10 else [])) ?_ (by simp)
  refine h1.bind fun o1 e1 => ?_
  exact ite_Put_writes _ o1 10 1

theorem SaveNodeClose_writes (node : SXmlNode_t) (out : TXMLOutputStream) (layout : Int)
    (k : Nat) (hk : 6 ≤ k) (hname : node.fName.length ≤ k) (hns : (nsText node).length ≤ k)
    (hr : out.roomFor k) :
    Writes (SaveNodeClose node out layout) out
      (closeText node ++ newline (decide (layout > 0))) := by
  unfold SaveNodeClose closeText newline
  refine Writes.congr (s := bytes "</" ++ (nsText node ++ (node.fName ++ (List.replicate 1 62 ++
    (if decide (layout > 0) then List.replicate 1 10 else []))))) ?_ (by simp)
  refine (Write_writes out _ k hr (by simp [bytes_closetag]; omega)).bind fun o1 e1 => ?_
  have r1 := hr.step e1
  refine (SaveNodeNs_writes node _ k hns r1).bind fun o2 e2 => ?_
  have r2 := r1.step e2
  refine (Write_writes o2 _ k r2 hname).bind fun o3 e3 => ?_
  have e4 := Put_extends o3 62 1
  exact Writes.after e4 (ite_Put_writes _ _ 10 1)

mutual
theorem SaveNode_writes (layout : Int) : ∀ (node : SXmlNode_t) (out : TXMLOutputStream)
    (level k : Nat), widest node ≤ k → out.roomFor k →
    Writes (SaveNode node out layout level) out (nodeText (decide (layout > 0)) level node)
  | SXmlNode_t.mk fType fName fAttr fNs fChild, out, level, k, hw, hr => by
    simp only [widest, max_le_iff] at hw
    obtain ⟨hk, hname, hattrs, hns, hkids⟩ := hw
    have e0 := ite_Put_extends (layout > 0) out 32 level
    have r0 := hr.step e0
    rw [SaveNode, nodeText.eq_def]
    simp only []
    generalize hnode : SXmlNode_t.mk fType fName fAttr fNs fChild = node at *
    have hname2 : node.fName.length ≤ k := by subst hnode; exact hname
    have hattrs2 : attrsWidest node.fAttr ≤ k := by subst hnode; exact hattrs
    by_cases hs : isSpecial fType = true
    · simp only [hs, if_true]
      exact Writes.after e0 (SaveNodeSpecial_writes node _ layout k hk hname2 r0)
    · simp only [hs]
      rw [List.append_assoc]
      refine Writes.after e0 ?_
      refine (SaveNodeOpen_writes node _ k hk hname2 hattrs2 hns r0).bind fun o1 e1 => ?_
      have r1 := r0.step e1
      cases fChild with
      | nil => exact SaveNodeSingleLine_writes node o1 layout k hk r1
      | cons child next =>
        simp only
        have e2 := Put_extends o1 62 1
        have r2 := r1.step e2
        simp only [widestList, max_le_iff] at hkids
        have hchild : child.fName.length ≤ k := by
          cases child with
          | mk t n a ns c =>
            have := hkids.1
            simp only [widest, max_le_iff] at this
            exact this.2.1
        refine Writes.congr (s := ((List.replicate 1 62 ++
          (if child.fType = EXmlNodeType.kXML_CONTENT ∧ next.isEmpty = true then child.fName
           else newline (decide (layout > 0)) ++
             (childrenText (decide (layout > 0)) (level + 2) (child :: next) ++
               indent (decide (layout > 0)) level))) ++
          (closeText node ++ newline (decide (layout > 0))))) ?_ ?_
        · refine Writes.bind ?_ fun o4 e4 =>
            SaveNodeClose_writes node o4 layout k hk hname2 hns (r1.step e4)
          by_cases hl : child.fType = EXmlNodeType.kXML_CONTENT ∧ next.isEmpty = true
          · simp only [hl, and_self, if_true]
            exact Writes.after e2 (Write_writes _ _ k r2 hchild)
          · simp only [hl, if_false]
            have e3 := ite_Put_extends (layout > 0) (o1.Put 62) 10 1
            have e23 := e2.trans e3
            have r3 := r1.step e23
            have hput : (if layout > 0 then (o1.Put 62).Put 10 else o1.Put 62) =
                (if layout > 0 then (o1.Put 62).Put 10 1 else o1.Put 62) := rfl
            rw [hput]
            refine Writes.congr (s := (List.replicate 1 62 ++
              (if decide (layout > 0) then List.replicate 1 10 else [])) ++
              (childrenText (decide (layout > 0)) (level + 2) (child :: next) ++
               indent (decide (layout > 0)) level)) ?_ ?_
            · refine Writes.after e23 ?_
              refine (SaveNodeChildren_writes layout (child :: next) _ (level + 2) k
                (by simp only [widestList, max_le_iff]; exact hkids) r3).bind fun o5 e5 => ?_
              exact ite_Put_writes _ o5 32 level
            · simp [newline]
        · by_cases hl : child.fType = EXmlNodeType.kXML_CONTENT ∧ next.isEmpty = true <;>
            simp [hl]
theorem SaveNodeChildren_writes (layout : Int) : ∀ (kids : List SXmlNode_t)
    (out : TXMLOutputStream) (level k : Nat), widestList kids ≤ k → out.roomFor k →
    Writes (SaveNodeChildren kids out layout level) out
      (childrenText (decide (layout > 0)) level kids)
  | [], out, level, k, _, _ => by
    unfold SaveNodeChildren childrenText
    exact Writes.pure (Extends.refl out)
  | child :: next, out, level, k, hw, hr => by
    simp only [widestList, max_le_iff] at hw
    unfold SaveNodeChildren childrenText
    refine (SaveNode_writes layout child out level k hw.1 hr).bind fun o1 e1 => ?_
    exact SaveNodeChildren_writes layout next o1 level k hw.2 (hr.step e1)
end

end

section

open TXMLEngine TXMLOutputStream

theorem layoutOn_append (a b : List (Bool × List Nat)) :
    layoutOn (a ++ b) = layoutOn a ++ layoutOn b := by
  induction a with
  | nil => rfl
  | cons p ps ih => simp [layoutOn, ih]

theorem layoutOff_append (a b : List (Bool × List Nat)) :
    layoutOff (a ++ b) = layoutOff a ++ layoutOff b := by
  induction a with
  | nil => rfl
  | cons p ps ih => simp [layoutOff, ih]

mutual
theorem nodeText_true_eq : ∀ (node : SXmlNode_t) (depth : Nat),
    nodeText true (2 * depth) node = layoutOn (layoutPieces depth node)
  | SXmlNode_t.mk fType fName fAttr fNs fChild, depth => by
    rw [nodeText.eq_def, layoutPieces.eq_def]
    simp only []
    by_cases hs : isSpecial fType = true
    · simp [hs, layoutOn, indent, specialText, newline]
      split_ifs <;> simp
    · simp only [hs]
      cases fChild with
      | nil => simp [layoutOn, indent, singleLineText, newline]
      | cons child next =>
        by_cases hl : child.fType = EXmlNodeType.kXML_CONTENT ∧ next.isEmpty = true
        · simp [hl, layoutOn, indent, newline]
        · have ih := childrenText_true_eq (child :: next) (depth + 1)
          have h2 : 2 * depth + 2 = 2 * (depth + 1) := by ring
          simp only [hl, if_false, h2, ih, layoutOn_append]
          simp [layoutOn, layoutOn_append, indent, newline]
theorem childrenText_true_eq : ∀ (kids : List SXmlNode_t) (depth : Nat),
    childrenText true (2 * depth) kids = layoutOn (layoutPiecesList depth kids)
  | [], depth => by simp [childrenText, layoutPiecesList, layoutOn]
  | child :: next, depth => by
    rw [childrenText, layoutPiecesList, layoutOn_append, nodeText_true_eq child depth,
      childrenText_true_eq next depth]
end

mutual
theorem nodeText_false_eq : ∀ (node : SXmlNode_t) (level depth : Nat),
    nodeText false level node = layoutOff (layoutPieces depth node)
  | SXmlNode_t.mk fType fName fAttr fNs fChild, level, depth => by
    rw [nodeText.eq_def, layoutPieces.eq_def]
    simp only []
    by_cases hs : isSpecial fType = true
    · simp [hs, layoutOff, indent]
    · simp only [hs]
      cases fChild with
      | nil => simp [layoutOff, indent]
      | cons child next =>
        by_cases hl : child.fType = EXmlNodeType.kXML_CONTENT ∧ next.isEmpty = true
        · simp [hl, layoutOff, indent, newline]
        · have ih := childrenText_false_eq (child :: next) (level + 2) (depth + 1)
          simp only [hl, if_false, ih, layoutOff_append]
          simp [layoutOff, layoutOff_append, indent, newline]
theorem childrenText_false_eq : ∀ (kids : List SXmlNode_t) (level depth : Nat),
    childrenText false level kids = layoutOff (layoutPiecesList depth kids)
  | [], level, depth => by simp [childrenText, layoutPiecesList, layoutOff]
  | child :: next, level, depth => by
    rw [childrenText, layoutPiecesList, layoutOff_append, nodeText_false_eq child level depth,
      childrenText_false_eq next level depth]
end

/-- C2 (escaping inverse law): on every sink that takes the writes (a file sink, or a
string sink with room for the value), `OutputValue` writes for the value `s` a text `w`
with `UnpackSpecialCharacters(w) = s`. -/
theorem OutputValue_Unpack_inverse (s : List Nat) (out : TXMLOutputStream)
    (hr : out.roomFor (max 6 s.length)) :
    ∃ out2 w, OutputValue s out = some out2 ∧ out2.written = out.written ++ w ∧
      UnpackSpecialCharacters w = s := by
  obtain ⟨out2, h, e⟩ := OutputValue_extends s out (max 6 s.length) (le_max_left _ _)
    (le_max_right _ _) hr
  exact ⟨out2, escapeText s, h, e.1, Unpack_escapeText s⟩

theorem OutputValue_Unpack_inverse_witness :
    (TXMLOutputStream.ofString [] 10000).roomFor (max 6 (bytes "a<b>&\"'c").length) ∧
    ∃ out2 w, OutputValue (bytes "a<b>&\"'c") (TXMLOutputStream.ofString [] 10000) = some out2 ∧
      out2.written = (TXMLOutputStream.ofString [] 10000).written ++ w ∧
      UnpackSpecialCharacters w = bytes "a<b>&\"'c" :=
  ⟨by decide, OutputValue_Unpack_inverse _ _ (by decide)⟩

/-- C4 (failing input): for the value `'` the serializer writes the apostrophe itself,
not `&apos;`: `strpbrk(last, "<&>\"")` never stops at an apostrophe. -/
theorem OutputValue_apostrophe_raw :
    (OutputValue (bytes "'") (TXMLOutputStream.ofFile 100000)).map TXMLOutputStream.close
      = some (bytes "'") ∧
    (SaveDoc ⟨SXmlNode_t.mk EXmlNodeType.kXML_NODE (bytes "??DummyTopNode??") [] none
        [SXmlNode_t.mk EXmlNodeType.kXML_NODE (bytes "a") [⟨bytes "x", bytes "'"⟩] none []],
        none, none⟩ 0) = some (bytes "<a x=\"'\"/>") := by
  decide

/-- C5 (counterexample): the text written for the Content node `<` is the raw `<`, as a
node among siblings and as a lone child written inline. -/
theorem SaveNode_content_not_escaped :
    (SaveNode (SXmlNode_t.mk EXmlNodeType.kXML_CONTENT (bytes "<") [] none [])
      (TXMLOutputStream.ofFile 100000) 0 0).map TXMLOutputStream.close = some (bytes "<") ∧
    SaveSingleNode (SXmlNode_t.mk EXmlNodeType.kXML_NODE (bytes "a") [] none
      [SXmlNode_t.mk EXmlNodeType.kXML_CONTENT (bytes "<") [] none []]) [] 0
      = some (bytes "<a><</a>") := by
  decide

theorem widest_ge_six (node : SXmlNode_t) : 6 ≤ widest node := by
  cases node; simp [widest]

theorem widest_child_le (fType : EXmlNodeType) (fName : List Nat) (fAttr : List SXmlAttr_t)
    (fNs : Option NsPtr) (c : SXmlNode_t) (next : List SXmlNode_t) :
    widest c ≤ widest (SXmlNode_t.mk fType fName fAttr fNs (c :: next)) := by
  simp [widest, widestList]

/-- C5 (amended): `SaveNode` writes the text of a Content node as it is stored, without
replacing any byte: a Content node by itself is written as its indentation, its text and the
newline of the layout, and a lone Content child is written between the `>` of the open tag
and the close tag of its parent. -/
theorem SaveNode_content_verbatim (c : SXmlNode_t) (fType : EXmlNodeType) (fName : List Nat)
    (fAttr : List SXmlAttr_t) (fNs : Option NsPtr)
    (out : TXMLOutputStream) (layout : Int) (level : Nat)
    (hc : c.fType = EXmlNodeType.kXML_CONTENT) (hp : isSpecial fType = false)
    (hr : out.roomFor (widest (SXmlNode_t.mk fType fName fAttr fNs [c]))) :
    Writes (SaveNode c out layout level) out
      (indent (decide (layout > 0)) level ++ c.fName ++ newline (decide (layout > 0))) ∧
    Writes (SaveNode (SXmlNode_t.mk fType fName fAttr fNs [c]) out layout level) out
      (indent (decide (layout > 0)) level ++ openText (SXmlNode_t.mk fType fName fAttr fNs [c]) ++
        [62] ++ c.fName ++ closeText (SXmlNode_t.mk fType fName fAttr fNs [c]) ++
        newline (decide (layout > 0))) := by
  constructor
  · refine (SaveNode_writes layout c out level _ (widest_child_le fType fName fAttr fNs c []) hr
      ).congr ?_
    cases c with
    | mk t n a ns ch =>
      simp only [SXmlNode_t.fType] at hc
      subst hc
      rw [nodeText.eq_def]
      simp [isSpecial, specialText, SXmlNode_t.fType, SXmlNode_t.fName]
  · refine (SaveNode_writes layout _ out level _ le_rfl hr).congr ?_
    rw [nodeText.eq_def]
    simp [hp, hc]

theorem SaveNode_content_verbatim_witness :
    (SXmlNode_t.mk EXmlNodeType.kXML_CONTENT (bytes "a<&b") [] none []).fType
        = EXmlNodeType.kXML_CONTENT ∧
    isSpecial EXmlNodeType.kXML_NODE = false ∧
    (TXMLOutputStream.ofString [] 10000).roomFor (widest (SXmlNode_t.mk EXmlNodeType.kXML_NODE
        (bytes "n") [] none [SXmlNode_t.mk EXmlNodeType.kXML_CONTENT (bytes "a<&b") [] none []])) ∧
    Writes (SaveNode (SXmlNode_t.mk EXmlNodeType.kXML_NODE (bytes "n") [] none
        [SXmlNode_t.mk EXmlNodeType.kXML_CONTENT (bytes "a<&b") [] none []])
        (TXMLOutputStream.ofString [] 10000) 1 4) (TXMLOutputStream.ofString [] 10000)
      (bytes "    <n>a<&b</n>\n") :=
  ⟨rfl, rfl, by decide,
    ((SaveNode_content_verbatim (SXmlNode_t.mk EXmlNodeType.kXML_CONTENT (bytes "a<&b") [] none [])
      EXmlNodeType.kXML_NODE (bytes "n") [] none (TXMLOutputStream.ofString [] 10000) 1 4
      rfl rfl (by decide)).2).congr (by decide)⟩

/-- C6 (layout rule): on every sink that takes the writes, `SaveNode` at nesting depth `d`
(level `2*d`) writes for `layout > 0` all pieces of `layoutPieces d node`, in which every
node starts with `2*d` spaces and ends with a newline and a lone Content child stands inline,
and for `layout <= 0` the same pieces without the white space of the serializer. -/
theorem SaveNode_layout_rule (node : SXmlNode_t) (out : TXMLOutputStream) (layout : Int)
    (d : Nat) (hr : out.roomFor (widest node)) :
    Writes (SaveNode node out layout (2 * d)) out
      (if layout > 0 then layoutOn (layoutPieces d node)
       else layoutOff (layoutPieces d node)) := by
  refine (SaveNode_writes layout node out (2 * d) _ le_rfl hr).congr ?_
  by_cases h : layout > 0
  · simp [h, nodeText_true_eq]
  · simp [h, nodeText_false_eq node (2 * d) d]

theorem SaveNode_layout_rule_witness :
    (TXMLOutputStream.ofFile 100000).roomFor (widest
      (SXmlNode_t.mk EXmlNodeType.kXML_NODE (bytes "a") [] none
        [SXmlNode_t.mk EXmlNodeType.kXML_NODE (bytes "b") [] none
          [SXmlNode_t.mk EXmlNodeType.kXML_CONTENT (bytes "t") [] none []],
         SXmlNode_t.mk EXmlNodeType.kXML_COMMENT (bytes "c") [] none []])) ∧
    Writes (SaveNode (SXmlNode_t.mk EXmlNodeType.kXML_NODE (bytes "a") [] none
        [SXmlNode_t.mk EXmlNodeType.kXML_NODE (bytes "b") [] none
          [SXmlNode_t.mk EXmlNodeType.kXML_CONTENT (bytes "t") [] none []],
         SXmlNode_t.mk EXmlNodeType.kXML_COMMENT (bytes "c") [] none []])
        (TXMLOutputStream.ofFile 100000) 1 (2 * 1)) (TXMLOutputStream.ofFile 100000)
      (bytes "  <a>\n    <b>t</b>\n    <!--c-->\n  </a>\n") :=
  ⟨by decide, (SaveNode_layout_rule _ _ 1 1 (by decide)).congr (by decide)⟩

end

section

open TXMLEngine

namespace TXMLInputStream

@[simp] theorem advance_fBuf (inp : TXMLInputStream) (n : Nat) : (inp.advance n).fBuf = inp.fBuf := rfl
@[simp] theorem advance_fInpStr (inp : TXMLInputStream) (n : Nat) :
    (inp.advance n).fInpStr = inp.fInpStr := rfl
@[simp] theorem advance_fLimitAddr (inp : TXMLInputStream) (n : Nat) :
    (inp.advance n).fLimitAddr = inp.fLimitAddr := rfl
@[simp] theorem advance_fEntities (inp : TXMLInputStream) (n : Nat) :
    (inp.advance n).fEntities = inp.fEntities := rfl
@[simp] theorem advance_charSigned (inp : TXMLInputStream) (n : Nat) :
    (inp.advance n).charSigned = inp.charSigned := rfl
@[simp] theorem advance_pastByte (inp : TXMLInputStream) (n : Nat) :
    (inp.advance n).pastByte = inp.pastByte := rfl
@[simp] theorem advance_fCurrent (inp : TXMLInputStream) (n : Nat) :
    (inp.advance n).fCurrent = inp.fCurrent + n := rfl

@[simp] theorem advance_rest (inp : TXMLInputStream) (n : Nat) :
    (inp.advance n).rest = inp.rest.drop n := by
  simp [rest, advance, List.drop_drop, Nat.add_comm]

@[simp] theorem advance_zero (inp : TXMLInputStream) : inp.advance 0 = inp := by
  simp [advance]

@[simp] theorem advance_advance (inp : TXMLInputStream) (a b : Nat) :
    (inp.advance a).advance b = inp.advance (a + b) := by
  have h : (inp.rest.take (a + b)).count 10 =
      (inp.rest.take a).count 10 + ((inp.rest.drop a).take b).count 10 := by
    rw [List.take_add, List.count_append]
  simp only [advance, advance_rest, h]
  simp [rest, advance, Nat.add_assoc]

@[simp] theorem advance_asChar (inp : TXMLInputStream) (n b : Nat) :
    (inp.advance n).asChar b = inp.asChar b := rfl

@[simp] theorem advance_isSpace (inp : TXMLInputStream) (n b : Nat) :
    (inp.advance n).isSpace b = inp.isSpace b := rfl

theorem Buffered.advance {inp : TXMLInputStream} (h : inp.Buffered) (n : Nat) :
    (inp.advance n).Buffered := h

theorem rest_length (inp : TXMLInputStream) : inp.rest.length = inp.fBuf.length - inp.fCurrent := by
  simp [rest]

theorem Buffered.avail {inp : TXMLInputStream} (h : inp.Buffered) :
    inp.avail = inp.rest.length := by
  simp [TXMLInputStream.avail, h.1, rest_length]

theorem deref_add (inp : TXMLInputStream) (i : Nat) :
    inp.deref (inp.fCurrent + i) = inp.rest.getD i inp.pastByte := by
  simp only [deref, rest, List.getD_eq_getElem?_getD, List.getElem?_drop]

theorem deref_fCurrent (inp : TXMLInputStream) :
    inp.deref inp.fCurrent = inp.rest.headD inp.pastByte := by
  have := deref_add inp 0
  simp only [Nat.add_zero] at this
  rw [this]
  cases inp.rest <;> simp

theorem slice_add (inp : TXMLInputStream) (i len : Nat) :
    inp.slice (inp.fCurrent + i) len = (inp.rest.drop i).take len := by
  simp [slice, rest, List.drop_drop, Nat.add_comm]

theorem slice_fCurrent (inp : TXMLInputStream) (len : Nat) :
    inp.slice inp.fCurrent len = inp.rest.take len := by
  simp [slice, rest]

theorem Buffered.EndOfFile {inp : TXMLInputStream} (h : inp.Buffered) : inp.EndOfFile = true := by
  simp [TXMLInputStream.EndOfFile, h.1]

theorem Buffered.ExpandStream {inp : TXMLInputStream} (h : inp.Buffered) :
    inp.ExpandStream = (false, inp) := by
  simp [TXMLInputStream.ExpandStream, h.EndOfFile]

theorem Buffered.ShiftStream {inp : TXMLInputStream} (h : inp.Buffered) :
    inp.ShiftStream = inp := by
  unfold TXMLInputStream.ShiftStream
  simp [h.EndOfFile]

theorem Buffered.ExpandAt {inp : TXMLInputStream} (h : inp.Buffered) (curr : Nat) :
    inp.ExpandAt curr = (decide (curr < inp.fBuf.length), inp) := by
  unfold TXMLInputStream.ExpandAt
  by_cases hc : curr ≥ inp.fBuf.length
  · simp [hc, h.ExpandStream]
  · simp [hc]; omega

theorem Buffered.ExpandTo {inp : TXMLInputStream} (h : inp.Buffered) (need fuel : Nat) :
    ExpandTo need fuel inp = (decide (need ≤ inp.fBuf.length), inp) := by
  cases fuel with
  | zero => rfl
  | succ f =>
    unfold TXMLInputStream.ExpandTo
    by_cases hc : need > inp.fBuf.length
    · simp [hc, h.ExpandStream]
    · simp [hc]; omega

theorem count_take_drop_succ (l : List Nat) (cur n : Nat) (h : cur < l.length) :
    ((l.drop cur).take (n + 1)).count 10 =
      (if l[cur] = 10 then 1 else 0) + ((l.drop (cur + 1)).take n).count 10 := by
  rw [List.drop_eq_getElem_cons h, List.take_succ_cons, List.count_cons]
  by_cases h10 : l[cur] = 10
  · simp [h10, Nat.add_comm]
  · simp [h10]

theorem Buffered.ShiftCurrentLoop {inp : TXMLInputStream} (h : inp.Buffered) :
    ∀ (n : Nat) (line : Nat) (cur : Nat), cur + n ≤ inp.fBuf.length →
      ShiftCurrentLoop n { inp with fCurrent := cur, fCurrentLine := line } =
        (true, { inp with fCurrent := cur + n,
                          fCurrentLine := line + ((inp.fBuf.drop cur).take n).count 10 }) := by
  intro n
  induction n with
  | zero => intro line cur _; simp [TXMLInputStream.ShiftCurrentLoop]
  | succ n ih =>
    intro line cur hle
    have hlt : cur < inp.fBuf.length := by omega
    have hderef : ∀ l, deref { inp with fCurrent := cur, fCurrentLine := l } cur = inp.fBuf[cur] := by
      intro l; simp [deref, List.getD_eq_getElem?_getD, List.getElem?_eq_getElem hlt]
    have hb : ∀ l, Buffered { inp with fCurrent := cur, fCurrentLine := l } := fun _ => h
    unfold TXMLInputStream.ShiftCurrentLoop
    simp only [hderef]
    rw [count_take_drop_succ inp.fBuf cur n hlt]
    by_cases h10 : inp.fBuf[cur] = 10
    · simp only [h10, if_true]
      have := ih (line + 1) (cur + 1) (by omega)
      by_cases hl : cur ≥ inp.fLimitAddr
      · simp only [hl, ge_iff_le, if_true, (hb (line + 1)).ShiftStream]
        simp only [show ¬ (inp.fBuf.length ≤ cur) from by omega, if_false]
        rw [this]
        simp only [Nat.add_assoc, Nat.add_comm 1]
      · simp only [hl, ge_iff_le, if_false]
        rw [this]
        simp only [Nat.add_assoc, Nat.add_comm 1]
    · simp only [h10, if_false]
      have := ih line (cur + 1) (by omega)
      by_cases hl : cur ≥ inp.fLimitAddr
      · simp only [hl, ge_iff_le, if_true, (hb line).ShiftStream]
        simp only [show ¬ (inp.fBuf.length ≤ cur) from by omega, if_false]
        rw [this]
        simp only [Nat.add_assoc, Nat.add_comm 1, Nat.zero_add]
      · simp only [hl, ge_iff_le, if_false]
        rw [this]
        simp only [Nat.add_assoc, Nat.add_comm 1, Nat.zero_add]

theorem Buffered.ShiftCurrent {inp : TXMLInputStream} (h : inp.Buffered) (n : Nat)
    (hn : n ≤ inp.rest.length) : inp.ShiftCurrent n = (true, inp.advance n) := by
  cases n with
  | zero => simp [TXMLInputStream.ShiftCurrent, TXMLInputStream.ShiftCurrentLoop]
  | succ m =>
    have := h.ShiftCurrentLoop (m + 1) inp.fCurrentLine inp.fCurrent
      (by rw [rest_length] at hn; omega)
    unfold TXMLInputStream.ShiftCurrent
    simp only [] at this
    rw [this]
    simp [TXMLInputStream.advance, rest]

theorem isSpace_iff (inp : TXMLInputStream) (b : Nat) :
    inp.isSpace b = false ↔ (inp.asChar b > 26 ∧ b ≠ 32) := by
  simp [isSpace]

theorem Buffered.SkipSpacesLoop_stop {inp : TXMLInputStream} (_h : inp.Buffered)
    (tillendl : Bool) (fuel c : Nat) (tail : List Nat)
    (hr : inp.rest = c :: tail) (hc : inp.isSpace c = false) :
    SkipSpacesLoop tillendl (fuel + 1) inp = (true, inp) := by
  have hlt : inp.fCurrent < inp.fBuf.length := by
    have := rest_length inp; rw [hr] at this; simp at this; omega
  unfold TXMLInputStream.SkipSpacesLoop
  have hd : inp.deref inp.fCurrent = c := by rw [deref_fCurrent, hr]; rfl
  rw [isSpace_iff] at hc
  simp [hlt, hd, hc]

/-- `SkipSpaces(false)` passes over a run of space bytes in front of another byte. -/
theorem Buffered.SkipSpaces_run (w : List Nat) :
    ∀ (inp : TXMLInputStream), inp.Buffered → ∀ (fuel c : Nat) (tail : List Nat),
      inp.rest = w ++ c :: tail → (∀ b ∈ w, inp.isSpace b = true) → inp.isSpace c = false →
      w.length < fuel → SkipSpacesLoop false fuel inp = (true, inp.advance w.length) := by
  induction w with
  | nil =>
    intro inp hb fuel c tail hr _ hc hf
    obtain ⟨f, rfl⟩ : ∃ f, fuel = f + 1 := ⟨fuel - 1, by simp at hf; omega⟩
    simpa using hb.SkipSpacesLoop_stop false f c tail hr hc
  | cons b w ih =>
    intro inp hb fuel c tail hr hw hc hf
    obtain ⟨f, rfl⟩ : ∃ f, fuel = f + 1 := ⟨fuel - 1, by simp at hf; omega⟩
    have hlt : inp.fCurrent < inp.fBuf.length := by
      have := rest_length inp; rw [hr] at this; simp at this; omega
    have hd : inp.deref inp.fCurrent = b := by rw [deref_fCurrent, hr]; rfl
    have hsp : ¬ (inp.asChar b > 26 ∧ b ≠ 32) := by
      have := hw b (List.mem_cons_self _ _)
      intro hx; rw [← isSpace_iff] at hx; rw [hx] at this; exact Bool.noConfusion this
    have hshift := hb.ShiftCurrent 1 (by rw [hr]; simp)
    unfold TXMLInputStream.SkipSpacesLoop
    simp only [hlt, if_true, hd, hsp, if_false, hshift]
    have := ih (inp.advance 1) (hb.advance 1) f c tail (by simp [hr])
      (fun x hx => by simpa using hw x (List.mem_cons_of_mem _ hx)) (by simpa using hc)
      (by simp at hf; omega)
    simp only [Bool.false_eq_true, false_and, if_false]
    rw [this]
    simp [Nat.add_comm]

theorem Buffered.SkipSpaces_spec {inp : TXMLInputStream} (h : inp.Buffered) (w : List Nat)
    (c : Nat) (tail : List Nat) (hr : inp.rest = w ++ c :: tail)
    (hw : ∀ b ∈ w, inp.isSpace b = true) (hc : inp.isSpace c = false) :
    inp.SkipSpaces false = (true, inp.advance w.length) := by
  unfold TXMLInputStream.SkipSpaces
  refine Buffered.SkipSpaces_run w inp h _ c tail hr hw hc ?_
  rw [h.avail, hr]; simp; omega

/-- Whatever `SkipSpaces` returns, it has passed over a run of space bytes only. -/
theorem Buffered.SkipSpacesLoop_any (tillendl : Bool) (fuel : Nat) :
    ∀ (inp : TXMLInputStream), inp.Buffered →
      ∃ j, (SkipSpacesLoop tillendl fuel inp).2 = inp.advance j ∧ j ≤ inp.rest.length ∧
        ∀ b ∈ inp.rest.take j, inp.isSpace b = true := by
  induction fuel with
  | zero => intro inp _; exact ⟨0, by simp [TXMLInputStream.SkipSpacesLoop], by simp, by simp⟩
  | succ f ih =>
    intro inp hb
    unfold TXMLInputStream.SkipSpacesLoop
    by_cases hlt : inp.fCurrent < inp.fBuf.length
    · obtain ⟨b, tail, hr⟩ : ∃ b tail, inp.rest = b :: tail := by
        have := rest_length inp
        cases hrr : inp.rest with
        | nil => rw [hrr] at this; simp at this; omega
        | cons b tail => exact ⟨b, tail, rfl⟩
      have hd : inp.deref inp.fCurrent = b := by rw [deref_fCurrent, hr]; rfl
      simp only [hlt, if_true, hd]
      by_cases hsp : inp.asChar b > 26 ∧ b ≠ 32
      · exact ⟨0, by simp [hsp], by simp, by simp⟩
      · have hshift := hb.ShiftCurrent 1 (by rw [hr]; simp)
        simp only [hsp, if_false, hshift]
        have hbs : inp.isSpace b = true := by
          cases hx : inp.isSpace b with
          | true => rfl
          | false => exact absurd ((isSpace_iff inp b).1 hx) hsp
        by_cases ht : tillendl = true ∧ b = 10
        · refine ⟨1, by simp [ht], by rw [hr]; simp, ?_⟩
          rw [hr]; simpa using hbs
        · obtain ⟨j, hj, hjl, hjs⟩ := ih (inp.advance 1) (hb.advance 1)
          refine ⟨1 + j, by simp [ht, hj], ?_, ?_⟩
          · simp [hr] at hjl ⊢; omega
          · intro x hx
            rw [hr, Nat.add_comm, List.take_succ_cons] at hx
            rcases List.mem_cons.1 hx with rfl | hx
            · exact hbs
            · simp [hr] at hjs; exact hjs x hx
    · exact ⟨0, by simp [hlt], by simp, by simp⟩

theorem Buffered.SkipSpaces_any {inp : TXMLInputStream} (h : inp.Buffered) (tillendl : Bool) :
    ∃ j, (inp.SkipSpaces tillendl).2 = inp.advance j ∧ j ≤ inp.rest.length ∧
      ∀ b ∈ inp.rest.take j, inp.isSpace b = true :=
  Buffered.SkipSpacesLoop_any tillendl _ inp h

theorem Buffered.CheckFor_spec {inp : TXMLInputStream} (h : inp.Buffered) (str : List Nat)
    (hne : str ≠ []) :
    inp.CheckFor str =
      if inp.rest.take str.length = str then (true, inp.advance str.length) else (false, inp) := by
  unfold TXMLInputStream.CheckFor
  rw [h.ExpandTo]
  by_cases hl : inp.fCurrent + str.length ≤ inp.fBuf.length
  · simp only [hl, decide_True, slice_fCurrent]
    by_cases he : inp.rest.take str.length = str
    · simp only [he, if_true]
      exact h.ShiftCurrent _ (by rw [rest_length]; omega)
    · simp [he]
  · simp only [hl, decide_False]
    have : inp.rest.take str.length ≠ str := by
      intro he
      have := congrArg List.length he
      have hpos := List.length_pos.2 hne
      simp [rest_length] at this
      omega
    simp [this]

end TXMLInputStream

end

section

open TXMLEngine

namespace TXMLInputStream

theorem rest_getD_lt {inp : TXMLInputStream} {i : Nat} (h : i < inp.rest.length) :
    inp.fCurrent + i < inp.fBuf.length := by
  rw [rest_length] at h; omega

theorem Buffered.LocateIdentifierLoop_spec (ns : List Nat) :
    ∀ (inp : TXMLInputStream), inp.Buffered → ∀ (fuel i c : Nat) (tail : List Nat),
      inp.rest.drop (i + 1) = ns ++ c :: tail → (∀ b ∈ ns, GoodNextSymbol b = true) →
      GoodNextSymbol c = false → ns.length < fuel →
      LocateIdentifierLoop fuel (inp.fCurrent + i) inp = (i + 1 + ns.length, inp) := by
  induction ns with
  | nil =>
    intro inp hb fuel i c tail hr _ hc hf
    obtain ⟨f, rfl⟩ : ∃ f, fuel = f + 1 := ⟨fuel - 1, by simp at hf; omega⟩
    have hlen : i + 1 < inp.rest.length := by
      have := congrArg List.length hr; simp at this; omega
    have hd : inp.deref (inp.fCurrent + i + 1) = c := by
      rw [Nat.add_assoc, deref_add, List.getD_eq_getElem?_getD, ← List.head?_drop, hr]; rfl
    unfold TXMLInputStream.LocateIdentifierLoop
    have hlt : inp.fCurrent + i + 1 < inp.fBuf.length := by
      have := rest_getD_lt hlen; omega
    simp [hb.ExpandAt, hd, hc, hlt]
    omega
  | cons b ns ih =>
    intro inp hb fuel i c tail hr hw hc hf
    obtain ⟨f, rfl⟩ : ∃ f, fuel = f + 1 := ⟨fuel - 1, by simp at hf; omega⟩
    have hlen : i + 1 < inp.rest.length := by
      have := congrArg List.length hr; simp at this; omega
    have hd : inp.deref (inp.fCurrent + i + 1) = b := by
      rw [Nat.add_assoc, deref_add, List.getD_eq_getElem?_getD, ← List.head?_drop, hr]; rfl
    have hlt := rest_getD_lt hlen
    have hnext : inp.rest.drop (i + 1 + 1) = ns ++ c :: tail := by
      rw [← List.drop_drop, hr]; rfl
    have := ih inp hb f (i + 1) c tail hnext (fun x hx => hw x (List.mem_cons_of_mem _ hx)) hc
      (by simp at hf; omega)
    have hlt2 : inp.fCurrent + i + 1 < inp.fBuf.length := by omega
    unfold TXMLInputStream.LocateIdentifierLoop
    simp only [hb.ExpandAt, hlt2, decide_True]
    simp only [hd, hw b (List.mem_cons_self _ _), Bool.not_true, Bool.false_eq_true, if_false,
      if_true]
    rw [show inp.fCurrent + i + 1 = inp.fCurrent + (i + 1) from by omega, this]
    simp only [List.length_cons, Prod.mk.injEq, and_true, Nat.cast_inj]; omega

/-- `LocateIdentifier` finds the identifier that stands in front of a byte that is no name
byte. -/
theorem Buffered.LocateIdentifier_spec {inp : TXMLInputStream} (h : inp.Buffered)
    (n0 : Nat) (ns : List Nat) (c : Nat) (tail : List Nat)
    (hr : inp.rest = n0 :: ns ++ c :: tail) (h0 : GoodStartSymbol n0 = true)
    (hns : ∀ b ∈ ns, GoodNextSymbol b = true) (hc : GoodNextSymbol c = false) :
    inp.LocateIdentifier = ((n0 :: ns).length, inp) := by
  unfold TXMLInputStream.LocateIdentifier
  have hd : inp.deref inp.fCurrent = n0 := by rw [deref_fCurrent, hr]; rfl
  simp only [hd, h0, Bool.not_true, Bool.false_eq_true, if_false]
  have := Buffered.LocateIdentifierLoop_spec ns inp h (inp.avail + 1) 0 c tail
    (by rw [hr]; rfl) hns hc (by rw [h.avail, hr]; simp; omega)
  simp only [Nat.add_zero] at this
  rw [this]; simp; omega

theorem LocateIdentifier_zero {inp : TXMLInputStream}
    (h0 : GoodStartSymbol (inp.deref inp.fCurrent) = false) :
    inp.LocateIdentifier = (0, inp) := by
  unfold TXMLInputStream.LocateIdentifier
  simp [h0]

theorem Buffered.LocateContentLoop_spec (text : List Nat) :
    ∀ (inp : TXMLInputStream), inp.Buffered → ∀ (fuel i : Nat) (tail : List Nat),
      inp.rest.drop i = text ++ 60 :: tail → 60 ∉ text → text.length < fuel →
      LocateContentLoop fuel (inp.fCurrent + i) inp = (((i + text.length : Nat) : Int), inp) := by
  induction text with
  | nil =>
    intro inp hb fuel i tail hr _ hf
    obtain ⟨f, rfl⟩ : ∃ f, fuel = f + 1 := ⟨fuel - 1, by simp at hf; omega⟩
    have hlen : i < inp.rest.length := by
      have := congrArg List.length hr; simp at this; omega
    have hd : inp.deref (inp.fCurrent + i) = 60 := by
      rw [deref_add, List.getD_eq_getElem?_getD, ← List.head?_drop, hr]; rfl
    have hlt := rest_getD_lt hlen
    unfold TXMLInputStream.LocateContentLoop
    simp [hlt, hd]
  | cons b text ih =>
    intro inp hb fuel i tail hr hn hf
    obtain ⟨f, rfl⟩ : ∃ f, fuel = f + 1 := ⟨fuel - 1, by simp at hf; omega⟩
    have hlen : i + 1 < inp.rest.length := by
      have := congrArg List.length hr; simp at this; omega
    have hd : inp.deref (inp.fCurrent + i) = b := by
      rw [deref_add, List.getD_eq_getElem?_getD, ← List.head?_drop, hr]; rfl
    have hb60 : b ≠ 60 := fun e => hn (by simp [e])
    have hlt := rest_getD_lt hlen
    have hnext : inp.rest.drop (i + 1) = text ++ 60 :: tail := by
      rw [← List.drop_drop, hr]; rfl
    have := ih inp hb f (i + 1) tail hnext (fun hx => hn (List.mem_cons_of_mem _ hx))
      (by simp at hf; omega)
    unfold TXMLInputStream.LocateContentLoop
    simp only [show inp.fCurrent + i < inp.fBuf.length from by omega, if_true, hd, hb60,
      if_false, hb.ExpandAt, show inp.fCurrent + i + 1 < inp.fBuf.length from by omega,
      decide_True]
    rw [show inp.fCurrent + i + 1 = inp.fCurrent + (i + 1) from by omega, this]
    simp only [List.length_cons, Prod.mk.injEq, and_true, Nat.cast_inj]; omega

/-- `LocateContent` returns the length of the text in front of the next `<`. -/
theorem Buffered.LocateContent_spec {inp : TXMLInputStream} (h : inp.Buffered)
    (text tail : List Nat) (hr : inp.rest = text ++ 60 :: tail) (hn : 60 ∉ text) :
    inp.LocateContent = ((text.length : Int), inp) := by
  unfold TXMLInputStream.LocateContent
  have := Buffered.LocateContentLoop_spec text inp h (inp.avail + 1) 0 tail (by simpa using hr) hn
    (by rw [h.avail, hr]; simp; omega)
  simp only [Nat.add_zero, Nat.zero_add] at this
  exact this

theorem Buffered.LocateValueLoop_spec (v : List Nat) :
    ∀ (inp : TXMLInputStream), inp.Buffered → ∀ (fuel start i q : Nat) (tail : List Nat),
      inp.rest.drop (i + 1) = v ++ q :: tail → q ∉ v → v.length < fuel →
      start ≤ inp.fCurrent + i →
      LocateValueLoop start q fuel (inp.fCurrent + i) inp =
        (inp.fCurrent + i + 1 + v.length - start + 1, inp) := by
  induction v with
  | nil =>
    intro inp hb fuel start i q tail hr _ hf hs
    obtain ⟨f, rfl⟩ : ∃ f, fuel = f + 1 := ⟨fuel - 1, by simp at hf; omega⟩
    have hlen : i + 1 < inp.rest.length := by
      have := congrArg List.length hr; simp at this; omega
    have hd : inp.deref (inp.fCurrent + i + 1) = q := by
      rw [Nat.add_assoc, deref_add, List.getD_eq_getElem?_getD, ← List.head?_drop, hr]; rfl
    have hlt : inp.fCurrent + i + 1 < inp.fBuf.length := by
      have := rest_getD_lt hlen; omega
    unfold TXMLInputStream.LocateValueLoop
    simp [hb.ExpandAt, hd, hlt]
  | cons b v ih =>
    intro inp hb fuel start i q tail hr hn hf hs
    obtain ⟨f, rfl⟩ : ∃ f, fuel = f + 1 := ⟨fuel - 1, by simp at hf; omega⟩
    have hlen : i + 1 < inp.rest.length := by
      have := congrArg List.length hr; simp at this; omega
    have hd : inp.deref (inp.fCurrent + i + 1) = b := by
      rw [Nat.add_assoc, deref_add, List.getD_eq_getElem?_getD, ← List.head?_drop, hr]; rfl
    have hbq : b ≠ q := fun e => hn (by simp [e])
    have hlt := rest_getD_lt hlen
    have hnext : inp.rest.drop (i + 1 + 1) = v ++ q :: tail := by
      rw [← List.drop_drop, hr]; rfl
    have := ih inp hb f start (i + 1) q tail hnext (fun hx => hn (List.mem_cons_of_mem _ hx))
      (by simp at hf; omega) (by omega)
    have hlt2 : inp.fCurrent + i + 1 < inp.fBuf.length := by omega
    unfold TXMLInputStream.LocateValueLoop
    simp only [hb.ExpandAt, hlt2, decide_True]
    simp only [hd, hbq, if_false, if_true]
    rw [show inp.fCurrent + i + 1 = inp.fCurrent + (i + 1) from by omega, this]
    simp only [List.length_cons, Prod.mk.injEq, and_true, Nat.cast_inj]; omega

/-- `LocateValue(start, true)` over `="v"` or `='v'` returns the length of the value with
its quotes and the `=`. -/
theorem Buffered.LocateValue_eq_spec {inp : TXMLInputStream} (h : inp.Buffered)
    (i q : Nat) (v tail : List Nat) (hr : inp.rest.drop i = 61 :: q :: v ++ q :: tail)
    (hq : q = 34 ∨ q = 39) (hn : q ∉ v) :
    inp.LocateValue (inp.fCurrent + i) true = (v.length + 3, inp) := by
  have hlen : i + 1 < inp.rest.length := by
    have := congrArg List.length hr; simp at this; omega
  have hlt := rest_getD_lt hlen
  have hd0 : inp.deref (inp.fCurrent + i) = 61 := by
    rw [deref_add, List.getD_eq_getElem?_getD, ← List.head?_drop, hr]; rfl
  have hr1 : inp.rest.drop (i + 1) = q :: v ++ q :: tail := by
    rw [← List.drop_drop, hr]; rfl
  have hd1 : inp.deref (inp.fCurrent + i + 1) = q := by
    rw [Nat.add_assoc, deref_add, List.getD_eq_getElem?_getD, ← List.head?_drop, hr1]; rfl
  have hr2 : inp.rest.drop (i + 1 + 1) = v ++ q :: tail := by
    rw [← List.drop_drop, hr1]; rfl
  have hq2 : ¬ (q ≠ 34 ∧ q ≠ 39) := by omega
  unfold TXMLInputStream.LocateValue TXMLInputStream.LocateValueQuoted
  simp only [h.ExpandAt, show inp.fCurrent + i < inp.fBuf.length from by omega,
    show inp.fCurrent + i + 1 < inp.fBuf.length from by omega, decide_True, if_true,
    hd0, ne_eq, not_true_eq_false, if_false, hd1, hq2]
  have := Buffered.LocateValueLoop_spec v inp h (inp.avail + 1) (inp.fCurrent + i) (i + 1) q tail
    hr2 hn (by rw [h.avail]; have := congrArg List.length hr2; simp at this; omega) (by omega)
  rw [show inp.fCurrent + i + 1 = inp.fCurrent + (i + 1) from by omega, this]
  simp; omega

/-- `LocateValue(start, false)` over `"v"` or `'v'` returns the length of the value with its
quotes. -/
theorem Buffered.LocateValue_spec {inp : TXMLInputStream} (h : inp.Buffered)
    (i q : Nat) (v tail : List Nat) (hr : inp.rest.drop i = q :: v ++ q :: tail)
    (hq : q = 34 ∨ q = 39) (hn : q ∉ v) :
    inp.LocateValue (inp.fCurrent + i) false = (v.length + 2, inp) := by
  have hlen : i < inp.rest.length := by
    have := congrArg List.length hr; simp at this; omega
  have hlt := rest_getD_lt hlen
  have hd1 : inp.deref (inp.fCurrent + i) = q := by
    rw [deref_add, List.getD_eq_getElem?_getD, ← List.head?_drop, hr]; rfl
  have hr2 : inp.rest.drop (i + 1) = v ++ q :: tail := by
    rw [← List.drop_drop, hr]; rfl
  have hq2 : ¬ (q ≠ 34 ∧ q ≠ 39) := by omega
  unfold TXMLInputStream.LocateValue TXMLInputStream.LocateValueQuoted
  simp only [h.ExpandAt, show inp.fCurrent + i < inp.fBuf.length from by omega,
    decide_True, if_true, Bool.false_eq_true, if_false, hd1, hq2]
  have := Buffered.LocateValueLoop_spec v inp h (inp.avail + 1) (inp.fCurrent + i) i q tail
    hr2 hn (by rw [h.avail]; have := congrArg List.length hr2; simp at this; omega) (by omega)
  rw [this]
  simp; omega

end TXMLInputStream

end

section

open TXMLEngine

namespace TXMLInputStream

theorem Buffered.SearchForLoop_found {inp : TXMLInputStream} (h : inp.Buffered)
    (str : List Nat) (hs : str ≠ []) (k : Nat)
    (hk : (inp.rest.drop k).take str.length = str) (n : Nat) :
    ∀ (i fuel : Nat), i + 1 + n = k → n < fuel →
      (∀ j, i < j → j < k → (inp.rest.drop j).take str.length ≠ str) →
      SearchForLoop str fuel (inp.fCurrent + i) inp = ((k : Int), inp) := by
  have hfit : inp.fCurrent + k + str.length ≤ inp.fBuf.length := by
    have := congrArg List.length hk
    simp only [List.length_take, List.length_drop, rest_length] at this
    have hpos := List.length_pos.2 hs
    omega
  induction n with
  | zero =>
    intro i fuel hik hf _
    obtain ⟨f, rfl⟩ : ∃ f, fuel = f + 1 := ⟨fuel - 1, by omega⟩
    have hle : inp.fCurrent + i + 1 + str.length ≤ inp.fBuf.length := by omega
    have hsl : inp.slice (inp.fCurrent + i + 1) str.length = str := by
      rw [Nat.add_assoc, slice_add, show i + 1 = k from by omega, hk]
    unfold TXMLInputStream.SearchForLoop
    simp only [h.ExpandTo, hle, decide_True]
    simp only [hsl, if_true]
    have : ((inp.fCurrent + i + 1 : Nat) : Int) - (inp.fCurrent : Int) = (k : Int) := by
      push_cast; omega
    rw [this]
  | succ n ih =>
    intro i fuel hik hf hno
    obtain ⟨f, rfl⟩ : ∃ f, fuel = f + 1 := ⟨fuel - 1, by omega⟩
    have hle : inp.fCurrent + i + 1 + str.length ≤ inp.fBuf.length := by omega
    have hpos := List.length_pos.2 hs
    have hsl : inp.slice (inp.fCurrent + i + 1) str.length ≠ str := by
      rw [Nat.add_assoc, slice_add]
      exact hno (i + 1) (by omega) (by omega)
    have hlt : inp.fCurrent + i + 1 < inp.fBuf.length := by omega
    unfold TXMLInputStream.SearchForLoop
    simp only [h.ExpandTo, hle, decide_True]
    simp only [hsl, if_false, hlt, if_true]
    rw [show inp.fCurrent + i + 1 = inp.fCurrent + (i + 1) from by omega]
    exact ih (i + 1) f (by omega) (by omega) (fun j h1 h2 => hno j (by omega) h2)

/-- `SearchFor` returns the offset of the first occurrence of the literal at an offset of
at least 1. -/
theorem Buffered.SearchFor_found {inp : TXMLInputStream} (h : inp.Buffered)
    (str : List Nat) (hs : str ≠ []) (k : Nat) (hk1 : 1 ≤ k)
    (hk : (inp.rest.drop k).take str.length = str)
    (hno : ∀ j, 1 ≤ j → j < k → (inp.rest.drop j).take str.length ≠ str) :
    inp.SearchFor str = ((k : Int), inp) := by
  unfold TXMLInputStream.SearchFor
  have hfit : k + str.length ≤ inp.rest.length := by
    have := congrArg List.length hk
    simp only [List.length_take, List.length_drop] at this
    have hpos := List.length_pos.2 hs
    omega
  have := h.SearchForLoop_found str hs k hk (k - 1) 0 (inp.avail + 1) (by omega)
    (by rw [h.avail]; omega) (fun j h1 h2 => hno j (by omega) h2)
  simpa using this

theorem Buffered.SearchForLoop_none {inp : TXMLInputStream} (h : inp.Buffered)
    (str : List Nat) (fuel : Nat) :
    ∀ (i : Nat), (∀ j, i < j → (inp.rest.drop j).take str.length ≠ str) →
      SearchForLoop str fuel (inp.fCurrent + i) inp = (-1, inp) := by
  induction fuel with
  | zero => intro i _; rfl
  | succ f ih =>
    intro i hno
    have hsl : inp.slice (inp.fCurrent + i + 1) str.length ≠ str := by
      rw [Nat.add_assoc, slice_add]
      exact hno (i + 1) (by omega)
    unfold TXMLInputStream.SearchForLoop
    simp only [h.ExpandTo]
    by_cases hle : inp.fCurrent + i + 1 + str.length ≤ inp.fBuf.length
    · simp only [hle, decide_True, hsl, if_false]
      by_cases hlt : inp.fCurrent + i + 1 < inp.fBuf.length
      · simp only [hlt, if_true]
        rw [show inp.fCurrent + i + 1 = inp.fCurrent + (i + 1) from by omega]
        exact ih (i + 1) (fun j h1 => hno j (by omega))
      · simp [hlt]
    · simp [hle]

/-- `SearchFor` fails when the literal occurs at no offset from 1 on. -/
theorem Buffered.SearchFor_none {inp : TXMLInputStream} (h : inp.Buffered)
    (str : List Nat) (hno : ∀ j, 1 ≤ j → (inp.rest.drop j).take str.length ≠ str) :
    inp.SearchFor str = (-1, inp) := by
  unfold TXMLInputStream.SearchFor
  have := h.SearchForLoop_none str (inp.avail + 1) 0 (fun j h1 => hno j (by omega))
  simpa using this

/-- `SkipSpaces` in front of a byte that is no space byte. -/
theorem Buffered.SkipSpaces_stop {inp : TXMLInputStream} (h : inp.Buffered) (tillendl : Bool)
    (c : Nat) (tail : List Nat) (hr : inp.rest = c :: tail) (hc : inp.isSpace c = false) :
    inp.SkipSpaces tillendl = (true, inp) :=
  h.SkipSpacesLoop_stop tillendl _ c tail hr hc

/-- `SkipSpaces(true)` in front of a newline passes over it and stops. -/
theorem Buffered.SkipSpaces_newline {inp : TXMLInputStream} (h : inp.Buffered)
    (tail : List Nat) (hr : inp.rest = 10 :: tail) :
    inp.SkipSpaces true = (true, inp.advance 1) := by
  unfold TXMLInputStream.SkipSpaces TXMLInputStream.SkipSpacesLoop
  have hlt : inp.fCurrent < inp.fBuf.length := by
    have := rest_length inp; rw [hr] at this; simp at this; omega
  have hd : inp.deref inp.fCurrent = 10 := by rw [deref_fCurrent, hr]; rfl
  have hsp : ¬ (inp.asChar 10 > 26 ∧ 10 ≠ 32) := by
    simp [TXMLInputStream.asChar]
  have hshift := h.ShiftCurrent 1 (by rw [hr]; simp)
  simp only [hlt, if_true, hd, hsp, if_false, hshift, and_self]

/-- `SkipSpaces` at the end of the data. -/
theorem Buffered.SkipSpaces_end {inp : TXMLInputStream} (_h : inp.Buffered) (tillendl : Bool)
    (hr : inp.rest = []) : inp.SkipSpaces tillendl = (false, inp) := by
  unfold TXMLInputStream.SkipSpaces TXMLInputStream.SkipSpacesLoop
  have hlt : ¬ inp.fCurrent < inp.fBuf.length := by
    have := rest_length inp; rw [hr] at this; simp at this; omega
  simp [hlt]

theorem isSpace_of_le {inp : TXMLInputStream} {b : Nat} (h1 : 26 < b) (h2 : b < 128)
    (h3 : b ≠ 32) : inp.isSpace b = false := by
  rw [isSpace_iff]
  refine ⟨?_, h3⟩
  unfold TXMLInputStream.asChar
  simp [show ¬ (b ≥ 128) from by omega]
  omega

theorem isSpace_32 (inp : TXMLInputStream) : inp.isSpace 32 = true := by
  simp [isSpace]

theorem isSpace_10 (inp : TXMLInputStream) : inp.isSpace 10 = true := by
  simp [isSpace, TXMLInputStream.asChar]

theorem rest_advance_of_append {inp : TXMLInputStream} {a b : List Nat}
    (hr : inp.rest = a ++ b) : (inp.advance a.length).rest = b := by
  simp [hr]

end TXMLInputStream

end

section

open TXMLEngine TXMLInputStream

theorem Buffered_SkipSpaces_allspace (w : List Nat) :
    ∀ (inp : TXMLInputStream), inp.Buffered → ∀ (fuel : Nat),
      inp.rest = w → (∀ b ∈ w, inp.isSpace b = true) →
      SkipSpacesLoop false fuel inp = (false, inp.advance (min fuel w.length)) := by
  induction w with
  | nil =>
    intro inp hb fuel hr _
    have hlt : ¬ inp.fCurrent < inp.fBuf.length := by
      have := rest_length inp; rw [hr] at this; simp at this; omega
    cases fuel with
    | zero => simp [SkipSpacesLoop]
    | succ f => unfold SkipSpacesLoop; simp [hlt]
  | cons b w ih =>
    intro inp hb fuel hr hw
    cases fuel with
    | zero => simp [SkipSpacesLoop]
    | succ f =>
      have hlt : inp.fCurrent < inp.fBuf.length := by
        have := rest_length inp; rw [hr] at this; simp at this; omega
      have hd : inp.deref inp.fCurrent = b := by rw [deref_fCurrent, hr]; rfl
      have hsp : ¬ (inp.asChar b > 26 ∧ b ≠ 32) := by
        have := hw b (List.mem_cons_self _ _)
        intro hx; rw [← isSpace_iff] at hx; rw [hx] at this; exact Bool.noConfusion this
      have hshift := hb.ShiftCurrent 1 (by rw [hr]; simp)
      unfold SkipSpacesLoop
      simp only [hlt, if_true, hd, hsp, if_false, hshift, Bool.false_eq_true, false_and]
      rw [ih (inp.advance 1) (hb.advance 1) f (by simp [hr])
        (fun x hx => by simpa using hw x (List.mem_cons_of_mem _ hx))]
      simp only [advance_advance, List.length_cons]
      congr 2
      omega

/-- `SkipSpaces(false)` over a rest of space bytes only fails at the end of the data. -/
theorem Buffered_SkipSpaces_only {inp : TXMLInputStream} (h : inp.Buffered)
    (hw : ∀ b ∈ inp.rest, inp.isSpace b = true) :
    inp.SkipSpaces false = (false, inp.advance inp.rest.length) := by
  unfold SkipSpaces
  rw [Buffered_SkipSpaces_allspace inp.rest inp h _ rfl hw, h.avail]
  congr 2
  omega

theorem take_drop_append_left (a b : List Nat) (j n : Nat) (h : j + n ≤ a.length) :
    ((a ++ b).drop j).take n = (a.drop j).take n := by
  rw [List.drop_append_of_le_length (by omega), List.take_append_of_le_length]
  simp; omega

/-- The comment branch of `ReadNode`: the stream stands at `<!--`. -/
theorem ReadNode_at_comment (eng : TXMLEngine) (fuel : Nat) (up : List SXmlNode_t)
    (xmlparent : Option SXmlNode_t) (inp : TXMLInputStream) (hb : inp.Buffered)
    (more : List Nat) (hr : inp.rest = bytes "<!--" ++ more) :
    ReadNode eng (fuel + 1) up xmlparent inp =
      Outcome.done (ReadComment eng xmlparent (inp.advance 4)) := by
  rw [bytes_copen] at hr
  rw [ReadNode, ReadNodeStart]
  rw [hb.SkipSpaces_stop false 60 _ hr (isSpace_of_le (by decide) (by decide) (by decide))]
  simp only []
  rw [hb.CheckFor_spec _ (by simp [bytes_copen])]
  simp [bytes_copen, hr]

theorem ReadComment_found (eng : TXMLEngine) (xmlparent : Option SXmlNode_t)
    (inp : TXMLInputStream) (hb : inp.Buffered) (text tail : List Nat)
    (hr : inp.rest = text ++ bytes "-->" ++ tail) (ht : text ≠ [])
    (hfirst : ∀ j, 1 ≤ j → j < text.length →
      ((text ++ bytes "-->").drop j).take 3 ≠ bytes "-->")
    (hskip : eng.fSkipComments = false) :
    ReadComment eng xmlparent inp =
      ⟨if (inp.advance (text.length + 3)).SkipSpaces.1 then 2 else -1,
        some (SXmlNode_t.mk EXmlNodeType.kXML_COMMENT text [] none []),
        attach xmlparent (SXmlNode_t.mk EXmlNodeType.kXML_COMMENT text [] none []),
        (inp.advance (text.length + 3)).SkipSpaces.2⟩ := by
  have h3 : (bytes "-->").length = 3 := by simp [bytes_cclose]
  have hpos := List.length_pos.2 ht
  have hfound := hb.SearchFor_found (bytes "-->") (by simp [bytes_cclose]) text.length hpos
    (by rw [hr, h3, List.append_assoc, List.drop_left, List.take_left' h3])
    (by
      intro j h1 h2
      rw [hr, h3, take_drop_append_left _ _ _ _ (by simp [h3]; omega)]
      exact hfirst j h1 h2)
  unfold ReadComment
  rw [hfound]
  have hslice : inp.slice inp.fCurrent text.length = text := by
    rw [slice_fCurrent, hr, List.append_assoc, List.take_left]
  have hshift := hb.ShiftCurrent (text.length + 3) (by rw [hr]; simp [h3])
  simp only [show ¬ ((text.length : Int) ≤ 0) from by omega, if_false, hskip, Int.toNat_ofNat,
    hslice, Bool.not_false, if_true, hshift]
  generalize (inp.advance (text.length + 3)).SkipSpaces = r
  obtain ⟨b, i⟩ := r
  cases b <;> rfl

theorem ReadComment_none (eng : TXMLEngine) (xmlparent : Option SXmlNode_t)
    (inp : TXMLInputStream) (hb : inp.Buffered)
    (hno : ∀ j, 1 ≤ j → (inp.rest.drop j).take 3 ≠ bytes "-->") :
    ReadComment eng xmlparent inp = ⟨-10, none, xmlparent, inp⟩ := by
  have h3 : (bytes "-->").length = 3 := by simp [bytes_cclose]
  unfold ReadComment
  rw [hb.SearchFor_none (bytes "-->") (by rw [h3]; exact hno)]
  simp

/-- C10 (amended): with comment skipping off and the stream at `<!--`:
(1) when the first `-->` behind the `<!--` stands behind the non-empty text `text`, and a
byte that is no white space follows (after the white space `w`), `ReadNode` appends the
Comment node with exactly `text` and returns it with status 2;
(2) when only white space follows that `-->`, the Comment node is appended all the same
but the status is -1;
(3) when no `-->` follows the `<!--` at all, the status is -10 and no node is made. -/
theorem ReadNode_comment (eng : TXMLEngine) (fuel : Nat) (up : List SXmlNode_t)
    (xmlparent : Option SXmlNode_t) (inp : TXMLInputStream) (hb : inp.Buffered)
    (hskip : eng.fSkipComments = false) :
    (∀ (text w : List Nat) (c : Nat) (tail : List Nat),
      inp.rest = bytes "<!--" ++ text ++ bytes "-->" ++ w ++ c :: tail → text ≠ [] →
      (∀ j, j < text.length → ((text ++ bytes "-->").drop j).take 3 ≠ bytes "-->") →
      (∀ b ∈ w, inp.isSpace b = true) → inp.isSpace c = false →
      ReadNode eng (fuel + 1) up xmlparent inp = Outcome.done
        ⟨2, some (SXmlNode_t.mk EXmlNodeType.kXML_COMMENT text [] none []),
          attach xmlparent (SXmlNode_t.mk EXmlNodeType.kXML_COMMENT text [] none []),
          inp.advance (4 + text.length + 3 + w.length)⟩) ∧
    (∀ (text w : List Nat),
      inp.rest = bytes "<!--" ++ text ++ bytes "-->" ++ w → text ≠ [] →
      (∀ j, j < text.length → ((text ++ bytes "-->").drop j).take 3 ≠ bytes "-->") →
      (∀ b ∈ w, inp.isSpace b = true) →
      ReadNode eng (fuel + 1) up xmlparent inp = Outcome.done
        ⟨-1, some (SXmlNode_t.mk EXmlNodeType.kXML_COMMENT text [] none []),
          attach xmlparent (SXmlNode_t.mk EXmlNodeType.kXML_COMMENT text [] none []),
          inp.advance (4 + text.length + 3 + w.length)⟩) ∧
    (∀ (more : List Nat), inp.rest = bytes "<!--" ++ more →
      (∀ j, (more.drop j).take 3 ≠ bytes "-->") →
      ReadNode eng (fuel + 1) up xmlparent inp =
        Outcome.done ⟨-10, none, xmlparent, inp.advance 4⟩) := by
  have h4 : (bytes "<!--").length = 4 := by simp [bytes_copen]
  refine ⟨?_, ?_, ?_⟩
  · intro text w c tail hr ht hfirst hw hc
    have hr1 : inp.rest = bytes "<!--" ++ (text ++ bytes "-->" ++ (w ++ c :: tail)) := by
      rw [hr]; simp
    have hr2 : (inp.advance 4).rest = text ++ bytes "-->" ++ (w ++ c :: tail) := by
      rw [← h4]; exact rest_advance_of_append hr1
    rw [ReadNode_at_comment eng fuel up xmlparent inp hb _ hr1,
      ReadComment_found eng xmlparent _ (hb.advance 4) text _ hr2 ht
        (fun j _ hj => hfirst j hj) hskip]
    have hr3 : ((inp.advance 4).advance (text.length + 3)).rest = w ++ c :: tail := by
      rw [advance_rest, hr2]
      have : text.length + 3 = (text ++ bytes "-->").length := by simp [bytes_cclose]
      rw [this, List.drop_left]
    rw [Buffered.SkipSpaces_spec ((hb.advance 4).advance _) w c tail hr3
      (by simpa using hw) (by simpa using hc)]
    simp [Nat.add_assoc]
  · intro text w hr ht hfirst hw
    have hr1 : inp.rest = bytes "<!--" ++ (text ++ bytes "-->" ++ w) := by
      rw [hr]; simp
    have hr2 : (inp.advance 4).rest = text ++ bytes "-->" ++ w := by
      rw [← h4]; exact rest_advance_of_append hr1
    rw [ReadNode_at_comment eng fuel up xmlparent inp hb _ hr1,
      ReadComment_found eng xmlparent _ (hb.advance 4) text _ hr2 ht
        (fun j _ hj => hfirst j hj) hskip]
    have hr3 : ((inp.advance 4).advance (text.length + 3)).rest = w := by
      rw [advance_rest, hr2]
      have : text.length + 3 = (text ++ bytes "-->").length := by simp [bytes_cclose]
      rw [this, List.drop_left]
    rw [Buffered_SkipSpaces_only ((hb.advance 4).advance _) (by rw [hr3]; simpa using hw), hr3]
    simp [Nat.add_assoc]
  · intro more hr hno
    have hr2 : (inp.advance 4).rest = more := by
      rw [← h4]; exact rest_advance_of_append hr
    rw [ReadNode_at_comment eng fuel up xmlparent inp hb _ hr,
      ReadComment_none eng xmlparent _ (hb.advance 4) (by rw [hr2]; exact fun j _ => hno j)]

end

section

open TXMLEngine TXMLInputStream

theorem isSpace_eq_spaceByte (inp : TXMLInputStream) (b : Nat) :
    inp.isSpace b = spaceByte inp.charSigned b := by
  simp [isSpace, spaceByte, TXMLInputStream.asChar]

theorem GoodStart_ne {n0 c : Nat} (h : GoodStartSymbol n0 = true)
    (hc : GoodStartSymbol c = false) : n0 ≠ c := by
  rintro rfl; rw [h] at hc; exact Bool.noConfusion hc

theorem GoodStart_GoodNext {b : Nat} (h : GoodStartSymbol b = true) : GoodNextSymbol b = true := by
  simp [GoodNextSymbol, h]

theorem isName_cons {sg : Bool} {n0 : Nat} {ns : List Nat} (h : isName sg (n0 :: ns) = true) :
    GoodStartSymbol n0 = true ∧ spaceByte sg n0 = false ∧ ∀ b ∈ ns, GoodNextSymbol b = true := by
  simp only [isName, Bool.and_eq_true, Bool.not_eq_true', List.all_eq_true] at h
  exact ⟨h.1.1, h.1.2, h.2⟩

theorem isName_ne_nil {sg : Bool} {name : List Nat} (h : isName sg name = true) : name ≠ [] := by
  rintro rfl; simp [isName] at h

/-- The namespace that `ReadNode` gives to a new node with the name `name`. -/
theorem FindNs_none (chain : List SXmlNode_t) (name : List Nat)
    (h : ∀ n ∈ chain, n.fNs = none) : FindNs chain name = none := by
  induction chain with
  | nil => rfl
  | cons n up ih =>
    have hn : n.nsAttr = none := by
      have := h n (List.mem_cons_self _ _)
      simp [SXmlNode_t.nsAttr, this]
    unfold FindNs
    simp only [hn]
    exact ih (fun m hm => h m (List.mem_cons_of_mem _ hm))

/-- `ReadNode` up to the attribute loop, on white space, `<` and a name. -/
theorem ReadNodeStart_open (eng : TXMLEngine) (up : List SXmlNode_t)
    (xmlparent : Option SXmlNode_t) (inp : TXMLInputStream) (hb : inp.Buffered)
    (w name : List Nat) (c : Nat) (tail : List Nat)
    (hr : inp.rest = w ++ 60 :: name ++ c :: tail)
    (hw : ∀ b ∈ w, inp.isSpace b = true) (hn : isName inp.charSigned name = true)
    (hc : GoodNextSymbol c = false) (hchain : ∀ n ∈ chainOf xmlparent up, n.fNs = none) :
    ReadNodeStart eng up xmlparent inp =
      NodeStart.tag ⟨SXmlNode_t.mk EXmlNodeType.kXML_NODE name [] none [], 0, true, 47⟩
        (inp.advance (w.length + 1 + name.length)) := by
  obtain ⟨n0, ns, rfl⟩ : ∃ n0 ns, name = n0 :: ns := by
    cases name with
    | nil => exact absurd rfl (isName_ne_nil hn)
    | cons a l => exact ⟨a, l, rfl⟩
  obtain ⟨hg, hs, hns⟩ := isName_cons hn
  have hsp : inp.isSpace n0 = false := by rw [isSpace_eq_spaceByte]; exact hs
  have h60 : inp.isSpace 60 = false := isSpace_of_le (by decide) (by decide) (by decide)
  -- the stream behind the white space
  have hr0 : inp.rest = w ++ 60 :: (n0 :: ns ++ c :: tail) := by simpa using hr
  have hb1 := hb.advance w.length
  have hr1 : (inp.advance w.length).rest = 60 :: (n0 :: ns ++ c :: tail) :=
    rest_advance_of_append hr0
  have hb2 := hb1.advance 1
  have hr2 : ((inp.advance w.length).advance 1).rest = n0 :: ns ++ c :: tail := by
    rw [advance_rest, hr1]; rfl
  have hd2 : ((inp.advance w.length).advance 1).deref ((inp.advance w.length).advance 1).fCurrent
      = n0 := by rw [deref_fCurrent, hr2]; rfl
  unfold ReadNodeStart
  rw [hb.SkipSpaces_spec w 60 _ hr0 hw h60]
  simp only []
  rw [hb1.CheckFor_spec _ (by simp [bytes_copen])]
  have hnc : ¬ ((inp.advance w.length).rest.take (bytes "<!--").length = bytes "<!--") := by
    rw [hr1, bytes_copen]
    simp only [List.length_cons, List.length_nil, List.cons_append, List.take_succ_cons]
    intro h
    have := (List.cons.inj (List.cons.inj h).2).1
    exact GoodStart_ne hg (by decide) this
  simp only [hnc, if_false]
  have hd1 : (inp.advance w.length).deref (inp.advance w.length).fCurrent = 60 := by
    rw [deref_fCurrent, hr1]; rfl
  simp only [hd1, ne_eq, not_true_eq_false, if_false]
  rw [hb1.ShiftCurrent 1 (by rw [hr1]; simp)]
  simp only [hd2, GoodStart_ne hg (show GoodStartSymbol 47 = false by decide),
    GoodStart_ne hg (show GoodStartSymbol 33 = false by decide), if_false]
  have hopen : ReadOpenTag up xmlparent ((inp.advance w.length).advance 1) =
      (some ⟨SXmlNode_t.mk EXmlNodeType.kXML_NODE (n0 :: ns) [] none [], 0, true, 47⟩,
        (inp.advance w.length).advance 1) := by
    unfold ReadOpenTag
    simp only [hd2, GoodStart_ne hg (show GoodStartSymbol 63 = false by decide), if_false]
    rw [hb2.SkipSpaces_stop false n0 _ hr2 (by simpa using hsp)]
    simp only []
    rw [hb2.LocateIdentifier_spec n0 ns c tail hr2 hg hns hc]
    simp only [List.length_cons, show ¬ (ns.length + 1 ≤ 0) from by omega, if_false,
      slice_fCurrent, hr2]
    have htake : (n0 :: ns ++ c :: tail).take (ns.length + 1) = n0 :: ns := by
      rw [show ns.length + 1 = (n0 :: ns).length from rfl, List.take_left]
    rw [htake]
    cases xmlparent with
    | none => simp
    | some parent =>
      have hf := FindNs_none (parent :: up) ((n0 :: ns).takeWhile fun b => b != 58)
        (by simpa [chainOf] using hchain)
      simp [hf]
  rw [hopen]
  simp only [SXmlNode_t.fName]
  rw [hb2.ShiftCurrent _ (by rw [hr2]; simp)]
  simp [Nat.add_assoc]

end

section

open TXMLEngine TXMLInputStream

theorem not_mem_escapeText_34 (v : List Nat) : 34 ∉ escapeText v := by
  induction v with
  | nil => simp [escapeText]
  | cons c rest ih =>
    unfold escapeText escapeByte
    split_ifs with h1 h2 h3 h4 <;>
      simp [bytes_lt, bytes_gt, bytes_amp, bytes_quot, ih]
    exact fun h => h4 h.symm

/-- One round of the attribute loop on ` name="value"`. -/
theorem ReadTagStep_attr (xmlparent : Option SXmlNode_t) (tag : OpenTag)
    (inp : TXMLInputStream) (hb : inp.Buffered) (aname e more : List Nat)
    (hr : inp.rest = 32 :: aname ++ 61 :: 34 :: e ++ 34 :: more)
    (hn : plainAttr inp.charSigned ⟨aname, UnpackSpecialCharacters e⟩ = true)
    (he : 34 ∉ e) (hend : tag.endsymbol = 47) :
    ReadTagStep xmlparent tag inp =
      TagStep.more ⟨SXmlNode_t.mk tag.node.fType tag.node.fName
          (tag.node.fAttr ++ [⟨aname, UnpackSpecialCharacters e⟩]) tag.node.fNs tag.node.fChild,
          tag.resvalue, tag.canhaschildren, tag.endsymbol⟩
        (inp.advance (1 + aname.length + 2 + e.length + 1)) := by
  simp only [plainAttr, Bool.and_eq_true, Bool.not_eq_true', Bool.and_eq_false_imp,
    decide_eq_true_eq, beq_eq_false_iff_ne, ne_eq] at hn
  obtain ⟨hname, hx⟩ := hn
  obtain ⟨a0, as, rfl⟩ : ∃ a0 as, aname = a0 :: as := by
    cases aname with
    | nil => exact absurd rfl (isName_ne_nil hname)
    | cons a l => exact ⟨a, l, rfl⟩
  obtain ⟨hg, hs, hns⟩ := isName_cons hname
  have hsp : inp.isSpace a0 = false := by rw [isSpace_eq_spaceByte]; exact hs
  have hr0 : inp.rest = [32] ++ a0 :: (as ++ 61 :: 34 :: e ++ 34 :: more) := by simpa using hr
  have hb1 := hb.advance 1
  have hr1 : (inp.advance 1).rest = a0 :: as ++ 61 :: (34 :: e ++ 34 :: more) := by
    have := rest_advance_of_append hr0
    simpa using this
  have hd1 : (inp.advance 1).deref (inp.advance 1).fCurrent = a0 := by
    rw [deref_fCurrent, hr1]; rfl
  have hattr : ReadAttr tag (inp.advance 1) =
      (true, ⟨SXmlNode_t.mk tag.node.fType tag.node.fName
          (tag.node.fAttr ++ [⟨a0 :: as, UnpackSpecialCharacters e⟩]) tag.node.fNs
          tag.node.fChild, tag.resvalue, tag.canhaschildren, tag.endsymbol⟩,
        (inp.advance 1).advance ((a0 :: as).length + (e.length + 3))) := by
    unfold ReadAttr
    rw [hb1.LocateIdentifier_spec a0 as 61 _ hr1 hg hns (by decide)]
    simp only [show ¬ ((a0 :: as).length ≤ 0) from by simp, if_false]
    have hdrop : (inp.advance 1).rest.drop (a0 :: as).length = 61 :: 34 :: e ++ 34 :: more := by
      rw [hr1, List.drop_left]; rfl
    rw [hb1.LocateValue_eq_spec (a0 :: as).length 34 e more hdrop (Or.inl rfl) he]
    simp only [show ¬ (e.length + 3 < 3) from by omega, if_false]
    have hsl1 : (inp.advance 1).slice (inp.advance 1).fCurrent (a0 :: as).length = a0 :: as := by
      rw [slice_fCurrent, hr1, List.take_left]
    have hsl2 : (inp.advance 1).slice ((inp.advance 1).fCurrent + (a0 :: as).length + 2)
        (e.length + 3 - 3) = e := by
      rw [Nat.add_assoc, slice_add, Nat.add_sub_cancel, ← List.drop_drop, hdrop]
      simp
    rw [hsl1, hsl2]
    rw [hb1.ShiftCurrent _ (by rw [hr1]; simp; omega)]
    simp only []
    have hnx : ¬ ((a0 :: as).length > 6 ∧ (a0 :: as).take 6 = bytes "xmlns:") := by
      intro h; exact hx h.1 h.2
    simp only [hnx, if_false]
  unfold ReadTagStep
  rw [hb.SkipSpaces_spec [32] a0 _ hr0 (by simp [isSpace_32]) hsp]
  simp only [hd1, hend, List.length_singleton,
    GoodStart_ne hg (show GoodStartSymbol 47 = false by decide),
    GoodStart_ne hg (show GoodStartSymbol 62 = false by decide), if_false]
  rw [hattr]
  simp only [advance_advance]
  congr 2
  simp only [List.length_cons]; omega

/-- The round of the attribute loop that ends a node at `/>`. -/
theorem ReadTagStep_selfclose (xmlparent : Option SXmlNode_t) (tag : OpenTag)
    (inp : TXMLInputStream) (hb : inp.Buffered) (tail : List Nat)
    (hr : inp.rest = 47 :: 62 :: tail) (hend : tag.endsymbol = 47) :
    ReadTagStep xmlparent tag inp =
      TagStep.ret ⟨2, some (truncateIfNs tag.node), attach xmlparent (truncateIfNs tag.node),
        ((inp.advance 2).SkipSpaces true).2⟩ := by
  have hb1 := hb.advance 1
  have hr1 : (inp.advance 1).rest = 62 :: tail := by rw [advance_rest, hr]; rfl
  have hd0 : inp.deref inp.fCurrent = 47 := by rw [deref_fCurrent, hr]; rfl
  have hd1 : (inp.advance 1).deref (inp.advance 1).fCurrent = 62 := by
    rw [deref_fCurrent, hr1]; rfl
  unfold ReadTagStep
  rw [hb.SkipSpaces_stop false 47 _ hr (isSpace_of_le (by decide) (by decide) (by decide))]
  simp only [hd0, hend, if_true]
  rw [hb.ShiftCurrent 1 (by rw [hr]; simp)]
  simp only [hd1, if_true]
  rw [hb1.ShiftCurrent 1 (by rw [hr1]; simp)]
  simp only [advance_advance]

/-- The round of the attribute loop that passes the `>` of an open tag. -/
theorem ReadTagStep_gt (xmlparent : Option SXmlNode_t) (tag : OpenTag)
    (inp : TXMLInputStream) (hb : inp.Buffered) (tail : List Nat)
    (hr : inp.rest = 62 :: tail) (hend : tag.endsymbol = 47)
    (hcan : tag.canhaschildren = true) :
    ReadTagStep xmlparent tag inp = TagStep.children (inp.advance 1) := by
  have hd0 : inp.deref inp.fCurrent = 62 := by rw [deref_fCurrent, hr]; rfl
  unfold ReadTagStep
  rw [hb.SkipSpaces_stop false 62 _ hr (isSpace_of_le (by decide) (by decide) (by decide))]
  simp only [hd0, hend, show ¬ (62 = 47) from by decide, if_false, if_true, hcan,
    Bool.not_true, Bool.false_eq_true]
  rw [hb.ShiftCurrent 1 (by rw [hr]; simp)]

/-- `ReadNode` on white space and a closing tag whose name is the start of the name of
the parent: `strncmp` compares as many bytes as the name in the tag has. -/
theorem ReadNodeStart_closing_start (eng : TXMLEngine) (up : List SXmlNode_t)
    (parent : SXmlNode_t) (inp : TXMLInputStream) (hb : inp.Buffered)
    (w name tail : List Nat)
    (hr : inp.rest = w ++ 60 :: 47 :: name ++ 62 :: tail)
    (hw : ∀ b ∈ w, inp.isSpace b = true) (hn : isName inp.charSigned name = true)
    (hpre : parent.fName.take name.length = name) :
    ReadNodeStart eng up (some parent) inp =
      NodeStart.ret (Outcome.done ⟨1, none, some (truncateIfNs parent),
        ((inp.advance (w.length + 2 + name.length + 1)).SkipSpaces true).2⟩) := by
  obtain ⟨n0, ns, rfl⟩ : ∃ n0 ns, name = n0 :: ns := by
    cases name with
    | nil => exact absurd rfl (isName_ne_nil hn)
    | cons a l => exact ⟨a, l, rfl⟩
  obtain ⟨hg, hs, hns⟩ := isName_cons hn
  have hsp : inp.isSpace n0 = false := by rw [isSpace_eq_spaceByte]; exact hs
  have h60 : inp.isSpace 60 = false := isSpace_of_le (by decide) (by decide) (by decide)
  have hr0 : inp.rest = w ++ 60 :: (47 :: (n0 :: ns ++ 62 :: tail)) := by simpa using hr
  have hb1 := hb.advance w.length
  have hr1 : (inp.advance w.length).rest = 60 :: (47 :: (n0 :: ns ++ 62 :: tail)) :=
    rest_advance_of_append hr0
  have hb2 := hb1.advance 1
  have hr2 : ((inp.advance w.length).advance 1).rest = 47 :: (n0 :: ns ++ 62 :: tail) := by
    rw [advance_rest, hr1]; rfl
  have hb3 := hb2.advance 1
  have hr3 : (((inp.advance w.length).advance 1).advance 1).rest = n0 :: ns ++ 62 :: tail := by
    rw [advance_rest, hr2]; rfl
  have hb4 := hb3.advance (n0 :: ns).length
  have hr4 : ((((inp.advance w.length).advance 1).advance 1).advance (n0 :: ns).length).rest
      = 62 :: tail := rest_advance_of_append hr3
  unfold ReadNodeStart
  rw [hb.SkipSpaces_spec w 60 _ hr0 hw h60]
  simp only []
  rw [hb1.CheckFor_spec _ (by simp [bytes_copen])]
  have hnc : ¬ ((inp.advance w.length).rest.take (bytes "<!--").length = bytes "<!--") := by
    rw [hr1, bytes_copen]
    simp [List.take_succ_cons]
  simp only [hnc, if_false]
  have hd1 : (inp.advance w.length).deref (inp.advance w.length).fCurrent = 60 := by
    rw [deref_fCurrent, hr1]; rfl
  simp only [hd1, ne_eq, not_true_eq_false, if_false]
  rw [hb1.ShiftCurrent 1 (by rw [hr1]; simp)]
  have hd2 : ((inp.advance w.length).advance 1).deref ((inp.advance w.length).advance 1).fCurrent
      = 47 := by rw [deref_fCurrent, hr2]; rfl
  simp only [hd2, if_true]
  unfold ReadClosing
  rw [hb2.ShiftCurrent 1 (by rw [hr2]; simp)]
  simp only []
  rw [hb3.SkipSpaces_stop false n0 _ hr3 (by simpa using hsp)]
  simp only []
  rw [hb3.LocateIdentifier_spec n0 ns 62 tail hr3 hg hns (by decide)]
  simp only [show ¬ ((n0 :: ns).length ≤ 0) from by simp, if_false]
  have hsl : (((inp.advance w.length).advance 1).advance 1).slice
      (((inp.advance w.length).advance 1).advance 1).fCurrent (n0 :: ns).length = n0 :: ns := by
    rw [slice_fCurrent, hr3, List.take_left]
  rw [hsl]
  simp only [hpre, ne_eq, not_true_eq_false, if_false]
  rw [hb3.ShiftCurrent _ (by rw [hr3]; simp)]
  simp only []
  rw [hb4.SkipSpaces_stop false 62 _ hr4 (isSpace_of_le (by decide) (by decide) (by decide))]
  have hd4 : ((((inp.advance w.length).advance 1).advance 1).advance (n0 :: ns).length).deref
      ((((inp.advance w.length).advance 1).advance 1).advance (n0 :: ns).length).fCurrent
      = 62 := by rw [deref_fCurrent, hr4]; rfl
  simp only [hd4, ne_eq, not_true_eq_false, if_false]
  rw [hb4.ShiftCurrent 1 (by rw [hr4]; simp)]
  simp only [advance_advance]

/-- `ReadNode` on white space and the closing tag of the parent. -/
theorem ReadNodeStart_closing (eng : TXMLEngine) (up : List SXmlNode_t)
    (parent : SXmlNode_t) (inp : TXMLInputStream) (hb : inp.Buffered)
    (w tail : List Nat)
    (hr : inp.rest = w ++ 60 :: 47 :: parent.fName ++ 62 :: tail)
    (hw : ∀ b ∈ w, inp.isSpace b = true) (hn : isName inp.charSigned parent.fName = true) :
    ReadNodeStart eng up (some parent) inp =
      NodeStart.ret (Outcome.done ⟨1, none, some (truncateIfNs parent),
        ((inp.advance (w.length + 2 + parent.fName.length + 1)).SkipSpaces true).2⟩) :=
  ReadNodeStart_closing_start eng up parent inp hb w parent.fName tail hr hw hn
    (List.take_length _)

/-- `ReadNode` on a plain text in front of a `<`, without entities. -/
theorem ReadNodeStart_content (eng : TXMLEngine) (up : List SXmlNode_t)
    (parent : SXmlNode_t) (inp : TXMLInputStream) (hb : inp.Buffered)
    (text tail : List Nat) (hr : inp.rest = text ++ 60 :: tail)
    (ht : plainText inp.charSigned text = true) (hent : inp.fEntities = []) :
    ReadNodeStart eng up (some parent) inp =
      NodeStart.ret (Outcome.done ⟨2,
        some (SXmlNode_t.mk EXmlNodeType.kXML_CONTENT (UnpackSpecialCharacters text) [] none []),
        some (AddChild parent
          (SXmlNode_t.mk EXmlNodeType.kXML_CONTENT (UnpackSpecialCharacters text) [] none [])),
        inp.advance text.length⟩) := by
  obtain ⟨c0, cs, rfl⟩ : ∃ c0 cs, text = c0 :: cs := by
    cases text with
    | nil => simp [plainText] at ht
    | cons a l => exact ⟨a, l, rfl⟩
  simp only [plainText, Bool.and_eq_true, Bool.not_eq_true', List.contains_eq_any_beq,
    List.any_eq_false, beq_iff_eq] at ht
  obtain ⟨hs, h60⟩ := ht
  have hsp : inp.isSpace c0 = false := by rw [isSpace_eq_spaceByte]; exact hs
  have hno : 60 ∉ c0 :: cs := fun hm => h60 60 hm rfl
  have hc0 : c0 ≠ 60 := fun e => hno (by simp [e])
  have hr0 : inp.rest = c0 :: (cs ++ 60 :: tail) := by simpa using hr
  have hd0 : inp.deref inp.fCurrent = c0 := by rw [deref_fCurrent, hr0]; rfl
  unfold ReadNodeStart
  rw [hb.SkipSpaces_stop false c0 _ hr0 hsp]
  simp only []
  rw [hb.CheckFor_spec _ (by simp [bytes_copen])]
  have hnc : ¬ (inp.rest.take (bytes "<!--").length = bytes "<!--") := by
    rw [hr0, bytes_copen]
    simp only [List.length_cons, List.length_nil, List.take_succ_cons]
    intro h
    exact hc0 (List.cons.inj h).1
  simp only [hnc, if_false, hd0, ne_eq, hc0, not_false_eq_true, if_true]
  unfold ReadContent
  simp only []
  rw [hb.LocateContent_spec (c0 :: cs) tail hr hno]
  simp only [show ¬ (((c0 :: cs).length : Int) < 0) from by omega, if_false, Int.toNat_ofNat]
  have hsl : inp.slice inp.fCurrent (c0 :: cs).length = c0 :: cs := by
    rw [slice_fCurrent, hr, List.take_left]
  rw [hsl, hb.ShiftCurrent _ (by rw [hr]; simp)]
  simp [TXMLInputStream.NumEntities, hent]

end

section

open TXMLEngine TXMLInputStream

/-- `SkipSpaces(true)` behind a construct passes over the newline of the layout and not
further. -/
theorem Buffered_SkipSpaces_layout {inp : TXMLInputStream} (hb : inp.Buffered) (lay : Bool)
    (tail : List Nat) (hr : inp.rest = newline lay ++ tail)
    (ht : lay = false → ∀ c ∈ tail.head?, spaceByte inp.charSigned c = false) :
    (inp.SkipSpaces true).2 = inp.advance (newline lay).length := by
  cases lay with
  | true =>
    rw [hb.SkipSpaces_newline tail (by simpa [newline] using hr)]
    simp [newline]
  | false =>
    cases tail with
    | nil =>
      rw [hb.SkipSpaces_end true (by simpa [newline] using hr)]
      simp [newline]
    | cons c t =>
      have hc : inp.isSpace c = false := by
        rw [isSpace_eq_spaceByte]; exact ht rfl c (by simp)
      rw [hb.SkipSpaces_stop true c t (by simpa [newline] using hr) hc]
      simp [newline]

@[simp] theorem AddChild_fName (p c : SXmlNode_t) : (AddChild p c).fName = p.fName := rfl
@[simp] theorem AddChild_fNs (p c : SXmlNode_t) : (AddChild p c).fNs = p.fNs := rfl
@[simp] theorem AddChild_fType (p c : SXmlNode_t) : (AddChild p c).fType = p.fType := rfl
@[simp] theorem AddChild_fAttr (p c : SXmlNode_t) : (AddChild p c).fAttr = p.fAttr := rfl
@[simp] theorem AddChild_fChild (p c : SXmlNode_t) : (AddChild p c).fChild = p.fChild ++ [c] := rfl

theorem truncateIfNs_none {n : SXmlNode_t} (h : n.fNs = none) : truncateIfNs n = n := by
  simp [truncateIfNs, h]

theorem nsText_none {node : SXmlNode_t} (h : node.fNs = none) : nsText node = [] := by
  simp [nsText, SXmlNode_t.nsAttr, h]

theorem attrsText_head (attrs : List SXmlAttr_t) (x : Nat) (X : List Nat)
    (hx : GoodNextSymbol x = false) :
    ∃ c r, attrsText attrs ++ x :: X = c :: r ∧ GoodNextSymbol c = false := by
  cases attrs with
  | nil => exact ⟨x, X, rfl, hx⟩
  | cons a rest =>
    exact ⟨32, a.name ++ bytes "=\"" ++ escapeText a.value ++ [34] ++ attrsText rest ++ x :: X,
      by simp [attrsText], by decide⟩

/-- The attribute loop of `ReadNode` on the attributes that `SaveNode` wrote. -/
theorem ReadNodeAttrs_plain (eng : TXMLEngine) (up : List SXmlNode_t)
    (xmlparent : Option SXmlNode_t) (ty : EXmlNodeType) (name : List Nat) (res : Int) :
    ∀ (todo seen : List SXmlAttr_t) (inp : TXMLInputStream) (fuel : Nat) (after : List Nat),
      inp.Buffered → inp.rest = attrsText todo ++ after →
      (∀ a ∈ todo, plainAttr inp.charSigned a = true) →
      ReadNodeAttrs eng (todo.length + fuel) up xmlparent
        ⟨SXmlNode_t.mk ty name seen none [], res, true, 47⟩ inp =
      ReadNodeAttrs eng fuel up xmlparent
        ⟨SXmlNode_t.mk ty name (seen ++ todo) none [], res, true, 47⟩
        (inp.advance (attrsText todo).length)
  | [], seen, inp, fuel, after, _, _, _ => by simp [attrsText]
  | a :: rest, seen, inp, fuel, after, hb, hr, hp => by
    have hfuel : (a :: rest).length + fuel = (rest.length + fuel) + 1 := by
      simp only [List.length_cons]; omega
    have hr0 : inp.rest = 32 :: a.name ++ 61 :: 34 :: escapeText a.value ++
        34 :: (attrsText rest ++ after) := by
      rw [hr]; simp [attrsText, bytes_eqq]
    have hpa : plainAttr inp.charSigned ⟨a.name, UnpackSpecialCharacters (escapeText a.value)⟩
        = true := by
      rw [Unpack_escapeText]; exact hp a (List.mem_cons_self _ _)
    rw [hfuel, ReadNodeAttrs,
      ReadTagStep_attr xmlparent _ inp hb a.name (escapeText a.value) _ hr0 hpa
        (not_mem_escapeText_34 _) rfl]
    simp only [SXmlNode_t.fType, SXmlNode_t.fName, SXmlNode_t.fAttr, SXmlNode_t.fNs,
      SXmlNode_t.fChild, Unpack_escapeText]
    have hr1 : (inp.advance (1 + a.name.length + 2 + (escapeText a.value).length + 1)).rest
        = attrsText rest ++ after := by
      rw [advance_rest, hr0]
      have : 1 + a.name.length + 2 + (escapeText a.value).length + 1 =
          (32 :: a.name ++ 61 :: 34 :: escapeText a.value ++ [34]).length := by
        simp; omega
      rw [this, show 32 :: a.name ++ 61 :: 34 :: escapeText a.value ++
          34 :: (attrsText rest ++ after) = (32 :: a.name ++ 61 :: 34 :: escapeText a.value ++
          [34]) ++ (attrsText rest ++ after) by simp, List.drop_left]
    have ih := ReadNodeAttrs_plain eng up xmlparent ty name res rest
      (seen ++ [⟨a.name, a.value⟩]) _ fuel
      after (hb.advance _) hr1 (fun b hb2 => by
        rw [advance_charSigned]; exact hp b (List.mem_cons_of_mem _ hb2))
    refine ih.trans ?_
    simp only [advance_advance, List.append_assoc, List.singleton_append]
    congr 2
    simp [attrsText, bytes_eqq]; omega

/-- The loop over the children on the text of a lone Content child and the closing tag. -/
theorem ReadNodeChildren_lone (eng : TXMLEngine) (up : List SXmlNode_t) (node : SXmlNode_t)
    (inp : TXMLInputStream) (fuel : Nat) (lay : Bool) (text tail : List Nat)
    (hb : inp.Buffered) (hent : inp.fEntities = []) (hns : node.fNs = none)
    (hname : isName inp.charSigned node.fName = true)
    (ht : plainText inp.charSigned text = true)
    (hr : inp.rest = text ++ (60 :: 47 :: node.fName ++ 62 :: (newline lay ++ tail)))
    (htail : lay = false → ∀ c ∈ tail.head?, spaceByte inp.charSigned c = false)
    (hf : 4 ≤ fuel) :
    ReadNodeChildren eng fuel up node inp =
      Outcome.done ⟨1, none,
        some (AddChild node
          (SXmlNode_t.mk EXmlNodeType.kXML_CONTENT (UnpackSpecialCharacters text) [] none [])),
        inp.advance (text.length + 2 + node.fName.length + 1 + (newline lay).length)⟩ := by
  obtain ⟨f, rfl⟩ : ∃ f, fuel = f + 4 := ⟨fuel - 4, by omega⟩
  have hr0 : inp.rest = text ++ 60 :: (47 :: node.fName ++ 62 :: (newline lay ++ tail)) := by
    rw [hr]; simp
  rw [ReadNodeChildren, ReadNode, ReadNodeStart_content eng up node inp hb text _ hr0 ht hent]
  simp only [if_true, Option.getD_some]
  have hb1 := hb.advance text.length
  have hr1 : (inp.advance text.length).rest =
      [] ++ 60 :: 47 :: (AddChild node (SXmlNode_t.mk EXmlNodeType.kXML_CONTENT
        (UnpackSpecialCharacters text) [] none [])).fName ++ 62 :: (newline lay ++ tail) := by
    rw [rest_advance_of_append hr0]; simp
  rw [ReadNodeChildren, ReadNode,
    ReadNodeStart_closing eng up _ _ hb1 [] (newline lay ++ tail) hr1 (by simp)
      (by simpa using hname)]
  simp only [show ¬ ((1 : Int) = 2) from by decide, if_false, AddChild_fName, List.length_nil,
    advance_advance]
  have hb2 := hb.advance (text.length + (0 + 2 + node.fName.length + 1))
  have hr2 : (inp.advance (text.length + (0 + 2 + node.fName.length + 1))).rest
      = newline lay ++ tail := by
    rw [advance_rest, hr]
    have : text.length + (0 + 2 + node.fName.length + 1) =
        (text ++ (60 :: 47 :: node.fName ++ [62])).length := by simp; omega
    rw [this, show text ++ (60 :: 47 :: node.fName ++ 62 :: (newline lay ++ tail)) =
      (text ++ (60 :: 47 :: node.fName ++ [62])) ++ (newline lay ++ tail) by simp,
      List.drop_left]
  rw [Buffered_SkipSpaces_layout hb2 lay tail hr2 (by simpa using htail),
    truncateIfNs_none (by simpa using hns), advance_advance]
  congr 3
  omega

end

section

open TXMLEngine TXMLInputStream

theorem spaceByte_indent (sg lay : Bool) (level : Nat) :
    ∀ b ∈ indent lay level, spaceByte sg b = true := by
  intro b hb
  cases lay with
  | false => simp [indent] at hb
  | true =>
    simp only [indent, if_true] at hb
    rw [List.eq_of_mem_replicate hb]
    cases sg <;> decide

theorem spaceByte_newline (sg lay : Bool) : ∀ b ∈ newline lay, spaceByte sg b = true := by
  intro b hb
  cases lay with
  | false => simp [newline] at hb
  | true =>
    simp only [newline, if_true, List.mem_singleton] at hb
    subst hb
    cases sg <;> decide

theorem plain_cases {sg : Bool} {fType : EXmlNodeType} {fName : List Nat}
    {fAttr : List SXmlAttr_t} {fNs : Option NsPtr} {fChild : List SXmlNode_t}
    (h : plain sg (SXmlNode_t.mk fType fName fAttr fNs fChild) = true) :
    fType = EXmlNodeType.kXML_NODE ∧ fNs = none ∧ isName sg fName = true ∧
      (∀ a ∈ fAttr, plainAttr sg a = true) ∧
      (loneContent sg fChild = true ∨ plainList sg fChild = true) := by
  rw [plain] at h
  simp only [Bool.and_eq_true, Bool.or_eq_true, beq_iff_eq, Option.isNone_iff_eq_none,
    List.all_eq_true] at h
  exact ⟨h.1.1.1.1, h.1.1.1.2, h.1.1.2, h.1.2, h.2⟩

theorem plain_fType {sg : Bool} {t : SXmlNode_t} (h : plain sg t = true) :
    t.fType = EXmlNodeType.kXML_NODE := by
  cases t with
  | mk fType fName fAttr fNs fChild => exact (plain_cases h).1

theorem loneContent_cases {sg : Bool} {cs : List SXmlNode_t} (h : loneContent sg cs = true) :
    ∃ text, cs = [SXmlNode_t.mk EXmlNodeType.kXML_CONTENT text [] none []] ∧
      plainText sg text = true := by
  match cs, h with
  | [SXmlNode_t.mk ty text attrs ns kids], h =>
    simp only [loneContent, SXmlNode_t.fType, SXmlNode_t.fName, SXmlNode_t.fAttr,
      SXmlNode_t.fNs, SXmlNode_t.fChild, Bool.and_eq_true, beq_iff_eq,
      List.isEmpty_iff, Option.isNone_iff_eq_none] at h
    obtain ⟨⟨⟨⟨rfl, ht⟩, rfl⟩, rfl⟩, rfl⟩ := h
    exact ⟨text, rfl, ht⟩
  | [], h => simp [loneContent] at h
  | _ :: _ :: _, h => simp [loneContent] at h

/-- The text of a plain element starts with `<` when the layout is off. -/
theorem nodeText_false_head {sg : Bool} {t : SXmlNode_t} (h : plain sg t = true) (level : Nat) :
    ∃ r, nodeText false level t = 60 :: r := by
  cases t with
  | mk fType fName fAttr fNs fChild =>
    obtain ⟨rfl, rfl, -, -, -⟩ := plain_cases h
    rw [nodeText.eq_def]
    simp only [isSpecial, indent, openText]
    exact ⟨_, by simp; rfl⟩

theorem rest_advance_eq {inp : TXMLInputStream} {a b : List Nat} {n : Nat}
    (hr : inp.rest = a ++ b) (hn : n = a.length) : (inp.advance n).rest = b := by
  subst hn; exact rest_advance_of_append hr

/-- `ReadNode` on the open tag of an element up to the end of its attributes. -/
theorem ReadNode_header (eng : TXMLEngine) (up : List SXmlNode_t)
    (xmlparent : Option SXmlNode_t) (inp : TXMLInputStream) (w name : List Nat)
    (attrs : List SXmlAttr_t) (x : Nat) (X : List Nat) (f : Nat)
    (hb : inp.Buffered) (hw : ∀ b ∈ w, spaceByte inp.charSigned b = true)
    (hname : isName inp.charSigned name = true)
    (hattrs : ∀ a ∈ attrs, plainAttr inp.charSigned a = true)
    (hchain : ∀ n ∈ chainOf xmlparent up, n.fNs = none)
    (hx : GoodNextSymbol x = false)
    (hr : inp.rest = w ++ 60 :: name ++ (attrsText attrs ++ x :: X)) :
    ReadNode eng (attrs.length + f + 1) up xmlparent inp =
      ReadNodeAttrs eng f up xmlparent
        ⟨SXmlNode_t.mk EXmlNodeType.kXML_NODE name attrs none [], 0, true, 47⟩
        (inp.advance (w.length + 1 + name.length + (attrsText attrs).length)) := by
  obtain ⟨c, r, hcr, hc⟩ := attrsText_head attrs x X hx
  have hr0 : inp.rest = w ++ 60 :: name ++ c :: r := by rw [hr, hcr]
  have hw2 : ∀ b ∈ w, inp.isSpace b = true := fun b hm => by
    rw [isSpace_eq_spaceByte]; exact hw b hm
  rw [ReadNode, ReadNodeStart_open eng up xmlparent inp hb w name c r hr0 hw2 hname hc hchain]
  simp only []
  have hb1 := hb.advance (w.length + 1 + name.length)
  have hr1 : (inp.advance (w.length + 1 + name.length)).rest = attrsText attrs ++ x :: X :=
    rest_advance_eq hr (by simp; omega)
  have := ReadNodeAttrs_plain eng up xmlparent EXmlNodeType.kXML_NODE name 0 attrs [] _ f
    (x :: X) hb1 hr1 (by simpa using hattrs)
  rw [this]
  simp only [List.nil_append, advance_advance]

/-- `ReadNode` on an element without children, written as `<name attrs/>`. -/
theorem ReadNode_selfclosed (eng : TXMLEngine) (up : List SXmlNode_t)
    (xmlparent : Option SXmlNode_t) (inp : TXMLInputStream) (w name : List Nat)
    (attrs : List SXmlAttr_t) (lay : Bool) (tail : List Nat) (f : Nat)
    (hb : inp.Buffered) (hw : ∀ b ∈ w, spaceByte inp.charSigned b = true)
    (hname : isName inp.charSigned name = true)
    (hattrs : ∀ a ∈ attrs, plainAttr inp.charSigned a = true)
    (hchain : ∀ n ∈ chainOf xmlparent up, n.fNs = none)
    (hr : inp.rest = w ++ 60 :: name ++ (attrsText attrs ++ 47 :: 62 :: (newline lay ++ tail)))
    (htail : lay = false → ∀ c ∈ tail.head?, spaceByte inp.charSigned c = false) :
    ReadNode eng (attrs.length + (f + 1) + 1) up xmlparent inp =
      Outcome.done ⟨2, some (SXmlNode_t.mk EXmlNodeType.kXML_NODE name attrs none []),
        attach xmlparent (SXmlNode_t.mk EXmlNodeType.kXML_NODE name attrs none []),
        inp.advance (w.length + 1 + name.length + (attrsText attrs).length + 2 +
          (newline lay).length)⟩ := by
  rw [ReadNode_header eng up xmlparent inp w name attrs 47 _ (f + 1) hb hw hname hattrs hchain
    (by decide) hr]
  have hb2 := hb.advance (w.length + 1 + name.length + (attrsText attrs).length)
  have hr2 : (inp.advance (w.length + 1 + name.length + (attrsText attrs).length)).rest =
      47 :: 62 :: (newline lay ++ tail) :=
    rest_advance_eq (a := w ++ 60 :: name ++ attrsText attrs) (by rw [hr]; simp)
      (by simp; omega)
  rw [ReadNodeAttrs, ReadTagStep_selfclose xmlparent _ _ hb2 _ hr2 rfl]
  simp only [advance_advance]
  have hb3 := hb.advance (w.length + 1 + name.length + (attrsText attrs).length + 2)
  have hr3 : (inp.advance (w.length + 1 + name.length + (attrsText attrs).length + 2)).rest =
      newline lay ++ tail :=
    rest_advance_eq (a := w ++ 60 :: name ++ attrsText attrs ++ [47, 62]) (by rw [hr]; simp)
      (by simp; omega)
  rw [Buffered_SkipSpaces_layout hb3 lay tail hr3 (by simpa using htail),
    truncateIfNs_none (n := SXmlNode_t.mk EXmlNodeType.kXML_NODE name attrs none []) rfl,
    advance_advance]

/-- `ReadNode` on an element with children, given what the loop over the children does. -/
theorem ReadNode_element (eng : TXMLEngine) (up : List SXmlNode_t)
    (xmlparent : Option SXmlNode_t) (inp : TXMLInputStream) (w name : List Nat)
    (attrs : List SXmlAttr_t) (X : List Nat) (f : Nat) (node : SXmlNode_t)
    (last : TXMLInputStream)
    (hb : inp.Buffered) (hw : ∀ b ∈ w, spaceByte inp.charSigned b = true)
    (hname : isName inp.charSigned name = true)
    (hattrs : ∀ a ∈ attrs, plainAttr inp.charSigned a = true)
    (hchain : ∀ n ∈ chainOf xmlparent up, n.fNs = none)
    (hr : inp.rest = w ++ 60 :: name ++ (attrsText attrs ++ 62 :: X))
    (hk : ReadNodeChildren eng f (chainOf xmlparent up)
        (SXmlNode_t.mk EXmlNodeType.kXML_NODE name attrs none [])
        (inp.advance (w.length + 1 + name.length + (attrsText attrs).length + 1)) =
      Outcome.done ⟨1, none, some node, last⟩) :
    ReadNode eng (attrs.length + (f + 1) + 1) up xmlparent inp =
      Outcome.done ⟨2, some node, attach xmlparent node, last⟩ := by
  rw [ReadNode_header eng up xmlparent inp w name attrs 62 _ (f + 1) hb hw hname hattrs hchain
    (by decide) hr]
  have hb2 := hb.advance (w.length + 1 + name.length + (attrsText attrs).length)
  have hr2 : (inp.advance (w.length + 1 + name.length + (attrsText attrs).length)).rest =
      62 :: X :=
    rest_advance_eq (a := w ++ 60 :: name ++ attrsText attrs) (by rw [hr]; simp)
      (by simp; omega)
  rw [ReadNodeAttrs, ReadTagStep_gt xmlparent _ _ hb2 _ hr2 rfl rfl]
  simp only [advance_advance]
  rw [hk]
  simp [ReadNodeClosed]

end

section

open TXMLEngine TXMLInputStream

theorem nodeText_node_nil (lay : Bool) (level : Nat) (name : List Nat)
    (attrs : List SXmlAttr_t) :
    nodeText lay level (SXmlNode_t.mk EXmlNodeType.kXML_NODE name attrs none []) =
      indent lay level ++ 60 :: name ++ (attrsText attrs ++ 47 :: 62 :: newline lay) := by
  rw [nodeText.eq_def]
  simp [isSpecial, openText, nsText, singleLineText, bytes_selfend, SXmlNode_t.fType, SXmlNode_t.fName, SXmlNode_t.fAttr, SXmlNode_t.fNs, SXmlNode_t.fChild,
    SXmlNode_t.nsAttr]

theorem nodeText_node_lone (lay : Bool) (level : Nat) (name : List Nat)
    (attrs : List SXmlAttr_t) (text : List Nat) :
    nodeText lay level (SXmlNode_t.mk EXmlNodeType.kXML_NODE name attrs none
        [SXmlNode_t.mk EXmlNodeType.kXML_CONTENT text [] none []]) =
      indent lay level ++ 60 :: name ++ (attrsText attrs ++ 62 ::
        (text ++ (60 :: 47 :: name ++ 62 :: newline lay))) := by
  rw [nodeText.eq_def]
  simp [isSpecial, openText, nsText, closeText, bytes_closetag, SXmlNode_t.fType, SXmlNode_t.fName, SXmlNode_t.fAttr, SXmlNode_t.fNs, SXmlNode_t.fChild,
    SXmlNode_t.nsAttr]

theorem nodeText_node_cons (lay : Bool) (level : Nat) (name : List Nat)
    (attrs : List SXmlAttr_t) (child : SXmlNode_t) (next : List SXmlNode_t)
    (h : child.fType = EXmlNodeType.kXML_NODE) :
    nodeText lay level (SXmlNode_t.mk EXmlNodeType.kXML_NODE name attrs none (child :: next)) =
      indent lay level ++ 60 :: name ++ (attrsText attrs ++ 62 ::
        (newline lay ++ childrenText lay (level + 2) (child :: next) ++ indent lay level ++
          (60 :: 47 :: name ++ 62 :: newline lay))) := by
  cases child with
  | mk cType cName cAttr cNs cChild =>
  simp only [SXmlNode_t.fType] at h
  subst h
  rw [nodeText.eq_def]
  simp [isSpecial, openText, nsText, closeText, bytes_closetag, SXmlNode_t.fType, SXmlNode_t.fName, SXmlNode_t.fAttr, SXmlNode_t.fNs, SXmlNode_t.fChild,
    SXmlNode_t.nsAttr]

theorem spaceByte_60 (sg : Bool) : spaceByte sg 60 = false := by cases sg <;> decide

theorem plainList_cons {sg : Bool} {child : SXmlNode_t} {next : List SXmlNode_t}
    (h : plainList sg (child :: next) = true) :
    plain sg child = true ∧ plainList sg next = true := by
  rw [plainList] at h
  simpa using h

/-- With the layout off, the text behind a child starts with `<`. -/
theorem childrenText_false_head {sg : Bool} {next : List SXmlNode_t}
    (h : plainList sg next = true) (level plevel : Nat) (Y : List Nat) :
    ∀ c ∈ (childrenText false level next ++ indent false plevel ++ 60 :: Y).head?,
      spaceByte sg c = false := by
  intro c hc
  cases next with
  | nil =>
    simp [childrenText, indent] at hc
    subst hc; exact spaceByte_60 sg
  | cons child rest =>
    obtain ⟨r, hr⟩ := nodeText_false_head (plainList_cons h).1 level
    rw [childrenText, hr] at hc
    simp at hc
    subst hc; exact spaceByte_60 sg

theorem node_eta (node : SXmlNode_t) :
    SXmlNode_t.mk node.fType node.fName node.fAttr node.fNs node.fChild = node := by
  cases node; rfl

mutual
/-- `ReadNode` on the text that `SaveNode` wrote for a plain element reads the element back,
with every Content text unpacked, and consumes exactly that text. -/
theorem ReadNode_plain (eng : TXMLEngine) (lay : Bool) :
    ∀ (t : SXmlNode_t) (level fuel : Nat) (up : List SXmlNode_t)
      (xmlparent : Option SXmlNode_t) (inp : TXMLInputStream) (w tail : List Nat),
      plain inp.charSigned t = true → inp.Buffered → inp.fEntities = [] →
      (∀ n ∈ chainOf xmlparent up, n.fNs = none) →
      (∀ b ∈ w, spaceByte inp.charSigned b = true) →
      inp.rest = w ++ nodeText lay level t ++ tail →
      (lay = false → ∀ c ∈ tail.head?, spaceByte inp.charSigned c = false) →
      fuelNeed t ≤ fuel →
      ReadNode eng fuel up xmlparent inp =
        Outcome.done ⟨2, some (unpacked t), attach xmlparent (unpacked t),
          inp.advance (w.length + (nodeText lay level t).length)⟩
  | SXmlNode_t.mk fType fName fAttr fNs fChild, level, fuel, up, xmlparent, inp, w, tail,
      hp, hb, hent, hchain, hw, hr, htail, hf => by
    obtain ⟨rfl, rfl, hname, hattrs, hkids⟩ := plain_cases hp
    rw [fuelNeed] at hf
    obtain ⟨f, rfl⟩ : ∃ f, fuel = fAttr.length + (f + 1) + 1 :=
      ⟨fuel - fAttr.length - 2, by omega⟩
    have hf2 : childrenNeed fChild ≤ f := by omega
    have hw2 : ∀ b ∈ w ++ indent lay level, spaceByte inp.charSigned b = true := by
      intro b hm
      rcases List.mem_append.1 hm with h | h
      · exact hw b h
      · exact spaceByte_indent _ lay level b h
    cases fChild with
    | nil =>
      rw [nodeText_node_nil] at hr ⊢
      have hr2 : inp.rest = (w ++ indent lay level) ++ 60 :: fName ++
          (attrsText fAttr ++ 47 :: 62 :: (newline lay ++ tail)) := by rw [hr]; simp
      rw [ReadNode_selfclosed eng up xmlparent inp _ fName fAttr lay tail f hb hw2 hname hattrs
        hchain hr2 htail]
      simp only [unpacked, unpackedList, if_neg (show ¬ EXmlNodeType.kXML_NODE =
        EXmlNodeType.kXML_CONTENT from by decide)]
      congr 3
      simp; omega
    | cons child next =>
      have hb1 := hb.advance ((w ++ indent lay level).length + 1 + fName.length +
        (attrsText fAttr).length + 1)
      rcases hkids with hl | hpl
      · obtain ⟨text, hcs, ht⟩ := loneContent_cases hl
        obtain ⟨rfl, rfl⟩ := List.cons.inj hcs
        rw [nodeText_node_lone] at hr ⊢
        have hr2 : inp.rest = (w ++ indent lay level) ++ 60 :: fName ++
            (attrsText fAttr ++ 62 :: (text ++ (60 :: 47 :: fName ++
              62 :: (newline lay ++ tail)))) := by rw [hr]; simp
        have hr3 : (inp.advance ((w ++ indent lay level).length + 1 + fName.length +
            (attrsText fAttr).length + 1)).rest =
            text ++ (60 :: 47 :: fName ++ 62 :: (newline lay ++ tail)) :=
          rest_advance_eq (a := (w ++ indent lay level) ++ 60 :: fName ++ attrsText fAttr ++ [62])
            (by rw [hr2]; simp) (by simp; omega)
        have hk := ReadNodeChildren_lone eng (chainOf xmlparent up)
          (SXmlNode_t.mk EXmlNodeType.kXML_NODE fName fAttr none []) _ f lay text tail hb1
          (by simpa using hent) rfl (by simpa using hname) (by simpa using ht) hr3
          (by simpa using htail)
          (by simp only [childrenNeed, fuelNeed] at hf2; omega)
        rw [ReadNode_element eng up xmlparent inp _ fName fAttr _ f _ _ hb hw2 hname hattrs
          hchain hr2 hk]
        simp only [unpacked, unpackedList, if_neg (show ¬ EXmlNodeType.kXML_NODE =
          EXmlNodeType.kXML_CONTENT from by decide), if_true, AddChild, SXmlNode_t.fType,
          SXmlNode_t.fName, SXmlNode_t.fAttr, SXmlNode_t.fNs, SXmlNode_t.fChild,
          List.nil_append, advance_advance]
        congr 3
        simp; omega
      · have hct := plain_fType (plainList_cons hpl).1
        rw [nodeText_node_cons _ _ _ _ _ _ hct] at hr ⊢
        have hr2 : inp.rest = (w ++ indent lay level) ++ 60 :: fName ++
            (attrsText fAttr ++ 62 :: (newline lay ++
              childrenText lay (level + 2) (child :: next) ++ indent lay level ++
              (60 :: 47 :: fName ++ 62 :: (newline lay ++ tail)))) := by rw [hr]; simp
        have hr3 : (inp.advance ((w ++ indent lay level).length + 1 + fName.length +
            (attrsText fAttr).length + 1)).rest =
            newline lay ++ childrenText lay (level + 2) (child :: next) ++ indent lay level ++
              (60 :: 47 :: fName ++ 62 :: (newline lay ++ tail)) :=
          rest_advance_eq (a := (w ++ indent lay level) ++ 60 :: fName ++ attrsText fAttr ++ [62])
            (by rw [hr2]; simp) (by simp; omega)
        have hk := ReadNodeChildren_plain eng lay (child :: next) (level + 2) level f
          (chainOf xmlparent up) (SXmlNode_t.mk EXmlNodeType.kXML_NODE fName fAttr none []) _
          (newline lay) tail (by simpa using hpl) hb1 (by simpa using hent) rfl
          (by simpa using hname) hchain (fun b hm => spaceByte_newline _ lay b hm) hr3
          (by simpa using htail) hf2
        rw [ReadNode_element eng up xmlparent inp _ fName fAttr _ f _ _ hb hw2 hname hattrs
          hchain hr2 hk]
        simp only [unpacked, if_neg (show ¬ EXmlNodeType.kXML_NODE =
          EXmlNodeType.kXML_CONTENT from by decide), SXmlNode_t.fType,
          SXmlNode_t.fName, SXmlNode_t.fAttr, SXmlNode_t.fNs, SXmlNode_t.fChild,
          List.nil_append, advance_advance]
        congr 3
        simp; omega
/-- The loop over the children on the texts of plain elements and the closing tag. -/
theorem ReadNodeChildren_plain (eng : TXMLEngine) (lay : Bool) :
    ∀ (cs : List SXmlNode_t) (level plevel fuel : Nat) (up : List SXmlNode_t)
      (node : SXmlNode_t) (inp : TXMLInputStream) (w tail : List Nat),
      plainList inp.charSigned cs = true → inp.Buffered → inp.fEntities = [] →
      node.fNs = none → isName inp.charSigned node.fName = true →
      (∀ n ∈ up, n.fNs = none) → (∀ b ∈ w, spaceByte inp.charSigned b = true) →
      inp.rest = w ++ childrenText lay level cs ++ indent lay plevel ++
        (60 :: 47 :: node.fName ++ 62 :: (newline lay ++ tail)) →
      (lay = false → ∀ c ∈ tail.head?, spaceByte inp.charSigned c = false) →
      childrenNeed cs ≤ fuel →
      ReadNodeChildren eng fuel up node inp =
        Outcome.done ⟨1, none,
          some (SXmlNode_t.mk node.fType node.fName node.fAttr node.fNs
            (node.fChild ++ unpackedList cs)),
          inp.advance (w.length + (childrenText lay level cs).length +
            (indent lay plevel).length + 2 + node.fName.length + 1 + (newline lay).length)⟩
  | [], level, plevel, fuel, up, node, inp, w, tail,
      _, hb, _, hns, hname, _, hw, hr, htail, hf => by
    obtain ⟨f, rfl⟩ : ∃ f, fuel = f + 2 := ⟨fuel - 2, by rw [childrenNeed] at hf; omega⟩
    have hw2 : ∀ b ∈ w ++ indent lay plevel, inp.isSpace b = true := by
      intro b hm
      rw [isSpace_eq_spaceByte]
      rcases List.mem_append.1 hm with h | h
      · exact hw b h
      · exact spaceByte_indent _ lay plevel b h
    have hr2 : inp.rest = (w ++ indent lay plevel) ++ 60 :: 47 :: node.fName ++
        62 :: (newline lay ++ tail) := by rw [hr]; simp [childrenText]
    rw [ReadNodeChildren, ReadNode,
      ReadNodeStart_closing eng up node inp hb _ (newline lay ++ tail) hr2 hw2 hname]
    simp only [show ¬ ((1 : Int) = 2) from by decide, if_false]
    have hb3 := hb.advance ((w ++ indent lay plevel).length + 2 + node.fName.length + 1)
    have hr3 : (inp.advance ((w ++ indent lay plevel).length + 2 + node.fName.length + 1)).rest
        = newline lay ++ tail :=
      rest_advance_eq (a := (w ++ indent lay plevel) ++ 60 :: 47 :: node.fName ++ [62])
        (by rw [hr2]; simp) (by simp; omega)
    rw [Buffered_SkipSpaces_layout hb3 lay tail hr3 (by simpa using htail),
      truncateIfNs_none hns, advance_advance]
    simp only [unpackedList, List.append_nil, node_eta, childrenText, List.length_nil,
      List.length_append]
    congr 3
  | child :: next, level, plevel, fuel, up, node, inp, w, tail,
      hp, hb, hent, hns, hname, hup, hw, hr, htail, hf => by
    obtain ⟨hpc, hpn⟩ := plainList_cons hp
    rw [childrenNeed] at hf
    obtain ⟨f, rfl⟩ : ∃ f, fuel = f + 1 := ⟨fuel - 1, by omega⟩
    have hr2 : inp.rest = w ++ nodeText lay level child ++
        (childrenText lay level next ++ indent lay plevel ++
          60 :: (47 :: node.fName ++ 62 :: (newline lay ++ tail))) := by
      rw [hr, childrenText]; simp
    have hchain : ∀ n ∈ chainOf (some node) up, n.fNs = none := by
      intro n hm
      simp only [chainOf, List.mem_cons] at hm
      rcases hm with rfl | hm
      · exact hns
      · exact hup n hm
    have h1 := ReadNode_plain eng lay child level f up (some node) inp w _ hpc hb hent hchain hw
      hr2 (fun hl => by subst hl; exact childrenText_false_head hpn level plevel _)
      (by omega)
    rw [ReadNodeChildren, h1]
    simp only [if_true, attach, Option.map_some', Option.getD_some]
    have hb1 := hb.advance (w.length + (nodeText lay level child).length)
    have hr3 : (inp.advance (w.length + (nodeText lay level child).length)).rest =
        [] ++ childrenText lay level next ++ indent lay plevel ++
          (60 :: 47 :: (AddChild node (unpacked child)).fName ++
            62 :: (newline lay ++ tail)) :=
      rest_advance_eq (a := w ++ nodeText lay level child) (by rw [hr2]; simp) (by simp)
    have h2 := ReadNodeChildren_plain eng lay next level plevel f up
      (AddChild node (unpacked child)) _ [] tail (by simpa using hpn) hb1
      (by simpa using hent) (by simpa using hns) (by simpa using hname) hup (by simp) hr3
      (by simpa using htail) (by omega)
    rw [h2]
    simp only [AddChild_fType, AddChild_fName, AddChild_fAttr, AddChild_fNs, AddChild_fChild,
      unpackedList, List.append_assoc, List.singleton_append, advance_advance, childrenText]
    congr 3
    simp; omega
end

end

section

open TXMLEngine TXMLInputStream

/-! ## Fuel, the sinks and the streams of the entry points -/

theorem attrsText_length_ge (attrs : List SXmlAttr_t) : attrs.length ≤ (attrsText attrs).length := by
  induction attrs with
  | nil => simp
  | cons a rest ih => simp [attrsText]; omega

mutual
theorem fuelNeed_le (sg lay : Bool) : ∀ (t : SXmlNode_t) (level : Nat), plain sg t = true →
    fuelNeed t + 1 ≤ 2 * (nodeText lay level t).length
  | SXmlNode_t.mk fType fName fAttr fNs fChild, level, hp => by
    obtain ⟨rfl, rfl, hname, -, hkids⟩ := plain_cases hp
    have hn : 1 ≤ fName.length := by
      cases fName with
      | nil => exact absurd rfl (isName_ne_nil hname)
      | cons a l => simp
    have ha := attrsText_length_ge fAttr
    rw [fuelNeed]
    cases fChild with
    | nil =>
      rw [nodeText_node_nil]
      simp [childrenNeed]; omega
    | cons child next =>
      rcases hkids with hl | hpl
      · obtain ⟨text, hcs, -⟩ := loneContent_cases hl
        obtain ⟨rfl, rfl⟩ := List.cons.inj hcs
        rw [nodeText_node_lone]
        simp [childrenNeed, fuelNeed]; omega
      · have := childrenNeed_le sg lay (child :: next) (level + 2) hpl
        rw [nodeText_node_cons _ _ _ _ _ _ (plain_fType (plainList_cons hpl).1)]
        simp only [List.length_append, List.length_cons]
        omega
theorem childrenNeed_le (sg lay : Bool) : ∀ (cs : List SXmlNode_t) (level : Nat),
    plainList sg cs = true → childrenNeed cs ≤ 2 + 2 * (childrenText lay level cs).length
  | [], _, _ => by simp [childrenNeed]
  | child :: next, level, hp => by
    have h1 := fuelNeed_le sg lay child level (plainList_cons hp).1
    have h2 := childrenNeed_le sg lay next level (plainList_cons hp).2
    rw [childrenNeed, childrenText]
    simp only [List.length_append]
    omega
end

theorem ofString_spec (str : List Nat) (n : Nat) (sg : Bool) (pb : Nat) (h : str.length ≤ n) :
    (TXMLInputStream.ofString str n sg pb).Buffered ∧
      (TXMLInputStream.ofString str n sg pb).rest = str ∧
      (TXMLInputStream.ofString str n sg pb).fEntities = [] ∧
      (TXMLInputStream.ofString str n sg pb).charSigned = sg := by
  unfold TXMLInputStream.ofString TXMLInputStream.DoRead TXMLInputStream.EndOfFile
  by_cases h0 : str.length ≤ 0
  · have : str = [] := List.length_eq_zero.1 (by omega)
    subst this
    simp [Buffered, rest]
  · simp only [h0, decide_False, Bool.false_eq_true, if_false]
    by_cases h1 : n > str.length
    · simp [h1, Buffered, rest]; omega
    · have : n = str.length := by omega
      subst this
      simp [Buffered, rest]; omega

theorem TXMLInputStream.Buffered.EndOfStream {inp : TXMLInputStream} (h : inp.Buffered) :
    inp.EndOfStream = decide (inp.rest = []) := by
  have := rest_length inp
  simp only [TXMLInputStream.EndOfStream, h.EndOfFile, Bool.true_and]
  by_cases hr : inp.rest = []
  · rw [hr] at this; simp at this; simp [hr]; omega
  · have h2 : 0 < inp.rest.length := List.length_pos.2 hr
    simp [hr]; omega

/-- What `SaveDoc` writes to the file: the texts of the top-level nodes. -/
theorem SaveDoc_eq (xmldoc : SXmlDoc_t) (layout : Int) :
    SaveDoc xmldoc layout =
      some (childrenText (decide (layout > 0)) 0 xmldoc.fRootNode.fChild) := by
  obtain ⟨o, ho, he⟩ := SaveNodeChildren_writes layout xmldoc.fRootNode.fChild
    (TXMLOutputStream.ofFile 100000) 0 _ (le_refl _) (TXMLOutputStream.roomFor_ofFile _ _)
  unfold SaveDoc
  rw [ho, Option.map_some', TXMLOutputStream.close_eq_written, he.1]
  simp [TXMLOutputStream.written, TXMLOutputStream.ofFile]

/-- What `SaveSingleNode` appends to an empty string when no single text of the node has
2500 bytes or more. -/
theorem SaveSingleNode_eq (xmlnode : SXmlNode_t) (layout : Int) (hw : widest xmlnode < 2500) :
    SaveSingleNode xmlnode [] layout = some (nodeText (decide (layout > 0)) 0 xmlnode) := by
  have hroom : (TXMLOutputStream.ofString [] 10000).roomFor (widest xmlnode) := by
    right
    simp [TXMLOutputStream.ofString]; omega
  obtain ⟨o, ho, he⟩ := SaveNode_writes layout xmlnode (TXMLOutputStream.ofString [] 10000) 0 _
    (le_refl _) hroom
  unfold SaveSingleNode
  rw [ho, Option.map_some', TXMLOutputStream.close_eq_written, he.1]
  simp [TXMLOutputStream.written, TXMLOutputStream.ofString]

end

section

open TXMLEngine TXMLInputStream

/-! ## The round trip through the entry points -/

/-- `ReadSingleNode` on the text of a plain element of up to 10000 bytes. -/
theorem ReadSingleNode_plain (eng : TXMLEngine) (lay : Bool) (t : SXmlNode_t)
    (hp : plain eng.charSigned t = true) (hl : (nodeText lay 0 t).length ≤ 10000) :
    ReadSingleNode eng (nodeText lay 0 t) = ParseResult.ok (unpacked t) := by
  obtain ⟨hb, hr, hent, hsg⟩ :=
    ofString_spec (nodeText lay 0 t) 10000 eng.charSigned eng.pastByte hl
  have hfuel := fuelNeed_le eng.charSigned lay t 0 hp
  have h := ReadNode_plain eng lay t 0
    (2 * (TXMLInputStream.ofString (nodeText lay 0 t) 10000 eng.charSigned eng.pastByte).avail
      + 4) [] none _ [] [] (by rw [hsg]; exact hp) hb hent (by simp [chainOf]) (by simp)
    (by simpa using hr) (by simp) (by rw [hb.avail, hr]; omega)
  unfold ReadSingleNode
  simp only [h]
  simp

/-- The loop of `ParseStream` on the texts of plain top-level elements. -/
theorem ParseStreamLoop_plain (eng : TXMLEngine) (lay : Bool) :
    ∀ (next : List SXmlNode_t) (child : SXmlNode_t) (fuel : Nat) (root : SXmlNode_t)
      (inp : TXMLInputStream),
      plainList inp.charSigned (child :: next) = true → inp.Buffered → inp.fEntities = [] →
      root.fNs = none → inp.rest = childrenText lay 0 (child :: next) →
      childrenNeed (child :: next) ≤ fuel →
      ParseStreamLoop eng fuel root inp =
        ParseResult.ok ⟨SXmlNode_t.mk root.fType root.fName root.fAttr root.fNs
          (root.fChild ++ unpackedList (child :: next)), none, none⟩
  | next, child, fuel, root, inp, hp, hb, hent, hns, hr, hf => by
    obtain ⟨hpc, hpn⟩ := plainList_cons hp
    rw [childrenNeed] at hf
    obtain ⟨f, rfl⟩ : ∃ f, fuel = f + 1 := ⟨fuel - 1, by omega⟩
    have hr2 : inp.rest = [] ++ nodeText lay 0 child ++ childrenText lay 0 next := by
      rw [hr, childrenText]; simp
    have htail : lay = false → ∀ c ∈ (childrenText lay 0 next).head?,
        spaceByte inp.charSigned c = false := by
      intro hl c hc
      subst hl
      cases next with
      | nil => simp [childrenText] at hc
      | cons c2 rest =>
        obtain ⟨r, hr⟩ := nodeText_false_head (plainList_cons hpn).1 0
        rw [childrenText, hr] at hc
        simp at hc
        subst hc; exact spaceByte_60 _
    have h1 := ReadNode_plain eng lay child 0 f [] (some root) inp [] _ hpc hb hent
      (by simpa [chainOf] using hns) (by simp) hr2 htail (by omega)
    rw [ParseStreamLoop, h1]
    simp only [ne_eq, not_true_eq_false, if_false, attach, Option.map_some', Option.getD_some,
      List.length_nil, Nat.zero_add]
    have hb1 := hb.advance (nodeText lay 0 child).length
    have hr3 : (inp.advance (nodeText lay 0 child).length).rest = childrenText lay 0 next :=
      rest_advance_eq (a := nodeText lay 0 child) (by rw [hr2]; simp) rfl
    cases next with
    | nil =>
      have hend : (inp.advance (nodeText lay 0 child).length).EndOfStream = true := by
        rw [hb1.EndOfStream, hr3]; simp [childrenText]
      simp only [hend, Bool.not_true, Bool.false_eq_true, if_false, if_true]
      simp [NewDocNull, unpackedList, AddChild]
    | cons c2 rest =>
      obtain ⟨r, hr4⟩ : ∃ r, childrenText lay 0 (c2 :: rest) = 60 :: r := by
        have hc2 := (plainList_cons hpn).1
        cases c2 with
        | mk ty nm attrs ns ch =>
          obtain ⟨rfl, rfl, -, -, -⟩ := plain_cases hc2
          rw [childrenText, nodeText.eq_def]
          cases lay <;> exact ⟨_, by simp [isSpecial, indent, openText]; rfl⟩
      have hend : (inp.advance (nodeText lay 0 child).length).EndOfStream = false := by
        rw [hb1.EndOfStream, hr3, hr4]; simp
      have hskip := hb1.SkipSpaces_stop false 60 r (by rw [hr3, hr4])
        (isSpace_of_le (by decide) (by decide) (by decide))
      simp only [hend, Bool.not_false, if_true, hskip, Bool.false_eq_true, if_false]
      have h2 := ParseStreamLoop_plain eng lay rest c2 f (AddChild root (unpacked child)) _
        (by simpa using hpn) hb1 (by simpa using hent) (by simpa using hns) hr3 (by omega)
      rw [h2]
      simp [unpackedList]

/-- `ParseString` on the texts of plain top-level elements gives the document with these
elements, every Content text unpacked. -/
theorem ParseString_plain (eng : TXMLEngine) (lay : Bool) (cs : List SXmlNode_t)
    (hp : plainList eng.charSigned cs = true) (hne : cs ≠ []) :
    ParseString eng (childrenText lay 0 cs) =
      ParseResult.ok ⟨SXmlNode_t.mk EXmlNodeType.kXML_NODE (bytes "??DummyTopNode??") [] none
        (unpackedList cs), none, none⟩ := by
  obtain ⟨child, next, rfl⟩ : ∃ child next, cs = child :: next := by
    cases cs with
    | nil => exact absurd rfl hne
    | cons a l => exact ⟨a, l, rfl⟩
  have hfuel := childrenNeed_le eng.charSigned lay (child :: next) 0 hp
  have hpos : (childrenText lay 0 (child :: next)).length ≠ 0 := by
    have := fuelNeed_le eng.charSigned lay child 0 (plainList_cons hp).1
    rw [childrenText, List.length_append]
    omega
  obtain ⟨hb, hr, hent, hsg⟩ := ofString_spec (childrenText lay 0 (child :: next))
    (2 * (childrenText lay 0 (child :: next)).length) eng.charSigned eng.pastByte (by omega)
  unfold ParseString ParseStream
  rw [if_neg hpos]
  rw [ParseStreamLoop_plain eng lay next child _ NewDocNull.fRootNode _ (by rw [hsg]; exact hp)
    hb hent rfl hr (by rw [hb.avail, hr]; omega)]
  rfl

end

section

open TXMLEngine TXMLInputStream

/-! ## The round trips of the specification -/

/-- C1 (counterexample): two trees built with `NewChild` alone, on a platform with signed
`char` and with comment skipping off.  The text that `SaveSingleNode` writes for the
element `a` with the content `<` is `<a><</a>`, which `ReadSingleNode` refuses; the text
written for `a` with the content ` x` reads back as `a` with the content `x`. -/
theorem ReadSingleNode_SaveSingleNode_differs :
    SaveSingleNode (NewChild none (bytes "a") (some (bytes "<"))) [] 0
      = some (bytes "<a><</a>") ∧
    ReadSingleNode ⟨false, true, 0, fun _ => none⟩ (bytes "<a><</a>")
      = ParseResult.error 0 1 ∧
    SaveSingleNode (NewChild none (bytes "a") (some (bytes " x"))) [] 0
      = some (bytes "<a> x</a>") ∧
    ReadSingleNode ⟨false, true, 0, fun _ => none⟩ (bytes "<a> x</a>")
      = ParseResult.ok (NewChild none (bytes "a") (some (bytes "x"))) := by
  decide!

/-- C1 (amended): for every plain tree (elements without namespace whose names and
attribute names are identifiers that `SkipSpaces` does not cut, no attribute named
`xmlns:...`, the children of an element being either one Content node whose text is not
empty, has no `<` and starts with no white space, or elements of the same kind), with no
name, value or text of 2500 bytes or more, and for every layout: `SaveSingleNode` writes a
text, and if that text has up to 10000 bytes `ReadSingleNode` succeeds on it and yields the
tree with `UnpackSpecialCharacters` applied to every Content text (the tree itself when no
Content text holds one of the five entity references). -/
theorem ReadSingleNode_SaveSingleNode (eng : TXMLEngine) (tree : SXmlNode_t) (layout : Int)
    (hp : plain eng.charSigned tree = true) (hw : widest tree < 2500) :
    ∃ s, SaveSingleNode tree [] layout = some s ∧
      (s.length ≤ 10000 → ReadSingleNode eng s = ParseResult.ok (unpacked tree)) :=
  ⟨_, SaveSingleNode_eq tree layout hw, fun hl => ReadSingleNode_plain eng _ tree hp hl⟩

theorem ReadSingleNode_SaveSingleNode_witness :
    plain true (AddChild (NewAttr (NewChild none (bytes "root") none) (bytes "a") (bytes "1"))
      (NewChild none (bytes "child") (some (bytes "text & more")))) = true ∧
    ∃ s, SaveSingleNode (AddChild (NewAttr (NewChild none (bytes "root") none) (bytes "a")
        (bytes "1")) (NewChild none (bytes "child") (some (bytes "text & more")))) [] 1 = some s ∧
      (s.length ≤ 10000 → ReadSingleNode ⟨false, true, 0, fun _ => none⟩ s =
        ParseResult.ok (unpacked (AddChild (NewAttr (NewChild none (bytes "root") none)
          (bytes "a") (bytes "1")) (NewChild none (bytes "child")
          (some (bytes "text & more")))))) :=
  ⟨by decide, ReadSingleNode_SaveSingleNode ⟨false, true, 0, fun _ => none⟩ _ 1 (by decide)
    (by decide)⟩

/-- C3 (concrete scenario): on every platform, `ParseString` of
`<root a="1"><child>text &amp; more</child></root>` yields the document whose root element
`root` has the one attribute `a="1"` and the one child `child`, whose only child is the
Content node `text & more`; for every `layout > 0`, `SaveDoc` writes that document as three
lines indented by 0, 2 and 0 spaces, each followed by a newline. -/
theorem ParseString_scenario (eng : TXMLEngine) :
    ParseString eng (bytes "<root a=\"1\"><child>text &amp; more</child></root>") =
      ParseResult.ok ⟨SXmlNode_t.mk EXmlNodeType.kXML_NODE (bytes "??DummyTopNode??") [] none
        [SXmlNode_t.mk EXmlNodeType.kXML_NODE (bytes "root") [⟨bytes "a", bytes "1"⟩] none
          [SXmlNode_t.mk EXmlNodeType.kXML_NODE (bytes "child") [] none
            [SXmlNode_t.mk EXmlNodeType.kXML_CONTENT (bytes "text & more") [] none []]]],
        none, none⟩ ∧
    ∀ layout : Int, layout > 0 →
      SaveDoc ⟨SXmlNode_t.mk EXmlNodeType.kXML_NODE (bytes "??DummyTopNode??") [] none
        [SXmlNode_t.mk EXmlNodeType.kXML_NODE (bytes "root") [⟨bytes "a", bytes "1"⟩] none
          [SXmlNode_t.mk EXmlNodeType.kXML_NODE (bytes "child") [] none
            [SXmlNode_t.mk EXmlNodeType.kXML_CONTENT (bytes "text & more") [] none []]]],
        none, none⟩ layout =
      some (bytes "<root a=\"1\">\n  <child>text & more</child>\n</root>\n") := by
  constructor
  · have hp : ∀ sg : Bool, plainList sg
        [SXmlNode_t.mk EXmlNodeType.kXML_NODE (bytes "root") [⟨bytes "a", bytes "1"⟩] none
          [SXmlNode_t.mk EXmlNodeType.kXML_NODE (bytes "child") [] none
            [SXmlNode_t.mk EXmlNodeType.kXML_CONTENT (bytes "text &amp; more") [] none []]]]
        = true := by decide
    have h := ParseString_plain eng false _ (hp eng.charSigned) (by simp)
    have e1 : childrenText false 0
        [SXmlNode_t.mk EXmlNodeType.kXML_NODE (bytes "root") [⟨bytes "a", bytes "1"⟩] none
          [SXmlNode_t.mk EXmlNodeType.kXML_NODE (bytes "child") [] none
            [SXmlNode_t.mk EXmlNodeType.kXML_CONTENT (bytes "text &amp; more") [] none []]]]
        = bytes "<root a=\"1\"><child>text &amp; more</child></root>" := by decide
    have e2 : unpackedList
        [SXmlNode_t.mk EXmlNodeType.kXML_NODE (bytes "root") [⟨bytes "a", bytes "1"⟩] none
          [SXmlNode_t.mk EXmlNodeType.kXML_NODE (bytes "child") [] none
            [SXmlNode_t.mk EXmlNodeType.kXML_CONTENT (bytes "text &amp; more") [] none []]]]
        = [SXmlNode_t.mk EXmlNodeType.kXML_NODE (bytes "root") [⟨bytes "a", bytes "1"⟩] none
          [SXmlNode_t.mk EXmlNodeType.kXML_NODE (bytes "child") [] none
            [SXmlNode_t.mk EXmlNodeType.kXML_CONTENT (bytes "text & more") [] none []]]] := by
      decide
    rw [e1, e2] at h
    exact h
  · intro layout hl
    rw [SaveDoc_eq, decide_eq_true hl]
    decide

/-- C7 (counterexample): on a platform with signed `char`, `ParseString` accepts
`<a>&lt;</a>`; the serialization of the parsed document is `<a><</a>`, which `ParseString`
refuses.  It also accepts `<!DOCTYPE a>`, whose document is written as the empty text,
for which `ParseString` returns null. -/
theorem SaveDoc_ParseString_not_idempotent :
    ParseString ⟨false, true, 0, fun _ => none⟩ (bytes "<a>&lt;</a>") =
      ParseResult.ok ⟨SXmlNode_t.mk EXmlNodeType.kXML_NODE (bytes "??DummyTopNode??") [] none
        [NewChild none (bytes "a") (some (bytes "<"))], none, none⟩ ∧
    SaveDoc ⟨SXmlNode_t.mk EXmlNodeType.kXML_NODE (bytes "??DummyTopNode??") [] none
        [NewChild none (bytes "a") (some (bytes "<"))], none, none⟩ 0 = some (bytes "<a><</a>") ∧
    ParseString ⟨false, true, 0, fun _ => none⟩ (bytes "<a><</a>") = ParseResult.error 0 1 ∧
    ParseString ⟨false, true, 0, fun _ => none⟩ (bytes "<!DOCTYPE a>") =
      ParseResult.ok NewDocNull ∧
    SaveDoc NewDocNull 0 = some [] ∧
    ParseString ⟨false, true, 0, fun _ => none⟩ [] = ParseResult.null := by
  decide!

/-- C7 (amended): for every document with at least one top-level node, whose top-level
nodes are plain elements and whose Content texts `UnpackSpecialCharacters` leaves as they
are, and for every layout: `SaveDoc` writes a text `s1`, `ParseString(s1)` succeeds, and
`SaveDoc` of its result with the same layout writes `s1` again, byte for byte. -/
theorem SaveDoc_ParseString_idempotent (eng : TXMLEngine) (xmldoc : SXmlDoc_t) (layout : Int)
    (hp : plainList eng.charSigned xmldoc.fRootNode.fChild = true)
    (hne : xmldoc.fRootNode.fChild ≠ [])
    (hu : unpackedList xmldoc.fRootNode.fChild = xmldoc.fRootNode.fChild) :
    ∃ s1, SaveDoc xmldoc layout = some s1 ∧
      ∃ doc2, ParseString eng s1 = ParseResult.ok doc2 ∧ SaveDoc doc2 layout = some s1 := by
  refine ⟨_, SaveDoc_eq xmldoc layout, _, ParseString_plain eng _ _ hp hne, ?_⟩
  rw [SaveDoc_eq]
  show some (childrenText _ 0 (unpackedList xmldoc.fRootNode.fChild)) = _
  rw [hu]

theorem SaveDoc_ParseString_idempotent_witness :
    ∃ s1, SaveDoc ⟨SXmlNode_t.mk EXmlNodeType.kXML_NODE (bytes "??DummyTopNode??") [] none
        [AddChild (NewAttr (NewChild none (bytes "root") none) (bytes "a") (bytes "1"))
          (NewChild none (bytes "child") (some (bytes "text & more"))),
         NewChild none (bytes "next") none], none, none⟩ 1 = some s1 ∧
      ∃ doc2, ParseString ⟨false, true, 0, fun _ => none⟩ s1 = ParseResult.ok doc2 ∧
        SaveDoc doc2 1 = some s1 :=
  SaveDoc_ParseString_idempotent ⟨false, true, 0, fun _ => none⟩
    ⟨SXmlNode_t.mk EXmlNodeType.kXML_NODE (bytes "??DummyTopNode??") [] none
        [AddChild (NewAttr (NewChild none (bytes "root") none) (bytes "a") (bytes "1"))
          (NewChild none (bytes "child") (some (bytes "text & more"))),
         NewChild none (bytes "next") none], none, none⟩ 1 (by decide) (by decide) (by decide)

end

section

open TXMLEngine TXMLInputStream

/-! ## Closing tags, entities and comments -/

/-- C8 (failing input): `ReadNode` with the parent `P` at a closing tag `</name>` whose
`name` is an identifier and a proper start of the name of `P` returns with status 1
(parent closed), although `name` is not the name of `P`: the source compares
`strncmp(Name(parent), inp->fCurrent, len)` with the length of the name in the tag. -/
theorem ReadNode_closing_start_accepted (eng : TXMLEngine) (fuel : Nat)
    (up : List SXmlNode_t) (parent : SXmlNode_t) (inp : TXMLInputStream) (hb : inp.Buffered)
    (name tail : List Nat) (hr : inp.rest = bytes "</" ++ name ++ 62 :: tail)
    (hn : isName inp.charSigned name = true)
    (hpre : parent.fName.take name.length = name) (hlt : name.length < parent.fName.length) :
    name ≠ parent.fName ∧
    ReadNode eng (fuel + 1) up (some parent) inp =
      Outcome.done ⟨1, none, some (truncateIfNs parent),
        ((inp.advance (2 + name.length + 1)).SkipSpaces true).2⟩ := by
  refine ⟨fun h => ?_, ?_⟩
  · rw [h] at hlt; exact Nat.lt_irrefl _ hlt
  · have hr2 : inp.rest = [] ++ 60 :: 47 :: name ++ 62 :: tail := by
      rw [hr]; simp [bytes_closetag]
    rw [ReadNode, ReadNodeStart_closing_start eng up parent inp hb [] name tail hr2 (by simp) hn
      hpre]
    simp

theorem ReadNode_closing_start_accepted_witness :
    (bytes "ab" ≠ bytes "abc" ∧
      ReadNode ⟨false, true, 0, fun _ => none⟩ 1 [] (some (NewChild none (bytes "abc") none))
          (TXMLInputStream.ofString (bytes "</ab>") 10000 true 0) =
        Outcome.done ⟨1, none, some (truncateIfNs (NewChild none (bytes "abc") none)),
          (((TXMLInputStream.ofString (bytes "</ab>") 10000 true 0).advance
            (2 + (bytes "ab").length + 1)).SkipSpaces true).2⟩) ∧
    ParseString ⟨false, true, 0, fun _ => none⟩ (bytes "<abc></ab>") =
      ParseResult.ok ⟨SXmlNode_t.mk EXmlNodeType.kXML_NODE (bytes "??DummyTopNode??") [] none
        [NewChild none (bytes "abc") none], none, none⟩ :=
  ⟨ReadNode_closing_start_accepted ⟨false, true, 0, fun _ => none⟩ 0 []
    (NewChild none (bytes "abc") none) (TXMLInputStream.ofString (bytes "</ab>") 10000 true 0)
    (ofString_spec _ 10000 true 0 (by decide)).1 (bytes "ab") [] (by decide) (by decide)
    (by decide) (by decide), by decide!⟩

/-- C9 (failing input): `LocateIdentifier` takes the byte 0xC9 as the start of an
identifier, but on a platform with signed `char` the document that declares the entity
0xC9 with the text `hi` and uses it as the content of `a` is refused with the error -13;
with unsigned `char` it is parsed, and `a` gets the Content `hi`. -/
theorem ParseString_entity_high_byte :
    GoodStartSymbol 201 = true ∧
    ParseString ⟨false, true, 0, fun _ => none⟩
      (bytes "<!DOCTYPE a [<!ENTITY " ++ [201] ++ bytes " \"hi\">]><a>&" ++ [201] ++
        bytes ";</a>") = ParseResult.error (-13) 1 ∧
    ParseString ⟨false, false, 0, fun _ => none⟩
      (bytes "<!DOCTYPE a [<!ENTITY " ++ [201] ++ bytes " \"hi\">]><a>&" ++ [201] ++
        bytes ";</a>") =
      ParseResult.ok ⟨SXmlNode_t.mk EXmlNodeType.kXML_NODE (bytes "??DummyTopNode??") [] none
        [NewChild none (bytes "a") (some (bytes "hi"))], none, none⟩ := by
  decide!

/-- C10 (counterexample): with comment skipping off, on a platform with signed `char`, a
document that ends with the comment `<!--x-->` is refused with the error -1, although the
comment has its `-->`: behind a comment `ReadNode` requires a byte that is no white space. -/
theorem ParseString_comment_at_end :
    ParseString ⟨false, true, 0, fun _ => none⟩ (bytes "<!--x-->") = ParseResult.error (-1) 1 ∧
    ParseString ⟨false, true, 0, fun _ => none⟩ (bytes "<a/><!--x-->")
      = ParseResult.error (-1) 1 := by
  decide!

theorem ReadNode_comment_witness :
    ReadNode ⟨false, true, 0, fun _ => none⟩ 1 [] (some NewDocNull.fRootNode)
        (TXMLInputStream.ofString (bytes "<!--x--><a/>") 10000 true 0) =
      Outcome.done ⟨2, some (SXmlNode_t.mk EXmlNodeType.kXML_COMMENT (bytes "x") [] none []),
        attach (some NewDocNull.fRootNode)
          (SXmlNode_t.mk EXmlNodeType.kXML_COMMENT (bytes "x") [] none []),
        (TXMLInputStream.ofString (bytes "<!--x--><a/>") 10000 true 0).advance
          (4 + (bytes "x").length + 3 + ([] : List Nat).length)⟩ :=
  (ReadNode_comment ⟨false, true, 0, fun _ => none⟩ 0 [] (some NewDocNull.fRootNode)
    (TXMLInputStream.ofString (bytes "<!--x--><a/>") 10000 true 0)
    (ofString_spec _ 10000 true 0 (by decide)).1 rfl).1 (bytes "x") [] 60 (bytes "a/>")
    (by decide) (by decide)
    (fun j hj => by
      have hj2 : j < 1 := hj
      interval_cases j
      decide)
    (by simp) (by decide)

end

section

open TXMLEngine TXMLInputStream

/-! ## Internal entities -/

theorem UnpackLoop_no_amp (l : List Nat) (h : 38 ∉ l) : UnpackLoop 0 l = l := by
  induction l with
  | nil => simp [UnpackLoop]
  | cons c rest ih =>
    simp only [List.mem_cons, not_or] at h
    rw [UnpackLoop_cons_ne c rest (fun e => h.1 e.symm), ih h.2]

theorem take_append_semicolon {x N : List Nat} (h59 : 59 ∉ x)
    (h : (x ++ [59]).take (N.length + 1) = N ++ [59]) : x = N := by
  by_cases hl : x.length ≤ N.length
  · rw [List.take_of_length_le (by simp; omega)] at h
    exact List.append_cancel_right h
  · exfalso
    rw [List.take_append_of_le_length (by omega)] at h
    have hm : 59 ∈ x.take (N.length + 1) := by rw [h]; simp
    exact h59 (List.mem_of_mem_take hm)

/-- `UnpackSpecialCharacters` leaves the reference to an entity that is none of the five
as it is. -/
theorem Unpack_entity_ref (x : List Nat) (h59 : 59 ∉ x) (h38 : 38 ∉ x)
    (hfive : x ∉ [bytes "lt", bytes "gt", bytes "amp", bytes "quot", bytes "apos"]) :
    UnpackSpecialCharacters (38 :: x ++ [59]) = 38 :: x ++ [59] := by
  simp only [List.mem_cons, List.mem_singleton, not_or, List.not_mem_nil, not_false_eq_true,
    and_true] at hfive
  obtain ⟨h1, h2, h3, h4, h5⟩ := hfive
  have e1 : ¬ ((x ++ [59]).take 3 = [108, 116, 59]) := fun h =>
    h1 (take_append_semicolon (N := [108, 116]) h59 h)
  have e2 : ¬ ((x ++ [59]).take 3 = [103, 116, 59]) := fun h =>
    h2 (take_append_semicolon (N := [103, 116]) h59 h)
  have e3 : ¬ ((x ++ [59]).take 4 = [97, 109, 112, 59]) := fun h =>
    h3 (take_append_semicolon (N := [97, 109, 112]) h59 h)
  have e4 : ¬ ((x ++ [59]).take 5 = [113, 117, 111, 116, 59]) := fun h =>
    h4 (take_append_semicolon (N := [113, 117, 111, 116]) h59 h)
  have e5 : ¬ ((x ++ [59]).take 5 = [97, 112, 111, 115, 59]) := fun h =>
    h5 (take_append_semicolon (N := [97, 112, 111, 115]) h59 h)
  have hrest : UnpackLoop 0 (x ++ [59]) = x ++ [59] :=
    UnpackLoop_no_amp _ (by simp [h38])
  unfold UnpackSpecialCharacters
  rw [List.cons_append, UnpackLoop]
  simp only [if_true, e1, e2, e3, e4, e5, if_false, hrest]

theorem isName_not_mem {sg : Bool} {x : List Nat} (h : isName sg x = true) (c : Nat)
    (hc : GoodNextSymbol c = false) : c ∉ x := by
  cases x with
  | nil => simp
  | cons n0 ns =>
    obtain ⟨hg, -, hns⟩ := isName_cons h
    intro hm
    rcases List.mem_cons.1 hm with rfl | hm
    · rw [GoodStart_GoodNext hg] at hc; exact Bool.noConfusion hc
    · rw [hns c hm] at hc; exact Bool.noConfusion hc

/-- The entity scan over the text `&x;` when `x` is the name of an internal entity with the
text `h`: the content node is unlinked and the text `h` is appended in its place. -/
theorem ScanEntities_ref (eng : TXMLEngine) (inp : TXMLInputStream) (x h : List Nat)
    (parent : SXmlNode_t) (hne : x ≠ []) (h59 : 59 ∉ x)
    (hent : inp.fEntities = [⟨x, h, false⟩]) :
    ScanEntities eng inp (38 :: x ++ [59]) (38 :: x ++ [59]).length
        ⟨none, none, false, false, parent⟩ =
      ⟨none, some (x.length + 2), true, false, AddNodeContent (UnlinkLast parent) h⟩ := by
  have hlen : (38 :: x ++ [59]).length = x.length + 2 := by simp
  have hfind : inp.FindEntity x = some ⟨x, h, false⟩ := by
    have : ¬ x.length ≤ 0 := by
      have := List.length_pos.2 hne; omega
    simp [TXMLInputStream.FindEntity, this, hent]
  have hmid : ∀ m, m ≤ x.length →
      ScanEntities eng inp (38 :: x ++ [59]) (m + 1) ⟨some 0, none, false, false, parent⟩ =
        ⟨none, some (x.length + 2), true, false, AddNodeContent (UnlinkLast parent) h⟩ := by
    intro m
    induction m with
    | zero =>
      intro _
      have hsymb : (38 :: x ++ [59]).getD (x.length + 1) 0 = 59 := by
        simp [List.getD_eq_getElem?_getD, List.getElem?_cons_succ,
          List.getElem?_append_right (le_refl _)]
      have hdrop : ((38 :: x ++ [59]).drop (0 + 1)).take (x.length + 1 - 0 - 1) = x := by
        simp
      rw [ScanEntities]
      simp only [hlen, Nat.zero_add, show x.length + 2 - 1 = x.length + 1 from by omega, hsymb,
        Option.isNone_some, Bool.false_eq_true, false_and, if_false, ne_eq,
        not_true_eq_false, hdrop, hfind, Option.isNone_none, if_true, Option.getD_some]
      simp [ScanEntities]
    | succ m ih =>
      intro hm
      have hcurr : (38 :: x ++ [59]).length - (m + 1 + 1) = (x.length - (m + 1)) + 1 := by
        rw [hlen]; omega
      have hsymb : (38 :: x ++ [59]).getD (x.length - (m + 1) + 1) 0 ≠ 59 := by
        have hlt : x.length - (m + 1) < x.length := by omega
        rw [List.getD_eq_getElem?_getD, List.cons_append, List.getElem?_cons_succ,
          List.getElem?_append_left hlt, List.getElem?_eq_getElem hlt]
        intro he
        exact h59 (by rw [← he]; exact List.getElem_mem _)
      rw [ScanEntities]
      simp only [hcurr, Option.isNone_some, Bool.false_eq_true, false_and, if_false, hsymb,
        ne_eq, not_false_eq_true, if_true]
      exact ih (by omega)
  have hsymb0 : (38 :: x ++ [59]).getD 0 0 = 38 := by simp
  rw [hlen, ScanEntities]
  simp only [hlen, Nat.sub_self, hsymb0, Option.isNone_none, and_self, if_true, ne_eq,
    show ¬ ((38 : Nat) = 59) from by decide, not_false_eq_true]
  exact hmid x.length (le_refl _)

end

section

open TXMLEngine TXMLInputStream

@[simp] theorem AddEntity_rest (inp : TXMLInputStream) (e : TXMLEntity) :
    (inp.AddEntity e).rest = inp.rest := rfl
@[simp] theorem AddEntity_charSigned (inp : TXMLInputStream) (e : TXMLEntity) :
    (inp.AddEntity e).charSigned = inp.charSigned := rfl
@[simp] theorem AddEntity_fEntities (inp : TXMLInputStream) (e : TXMLEntity) :
    (inp.AddEntity e).fEntities = inp.fEntities ++ [e] := rfl

theorem Buffered_AddEntity {inp : TXMLInputStream} (h : inp.Buffered) (e : TXMLEntity) :
    (inp.AddEntity e).Buffered := h

theorem bytes_entity : bytes "<!ENTITY" = [60, 33, 69, 78, 84, 73, 84, 89] := by decide
theorem bytes_element : bytes "<!ELEMENT" = [60, 33, 69, 76, 69, 77, 69, 78, 84] := by decide
theorem bytes_system : bytes "SYSTEM" = [83, 89, 83, 84, 69, 77] := by decide
theorem bytes_doctype : bytes "DOCTYPE" = [68, 79, 67, 84, 89, 80, 69] := by decide

theorem isSpace_34 (inp : TXMLInputStream) : inp.isSpace 34 = false :=
  isSpace_of_le (by decide) (by decide) (by decide)
theorem isSpace_60 (inp : TXMLInputStream) : inp.isSpace 60 = false :=
  isSpace_of_le (by decide) (by decide) (by decide)
theorem isSpace_62 (inp : TXMLInputStream) : inp.isSpace 62 = false :=
  isSpace_of_le (by decide) (by decide) (by decide)
theorem isSpace_91 (inp : TXMLInputStream) : inp.isSpace 91 = false :=
  isSpace_of_le (by decide) (by decide) (by decide)
theorem isSpace_93 (inp : TXMLInputStream) : inp.isSpace 93 = false :=
  isSpace_of_le (by decide) (by decide) (by decide)

/-- One clause `<!ENTITY x "h">` behind its `<!ENTITY`: the entity `x` with the text `h`
is registered. -/
theorem ReadEntityClause_spec (inp : TXMLInputStream) (hb : inp.Buffered) (x h : List Nat)
    (c : Nat) (tail : List Nat)
    (hr : inp.rest = 32 :: x ++ 32 :: 34 :: h ++ 34 :: 62 :: c :: tail)
    (hx : isName inp.charSigned x = true) (hh : 34 ∉ h) (hc : inp.isSpace c = false) :
    ReadEntityClause inp =
      (true, (inp.advance (1 + x.length + 1 + (h.length + 2) + 1)).AddEntity ⟨x, h, false⟩) := by
  obtain ⟨x0, xs, rfl⟩ : ∃ x0 xs, x = x0 :: xs := by
    cases x with
    | nil => exact absurd rfl (isName_ne_nil hx)
    | cons a l => exact ⟨a, l, rfl⟩
  obtain ⟨hg, hs, hns⟩ := isName_cons hx
  have hsp : inp.isSpace x0 = false := by rw [isSpace_eq_spaceByte]; exact hs
  have hr0 : inp.rest = [32] ++ x0 :: (xs ++ 32 :: 34 :: h ++ 34 :: 62 :: c :: tail) := by
    simpa using hr
  have hb1 := hb.advance 1
  have hr1 : (inp.advance 1).rest = x0 :: xs ++ 32 :: (34 :: h ++ 34 :: 62 :: c :: tail) := by
    have := rest_advance_of_append hr0
    simpa using this
  have hb2 := hb1.advance (x0 :: xs).length
  have hr2 : ((inp.advance 1).advance (x0 :: xs).length).rest =
      [32] ++ 34 :: (h ++ 34 :: 62 :: c :: tail) := by
    have := rest_advance_of_append hr1
    simpa using this
  have hb3 := hb2.advance 1
  have hr3 : (((inp.advance 1).advance (x0 :: xs).length).advance 1).rest =
      34 :: h ++ 34 :: (62 :: c :: tail) := by
    have := rest_advance_of_append hr2
    simpa using this
  have hb4 := hb3.advance (h.length + 2)
  have hr4 : ((((inp.advance 1).advance (x0 :: xs).length).advance 1).advance
      (h.length + 2)).rest = 62 :: c :: tail :=
    rest_advance_eq (a := 34 :: h ++ [34]) (by rw [hr3]; simp) (by simp)
  have hb5 := hb4.advance 1
  have hr5 : (((((inp.advance 1).advance (x0 :: xs).length).advance 1).advance
      (h.length + 2)).advance 1).rest = c :: tail := by
    rw [advance_rest, hr4]; rfl
  unfold ReadEntityClause
  rw [hb.SkipSpaces_spec [32] x0 _ hr0 (by simp [isSpace_32]) hsp]
  simp only [List.length_singleton]
  rw [hb1.LocateIdentifier_spec x0 xs 32 _ hr1 hg hns (by decide)]
  simp only [show ¬ ((x0 :: xs).length ≤ 0) from by simp, if_false]
  have hsl1 : (inp.advance 1).slice (inp.advance 1).fCurrent (x0 :: xs).length = x0 :: xs := by
    rw [slice_fCurrent, hr1, List.take_left]
  rw [hsl1, hb1.ShiftCurrent _ (by rw [hr1]; simp)]
  simp only []
  rw [hb2.SkipSpaces_spec [32] 34 _ hr2 (by simp [isSpace_32]) (isSpace_34 _)]
  simp only [List.length_singleton]
  rw [hb3.CheckFor_spec _ (by simp [bytes_system])]
  have hns2 : ¬ ((((inp.advance 1).advance (x0 :: xs).length).advance 1).rest.take
      (bytes "SYSTEM").length = bytes "SYSTEM") := by
    rw [hr3, bytes_system]
    simp [List.take_succ_cons]
  simp only [hns2, if_false]
  have hval := hb3.LocateValue_spec 0 34 h (62 :: c :: tail) (by simpa using hr3)
    (Or.inl rfl) hh
  rw [Nat.add_zero] at hval
  rw [hval]
  simp only [show ¬ (h.length + 2 < 2) from by omega, if_false]
  have hsl2 : (((inp.advance 1).advance (x0 :: xs).length).advance 1).slice
      ((((inp.advance 1).advance (x0 :: xs).length).advance 1).fCurrent + 1)
      (h.length + 2 - 2) = h := by
    rw [slice_add, hr3]
    simp
  rw [hsl2, hb3.ShiftCurrent _ (by rw [hr3]; simp)]
  simp only []
  rw [hb4.SkipSpaces_stop false 62 _ hr4 (isSpace_62 _)]
  have hd4 : ((((inp.advance 1).advance (x0 :: xs).length).advance 1).advance
      (h.length + 2)).deref ((((inp.advance 1).advance (x0 :: xs).length).advance 1).advance
      (h.length + 2)).fCurrent = 62 := by rw [deref_fCurrent, hr4]; rfl
  simp only [hd4, ne_eq, not_true_eq_false, if_false]
  rw [hb4.ShiftCurrent 1 (by rw [hr4]; simp)]
  simp only []
  rw [hb5.SkipSpaces_stop false c _ hr5 (by simpa using hc)]
  simp only [advance_advance]

end

section

open TXMLEngine TXMLInputStream

theorem advance_AddEntity (inp : TXMLInputStream) (e : TXMLEntity) (n : Nat) :
    (inp.AddEntity e).advance n = (inp.advance n).AddEntity e := rfl

theorem bytes_dtd_head : bytes "<!DOCTYPE a [<!ENTITY" =
    [60, 33, 68, 79, 67, 84, 89, 80, 69, 32, 97, 32, 91, 60, 33, 69, 78, 84, 73, 84, 89] := by
  decide

/-- `ReadNode` on `<!DOCTYPE a [<!ENTITY x "h">]>`: status 2, no node, and the entity `x`
with the text `h` is registered in the stream, which stands behind the `>`. -/
theorem ReadNode_doctype (eng : TXMLEngine) (fuel : Nat) (up : List SXmlNode_t)
    (xmlparent : Option SXmlNode_t) (inp : TXMLInputStream) (hb : inp.Buffered)
    (x h tail : List Nat)
    (hr : inp.rest = bytes "<!DOCTYPE a [<!ENTITY" ++
      (32 :: x ++ 32 :: 34 :: h ++ 34 :: 62 :: 93 :: 62 :: tail))
    (hx : isName inp.charSigned x = true) (hh : 34 ∉ h) :
    ∃ last, ReadNode eng (fuel + 1) up xmlparent inp = Outcome.done ⟨2, none, xmlparent, last⟩ ∧
      last.Buffered ∧ last.rest = tail ∧ last.fEntities = inp.fEntities ++ [⟨x, h, false⟩] ∧
      last.charSigned = inp.charSigned := by
  rw [bytes_dtd_head] at hr
  generalize hR : (32 :: x ++ 32 :: 34 :: h ++ 34 :: 62 :: 93 :: 62 :: tail) = R at hr
  have hra : ∀ k, (inp.advance k).rest =
      ([60, 33, 68, 79, 67, 84, 89, 80, 69, 32, 97, 32, 91, 60, 33, 69, 78, 84, 73, 84, 89]
        ++ R).drop k := fun k => by rw [advance_rest, hr]
  have hba := fun k => hb.advance k
  -- the dispatch of `ReadNode`
  rw [ReadNode]
  unfold ReadNodeStart
  rw [hb.SkipSpaces_stop false 60 _ (by rw [hr]; rfl) (isSpace_60 _)]
  simp only []
  rw [hb.CheckFor_spec _ (by simp [bytes_copen])]
  have hnc : ¬ (inp.rest.take (bytes "<!--").length = bytes "<!--") := by
    rw [hr, bytes_copen]; simp
  have hd0 : inp.deref inp.fCurrent = 60 := by rw [deref_fCurrent, hr]; rfl
  simp only [hnc, if_false, hd0, ne_eq, not_true_eq_false]
  rw [hb.ShiftCurrent 1 (by rw [hr]; simp)]
  have hd1 : (inp.advance 1).deref (inp.advance 1).fCurrent = 33 := by
    rw [deref_fCurrent, hra]; rfl
  simp only [hd1, show ¬ ((33 : Nat) = 47) from by decide, if_false, if_true]
  -- the DTD branch
  unfold ReadDtd
  rw [(hba 1).ShiftCurrent 1 (by rw [hra]; simp)]
  simp only [advance_advance, Nat.reduceAdd]
  rw [(hba 2).CheckFor_spec _ (by simp [bytes_doctype])]
  have hdoc : (inp.advance 2).rest.take (bytes "DOCTYPE").length = bytes "DOCTYPE" := by
    rw [hra, bytes_doctype]; rfl
  simp only [hdoc, if_true]
  simp only [bytes_doctype, List.length_cons, List.length_nil, advance_advance,
    Nat.reduceAdd]
  rw [(hba 9).SkipSpaces_spec [32] 97 ([32, 91, 60, 33, 69, 78, 84, 73, 84, 89] ++ R)
    (by rw [hra]; rfl) (by simp [isSpace_32])
    (isSpace_of_le (by decide) (by decide) (by decide))]
  simp only [List.length_singleton, advance_advance, Nat.reduceAdd]
  rw [(hba 10).LocateIdentifier_spec 97 [] 32 ([91, 60, 33, 69, 78, 84, 73, 84, 89] ++ R)
    (by rw [hra]; rfl) (by decide) (by simp) (by decide)]
  simp only [List.length_singleton, show ¬ (1 ≤ 0) from by decide, if_false]
  rw [(hba 10).ShiftCurrent 1 (by rw [hra]; simp)]
  simp only [advance_advance, Nat.reduceAdd]
  rw [(hba 11).SkipSpaces_spec [32] 91 ([60, 33, 69, 78, 84, 73, 84, 89] ++ R)
    (by rw [hra]; rfl) (by simp [isSpace_32]) (isSpace_91 _)]
  simp only [List.length_singleton, advance_advance, Nat.reduceAdd]
  rw [(hba 12).CheckFor_spec _ (by decide)]
  have hbr : (inp.advance 12).rest.take (bytes "[").length = bytes "[" := by
    rw [hra]; rfl
  simp only [hbr, if_true, advance_advance]
  have h13 : (bytes "[").length = 1 := by decide
  rw [h13]
  simp only [Nat.reduceAdd]
  rw [(hba 13).SkipSpaces_stop false 60 ([33, 69, 78, 84, 73, 84, 89] ++ R)
    (by rw [hra]; rfl) (isSpace_60 _)]
  simp only []
  -- the clauses
  have hav : (inp.advance 13).avail = (inp.advance 13).avail - 1 + 1 := by
    rw [(hba 13).avail, hra]; simp
  rw [hav, ReadDtdClauses]
  rw [(hba 13).CheckFor_spec _ (by simp [bytes_entity])]
  have hen : (inp.advance 13).rest.take (bytes "<!ENTITY").length = bytes "<!ENTITY" := by
    rw [hra, bytes_entity]; rfl
  simp only [hen, if_true]
  simp only [bytes_entity, List.length_cons, List.length_nil, advance_advance,
    Nat.reduceAdd]
  have hr21 : (inp.advance 21).rest = 32 :: x ++ 32 :: 34 :: h ++ 34 :: 62 :: 93 :: (62 :: tail) := by
    rw [hra, ← hR]; rfl
  rw [ReadEntityClause_spec (inp.advance 21) (hba 21) x h 93 (62 :: tail) hr21
    (by simpa using hx) hh (isSpace_93 _)]
  simp only [advance_advance]
  generalize hm : 21 + (1 + x.length + 1 + (h.length + 2) + 1) = m
  have hbm : ((inp.advance m).AddEntity ⟨x, h, false⟩).Buffered := Buffered_AddEntity (hba m) _
  have hrm : ((inp.advance m).AddEntity ⟨x, h, false⟩).rest = 93 :: 62 :: tail := by
    rw [AddEntity_rest, ← hm, ← advance_advance]
    exact rest_advance_eq (a := 32 :: x ++ 32 :: 34 :: h ++ [34, 62]) (by rw [hr21]; simp)
      (by simp; omega)
  have hav2 : (inp.advance 13).avail - 1 = ((inp.advance 13).avail - 2) + 1 := by
    rw [(hba 13).avail, hra, ← hR]; simp
  rw [hav2, ReadDtdClauses]
  rw [hbm.CheckFor_spec _ (by simp [bytes_entity])]
  have hn1 : ¬ (((inp.advance m).AddEntity ⟨x, h, false⟩).rest.take (bytes "<!ENTITY").length
      = bytes "<!ENTITY") := by
    rw [hrm, bytes_entity]; simp [List.take_succ_cons]
  simp only [hn1, if_false]
  rw [hbm.CheckFor_spec _ (by simp [bytes_element])]
  have hn2 : ¬ (((inp.advance m).AddEntity ⟨x, h, false⟩).rest.take (bytes "<!ELEMENT").length
      = bytes "<!ELEMENT") := by
    rw [hrm, bytes_element]; simp [List.take_succ_cons]
  simp only [hn2, if_false]
  rw [hbm.CheckFor_spec _ (by decide)]
  have hcl : ((inp.advance m).AddEntity ⟨x, h, false⟩).rest.take (bytes "]").length
      = bytes "]" := by
    rw [hrm]; rfl
  simp only [hcl, if_true]
  have h1 : (bytes "]").length = 1 := by decide
  rw [h1]
  have hb1 := hbm.advance 1
  have hr1 : (((inp.advance m).AddEntity ⟨x, h, false⟩).advance 1).rest = 62 :: tail := by
    rw [advance_rest, hrm]; rfl
  unfold ReadDtdEnd
  rw [hb1.SkipSpaces_stop false 62 _ hr1 (isSpace_62 _)]
  simp only []
  rw [hb1.CheckFor_spec _ (by decide)]
  have hgt : (((inp.advance m).AddEntity ⟨x, h, false⟩).advance 1).rest.take (bytes ">").length
      = bytes ">" := by
    rw [hr1]; rfl
  simp only [hgt, if_true]
  have h2 : (bytes ">").length = 1 := by decide
  rw [h2]
  refine ⟨_, rfl, hb1.advance 1, ?_, ?_, ?_⟩
  · rw [advance_rest, hr1]; rfl
  · simp
  · simp

end

section

open TXMLEngine TXMLInputStream

/-- `ReadNode` on the content `&x;` in front of a `<`, when `x` is the one registered
entity, internal with the text `h`: the parent gets a Content node with the text `h`. -/
theorem ReadNodeStart_entity (eng : TXMLEngine) (up : List SXmlNode_t)
    (parent : SXmlNode_t) (inp : TXMLInputStream) (hb : inp.Buffered)
    (x h tail : List Nat) (hr : inp.rest = (38 :: x ++ [59]) ++ 60 :: tail)
    (hx : isName inp.charSigned x = true)
    (hfive : x ∉ [bytes "lt", bytes "gt", bytes "amp", bytes "quot", bytes "apos"])
    (hent : inp.fEntities = [⟨x, h, false⟩]) :
    ReadNodeStart eng up (some parent) inp =
      NodeStart.ret (Outcome.done ⟨2, none,
        some (AddChild parent (SXmlNode_t.mk EXmlNodeType.kXML_CONTENT h [] none [])),
        inp.advance (x.length + 2)⟩) := by
  have h59 : 59 ∉ x := isName_not_mem hx 59 (by decide)
  have h38 : 38 ∉ x := isName_not_mem hx 38 (by decide)
  have h60 : 60 ∉ x := isName_not_mem hx 60 (by decide)
  have hno : 60 ∉ 38 :: x ++ [59] := by simp [h60]
  have hr0 : inp.rest = 38 :: (x ++ [59] ++ 60 :: tail) := by simpa using hr
  have hd0 : inp.deref inp.fCurrent = 38 := by rw [deref_fCurrent, hr0]; rfl
  have hlen : (38 :: x ++ [59]).length = x.length + 2 := by simp
  unfold ReadNodeStart
  rw [hb.SkipSpaces_stop false 38 _ hr0 (isSpace_of_le (by decide) (by decide) (by decide))]
  simp only []
  rw [hb.CheckFor_spec _ (by simp [bytes_copen])]
  have hnc : ¬ (inp.rest.take (bytes "<!--").length = bytes "<!--") := by
    rw [hr0, bytes_copen]; simp
  simp only [hnc, if_false, hd0, ne_eq, show ¬ ((38 : Nat) = 60) from by decide,
    not_false_eq_true, if_true]
  unfold ReadContent
  simp only []
  rw [hb.LocateContent_spec (38 :: x ++ [59]) tail hr hno]
  simp only [show ¬ (((38 :: x ++ [59]).length : Int) < 0) from by omega, if_false,
    Int.toNat_ofNat]
  have hsl : inp.slice inp.fCurrent (38 :: x ++ [59]).length = 38 :: x ++ [59] := by
    rw [slice_fCurrent, hr, List.take_left]
  rw [hsl, hb.ShiftCurrent _ (by rw [hr]; simp), Unpack_entity_ref x h59 h38 hfive]
  have hnum : ¬ ((inp.advance (38 :: x ++ [59]).length).NumEntities ≤ 0) := by
    simp [TXMLInputStream.NumEntities, hent]
  simp only [hnum, if_false]
  rw [ScanEntities_ref eng _ x h _ (isName_ne_nil hx) h59 (by simpa using hent)]
  simp [hlen, AddNodeContent, UnlinkLast, AddChild, SXmlNode_t.fType, SXmlNode_t.fName,
    SXmlNode_t.fAttr, SXmlNode_t.fNs, SXmlNode_t.fChild]

/-- The loop over the children on `&x;` and the closing tag. -/
theorem ReadNodeChildren_entity (eng : TXMLEngine) (up : List SXmlNode_t) (node : SXmlNode_t)
    (inp : TXMLInputStream) (fuel : Nat) (x h tail : List Nat)
    (hb : inp.Buffered) (hns : node.fNs = none)
    (hname : isName inp.charSigned node.fName = true)
    (hr : inp.rest = (38 :: x ++ [59]) ++ (60 :: 47 :: node.fName ++ 62 :: tail))
    (hx : isName inp.charSigned x = true)
    (hfive : x ∉ [bytes "lt", bytes "gt", bytes "amp", bytes "quot", bytes "apos"])
    (hent : inp.fEntities = [⟨x, h, false⟩])
    (htail : ∀ c ∈ tail.head?, spaceByte inp.charSigned c = false)
    (hf : 4 ≤ fuel) :
    ReadNodeChildren eng fuel up node inp =
      Outcome.done ⟨1, none,
        some (AddChild node (SXmlNode_t.mk EXmlNodeType.kXML_CONTENT h [] none [])),
        inp.advance (x.length + 2 + (2 + node.fName.length + 1))⟩ := by
  obtain ⟨f, rfl⟩ : ∃ f, fuel = f + 4 := ⟨fuel - 4, by omega⟩
  have hr0 : inp.rest = (38 :: x ++ [59]) ++ 60 :: (47 :: node.fName ++ 62 :: tail) := by
    rw [hr]; simp
  rw [ReadNodeChildren, ReadNode, ReadNodeStart_entity eng up node inp hb x h _ hr0 hx hfive hent]
  simp only [if_true, Option.getD_some]
  have hb1 := hb.advance (x.length + 2)
  have hr1 : (inp.advance (x.length + 2)).rest =
      [] ++ 60 :: 47 :: (AddChild node (SXmlNode_t.mk EXmlNodeType.kXML_CONTENT
        h [] none [])).fName ++ 62 :: tail :=
    rest_advance_eq (a := 38 :: x ++ [59]) (by rw [hr]; simp) (by simp)
  rw [ReadNodeChildren, ReadNode,
    ReadNodeStart_closing eng up _ _ hb1 [] tail hr1 (by simp) (by simpa using hname)]
  simp only [show ¬ ((1 : Int) = 2) from by decide, if_false, AddChild_fName, List.length_nil,
    advance_advance]
  have hb2 := hb.advance (x.length + 2 + (0 + 2 + node.fName.length + 1))
  have hr2 : (inp.advance (x.length + 2 + (0 + 2 + node.fName.length + 1))).rest
      = newline false ++ tail :=
    rest_advance_eq (a := (38 :: x ++ [59]) ++ (60 :: 47 :: node.fName ++ [62]))
      (by rw [hr]; simp [newline]) (by simp; omega)
  rw [Buffered_SkipSpaces_layout hb2 false tail hr2 (fun _ => by simpa using htail),
    truncateIfNs_none (by simpa using hns)]
  simp [newline]

end

section

open TXMLEngine TXMLInputStream

theorem isName_a (sg : Bool) : isName sg [97] = true := by cases sg <;> decide

/-- Internal entity substitution: for every name `x` that the parser reads as an identifier
(on a platform with signed `char` its first byte is below 0x80) other than the five
predefined names, and every text `h` without a double quote, `ParseString` of
`<!DOCTYPE a [<!ENTITY x "h">]><a>&x;</a>` yields the document whose element `a` has the
Content node `h` as its only child. -/
theorem ParseString_entity (eng : TXMLEngine) (x h : List Nat)
    (hx : isName eng.charSigned x = true)
    (hfive : x ∉ [bytes "lt", bytes "gt", bytes "amp", bytes "quot", bytes "apos"])
    (hh : 34 ∉ h) :
    ParseString eng (bytes "<!DOCTYPE a [<!ENTITY " ++ x ++ bytes " \"" ++ h ++
        bytes "\">]><a>&" ++ x ++ bytes ";</a>") =
      ParseResult.ok ⟨SXmlNode_t.mk EXmlNodeType.kXML_NODE (bytes "??DummyTopNode??") [] none
        [SXmlNode_t.mk EXmlNodeType.kXML_NODE (bytes "a") [] none
          [SXmlNode_t.mk EXmlNodeType.kXML_CONTENT h [] none []]], none, none⟩ := by
  have e1 : bytes "<!DOCTYPE a [<!ENTITY " = bytes "<!DOCTYPE a [<!ENTITY" ++ [32] := by decide
  have e2 : bytes " \"" = [32, 34] := by decide
  have e3 : bytes "\">]><a>&" = [34, 62, 93, 62, 60, 97, 62, 38] := by decide
  have e4 : bytes ";</a>" = [59, 60, 47, 97, 62] := by decide
  have e5 : bytes "a" = [97] := by decide
  have htext : bytes "<!DOCTYPE a [<!ENTITY " ++ x ++ bytes " \"" ++ h ++
      bytes "\">]><a>&" ++ x ++ bytes ";</a>" =
      bytes "<!DOCTYPE a [<!ENTITY" ++ (32 :: x ++ 32 :: 34 :: h ++ 34 :: 62 :: 93 :: 62 ::
        ([] ++ 60 :: [97] ++ (attrsText [] ++ 62 ::
          ((38 :: x ++ [59]) ++ (60 :: 47 :: [97] ++ 62 :: []))))) := by
    rw [e1, e2, e3, e4]; simp [attrsText]
  rw [htext]
  generalize hT : bytes "<!DOCTYPE a [<!ENTITY" ++ (32 :: x ++ 32 :: 34 :: h ++ 34 :: 62 ::
      93 :: 62 :: ([] ++ 60 :: [97] ++ (attrsText [] ++ 62 ::
        ((38 :: x ++ [59]) ++ (60 :: 47 :: [97] ++ 62 :: []))))) = T
  have hlen : 30 ≤ T.length := by
    rw [← hT, bytes_dtd_head]; simp; omega
  obtain ⟨hb, hr, hent, hsg⟩ := ofString_spec T (2 * T.length) eng.charSigned eng.pastByte
    (by omega)
  unfold ParseString ParseStream
  rw [if_neg (by omega)]
  generalize TXMLInputStream.ofString T (2 * T.length) eng.charSigned eng.pastByte = inp
    at hb hr hent hsg
  have hav : 2 * inp.avail + 4 = (2 * inp.avail + 2) + 1 + 1 := by omega
  have ha : 30 ≤ inp.avail := by rw [hb.avail, hr]; exact hlen
  -- the document type declaration
  obtain ⟨last, hrd, hbl, hrl, hel, hsl⟩ := ReadNode_doctype eng (2 * inp.avail + 2) []
    (some NewDocNull.fRootNode) inp hb x h _ (by rw [hr, ← hT]) (by rw [hsg]; exact hx) hh
  rw [hav, ParseStreamLoop, hrd]
  have hend : last.EndOfStream = false := by rw [hbl.EndOfStream, hrl]; simp
  have hskip := hbl.SkipSpaces_stop false 60 _ (by rw [hrl]; simp; rfl) (isSpace_60 _)
  simp only [ne_eq, not_true_eq_false, if_false, Option.getD_some, hend, Bool.not_false,
    if_true, hskip, Bool.false_eq_true]
  -- the element
  have hb1 := hbl.advance (([] : List Nat).length + 1 + [97].length + (attrsText []).length + 1)
  have hk := ReadNodeChildren_entity eng (chainOf (some NewDocNull.fRootNode) [])
    (SXmlNode_t.mk EXmlNodeType.kXML_NODE [97] [] none [])
    (last.advance (([] : List Nat).length + 1 + [97].length + (attrsText []).length + 1))
    (2 * inp.avail) x h [] hb1 rfl (isName_a _)
    (rest_advance_eq (a := [] ++ 60 :: [97] ++ (attrsText [] ++ [62]))
      (by rw [hrl]; simp [SXmlNode_t.fName]) (by simp [attrsText]))
    (by rw [advance_charSigned, hsl, hsg]; exact hx) hfive
    (by rw [advance_fEntities, hel, hent]; rfl) (by simp) (by omega)
  have hnode := ReadNode_element eng [] (some NewDocNull.fRootNode) last [] [97] [] _
    (2 * inp.avail) _ _ hbl (by simp) (isName_a _) (by simp)
    (by simp [chainOf, NewDocNull, SXmlNode_t.fNs]) hrl hk
  have hfuel : 2 * inp.avail + 2 = ([] : List SXmlAttr_t).length + (2 * inp.avail + 1) + 1 := by
    simp
  rw [ParseStreamLoop, hfuel, hnode]
  have hrest2 : ((last.advance (([] : List Nat).length + 1 + [97].length +
      (attrsText []).length + 1)).advance (x.length + 2 + (2 +
        (SXmlNode_t.mk EXmlNodeType.kXML_NODE [97] [] none []).fName.length + 1))).rest = [] := by
    rw [advance_advance]
    exact rest_advance_eq (a := [] ++ 60 :: [97] ++ (attrsText [] ++ 62 ::
      ((38 :: x ++ [59]) ++ (60 :: 47 :: [97] ++ [62])))) (by rw [hrl]; simp)
      (by simp [attrsText, SXmlNode_t.fName]; omega)
  have hend2 : ((last.advance (([] : List Nat).length + 1 + [97].length +
      (attrsText []).length + 1)).advance (x.length + 2 + (2 +
        (SXmlNode_t.mk EXmlNodeType.kXML_NODE [97] [] none []).fName.length + 1))).EndOfStream
      = true := by
    rw [TXMLInputStream.Buffered.EndOfStream (hb1.advance _), hrest2]
    simp
  simp only [ne_eq, not_true_eq_false, if_false, attach, Option.map_some', Option.getD_some,
    hend2, Bool.not_true, Bool.false_eq_true, if_true]
  rw [e5]
  rfl

end

section

open TXMLEngine TXMLInputStream

/-! ## Boundary inputs -/

theorem ofString_fCurrentLine (str : List Nat) (n : Nat) (sg : Bool) (pb : Nat) :
    (TXMLInputStream.ofString str n sg pb).fCurrentLine = 1 := rfl

theorem advance_fCurrentLine (inp : TXMLInputStream) (n : Nat) :
    (inp.advance n).fCurrentLine = inp.fCurrentLine + (inp.rest.take n).count 10 := rfl

theorem isSpace_of_white (inp : TXMLInputStream) {b : Nat}
    (h : b = 32 ∨ (9 ≤ b ∧ b ≤ 13)) : inp.isSpace b = true := by
  rw [isSpace_eq_spaceByte]
  rcases h with rfl | ⟨h1, h2⟩
  · cases inp.charSigned <;> decide
  · interval_cases b <;> cases inp.charSigned <;> decide

/-- C15 (boundary): `ParseString` of the empty string returns null at once, before a stream
or a document is made; for every non-empty input of white space only (blank, tab, newline,
vertical tab, form feed, carriage return) it returns null as well, after `ReadNode` ended
with the status -1 (the error is reported for the line behind the last newline). -/
theorem ParseString_blank (eng : TXMLEngine) :
    ParseString eng [] = ParseResult.null ∧
    ∀ s : List Nat, s ≠ [] → (∀ b ∈ s, b = 32 ∨ (9 ≤ b ∧ b ≤ 13)) →
      ParseString eng s = ParseResult.error (-1) (1 + s.count 10) := by
  refine ⟨rfl, fun s hne hs => ?_⟩
  have hpos : s.length ≠ 0 := fun h => hne (List.length_eq_zero.1 h)
  obtain ⟨hb, hr, -, -⟩ := ofString_spec s (2 * s.length) eng.charSigned eng.pastByte (by omega)
  have hline := ofString_fCurrentLine s (2 * s.length) eng.charSigned eng.pastByte
  unfold ParseString ParseStream
  rw [if_neg hpos]
  generalize TXMLInputStream.ofString s (2 * s.length) eng.charSigned eng.pastByte = inp
    at hb hr hline
  have hfuel : 2 * inp.avail + 4 = (2 * inp.avail + 2) + 1 + 1 := by omega
  have hskip := Buffered_SkipSpaces_only hb (fun b hm => isSpace_of_white inp (hs b (hr ▸ hm)))
  rw [hfuel, ParseStreamLoop, ReadNode]
  unfold ReadNodeStart
  rw [hskip]
  simp only [ne_eq, show ¬ ((-1 : Int) = 2) from by decide, not_false_eq_true, if_true,
    advance_fCurrentLine, hline, List.take_length, hr]

theorem ParseString_blank_witness :
    ParseString ⟨false, true, 0, fun _ => none⟩ (bytes " \n\t ") =
      ParseResult.error (-1) (1 + (bytes " \n\t ").count 10) :=
  (ParseString_blank ⟨false, true, 0, fun _ => none⟩).2 (bytes " \n\t ") (by decide) (by decide)

end

section

open TXMLEngine TXMLInputStream

/-! ## The `<!ELEMENT` clause of the document type declaration -/

theorem Buffered_SearchForLoop_snd {inp : TXMLInputStream} (h : inp.Buffered) (str : List Nat) :
    ∀ (fuel curr : Nat), (SearchForLoop str fuel curr inp).2 = inp := by
  intro fuel
  induction fuel with
  | zero => intro curr; rfl
  | succ f ih =>
    intro curr
    unfold TXMLInputStream.SearchForLoop
    simp only [h.ExpandTo]
    by_cases hfit : curr + 1 + str.length ≤ inp.fBuf.length
    · simp only [hfit, decide_True]
      split_ifs
      · rfl
      · exact ih _
      · rfl
    · simp only [hfit, decide_False]

theorem Buffered_SearchFor_snd {inp : TXMLInputStream} (h : inp.Buffered) (str : List Nat) :
    (inp.SearchFor str).2 = inp :=
  Buffered_SearchForLoop_snd h str _ _

theorem isSpace_40 (inp : TXMLInputStream) : inp.isSpace 40 = false :=
  isSpace_of_le (by decide) (by decide) (by decide)

/-- One clause `<!ELEMENT name (` behind its `<!ELEMENT`: when the byte behind the `(` is
neither white space nor `>`, the clause is refused.  `SearchFor(")")` leaves the read
position where it is, so that the test for `>` looks at the start of the parenthesis. -/
theorem ReadElementClause_refused (inp : TXMLInputStream) (hb : inp.Buffered)
    (name : List Nat) (c : Nat) (tail : List Nat)
    (hr : inp.rest = 32 :: name ++ 32 :: 40 :: c :: tail)
    (hx : isName inp.charSigned name = true)
    (hc : inp.isSpace c = false) (hc2 : c ≠ 62) :
    ReadElementClause inp = (false, inp.advance (1 + name.length + 1 + 1)) := by
  obtain ⟨x0, xs, rfl⟩ : ∃ x0 xs, name = x0 :: xs := by
    cases name with
    | nil => exact absurd rfl (isName_ne_nil hx)
    | cons a l => exact ⟨a, l, rfl⟩
  obtain ⟨hg, hs, hns⟩ := isName_cons hx
  have hsp : inp.isSpace x0 = false := by rw [isSpace_eq_spaceByte]; exact hs
  have hr0 : inp.rest = [32] ++ x0 :: (xs ++ 32 :: 40 :: c :: tail) := by
    simpa using hr
  have hb1 := hb.advance 1
  have hr1 : (inp.advance 1).rest = x0 :: xs ++ 32 :: (40 :: c :: tail) := by
    have := rest_advance_of_append hr0
    simpa using this
  have hb2 := hb1.advance (x0 :: xs).length
  have hr2 : ((inp.advance 1).advance (x0 :: xs).length).rest =
      [32] ++ 40 :: (c :: tail) := by
    have := rest_advance_of_append hr1
    simpa using this
  have hb3 := hb2.advance 1
  have hr3 : (((inp.advance 1).advance (x0 :: xs).length).advance 1).rest =
      40 :: (c :: tail) := by
    have := rest_advance_of_append hr2
    simpa using this
  have hb4 := hb3.advance 1
  have hr4 : ((((inp.advance 1).advance (x0 :: xs).length).advance 1).advance 1).rest =
      c :: tail := by
    rw [advance_rest, hr3]; rfl
  unfold ReadElementClause
  rw [hb.SkipSpaces_spec [32] x0 _ hr0 (by simp [isSpace_32]) hsp]
  simp only [List.length_singleton]
  rw [hb1.LocateIdentifier_spec x0 xs 32 _ hr1 hg hns (by decide)]
  simp only [show ¬ ((x0 :: xs).length ≤ 0) from by simp, if_false]
  rw [hb1.ShiftCurrent _ (by rw [hr1]; simp)]
  simp only []
  rw [hb2.SkipSpaces_spec [32] 40 _ hr2 (by simp [isSpace_32]) (isSpace_40 _)]
  simp only [List.length_singleton]
  rw [hb3.CheckFor_spec _ (by decide)]
  have hpar : (((inp.advance 1).advance (x0 :: xs).length).advance 1).rest.take
      (bytes "(").length = bytes "(" := by rw [hr3]; rfl
  simp only [hpar, if_true]
  have h1 : (bytes "(").length = 1 := by decide
  rw [h1]
  have hsnd := Buffered_SearchFor_snd hb4 (bytes ")")
  generalize hsf : ((((inp.advance 1).advance (x0 :: xs).length).advance 1).advance
    1).SearchFor (bytes ")") = r at hsnd
  obtain ⟨found, s⟩ := r
  simp only at hsnd
  subst hsnd
  simp only []
  by_cases hf : found ≤ 0
  · simp only [hf, if_true, advance_advance]
  · simp only [hf, if_false]
    rw [hb4.SkipSpaces_stop false c tail hr4 (by simpa using hc)]
    have hd4 : ((((inp.advance 1).advance (x0 :: xs).length).advance 1).advance 1).deref
        ((((inp.advance 1).advance (x0 :: xs).length).advance 1).advance 1).fCurrent = c := by
      rw [deref_fCurrent, hr4]; rfl
    simp only [hd4, ne_eq, hc2, not_false_eq_true, if_true]
    simp only [advance_advance]

theorem count_newline_of_isName {sg : Bool} {x : List Nat} (h : isName sg x = true) :
    x.count 10 = 0 :=
  List.count_eq_zero.2 (isName_not_mem h 10 (by decide))

/-- `ReadNode` on a document type declaration whose internal subset starts with a clause
`<!ELEMENT name (`: when the byte behind the `(` is neither white space nor `>`, the status
is -13, and no newline has been passed. -/
theorem ReadNode_element_clause (eng : TXMLEngine) (fuel : Nat) (up : List SXmlNode_t)
    (xmlparent : Option SXmlNode_t) (inp : TXMLInputStream) (hb : inp.Buffered)
    (root name : List Nat) (c : Nat) (tail : List Nat)
    (hr : inp.rest = bytes "<!DOCTYPE " ++ root ++ bytes " [<!ELEMENT " ++ name ++ bytes " (" ++
      c :: tail)
    (hroot : isName inp.charSigned root = true) (hname : isName inp.charSigned name = true)
    (hc : inp.isSpace c = false) (hc2 : c ≠ 62) :
    ∃ last, ReadNode eng (fuel + 1) up xmlparent inp =
        Outcome.done ⟨-13, none, xmlparent, last⟩ ∧ last.fCurrentLine = inp.fCurrentLine := by
  obtain ⟨r0, rs, rfl⟩ : ∃ r0 rs, root = r0 :: rs := by
    cases root with
    | nil => exact absurd rfl (isName_ne_nil hroot)
    | cons a l => exact ⟨a, l, rfl⟩
  obtain ⟨hg, hs, hns⟩ := isName_cons hroot
  have hsp : inp.isSpace r0 = false := by rw [isSpace_eq_spaceByte]; exact hs
  have e1 : bytes "<!DOCTYPE " = [60, 33, 68, 79, 67, 84, 89, 80, 69, 32] := by decide
  have e2 : bytes " [<!ELEMENT " = [32, 91, 60, 33, 69, 76, 69, 77, 69, 78, 84, 32] := by decide
  have e3 : bytes " (" = [32, 40] := by decide
  have hr0 : inp.rest = 60 :: 33 :: 68 :: 79 :: 67 :: 84 :: 89 :: 80 :: 69 :: 32 ::
      (r0 :: rs ++ 32 :: 91 :: 60 :: 33 :: 69 :: 76 :: 69 :: 77 :: 69 :: 78 :: 84 ::
        (32 :: name ++ 32 :: 40 :: c :: tail)) := by
    rw [hr, e1, e2, e3]; simp
  generalize hR : (32 :: name ++ 32 :: 40 :: c :: tail) = R at hr0
  have hba := fun k => hb.advance k
  have hra : ∀ k, (inp.advance k).rest = inp.rest.drop k := fun k => advance_rest inp k
  have hcount : ∀ k, k ≤ 10 + (r0 :: rs).length + 11 + (1 + name.length + 1 + 1) →
      (inp.rest.take k).count 10 = 0 := by
    intro k hk
    have hsub : (inp.rest.take k).Sublist (bytes "<!DOCTYPE " ++ (r0 :: rs) ++
        bytes " [<!ELEMENT " ++ name ++ bytes " (") := by
      rw [hr]
      have hk2 : k ≤ (bytes "<!DOCTYPE " ++ (r0 :: rs) ++ bytes " [<!ELEMENT " ++ name ++
          bytes " (").length := by
        rw [e1, e2, e3]
        simp only [List.length_append, List.length_cons, List.length_nil] at hk ⊢
        omega
      rw [List.take_append_of_le_length hk2]
      exact List.take_sublist _ _
    have h0 : (bytes "<!DOCTYPE " ++ (r0 :: rs) ++ bytes " [<!ELEMENT " ++ name ++
        bytes " (").count 10 = 0 := by
      simp only [List.count_append, count_newline_of_isName hroot,
        count_newline_of_isName hname, e1, e2, e3]
      decide
    exact Nat.le_zero.1 (h0 ▸ hsub.count_le 10)
  -- the dispatch of `ReadNode`
  rw [ReadNode]
  unfold ReadNodeStart
  rw [hb.SkipSpaces_stop false 60 _ hr0 (isSpace_60 _)]
  simp only []
  rw [hb.CheckFor_spec _ (by simp [bytes_copen])]
  have hnc : ¬ (inp.rest.take (bytes "<!--").length = bytes "<!--") := by
    rw [hr0, bytes_copen]; simp
  have hd0 : inp.deref inp.fCurrent = 60 := by rw [deref_fCurrent, hr0]; rfl
  simp only [hnc, if_false, hd0, ne_eq, not_true_eq_false]
  rw [hb.ShiftCurrent 1 (by rw [hr0]; simp)]
  have hd1 : (inp.advance 1).deref (inp.advance 1).fCurrent = 33 := by
    rw [deref_fCurrent, hra, hr0]; rfl
  simp only [hd1, show ¬ ((33 : Nat) = 47) from by decide, if_false, if_true]
  -- the DTD branch up to the clauses
  unfold ReadDtd
  rw [(hba 1).ShiftCurrent 1 (by rw [hra, hr0]; simp)]
  simp only [advance_advance, Nat.reduceAdd]
  rw [(hba 2).CheckFor_spec _ (by simp [bytes_doctype])]
  have hdoc : (inp.advance 2).rest.take (bytes "DOCTYPE").length = bytes "DOCTYPE" := by
    rw [hra, hr0, bytes_doctype]; rfl
  simp only [hdoc, if_true]
  simp only [bytes_doctype, List.length_cons, List.length_nil, advance_advance, Nat.reduceAdd]
  rw [(hba 9).SkipSpaces_spec [32] r0 _ (by rw [hra, hr0]; rfl) (by simp [isSpace_32]) hsp]
  simp only [List.length_singleton, advance_advance, Nat.reduceAdd]
  rw [(hba 10).LocateIdentifier_spec r0 rs 32 _ (by rw [hra, hr0]; rfl) hg hns (by decide)]
  simp only [show ¬ ((r0 :: rs).length ≤ 0) from by simp, if_false]
  rw [(hba 10).ShiftCurrent _ (by rw [hra, hr0]; simp)]
  simp only [advance_advance]
  have hr10 : (inp.advance (10 + (r0 :: rs).length)).rest =
      32 :: 91 :: 60 :: 33 :: 69 :: 76 :: 69 :: 77 :: 69 :: 78 :: 84 :: R :=
    rest_advance_eq (a := 60 :: 33 :: 68 :: 79 :: 67 :: 84 :: 89 :: 80 :: 69 :: 32 :: (r0 :: rs))
      (by rw [hr0]; simp) (by simp; omega)
  have hrb : ∀ k, (inp.advance (10 + (r0 :: rs).length + k)).rest =
      (32 :: 91 :: 60 :: 33 :: 69 :: 76 :: 69 :: 77 :: 69 :: 78 :: 84 :: R).drop k := by
    intro k; rw [← advance_advance, advance_rest, hr10]
  have hbb := fun k => hba (10 + (r0 :: rs).length + k)
  rw [(hba _).SkipSpaces_spec [32] 91 _ hr10 (by simp [isSpace_32]) (isSpace_91 _)]
  simp only [List.length_singleton, advance_advance]
  rw [(hbb 1).CheckFor_spec _ (by decide)]
  have hbr : (inp.advance (10 + (r0 :: rs).length + 1)).rest.take (bytes "[").length
      = bytes "[" := by rw [hrb]; rfl
  have h1 : (bytes "[").length = 1 := by decide
  simp only [hbr, if_true]
  rw [h1]
  simp only [advance_advance, Nat.add_assoc, Nat.reduceAdd]
  simp only [← Nat.add_assoc]
  rw [(hbb 2).SkipSpaces_stop false 60 _ (by rw [hrb]; rfl) (isSpace_60 _)]
  simp only []
  -- the clauses
  rw [ReadDtdClauses]
  rw [(hbb 2).CheckFor_spec _ (by simp [bytes_entity])]
  have hne : ¬ ((inp.advance (10 + (r0 :: rs).length + 2)).rest.take (bytes "<!ENTITY").length
      = bytes "<!ENTITY") := by
    rw [hrb, bytes_entity]; simp [List.take_succ_cons]
  simp only [hne, if_false]
  rw [(hbb 2).CheckFor_spec _ (by simp [bytes_element])]
  have hel : (inp.advance (10 + (r0 :: rs).length + 2)).rest.take (bytes "<!ELEMENT").length
      = bytes "<!ELEMENT" := by
    rw [hrb, bytes_element]; rfl
  have h9 : (bytes "<!ELEMENT").length = 9 := by decide
  simp only [hel, if_true]
  rw [h9]
  simp only [advance_advance, Nat.add_assoc, Nat.reduceAdd]
  simp only [← Nat.add_assoc]
  rw [ReadElementClause_refused _ (hbb 11) name c tail (by rw [hrb, ← hR]; rfl)
    (by simpa using hname) (by simpa using hc) hc2]
  refine ⟨_, rfl, ?_⟩
  rw [advance_advance, advance_fCurrentLine, hcount _ (by omega)]
  rfl

/-- C11 (failing input): every document that starts with a document type declaration whose
internal subset begins with a clause `<!ELEMENT name (` followed by a byte that is neither
white space nor `>` (as in `<!ELEMENT r (a)>`) is refused by `ParseString` with the error
-13 in line 1, whatever follows: after `CheckFor("(")` the source calls `SearchFor(")")`,
which does not move the read position, and then requires `>` at the start of the
parenthesis. -/
theorem ParseString_element_clause (eng : TXMLEngine) (root name : List Nat) (c : Nat)
    (tail : List Nat) (hroot : isName eng.charSigned root = true)
    (hname : isName eng.charSigned name = true) (hc : spaceByte eng.charSigned c = false)
    (hc2 : c ≠ 62) :
    ParseString eng (bytes "<!DOCTYPE " ++ root ++ bytes " [<!ELEMENT " ++ name ++ bytes " (" ++
      c :: tail) = ParseResult.error (-13) 1 := by
  generalize hT : bytes "<!DOCTYPE " ++ root ++ bytes " [<!ELEMENT " ++ name ++ bytes " (" ++
      c :: tail = T
  have hpos : T.length ≠ 0 := by
    rw [← hT]; simp
  obtain ⟨hb, hr, -, hsg⟩ := ofString_spec T (2 * T.length) eng.charSigned eng.pastByte
    (by omega)
  have hline := ofString_fCurrentLine T (2 * T.length) eng.charSigned eng.pastByte
  unfold ParseString ParseStream
  rw [if_neg hpos]
  generalize TXMLInputStream.ofString T (2 * T.length) eng.charSigned eng.pastByte = inp
    at hb hr hsg hline
  have hfuel : 2 * inp.avail + 4 = (2 * inp.avail + 2) + 1 + 1 := by omega
  obtain ⟨last, hrd, hl⟩ := ReadNode_element_clause eng (2 * inp.avail + 2) []
    (some NewDocNull.fRootNode) inp hb root name c tail (by rw [hr, hT])
    (by rw [hsg]; exact hroot) (by rw [hsg]; exact hname)
    (by rw [isSpace_eq_spaceByte, hsg]; exact hc) hc2
  rw [hfuel, ParseStreamLoop, hrd]
  simp only [ne_eq, show ¬ ((-13 : Int) = 2) from by decide, not_false_eq_true, if_true, hl,
    hline]

theorem ParseString_element_clause_witness :
    ParseString ⟨false, true, 0, fun _ => none⟩ (bytes "<!DOCTYPE " ++ bytes "r" ++
      bytes " [<!ELEMENT " ++ bytes "r" ++ bytes " (" ++ 97 :: bytes ")>]><r/>") =
        ParseResult.error (-13) 1 ∧
    bytes "<!DOCTYPE " ++ bytes "r" ++ bytes " [<!ELEMENT " ++ bytes "r" ++ bytes " (" ++
      97 :: bytes ")>]><r/>" = bytes "<!DOCTYPE r [<!ELEMENT r (a)>]><r/>" ∧
    ParseString ⟨false, true, 0, fun _ => none⟩ (bytes "<!DOCTYPE r []><r/>") =
      ParseResult.ok ⟨SXmlNode_t.mk EXmlNodeType.kXML_NODE (bytes "??DummyTopNode??") [] none
        [NewChild none (bytes "r") none], none, none⟩ :=
  ⟨ParseString_element_clause ⟨false, true, 0, fun _ => none⟩ (bytes "r") (bytes "r") 97
    (bytes ")>]><r/>") (by decide) (by decide) (by decide) (by decide), by decide, by decide!⟩

end

section
open TXMLEngine TXMLInputStream

/-! ## Open tags with namespace declarations -/

/-- `ReadNode` up to the attribute loop, on white space, `<` and a name, for any chain of
ancestors. -/
theorem ReadNodeStart_open_ns (eng : TXMLEngine) (up : List SXmlNode_t)
    (xmlparent : Option SXmlNode_t) (inp : TXMLInputStream) (hb : inp.Buffered)
    (w name : List Nat) (c : Nat) (tail : List Nat)
    (hr : inp.rest = w ++ 60 :: name ++ c :: tail)
    (hw : ∀ b ∈ w, inp.isSpace b = true) (hn : isName inp.charSigned name = true)
    (hc : GoodNextSymbol c = false) :
    ReadNodeStart eng up xmlparent inp =
      NodeStart.tag ⟨SXmlNode_t.mk EXmlNodeType.kXML_NODE name []
          (openNs up xmlparent name) [], 0, true, 47⟩
        (inp.advance (w.length + 1 + name.length)) := by
  obtain ⟨n0, ns, rfl⟩ : ∃ n0 ns, name = n0 :: ns := by
    cases name with
    | nil => exact absurd rfl (isName_ne_nil hn)
    | cons a l => exact ⟨a, l, rfl⟩
  obtain ⟨hg, hs, hns⟩ := isName_cons hn
  have hsp : inp.isSpace n0 = false := by rw [isSpace_eq_spaceByte]; exact hs
  have h60 : inp.isSpace 60 = false := isSpace_of_le (by decide) (by decide) (by decide)
  -- the stream behind the white space
  have hr0 : inp.rest = w ++ 60 :: (n0 :: ns ++ c :: tail) := by simpa using hr
  have hb1 := hb.advance w.length
  have hr1 : (inp.advance w.length).rest = 60 :: (n0 :: ns ++ c :: tail) :=
    rest_advance_of_append hr0
  have hb2 := hb1.advance 1
  have hr2 : ((inp.advance w.length).advance 1).rest = n0 :: ns ++ c :: tail := by
    rw [advance_rest, hr1]; rfl
  have hd2 : ((inp.advance w.length).advance 1).deref ((inp.advance w.length).advance 1).fCurrent
      = n0 := by rw [deref_fCurrent, hr2]; rfl
  unfold ReadNodeStart
  rw [hb.SkipSpaces_spec w 60 _ hr0 hw h60]
  simp only []
  rw [hb1.CheckFor_spec _ (by simp [bytes_copen])]
  have hnc : ¬ ((inp.advance w.length).rest.take (bytes "<!--").length = bytes "<!--") := by
    rw [hr1, bytes_copen]
    simp only [List.length_cons, List.length_nil, List.cons_append, List.take_succ_cons]
    intro h
    have := (List.cons.inj (List.cons.inj h).2).1
    exact GoodStart_ne hg (by decide) this
  simp only [hnc, if_false]
  have hd1 : (inp.advance w.length).deref (inp.advance w.length).fCurrent = 60 := by
    rw [deref_fCurrent, hr1]; rfl
  simp only [hd1, ne_eq, not_true_eq_false, if_false]
  rw [hb1.ShiftCurrent 1 (by rw [hr1]; simp)]
  simp only [hd2, GoodStart_ne hg (show GoodStartSymbol 47 = false by decide),
    GoodStart_ne hg (show GoodStartSymbol 33 = false by decide), if_false]
  have hopen : ReadOpenTag up xmlparent ((inp.advance w.length).advance 1) =
      (some ⟨SXmlNode_t.mk EXmlNodeType.kXML_NODE (n0 :: ns) []
          (openNs up xmlparent (n0 :: ns)) [], 0, true, 47⟩,
        (inp.advance w.length).advance 1) := by
    unfold ReadOpenTag
    simp only [hd2, GoodStart_ne hg (show GoodStartSymbol 63 = false by decide), if_false]
    rw [hb2.SkipSpaces_stop false n0 _ hr2 (by simpa using hsp)]
    simp only []
    rw [hb2.LocateIdentifier_spec n0 ns c tail hr2 hg hns hc]
    simp only [List.length_cons, show ¬ (ns.length + 1 ≤ 0) from by omega, if_false,
      slice_fCurrent, hr2]
    have htake : (n0 :: ns ++ c :: tail).take (ns.length + 1) = n0 :: ns := by
      rw [show ns.length + 1 = (n0 :: ns).length from rfl, List.take_left]
    rw [htake]
    cases xmlparent with
    | none => simp [openNs]
    | some parent => simp [openNs]
  rw [hopen]
  simp only [SXmlNode_t.fName]
  rw [hb2.ShiftCurrent _ (by rw [hr2]; simp)]
  simp [Nat.add_assoc]

/-- One round of the attribute loop on an attribute with any name: the attribute is added,
and a name that starts with `xmlns:` makes it the namespace of the node; the error code
that is noted on the way does not end the loop. -/
theorem ReadTagStep_attr_ns (xmlparent : Option SXmlNode_t) (tag : OpenTag)
    (inp : TXMLInputStream) (hb : inp.Buffered) (aname e more : List Nat)
    (hr : inp.rest = 32 :: aname ++ 61 :: 34 :: e ++ 34 :: more)
    (hname : isName inp.charSigned aname = true)
    (he : 34 ∉ e) (hend : tag.endsymbol = 47) :
    ∃ res : Int, ReadTagStep xmlparent tag inp =
      TagStep.more ⟨SXmlNode_t.mk tag.node.fType tag.node.fName
          (tag.node.fAttr ++ [⟨aname, UnpackSpecialCharacters e⟩])
          (if isNsName aname then some (NsPtr.own tag.node.fAttr.length) else tag.node.fNs)
          tag.node.fChild, res, tag.canhaschildren, tag.endsymbol⟩
        (inp.advance (1 + aname.length + 2 + e.length + 1)) := by
  obtain ⟨a0, as, rfl⟩ : ∃ a0 as, aname = a0 :: as := by
    cases aname with
    | nil => exact absurd rfl (isName_ne_nil hname)
    | cons a l => exact ⟨a, l, rfl⟩
  obtain ⟨hg, hs, hns⟩ := isName_cons hname
  have hsp : inp.isSpace a0 = false := by rw [isSpace_eq_spaceByte]; exact hs
  have hr0 : inp.rest = [32] ++ a0 :: (as ++ 61 :: 34 :: e ++ 34 :: more) := by simpa using hr
  have hb1 := hb.advance 1
  have hr1 : (inp.advance 1).rest = a0 :: as ++ 61 :: (34 :: e ++ 34 :: more) := by
    have := rest_advance_of_append hr0
    simpa using this
  have hd1 : (inp.advance 1).deref (inp.advance 1).fCurrent = a0 := by
    rw [deref_fCurrent, hr1]; rfl
  have hattr : ∃ res : Int, ReadAttr tag (inp.advance 1) =
      (true, ⟨SXmlNode_t.mk tag.node.fType tag.node.fName
          (tag.node.fAttr ++ [⟨a0 :: as, UnpackSpecialCharacters e⟩])
          (if isNsName (a0 :: as) then some (NsPtr.own tag.node.fAttr.length)
            else tag.node.fNs)
          tag.node.fChild, res, tag.canhaschildren, tag.endsymbol⟩,
        (inp.advance 1).advance ((a0 :: as).length + (e.length + 3))) := by
    unfold ReadAttr
    rw [hb1.LocateIdentifier_spec a0 as 61 _ hr1 hg hns (by decide)]
    simp only [show ¬ ((a0 :: as).length ≤ 0) from by simp, if_false]
    have hdrop : (inp.advance 1).rest.drop (a0 :: as).length = 61 :: 34 :: e ++ 34 :: more := by
      rw [hr1, List.drop_left]; rfl
    rw [hb1.LocateValue_eq_spec (a0 :: as).length 34 e more hdrop (Or.inl rfl) he]
    simp only [show ¬ (e.length + 3 < 3) from by omega, if_false]
    have hsl1 : (inp.advance 1).slice (inp.advance 1).fCurrent (a0 :: as).length = a0 :: as := by
      rw [slice_fCurrent, hr1, List.take_left]
    have hsl2 : (inp.advance 1).slice ((inp.advance 1).fCurrent + (a0 :: as).length + 2)
        (e.length + 3 - 3) = e := by
      rw [Nat.add_assoc, slice_add, Nat.add_sub_cancel, ← List.drop_drop, hdrop]
      simp
    rw [hsl1, hsl2]
    rw [hb1.ShiftCurrent _ (by rw [hr1]; simp; omega)]
    simp only []
    by_cases hx : (a0 :: as).length > 6 ∧ (a0 :: as).take 6 = bytes "xmlns:"
    · have hi : isNsName (a0 :: as) = true := by
        simp only [isNsName, Bool.and_eq_true, decide_eq_true_eq, beq_iff_eq]
        exact hx
      simp only [hx, and_self, if_true, hi, SXmlNode_t.fAttr, SXmlNode_t.fType,
        SXmlNode_t.fName, SXmlNode_t.fChild, List.length_append, List.length_singleton,
        Nat.add_sub_cancel]
      exact ⟨_, rfl⟩
    · have hi : isNsName (a0 :: as) = false := by
        rw [← Bool.not_eq_true]
        simp only [isNsName, Bool.and_eq_true, decide_eq_true_eq, beq_iff_eq]
        exact hx
      simp only [hx, if_false, hi, Bool.false_eq_true]
      exact ⟨_, rfl⟩
  obtain ⟨res, hattr⟩ := hattr
  refine ⟨res, ?_⟩
  unfold ReadTagStep
  rw [hb.SkipSpaces_spec [32] a0 _ hr0 (by simp [isSpace_32]) hsp]
  simp only [hd1, hend, List.length_singleton,
    GoodStart_ne hg (show GoodStartSymbol 47 = false by decide),
    GoodStart_ne hg (show GoodStartSymbol 62 = false by decide), if_false]
  rw [hattr]
  simp only [advance_advance]
  congr 2
  simp only [List.length_cons]; omega

/-- The attribute loop of `ReadNode` on attributes with any names: all of them are stored,
and the namespace pointer follows the `xmlns:` attributes. -/
theorem ReadNodeAttrs_ns (eng : TXMLEngine) (up : List SXmlNode_t)
    (xmlparent : Option SXmlNode_t) (ty : EXmlNodeType) (name : List Nat) :
    ∀ (todo seen : List SXmlAttr_t) (ns : Option NsPtr) (res : Int) (inp : TXMLInputStream)
      (fuel : Nat) (after : List Nat),
      inp.Buffered → inp.rest = attrsText todo ++ after →
      (∀ a ∈ todo, isName inp.charSigned a.name = true) →
      ∃ res2 : Int, ReadNodeAttrs eng (todo.length + fuel) up xmlparent
        ⟨SXmlNode_t.mk ty name seen ns [], res, true, 47⟩ inp =
      ReadNodeAttrs eng fuel up xmlparent
        ⟨SXmlNode_t.mk ty name (seen ++ todo) (slotAfter ns seen.length todo) [], res2, true, 47⟩
        (inp.advance (attrsText todo).length)
  | [], seen, ns, res, inp, fuel, after, _, _, _ => ⟨res, by simp [attrsText, slotAfter]⟩
  | a :: rest, seen, ns, res, inp, fuel, after, hb, hr, hp => by
    have hfuel : (a :: rest).length + fuel = (rest.length + fuel) + 1 := by
      simp only [List.length_cons]; omega
    have hr0 : inp.rest = 32 :: a.name ++ 61 :: 34 :: escapeText a.value ++
        34 :: (attrsText rest ++ after) := by
      rw [hr]; simp [attrsText, bytes_eqq]
    obtain ⟨res1, hstep⟩ := ReadTagStep_attr_ns xmlparent
      ⟨SXmlNode_t.mk ty name seen ns [], res, true, 47⟩ inp hb a.name (escapeText a.value) _ hr0
      (hp a (List.mem_cons_self _ _)) (not_mem_escapeText_34 _) rfl
    have hr1 : (inp.advance (1 + a.name.length + 2 + (escapeText a.value).length + 1)).rest
        = attrsText rest ++ after := by
      rw [advance_rest, hr0]
      have : 1 + a.name.length + 2 + (escapeText a.value).length + 1 =
          (32 :: a.name ++ 61 :: 34 :: escapeText a.value ++ [34]).length := by
        simp; omega
      rw [this, show 32 :: a.name ++ 61 :: 34 :: escapeText a.value ++
          34 :: (attrsText rest ++ after) = (32 :: a.name ++ 61 :: 34 :: escapeText a.value ++
          [34]) ++ (attrsText rest ++ after) by simp, List.drop_left]
    obtain ⟨res2, ih⟩ := ReadNodeAttrs_ns eng up xmlparent ty name rest
      (seen ++ [⟨a.name, a.value⟩])
      (if isNsName a.name then some (NsPtr.own seen.length) else ns) res1 _ fuel
      after (hb.advance _) hr1 (fun b hb2 => by
        rw [advance_charSigned]; exact hp b (List.mem_cons_of_mem _ hb2))
    refine ⟨res2, ?_⟩
    rw [hfuel, ReadNodeAttrs, hstep]
    simp only [SXmlNode_t.fType, SXmlNode_t.fName, SXmlNode_t.fAttr, SXmlNode_t.fNs,
      SXmlNode_t.fChild, Unpack_escapeText]
    refine ih.trans ?_
    simp only [advance_advance, List.append_assoc, List.singleton_append, slotAfter,
      List.length_append, List.length_singleton]
    congr 2
    simp [attrsText, bytes_eqq]; omega

/-- `ReadNode` on the head of an element, up to the end of the attributes. -/
theorem ReadNode_header_ns (eng : TXMLEngine) (up : List SXmlNode_t)
    (xmlparent : Option SXmlNode_t) (inp : TXMLInputStream) (w name : List Nat)
    (attrs : List SXmlAttr_t) (x : Nat) (X : List Nat) (f : Nat)
    (hb : inp.Buffered) (hw : ∀ b ∈ w, spaceByte inp.charSigned b = true)
    (hname : isName inp.charSigned name = true)
    (hattrs : ∀ a ∈ attrs, isName inp.charSigned a.name = true)
    (hx : GoodNextSymbol x = false)
    (hr : inp.rest = w ++ 60 :: name ++ (attrsText attrs ++ x :: X)) :
    ∃ res : Int, ReadNode eng (attrs.length + f + 1) up xmlparent inp =
      ReadNodeAttrs eng f up xmlparent
        ⟨SXmlNode_t.mk EXmlNodeType.kXML_NODE name attrs
          (slotAfter (openNs up xmlparent name) 0 attrs) [], res, true, 47⟩
        (inp.advance (w.length + 1 + name.length + (attrsText attrs).length)) := by
  obtain ⟨c, r, hcr, hc⟩ := attrsText_head attrs x X hx
  have hr0 : inp.rest = w ++ 60 :: name ++ c :: r := by rw [hr, hcr]
  have hw2 : ∀ b ∈ w, inp.isSpace b = true := fun b hm => by
    rw [isSpace_eq_spaceByte]; exact hw b hm
  have hb1 := hb.advance (w.length + 1 + name.length)
  have hr1 : (inp.advance (w.length + 1 + name.length)).rest = attrsText attrs ++ x :: X :=
    rest_advance_eq hr (by simp; omega)
  obtain ⟨res, h⟩ := ReadNodeAttrs_ns eng up xmlparent EXmlNodeType.kXML_NODE name attrs []
    (openNs up xmlparent name) 0 _ f (x :: X) hb1 hr1 (by simpa using hattrs)
  refine ⟨res, ?_⟩
  rw [ReadNode, ReadNodeStart_open_ns eng up xmlparent inp hb w name c r hr0 hw2 hname hc]
  simp only []
  rw [h]
  simp only [List.nil_append, advance_advance, List.length_nil]

/-- `ReadNode` on an element without children, written as `<name attrs/>`, with any
attribute names and any ancestors. -/
theorem ReadNode_selfclosed_ns (eng : TXMLEngine) (up : List SXmlNode_t)
    (xmlparent : Option SXmlNode_t) (inp : TXMLInputStream) (w name : List Nat)
    (attrs : List SXmlAttr_t) (lay : Bool) (tail : List Nat) (f : Nat)
    (hb : inp.Buffered) (hw : ∀ b ∈ w, spaceByte inp.charSigned b = true)
    (hname : isName inp.charSigned name = true)
    (hattrs : ∀ a ∈ attrs, isName inp.charSigned a.name = true)
    (hr : inp.rest = w ++ 60 :: name ++ (attrsText attrs ++ 47 :: 62 :: (newline lay ++ tail)))
    (htail : lay = false → ∀ c ∈ tail.head?, spaceByte inp.charSigned c = false) :
    ReadNode eng (attrs.length + (f + 1) + 1) up xmlparent inp =
      Outcome.done ⟨2,
        some (truncateIfNs (SXmlNode_t.mk EXmlNodeType.kXML_NODE name attrs
          (slotAfter (openNs up xmlparent name) 0 attrs) [])),
        attach xmlparent (truncateIfNs (SXmlNode_t.mk EXmlNodeType.kXML_NODE name attrs
          (slotAfter (openNs up xmlparent name) 0 attrs) [])),
        inp.advance (w.length + 1 + name.length + (attrsText attrs).length + 2 +
          (newline lay).length)⟩ := by
  obtain ⟨res, h⟩ := ReadNode_header_ns eng up xmlparent inp w name attrs 47 _ (f + 1) hb hw
    hname hattrs (by decide) hr
  rw [h]
  have hb2 := hb.advance (w.length + 1 + name.length + (attrsText attrs).length)
  have hr2 : (inp.advance (w.length + 1 + name.length + (attrsText attrs).length)).rest =
      47 :: 62 :: (newline lay ++ tail) :=
    rest_advance_eq (a := w ++ 60 :: name ++ attrsText attrs) (by rw [hr]; simp)
      (by simp; omega)
  rw [ReadNodeAttrs, ReadTagStep_selfclose xmlparent _ _ hb2 _ hr2 rfl]
  simp only [advance_advance]
  have hb3 := hb.advance (w.length + 1 + name.length + (attrsText attrs).length + 2)
  have hr3 : (inp.advance (w.length + 1 + name.length + (attrsText attrs).length + 2)).rest =
      newline lay ++ tail :=
    rest_advance_eq (a := w ++ 60 :: name ++ attrsText attrs ++ [47, 62]) (by rw [hr]; simp)
      (by simp; omega)
  rw [Buffered_SkipSpaces_layout hb3 lay tail hr3 (by simpa using htail), advance_advance]

/-- `ReadNode` on an element with children, given what the loop over the children does,
with any attribute names and any ancestors. -/
theorem ReadNode_element_ns (eng : TXMLEngine) (up : List SXmlNode_t)
    (xmlparent : Option SXmlNode_t) (inp : TXMLInputStream) (w name : List Nat)
    (attrs : List SXmlAttr_t) (X : List Nat) (f : Nat) (node : SXmlNode_t)
    (last : TXMLInputStream)
    (hb : inp.Buffered) (hw : ∀ b ∈ w, spaceByte inp.charSigned b = true)
    (hname : isName inp.charSigned name = true)
    (hattrs : ∀ a ∈ attrs, isName inp.charSigned a.name = true)
    (hr : inp.rest = w ++ 60 :: name ++ (attrsText attrs ++ 62 :: X))
    (hk : ReadNodeChildren eng f (chainOf xmlparent up)
        (SXmlNode_t.mk EXmlNodeType.kXML_NODE name attrs
          (slotAfter (openNs up xmlparent name) 0 attrs) [])
        (inp.advance (w.length + 1 + name.length + (attrsText attrs).length + 1)) =
      Outcome.done ⟨1, none, some node, last⟩) :
    ReadNode eng (attrs.length + (f + 1) + 1) up xmlparent inp =
      Outcome.done ⟨2, some node, attach xmlparent node, last⟩ := by
  obtain ⟨res, h⟩ := ReadNode_header_ns eng up xmlparent inp w name attrs 62 _ (f + 1) hb hw
    hname hattrs (by decide) hr
  rw [h]
  have hb2 := hb.advance (w.length + 1 + name.length + (attrsText attrs).length)
  have hr2 : (inp.advance (w.length + 1 + name.length + (attrsText attrs).length)).rest =
      62 :: X :=
    rest_advance_eq (a := w ++ 60 :: name ++ attrsText attrs) (by rw [hr]; simp)
      (by simp; omega)
  rw [ReadNodeAttrs, ReadTagStep_gt xmlparent _ _ hb2 _ hr2 rfl rfl]
  simp only [advance_advance]
  rw [hk]
  simp [ReadNodeClosed]

end

section
open TXMLEngine TXMLInputStream

/-! ## Children of an element with a namespace -/

/-- The loop over the children on a lone text and the closing tag, for a node with any
namespace pointer: the closing tag is compared with the full name, then the name is cut. -/
theorem ReadNodeChildren_text_ns (eng : TXMLEngine) (up : List SXmlNode_t) (node : SXmlNode_t)
    (inp : TXMLInputStream) (fuel : Nat) (lay : Bool) (text tail : List Nat)
    (hb : inp.Buffered) (hent : inp.fEntities = [])
    (hname : isName inp.charSigned node.fName = true)
    (ht : plainText inp.charSigned text = true)
    (hr : inp.rest = text ++ (60 :: 47 :: node.fName ++ 62 :: (newline lay ++ tail)))
    (htail : lay = false → ∀ c ∈ tail.head?, spaceByte inp.charSigned c = false)
    (hf : 4 ≤ fuel) :
    ReadNodeChildren eng fuel up node inp =
      Outcome.done ⟨1, none,
        some (truncateIfNs (AddChild node
          (SXmlNode_t.mk EXmlNodeType.kXML_CONTENT (UnpackSpecialCharacters text) [] none []))),
        inp.advance (text.length + 2 + node.fName.length + 1 + (newline lay).length)⟩ := by
  obtain ⟨f, rfl⟩ : ∃ f, fuel = f + 4 := ⟨fuel - 4, by omega⟩
  have hr0 : inp.rest = text ++ 60 :: (47 :: node.fName ++ 62 :: (newline lay ++ tail)) := by
    rw [hr]; simp
  rw [ReadNodeChildren, ReadNode, ReadNodeStart_content eng up node inp hb text _ hr0 ht hent]
  simp only [if_true, Option.getD_some]
  have hb1 := hb.advance text.length
  have hr1 : (inp.advance text.length).rest =
      [] ++ 60 :: 47 :: (AddChild node (SXmlNode_t.mk EXmlNodeType.kXML_CONTENT
        (UnpackSpecialCharacters text) [] none [])).fName ++ 62 :: (newline lay ++ tail) := by
    rw [rest_advance_of_append hr0]; simp
  rw [ReadNodeChildren, ReadNode,
    ReadNodeStart_closing eng up _ _ hb1 [] (newline lay ++ tail) hr1 (by simp)
      (by simpa using hname)]
  simp only [show ¬ ((1 : Int) = 2) from by decide, if_false, AddChild_fName, List.length_nil,
    advance_advance]
  have hb2 := hb.advance (text.length + (0 + 2 + node.fName.length + 1))
  have hr2 : (inp.advance (text.length + (0 + 2 + node.fName.length + 1))).rest
      = newline lay ++ tail := by
    rw [advance_rest, hr]
    have : text.length + (0 + 2 + node.fName.length + 1) =
        (text ++ (60 :: 47 :: node.fName ++ [62])).length := by simp; omega
    rw [this, show text ++ (60 :: 47 :: node.fName ++ 62 :: (newline lay ++ tail)) =
      (text ++ (60 :: 47 :: node.fName ++ [62])) ++ (newline lay ++ tail) by simp,
      List.drop_left]
  rw [Buffered_SkipSpaces_layout hb2 lay tail hr2 (by simpa using htail), advance_advance]
  congr 3
  omega

/-- The loop over the children on the closing tag alone. -/
theorem ReadNodeChildren_none_ns (eng : TXMLEngine) (up : List SXmlNode_t) (node : SXmlNode_t)
    (inp : TXMLInputStream) (fuel : Nat) (lay : Bool) (tail : List Nat)
    (hb : inp.Buffered) (hname : isName inp.charSigned node.fName = true)
    (hr : inp.rest = 60 :: 47 :: node.fName ++ 62 :: (newline lay ++ tail))
    (htail : lay = false → ∀ c ∈ tail.head?, spaceByte inp.charSigned c = false)
    (hf : 2 ≤ fuel) :
    ReadNodeChildren eng fuel up node inp =
      Outcome.done ⟨1, none, some (truncateIfNs node),
        inp.advance (2 + node.fName.length + 1 + (newline lay).length)⟩ := by
  obtain ⟨f, rfl⟩ : ∃ f, fuel = f + 2 := ⟨fuel - 2, by omega⟩
  have hr1 : inp.rest = [] ++ 60 :: 47 :: node.fName ++ 62 :: (newline lay ++ tail) := by
    rw [hr]; simp
  rw [ReadNodeChildren, ReadNode,
    ReadNodeStart_closing eng up _ _ hb [] (newline lay ++ tail) hr1 (by simp) hname]
  simp only [show ¬ ((1 : Int) = 2) from by decide, if_false, List.length_nil]
  have hb2 := hb.advance (0 + 2 + node.fName.length + 1)
  have hr2 : (inp.advance (0 + 2 + node.fName.length + 1)).rest = newline lay ++ tail :=
    rest_advance_eq (a := 60 :: 47 :: node.fName ++ [62]) (by rw [hr]; simp) (by simp; omega)
  rw [Buffered_SkipSpaces_layout hb2 lay tail hr2 (by simpa using htail), advance_advance]

end

section
open TXMLEngine TXMLInputStream

/-! ## Namespace declarations that do not fit -/

/-- The namespace pointer after the attribute loop is the last `xmlns:` attribute. -/
theorem slotAfter_last (ns : Option NsPtr) (a : SXmlAttr_t) (post : List SXmlAttr_t)
    (ha : isNsName a.name = true) (hpost : ∀ b ∈ post, isNsName b.name = false) :
    ∀ (pre : List SXmlAttr_t) (seen : Nat),
      slotAfter ns seen (pre ++ a :: post) = some (NsPtr.own (seen + pre.length)) := by
  have hp : ∀ (post : List SXmlAttr_t) (m : Option NsPtr) (seen : Nat),
      (∀ b ∈ post, isNsName b.name = false) → slotAfter m seen post = m := by
    intro post
    induction post with
    | nil => intro m seen _; rfl
    | cons b rest ih =>
      intro m seen h
      rw [slotAfter, h b (List.mem_cons_self _ _)]
      exact ih _ _ (fun c hc => h c (List.mem_cons_of_mem _ hc))
  intro pre
  induction pre generalizing ns with
  | nil =>
    intro seen
    simp only [List.nil_append, slotAfter, ha, if_true, List.length_nil, Nat.add_zero]
    exact hp post _ _ hpost
  | cons b rest ih =>
    intro seen
    rw [List.cons_append, slotAfter, ih, List.length_cons]
    congr 2
    omega

/-- `ParseString` on a text that `ReadNode` reads to its end as one node. -/
theorem ParseString_single (eng : TXMLEngine) (text : List Nat) (node : SXmlNode_t)
    (hne : text ≠ [])
    (h : ∀ inp : TXMLInputStream, inp.Buffered → inp.charSigned = eng.charSigned →
      inp.fEntities = [] → inp.rest = text →
      ReadNode eng (2 * text.length + 3) [] (some NewDocNull.fRootNode) inp =
        Outcome.done ⟨2, some node, some (AddChild NewDocNull.fRootNode node),
          inp.advance text.length⟩) :
    ParseString eng text =
      ParseResult.ok ⟨SXmlNode_t.mk EXmlNodeType.kXML_NODE (bytes "??DummyTopNode??") [] none
        [node], none, none⟩ := by
  have hpos : text.length ≠ 0 := fun h0 => hne (List.length_eq_zero.1 h0)
  obtain ⟨hb, hr, hent, hsg⟩ :=
    ofString_spec text (2 * text.length) eng.charSigned eng.pastByte (by omega)
  unfold ParseString ParseStream
  rw [if_neg hpos, hb.avail, hr, show 2 * text.length + 4 = (2 * text.length + 3) + 1 from rfl,
    ParseStreamLoop, h _ hb hsg hent hr]
  have hend : ((TXMLInputStream.ofString text (2 * text.length) eng.charSigned
      eng.pastByte).advance text.length).EndOfStream = true := by
    rw [(hb.advance _).EndOfStream, advance_rest, hr]; simp
  simp only [ne_eq, not_true_eq_false, if_false, hend, Bool.not_true, Bool.false_eq_true,
    if_true, Option.getD_some]
  rfl

theorem truncateIfNs_own (ty : EXmlNodeType) (name : List Nat) (attrs : List SXmlAttr_t)
    (ns : NsPtr) (ch : List SXmlNode_t) :
    truncateIfNs (SXmlNode_t.mk ty name attrs (some ns) ch) =
      SXmlNode_t.mk ty (truncatedName name) attrs (some ns) ch := by
  simp [truncateIfNs, TruncateNsExtension, SXmlNode_t.fNs, SXmlNode_t.fType, SXmlNode_t.fName,
    SXmlNode_t.fAttr, SXmlNode_t.fChild]

/-- `ReadNode` on `<name attrs/>` when the attributes hold a last `xmlns:` attribute. -/
theorem ReadNode_selfclosed_xmlns (eng : TXMLEngine) (up : List SXmlNode_t)
    (xmlparent : Option SXmlNode_t) (inp : TXMLInputStream) (name : List Nat)
    (pre post : List SXmlAttr_t) (a : SXmlAttr_t) (f : Nat)
    (hb : inp.Buffered) (hname : isName inp.charSigned name = true)
    (hattrs : ∀ b ∈ pre ++ a :: post, isName inp.charSigned b.name = true)
    (ha : isNsName a.name = true) (hpost : ∀ b ∈ post, isNsName b.name = false)
    (hr : inp.rest = 60 :: name ++ attrsText (pre ++ a :: post) ++ bytes "/>") :
    ReadNode eng ((pre ++ a :: post).length + f + 2) up xmlparent inp =
      Outcome.done ⟨2,
        some (SXmlNode_t.mk EXmlNodeType.kXML_NODE (truncatedName name) (pre ++ a :: post)
          (some (NsPtr.own pre.length)) []),
        attach xmlparent (SXmlNode_t.mk EXmlNodeType.kXML_NODE (truncatedName name)
          (pre ++ a :: post) (some (NsPtr.own pre.length)) []),
        inp.advance (60 :: name ++ attrsText (pre ++ a :: post) ++ bytes "/>").length⟩ := by
  have h := ReadNode_selfclosed_ns eng up xmlparent inp [] name (pre ++ a :: post) false [] f hb
    (by simp) hname hattrs (by rw [hr]; simp [newline]; rfl) (by simp)
  rw [slotAfter_last _ a post ha hpost pre 0, truncateIfNs_own] at h
  rw [show (pre ++ a :: post).length + f + 2 = (pre ++ a :: post).length + (f + 1) + 1 from rfl,
    h]
  simp only [Nat.zero_add]
  congr 2
  simp [newline, bytes]
  congr 1
  omega

/-- `ReadNode` on `<name attrs></name>` when the attributes hold a last `xmlns:`
attribute. -/
theorem ReadNode_element_xmlns (eng : TXMLEngine) (up : List SXmlNode_t)
    (xmlparent : Option SXmlNode_t) (inp : TXMLInputStream) (name : List Nat)
    (pre post : List SXmlAttr_t) (a : SXmlAttr_t) (f : Nat)
    (hb : inp.Buffered) (hname : isName inp.charSigned name = true)
    (hattrs : ∀ b ∈ pre ++ a :: post, isName inp.charSigned b.name = true)
    (ha : isNsName a.name = true) (hpost : ∀ b ∈ post, isNsName b.name = false)
    (hr : inp.rest = 60 :: name ++ attrsText (pre ++ a :: post) ++ 62 :: 60 :: 47 :: name ++ [62]) :
    ReadNode eng ((pre ++ a :: post).length + f + 4) up xmlparent inp =
      Outcome.done ⟨2,
        some (SXmlNode_t.mk EXmlNodeType.kXML_NODE (truncatedName name) (pre ++ a :: post)
          (some (NsPtr.own pre.length)) []),
        attach xmlparent (SXmlNode_t.mk EXmlNodeType.kXML_NODE (truncatedName name)
          (pre ++ a :: post) (some (NsPtr.own pre.length)) []),
        inp.advance (60 :: name ++ attrsText (pre ++ a :: post) ++
          62 :: 60 :: 47 :: name ++ [62]).length⟩ := by
  have hr0 : inp.rest = [] ++ 60 :: name ++ (attrsText (pre ++ a :: post) ++
      62 :: (60 :: 47 :: name ++ [62])) := by rw [hr]; simp
  have hb1 := hb.advance (0 + 1 + name.length + (attrsText (pre ++ a :: post)).length + 1)
  have hr1 : (inp.advance (0 + 1 + name.length + (attrsText (pre ++ a :: post)).length
      + 1)).rest = 60 :: 47 :: name ++ 62 :: (newline false ++ []) :=
    rest_advance_eq (a := 60 :: name ++ attrsText (pre ++ a :: post) ++ [62])
      (by rw [hr]; simp [newline]) (by simp; omega)
  have hk := ReadNodeChildren_none_ns eng (chainOf xmlparent up)
    (SXmlNode_t.mk EXmlNodeType.kXML_NODE name (pre ++ a :: post)
      (slotAfter (openNs up xmlparent name) 0 (pre ++ a :: post)) []) _ (f + 2) false [] hb1
    (by simpa using hname) hr1 (by simp) (by omega)
  have h := ReadNode_element_ns eng up xmlparent inp [] name (pre ++ a :: post) _ (f + 2) _ _ hb
    (by simp) hname hattrs hr0 hk
  rw [slotAfter_last _ a post ha hpost pre 0, truncateIfNs_own] at h
  rw [show (pre ++ a :: post).length + f + 4 = (pre ++ a :: post).length + (f + 2 + 1) + 1
    from rfl, h]
  simp only [Nat.zero_add, advance_advance, SXmlNode_t.fName]
  congr 2
  simp [newline]
  congr 1
  omega

/-- C14 (lenient namespace errors): an open tag whose attributes have any names, among them
`xmlns:` attributes whose suffix differs from the name of the node or that come after
another `xmlns:` attribute, does not make the parser fail. With `a` the last `xmlns:`
attribute of the tag, `ReadNode` ends with the status 2 and the node, `ParseString` returns
the document with this node for `<name attrs/>` and for `<name attrs></name>`, and the
namespace pointer of the node is `a`. -/
theorem ParseString_xmlns_lenient (eng : TXMLEngine) (name : List Nat)
    (pre post : List SXmlAttr_t) (a : SXmlAttr_t)
    (hname : isName eng.charSigned name = true)
    (hattrs : ∀ b ∈ pre ++ a :: post, isName eng.charSigned b.name = true)
    (ha : isNsName a.name = true) (hpost : ∀ b ∈ post, isNsName b.name = false) :
    (∀ (up : List SXmlNode_t) (xmlparent : Option SXmlNode_t) (inp : TXMLInputStream) (f : Nat),
      inp.Buffered → inp.charSigned = eng.charSigned →
      inp.rest = 60 :: name ++ attrsText (pre ++ a :: post) ++ bytes "/>" →
      ReadNode eng ((pre ++ a :: post).length + f + 2) up xmlparent inp =
        Outcome.done ⟨2,
          some (SXmlNode_t.mk EXmlNodeType.kXML_NODE (truncatedName name) (pre ++ a :: post)
            (some (NsPtr.own pre.length)) []),
          attach xmlparent (SXmlNode_t.mk EXmlNodeType.kXML_NODE (truncatedName name)
            (pre ++ a :: post) (some (NsPtr.own pre.length)) []),
          inp.advance (60 :: name ++ attrsText (pre ++ a :: post) ++ bytes "/>").length⟩) ∧
    ParseString eng (60 :: name ++ attrsText (pre ++ a :: post) ++ bytes "/>") =
      ParseResult.ok ⟨SXmlNode_t.mk EXmlNodeType.kXML_NODE (bytes "??DummyTopNode??") [] none
        [SXmlNode_t.mk EXmlNodeType.kXML_NODE (truncatedName name) (pre ++ a :: post)
          (some (NsPtr.own pre.length)) []], none, none⟩ ∧
    ParseString eng
        (60 :: name ++ attrsText (pre ++ a :: post) ++ 62 :: 60 :: 47 :: name ++ [62]) =
      ParseResult.ok ⟨SXmlNode_t.mk EXmlNodeType.kXML_NODE (bytes "??DummyTopNode??") [] none
        [SXmlNode_t.mk EXmlNodeType.kXML_NODE (truncatedName name) (pre ++ a :: post)
          (some (NsPtr.own pre.length)) []], none, none⟩ ∧
    (SXmlNode_t.mk EXmlNodeType.kXML_NODE (truncatedName name) (pre ++ a :: post)
      (some (NsPtr.own pre.length)) []).nsAttr = some a := by
  have hlen := attrsText_length_ge (pre ++ a :: post)
  refine ⟨?_, ?_, ?_, ?_⟩
  · intro up xmlparent inp f hb hsg hr
    exact ReadNode_selfclosed_xmlns eng up xmlparent inp name pre post a f hb
      (by rw [hsg]; exact hname) (by rw [hsg]; exact hattrs) ha hpost hr
  · refine ParseString_single eng _ _ (by simp) ?_
    intro inp hb hsg _ hr
    obtain ⟨f, hf⟩ : ∃ f, 2 * (60 :: name ++ attrsText (pre ++ a :: post) ++ bytes "/>").length
        + 3 = (pre ++ a :: post).length + f + 2 :=
      ⟨2 * (60 :: name ++ attrsText (pre ++ a :: post) ++ bytes "/>").length + 1
        - (pre ++ a :: post).length, by simp only [List.length_append, List.length_cons] at hlen ⊢; omega⟩
    rw [hf]
    exact ReadNode_selfclosed_xmlns eng [] _ inp name pre post a f hb
      (by rw [hsg]; exact hname) (by rw [hsg]; exact hattrs) ha hpost hr
  · refine ParseString_single eng _ _ (by simp) ?_
    intro inp hb hsg _ hr
    obtain ⟨f, hf⟩ : ∃ f, 2 * (60 :: name ++ attrsText (pre ++ a :: post) ++
        62 :: 60 :: 47 :: name ++ [62]).length + 3 = (pre ++ a :: post).length + f + 4 :=
      ⟨2 * (60 :: name ++ attrsText (pre ++ a :: post) ++
        62 :: 60 :: 47 :: name ++ [62]).length - 1 - (pre ++ a :: post).length,
        by simp only [List.length_append, List.length_cons] at hlen ⊢; omega⟩
    rw [hf]
    exact ReadNode_element_xmlns eng [] _ inp name pre post a f hb
      (by rw [hsg]; exact hname) (by rw [hsg]; exact hattrs) ha hpost hr
  · simp only [SXmlNode_t.nsAttr, SXmlNode_t.fNs, SXmlNode_t.fAttr,
      List.getD_eq_getElem?_getD, List.getElem?_append_right (Nat.le_refl _), Nat.sub_self,
      List.getElem?_cons_zero, Option.getD_some]

theorem ParseString_xmlns_lenient_witness :
    ParseString ⟨false, true, 0, fun _ => none⟩
        (60 :: bytes "a" ++ attrsText ([⟨bytes "xmlns:b", bytes "u"⟩] ++
          ⟨bytes "xmlns:c", bytes "v"⟩ :: []) ++ bytes "/>") =
      ParseResult.ok ⟨SXmlNode_t.mk EXmlNodeType.kXML_NODE (bytes "??DummyTopNode??") [] none
        [SXmlNode_t.mk EXmlNodeType.kXML_NODE (truncatedName (bytes "a"))
          ([⟨bytes "xmlns:b", bytes "u"⟩] ++ ⟨bytes "xmlns:c", bytes "v"⟩ :: [])
          (some (NsPtr.own [(⟨bytes "xmlns:b", bytes "u"⟩ : SXmlAttr_t)].length)) []],
        none, none⟩ ∧
    60 :: bytes "a" ++ attrsText ([⟨bytes "xmlns:b", bytes "u"⟩] ++
          ⟨bytes "xmlns:c", bytes "v"⟩ :: []) ++ bytes "/>" =
      bytes "<a xmlns:b=\"u\" xmlns:c=\"v\"/>" :=
  ⟨(ParseString_xmlns_lenient ⟨false, true, 0, fun _ => none⟩ (bytes "a")
      [⟨bytes "xmlns:b", bytes "u"⟩] [] ⟨bytes "xmlns:c", bytes "v"⟩ (by decide) (by decide)
      (by decide) (by decide)).2.1, by decide⟩

end

section
open TXMLEngine TXMLInputStream

/-! ## Resolution of a namespace prefix -/

theorem takeWhile_colon (p name : List Nat) (hp : 58 ∉ p) :
    (p ++ 58 :: name).takeWhile (fun b => b != 58) = p := by
  induction p with
  | nil => simp
  | cons b rest ih =>
    have hb : b ≠ 58 := fun h => hp (by simp [h])
    have hr : 58 ∉ rest := fun h => hp (List.mem_cons_of_mem _ h)
    simp [List.takeWhile_cons, hb, ih hr]

theorem dropWhile_colon (p name : List Nat) (hp : 58 ∉ p) :
    (p ++ 58 :: name).dropWhile (fun b => b != 58) = 58 :: name := by
  induction p with
  | nil => simp
  | cons b rest ih =>
    have hb : b ≠ 58 := fun h => hp (by simp [h])
    have hr : 58 ∉ rest := fun h => hp (List.mem_cons_of_mem _ h)
    simp [List.dropWhile_cons, hb, ih hr]

theorem truncatedName_colon (p name : List Nat) (hp : 58 ∉ p) :
    truncatedName (p ++ 58 :: name) = name := by
  simp [truncatedName, dropWhile_colon p name hp]

/-- `FindNs` returns the namespace of the innermost node of the chain whose namespace has
the name that is looked for. -/
theorem FindNs_innermost (anc : SXmlNode_t) (post : List SXmlNode_t) (a : SXmlAttr_t)
    (p : List Nat) (hanc : anc.nsAttr = some a) (ha : a.nameFrom6 = p) :
    ∀ pre : List SXmlNode_t, (∀ n ∈ pre, ∀ b, n.nsAttr = some b → b.nameFrom6 ≠ p) →
      FindNs (pre ++ anc :: post) p = some a := by
  intro pre
  induction pre with
  | nil => intro _; simp [FindNs, hanc, ha]
  | cons n rest ih =>
    intro h
    have hrest := ih (fun m hm => h m (List.mem_cons_of_mem _ hm))
    rw [List.cons_append, FindNs]
    cases hn : n.nsAttr with
    | none => simpa using hrest
    | some b =>
      have := h n (List.mem_cons_self _ _) b hn
      simpa [this] using hrest

theorem openNs_resolved (up : List SXmlNode_t) (parent : SXmlNode_t)
    (pre post : List SXmlNode_t) (anc : SXmlNode_t) (a : SXmlAttr_t) (p name : List Nat)
    (hchain : parent :: up = pre ++ anc :: post)
    (hanc : anc.nsAttr = some a) (ha : a.nameFrom6 = p)
    (hpre : ∀ n ∈ pre, ∀ b, n.nsAttr = some b → b.nameFrom6 ≠ p) (hp : 58 ∉ p) :
    openNs up (some parent) (p ++ 58 :: name) = some (NsPtr.outer a) := by
  simp only [openNs, List.mem_append, List.mem_cons, true_or, or_true, if_true,
    takeWhile_colon p name hp, hchain, FindNs_innermost anc post a p hanc ha pre hpre,
    Option.map_some']

/-- The text that `SaveNode` writes for an element without children whose namespace is an
attribute of an ancestor. -/
theorem nodeText_outer_nil (name : List Nat) (a : SXmlAttr_t) :
    nodeText false 0 (SXmlNode_t.mk EXmlNodeType.kXML_NODE name [] (some (NsPtr.outer a)) []) =
      60 :: a.nameFrom6 ++ 58 :: name ++ bytes "/>" := by
  simp [nodeText, isSpecial, indent, openText, nsText, SXmlNode_t.nsAttr, SXmlNode_t.nsNotFirst,
    SXmlNode_t.fNs, SXmlNode_t.fType, SXmlNode_t.fName, SXmlNode_t.fAttr, attrsText,
    singleLineText, newline]

/-- The text that `SaveNode` writes for an element with a lone text whose namespace is an
attribute of an ancestor. -/
theorem nodeText_outer_text (name text : List Nat) (a : SXmlAttr_t) :
    nodeText false 0 (SXmlNode_t.mk EXmlNodeType.kXML_NODE name [] (some (NsPtr.outer a))
        [SXmlNode_t.mk EXmlNodeType.kXML_CONTENT text [] none []]) =
      60 :: a.nameFrom6 ++ 58 :: name ++ 62 :: text ++
        60 :: 47 :: a.nameFrom6 ++ 58 :: name ++ [62] := by
  simp [nodeText, isSpecial, indent, openText, closeText, nsText, SXmlNode_t.nsAttr,
    SXmlNode_t.nsNotFirst, SXmlNode_t.fNs, SXmlNode_t.fType, SXmlNode_t.fName,
    SXmlNode_t.fAttr, attrsText, newline, bytes]

end

section
open TXMLEngine TXMLInputStream

/-! ## Elements with a resolved prefix -/

/-- `ReadNode` on `<p:name/>` below ancestors of which the innermost with a namespace
named `p` has the namespace `a`. -/
theorem ReadNode_prefix_selfclosed (eng : TXMLEngine) (up : List SXmlNode_t)
    (parent : SXmlNode_t) (pre post : List SXmlNode_t) (anc : SXmlNode_t) (a : SXmlAttr_t)
    (p name : List Nat) (inp : TXMLInputStream) (f : Nat)
    (hchain : parent :: up = pre ++ anc :: post)
    (hanc : anc.nsAttr = some a) (ha : a.nameFrom6 = p)
    (hpre : ∀ n ∈ pre, ∀ b, n.nsAttr = some b → b.nameFrom6 ≠ p) (hp : 58 ∉ p)
    (hb : inp.Buffered) (hname : isName inp.charSigned (p ++ 58 :: name) = true)
    (hr : inp.rest = 60 :: p ++ 58 :: name ++ bytes "/>") :
    ReadNode eng (f + 2) up (some parent) inp =
      Outcome.done ⟨2,
        some (SXmlNode_t.mk EXmlNodeType.kXML_NODE name [] (some (NsPtr.outer a)) []),
        some (AddChild parent
          (SXmlNode_t.mk EXmlNodeType.kXML_NODE name [] (some (NsPtr.outer a)) [])),
        inp.advance (60 :: p ++ 58 :: name ++ bytes "/>").length⟩ := by
  have h := ReadNode_selfclosed_ns eng up (some parent) inp [] (p ++ 58 :: name) [] false [] f hb
    (by simp) hname (by simp) (by rw [hr]; simp [newline, attrsText]; rfl) (by simp)
  rw [show slotAfter (openNs up (some parent) (p ++ 58 :: name)) 0 [] =
      openNs up (some parent) (p ++ 58 :: name) from rfl,
    openNs_resolved up parent pre post anc a p name hchain hanc ha hpre hp, truncateIfNs_own,
    truncatedName_colon p name hp] at h
  rw [show f + 2 = ([] : List SXmlAttr_t).length + (f + 1) + 1 by simp, h]
  simp only [attach, Option.map_some']
  congr 2
  simp [newline, attrsText, bytes]
  congr 1
  omega

/-- `ReadNode` on `<p:name>text</p:name>` below ancestors of which the innermost with a
namespace named `p` has the namespace `a`. -/
theorem ReadNode_prefix_text (eng : TXMLEngine) (up : List SXmlNode_t)
    (parent : SXmlNode_t) (pre post : List SXmlNode_t) (anc : SXmlNode_t) (a : SXmlAttr_t)
    (p name text : List Nat) (inp : TXMLInputStream) (f : Nat)
    (hchain : parent :: up = pre ++ anc :: post)
    (hanc : anc.nsAttr = some a) (ha : a.nameFrom6 = p)
    (hpre : ∀ n ∈ pre, ∀ b, n.nsAttr = some b → b.nameFrom6 ≠ p) (hp : 58 ∉ p)
    (hb : inp.Buffered) (hent : inp.fEntities = [])
    (hname : isName inp.charSigned (p ++ 58 :: name) = true)
    (ht : plainText inp.charSigned text = true) (hamp : 38 ∉ text)
    (hr : inp.rest = 60 :: p ++ 58 :: name ++ 62 :: text ++ 60 :: 47 :: p ++ 58 :: name ++ [62]) :
    ReadNode eng (f + 6) up (some parent) inp =
      Outcome.done ⟨2,
        some (SXmlNode_t.mk EXmlNodeType.kXML_NODE name [] (some (NsPtr.outer a))
          [SXmlNode_t.mk EXmlNodeType.kXML_CONTENT text [] none []]),
        some (AddChild parent
          (SXmlNode_t.mk EXmlNodeType.kXML_NODE name [] (some (NsPtr.outer a))
            [SXmlNode_t.mk EXmlNodeType.kXML_CONTENT text [] none []])),
        inp.advance (60 :: p ++ 58 :: name ++ 62 :: text ++
          60 :: 47 :: p ++ 58 :: name ++ [62]).length⟩ := by
  have hr0 : inp.rest = [] ++ 60 :: (p ++ 58 :: name) ++ (attrsText [] ++
      62 :: (text ++ 60 :: 47 :: (p ++ 58 :: name) ++ [62])) := by
    rw [hr]; simp [attrsText]
  have hb1 := hb.advance (0 + 1 + (p ++ 58 :: name).length + (attrsText []).length + 1)
  have hr1 : (inp.advance (0 + 1 + (p ++ 58 :: name).length + (attrsText []).length + 1)).rest
      = text ++ (60 :: 47 :: (p ++ 58 :: name) ++ 62 :: (newline false ++ [])) :=
    rest_advance_eq (a := 60 :: p ++ 58 :: name ++ [62])
      (by rw [hr]; simp [newline]) (by simp [attrsText]; omega)
  have hk := ReadNodeChildren_text_ns eng (chainOf (some parent) up)
    (SXmlNode_t.mk EXmlNodeType.kXML_NODE (p ++ 58 :: name) []
      (slotAfter (openNs up (some parent) (p ++ 58 :: name)) 0 []) []) _ (f + 4) false text []
    hb1 (by simpa using hent) (by simpa using hname) (by simpa using ht) hr1 (by simp)
    (by omega)
  have h := ReadNode_element_ns eng up (some parent) inp [] (p ++ 58 :: name) [] _ (f + 4) _ _
    hb (by simp) hname (by simp) hr0 hk
  rw [show slotAfter (openNs up (some parent) (p ++ 58 :: name)) 0 [] =
      openNs up (some parent) (p ++ 58 :: name) from rfl,
    openNs_resolved up parent pre post anc a p name hchain hanc ha hpre hp] at h
  rw [show f + 6 = ([] : List SXmlAttr_t).length + (f + 4 + 1) + 1 by simp, h]
  have hu : UnpackSpecialCharacters text = text := UnpackLoop_no_amp text hamp
  simp only [attach, Option.map_some', AddChild, SXmlNode_t.fType, SXmlNode_t.fName,
    SXmlNode_t.fAttr, SXmlNode_t.fNs, SXmlNode_t.fChild, truncateIfNs_own,
    truncatedName_colon p name hp, hu, List.nil_append, advance_advance]
  congr 2
  simp [newline, attrsText]
  congr 1
  omega

end

section
open TXMLEngine TXMLInputStream

/-! ## Namespace prefixes: what is resolved and what is not -/

theorem widest_outer (name : List Nat) (a : SXmlAttr_t) (ch : List SXmlNode_t) :
    widest (SXmlNode_t.mk EXmlNodeType.kXML_NODE name [] (some (NsPtr.outer a)) ch) =
      max 6 (max name.length (max 0 (max (a.nameFrom6.length + 1) (widestList ch)))) := by
  simp [widest, attrsWidest, nsText, SXmlNode_t.nsAttr, SXmlNode_t.nsNotFirst, SXmlNode_t.fNs]

/-- C13 (prefix resolution, amended): an element written as `p:name` below ancestors of
which the innermost one whose namespace pointer has the name `p` points to the attribute
`a`: `ReadNode` gives the element the namespace `a` and the name `name` without the
prefix, for `<p:name/>` and for `<p:name>text</p:name>`, and `SaveSingleNode` writes the
prefix back on the open and the closing tag, so that the text read is the text written. -/
theorem ReadNode_prefix_resolved (eng : TXMLEngine) (up : List SXmlNode_t)
    (parent : SXmlNode_t) (pre post : List SXmlNode_t) (anc : SXmlNode_t) (a : SXmlAttr_t)
    (p name : List Nat)
    (hchain : parent :: up = pre ++ anc :: post)
    (hanc : anc.nsAttr = some a) (ha : a.nameFrom6 = p)
    (hpre : ∀ n ∈ pre, ∀ b, n.nsAttr = some b → b.nameFrom6 ≠ p) (hp : 58 ∉ p)
    (hname : isName eng.charSigned (p ++ 58 :: name) = true)
    (hlen : (p ++ 58 :: name).length < 2500) :
    (∀ (inp : TXMLInputStream) (f : Nat), inp.Buffered → inp.charSigned = eng.charSigned →
      inp.rest = 60 :: p ++ 58 :: name ++ bytes "/>" →
      ReadNode eng (f + 2) up (some parent) inp =
        Outcome.done ⟨2,
          some (SXmlNode_t.mk EXmlNodeType.kXML_NODE name [] (some (NsPtr.outer a)) []),
          some (AddChild parent
            (SXmlNode_t.mk EXmlNodeType.kXML_NODE name [] (some (NsPtr.outer a)) [])),
          inp.advance (60 :: p ++ 58 :: name ++ bytes "/>").length⟩) ∧
    SaveSingleNode (SXmlNode_t.mk EXmlNodeType.kXML_NODE name [] (some (NsPtr.outer a)) []) [] 0 =
      some (60 :: p ++ 58 :: name ++ bytes "/>") ∧
    (∀ (text : List Nat) (inp : TXMLInputStream) (f : Nat), inp.Buffered →
      inp.charSigned = eng.charSigned → inp.fEntities = [] →
      plainText eng.charSigned text = true → 38 ∉ text → text.length < 2500 →
      inp.rest = 60 :: p ++ 58 :: name ++ 62 :: text ++ 60 :: 47 :: p ++ 58 :: name ++ [62] →
      ReadNode eng (f + 6) up (some parent) inp =
        Outcome.done ⟨2,
          some (SXmlNode_t.mk EXmlNodeType.kXML_NODE name [] (some (NsPtr.outer a))
            [SXmlNode_t.mk EXmlNodeType.kXML_CONTENT text [] none []]),
          some (AddChild parent
            (SXmlNode_t.mk EXmlNodeType.kXML_NODE name [] (some (NsPtr.outer a))
              [SXmlNode_t.mk EXmlNodeType.kXML_CONTENT text [] none []])),
          inp.advance (60 :: p ++ 58 :: name ++ 62 :: text ++
            60 :: 47 :: p ++ 58 :: name ++ [62]).length⟩ ∧
      SaveSingleNode (SXmlNode_t.mk EXmlNodeType.kXML_NODE name [] (some (NsPtr.outer a))
          [SXmlNode_t.mk EXmlNodeType.kXML_CONTENT text [] none []]) [] 0 =
        some (60 :: p ++ 58 :: name ++ 62 :: text ++ 60 :: 47 :: p ++ 58 :: name ++ [62])) := by
  have hl : p.length + 1 + name.length < 2500 := by
    simp only [List.length_append, List.length_cons] at hlen; omega
  refine ⟨?_, ?_, ?_⟩
  · intro inp f hb hsg hr
    exact ReadNode_prefix_selfclosed eng up parent pre post anc a p name inp f hchain hanc ha
      hpre hp hb (by rw [hsg]; exact hname) hr
  · rw [SaveSingleNode_eq _ 0 (by rw [widest_outer, ha]; simp [widestList]; omega)]
    simp only [show decide ((0 : Int) > 0) = false from by decide, nodeText_outer_nil, ha]
  · intro text inp f hb hsg hent ht hamp htl hr
    refine ⟨ReadNode_prefix_text eng up parent pre post anc a p name text inp f hchain hanc ha
      hpre hp hb hent (by rw [hsg]; exact hname) (by rw [hsg]; exact ht) hamp hr, ?_⟩
    rw [SaveSingleNode_eq _ 0 (by
      rw [widest_outer, ha]; simp [widestList, widest, attrsWidest, nsText, SXmlNode_t.nsAttr,
        SXmlNode_t.fNs]; omega)]
    simp only [show decide ((0 : Int) > 0) = false from by decide, nodeText_outer_text, ha]

theorem ReadNode_prefix_resolved_witness :
    SaveSingleNode (SXmlNode_t.mk EXmlNodeType.kXML_NODE (bytes "item") []
        (some (NsPtr.outer ⟨bytes "xmlns:r", bytes "u"⟩)) []) [] 0 =
      some (60 :: bytes "r" ++ 58 :: bytes "item" ++ bytes "/>") ∧
    ParseString ⟨false, true, 0, fun _ => none⟩ (bytes "<r xmlns:r=\"u\"><r:item/></r>") =
      ParseResult.ok ⟨SXmlNode_t.mk EXmlNodeType.kXML_NODE (bytes "??DummyTopNode??") [] none
        [SXmlNode_t.mk EXmlNodeType.kXML_NODE (bytes "r") [⟨bytes "xmlns:r", bytes "u"⟩]
          (some (NsPtr.own 0))
          [SXmlNode_t.mk EXmlNodeType.kXML_NODE (bytes "item") []
            (some (NsPtr.outer ⟨bytes "xmlns:r", bytes "u"⟩)) []]], none, none⟩ :=
  ⟨(ReadNode_prefix_resolved ⟨false, true, 0, fun _ => none⟩
      [SXmlNode_t.mk EXmlNodeType.kXML_NODE (bytes "??DummyTopNode??") [] none []]
      (SXmlNode_t.mk EXmlNodeType.kXML_NODE (bytes "r") [⟨bytes "xmlns:r", bytes "u"⟩]
        (some (NsPtr.own 0)) [])
      []
      [SXmlNode_t.mk EXmlNodeType.kXML_NODE (bytes "??DummyTopNode??") [] none []]
      (SXmlNode_t.mk EXmlNodeType.kXML_NODE (bytes "r") [⟨bytes "xmlns:r", bytes "u"⟩]
        (some (NsPtr.own 0)) [])
      ⟨bytes "xmlns:r", bytes "u"⟩ (bytes "r") (bytes "item") rfl (by decide) (by decide)
      (by simp) (by decide) (by decide) (by decide)).2.1, by decide!⟩

/-- C13 (counterexample): the ancestor `a` declares `xmlns:p` and then `xmlns:a`; its one
namespace pointer holds the second declaration, so the prefix of `<p:x/>` is not resolved:
the element gets no namespace and keeps the name `p:x`. -/
theorem ParseString_prefix_unresolved :
    ParseString ⟨false, true, 0, fun _ => none⟩
        (bytes "<a xmlns:p=\"u\" xmlns:a=\"v\"><p:x/></a>") =
      ParseResult.ok ⟨SXmlNode_t.mk EXmlNodeType.kXML_NODE (bytes "??DummyTopNode??") [] none
        [SXmlNode_t.mk EXmlNodeType.kXML_NODE (bytes "a")
          [⟨bytes "xmlns:p", bytes "u"⟩, ⟨bytes "xmlns:a", bytes "v"⟩] (some (NsPtr.own 1))
          [SXmlNode_t.mk EXmlNodeType.kXML_NODE (bytes "p:x") [] none []]], none, none⟩ := by
  decide!

end

section
open TXMLEngine TXMLInputStream

/-! ## The attribute interface and the namespace attribute -/

/-- The loop over `GetFirstAttr` and `GetNextAttr` visits the attributes of the list it
starts with, in their order. -/
theorem attrsVisited_eq (xmlattr : List SXmlAttr_t) :
    ∀ fuel : Nat, xmlattr.length ≤ fuel → attrsVisited fuel xmlattr = xmlattr := by
  induction xmlattr with
  | nil => intro fuel _; cases fuel <;> rfl
  | cons a rest ih =>
    intro fuel h
    obtain ⟨f, rfl⟩ : ∃ f, fuel = f + 1 := ⟨fuel - 1, by simp at h; omega⟩
    simp only [attrsVisited, GetNextAttr]
    rw [ih f (by simpa using h)]

/-- After `NewNS` the loop over the attributes passes over the namespace attribute. -/
theorem GetFirstAttr_NewNS (xmlnode : SXmlNode_t) (reference : List Nat)
    (name : Option (List Nat)) :
    GetFirstAttr (NewNS xmlnode reference name) = xmlnode.fAttr := by
  simp [GetFirstAttr, NewNS, SXmlNode_t.fAttr, SXmlNode_t.fNs]

/-- `GetFirstAttr` passes over the namespace attribute only when it is the first one: with
the namespace pointer at a later attribute the loop visits every attribute of the node. -/
theorem GetFirstAttr_later (ty : EXmlNodeType) (name : List Nat) (attrs : List SXmlAttr_t)
    (i : Nat) (ch : List SXmlNode_t) :
    GetFirstAttr (SXmlNode_t.mk ty name attrs (some (NsPtr.own (i + 1))) ch) = attrs := by
  cases attrs <;> simp [GetFirstAttr, SXmlNode_t.fAttr, SXmlNode_t.fNs]

/-- C12 (failing input): the open tag `<a x="1" xmlns:a="u"/>` has its `xmlns:` attribute
in the second place. The parser makes this attribute the namespace of the node and leaves
it where it is in the list; the loop over `GetFirstAttr` and `GetNextAttr` then visits `x`
and also the namespace attribute `xmlns:a`, while after `NewNS` on a node with the
attribute `x` the same loop visits `x` only. -/
theorem GetFirstAttr_parsed_xmlns :
    ParseString ⟨false, true, 0, fun _ => none⟩ (bytes "<a x=\"1\" xmlns:a=\"u\"/>") =
      ParseResult.ok ⟨SXmlNode_t.mk EXmlNodeType.kXML_NODE (bytes "??DummyTopNode??") [] none
        [SXmlNode_t.mk EXmlNodeType.kXML_NODE (bytes "a")
          [⟨bytes "x", bytes "1"⟩, ⟨bytes "xmlns:a", bytes "u"⟩] (some (NsPtr.own 1)) []],
        none, none⟩ ∧
    (SXmlNode_t.mk EXmlNodeType.kXML_NODE (bytes "a")
      [⟨bytes "x", bytes "1"⟩, ⟨bytes "xmlns:a", bytes "u"⟩] (some (NsPtr.own 1)) []).nsAttr =
      some ⟨bytes "xmlns:a", bytes "u"⟩ ∧
    attrsVisited 3 (GetFirstAttr (SXmlNode_t.mk EXmlNodeType.kXML_NODE (bytes "a")
      [⟨bytes "x", bytes "1"⟩, ⟨bytes "xmlns:a", bytes "u"⟩] (some (NsPtr.own 1)) [])) =
      [⟨bytes "x", bytes "1"⟩, ⟨bytes "xmlns:a", bytes "u"⟩] ∧
    attrsVisited 3 (GetFirstAttr (NewNS
      (NewAttr (NewChild none (bytes "a") none) (bytes "x") (bytes "1")) (bytes "u") none)) =
      [⟨bytes "x", bytes "1"⟩] := by
  refine ⟨by decide!, by decide, by decide, by decide⟩

end

section
open Mem

/-! ## Nodes in memory: reading after writing -/

theorem node_write (h : Heap) (p : Nat) (n : Mem.SXmlNode_t) (x : Nat) :
    (h.write p n).node x = if x = p then some n else h.node x := by
  simp only [Heap.write, Function.update_apply]

theorem node_write_same (h : Heap) (p : Nat) (n : Mem.SXmlNode_t) :
    (h.write p n).node p = some n := by
  rw [node_write, if_pos rfl]

theorem node_write_ne (h : Heap) {p x : Nat} (n : Mem.SXmlNode_t) (hx : x ≠ p) :
    (h.write p n).node x = h.node x := by
  rw [node_write, if_neg hx]

theorem node_free (h : Heap) (p x : Nat) :
    (h.free p).node x = if x = p then none else h.node x := by
  simp only [Heap.free, Function.update_apply]

theorem modify_of_node {h : Heap} {p : Nat} {n : Mem.SXmlNode_t} (hn : h.node p = some n)
    (f : Mem.SXmlNode_t → Mem.SXmlNode_t) : h.modify p f = some (h.write p (f n)) := by
  simp [Heap.modify, hn]

theorem next_of_node {h : Heap} {p : Nat} {n : Mem.SXmlNode_t} (hn : h.node p = some n) :
    h.next p = some n.fNext := by
  simp [Heap.next, hn]

theorem next_write (h : Heap) (p : Nat) (n : Mem.SXmlNode_t) (x : Nat) :
    (h.write p n).next x = if x = p then some n.fNext else h.next x := by
  unfold Heap.next
  rw [node_write]
  split <;> rfl

theorem next_eq_of_node_eq {h h2 : Heap} {x : Nat} (hx : h2.node x = h.node x) :
    h2.next x = h.next x := by
  simp [Heap.next, hx]

/-! ## Chains of siblings -/

theorem Chain_nil {h : Heap} {start : Option Nat} : Chain h start [] ↔ start = none := Iff.rfl

theorem Chain_cons {h : Heap} {start : Option Nat} {c : Nat} {cs : List Nat} :
    Chain h start (c :: cs) ↔ start = some c ∧ ∃ nx, h.next c = some nx ∧ Chain h nx cs :=
  Iff.rfl

/-- A chain is the same in a heap that has the same `fNext` at its nodes. -/
theorem Chain_congr {h h2 : Heap} :
    ∀ (cs : List Nat) (start : Option Nat), (∀ x ∈ cs, h2.next x = h.next x) →
      Chain h start cs → Chain h2 start cs
  | [], _, _, hc => hc
  | c :: cs, start, hx, hc => by
    obtain ⟨hs, nx, hn, hr⟩ := hc
    refine ⟨hs, nx, ?_, Chain_congr cs nx (fun x hm => hx x (List.mem_cons_of_mem _ hm)) hr⟩
    rw [hx c (List.mem_cons_self _ _), hn]

/-- The nodes of a chain from a given start are determined. -/
theorem Chain_unique {h : Heap} :
    ∀ (cs ds : List Nat) (start : Option Nat), Chain h start cs → Chain h start ds → cs = ds
  | [], [], _, _, _ => rfl
  | [], d :: ds, start, hc, hd => by
    rw [Chain_nil] at hc; rw [hc] at hd; exact absurd hd.1 (by simp)
  | c :: cs, [], start, hc, hd => by
    rw [Chain_nil] at hd; rw [hd] at hc; exact absurd hc.1 (by simp)
  | c :: cs, d :: ds, start, hc, hd => by
    obtain ⟨hs, nx, hn, hr⟩ := hc
    obtain ⟨hs2, nx2, hn2, hr2⟩ := hd
    have hcd : c = d := by rw [hs] at hs2; exact Option.some.inj hs2
    subst hcd
    rw [hn] at hn2
    cases hn2
    rw [Chain_unique cs ds nx hr hr2]

/-- The part of a chain from one of its nodes on is a chain. -/
theorem Chain_suffix {h : Heap} :
    ∀ (pre : List Nat) (c : Nat) (post : List Nat) (start : Option Nat),
      Chain h start (pre ++ c :: post) → Chain h (some c) (c :: post)
  | [], c, post, start, hc => ⟨rfl, hc.2⟩
  | a :: pre, c, post, start, hc => by
    obtain ⟨_, nx, _, hr⟩ := hc
    exact Chain_suffix pre c post nx hr

/-- A chain that ends at the null pointer visits no node twice. -/
theorem Chain_nodup {h : Heap} :
    ∀ (cs : List Nat) (start : Option Nat), Chain h start cs → cs.Nodup
  | [], _, _ => List.nodup_nil
  | c :: cs, start, hc => by
    obtain ⟨hs, nx, hn, hr⟩ := hc
    refine List.nodup_cons.2 ⟨?_, Chain_nodup cs nx hr⟩
    intro hm
    obtain ⟨pre, post, rfl⟩ := List.append_of_mem hm
    have h1 : Chain h (some c) (c :: post) := Chain_suffix pre c post nx hr
    have h2 : Chain h (some c) (c :: (pre ++ c :: post)) := ⟨rfl, nx, hn, hr⟩
    have := Chain_unique _ _ _ h1 h2
    have hl := congrArg List.length this
    simp at hl
    omega

/-- The `fNext` of a node of a chain is the next node of the chain. -/
theorem Chain_next {h : Heap} :
    ∀ (pre : List Nat) (c : Nat) (post : List Nat) (start : Option Nat),
      Chain h start (pre ++ c :: post) → h.next c = some post.head?
  | [], c, post, start, hc => by
    obtain ⟨_, nx, hn, hr⟩ := hc
    rw [hn]
    cases post with
    | nil => rw [Chain_nil] at hr; rw [hr]; rfl
    | cons d ds => rw [hr.1]; rfl
  | a :: pre, c, post, start, hc => by
    obtain ⟨_, nx, _, hr⟩ := hc
    exact Chain_next pre c post nx hr

/-- The start of a chain is its first node. -/
theorem Chain_start {h : Heap} {start : Option Nat} {cs : List Nat} (hc : Chain h start cs) :
    start = cs.head? := by
  cases cs with
  | nil => exact hc
  | cons c cs => exact hc.1

/-- A chain with the node `mid` taken out, in a heap where the node before `mid` points to
the node behind it. -/
theorem Chain_remove {h h2 : Heap} (mid : Nat) (post : List Nat) :
    ∀ (pre : List Nat) (start : Option Nat), Chain h start (pre ++ mid :: post) →
      (∀ x ∈ post, h2.next x = h.next x) →
      (∀ x ∈ pre.dropLast, h2.next x = h.next x) →
      (∀ x ∈ pre.getLast?, h2.next x = some post.head?) →
      Chain h2 (if pre = [] then post.head? else start) (pre ++ post)
  | [], start, hc, hpost, _, _ => by
    obtain ⟨_, nx, hn, hr⟩ := hc
    have := Chain_start hr
    subst this
    simpa using Chain_congr post _ hpost hr
  | [a], start, hc, hpost, _, hlast => by
    obtain ⟨hs, nx, hn, hr⟩ := hc
    obtain ⟨_, nx2, hn2, hr2⟩ := hr
    have := Chain_start hr2
    subst this
    refine ⟨by simpa using hs, post.head?, hlast a (by simp), ?_⟩
    exact Chain_congr post _ hpost hr2
  | a :: b :: pre, start, hc, hpost, hpre, hlast => by
    obtain ⟨hs, nx, hn, hr⟩ := hc
    have ih := Chain_remove mid post (b :: pre) nx hr hpost
      (fun x hx => hpre x (by
        rw [List.dropLast_cons₂]
        exact List.mem_cons_of_mem _ hx))
      (fun x hx => hlast x (by simpa [List.getLast?_cons_cons] using hx))
    simp only [reduceCtorEq, if_false] at ih
    refine ⟨by simpa using hs, nx, ?_, ih⟩
    rw [hpre a (by rw [List.dropLast_cons₂]; exact List.mem_cons_self _ _), hn]

/-- A chain with the node `c` added behind its last node. -/
theorem Chain_snoc {h h2 : Heap} (c : Nat) (hc2 : h2.next c = some none) :
    ∀ (cs : List Nat) (start : Option Nat), Chain h start cs →
      (∀ x ∈ cs.dropLast, h2.next x = h.next x) →
      (∀ x ∈ cs.getLast?, h2.next x = some (some c)) →
      Chain h2 (if cs = [] then some c else start) (cs ++ [c])
  | [], start, _, _, _ => ⟨rfl, none, hc2, rfl⟩
  | [a], start, hc, _, hlast => by
    obtain ⟨hs, nx, hn, hr⟩ := hc
    exact ⟨by simpa using hs, some c, hlast a (by simp), rfl, none, hc2, rfl⟩
  | a :: b :: cs, start, hc, hpre, hlast => by
    obtain ⟨hs, nx, hn, hr⟩ := hc
    have ih := Chain_snoc c hc2 (b :: cs) nx hr
      (fun x hx => hpre x (by
        rw [List.dropLast_cons₂]
        exact List.mem_cons_of_mem _ hx))
      (fun x hx => hlast x (by simpa [List.getLast?_cons_cons] using hx))
    simp only [reduceCtorEq, if_false] at ih
    refine ⟨by simpa using hs, nx, ?_, ih⟩
    rw [hpre a (by rw [List.dropLast_cons₂]; exact List.mem_cons_self _ _), hn]

/-- The last node of a chain has a null `fNext`. -/
theorem Chain_last {h : Heap} {start : Option Nat} {cs : List Nat} (hc : Chain h start cs) :
    ∀ l ∈ cs.getLast?, h.next l = some none := by
  intro l hl
  obtain ⟨pre, rfl⟩ : ∃ pre, cs = pre ++ [l] := by
    have hl2 : cs.getLast? = some l := by simpa using hl
    rw [List.getLast?_eq_some_iff] at hl2
    exact hl2
  simpa using Chain_next pre l [] start hc

end

section
open Mem

/-! ## Appending and prepending a child -/

theorem Children_not_mem {h : Heap} {p c : Nat} {cs : List Nat} {cn : Mem.SXmlNode_t}
    (hch : Children h p cs) (hc : h.node c = some cn) (hpar : cn.fParent ≠ some p) : c ∉ cs := by
  intro hm
  have := hch.2.1 c hm
  rw [hc] at this
  simp at this
  exact hpar this

theorem Children_node {h : Heap} {p x : Nat} {cs : List Nat} (hch : Children h p cs)
    (hx : x ∈ cs) : ∃ m, h.node x = some m ∧ m.fParent = some p := by
  have := hch.2.1 x hx
  cases hm : h.node x with
  | none => rw [hm] at this; simp at this
  | some m => rw [hm] at this; exact ⟨m, rfl, by simpa using this⟩

/-- `AddChild(p, c)` for a detached node `c`: the cells that change and the new child
sequence. -/
theorem AddChild_detached (h : Heap) (p c : Nat) (cs : List Nat) (cn : Mem.SXmlNode_t)
    (hch : Children h p cs) (hc : h.node c = some cn) (hpar : cn.fParent = none)
    (hnext : cn.fNext = none) (hcp : c ≠ p) :
    ∃ h2, AddChild h (some p) (some c) = some h2 ∧ Children h2 p (cs ++ [c]) ∧
      h2.node c = some { cn with fParent := some p } ∧
      (∀ x, x ≠ p → x ≠ c → x ∉ cs.getLast? → h2.node x = h.node x) := by
  have hcs : c ∉ cs := Children_not_mem hch hc (by rw [hpar]; simp)
  obtain ⟨⟨n, hn, hchain, hlast⟩, hpl, hpn⟩ := hch
  have hp1 : (h.write c { cn with fParent := some p }).node p = some n := by
    rw [node_write_ne _ _ (Ne.symm hcp), hn]
  rcases List.eq_nil_or_concat cs with rfl | ⟨cs0, l, hcl⟩
  · have hl0 : n.fLastChild = none := by simpa using hlast
    refine ⟨((h.write c { cn with fParent := some p }).write p { n with fChild := some c }).write p
      { n with fChild := some c, fLastChild := some c }, ?_, ?_, ?_, ?_⟩
    · simp only [AddChild, modify_of_node hc, Option.some_bind, hp1, hl0,
        modify_of_node hp1, modify_of_node (node_write_same _ _ _)]
    · refine ⟨⟨_, node_write_same _ _ _, ?_, rfl⟩, ?_, by simpa using Ne.symm hcp⟩
      · refine ⟨rfl, none, ?_, rfl⟩
        rw [next_write, if_neg hcp, next_write, if_neg hcp, next_write, if_pos rfl, hnext]
      · intro x hx
        have : x = c := by simpa using hx
        subst this
        rw [node_write_ne _ _ hcp, node_write_ne _ _ hcp, node_write_same]
        rfl
    · rw [node_write_ne _ _ hcp, node_write_ne _ _ hcp, node_write_same]
    · intro x hxp hxc _
      rw [node_write_ne _ _ hxp, node_write_ne _ _ hxp, node_write_ne _ _ hxc]
  · rw [List.concat_eq_append] at hcl
    subst hcl
    have hlm : l ∈ cs0 ++ [l] := by simp
    have hl0 : n.fLastChild = some l := by simpa using hlast
    have hlp : l ≠ p := fun e => hpn (e ▸ hlm)
    have hlc : l ≠ c := fun e => hcs (e ▸ hlm)
    obtain ⟨ln, hln, -⟩ := Children_node ⟨⟨n, hn, hchain, hlast⟩, hpl, hpn⟩ hlm
    have hl1 : (h.write c { cn with fParent := some p }).node l = some ln := by
      rw [node_write_ne _ _ hlc, hln]
    have hp2 : ((h.write c { cn with fParent := some p }).write l
        { ln with fNext := some c }).node p = some n := by
      rw [node_write_ne _ _ (Ne.symm hlp), hp1]
    have hnd := Chain_nodup _ _ hchain
    refine ⟨((h.write c { cn with fParent := some p }).write l { ln with fNext := some c }).write p
      { n with fLastChild := some c }, ?_, ?_, ?_, ?_⟩
    · simp only [AddChild, modify_of_node hc, Option.some_bind, hp1, hl0,
        modify_of_node hl1, modify_of_node hp2]
    · refine ⟨⟨_, node_write_same _ _ _, ?_, by simp⟩, ?_, ?_⟩
      · have := @Chain_snoc h (((h.write c { cn with fParent := some p }).write l
          { ln with fNext := some c }).write p { n with fLastChild := some c }) c
          (by rw [next_write, if_neg hcp, next_write, if_neg (Ne.symm hlc), next_write,
            if_pos rfl, hnext]) (cs0 ++ [l]) n.fChild hchain
          (fun x hx => by
            have hx0 : x ∈ cs0 := by simpa using hx
            have hxm : x ∈ cs0 ++ [l] := List.mem_append_left _ hx0
            have hxp : x ≠ p := fun e => hpn (e ▸ hxm)
            have hxc : x ≠ c := fun e => hcs (e ▸ hxm)
            have hxl : x ≠ l := by
              intro e
              subst e
              exact (List.nodup_append.1 hnd).2.2 hx0 (by simp)
            rw [next_write, if_neg hxp, next_write, if_neg hxl, next_write, if_neg hxc])
          (fun x hx => by
            have : l = x := by simpa using hx
            subst this
            rw [next_write, if_neg hlp, next_write, if_pos rfl])
        simpa using this
      · intro x hx
        rcases List.mem_append.1 hx with hx0 | hx1
        · have hxp : x ≠ p := fun e => hpn (e ▸ hx0)
          have hxc : x ≠ c := fun e => hcs (e ▸ hx0)
          rw [node_write_ne _ _ hxp]
          by_cases hxl : x = l
          · subst hxl
            rw [node_write_same]
            have := hpl x hx0
            rw [hln] at this
            simpa using this
          · rw [node_write_ne _ _ hxl, node_write_ne _ _ hxc]
            exact hpl x hx0
        · have : x = c := by simpa using hx1
          subst this
          rw [node_write_ne _ _ hcp, node_write_ne _ _ (Ne.symm hlc), node_write_same]
          rfl
      · intro hm
        rcases List.mem_append.1 hm with hx0 | hx1
        · exact hpn hx0
        · have : p = c := by simpa using hx1
          exact hcp this.symm
    · rw [node_write_ne _ _ hcp, node_write_ne _ _ (Ne.symm hlc), node_write_same]
    · intro x hxp hxc hxl
      have hxl2 : x ≠ l := by
        intro e
        exact hxl (by simp [e])
      rw [node_write_ne _ _ hxp, node_write_ne _ _ hxl2, node_write_ne _ _ hxc]

/-- `AddChildFirst(p, c)` for a node `c` without parent: the cells that change and the new
child sequence. -/
theorem AddChildFirst_detached (h : Heap) (p c : Nat) (cs : List Nat) (cn : Mem.SXmlNode_t)
    (hch : Children h p cs) (hc : h.node c = some cn) (hpar : cn.fParent = none)
    (hcp : c ≠ p) :
    ∃ h2, AddChildFirst h (some p) (some c) = some h2 ∧ Children h2 p (c :: cs) ∧
      h2.node c = some { cn with fParent := some p, fNext := cs.head? } ∧
      (∀ x, x ≠ p → x ≠ c → h2.node x = h.node x) := by
  have hcs : c ∉ cs := Children_not_mem hch hc (by rw [hpar]; simp)
  obtain ⟨⟨n, hn, hchain, hlast⟩, hpl, hpn⟩ := hch
  have hhead : n.fChild = cs.head? := Chain_start hchain
  have hp1 : (h.write c { cn with fParent := some p }).node p = some n := by
    rw [node_write_ne _ _ (Ne.symm hcp), hn]
  have hp2 : ((h.write c { cn with fParent := some p }).write c
      { cn with fParent := some p, fNext := n.fChild }).node p = some n := by
    rw [node_write_ne _ _ (Ne.symm hcp), hp1]
  have hstep : AddChildFirst h (some p) (some c) =
      if n.fLastChild = none then
        some ((((h.write c { cn with fParent := some p }).write c
          { cn with fParent := some p, fNext := n.fChild }).write p
          { n with fChild := some c }).write p { n with fChild := some c, fLastChild := some c })
      else
        some (((h.write c { cn with fParent := some p }).write c
          { cn with fParent := some p, fNext := n.fChild }).write p { n with fChild := some c }) := by
    simp only [AddChildFirst, modify_of_node hc, Option.some_bind, hp1,
      modify_of_node (node_write_same _ _ _), modify_of_node hp2, node_write_same]
  have hkey : ∀ (last : Option Nat),
      last = (c :: cs).getLast? →
      Children ((((h.write c { cn with fParent := some p }).write c
          { cn with fParent := some p, fNext := n.fChild }).write p
          { n with fChild := some c, fLastChild := last })) p (c :: cs) := by
    intro last hl
    refine ⟨⟨_, node_write_same _ _ _, ?_, hl⟩, ?_, ?_⟩
    · refine ⟨rfl, n.fChild, ?_, ?_⟩
      · rw [next_write, if_neg hcp, next_write, if_pos rfl]
      · refine Chain_congr cs _ (fun x hx => ?_) hchain
        have hxp : x ≠ p := fun e => hpn (e ▸ hx)
        have hxc : x ≠ c := fun e => hcs (e ▸ hx)
        rw [next_write, if_neg hxp, next_write, if_neg hxc, next_write, if_neg hxc]
    · intro x hx
      rcases List.mem_cons.1 hx with rfl | hx0
      · rw [node_write_ne _ _ hcp, node_write_same]
        rfl
      · have hxp : x ≠ p := fun e => hpn (e ▸ hx0)
        have hxc : x ≠ c := fun e => hcs (e ▸ hx0)
        rw [node_write_ne _ _ hxp, node_write_ne _ _ hxc, node_write_ne _ _ hxc]
        exact hpl x hx0
    · intro hm
      rcases List.mem_cons.1 hm with e | hx0
      · exact hcp e.symm
      · exact hpn hx0
  by_cases hl0 : n.fLastChild = none
  · have hnil : cs = [] := by
      rw [hlast] at hl0
      simpa using hl0
    subst hnil
    refine ⟨_, by rw [hstep, if_pos hl0], ?_, ?_, ?_⟩
    · have := hkey (some c) (by simp)
      have hw : ∀ (g : Heap) (a b : Mem.SXmlNode_t), (g.write p a).write p b = g.write p b := by
        intro g a b
        simp [Heap.write]
      rw [hw]
      exact this
    · rw [node_write_ne _ _ hcp, node_write_ne _ _ hcp, node_write_same, hhead]
    · intro x hxp hxc
      rw [node_write_ne _ _ hxp, node_write_ne _ _ hxp, node_write_ne _ _ hxc,
        node_write_ne _ _ hxc]
  · refine ⟨_, by rw [hstep, if_neg hl0], ?_, ?_, ?_⟩
    · have := hkey n.fLastChild (by
        rw [hlast]
        cases cs with
        | nil => exact absurd (by simpa using hlast) hl0
        | cons d ds => simp [List.getLast?_cons_cons])
      exact this
    · rw [node_write_ne _ _ hcp, node_write_same, hhead]
    · intro x hxp hxc
      rw [node_write_ne _ _ hxp, node_write_ne _ _ hxc, node_write_ne _ _ hxc]

end

section
open Mem

/-! ## The order of the children after `AddChild` and `AddChildFirst` -/

theorem GetParent_of_node {h : Heap} {x : Nat} {m : Mem.SXmlNode_t} (hx : h.node x = some m) :
    GetParent h (some x) = some m.fParent := by
  simp [GetParent, hx]

/-- C19 (append and prepend): for a node `p` with the child sequence `cs` and a detached
node `c` (no parent, no next sibling, not `p` itself), `AddChild(p, c)` makes the child
sequence `cs` followed by `c`, and `AddChildFirst(p, c)` makes it `c` followed by `cs`; in
both cases `GetParent(c)` is `p` and the `fNext` of the last child is null. -/
theorem AddChild_appends_AddChildFirst_prepends (h : Heap) (p c : Nat) (cs : List Nat)
    (cn : Mem.SXmlNode_t) (hch : Children h p cs) (hc : h.node c = some cn)
    (hpar : cn.fParent = none) (hnext : cn.fNext = none) (hcp : c ≠ p) :
    (∃ h2, AddChild h (some p) (some c) = some h2 ∧ Children h2 p (cs ++ [c]) ∧
      GetParent h2 (some c) = some (some p) ∧
      ∀ l ∈ (cs ++ [c]).getLast?, h2.next l = some none) ∧
    (∃ h2, AddChildFirst h (some p) (some c) = some h2 ∧ Children h2 p (c :: cs) ∧
      GetParent h2 (some c) = some (some p) ∧
      ∀ l ∈ (c :: cs).getLast?, h2.next l = some none) := by
  constructor
  · obtain ⟨h2, h1, hch2, hc2, -⟩ := AddChild_detached h p c cs cn hch hc hpar hnext hcp
    have hchain := hch2.1.choose_spec.2.1
    exact ⟨h2, h1, hch2, by rw [GetParent_of_node hc2], Chain_last hchain⟩
  · obtain ⟨h2, h1, hch2, hc2, -⟩ := AddChildFirst_detached h p c cs cn hch hc hpar hcp
    have hchain := hch2.1.choose_spec.2.1
    exact ⟨h2, h1, hch2, by rw [GetParent_of_node hc2], Chain_last hchain⟩

theorem AddChild_appends_AddChildFirst_prepends_witness :
    ∃ h2, AddChild
        (((Heap.empty.write 1 ⟨EXmlNodeType.kXML_NODE, [], none, none, some 2, some 2, none,
            bytes "p"⟩).write 2 ⟨EXmlNodeType.kXML_NODE, [], none, none, none, none, some 1,
            bytes "a"⟩).write 3 ⟨EXmlNodeType.kXML_NODE, [], none, none, none, none, none,
            bytes "c"⟩) (some 1) (some 3) = some h2 ∧
      Children h2 1 ([2] ++ [3]) ∧ GetParent h2 (some 3) = some (some 1) ∧
      ∀ l ∈ ([2] ++ [3]).getLast?, h2.next l = some none :=
  (AddChild_appends_AddChildFirst_prepends
    (((Heap.empty.write 1 ⟨EXmlNodeType.kXML_NODE, [], none, none, some 2, some 2, none,
        bytes "p"⟩).write 2 ⟨EXmlNodeType.kXML_NODE, [], none, none, none, none, some 1,
        bytes "a"⟩).write 3 ⟨EXmlNodeType.kXML_NODE, [], none, none, none, none, none,
        bytes "c"⟩) 1 3 [2] ⟨EXmlNodeType.kXML_NODE, [], none, none, none, none, none, bytes "c"⟩
    (by decide) (by decide) rfl rfl (by decide)).1

end

section
open Mem

/-! ## Unlinking a node -/

theorem next_eq_some {h : Heap} {x : Nat} {nx : Option Nat} (hx : h.next x = some nx) :
    ∃ m, h.node x = some m ∧ m.fNext = nx := by
  cases hm : h.node x with
  | none => simp [Heap.next, hm] at hx
  | some m => exact ⟨m, rfl, by simpa [Heap.next, hm] using hx⟩

/-- The loop of `UnlinkNode` stops at the node in front of `n`. -/
theorem UnlinkScan_spec {h : Heap} (n prev : Nat) (post : List Nat) (hne : prev ≠ n) :
    ∀ (pre0 : List Nat) (start : Option Nat) (fuel : Nat),
      Chain h start (pre0 ++ prev :: n :: post) → n ∉ pre0 → pre0.length < fuel →
      UnlinkScan h n fuel start = some prev
  | [], start, fuel, hc, _, hf => by
    obtain ⟨f, rfl⟩ : ∃ f, fuel = f + 1 := ⟨fuel - 1, by simp at hf; omega⟩
    obtain ⟨hs, nx, hn, hr⟩ := hc
    obtain ⟨m, hm, hmn⟩ := next_eq_some hn
    have : nx = some n := hr.1
    subst hs
    simp [UnlinkScan, hm, hmn, this]
  | a :: pre0, start, fuel, hc, hnp, hf => by
    obtain ⟨f, rfl⟩ : ∃ f, fuel = f + 1 := ⟨fuel - 1, by simp at hf; omega⟩
    obtain ⟨hs, nx, hn, hr⟩ := hc
    obtain ⟨m, hm, hmn⟩ := next_eq_some hn
    have hnx : nx ≠ some n := by
      rw [Chain_start hr]
      cases pre0 with
      | nil => simpa using hne
      | cons b bs =>
        have : n ≠ b := fun e => hnp (by simp [e])
        simpa using this.symm
    have ih := UnlinkScan_spec n prev post hne pre0 nx f hr
      (fun hx => hnp (List.mem_cons_of_mem _ hx)) (by simp at hf; omega)
    subst hs
    simp [UnlinkScan, hm, hmn, hnx, ih]

/-- The child sequence without the node `n`, in a heap where the parent and the node in
front of `n` are updated and the other nodes are as before. -/
theorem Children_remove {h h2 : Heap} {p n : Nat} {pre post : List Nat} {pc : Mem.SXmlNode_t}
    (hch : Children h p (pre ++ n :: post)) (hpc : h.node p = some pc)
    (hp2 : h2.node p = some ⟨pc.fType, pc.fAttr, pc.fNs, pc.fNext,
      if pre = [] then post.head? else pc.fChild, (pre ++ post).getLast?, pc.fParent, pc.name⟩)
    (hprev : ∀ x ∈ pre.getLast?, (h2.node x).map (fun m => m.fParent) = some (some p) ∧
      h2.next x = some post.head?)
    (hframe : ∀ x, x ≠ p → x ∉ pre.getLast? → h2.node x = h.node x) :
    Children h2 p (pre ++ post) := by
  obtain ⟨⟨pc2, hpc2, hchain, hlast⟩, hpl, hpn⟩ := hch
  rw [hpc] at hpc2
  cases hpc2
  have hnd := Chain_nodup _ _ hchain
  have hpre_le : ∀ x ∈ pre.dropLast, x ∉ pre.getLast? := by
    intro x hx hl
    rcases List.eq_nil_or_concat pre with rfl | ⟨pre0, l, e⟩
    · simp at hx
    · rw [List.concat_eq_append] at e
      subst e
      have hxl : l = x := by simpa using hl
      subst hxl
      have hnd2 : (pre0 ++ [l]).Nodup := (List.nodup_append.1 hnd).1
      have hx0 : l ∈ pre0 := by simpa using hx
      exact (List.nodup_append.1 hnd2).2.2 hx0 (by simp)
  have hpost_le : ∀ x ∈ post, x ∉ pre.getLast? := by
    intro x hx hl
    have hl2 : x ∈ pre := by
      have hl3 : pre.getLast? = some x := by simpa using hl
      obtain ⟨ys, rfl⟩ := List.getLast?_eq_some_iff.1 hl3
      simp
    exact (List.nodup_append.1 hnd).2.2 hl2 (List.mem_cons_of_mem _ hx)
  have hmem : ∀ x ∈ pre ++ post, x ∈ pre ++ n :: post := by
    intro x hx
    rcases List.mem_append.1 hx with h1 | h1
    · exact List.mem_append_left _ h1
    · exact List.mem_append_right _ (List.mem_cons_of_mem _ h1)
  refine ⟨⟨_, hp2, ?_, rfl⟩, ?_, fun hm => hpn (hmem p hm)⟩
  · refine Chain_remove n post pre pc.fChild hchain ?_ ?_ ?_
    · intro x hx
      have hxp : x ≠ p := fun e => hpn (e ▸ hmem x (List.mem_append_right _ hx))
      exact next_eq_of_node_eq (hframe x hxp (hpost_le x hx))
    · intro x hx
      have hxm : x ∈ pre := List.dropLast_subset _ hx
      have hxp : x ≠ p := fun e => hpn (e ▸ hmem x (List.mem_append_left _ hxm))
      exact next_eq_of_node_eq (hframe x hxp (hpre_le x hx))
    · intro x hx
      exact (hprev x hx).2
  · intro x hx
    by_cases hl : x ∈ pre.getLast?
    · exact (hprev x hl).1
    · have hxp : x ≠ p := fun e => hpn (e ▸ hmem x hx)
      rw [hframe x hxp hl]
      exact hpl x (hmem x hx)

theorem getLast?_ne_of_nodup {n : Nat} {pre post : List Nat} (hnd : (pre ++ n :: post).Nodup)
    (hpost : post ≠ []) : (pre ++ n :: post).getLast? ≠ some n := by
  intro hl
  obtain ⟨ys, hys⟩ := List.getLast?_eq_some_iff.1 hl
  obtain ⟨post0, l, e⟩ : ∃ post0 l, post = post0 ++ [l] := by
    rcases List.eq_nil_or_concat post with e | ⟨a, b, e⟩
    · exact absurd e hpost
    · exact ⟨a, b, by rw [e, List.concat_eq_append]⟩
  subst e
  have h1 : pre ++ n :: (post0 ++ [l]) = (pre ++ n :: post0) ++ [l] := by simp
  rw [h1] at hys
  have hln : l = n := by
    have := (List.append_inj' hys rfl).2
    simpa using this
  subst hln
  have hn2 := (List.nodup_append.1 hnd).2.1
  simp at hn2

/-- `UnlinkNode(n)` for a child `n` of `p`: the child sequence loses `n`, the node `n`
itself and all nodes but the parent and the node in front of `n` stay as they are. -/
theorem UnlinkNode_child (h : Heap) (p n : Nat) (pre post : List Nat) (fuel : Nat)
    (hch : Children h p (pre ++ n :: post)) (hf : pre.length ≤ fuel) :
    ∃ h2, UnlinkNode fuel h (some n) = some h2 ∧ Children h2 p (pre ++ post) ∧
      h2.node n = h.node n ∧
      (∀ x, x ≠ p → x ∉ pre.getLast? → h2.node x = h.node x) ∧
      (∀ x ∈ pre.getLast?, ∃ m, h.node x = some m ∧
        h2.node x = some { m with fNext := post.head? }) ∧
      (∃ pc, h.node p = some pc ∧ h2.node p = some ⟨pc.fType, pc.fAttr, pc.fNs, pc.fNext,
        (pre ++ post).head?, (pre ++ post).getLast?, pc.fParent, pc.name⟩) := by
  have hch0 := hch
  obtain ⟨⟨pc, hpc, hchain, hlast⟩, hpl, hpn⟩ := hch
  have hnd := Chain_nodup _ _ hchain
  have hnm : n ∈ pre ++ n :: post := by simp
  have hnp : n ≠ p := fun e => hpn (e ▸ hnm)
  obtain ⟨nn, hnn, hpar⟩ := Children_node hch0 hnm
  have hnext : nn.fNext = post.head? := by
    have := Chain_next pre n post _ hchain
    rw [next_of_node hnn] at this
    exact Option.some.inj this
  have hn_pre : n ∉ pre := fun hx => (List.nodup_append.1 hnd).2.2 hx (by simp)
  have hhead : pc.fChild = (pre ++ n :: post).head? := Chain_start hchain
  have hlast_iff : pc.fLastChild = some n ↔ post = [] := by
    rw [hlast]
    constructor
    · intro hl
      by_contra hne
      exact getLast?_ne_of_nodup hnd hne hl
    · rintro rfl
      simp
  rcases List.eq_nil_or_concat pre with rfl | ⟨pre0, prev, e⟩
  · -- `n` is the first child
    have hfc : pc.fChild = some n := by simpa using hhead
    have hn1 : ∀ (g : Heap) (v : Mem.SXmlNode_t), (g.write p v).node n = g.node n :=
      fun g v => node_write_ne g v hnp
    by_cases hpost : post = []
    · subst hpost
      have hl1 : pc.fLastChild = some n := hlast_iff.2 rfl
      have hw : ∀ (g : Heap) (a b : Mem.SXmlNode_t), (g.write p a).write p b = g.write p b := by
        intro g a b
        simp [Heap.write]
      have hrun : UnlinkNode fuel h (some n) = some (h.write p
          ⟨pc.fType, pc.fAttr, pc.fNs, pc.fNext, none, none, pc.fParent, pc.name⟩) := by
        simp only [UnlinkNode, hnn, Option.some_bind, hpar, hpc, hfc, if_true,
          modify_of_node hpc, node_write_same, hl1, hn1,
          modify_of_node (node_write_same _ _ _), hw, hnext, List.head?_nil]
      refine ⟨_, hrun, ?_, node_write_ne _ _ hnp, fun x hxp _ => node_write_ne _ _ hxp,
        by simp, pc, hpc, by rw [node_write_same]; rfl⟩
      exact Children_remove hch0 hpc (by rw [node_write_same]; rfl) (by simp)
        (fun x hxp _ => node_write_ne _ _ hxp)
    · have hl1 : ¬ pc.fLastChild = some n := fun hx => hpost (hlast_iff.1 hx)
      have hrun : UnlinkNode fuel h (some n) = some (h.write p
          ⟨pc.fType, pc.fAttr, pc.fNs, pc.fNext, post.head?, pc.fLastChild, pc.fParent,
            pc.name⟩) := by
        simp only [UnlinkNode, hnn, Option.some_bind, hpar, hpc, hfc, if_true,
          modify_of_node hpc, node_write_same, hl1, if_false, hnext]
      have hl2 : pc.fLastChild = ([] ++ post).getLast? := by
        rw [hlast]
        cases post with
        | nil => exact absurd rfl hpost
        | cons d ds => simp [List.getLast?_cons_cons]
      refine ⟨_, hrun, ?_, node_write_ne _ _ hnp, fun x hxp _ => node_write_ne _ _ hxp,
        by simp, pc, hpc, by rw [node_write_same, hl2]; rfl⟩
      exact Children_remove hch0 hpc (by rw [node_write_same, hl2]; rfl) (by simp)
        (fun x hxp _ => node_write_ne _ _ hxp)
  · -- `n` has the node `prev` in front of it
    rw [List.concat_eq_append] at e
    subst e
    have hpm : prev ∈ pre0 ++ [prev] ++ n :: post := by simp
    have hpp : prev ≠ p := fun e => hpn (e ▸ hpm)
    have hpvn : prev ≠ n := fun e => hn_pre (by simp [e])
    obtain ⟨pv, hpv, hpvpar⟩ := Children_node hch0 hpm
    have hfc : ¬ pc.fChild = some n := by
      rw [hhead]
      cases pre0 with
      | nil => simpa using hpvn
      | cons b bs =>
        have : b ≠ n := fun e => hn_pre (by simp [e])
        simpa using this
    have hscan : UnlinkScan h n fuel pc.fChild = some prev :=
      UnlinkScan_spec n prev post hpvn pre0 pc.fChild fuel (by simpa using hchain)
        (fun hx => hn_pre (List.mem_append_left _ hx)) (by simp at hf; omega)
    have hp1 : (h.write prev { pv with fNext := nn.fNext }).node p = some pc := by
      rw [node_write_ne _ _ (Ne.symm hpp), hpc]
    have hhd : pc.fChild = (pre0 ++ [prev] ++ post).head? := by
      rw [hhead]
      cases pre0 <;> simp
    by_cases hpost : post = []
    · subst hpost
      have hl1 : pc.fLastChild = some n := hlast_iff.2 rfl
      have hrun : UnlinkNode fuel h (some n) = some ((h.write prev
          { pv with fNext := nn.fNext }).write p { pc with fLastChild := some prev }) := by
        simp only [UnlinkNode, hnn, Option.some_bind, hpar, hpc, hfc, if_false, hscan,
          modify_of_node hpv, hp1, hl1, if_true, modify_of_node hp1]
      refine ⟨_, hrun, ?_, ?_, ?_, ?_, pc, hpc, ?_⟩
      · refine Children_remove hch0 hpc (by rw [node_write_same]; simp) ?_ ?_
        · intro x hx
          have : prev = x := by simpa using hx
          subst this
          rw [node_write_ne _ _ hpp, next_write, if_neg hpp, next_write, if_pos rfl,
            node_write_same, hnext]
          exact ⟨by simpa using hpvpar, rfl⟩
        · intro x hxp hxl
          have hxv : x ≠ prev := fun e => hxl (by simp [e])
          rw [node_write_ne _ _ hxp, node_write_ne _ _ hxv]
      · rw [node_write_ne _ _ hnp, node_write_ne _ _ (Ne.symm hpvn)]
      · intro x hxp hxl
        have hxv : x ≠ prev := fun e => hxl (by simp [e])
        rw [node_write_ne _ _ hxp, node_write_ne _ _ hxv]
      · intro x hx
        have : prev = x := by simpa using hx
        subst this
        exact ⟨pv, hpv, by rw [node_write_ne _ _ hpp, node_write_same, hnext]⟩
      · rw [node_write_same, ← hhd]
        simp
    · have hl1 : ¬ pc.fLastChild = some n := fun hx => hpost (hlast_iff.1 hx)
      have hrun : UnlinkNode fuel h (some n) = some (h.write prev
          { pv with fNext := nn.fNext }) := by
        simp only [UnlinkNode, hnn, Option.some_bind, hpar, hpc, hfc, if_false, hscan,
          modify_of_node hpv, hp1, hl1]
      have hl2 : pc.fLastChild = (pre0 ++ [prev] ++ post).getLast? := by
        rw [hlast]
        obtain ⟨post0, l, e⟩ : ∃ post0 l, post = post0 ++ [l] := by
          rcases List.eq_nil_or_concat post with e | ⟨a, b, e⟩
          · exact absurd e hpost
          · exact ⟨a, b, by rw [e, List.concat_eq_append]⟩
        subst e
        rw [show pre0 ++ [prev] ++ n :: (post0 ++ [l]) = (pre0 ++ [prev] ++ n :: post0) ++ [l]
          by simp, show pre0 ++ [prev] ++ (post0 ++ [l]) = (pre0 ++ [prev] ++ post0) ++ [l]
          by simp, List.getLast?_concat, List.getLast?_concat]
      have hp2 : (h.write prev { pv with fNext := nn.fNext }).node p =
          some ⟨pc.fType, pc.fAttr, pc.fNs, pc.fNext, (pre0 ++ [prev] ++ post).head?,
            (pre0 ++ [prev] ++ post).getLast?, pc.fParent, pc.name⟩ := by
        rw [hp1, ← hhd, ← hl2]
      refine ⟨_, hrun, ?_, ?_, ?_, ?_, pc, hpc, hp2⟩
      · refine Children_remove hch0 hpc (by rw [hp2, ← hhd]; simp) ?_ ?_
        · intro x hx
          have : prev = x := by simpa using hx
          subst this
          rw [next_write, if_pos rfl, node_write_same, hnext]
          exact ⟨by simpa using hpvpar, rfl⟩
        · intro x hxp hxl
          have hxv : x ≠ prev := fun e => hxl (by simp [e])
          rw [node_write_ne _ _ hxv]
      · rw [node_write_ne _ _ (Ne.symm hpvn)]
      · intro x hxp hxl
        have hxv : x ≠ prev := fun e => hxl (by simp [e])
        rw [node_write_ne _ _ hxv]
      · intro x hx
        have : prev = x := by simpa using hx
        subst this
        exact ⟨pv, hpv, by rw [node_write_same, hnext]⟩

end

section
open Mem

/-! ## `UnlinkNode` detaches without destroying -/

/-- C18 (unlink): for a child `n` of `p`, `UnlinkNode(n)` returns (the loop over the
siblings needs no more steps than there are children), the child sequence of `p` is then
the previous one without `n` in the same order, with `fChild` and `fLastChild` of `p` set
to its first and last node, and the node `n` itself is as before in every field: type,
name, attributes, children, and also its `fParent`, which is still `p`, and its `fNext`. -/
theorem UnlinkNode_detaches (h : Heap) (p n : Nat) (cs : List Nat) (fuel : Nat)
    (hch : Children h p cs) (hn : n ∈ cs) (hf : cs.length ≤ fuel) :
    ∃ h2, UnlinkNode fuel h (some n) = some h2 ∧ Children h2 p (cs.erase n) ∧
      h2.node n = h.node n ∧ GetParent h2 (some n) = some (some p) ∧
      h2.next n = h.next n ∧
      (∃ pc, h2.node p = some pc ∧ pc.fChild = (cs.erase n).head? ∧
        pc.fLastChild = (cs.erase n).getLast?) := by
  obtain ⟨pre, post, rfl⟩ := List.append_of_mem hn
  have hnd : (pre ++ n :: post).Nodup := by
    obtain ⟨⟨pc, -, hchain, -⟩, -, -⟩ := id hch
    exact Chain_nodup _ _ hchain
  have hn_pre : n ∉ pre := fun hx => (List.nodup_append.1 hnd).2.2 hx (by simp)
  have he : (pre ++ n :: post).erase n = pre ++ post := by
    rw [List.erase_append_right _ hn_pre, List.erase_cons_head]
  obtain ⟨nn, hnn, hpar⟩ := Children_node hch hn
  obtain ⟨h2, hrun, hch2, hsame, -, -, pc, -, hp2⟩ :=
    UnlinkNode_child h p n pre post fuel hch (by simp at hf; omega)
  rw [he]
  refine ⟨h2, hrun, hch2, hsame, ?_, next_eq_of_node_eq hsame, _, hp2, rfl, rfl⟩
  rw [GetParent_of_node (hsame.trans hnn), hpar]

theorem UnlinkNode_detaches_witness :
    ∃ h2, UnlinkNode 3
        ((((Heap.empty.write 1 ⟨EXmlNodeType.kXML_NODE, [], none, none, some 2, some 4, none,
            bytes "p"⟩).write 2 ⟨EXmlNodeType.kXML_NODE, [], none, some 3, none, none, some 1,
            bytes "a"⟩).write 3 ⟨EXmlNodeType.kXML_NODE, [], none, some 4, none, none, some 1,
            bytes "b"⟩).write 4 ⟨EXmlNodeType.kXML_NODE, [], none, none, none, none, some 1,
            bytes "c"⟩) (some 3) = some h2 ∧
      Children h2 1 ([2, 3, 4].erase 3) ∧
      h2.node 3 = ((((Heap.empty.write 1 ⟨EXmlNodeType.kXML_NODE, [], none, none, some 2, some 4,
            none, bytes "p"⟩).write 2 ⟨EXmlNodeType.kXML_NODE, [], none, some 3, none, none,
            some 1, bytes "a"⟩).write 3 ⟨EXmlNodeType.kXML_NODE, [], none, some 4, none, none,
            some 1, bytes "b"⟩).write 4 ⟨EXmlNodeType.kXML_NODE, [], none, none, none, none,
            some 1, bytes "c"⟩).node 3 ∧
      GetParent h2 (some 3) = some (some 1) ∧
      h2.next 3 = ((((Heap.empty.write 1 ⟨EXmlNodeType.kXML_NODE, [], none, none, some 2, some 4,
            none, bytes "p"⟩).write 2 ⟨EXmlNodeType.kXML_NODE, [], none, some 3, none, none,
            some 1, bytes "a"⟩).write 3 ⟨EXmlNodeType.kXML_NODE, [], none, some 4, none, none,
            some 1, bytes "b"⟩).write 4 ⟨EXmlNodeType.kXML_NODE, [], none, none, none, none,
            some 1, bytes "c"⟩).next 3 ∧
      (∃ pc, h2.node 1 = some pc ∧ pc.fChild = ([2, 3, 4].erase 3).head? ∧
        pc.fLastChild = ([2, 3, 4].erase 3).getLast?) :=
  UnlinkNode_detaches _ 1 3 [2, 3, 4] 3 (by decide) (by decide) (by decide)

end

section
open Mem

/-! ## A comment at the top of a document -/

/-- Where every node of a list points to a node of the list, no chain from a node of the
list ends at the null pointer. -/
theorem Chain_cycle {h : Heap} (ring : List Nat)
    (hring : ∀ x ∈ ring, ∃ y ∈ ring, h.next x = some (some y)) :
    ∀ (cs : List Nat) (x : Nat), x ∈ ring → ¬ Chain h (some x) cs
  | [], x, _, hc => by simp [Chain] at hc
  | c :: cs, x, hx, hc => by
    obtain ⟨hs, nx, hn, hr⟩ := hc
    have hxc : x = c := Option.some.inj hs
    subst hxc
    obtain ⟨y, hy, hxy⟩ := hring x hx
    rw [hxy] at hn
    cases hn
    exact Chain_cycle ring hring cs y hy hr

/-- C20 (failing input): the document has the root element `a` (address 2) followed by the
comment `k` (address 3) at the top level. `AddDocComment` with the comment `c` (address 4)
returns true, but `UnlinkNode` leaves the `fNext` of `a` pointing to `k`, so after the
comment and then `a` are appended behind `k` the siblings form a ring `k`, `c`, `a`, `k`:
the `fNext` of the last child `a` is not null and no finite chain starts at the first
child. `AddDocRawLine` and `AddDocStyleSheet` leave the same ring. -/
theorem AddDocComment_ring :
    (∃ d, docTrailingComment = some d ∧ d.1.fRootNode = some 1 ∧ Children d.2 1 [2, 3]) ∧
    (∃ d h2, docTrailingComment = some d ∧
      AddDocComment 10 d.2 4 (some d.1) (some (bytes "c")) = some (true, h2) ∧
      (h2.node 1).map (fun n => (n.fChild, n.fLastChild)) = some (some 3, some 2) ∧
      h2.next 3 = some (some 4) ∧ h2.next 4 = some (some 2) ∧ h2.next 2 = some (some 3) ∧
      ∀ cs, ¬ Chain h2 (some 3) cs) ∧
    (∃ d h2, docTrailingComment = some d ∧
      AddDocRawLine 10 d.2 4 (some d.1) (some (bytes "<?x?>")) = some (true, h2) ∧
      (h2.node 1).map (fun n => (n.fChild, n.fLastChild)) = some (some 3, some 2) ∧
      h2.next 3 = some (some 4) ∧ h2.next 4 = some (some 2) ∧ h2.next 2 = some (some 3) ∧
      ∀ cs, ¬ Chain h2 (some 3) cs) ∧
    (∃ d h2, docTrailingComment = some d ∧
      AddDocStyleSheet 10 d.2 4 (some d.1) (some (bytes "s.css")) (some (bytes "text/css")) none
        (-1) none none = some (true, h2) ∧
      (h2.node 1).map (fun n => (n.fChild, n.fLastChild)) = some (some 3, some 2) ∧
      h2.next 3 = some (some 4) ∧ h2.next 4 = some (some 2) ∧ h2.next 2 = some (some 3) ∧
      ∀ cs, ¬ Chain h2 (some 3) cs) := by
  obtain ⟨d, hd⟩ : ∃ d, docTrailingComment = some d :=
    Option.isSome_iff_exists.1 (by decide)
  have key : ∀ (r : Option (Bool × Heap)),
      r.map (fun r => r.1) = some true →
      r.map (fun r => (r.2.node 1).map (fun n => (n.fChild, n.fLastChild))) =
        some (some (some 3, some 2)) →
      r.map (fun r => r.2.next 3) = some (some (some 4)) →
      r.map (fun r => r.2.next 4) = some (some (some 2)) →
      r.map (fun r => r.2.next 2) = some (some (some 3)) →
      ∃ h2, r = some (true, h2) ∧
        (h2.node 1).map (fun n => (n.fChild, n.fLastChild)) = some (some 3, some 2) ∧
        h2.next 3 = some (some 4) ∧ h2.next 4 = some (some 2) ∧ h2.next 2 = some (some 3) ∧
        ∀ cs, ¬ Chain h2 (some 3) cs := by
    intro r h0 h1 h3 h4 h5
    cases r with
    | none => simp at h0
    | some r =>
      obtain ⟨b, h2⟩ := r
      simp only [Option.map_some', Option.some.injEq] at h0 h1 h3 h4 h5
      subst h0
      refine ⟨h2, rfl, h1, h3, h4, h5, fun cs => ?_⟩
      refine Chain_cycle [3, 4, 2] ?_ cs 3 (by simp)
      intro x hx
      simp only [List.mem_cons, List.mem_singleton, List.not_mem_nil, or_false] at hx
      rcases hx with rfl | rfl | rfl
      · exact ⟨4, by simp, h3⟩
      · exact ⟨2, by simp, h4⟩
      · exact ⟨3, by simp, h5⟩
  refine ⟨⟨d, hd, ?_, ?_⟩, ?_, ?_, ?_⟩
  · have : docTrailingComment.map (fun d => d.1.fRootNode) = some (some 1) := by decide
    rw [hd] at this
    simpa using this
  · have : docTrailingComment.map (fun d => decide (Children d.2 1 [2, 3])) = some true := by
      decide
    rw [hd] at this
    simpa using this
  · have := key (docTrailingComment.bind fun d =>
      AddDocComment 10 d.2 4 (some d.1) (some (bytes "c"))) (by decide) (by decide) (by decide)
      (by decide) (by decide)
    rw [hd] at this
    obtain ⟨h2, h⟩ := this
    exact ⟨d, h2, hd, h⟩
  · have := key (docTrailingComment.bind fun d =>
      AddDocRawLine 10 d.2 4 (some d.1) (some (bytes "<?x?>"))) (by decide) (by decide) (by decide)
      (by decide) (by decide)
    rw [hd] at this
    obtain ⟨h2, h⟩ := this
    exact ⟨d, h2, hd, h⟩
  · have := key (docTrailingComment.bind fun d =>
      AddDocStyleSheet 10 d.2 4 (some d.1) (some (bytes "s.css")) (some (bytes "text/css")) none
        (-1) none none) (by decide) (by decide) (by decide) (by decide) (by decide)
    rw [hd] at this
    obtain ⟨h2, h⟩ := this
    exact ⟨d, h2, hd, h⟩

end

section
open Mem

/-! ## Freeing a subtree -/

theorem subtree_of_node {h : Heap} {node : Nat} {n : Mem.SXmlNode_t} (hn : h.node node = some n)
    (fuel : Nat) :
    subtree h (fuel + 1) node = (forest h fuel n.fChild).map fun below => node :: below := by
  rw [subtree, hn]

theorem subtree_of_none {h : Heap} {node : Nat} (hn : h.node node = none) (fuel : Nat) :
    subtree h (fuel + 1) node = none := by
  rw [subtree, hn]

theorem forest_none (h : Heap) (fuel : Nat) : forest h (fuel + 1) none = some [] := by
  rw [forest]

theorem forest_of_node {h : Heap} {child : Nat} {c : Mem.SXmlNode_t} {s r : List Nat}
    {fuel : Nat} (hn : h.node child = some c) (hs : subtree h fuel child = some s)
    (hr : forest h fuel c.fNext = some r) :
    forest h (fuel + 1) (some child) = some (s ++ r) := by
  rw [forest, hn]
  simp only [hs, hr]

/-- What `subtree` returns for an allocated node. -/
theorem subtree_eq_some {h : Heap} {fuel node : Nat} {fp : List Nat}
    (hs : subtree h fuel node = some fp) :
    ∃ f n below, fuel = f + 1 ∧ h.node node = some n ∧ forest h f n.fChild = some below ∧
      fp = node :: below := by
  cases fuel with
  | zero => simp [subtree] at hs
  | succ f =>
    cases hn : h.node node with
    | none => rw [subtree_of_none hn] at hs; cases hs
    | some n =>
      rw [subtree_of_node hn, Option.map_eq_some'] at hs
      obtain ⟨below, hb, rfl⟩ := hs
      exact ⟨f, n, below, rfl, rfl, hb, rfl⟩

/-- What `forest` returns from a child on. -/
theorem forest_eq_some {h : Heap} {fuel child : Nat} {fp : List Nat}
    (hs : forest h fuel (some child) = some fp) :
    ∃ f c s r, fuel = f + 1 ∧ h.node child = some c ∧ subtree h f child = some s ∧
      forest h f c.fNext = some r ∧ fp = s ++ r := by
  cases fuel with
  | zero => simp [forest] at hs
  | succ f =>
    rw [forest] at hs
    cases hn : h.node child with
    | none => simp [hn] at hs
    | some c =>
      simp only [hn] at hs
      cases h1 : subtree h f child with
      | none => simp [h1] at hs
      | some s =>
        cases h2 : forest h f c.fNext with
        | none => simp [h1, h2] at hs
        | some r =>
          simp only [h1, h2, Option.some.injEq] at hs
          exact ⟨f, c, s, r, rfl, rfl, h1, h2, hs.symm⟩

/-- The nodes below a node are the same in a heap that agrees on them. -/
theorem subtree_forest_congr {h h2 : Heap} :
    ∀ fuel : Nat,
      (∀ (node : Nat) (fp : List Nat), subtree h fuel node = some fp →
        (∀ x ∈ fp, h2.node x = h.node x) → subtree h2 fuel node = some fp) ∧
      (∀ (start : Option Nat) (fp : List Nat), forest h fuel start = some fp →
        (∀ x ∈ fp, h2.node x = h.node x) → forest h2 fuel start = some fp)
  | 0 => ⟨fun _ _ hs _ => by simp [subtree] at hs, fun _ _ hs _ => by simp [forest] at hs⟩
  | fuel + 1 => by
    have ih := @subtree_forest_congr h h2 fuel
    constructor
    · intro node fp hs hx
      obtain ⟨f, n, below, hf, hn, hb, rfl⟩ := subtree_eq_some hs
      cases hf
      rw [subtree_of_node ((hx node (List.mem_cons_self _ _)).trans hn),
        ih.2 _ _ hb (fun x hm => hx x (List.mem_cons_of_mem _ hm))]
      rfl
    · intro start fp hs hx
      cases start with
      | none =>
        rw [forest_none] at hs
        rw [forest_none, hs]
      | some child =>
        obtain ⟨f, c, s, r, hf, hn, h1, h2x, rfl⟩ := forest_eq_some hs
        cases hf
        obtain ⟨-, -, below, -, -, -, rfl⟩ := subtree_eq_some h1
        exact forest_of_node ((hx child (by simp)).trans hn)
          (ih.1 _ _ h1 (fun x hm => hx x (List.mem_append_left _ hm)))
          (ih.2 _ _ h2x (fun x hm => hx x (List.mem_append_right _ hm)))

/-- `FreeNode` and its loop over the children free the nodes of the subtree and nothing
else, when no node is reached twice. -/
theorem FreeNode_FreeChildren_spec :
    ∀ (fuel : Nat) (h : Heap),
      (∀ (node : Nat) (fp : List Nat), subtree h fuel node = some fp → fp.Nodup →
        ∃ h2, FreeNode fuel h (some node) = some h2 ∧
          ∀ x, h2.node x = if x ∈ fp then none else h.node x) ∧
      (∀ (start : Option Nat) (fp : List Nat), forest h fuel start = some fp → fp.Nodup →
        ∃ h2, FreeChildren fuel h start = some h2 ∧
          ∀ x, h2.node x = if x ∈ fp then none else h.node x)
  | 0, h => ⟨fun _ _ hs _ => by simp [subtree] at hs, fun _ _ hs _ => by simp [forest] at hs⟩
  | fuel + 1, h => by
    constructor
    · intro node fp hs hnd
      obtain ⟨f, n, below, hf, hn, hb, rfl⟩ := subtree_eq_some hs
      cases hf
      obtain ⟨hnb, hndb⟩ := List.nodup_cons.1 hnd
      obtain ⟨h1, hrun, hfree⟩ := (FreeNode_FreeChildren_spec fuel h).2 _ _ hb hndb
      have hn1 : h1.node node = some n := by rw [hfree, if_neg hnb, hn]
      refine ⟨h1.free node, ?_, ?_⟩
      · rw [FreeNode, hn]
        simp only [hrun, hn1]
      · intro x
        rw [node_free, hfree]
        by_cases hx : x = node
        · simp [hx]
        · by_cases hxb : x ∈ below
          · simp [hx, hxb]
          · simp [hx, hxb]
    · intro start fp hs hnd
      cases start with
      | none =>
        rw [forest_none] at hs
        cases hs
        exact ⟨h, by rw [FreeChildren], fun x => by simp⟩
      | some child =>
        obtain ⟨f, c, s, r, hf, hn, h1, h2x, rfl⟩ := forest_eq_some hs
        cases hf
        obtain ⟨hnds, hndr, hdis⟩ := List.nodup_append.1 hnd
        obtain ⟨g1, hrun1, hfree1⟩ := (FreeNode_FreeChildren_spec fuel h).1 _ _ h1 hnds
        have hr1 : forest g1 fuel c.fNext = some r :=
          (subtree_forest_congr fuel).2 _ _ h2x (fun x hx => by
            rw [hfree1, if_neg (fun hxs => hdis hxs hx)])
        obtain ⟨g2, hrun2, hfree2⟩ := (FreeNode_FreeChildren_spec fuel g1).2 _ _ hr1 hndr
        refine ⟨g2, ?_, ?_⟩
        · rw [FreeChildren, hn]
          simp only [hrun1, hrun2]
        · intro x
          rw [hfree2, hfree1]
          by_cases hxs : x ∈ s
          · simp [hxs]
          · by_cases hxr : x ∈ r
            · simp [hxr]
            · simp [hxs, hxr]

end

section
open Mem

/-! ## Setting the content of a node -/

/-- A child sequence is the same in a heap that agrees on the parent and the children. -/
theorem Children_frame {h h2 : Heap} {p : Nat} {cs : List Nat} (hch : Children h p cs)
    (hp : h2.node p = h.node p) (hcs : ∀ x ∈ cs, h2.node x = h.node x) : Children h2 p cs := by
  obtain ⟨⟨n, hn, hchain, hlast⟩, hpl, hpn⟩ := hch
  refine ⟨⟨n, hp.trans hn, ?_, hlast⟩, ?_, hpn⟩
  · exact Chain_congr cs _ (fun x hx => next_eq_of_node_eq (hcs x hx)) hchain
  · intro x hx
    rw [hcs x hx]
    exact hpl x hx

theorem Children_allocated {h : Heap} {p x : Nat} {cs : List Nat} (hch : Children h p cs)
    (hx : x = p ∨ x ∈ cs) : h.node x ≠ none := by
  rcases hx with rfl | hx
  · obtain ⟨⟨n, hn, -, -⟩, -, -⟩ := hch
    rw [hn]
    simp
  · obtain ⟨m, hm, -⟩ := Children_node hch hx
    rw [hm]
    simp

/-- `GetNodeContent` when the first child is a Content node. -/
theorem GetNodeContent_first {h : Heap} {p c : Nat} {cs : List Nat} {m : Mem.SXmlNode_t}
    (hch : Children h p (c :: cs)) (hc : h.node c = some m)
    (hty : m.fType = EXmlNodeType.kXML_CONTENT) :
    GetNodeContent h (some p) = some (some m.name) := by
  obtain ⟨⟨n, hn, hchain, -⟩, -, -⟩ := hch
  have hfc : n.fChild = some c := hchain.1
  simp [GetNodeContent, hn, hfc, hc, hty]

/-- The end of `SetNodeContent`: a new Content node is put in front of the children. -/
theorem SetNodeContent_tail (g : Heap) (a p : Nat) (cs : List Nat) (name : List Nat)
    (hch : Children g p cs) (ha : g.node a = none) :
    ∃ h2, ((AllocateNode g a none).bind fun h =>
        (h.modify a fun c => { c with fType := EXmlNodeType.kXML_CONTENT }).bind fun h =>
        (h.modify a fun c => { c with name := name }).bind fun h =>
        AddChildFirst h (some p) (some a)) = some h2 ∧
      Children h2 p (a :: cs) ∧
      h2.node a = some ⟨EXmlNodeType.kXML_CONTENT, [], none, cs.head?, none, none, some p, name⟩ ∧
      (∀ x, x ≠ p → x ≠ a → h2.node x = g.node x) := by
  have hap : a ≠ p := fun e => Children_allocated hch (Or.inl rfl) (e ▸ ha)
  have hacs : ∀ x ∈ cs, x ≠ a := fun x hx e => Children_allocated hch (Or.inr hx) (e ▸ ha)
  have hw : ∀ (k : Heap) (u v : Mem.SXmlNode_t), (k.write a u).write a v = k.write a v := by
    intro k u v
    simp [Heap.write]
  have hch3 : Children (g.write a ⟨EXmlNodeType.kXML_CONTENT, [], none, none, none, none, none,
      name⟩) p cs :=
    Children_frame hch (node_write_ne _ _ (Ne.symm hap)) (fun x hx => node_write_ne _ _ (hacs x hx))
  obtain ⟨h2, hrun, hch2, hc2, hframe⟩ := AddChildFirst_detached _ p a cs _ hch3
    (node_write_same _ _ _) rfl hap
  refine ⟨h2, ?_, hch2, hc2, ?_⟩
  · simp only [AllocateNode, Option.some_bind, modify_of_node (node_write_same _ _ _), hw]
    exact hrun
  · intro x hxp hxa
    rw [hframe x hxp hxa, node_write_ne _ _ hxa]

/-- `SetNodeContent` on a node whose first child, if any, is not a Content node. -/
theorem SetNodeContent_fresh (fuel : Nat) (h : Heap) (a p : Nat) (cs : List Nat)
    (text : List Nat) (len : Int)
    (hch : Children h p cs) (ha : h.node a = none)
    (hfirst : ∀ c ∈ cs.head?, ∀ m, h.node c = some m → m.fType ≠ EXmlNodeType.kXML_CONTENT) :
    ∃ h2, SetNodeContent fuel h a (some p) (some text) len = some h2 ∧
      Children h2 p (a :: cs) ∧
      h2.node a = some ⟨EXmlNodeType.kXML_CONTENT, [], none, cs.head?, none, none, some p,
        text.take (if len ≤ 0 then text.length else len.toNat)⟩ ∧
      (∀ x, x ≠ p → x ≠ a → h2.node x = h.node x) := by
  obtain ⟨h2, hrun, hrest⟩ := SetNodeContent_tail h a p cs
    (text.take (if len ≤ 0 then text.length else len.toNat)) hch ha
  refine ⟨h2, ?_, hrest⟩
  have hch0 := hch
  obtain ⟨⟨n, hn, hchain, -⟩, -, -⟩ := hch
  have hhead : n.fChild = cs.head? := Chain_start hchain
  cases cs with
  | nil =>
    have hfc : n.fChild = none := by simpa using hhead
    simp only [SetNodeContent, hn, Option.some_bind, hfc]
    exact hrun
  | cons c rest =>
    have hfc : n.fChild = some c := by simpa using hhead
    obtain ⟨m, hm, -⟩ := Children_node hch0 (List.mem_cons_self c rest)
    have hty := hfirst c (by simp) m hm
    simp only [SetNodeContent, hn, Option.some_bind, hfc, hm, hty, if_false]
    exact hrun

/-- `SetNodeContent` on a node whose first child `c` is a Content node: `c` is unlinked and
freed with everything below it (the nodes `fp`), and the new Content node takes its
place. -/
theorem SetNodeContent_replace (fuel : Nat) (h : Heap) (a p c : Nat) (rest fp : List Nat)
    (m : Mem.SXmlNode_t) (text : List Nat) (len : Int)
    (hch : Children h p (c :: rest)) (hc : h.node c = some m)
    (hty : m.fType = EXmlNodeType.kXML_CONTENT)
    (hsub : subtree h fuel c = some fp) (hnd : fp.Nodup) (hpfp : p ∉ fp)
    (hrest : ∀ x ∈ rest, x ∉ fp) (ha : h.node a = none ∨ a ∈ fp) :
    ∃ h2, SetNodeContent fuel h a (some p) (some text) len = some h2 ∧
      Children h2 p (a :: rest) ∧
      h2.node a = some ⟨EXmlNodeType.kXML_CONTENT, [], none, rest.head?, none, none, some p,
        text.take (if len ≤ 0 then text.length else len.toNat)⟩ ∧
      (∀ x, x ≠ p → x ≠ a → x ∉ fp → h2.node x = h.node x) ∧
      (∀ x ∈ fp, x ≠ a → h2.node x = none) := by
  obtain ⟨h1, hrun1, hch1, -, hframe1, -, -⟩ := UnlinkNode_child h p c [] rest fuel hch
    (Nat.zero_le _)
  have hsub1 : subtree h1 fuel c = some fp :=
    (subtree_forest_congr fuel).1 _ _ hsub (fun x hx =>
      hframe1 x (fun e => hpfp (e ▸ hx)) (by simp))
  obtain ⟨h2, hrun2, hfree⟩ := (FreeNode_FreeChildren_spec fuel h1).1 _ _ hsub1 hnd
  have hch2 : Children h2 p rest :=
    Children_frame (by simpa using hch1) (by rw [hfree, if_neg hpfp])
      (fun x hx => by rw [hfree, if_neg (hrest x hx)])
  have hap : a ≠ p := by
    rcases ha with ha | ha
    · exact fun e => Children_allocated hch (Or.inl rfl) (e ▸ ha)
    · exact fun e => hpfp (e ▸ ha)
  have ha2 : h2.node a = none := by
    rw [hfree]
    by_cases hx : a ∈ fp
    · rw [if_pos hx]
    · rw [if_neg hx, hframe1 a hap (by simp)]
      exact ha.resolve_right hx
  obtain ⟨h3, hrun3, hch3, hc3, hframe3⟩ := SetNodeContent_tail h2 a p rest
    (text.take (if len ≤ 0 then text.length else len.toNat)) hch2 ha2
  refine ⟨h3, ?_, hch3, hc3, ?_, ?_⟩
  · obtain ⟨⟨n, hn, hchain, -⟩, -, -⟩ := id hch
    have hfc : n.fChild = some c := hchain.1
    simp only [SetNodeContent, hn, Option.some_bind, hfc, hc, hty, if_true, UnlinkFreeNode,
      hrun1, hrun2]
    exact hrun3
  · intro x hxp hxa hxfp
    rw [hframe3 x hxp hxa, hfree, if_neg hxfp, hframe1 x hxp (by simp)]
  · intro x hx hxa
    rw [hframe3 x (fun e => hpfp (e ▸ hx)) hxa, hfree, if_pos hx]

/-- The nodes below a node without children are the node alone. -/
theorem subtree_leaf {h : Heap} {c : Nat} {m : Mem.SXmlNode_t} (hc : h.node c = some m)
    (hleaf : m.fChild = none) (fuel : Nat) : subtree h (fuel + 2) c = some [c] := by
  rw [subtree_of_node hc, hleaf, forest_none]
  rfl

end

section
open Mem

/-! ## What `SetNodeContent` leaves -/

/-- `SetNodeContent(p, text, len)` for a node with the child sequence `cs`: a first child
that is a Content node is unlinked and freed, and the new Content node is put in front of
the children that are kept, which stay as they are. -/
theorem SetNodeContent_spec (fuel : Nat) (h : Heap) (a p : Nat) (cs : List Nat)
    (text : List Nat) (len : Int) (hch : Children h p cs) (ha : h.node a = none)
    (hfree : ∀ c rest, cs = c :: rest →
      (h.node c).map (fun m => m.fType) = some EXmlNodeType.kXML_CONTENT →
      ∃ fp, subtree h fuel c = some fp ∧ fp.Nodup ∧ p ∉ fp ∧ ∀ x ∈ rest, x ∉ fp) :
    ∃ h2, SetNodeContent fuel h a (some p) (some text) len = some h2 ∧
      Children h2 p (a :: keptChildren h cs) ∧
      h2.node a = some ⟨EXmlNodeType.kXML_CONTENT, [], none, (keptChildren h cs).head?, none,
        none, some p, text.take (if len ≤ 0 then text.length else len.toNat)⟩ ∧
      (∀ x ∈ keptChildren h cs, h2.node x = h.node x) := by
  have hap : a ≠ p := fun e => Children_allocated hch (Or.inl rfl) (e ▸ ha)
  have hacs : ∀ x ∈ cs, x ≠ a := fun x hx e => Children_allocated hch (Or.inr hx) (e ▸ ha)
  have hpcs : ∀ x ∈ cs, x ≠ p := fun x hx e => hch.2.2 (e ▸ hx)
  cases cs with
  | nil =>
    obtain ⟨h2, hrun, hch2, hc2, -⟩ := SetNodeContent_fresh fuel h a p [] text len hch ha
      (by simp)
    exact ⟨h2, hrun, hch2, hc2, by simp [keptChildren]⟩
  | cons c rest =>
    obtain ⟨m, hm, -⟩ := Children_node hch (List.mem_cons_self c rest)
    by_cases hty : m.fType = EXmlNodeType.kXML_CONTENT
    · have hk : keptChildren h (c :: rest) = rest := by simp [keptChildren, hm, hty]
      obtain ⟨fp, hsub, hnd, hpfp, hrest⟩ := hfree c rest rfl (by simp [hm, hty])
      obtain ⟨h2, hrun, hch2, hc2, hframe, -⟩ := SetNodeContent_replace fuel h a p c rest fp m
        text len hch hm hty hsub hnd hpfp hrest (Or.inl ha)
      rw [hk]
      refine ⟨h2, hrun, hch2, hc2, fun x hx => ?_⟩
      exact hframe x (hpcs x (List.mem_cons_of_mem _ hx)) (hacs x (List.mem_cons_of_mem _ hx))
        (hrest x hx)
    · have hk : keptChildren h (c :: rest) = c :: rest := by simp [keptChildren, hm, hty]
      obtain ⟨h2, hrun, hch2, hc2, hframe⟩ := SetNodeContent_fresh fuel h a p (c :: rest) text
        len hch ha (fun d hd k hk2 => by
          have : c = d := by simpa using hd
          subst this
          rw [hm] at hk2
          cases hk2
          exact hty)
      rw [hk]
      exact ⟨h2, hrun, hch2, hc2, fun x hx => hframe x (hpcs x hx) (hacs x hx)⟩

end

section
open Mem

/-! ## The content of a new child -/

/-- `AllocateNode(len, parent)` at a fresh address: the new node is the last child of the
parent, and the nodes that are not allocated stay so. -/
theorem AllocateNode_fresh (g : Heap) (a : Nat) (parent : Option Nat)
    (ha : g.node a = none) (hparent : ∀ q ∈ parent, ∃ qs, Children g q qs) :
    ∃ h1, AllocateNode g a parent = some h1 ∧
      h1.node a = some ⟨EXmlNodeType.kXML_NODE, [], none, none, none, none, parent, []⟩ ∧
      (∀ x, g.node x = none → x ≠ a → h1.node x = none) ∧
      (∀ q ∈ parent, ∀ qs, Children g q qs → Children h1 q (qs ++ [a])) := by
  cases parent with
  | none =>
    exact ⟨_, rfl, node_write_same _ _ _, fun x hx hxa => by rw [node_write_ne _ _ hxa, hx],
      by simp⟩
  | some q =>
    obtain ⟨qs, hch⟩ := hparent q rfl
    have haq : a ≠ q := fun e => Children_allocated hch (Or.inl rfl) (e ▸ ha)
    have haqs : ∀ x ∈ qs, x ≠ a := fun x hx e => Children_allocated hch (Or.inr hx) (e ▸ ha)
    have hch1 : Children (g.write a ⟨EXmlNodeType.kXML_NODE, [], none, none, none, none, none,
        []⟩) q qs :=
      Children_frame hch (node_write_ne _ _ (Ne.symm haq))
        (fun x hx => node_write_ne _ _ (haqs x hx))
    obtain ⟨h1, hrun, hch2, hc2, hframe⟩ := AddChild_detached _ q a qs _ hch1
      (node_write_same _ _ _) rfl rfl haq
    refine ⟨h1, hrun, hc2, ?_, ?_⟩
    · intro x hx hxa
      have hxq : x ≠ q := fun e => Children_allocated hch (Or.inl rfl) (e ▸ hx)
      have hxl : x ∉ qs.getLast? := by
        intro hl
        have hl2 : qs.getLast? = some x := by simpa using hl
        obtain ⟨ys, rfl⟩ := List.getLast?_eq_some_iff.1 hl2
        exact Children_allocated hch (Or.inr (by simp)) hx
      rw [hframe x hxq hxa hxl, node_write_ne _ _ hxa, hx]
    · intro q2 hq2 qs2 hch3
      have : q = q2 := by simpa using hq2
      subst this
      obtain ⟨⟨n, hn, hc, -⟩, -, -⟩ := id hch
      obtain ⟨⟨n2, hn2, hc3, -⟩, -, -⟩ := id hch3
      rw [hn] at hn2
      cases hn2
      rw [Chain_unique _ _ _ hc3 hc]
      exact hch2

/-- `GetNodeContent` of the node that `NewChild` makes with a content that is not empty. -/
theorem GetNodeContent_NewChild (g : Heap) (a b : Nat) (parent : Option Nat)
    (ns : Option NsPtr) (name : Option (List Nat)) (s : List Nat) (hs : s ≠ [])
    (ha : g.node a = none) (hb : g.node b = none) (hab : a ≠ b)
    (hparent : ∀ q ∈ parent, ∃ qs, Children g q qs) :
    ∃ h2, NewChild g a b parent ns name (some s) = some h2 ∧
      GetNodeContent h2 (some a) = some (some s) ∧ Children h2 a [b] := by
  obtain ⟨h1, hrun1, ha1, hfresh1, -⟩ := AllocateNode_fresh g a parent ha hparent
  have hw : ∀ (k : Heap) (x : Nat) (u v : Mem.SXmlNode_t),
      (k.write x u).write x v = k.write x v := by
    intro k x u v
    simp [Heap.write]
  have hb3 : (h1.write a ⟨EXmlNodeType.kXML_NODE, [], ns, none, none, none, parent,
      name.getD []⟩).node b = none := by
    rw [node_write_ne _ _ (Ne.symm hab)]
    exact hfresh1 b hb (Ne.symm hab)
  have hch3 : Children (h1.write a ⟨EXmlNodeType.kXML_NODE, [], ns, none, none, none, parent,
      name.getD []⟩) a [] :=
    ⟨⟨_, node_write_same _ _ _, rfl, rfl⟩, by simp, by simp⟩
  obtain ⟨h4, hrun4, hb4, -, hch4⟩ := AllocateNode_fresh _ b (some a) hb3
    (fun q hq => ⟨[], by
      have : a = q := by simpa using hq
      subst this
      exact hch3⟩)
  have hch5 : Children h4 a [b] := by simpa using hch4 a rfl [] hch3
  have hch6 : Children ((h4.write b ⟨EXmlNodeType.kXML_CONTENT, [], none, none, none, none,
      some a, s⟩)) a [b] := by
    obtain ⟨⟨n, hn, hc, hl⟩, -, hp⟩ := id hch5
    refine ⟨⟨n, by rw [node_write_ne _ _ hab, hn], ⟨hc.1, none, ?_, rfl⟩, hl⟩, ?_, hp⟩
    · rw [next_write, if_pos rfl]
    · intro x hx
      have : x = b := by simpa using hx
      subst this
      rw [node_write_same]
      rfl
  refine ⟨_, ?_, GetNodeContent_first hch6 (node_write_same _ _ _) rfl, hch6⟩
  have hlen : (s.length > 0) := List.length_pos.2 hs
  simp only [NewChild, hrun1, Option.some_bind, modify_of_node ha1,
    modify_of_node (node_write_same _ _ _), hw, Option.getD_some, hlen, if_true, hrun4,
    modify_of_node hb4]

end

section
open Mem

/-! ## Content after `SetNodeContent` -/

/-- C17 (get after set): for a node `p` with the child sequence `cs` and a text `s`, with a
length argument that is not positive, `SetNodeContent(p, s)` returns and `GetNodeContent(p)`
is then `s`; the children other than a replaced first Content node follow the new Content
node in their order and are unchanged. For a text `s` that is not empty
`GetNodeContent(NewChild(parent, ns, name, s))` is `s`. `GetNodeContent` returns null for a
node without children and for a node whose first child is not a Content node. -/
theorem GetNodeContent_after_SetNodeContent (fuel : Nat) (h : Heap) (a p : Nat)
    (cs : List Nat) (s : List Nat) (len : Int) (hlen : len ≤ 0)
    (hch : Children h p cs) (ha : h.node a = none)
    (hfree : ∀ c rest, cs = c :: rest →
      (h.node c).map (fun m => m.fType) = some EXmlNodeType.kXML_CONTENT →
      ∃ fp, subtree h fuel c = some fp ∧ fp.Nodup ∧ p ∉ fp ∧ ∀ x ∈ rest, x ∉ fp) :
    (∃ h2, SetNodeContent fuel h a (some p) (some s) len = some h2 ∧
      GetNodeContent h2 (some p) = some (some s) ∧
      Children h2 p (a :: keptChildren h cs) ∧
      ∀ x ∈ keptChildren h cs, h2.node x = h.node x) ∧
    (∀ (g : Heap) (n b : Nat) (parent : Option Nat) (ns : Option NsPtr)
      (name : Option (List Nat)), s ≠ [] → g.node n = none → g.node b = none → n ≠ b →
      (∀ q ∈ parent, ∃ qs, Children g q qs) →
      ∃ h2, NewChild g n b parent ns name (some s) = some h2 ∧
        GetNodeContent h2 (some n) = some (some s)) ∧
    (∀ (g : Heap) (q : Nat) (n : Mem.SXmlNode_t), g.node q = some n → n.fChild = none →
      GetNodeContent g (some q) = some none) ∧
    (∀ (g : Heap) (q c : Nat) (n m : Mem.SXmlNode_t), g.node q = some n →
      n.fChild = some c → g.node c = some m → m.fType ≠ EXmlNodeType.kXML_CONTENT →
      GetNodeContent g (some q) = some none) := by
  refine ⟨?_, ?_, ?_, ?_⟩
  · obtain ⟨h2, hrun, hch2, hc2, hframe⟩ := SetNodeContent_spec fuel h a p cs s len hch ha hfree
    refine ⟨h2, hrun, ?_, hch2, hframe⟩
    rw [GetNodeContent_first hch2 hc2 rfl]
    simp [hlen]
  · intro g n b parent ns name hs hn hb hnb hparent
    obtain ⟨h2, hrun, hget, -⟩ := GetNodeContent_NewChild g n b parent ns name s hs hn hb hnb
      hparent
    exact ⟨h2, hrun, hget⟩
  · intro g q n hn hc
    simp [GetNodeContent, hn, hc]
  · intro g q c n m hn hc hm hty
    simp [GetNodeContent, hn, hc, hm, hty]

theorem GetNodeContent_after_SetNodeContent_witness :
    ∃ h2, SetNodeContent 2
        (((Heap.empty.write 1 ⟨EXmlNodeType.kXML_NODE, [], none, none, some 2, some 3, none,
            bytes "p"⟩).write 2 ⟨EXmlNodeType.kXML_CONTENT, [], none, some 3, none, none,
            some 1, bytes "x"⟩).write 3 ⟨EXmlNodeType.kXML_NODE, [], none, none, none, none,
            some 1, bytes "b"⟩) 4 (some 1) (some (bytes "s")) 0 = some h2 ∧
      GetNodeContent h2 (some 1) = some (some (bytes "s")) ∧
      Children h2 1 (4 :: keptChildren
        (((Heap.empty.write 1 ⟨EXmlNodeType.kXML_NODE, [], none, none, some 2, some 3, none,
            bytes "p"⟩).write 2 ⟨EXmlNodeType.kXML_CONTENT, [], none, some 3, none, none,
            some 1, bytes "x"⟩).write 3 ⟨EXmlNodeType.kXML_NODE, [], none, none, none, none,
            some 1, bytes "b"⟩) [2, 3]) ∧
      ∀ x ∈ keptChildren
        (((Heap.empty.write 1 ⟨EXmlNodeType.kXML_NODE, [], none, none, some 2, some 3, none,
            bytes "p"⟩).write 2 ⟨EXmlNodeType.kXML_CONTENT, [], none, some 3, none, none,
            some 1, bytes "x"⟩).write 3 ⟨EXmlNodeType.kXML_NODE, [], none, none, none, none,
            some 1, bytes "b"⟩) [2, 3],
        h2.node x = (((Heap.empty.write 1 ⟨EXmlNodeType.kXML_NODE, [], none, none, some 2,
            some 3, none, bytes "p"⟩).write 2 ⟨EXmlNodeType.kXML_CONTENT, [], none, some 3, none,
            none, some 1, bytes "x"⟩).write 3 ⟨EXmlNodeType.kXML_NODE, [], none, none, none,
            none, some 1, bytes "b"⟩).node x :=
  (GetNodeContent_after_SetNodeContent 2 _ 4 1 [2, 3] (bytes "s") 0 (by decide) (by decide)
    (by decide) (fun c rest hcs _ => by
      cases hcs
      exact ⟨[2], by decide, by decide, by decide, by decide⟩)).1

end

section
open Mem

/-! ## Leading Content nodes -/

/-- C16 (leading Content node, amended): `SetNodeContent(p, s)` takes away one first child
when that is a Content node and puts a new Content node with the text `s` in front. The
first child is then this node, and the second child, if any, is the first of the children
that are kept, unchanged: it is not a Content node when the children did not start with two
Content nodes before the call. -/
theorem SetNodeContent_leading_content (fuel : Nat) (h : Heap) (a p : Nat)
    (cs : List Nat) (s : List Nat) (len : Int)
    (hch : Children h p cs) (ha : h.node a = none)
    (hfree : ∀ c rest, cs = c :: rest →
      (h.node c).map (fun m => m.fType) = some EXmlNodeType.kXML_CONTENT →
      ∃ fp, subtree h fuel c = some fp ∧ fp.Nodup ∧ p ∉ fp ∧ ∀ x ∈ rest, x ∉ fp) :
    ∃ h2, SetNodeContent fuel h a (some p) (some s) len = some h2 ∧
      Children h2 p (a :: keptChildren h cs) ∧
      (h2.node a).map (fun m => (m.fType, m.name)) =
        some (EXmlNodeType.kXML_CONTENT, s.take (if len ≤ 0 then s.length else len.toNat)) ∧
      (∀ d ∈ (keptChildren h cs).head?, h2.node d = h.node d) ∧
      ((∀ c d tl, cs = c :: d :: tl →
          (h.node c).map (fun m => m.fType) = some EXmlNodeType.kXML_CONTENT →
          (h.node d).map (fun m => m.fType) ≠ some EXmlNodeType.kXML_CONTENT) →
        ∀ d ∈ (keptChildren h cs).head?,
          (h2.node d).map (fun m => m.fType) ≠ some EXmlNodeType.kXML_CONTENT) := by
  obtain ⟨h2, hrun, hch2, hc2, hframe⟩ := SetNodeContent_spec fuel h a p cs s len hch ha hfree
  have hsecond : ∀ d ∈ (keptChildren h cs).head?, h2.node d = h.node d := by
    intro d hd
    refine hframe d ?_
    cases hk : keptChildren h cs with
    | nil => rw [hk] at hd; simp at hd
    | cons e es =>
      rw [hk] at hd
      have : e = d := by simpa using hd
      subst this
      simp
  refine ⟨h2, hrun, hch2, by rw [hc2]; rfl, hsecond, ?_⟩
  intro htwo d hd
  rw [hsecond d hd]
  cases cs with
  | nil => simp [keptChildren] at hd
  | cons c rest =>
    by_cases hty : (h.node c).map (fun m => m.fType) = some EXmlNodeType.kXML_CONTENT
    · have hk : keptChildren h (c :: rest) = rest := by simp only [keptChildren, hty, if_true]
      rw [hk] at hd
      cases rest with
      | nil => simp at hd
      | cons e es =>
        have : e = d := by simpa using hd
        subst this
        exact htwo c e es rfl hty
    · have hk : keptChildren h (c :: rest) = c :: rest := by
        simp only [keptChildren, hty, if_false]
      rw [hk] at hd
      have : c = d := by simpa using hd
      subst this
      exact hty

theorem SetNodeContent_leading_content_witness :
    ∃ h2, SetNodeContent 2
        (((Heap.empty.write 1 ⟨EXmlNodeType.kXML_NODE, [], none, none, some 2, some 3, none,
            bytes "p"⟩).write 2 ⟨EXmlNodeType.kXML_CONTENT, [], none, some 3, none, none,
            some 1, bytes "x"⟩).write 3 ⟨EXmlNodeType.kXML_NODE, [], none, none, none, none,
            some 1, bytes "b"⟩) 4 (some 1) (some (bytes "s")) 0 = some h2 ∧
      Children h2 1 [4, 3] ∧
      (h2.node 4).map (fun m => (m.fType, m.name)) =
        some (EXmlNodeType.kXML_CONTENT, bytes "s") ∧
      (h2.node 3).map (fun m => m.fType) = some EXmlNodeType.kXML_NODE := by
  obtain ⟨h2, hrun, hch, ha, hsame, -⟩ := SetNodeContent_leading_content 2
    (((Heap.empty.write 1 ⟨EXmlNodeType.kXML_NODE, [], none, none, some 2, some 3, none,
        bytes "p"⟩).write 2 ⟨EXmlNodeType.kXML_CONTENT, [], none, some 3, none, none,
        some 1, bytes "x"⟩).write 3 ⟨EXmlNodeType.kXML_NODE, [], none, none, none, none,
        some 1, bytes "b"⟩) 4 1 [2, 3] (bytes "s") 0 (by decide) (by decide)
    (fun c rest hcs _ => by
      cases hcs
      exact ⟨[2], by decide, by decide, by decide, by decide⟩)
  exact ⟨h2, hrun, hch, ha, by rw [hsame 3 (by decide)]; decide⟩

/-- C16 (counterexample): the node `n` gets the Content children `x` and `y` from two calls
of `AddNodeContent`. `SetNodeContent(n, "s")` then frees `x` only: the children are the new
Content node `s` and, in second place, the Content node `y`. -/
theorem SetNodeContent_second_content :
    (nodeTwoContents.map fun h => decide (Children h 1 [2, 3])) = some true ∧
    (nodeTwoContents.bind fun h =>
      (SetNodeContent 10 h 4 (some 1) (some (bytes "s")) 0).map fun h2 =>
        decide (Children h2 1 [4, 3])) = some true ∧
    (nodeTwoContents.bind fun h =>
      (SetNodeContent 10 h 4 (some 1) (some (bytes "s")) 0).map fun h2 =>
        (h2.node 4).map fun m => (m.fType, m.name)) =
      some (some (EXmlNodeType.kXML_CONTENT, bytes "s")) ∧
    (nodeTwoContents.bind fun h =>
      (SetNodeContent 10 h 4 (some 1) (some (bytes "s")) 0).map fun h2 =>
        (h2.node 3).map fun m => (m.fType, m.name)) =
      some (some (EXmlNodeType.kXML_CONTENT, bytes "y")) := by
  refine ⟨by decide, by decide, by decide, by decide⟩

end

section
open TXMLEngine

/-! ## The namespace attribute that `NewNS` makes -/

/-- C22 (namespace attribute first): after `NewNS(node, ref, name)` the attribute list of
the node starts with the attribute named `xmlns:` followed by `name` (the name of the node
when `name` is null) with the value `ref`, followed by the attributes the node had, in their
order; `GetNS` returns the pointer to this first attribute, `GetNSName` of it is the name
without `xmlns:` and `GetNSReference` is `ref`. -/
theorem NewNS_first (xmlnode : SXmlNode_t) (reference : List Nat) (name : Option (List Nat)) :
    (NewNS xmlnode reference name).fAttr =
      ⟨bytes "xmlns:" ++ name.getD xmlnode.fName, reference⟩ :: xmlnode.fAttr ∧
    GetNS (NewNS xmlnode reference name) = some (NsPtr.own 0) ∧
    (NewNS xmlnode reference name).nsAttr =
      some ⟨bytes "xmlns:" ++ name.getD xmlnode.fName, reference⟩ ∧
    GetNSName (NewNS xmlnode reference name).nsAttr = some (name.getD xmlnode.fName) ∧
    GetNSReference (NewNS xmlnode reference name).nsAttr = some reference ∧
    (NewNS xmlnode reference name).fName = xmlnode.fName ∧
    (NewNS xmlnode reference name).fChild = xmlnode.fChild := by
  have hattr : (NewNS xmlnode reference name).nsAttr =
      some ⟨bytes "xmlns:" ++ name.getD xmlnode.fName, reference⟩ := by
    simp [NewNS, SXmlNode_t.nsAttr, SXmlNode_t.fNs, SXmlNode_t.fAttr]
  refine ⟨rfl, rfl, hattr, ?_, ?_, rfl, rfl⟩
  · rw [hattr]
    have h6 : (bytes "xmlns:").length = 6 := by decide
    simp only [GetNSName, GetAttrName, Option.map_some']
    rw [show (bytes "xmlns:" ++ name.getD xmlnode.fName).take 6 = bytes "xmlns:" by
      rw [← h6, List.take_left], if_pos rfl, ← h6, List.drop_left]
  · rw [hattr]
    rfl

end

section
open TXMLEngine

/-! ## The xml declaration of a document -/

theorem ValidateVersion_NewDoc_some (v : List Nat) (version : Option (List Nat)) :
    ValidateVersion (some (NewDoc (some v))) version = decide (version.getD (bytes "1.0") = v) := by
  simp [ValidateVersion, NewDoc, NewChild, NewAttr, AddChild, GetAttr, SXmlNode_t.fChild,
    SXmlNode_t.fType, SXmlNode_t.fName, SXmlNode_t.fAttr, SXmlNode_t.fNs]

/-- C23 (xml declaration): for every version string `v`, `ValidateVersion(NewDoc(v), v)` is
true, and `ValidateVersion(NewDoc(v), nullptr)` is true exactly when `v` is `1.0`.
`ValidateVersion` is false for the null document, for `NewDoc(nullptr)`, and for every
document whose first top-level node is not a processing instruction named `xml` with an
attribute `version`. -/
theorem ValidateVersion_NewDoc (v : List Nat) :
    ValidateVersion (some (NewDoc (some v))) (some v) = true ∧
    (ValidateVersion (some (NewDoc (some v))) none = true ↔ v = bytes "1.0") ∧
    (∀ version, ValidateVersion (some (NewDoc none)) version = false) ∧
    (∀ version, ValidateVersion none version = false) ∧
    (∀ (doc : SXmlDoc_t) (version : Option (List Nat)),
      (∀ n ∈ doc.fRootNode.fChild.head?, ¬ (n.fType = EXmlNodeType.kXML_PI_NODE ∧
        n.fName = bytes "xml" ∧ ∃ a ∈ n.fAttr, a.name = bytes "version")) →
      ValidateVersion (some doc) version = false) := by
  refine ⟨?_, ?_, ?_, fun _ => rfl, ?_⟩
  · rw [ValidateVersion_NewDoc_some]
    simp
  · rw [ValidateVersion_NewDoc_some]
    simp only [Option.getD_none, decide_eq_true_eq]
    exact eq_comm
  · intro version
    rfl
  · intro doc version hfirst
    cases hh : doc.fRootNode.fChild.head? with
    | none => simp [ValidateVersion, hh]
    | some n =>
      by_cases hty : n.fType = EXmlNodeType.kXML_PI_NODE
      · by_cases hnm : n.fName = bytes "xml"
        · cases hg : GetAttr n (bytes "version") with
          | none => simp [ValidateVersion, hh, hty, hnm, hg]
          | some value =>
            exfalso
            unfold GetAttr at hg
            obtain ⟨a, ha, -⟩ := Option.map_eq_some'.1 hg
            have hmem := List.mem_of_find?_eq_some ha
            have hname := List.find?_some ha
            exact hfirst n (by rw [hh]; simp) ⟨hty, hnm, a, hmem, by simpa using hname⟩
        · simp [ValidateVersion, hh, hty, hnm]
      · simp [ValidateVersion, hh, hty]

theorem ValidateVersion_NewDoc_witness :
    ValidateVersion (some (NewDoc (some (bytes "1.0")))) none = true ∧
    ValidateVersion (some ⟨AddChild (NewChild none (bytes "??DummyTopNode??") none)
      (NewChild none (bytes "a") none), none, none⟩) (some (bytes "1.0")) = false :=
  ⟨(ValidateVersion_NewDoc (bytes "1.0")).2.1.2 rfl,
    (ValidateVersion_NewDoc (bytes "1.0")).2.2.2.2 _ _ (by decide)⟩

end

section
open TXMLEngine TXMLInputStream

/-! ## The top-level nodes of a parsed document -/

theorem unpacked_fType (t : SXmlNode_t) : (unpacked t).fType = t.fType := by
  cases t with
  | mk ty nm attrs ns ch => simp [unpacked, SXmlNode_t.fType]

theorem filter_unpackedList_plain (sg : Bool) :
    ∀ cs : List SXmlNode_t, plainList sg cs = true →
      (unpackedList cs).filter (fun n => n.fType == EXmlNodeType.kXML_NODE) = unpackedList cs ∧
      (unpackedList cs).length = cs.length
  | [], _ => by simp [unpackedList]
  | c :: cs, hp => by
    obtain ⟨hc, hcs⟩ := plainList_cons hp
    obtain ⟨ih1, ih2⟩ := filter_unpackedList_plain sg cs hcs
    have hty : (unpacked c).fType = EXmlNodeType.kXML_NODE := by
      rw [unpacked_fType]
      exact plain_fType hc
    simp [unpackedList, List.filter_cons, hty, ih1, ih2]

/-- C27 (top-level shape, amended): the parser reads top-level nodes until the input ends
and takes every one of them. For a text that consists of `k` elements behind each other
(`k` at least 1) `ParseString` returns the document whose synthetic root has exactly these
`k` Element nodes as its children, so there is one content root only when the text has
one. -/
theorem ParseString_top_level_elements (eng : TXMLEngine) (lay : Bool) (cs : List SXmlNode_t)
    (hp : plainList eng.charSigned cs = true) (hne : cs ≠ []) :
    ∃ doc, ParseString eng (childrenText lay 0 cs) = ParseResult.ok doc ∧
      doc.fRootNode.fChild = unpackedList cs ∧
      (doc.fRootNode.fChild.filter fun n => n.fType == EXmlNodeType.kXML_NODE).length =
        cs.length := by
  obtain ⟨h1, h2⟩ := filter_unpackedList_plain eng.charSigned cs hp
  refine ⟨_, ParseString_plain eng lay cs hp hne, rfl, ?_⟩
  simp only [SXmlNode_t.fChild]
  rw [h1, h2]

theorem ParseString_top_level_elements_witness :
    ∃ doc, ParseString ⟨false, true, 0, fun _ => none⟩
        (childrenText false 0 [NewChild none (bytes "a") none, NewChild none (bytes "b") none,
          NewChild none (bytes "c") none]) = ParseResult.ok doc ∧
      doc.fRootNode.fChild = unpackedList [NewChild none (bytes "a") none,
        NewChild none (bytes "b") none, NewChild none (bytes "c") none] ∧
      (doc.fRootNode.fChild.filter fun n => n.fType == EXmlNodeType.kXML_NODE).length =
        [NewChild none (bytes "a") none, NewChild none (bytes "b") none,
          NewChild none (bytes "c") none].length :=
  ParseString_top_level_elements ⟨false, true, 0, fun _ => none⟩ false _ (by decide) (by decide)

/-- C27 (counterexample): `<a/><b/>` is parsed to a document with two Element nodes at the
top level, and `<?xml version="1.0"?>` to a document with none. -/
theorem ParseString_two_roots :
    ParseString ⟨false, true, 0, fun _ => none⟩ (bytes "<a/><b/>") =
      ParseResult.ok ⟨SXmlNode_t.mk EXmlNodeType.kXML_NODE (bytes "??DummyTopNode??") [] none
        [SXmlNode_t.mk EXmlNodeType.kXML_NODE (bytes "a") [] none [],
          SXmlNode_t.mk EXmlNodeType.kXML_NODE (bytes "b") [] none []], none, none⟩ ∧
    ParseString ⟨false, true, 0, fun _ => none⟩ (bytes "<?xml version=\"1.0\"?>") =
      ParseResult.ok ⟨SXmlNode_t.mk EXmlNodeType.kXML_NODE (bytes "??DummyTopNode??") [] none
        [SXmlNode_t.mk EXmlNodeType.kXML_PI_NODE (bytes "xml")
          [⟨bytes "version", bytes "1.0"⟩] none []], none, none⟩ := by
  constructor <;> decide!

end

section
open TXMLEngine TXMLInputStream

/-! ## Round trip of a plain text -/

theorem asciiLetter_good {b : Nat} (h : asciiLetter b = true) : GoodStartSymbol b = true := by
  simp only [asciiLetter, Bool.or_eq_true, Bool.and_eq_true, decide_eq_true_eq] at h
  simp only [GoodStartSymbol, Bool.or_eq_true, Bool.and_eq_true, decide_eq_true_eq,
    beq_iff_eq]
  omega

theorem asciiLetter_range {b : Nat} (h : asciiLetter b = true) : 65 ≤ b ∧ b ≤ 122 := by
  simp only [asciiLetter, Bool.or_eq_true, Bool.and_eq_true, decide_eq_true_eq] at h
  omega

theorem spaceByte_printable (sg : Bool) {b : Nat} (h1 : 33 ≤ b) (h2 : b ≤ 126) :
    spaceByte sg b = false := by
  have h3 : ¬ (b ≥ 128 ∧ sg = true) := by omega
  have h4 : ((b : Int) > 26) := by omega
  have h5 : b ≠ 32 := by omega
  simp [spaceByte, h3, h4, h5]

/-- An ASCII identifier is a name that the parser reads back, on every platform. -/
theorem asciiIdent_isName (sg : Bool) {n : List Nat} (h : asciiIdent n = true) :
    isName sg n = true := by
  cases n with
  | nil => simp [asciiIdent] at h
  | cons c cs =>
    simp only [asciiIdent, Bool.and_eq_true, Bool.or_eq_true, beq_iff_eq, List.all_eq_true,
      decide_eq_true_eq] at h
    obtain ⟨hc, hcs⟩ := h
    have hg : GoodStartSymbol c = true := by
      rcases hc with hc | hc
      · exact asciiLetter_good hc
      · subst hc; decide
    have hs : spaceByte sg c = false := by
      rcases hc with hc | hc
      · have := asciiLetter_range hc
        exact spaceByte_printable sg (by omega) (by omega)
      · subst hc
        exact spaceByte_printable sg (by decide) (by decide)
    simp only [isName, Bool.and_eq_true, Bool.not_eq_true', List.all_eq_true]
    refine ⟨⟨hg, hs⟩, fun b hb => ?_⟩
    rcases hcs b hb with (((h1 | h1) | h1) | h1) | h1
    · exact GoodStart_GoodNext (asciiLetter_good h1)
    · simp only [GoodNextSymbol, Bool.or_eq_true, Bool.and_eq_true, decide_eq_true_eq,
        beq_iff_eq]
      omega
    · subst h1; decide
    · subst h1; decide
    · subst h1; decide

/-- An ASCII identifier holds no colon. -/
theorem asciiIdent_no_colon {n : List Nat} (h : asciiIdent n = true) : 58 ∉ n := by
  cases n with
  | nil => simp
  | cons c cs =>
    simp only [asciiIdent, Bool.and_eq_true, Bool.or_eq_true, beq_iff_eq, List.all_eq_true,
      decide_eq_true_eq] at h
    obtain ⟨hc, hcs⟩ := h
    intro hm
    rcases List.mem_cons.1 hm with e | hm2
    · rcases hc with hc | hc
      · rw [← e] at hc; exact absurd hc (by decide)
      · omega
    · rcases hcs 58 hm2 with (((h1 | h1) | h1) | h1) | h1
      · exact absurd h1 (by decide)
      · omega
      · omega
      · omega
      · omega

end

section
open Mem

/-! ## Replacing the root element of a document -/

/-- C21 (failing input): the document has the root element `a` (address 2) as the only
child of the synthetic root (address 1), and `n` (address 3) is a detached element.
`DocSetRootElement(doc, n)` frees `a` with `FreeNode` without unlinking it: the synthetic
root keeps `a` as its first and last child, and `AddChild` then writes the `fNext` of the
freed node: the call has no defined result (`none`). For a document without a root
element (`NewDoc("1.0")`) the call returns and `DocGetRootElement` gives `n`. -/
theorem DocSetRootElement_dangling :
    (docWithRoot.map fun d => decide (Children d.2 1 [2])) = some true ∧
    (docWithRoot.map fun d => (d.1.fRootNode, isElement d.2 2, (d.2.node 3).map fun n =>
      (n.fParent, n.fNext))) = some (some 1, true, some (none, none)) ∧
    (docWithRoot.bind fun d => DocGetRootElement 10 d.2 (some d.1)) = some (some 2) ∧
    (docWithRoot.bind fun d => (FreeNode 10 d.2 (some 2)).map fun h1 =>
      (h1.node 2, (h1.node 1).map fun n => (n.fChild, n.fLastChild))) =
      some (none, some (some 2, some 2)) ∧
    (docWithRoot.bind fun d => (FreeNode 10 d.2 (some 2)).map fun h1 =>
      (AddChild h1 (some 1) (some 3)).isSome) = some false ∧
    (docWithRoot.map fun d => (DocSetRootElement 10 d.2 (some d.1) (some 3)).isSome) =
      some false ∧
    ((NewDoc Heap.empty 1 2 (some (bytes "1.0"))).bind fun d =>
      (NewChild d.2 3 0 none none (some (bytes "n")) none).bind fun h =>
      (DocSetRootElement 10 h (some d.1) (some 3)).bind fun h2 =>
      (DocGetRootElement 10 h2 (some d.1)).map fun r =>
        (r, decide (Children h2 1 [2, 3]))) = some (some 3, true) := by
  refine ⟨by decide, by decide, by decide, by decide, by decide, by decide, by decide⟩

end

section
open Mem

/-! ## Navigation that skips the nodes that are not elements -/

theorem isElement_of_node {h : Heap} {x : Nat} {m : Mem.SXmlNode_t} (hx : h.node x = some m) :
    isElement h x = decide (m.fType = EXmlNodeType.kXML_NODE) := by
  simp only [isElement, hx, Option.map_some']
  by_cases hty : m.fType = EXmlNodeType.kXML_NODE <;> simp [hty]

/-- `ShiftToNext(n, true)` along a chain of siblings: the first Element behind `n`. -/
theorem ShiftToNext_true {h : Heap} :
    ∀ (post : List Nat) (n : Nat) (fuel : Nat), Chain h (some n) (n :: post) →
      post.length + 1 ≤ fuel →
      ShiftToNext h true fuel (some n) = some (post.find? (isElement h))
  | [], n, fuel, hc, hf => by
    obtain ⟨f, rfl⟩ : ∃ f, fuel = f + 1 := ⟨fuel - 1, by omega⟩
    obtain ⟨-, nx, hn, hr⟩ := hc
    obtain ⟨m, hm, hmn⟩ := next_eq_some hn
    have : nx = none := hr
    subst this
    simp [ShiftToNext, hm, hmn]
  | d :: post, n, fuel, hc, hf => by
    obtain ⟨f, rfl⟩ : ∃ f, fuel = f + 1 := ⟨fuel - 1, by omega⟩
    obtain ⟨-, nx, hn, hr⟩ := hc
    obtain ⟨m, hm, hmn⟩ := next_eq_some hn
    have hnx : nx = some d := hr.1
    subst hnx
    obtain ⟨-, nx2, hn2, -⟩ := id hr
    obtain ⟨md, hmd, -⟩ := next_eq_some hn2
    have ih := ShiftToNext_true post d f hr (by simp at hf; omega)
    by_cases hty : md.fType = EXmlNodeType.kXML_NODE
    · simp [ShiftToNext, hm, hmn, hmd, hty, List.find?_cons, isElement_of_node hmd]
    · simp [ShiftToNext, hm, hmn, hmd, hty, List.find?_cons, isElement_of_node hmd, ih]

/-- `GetNext(n, true)` along a chain of siblings: the first Element behind `n`. -/
theorem GetNext_true {h : Heap} :
    ∀ (post : List Nat) (n : Nat) (fuel : Nat), Chain h (some n) (n :: post) →
      post.length + 1 ≤ fuel →
      GetNext h true fuel (some n) = some (post.find? (isElement h))
  | [], n, fuel, hc, hf => by
    obtain ⟨f, rfl⟩ : ∃ f, fuel = f + 1 := ⟨fuel - 1, by omega⟩
    obtain ⟨-, nx, hn, hr⟩ := hc
    obtain ⟨m, hm, hmn⟩ := next_eq_some hn
    have : nx = none := hr
    subst this
    simp [GetNext, hm, hmn]
  | d :: post, n, fuel, hc, hf => by
    obtain ⟨f, rfl⟩ : ∃ f, fuel = f + 1 := ⟨fuel - 1, by omega⟩
    obtain ⟨-, nx, hn, hr⟩ := hc
    obtain ⟨m, hm, hmn⟩ := next_eq_some hn
    have hnx : nx = some d := hr.1
    subst hnx
    obtain ⟨-, nx2, hn2, -⟩ := id hr
    obtain ⟨md, hmd, -⟩ := next_eq_some hn2
    have ih := GetNext_true post d f hr (by simp at hf; omega)
    by_cases hty : md.fType = EXmlNodeType.kXML_NODE
    · simp [GetNext, hm, hmn, hmd, hty, List.find?_cons, isElement_of_node hmd]
    · simp [GetNext, hm, hmn, hmd, hty, List.find?_cons, isElement_of_node hmd, ih]

/-- With the flag false both functions return the raw next sibling. -/
theorem ShiftToNext_GetNext_false {h : Heap} (post : List Nat) (n : Nat) (fuel : Nat)
    (hc : Chain h (some n) (n :: post)) :
    ShiftToNext h false (fuel + 1) (some n) = some post.head? ∧
      GetNext h false (fuel + 1) (some n) = some post.head? := by
  obtain ⟨-, nx, hn, hr⟩ := hc
  obtain ⟨m, hm, hmn⟩ := next_eq_some hn
  have hnx : nx = post.head? := Chain_start hr
  subst hnx
  cases hp : post.head? <;> simp [ShiftToNext, GetNext, hm, hmn, hp]

/-- `GetChild(p, true)` is the first Element among the children, `GetChild(p, false)` the
first child. -/
theorem GetChild_spec {h : Heap} {p : Nat} {cs : List Nat} (hch : Children h p cs)
    (fuel : Nat) (hf : cs.length ≤ fuel) :
    GetChild fuel h (some p) true = some (cs.find? (isElement h)) ∧
      GetChild fuel h (some p) false = some cs.head? := by
  obtain ⟨⟨n, hn, hchain, -⟩, -, -⟩ := hch
  cases cs with
  | nil =>
    have hfc : n.fChild = none := hchain
    simp [GetChild, hn, hfc]
  | cons c rest =>
    have hfc : n.fChild = some c := hchain.1
    obtain ⟨-, nx, hnc, -⟩ := id hchain
    obtain ⟨m, hm, -⟩ := next_eq_some hnc
    have hshift := ShiftToNext_true rest c fuel (by rw [← hfc]; exact hchain)
      (by simpa using hf)
    by_cases hty : m.fType = EXmlNodeType.kXML_NODE
    · simp [GetChild, hn, hfc, hm, hty, List.find?_cons, isElement_of_node hm]
    · simp [GetChild, hn, hfc, hm, hty, List.find?_cons, isElement_of_node hm, hshift]

/-- C25 (navigation): for a node `p` with the child sequence `cs`, `GetChild(p, true)` is
the first child that is an Element, or null; for a child `n`, `GetNext(n, true)` and
`ShiftToNext(n, true)` give the first sibling behind `n` that is an Element, or null; with
the flag false the functions give the first child and the next sibling as they are;
`DocGetRootElement` is the first Element child of the synthetic root; for the null pointer
all of them give null. -/
theorem GetChild_GetNext_skip (h : Heap) (p : Nat) (cs : List Nat) (fuel : Nat)
    (hch : Children h p cs) (hf : cs.length ≤ fuel) :
    GetChild fuel h (some p) true = some (cs.find? (isElement h)) ∧
    GetChild fuel h (some p) false = some cs.head? ∧
    (∀ pre n post, cs = pre ++ n :: post →
      GetNext h true fuel (some n) = some (post.find? (isElement h)) ∧
      ShiftToNext h true fuel (some n) = some (post.find? (isElement h)) ∧
      GetNext h false fuel (some n) = some post.head? ∧
      ShiftToNext h false fuel (some n) = some post.head?) ∧
    (∀ dtdname dtdroot,
      DocGetRootElement fuel h (some ⟨some p, dtdname, dtdroot⟩) =
        some (cs.find? (isElement h))) ∧
    (∀ realnode, GetChild fuel h none realnode = some none ∧
      GetNext h realnode (fuel + 1) none = some none ∧
      ShiftToNext h realnode (fuel + 1) none = some none ∧
      DocGetRootElement fuel h none = some none) := by
  obtain ⟨hg1, hg2⟩ := GetChild_spec hch fuel hf
  refine ⟨hg1, hg2, ?_, fun _ _ => hg1, fun realnode => ⟨rfl, rfl, rfl, rfl⟩⟩
  intro pre n post hcs
  subst hcs
  obtain ⟨⟨pc, -, hchain, -⟩, -, -⟩ := id hch
  have hc := Chain_suffix pre n post _ hchain
  have hf2 : post.length + 1 ≤ fuel := by simp at hf; omega
  obtain ⟨f, rfl⟩ : ∃ f, fuel = f + 1 := ⟨fuel - 1, by omega⟩
  obtain ⟨h1, h2⟩ := ShiftToNext_GetNext_false post n f hc
  exact ⟨GetNext_true post n _ hc hf2, ShiftToNext_true post n _ hc hf2, h2, h1⟩

theorem GetChild_GetNext_skip_witness :
    GetChild 3
        ((((Heap.empty.write 1 ⟨EXmlNodeType.kXML_NODE, [], none, none, some 2, some 4, none,
            bytes "p"⟩).write 2 ⟨EXmlNodeType.kXML_COMMENT, [], none, some 3, none, none,
            some 1, bytes "c"⟩).write 3 ⟨EXmlNodeType.kXML_NODE, [], none, some 4, none, none,
            some 1, bytes "a"⟩).write 4 ⟨EXmlNodeType.kXML_NODE, [], none, none, none, none,
            some 1, bytes "b"⟩) (some 1) true = some (some 3) :=
  (GetChild_GetNext_skip _ 1 [2, 3, 4] 3 (by decide) (by decide)).1

end

section
open Mem

/-! ## The style sheet processing instruction -/

/-- A child sequence is the same in a heap where the parent is as before and the children
have their `fNext` and `fParent` as before. -/
theorem Children_links {h h2 : Heap} {p : Nat} {cs : List Nat} (hch : Children h p cs)
    (hp : h2.node p = h.node p)
    (hcs : ∀ x ∈ cs, (h2.node x).map (fun m => (m.fNext, m.fParent)) =
      (h.node x).map (fun m => (m.fNext, m.fParent))) : Children h2 p cs := by
  obtain ⟨⟨n, hn, hchain, hlast⟩, hpl, hpn⟩ := hch
  have hboth : ∀ x ∈ cs, h2.next x = h.next x ∧
      (h2.node x).map (fun m => m.fParent) = (h.node x).map (fun m => m.fParent) := by
    intro x hx
    have := hcs x hx
    cases h1 : h.node x <;> cases h3 : h2.node x <;> simp [h1, h3] at this
    · simp [Heap.next, h1, h3]
    · simp [Heap.next, h1, h3, this.1, this.2]
  refine ⟨⟨n, hp.trans hn, ?_, hlast⟩, ?_, hpn⟩
  · exact Chain_congr cs _ (fun x hx => (hboth x hx).1) hchain
  · intro x hx
    rw [(hboth x hx).2]
    exact hpl x hx

theorem write_write (k : Heap) (x : Nat) (u v : Mem.SXmlNode_t) :
    (k.write x u).write x v = k.write x v := by
  simp [Heap.write]

/-- `AddStyleSheet` on a node with a child sequence: the new processing instruction is the
last child and has the attributes in the documented order. -/
theorem AddStyleSheet_node (h : Heap) (a p : Nat) (cs : List Nat) (href type : List Nat)
    (title : Option (List Nat)) (alternate : Int) (media charset : Option (List Nat))
    (hch : Children h p cs) (ha : h.node a = none) :
    ∃ h2, AddStyleSheet h a (some p) (some href) (some type) title alternate media charset =
        some (true, h2) ∧
      Children h2 p (cs ++ [a]) ∧
      h2.node a = some ⟨EXmlNodeType.kXML_PI_NODE,
        styleSheetAttrs href type title alternate media charset, none, none, none, none,
        some p, bytes "xml-stylesheet"⟩ ∧
      (∀ x, x ≠ a → h.node x = none → h2.node x = none) := by
  obtain ⟨h1, hrun1, ha1, hfresh1, hch1⟩ := AllocateNode_fresh h a (some p) ha
    (fun q hq => ⟨cs, by
      have : p = q := by simpa using hq
      subst this
      exact hch⟩)
  have hch2 := hch1 p rfl cs hch
  have hap : a ≠ p := fun e => Children_allocated hch (Or.inl rfl) (e ▸ ha)
  have hkey : ∀ (attrs : List SXmlAttr_t),
      Children (h1.write a ⟨EXmlNodeType.kXML_PI_NODE, attrs, none, none, none, none, some p,
        bytes "xml-stylesheet"⟩) p (cs ++ [a]) := by
    intro attrs
    refine Children_links hch2 (node_write_ne _ _ (Ne.symm hap)) (fun x hx => ?_)
    by_cases hxa : x = a
    · subst hxa
      rw [node_write_same, ha1]
      rfl
    · rw [node_write_ne _ _ hxa]
  have hrun : AddStyleSheet h a (some p) (some href) (some type) title alternate media charset =
      some (true, h1.write a ⟨EXmlNodeType.kXML_PI_NODE,
        styleSheetAttrs href type title alternate media charset, none, none, none, none,
        some p, bytes "xml-stylesheet"⟩) := by
    simp only [AddStyleSheet, hrun1, Option.some_bind, modify_of_node ha1,
      modify_of_node (node_write_same _ _ _), write_write, NewAttr]
    by_cases halt : alternate ≥ 0 <;> cases title <;> cases media <;> cases charset <;>
      simp [halt, styleSheetAttrs, modify_of_node (node_write_same _ _ _), write_write]
  refine ⟨_, hrun, hkey _, node_write_same _ _ _, fun x hxa hx => ?_⟩
  rw [node_write_ne _ _ hxa]
  exact hfresh1 x hx hxa

/-- C24 (style sheet): `AddStyleSheet` returns false and leaves the tree as it is when the
node, `href` or `type` is null. Otherwise it returns true and appends to the children of
the node a processing instruction `xml-stylesheet` whose attributes are, in this order,
`alternate` (`yes` for a positive argument, `no` for 0, none for a negative one), `title`
(if given), `href`, `type`, `media` (if given) and `charset` (if given). With the href
`small-base.css`, the type `text/css`, the title `compact` and alternate 1 the node is
written as `<?xml-stylesheet alternate="yes" title="compact" href="small-base.css"
type="text/css"?>`. -/
theorem AddStyleSheet_documented (h : Heap) (a p : Nat) (cs : List Nat) (href type : List Nat)
    (title : Option (List Nat)) (alternate : Int) (media charset : Option (List Nat))
    (hch : Children h p cs) (ha : h.node a = none) :
    (∃ h2, AddStyleSheet h a (some p) (some href) (some type) title alternate media charset =
        some (true, h2) ∧
      Children h2 p (cs ++ [a]) ∧
      h2.node a = some ⟨EXmlNodeType.kXML_PI_NODE,
        styleSheetAttrs href type title alternate media charset, none, none, none, none,
        some p, bytes "xml-stylesheet"⟩) ∧
    AddStyleSheet h a none (some href) (some type) title alternate media charset =
      some (false, h) ∧
    AddStyleSheet h a (some p) none (some type) title alternate media charset =
      some (false, h) ∧
    AddStyleSheet h a (some p) (some href) none title alternate media charset =
      some (false, h) ∧
    TXMLEngine.SaveSingleNode (leafOf ⟨EXmlNodeType.kXML_PI_NODE,
        styleSheetAttrs (bytes "small-base.css") (bytes "text/css") (some (bytes "compact")) 1
          none none, none, none, none, none, some p, bytes "xml-stylesheet"⟩) [] 0 =
      some (bytes ("<?xml-stylesheet alternate=\"yes\" title=\"compact\" " ++
        "href=\"small-base.css\" type=\"text/css\"?>")) := by
  obtain ⟨h2, hrun, hch2, hc2, -⟩ := AddStyleSheet_node h a p cs href type title alternate
    media charset hch ha
  refine ⟨⟨h2, hrun, hch2, hc2⟩, rfl, rfl, rfl, ?_⟩
  show TXMLEngine.SaveSingleNode (SXmlNode_t.mk EXmlNodeType.kXML_PI_NODE (bytes "xml-stylesheet")
    (styleSheetAttrs (bytes "small-base.css") (bytes "text/css") (some (bytes "compact")) 1
      none none) none []) [] 0 = _
  decide

theorem AddStyleSheet_documented_witness :
    ∃ h2, AddStyleSheet
        ((Heap.empty.write 1 ⟨EXmlNodeType.kXML_NODE, [], none, none, some 2, some 2, none,
            bytes "p"⟩).write 2 ⟨EXmlNodeType.kXML_NODE, [], none, none, none, none, some 1,
            bytes "a"⟩) 3 (some 1) (some (bytes "small-base.css")) (some (bytes "text/css"))
          (some (bytes "compact")) 1 none none = some (true, h2) ∧
      Children h2 1 ([2] ++ [3]) ∧
      h2.node 3 = some ⟨EXmlNodeType.kXML_PI_NODE,
        styleSheetAttrs (bytes "small-base.css") (bytes "text/css") (some (bytes "compact")) 1
          none none, none, none, none, none, some 1, bytes "xml-stylesheet"⟩ :=
  (AddStyleSheet_documented _ 3 1 [2] (bytes "small-base.css") (bytes "text/css")
    (some (bytes "compact")) 1 none none (by decide) (by decide)).1

end

section
open Mem

/-! ## The invariant of the child links under the assignments of the mutators -/

theorem modify_eq_some {h h2 : Heap} {a : Nat} {f : Mem.SXmlNode_t → Mem.SXmlNode_t}
    (hm : h.modify a f = some h2) : ∃ n, h.node a = some n ∧ h2 = h.write a (f n) := by
  cases hn : h.node a with
  | none => simp [Heap.modify, hn] at hm
  | some n =>
    rw [modify_of_node hn] at hm
    exact ⟨n, rfl, (Option.some.inj hm).symm⟩

theorem modify_modify {h h1 h2 : Heap} {a : Nat} {f g : Mem.SXmlNode_t → Mem.SXmlNode_t}
    (hm1 : h.modify a f = some h1) (hm2 : h1.modify a g = some h2) :
    ∃ n, h.node a = some n ∧ h2 = h.write a (g (f n)) := by
  obtain ⟨n, hn, rfl⟩ := modify_eq_some hm1
  rw [modify_of_node (node_write_same h a (f n))] at hm2
  refine ⟨n, hn, ?_⟩
  rw [← Option.some.inj hm2]
  simp [Heap.write]

theorem LinkInv_empty : LinkInv Heap.empty := by
  intro x n hn
  simp [Heap.empty] at hn

theorem LinkInv_write {h : Heap} (hinv : LinkInv h) (a : Nat) (n : Mem.SXmlNode_t)
    (hn : n.fLastChild = none ↔ n.fChild = none) : LinkInv (h.write a n) := by
  intro x m hm
  rw [node_write] at hm
  by_cases hxa : x = a
  · rw [if_pos hxa] at hm
    cases hm
    exact hn
  · rw [if_neg hxa] at hm
    exact hinv x m hm

theorem LinkInv_free {h : Heap} (hinv : LinkInv h) (a : Nat) : LinkInv (h.free a) := by
  intro x m hm
  rw [node_free] at hm
  by_cases hxa : x = a
  · rw [if_pos hxa] at hm
    cases hm
  · rw [if_neg hxa] at hm
    exact hinv x m hm

/-- An assignment to fields of a node keeps the invariant when the node has it afterwards. -/
theorem LinkInv_modify {h h2 : Heap} {a : Nat} {f : Mem.SXmlNode_t → Mem.SXmlNode_t}
    (hinv : LinkInv h) (hm : h.modify a f = some h2)
    (hf : ∀ n, h.node a = some n → ((f n).fLastChild = none ↔ (f n).fChild = none)) :
    LinkInv h2 := by
  obtain ⟨n, hn, rfl⟩ := modify_eq_some hm
  exact LinkInv_write hinv a _ (hf n hn)

/-- An assignment to fields other than `fChild` and `fLastChild` keeps the invariant. -/
theorem LinkInv_modify_same {h h2 : Heap} {a : Nat} {f : Mem.SXmlNode_t → Mem.SXmlNode_t}
    (hinv : LinkInv h) (hm : h.modify a f = some h2)
    (hf : ∀ n, (f n).fChild = n.fChild ∧ (f n).fLastChild = n.fLastChild) : LinkInv h2 := by
  refine LinkInv_modify hinv hm (fun n hn => ?_)
  rw [(hf n).1, (hf n).2]
  exact hinv a n hn

/-- The assignment `fChild = c; fLastChild = c` keeps the invariant. -/
theorem LinkInv_modify_both {h h1 h2 : Heap} {a : Nat} {f g : Mem.SXmlNode_t → Mem.SXmlNode_t}
    (hinv : LinkInv h) (hm1 : h.modify a f = some h1) (hm2 : h1.modify a g = some h2)
    (hf : ∀ n, ((g (f n)).fLastChild = none ↔ (g (f n)).fChild = none)) : LinkInv h2 := by
  obtain ⟨n, -, rfl⟩ := modify_modify hm1 hm2
  exact LinkInv_write hinv a _ (hf n)

/-- `AddChild` keeps the invariant, whatever the two nodes are. -/
theorem AddChild_inv {h h2 : Heap} {parent child : Option Nat} (hinv : LinkInv h)
    (hr : AddChild h parent child = some h2) : LinkInv h2 := by
  cases parent with
  | none =>
    simp only [AddChild] at hr
    cases hr
    exact hinv
  | some p =>
    cases child with
    | none =>
      simp only [AddChild] at hr
      cases hr
      exact hinv
    | some c =>
      simp only [AddChild, Option.bind_eq_some] at hr
      obtain ⟨h1, hm1, pn, hpn, hr⟩ := hr
      have i1 : LinkInv h1 := LinkInv_modify_same hinv hm1 (fun n => ⟨rfl, rfl⟩)
      cases hl : pn.fLastChild with
      | none =>
        rw [hl] at hr
        simp only [Option.bind_eq_some] at hr
        obtain ⟨h3, hm3, hm4⟩ := hr
        exact LinkInv_modify_both i1 hm3 hm4 (fun n => by simp)
      | some last =>
        rw [hl] at hr
        simp only [Option.bind_eq_some] at hr
        obtain ⟨h3, hm3, hm4⟩ := hr
        have i3 : LinkInv h3 := LinkInv_modify_same i1 hm3 (fun n => ⟨rfl, rfl⟩)
        refine LinkInv_modify i3 hm4 (fun n hn => ?_)
        obtain ⟨ln, hln, rfl⟩ := modify_eq_some hm3
        have hnl : n.fLastChild = some last := by
          rw [node_write] at hn
          by_cases hpl : p = last
          · rw [if_pos hpl] at hn
            subst hpl
            rw [hpn] at hln
            cases hln
            cases hn
            exact hl
          · rw [if_neg hpl, hpn] at hn
            cases hn
            exact hl
        have hc : n.fChild ≠ none := fun e => by
          have := (i3 p n hn).2 e
          rw [hnl] at this
          cases this
        simpa using hc

/-- `AddChildFirst` keeps the invariant, whatever the two nodes are. -/
theorem AddChildFirst_inv {h h2 : Heap} {parent child : Option Nat} (hinv : LinkInv h)
    (hr : AddChildFirst h parent child = some h2) : LinkInv h2 := by
  cases parent with
  | none =>
    simp only [AddChildFirst] at hr
    cases hr
    exact hinv
  | some p =>
    cases child with
    | none =>
      simp only [AddChildFirst] at hr
      cases hr
      exact hinv
    | some c =>
      simp only [AddChildFirst, Option.bind_eq_some] at hr
      obtain ⟨h1, hm1, pn, -, h3, hm3, h4, hm4, p4, hp4, hr⟩ := hr
      have i1 : LinkInv h1 := LinkInv_modify_same hinv hm1 (fun n => ⟨rfl, rfl⟩)
      have i3 : LinkInv h3 := LinkInv_modify_same i1 hm3 (fun n => ⟨rfl, rfl⟩)
      by_cases hl : p4.fLastChild = none
      · rw [if_pos hl] at hr
        exact LinkInv_modify_both i3 hm4 hr (fun n => by simp)
      · rw [if_neg hl] at hr
        cases hr
        refine LinkInv_modify i3 hm4 (fun n hn => ?_)
        obtain ⟨n3, hn3, rfl⟩ := modify_eq_some hm4
        rw [hn] at hn3
        cases hn3
        rw [node_write_same] at hp4
        cases hp4
        simpa using hl

theorem AllocateNode_inv {h h2 : Heap} {a : Nat} {parent : Option Nat} (hinv : LinkInv h)
    (hr : AllocateNode h a parent = some h2) : LinkInv h2 := by
  have i1 : LinkInv (h.write a ⟨EXmlNodeType.kXML_NODE, [], none, none, none, none, none, []⟩) :=
    LinkInv_write hinv a _ (by simp)
  cases parent with
  | none =>
    simp only [AllocateNode] at hr
    cases hr
    exact i1
  | some p =>
    simp only [AllocateNode] at hr
    exact AddChild_inv i1 hr

theorem NewAttr_inv {h h2 : Heap} {xmlnode : Option Nat} {name value : Option (List Nat)}
    (hinv : LinkInv h) (hr : NewAttr h xmlnode name value = some h2) : LinkInv h2 := by
  cases xmlnode with
  | none =>
    simp only [NewAttr] at hr
    cases hr
    exact hinv
  | some node =>
    simp only [NewAttr] at hr
    exact LinkInv_modify_same hinv hr (fun n => ⟨rfl, rfl⟩)

theorem NewChild_inv {h h2 : Heap} {a b : Nat} {parent : Option Nat} {ns : Option NsPtr}
    {name content : Option (List Nat)} (hinv : LinkInv h)
    (hr : NewChild h a b parent ns name content = some h2) : LinkInv h2 := by
  simp only [NewChild, Option.bind_eq_some] at hr
  obtain ⟨h1, ha1, h3, hm3, h4, hm4, hr⟩ := hr
  have i1 := AllocateNode_inv hinv ha1
  have i3 : LinkInv h3 := LinkInv_modify_same i1 hm3 (fun n => ⟨rfl, rfl⟩)
  have i4 : LinkInv h4 := LinkInv_modify_same i3 hm4 (fun n => ⟨rfl, rfl⟩)
  by_cases hc : (content.getD []).length > 0
  · rw [if_pos hc] at hr
    simp only [Option.bind_eq_some] at hr
    obtain ⟨h5, ha5, h6, hm6, hm7⟩ := hr
    have i5 := AllocateNode_inv i4 ha5
    have i6 : LinkInv h6 := LinkInv_modify_same i5 hm6 (fun n => ⟨rfl, rfl⟩)
    exact LinkInv_modify_same i6 hm7 (fun n => ⟨rfl, rfl⟩)
  · rw [if_neg hc] at hr
    cases hr
    exact i4

theorem AddComment_inv {h h2 : Heap} {a : Nat} {xmlnode : Option Nat}
    {comment : Option (List Nat)} {r : Bool} (hinv : LinkInv h)
    (hr : AddComment h a xmlnode comment = some (r, h2)) : LinkInv h2 := by
  cases xmlnode with
  | none =>
    simp only [AddComment] at hr
    cases hr
    exact hinv
  | some node =>
    cases comment with
    | none =>
      simp only [AddComment] at hr
      cases hr
      exact hinv
    | some text =>
      simp only [AddComment, Option.bind_eq_some] at hr
      obtain ⟨h1, ha1, h3, hm3, h4, hm4, hr⟩ := hr
      cases hr
      have i1 := AllocateNode_inv hinv ha1
      have i3 : LinkInv h3 := LinkInv_modify_same i1 hm3 (fun n => ⟨rfl, rfl⟩)
      exact LinkInv_modify_same i3 hm4 (fun n => ⟨rfl, rfl⟩)

theorem AddRawLine_inv {h h2 : Heap} {a : Nat} {xmlnode : Option Nat}
    {line : Option (List Nat)} {r : Bool} (hinv : LinkInv h)
    (hr : AddRawLine h a xmlnode line = some (r, h2)) : LinkInv h2 := by
  cases xmlnode with
  | none =>
    simp only [AddRawLine] at hr
    cases hr
    exact hinv
  | some node =>
    cases line with
    | none =>
      simp only [AddRawLine] at hr
      cases hr
      exact hinv
    | some text =>
      simp only [AddRawLine, Option.bind_eq_some] at hr
      obtain ⟨h1, ha1, h3, hm3, h4, hm4, hr⟩ := hr
      cases hr
      have i1 := AllocateNode_inv hinv ha1
      have i3 : LinkInv h3 := LinkInv_modify_same i1 hm3 (fun n => ⟨rfl, rfl⟩)
      exact LinkInv_modify_same i3 hm4 (fun n => ⟨rfl, rfl⟩)

theorem NewAttr_if_inv {h h2 : Heap} {c : Prop} [Decidable c] {xmlnode : Option Nat}
    {name value : Option (List Nat)} (hinv : LinkInv h)
    (hr : (if c then NewAttr h xmlnode name value else some h) = some h2) : LinkInv h2 := by
  by_cases hc : c
  · rw [if_pos hc] at hr
    exact NewAttr_inv hinv hr
  · rw [if_neg hc] at hr
    cases hr
    exact hinv

theorem AddStyleSheet_inv {h h2 : Heap} {a : Nat} {xmlnode : Option Nat}
    {href type title : Option (List Nat)} {alternate : Int} {media charset : Option (List Nat)}
    {r : Bool} (hinv : LinkInv h)
    (hr : AddStyleSheet h a xmlnode href type title alternate media charset = some (r, h2)) :
    LinkInv h2 := by
  unfold AddStyleSheet at hr
  split at hr
  · simp only [Option.bind_eq_some] at hr
    obtain ⟨h1, ha1, h3, hm3, h4, hm4, h5, hm5, h6, hm6, h7, hm7, h8, hm8, h9, hm9, h10, hm10,
      hr⟩ := hr
    cases hr
    have i1 := AllocateNode_inv hinv ha1
    have i3 : LinkInv h3 := LinkInv_modify_same i1 hm3 (fun n => ⟨rfl, rfl⟩)
    have i4 : LinkInv h4 := LinkInv_modify_same i3 hm4 (fun n => ⟨rfl, rfl⟩)
    have i5 := NewAttr_if_inv i4 hm5
    have i6 := NewAttr_if_inv i5 hm6
    have i7 := NewAttr_inv i6 hm7
    have i8 := NewAttr_inv i7 hm8
    have i9 := NewAttr_if_inv i8 hm9
    exact NewAttr_if_inv i9 hm10
  · cases hr
    exact hinv

theorem AddNodeContent_inv {h h2 : Heap} {a : Nat} {xmlnode : Option Nat}
    {content : Option (List Nat)} {len : Int} (hinv : LinkInv h)
    (hr : AddNodeContent h a xmlnode content len = some h2) : LinkInv h2 := by
  cases xmlnode with
  | none =>
    simp only [AddNodeContent] at hr
    cases hr
    exact hinv
  | some node =>
    cases content with
    | none =>
      simp only [AddNodeContent] at hr
      cases hr
      exact hinv
    | some text =>
      simp only [AddNodeContent, Option.bind_eq_some] at hr
      obtain ⟨h1, ha1, h3, hm3, hm4⟩ := hr
      have i1 := AllocateNode_inv hinv ha1
      have i3 : LinkInv h3 := LinkInv_modify_same i1 hm3 (fun n => ⟨rfl, rfl⟩)
      exact LinkInv_modify_same i3 hm4 (fun n => ⟨rfl, rfl⟩)

/-- `FreeNode` and its loop over the children keep the invariant. -/
theorem FreeNode_FreeChildren_inv :
    ∀ (fuel : Nat) (h h2 : Heap), LinkInv h →
      (∀ x, FreeNode fuel h x = some h2 → LinkInv h2) ∧
      (∀ x, FreeChildren fuel h x = some h2 → LinkInv h2)
  | 0, h, h2, _ => ⟨fun x hr => by simp [FreeNode] at hr, fun x hr => by simp [FreeChildren] at hr⟩
  | fuel + 1, h, h2, hinv => by
    constructor
    · intro x hr
      cases x with
      | none =>
        simp only [FreeNode] at hr
        cases hr
        exact hinv
      | some node =>
        simp only [FreeNode] at hr
        split at hr
        · cases hr
        · split at hr
          · cases hr
          · rename_i h1 hf
            split at hr
            · cases hr
            · cases hr
              exact LinkInv_free ((FreeNode_FreeChildren_inv fuel h h1 hinv).2 _ hf) node
    · intro x hr
      cases x with
      | none =>
        simp only [FreeChildren] at hr
        cases hr
        exact hinv
      | some child =>
        simp only [FreeChildren] at hr
        split at hr
        · cases hr
        · split at hr
          · cases hr
          · rename_i h1 hf
            exact (FreeNode_FreeChildren_inv fuel h1 h2
              ((FreeNode_FreeChildren_inv fuel h h1 hinv).1 _ hf)).2 _ hr

theorem CleanNode_inv {h h2 : Heap} {fuel : Nat} {xmlnode : Option Nat} (hinv : LinkInv h)
    (hr : CleanNode fuel h xmlnode = some h2) : LinkInv h2 := by
  cases xmlnode with
  | none =>
    simp only [CleanNode] at hr
    cases hr
    exact hinv
  | some node =>
    simp only [CleanNode, Option.bind_eq_some] at hr
    obtain ⟨n, -, h1, hf, h3, hm3, hm4⟩ := hr
    have i1 := (FreeNode_FreeChildren_inv fuel h h1 hinv).2 _ hf
    exact LinkInv_modify_both i1 hm3 hm4 (fun n => by simp)

/-- A node with a child sequence has the invariant of the child links. -/
theorem Children_links_inv {h : Heap} {p : Nat} {cs : List Nat} (hch : Children h p cs) :
    ∀ n, h.node p = some n → (n.fLastChild = none ↔ n.fChild = none) := by
  intro n hn
  obtain ⟨⟨n2, hn2, hchain, hlast⟩, -, -⟩ := hch
  rw [hn] at hn2
  cases hn2
  rw [hlast, Chain_start hchain]
  cases cs with
  | nil => simp
  | cons c rest => simp [List.getLast?_eq_some_iff]

/-- `UnlinkNode` of a node in the child list of its parent keeps the invariant. -/
theorem UnlinkNode_inv {h : Heap} {p n : Nat} {pre post : List Nat} {fuel : Nat}
    (hinv : LinkInv h) (hch : Children h p (pre ++ n :: post)) (hf : pre.length ≤ fuel) :
    ∃ h2, UnlinkNode fuel h (some n) = some h2 ∧ LinkInv h2 ∧ Children h2 p (pre ++ post) ∧
      h2.node n = h.node n ∧
      (∀ x, x ≠ p → x ∉ pre.getLast? → h2.node x = h.node x) := by
  obtain ⟨h2, hrun, hch2, hn2, hframe, hprev, -⟩ := UnlinkNode_child h p n pre post fuel hch hf
  refine ⟨h2, hrun, ?_, hch2, hn2, hframe⟩
  intro x m hm
  by_cases hxp : x = p
  · subst hxp
    exact Children_links_inv hch2 m hm
  · by_cases hxl : x ∈ pre.getLast?
    · obtain ⟨m0, hm0, hm2⟩ := hprev x hxl
      rw [hm] at hm2
      cases hm2
      exact hinv x m0 hm0
    · rw [hframe x hxp hxl] at hm
      exact hinv x m hm

/-- `UnlinkFreeNode` of a node in the child list of its parent, whose subtree has neither the
parent nor the previous sibling in it, returns and keeps the invariant. -/
theorem UnlinkFreeNode_inv {h : Heap} {p n : Nat} {pre post fp : List Nat} {fuel : Nat}
    (hinv : LinkInv h) (hch : Children h p (pre ++ n :: post)) (hf : pre.length ≤ fuel)
    (hs : subtree h fuel n = some fp) (hnd : fp.Nodup) (hp : p ∉ fp)
    (hpre : ∀ x ∈ pre.getLast?, x ∉ fp) :
    ∃ h2, UnlinkFreeNode fuel h (some n) = some h2 ∧ LinkInv h2 := by
  obtain ⟨h1, hrun1, i1, -, -, hframe⟩ := UnlinkNode_inv hinv hch hf
  have hs1 : subtree h1 fuel n = some fp :=
    (@subtree_forest_congr h h1 fuel).1 n fp hs (fun x hx =>
      hframe x (fun e => hp (e ▸ hx)) (fun e => hpre x e hx))
  obtain ⟨h2, hrun2, -⟩ := (FreeNode_FreeChildren_spec fuel h1).1 n fp hs1 hnd
  refine ⟨h2, ?_, (FreeNode_FreeChildren_inv fuel h1 h2 i1).1 _ hrun2⟩
  simp only [UnlinkFreeNode, hrun1, Option.some_bind, hrun2]

/-- `SetNodeContent` of a node with a child list keeps the invariant. -/
theorem SetNodeContent_inv {h h2 : Heap} {fuel a p : Nat} {cs : List Nat}
    {content : Option (List Nat)} {len : Int} (hinv : LinkInv h) (hch : Children h p cs)
    (hr : SetNodeContent fuel h a (some p) content len = some h2) : LinkInv h2 := by
  simp only [SetNodeContent, Option.bind_eq_some] at hr
  obtain ⟨n, hn, h1, hpre, hr⟩ := hr
  have i1 : LinkInv h1 := by
    cases hc : n.fChild with
    | none =>
      rw [hc] at hpre
      cases hpre
      exact hinv
    | some child =>
      rw [hc] at hpre
      simp only [Option.bind_eq_some] at hpre
      obtain ⟨c, -, hpre⟩ := hpre
      by_cases hty : c.fType = EXmlNodeType.kXML_CONTENT
      · rw [if_pos hty] at hpre
        simp only [UnlinkFreeNode, Option.bind_eq_some] at hpre
        obtain ⟨h0, hu, hfr⟩ := hpre
        obtain ⟨⟨n2, hn2, hchain, -⟩, -, -⟩ := id hch
        rw [hn] at hn2
        cases hn2
        have hhead := Chain_start hchain
        rw [hc] at hhead
        cases cs with
        | nil => cases hhead
        | cons c0 rest =>
          have : child = c0 := by simpa using hhead
          subst this
          obtain ⟨h0x, hux, i0, -⟩ :=
            @UnlinkNode_inv h p child [] rest fuel hinv hch (Nat.zero_le _)
          rw [hu] at hux
          cases hux
          exact (FreeNode_FreeChildren_inv fuel h0 h1 i0).1 _ hfr
      · rw [if_neg hty] at hpre
        cases hpre
        exact hinv
  cases content with
  | none =>
    simp only at hr
    cases hr
    exact i1
  | some text =>
    simp only [Option.bind_eq_some] at hr
    obtain ⟨h3, ha3, h4, hm4, h5, hm5, hr⟩ := hr
    have i3 := AllocateNode_inv i1 ha3
    have i4 : LinkInv h4 := LinkInv_modify_same i3 hm4 (fun n => ⟨rfl, rfl⟩)
    have i5 : LinkInv h5 := LinkInv_modify_same i4 hm5 (fun n => ⟨rfl, rfl⟩)
    exact AddChildFirst_inv i5 hr

/-- `NewChild` at fresh addresses returns. -/
theorem NewChild_returns (g : Heap) (a b : Nat) (parent : Option Nat) (ns : Option NsPtr)
    (name content : Option (List Nat)) (ha : g.node a = none) (hb : g.node b = none)
    (hab : a ≠ b) (hparent : ∀ q ∈ parent, ∃ qs, Children g q qs) :
    ∃ h2, NewChild g a b parent ns name content = some h2 := by
  by_cases hc : (content.getD []).length > 0
  · cases content with
    | none => simp at hc
    | some s =>
      have hs : s ≠ [] := by
        intro e
        subst e
        simp at hc
      obtain ⟨h2, hrun, -⟩ := GetNodeContent_NewChild g a b parent ns name s hs ha hb hab hparent
      exact ⟨h2, hrun⟩
  · obtain ⟨h1, hrun1, ha1, -, -⟩ := AllocateNode_fresh g a parent ha hparent
    simp only [NewChild, hrun1, Option.some_bind, modify_of_node ha1,
      modify_of_node (node_write_same _ _ _), if_neg hc]
    exact ⟨_, rfl⟩

/-- The node that `AllocateNode` made at a fresh address takes two assignments. -/
theorem AllocateNode_assign (g : Heap) (a p : Nat) (cs : List Nat)
    (f1 f2 : Mem.SXmlNode_t → Mem.SXmlNode_t) (ha : g.node a = none) (hch : Children g p cs) :
    ∃ h2, ((AllocateNode g a (some p)).bind fun h =>
      (h.modify a f1).bind fun h => h.modify a f2) = some h2 := by
  obtain ⟨h1, hrun1, ha1, -, -⟩ :=
    AllocateNode_fresh g a (some p) ha (fun q hq => ⟨cs, by
      have : p = q := by simpa using hq
      subst this
      exact hch⟩)
  simp only [hrun1, Option.some_bind, modify_of_node ha1,
    modify_of_node (node_write_same _ _ _)]
  exact ⟨_, rfl⟩

end

section
open Mem

/-! ## C30: the invariant `fLastChild == null` iff `fChild == null` -/

/-- C30 (counterexample): a sequence of `NewChild`, `AddChild` and `UnlinkNode` calls that
starts from nodes created by `NewChild` and ends with a node whose first-child link is null
while its last-child link is not: `a` is created as a child of `r` and then added to `q`,
`x` is created as a child of `q` and then added to `r`, then `x` and `a` are unlinked. -/
theorem crossLinked_breaks :
    ∃ h, crossLinked = some h ∧
      (h.node 3).map (fun n => (n.fChild, n.fLastChild)) = some (none, some 4) ∧
      ¬ LinkInv h := by
  have hs : crossLinked.isSome = true := by decide
  obtain ⟨h, hh⟩ := Option.isSome_iff_exists.1 hs
  have h3 : (crossLinked.bind fun h => (h.node 3).map fun n => (n.fChild, n.fLastChild)) =
      some (none, some 4) := by decide
  rw [hh, Option.some_bind] at h3
  refine ⟨h, hh, h3, fun hinv => ?_⟩
  cases hn : h.node 3 with
  | none => simp [hn] at h3
  | some n =>
    simp only [hn, Option.map_some', Option.some.injEq, Prod.mk.injEq] at h3
    have := (hinv 3 n hn).2 h3.1
    rw [h3.2] at this
    cases this

/-- C30 (amended): in a heap where every node has `fLastChild == null` iff `fChild == null`
and the children of `p` form one list (the `fNext` chain from `fChild` ends at `fLastChild`,
each child has `p` as its parent), the mutators return and leave every node with the
invariant: `AddChild` and `AddChildFirst` of a detached node, `NewChild`, `AddComment`,
`AddRawLine`, `AddNodeContent` and `AddStyleSheet` with fresh addresses, `SetNodeContent`,
`UnlinkNode` and `UnlinkFreeNode` of a child of `p`, and `CleanNode(p)`, where the subtrees
that are freed reach no node twice and hold neither `p` nor another child of `p`. -/
theorem mutators_keep_child_links (h : Heap) (p : Nat) (cs : List Nat) (hinv : LinkInv h)
    (hch : Children h p cs) :
    (∀ c cn, h.node c = some cn → cn.fParent = none → cn.fNext = none → c ≠ p →
      (∃ h2, AddChild h (some p) (some c) = some h2 ∧ LinkInv h2) ∧
      (∃ h2, AddChildFirst h (some p) (some c) = some h2 ∧ LinkInv h2)) ∧
    (∀ a b ns name content, h.node a = none → h.node b = none → a ≠ b →
      (∃ h2, NewChild h a b (some p) ns name content = some h2 ∧ LinkInv h2) ∧
      (∃ h2, NewChild h a b none ns name content = some h2 ∧ LinkInv h2)) ∧
    (∀ a text, h.node a = none →
      (∃ h2, AddComment h a (some p) (some text) = some (true, h2) ∧ LinkInv h2) ∧
      (∃ h2, AddRawLine h a (some p) (some text) = some (true, h2) ∧ LinkInv h2) ∧
      (∀ len, ∃ h2, AddNodeContent h a (some p) (some text) len = some h2 ∧ LinkInv h2)) ∧
    (∀ a href type title alternate media charset, h.node a = none →
      ∃ h2, AddStyleSheet h a (some p) (some href) (some type) title alternate media charset =
        some (true, h2) ∧ LinkInv h2) ∧
    (∀ fuel a text len, h.node a = none →
      (∀ c rest, cs = c :: rest →
        (h.node c).map (fun m => m.fType) = some EXmlNodeType.kXML_CONTENT →
        ∃ fp, subtree h fuel c = some fp ∧ fp.Nodup ∧ p ∉ fp ∧ ∀ x ∈ rest, x ∉ fp) →
      ∃ h2, SetNodeContent fuel h a (some p) (some text) len = some h2 ∧ LinkInv h2) ∧
    (∀ n ∈ cs, ∀ fuel, cs.length ≤ fuel →
      ∃ h2, UnlinkNode fuel h (some n) = some h2 ∧ LinkInv h2) ∧
    (∀ n ∈ cs, ∀ fuel fp, cs.length ≤ fuel → subtree h fuel n = some fp → fp.Nodup →
      p ∉ fp → (∀ x ∈ cs, x ≠ n → x ∉ fp) →
      ∃ h2, UnlinkFreeNode fuel h (some n) = some h2 ∧ LinkInv h2) ∧
    (∀ fuel fp, (∃ pn, h.node p = some pn ∧ forest h fuel pn.fChild = some fp) → fp.Nodup →
      p ∉ fp → ∃ h2, CleanNode fuel h (some p) = some h2 ∧ LinkInv h2) := by
  have hpar : ∀ q ∈ some p, ∃ qs, Children h q qs := fun q hq => ⟨cs, by
    have : p = q := by simpa using hq
    subst this
    exact hch⟩
  have hsplit : ∀ n ∈ cs, ∃ pre post, cs = pre ++ n :: post ∧ n ∉ pre := by
    intro n hn
    obtain ⟨pre, post, hcs, hnp⟩ := List.eq_append_cons_of_mem hn
    exact ⟨pre, post, hcs, hnp⟩
  refine ⟨?_, ?_, ?_, ?_, ?_, ?_, ?_, ?_⟩
  · intro c cn hc hpar0 hnext hcp
    obtain ⟨h2, hr, -⟩ := AddChild_detached h p c cs cn hch hc hpar0 hnext hcp
    obtain ⟨h3, hr3, -⟩ := AddChildFirst_detached h p c cs cn hch hc hpar0 hcp
    exact ⟨⟨h2, hr, AddChild_inv hinv hr⟩, ⟨h3, hr3, AddChildFirst_inv hinv hr3⟩⟩
  · intro a b ns name content ha hb hab
    obtain ⟨h2, hr⟩ := NewChild_returns h a b (some p) ns name content ha hb hab hpar
    obtain ⟨h3, hr3⟩ := NewChild_returns h a b none ns name content ha hb hab
      (fun q hq => by cases hq)
    exact ⟨⟨h2, hr, NewChild_inv hinv hr⟩, ⟨h3, hr3, NewChild_inv hinv hr3⟩⟩
  · intro a text ha
    refine ⟨?_, ?_, fun len => ?_⟩
    · obtain ⟨h2, hr⟩ := AllocateNode_assign h a p cs
        (fun n => { n with fType := EXmlNodeType.kXML_COMMENT })
        (fun n => { n with name := text }) ha hch
      have hrun : AddComment h a (some p) (some text) = some (true, h2) := by
        simp only [Option.bind_eq_some] at hr
        obtain ⟨h1, e1, h3, e3, e4⟩ := hr
        simp only [AddComment, Option.bind_eq_some]
        exact ⟨h1, e1, h3, e3, h2, e4, rfl⟩
      exact ⟨h2, hrun, AddComment_inv hinv hrun⟩
    · obtain ⟨h2, hr⟩ := AllocateNode_assign h a p cs
        (fun n => { n with fType := EXmlNodeType.kXML_RAWLINE })
        (fun n => { n with name := text }) ha hch
      have hrun : AddRawLine h a (some p) (some text) = some (true, h2) := by
        simp only [Option.bind_eq_some] at hr
        obtain ⟨h1, e1, h3, e3, e4⟩ := hr
        simp only [AddRawLine, Option.bind_eq_some]
        exact ⟨h1, e1, h3, e3, h2, e4, rfl⟩
      exact ⟨h2, hrun, AddRawLine_inv hinv hrun⟩
    · obtain ⟨h2, hr⟩ := AllocateNode_assign h a p cs
        (fun n => { n with fType := EXmlNodeType.kXML_CONTENT })
        (fun n => { n with name := text.take (if len ≤ 0 then text.length else len.toNat) })
        ha hch
      have hrun : AddNodeContent h a (some p) (some text) len = some h2 := by
        simp only [AddNodeContent]
        exact hr
      exact ⟨h2, hrun, AddNodeContent_inv hinv hrun⟩
  · intro a href type title alternate media charset ha
    obtain ⟨h2, hr, -⟩ :=
      AddStyleSheet_node h a p cs href type title alternate media charset hch ha
    exact ⟨h2, hr, AddStyleSheet_inv hinv hr⟩
  · intro fuel a text len ha hfree
    obtain ⟨h2, hr, -⟩ := SetNodeContent_spec fuel h a p cs text len hch ha hfree
    exact ⟨h2, hr, SetNodeContent_inv hinv hch hr⟩
  · intro n hn fuel hf
    obtain ⟨pre, post, rfl, -⟩ := hsplit n hn
    obtain ⟨h2, hr, i2, -⟩ := @UnlinkNode_inv h p n pre post fuel hinv hch (by
      simp only [List.length_append, List.length_cons] at hf
      omega)
    exact ⟨h2, hr, i2⟩
  · intro n hn fuel fp hf hs hnd hp hothers
    obtain ⟨pre, post, rfl, hnp⟩ := hsplit n hn
    refine @UnlinkFreeNode_inv h p n pre post fp fuel hinv hch (by
      simp only [List.length_append, List.length_cons] at hf
      omega) hs hnd hp (fun x hx => ?_)
    have hxpre : x ∈ pre := List.mem_of_mem_getLast? hx
    exact hothers x (List.mem_append_left _ hxpre) (fun e => hnp (e ▸ hxpre))
  · rintro fuel fp ⟨pn, hpn, hfo⟩ hnd hp
    obtain ⟨h1, hr1, hfree⟩ := (FreeNode_FreeChildren_spec fuel h).2 _ fp hfo hnd
    have hp1 : h1.node p = some pn := by rw [hfree, if_neg hp, hpn]
    have hrun : CleanNode fuel h (some p) = some
        ((h1.write p { pn with fChild := none }).write p
          { pn with fChild := none, fLastChild := none }) := by
      simp only [CleanNode, hpn, Option.some_bind, hr1, modify_of_node hp1,
        modify_of_node (node_write_same _ _ _)]
    exact ⟨_, hrun, CleanNode_inv hinv hrun⟩

theorem mutators_keep_child_links_witness :
    LinkInv twoChildren ∧ Children twoChildren 1 [2, 3] ∧
      (∃ h2, UnlinkNode 2 twoChildren (some 2) = some h2 ∧ LinkInv h2) ∧
      (∃ h2, AddComment twoChildren 4 (some 1) (some (bytes "c")) = some (true, h2) ∧
        LinkInv h2) :=
  have hinv : LinkInv twoChildren :=
    LinkInv_write (LinkInv_write (LinkInv_write LinkInv_empty 1 _ (by decide)) 2 _ (by decide))
      3 _ (by decide)
  ⟨hinv, by decide,
    (mutators_keep_child_links twoChildren 1 [2, 3] hinv (by decide)).2.2.2.2.2.1 2 (by decide)
      2 (by decide),
    ((mutators_keep_child_links twoChildren 1 [2, 3] hinv (by decide)).2.2.1 4 (bytes "c")
      (by decide)).1⟩

end

section
open TXMLEngine

/-! ## The tree without its Comment nodes -/

theorem stripNode_fType (n : SXmlNode_t) : (stripNode n).fType = n.fType := by
  cases n with
  | mk ty nm attrs ns ch => simp [stripNode, SXmlNode_t.fType]

theorem stripNode_fName (n : SXmlNode_t) : (stripNode n).fName = n.fName := by
  cases n with
  | mk ty nm attrs ns ch => simp [stripNode, SXmlNode_t.fName]

theorem stripNode_fAttr (n : SXmlNode_t) : (stripNode n).fAttr = n.fAttr := by
  cases n with
  | mk ty nm attrs ns ch => simp [stripNode, SXmlNode_t.fAttr]

theorem stripNode_fNs (n : SXmlNode_t) : (stripNode n).fNs = n.fNs := by
  cases n with
  | mk ty nm attrs ns ch => simp [stripNode, SXmlNode_t.fNs]

theorem stripNode_fChild (n : SXmlNode_t) : (stripNode n).fChild = stripList n.fChild := by
  cases n with
  | mk ty nm attrs ns ch => simp [stripNode, SXmlNode_t.fChild]

theorem stripNode_eq (n : SXmlNode_t) :
    stripNode n = SXmlNode_t.mk n.fType n.fName n.fAttr n.fNs (stripList n.fChild) := by
  cases n with
  | mk ty nm attrs ns ch =>
    simp [stripNode, SXmlNode_t.fType, SXmlNode_t.fName, SXmlNode_t.fAttr, SXmlNode_t.fNs,
      SXmlNode_t.fChild]

theorem stripNode_nsAttr (n : SXmlNode_t) : (stripNode n).nsAttr = n.nsAttr := by
  simp only [SXmlNode_t.nsAttr, stripNode_fNs, stripNode_fAttr]

theorem stripList_append : ∀ xs ys : List SXmlNode_t,
    stripList (xs ++ ys) = stripList xs ++ stripList ys
  | [], ys => by simp [stripList]
  | x :: xs, ys => by
    by_cases hx : x.fType = EXmlNodeType.kXML_COMMENT
    · simp [stripList, hx, stripList_append xs ys]
    · simp [stripList, hx, stripList_append xs ys]

theorem stripNode_leaf (ty : EXmlNodeType) (nm : List Nat) (attrs : List SXmlAttr_t)
    (ns : Option NsPtr) :
    stripNode (SXmlNode_t.mk ty nm attrs ns []) = SXmlNode_t.mk ty nm attrs ns [] := by
  simp [stripNode, stripList]

theorem stripNode_AddChild_comment (p c : SXmlNode_t)
    (hc : c.fType = EXmlNodeType.kXML_COMMENT) : stripNode (AddChild p c) = stripNode p := by
  cases p with
  | mk ty nm attrs ns ch =>
    show stripNode (SXmlNode_t.mk ty nm attrs ns (ch ++ [c])) = _
    simp only [stripNode, stripList_append, stripList, hc, if_true, List.append_nil]

theorem stripNode_AddChild (p c : SXmlNode_t) (hc : c.fType ≠ EXmlNodeType.kXML_COMMENT) :
    stripNode (AddChild p c) = AddChild (stripNode p) (stripNode c) := by
  cases p with
  | mk ty nm attrs ns ch =>
    show stripNode (SXmlNode_t.mk ty nm attrs ns (ch ++ [c])) =
      AddChild (stripNode (SXmlNode_t.mk ty nm attrs ns ch)) (stripNode c)
    simp only [stripNode, stripList_append, stripList, hc, if_false]
    rfl

theorem stripNode_AddNodeContent (p : SXmlNode_t) (text : List Nat) :
    stripNode (AddNodeContent p text) = AddNodeContent (stripNode p) text := by
  rw [AddNodeContent, stripNode_AddChild _ _ (by simp [SXmlNode_t.fType]), stripNode_leaf]
  rfl

theorem AddNodeContent_fType (p : SXmlNode_t) (text : List Nat) :
    (AddNodeContent p text).fType = p.fType := rfl

theorem UnlinkLast_AddChild (p c : SXmlNode_t) : UnlinkLast (AddChild p c) = p := by
  cases p with
  | mk ty nm attrs ns ch =>
    simp [UnlinkLast, AddChild, SXmlNode_t.fType, SXmlNode_t.fName, SXmlNode_t.fAttr,
      SXmlNode_t.fNs, SXmlNode_t.fChild]

theorem stripNode_truncateIfNs (n : SXmlNode_t) :
    stripNode (truncateIfNs n) = truncateIfNs (stripNode n) := by
  cases n with
  | mk ty nm attrs ns ch =>
    cases ns with
    | none => simp [truncateIfNs, stripNode, SXmlNode_t.fNs]
    | some q =>
      simp [truncateIfNs, TruncateNsExtension, stripNode, SXmlNode_t.fNs, SXmlNode_t.fType,
        SXmlNode_t.fName, SXmlNode_t.fAttr, SXmlNode_t.fChild]

theorem truncateIfNs_fType (n : SXmlNode_t) : (truncateIfNs n).fType = n.fType := by
  unfold truncateIfNs
  split
  · rfl
  · rfl

theorem FindNs_strip : ∀ (up : List SXmlNode_t) (name : List Nat),
    FindNs (up.map stripNode) name = FindNs up name
  | [], name => by simp [FindNs]
  | n :: up, name => by
    simp only [List.map_cons, FindNs, stripNode_nsAttr, FindNs_strip up name]

theorem stripList_dropWhile : ∀ cs : List SXmlNode_t,
    (stripList cs).dropWhile (fun n => n.fType != EXmlNodeType.kXML_NODE) =
      stripList (cs.dropWhile fun n => n.fType != EXmlNodeType.kXML_NODE)
  | [] => by simp [stripList]
  | c :: cs => by
    by_cases hc : c.fType = EXmlNodeType.kXML_COMMENT
    · simp [stripList, hc, List.dropWhile_cons, stripList_dropWhile cs]
    · by_cases hn : c.fType = EXmlNodeType.kXML_NODE
      · simp [stripList, hc, hn, List.dropWhile_cons, stripNode_fType]
      · simp [stripList, hc, hn, List.dropWhile_cons, stripNode_fType, stripList_dropWhile cs]

theorem entityNodes_stripDoc (doc : SXmlDoc_t) :
    entityNodes (stripDoc doc) = stripList (entityNodes doc) := by
  simp only [entityNodes, stripDoc, stripNode_fChild, stripList_dropWhile]

theorem stripNode_foldl_AddChild : ∀ (cs : List SXmlNode_t) (p : SXmlNode_t),
    stripNode (cs.foldl AddChild p) = (stripList cs).foldl AddChild (stripNode p)
  | [], p => by simp [stripList]
  | c :: cs, p => by
    by_cases hc : c.fType = EXmlNodeType.kXML_COMMENT
    · simp only [List.foldl_cons, stripList, hc, if_true, stripNode_foldl_AddChild cs,
        stripNode_AddChild_comment p c hc]
    · simp only [List.foldl_cons, stripList, hc, if_false, stripNode_foldl_AddChild cs,
        stripNode_AddChild p c hc]

theorem foldl_AddChild_fType : ∀ (cs : List SXmlNode_t) (p : SXmlNode_t),
    (cs.foldl AddChild p).fType = p.fType
  | [], p => rfl
  | c :: cs, p => by
    rw [List.foldl_cons, foldl_AddChild_fType cs]
    rfl

theorem attach_strip_comment (p : Option SXmlNode_t) (c : SXmlNode_t)
    (hc : c.fType = EXmlNodeType.kXML_COMMENT) :
    (attach p c).map stripNode = p.map stripNode := by
  cases p with
  | none => rfl
  | some q => simp [attach, stripNode_AddChild_comment q c hc]

theorem attach_strip (p : Option SXmlNode_t) (c : SXmlNode_t)
    (hc : c.fType ≠ EXmlNodeType.kXML_COMMENT) :
    (attach p c).map stripNode = attach (p.map stripNode) (stripNode c) := by
  cases p with
  | none => rfl
  | some q => simp [attach, stripNode_AddChild q c hc]

theorem attach_fType (p : Option SXmlNode_t) (c : SXmlNode_t) :
    (attach p c).map (fun n => n.fType) = p.map (fun n => n.fType) := by
  cases p with
  | none => rfl
  | some q => rfl

/-- The relation between the two calls when both leave the parent as it was. -/
theorem SkipRel_same (xmlparent : Option SXmlNode_t) (res : Int) (n1 n2 : Option SXmlNode_t)
    (inp : TXMLInputStream) :
    SkipRel xmlparent ⟨res, n1, xmlparent, inp⟩ ⟨res, n2, xmlparent.map stripNode, inp⟩ :=
  ⟨rfl, rfl, rfl, rfl⟩

/-- The comment branch: the comment node is the only difference. -/
theorem ReadComment_skip {eng1 eng2 : TXMLEngine} (hp : SkipPair eng1 eng2)
    (xmlparent : Option SXmlNode_t) (inp : TXMLInputStream) :
    SkipRel xmlparent (ReadComment eng1 xmlparent inp)
      (ReadComment eng2 (xmlparent.map stripNode) inp) := by
  obtain ⟨h1, h2, -⟩ := hp
  unfold ReadComment
  rw [h1, h2]
  rcases inp.SearchFor (bytes "-->") with ⟨commentlen, inp1⟩
  simp only
  by_cases hlen : commentlen ≤ 0
  · rw [if_pos hlen, if_pos hlen]
    exact SkipRel_same _ _ _ _ _
  · rw [if_neg hlen, if_neg hlen]
    simp only [Bool.not_false, Bool.not_true, if_true, Bool.false_eq_true, if_false]
    have hs := attach_strip_comment xmlparent (SXmlNode_t.mk EXmlNodeType.kXML_COMMENT
      (inp1.slice inp1.fCurrent commentlen.toNat) [] none []) rfl
    have ht := attach_fType xmlparent (SXmlNode_t.mk EXmlNodeType.kXML_COMMENT
      (inp1.slice inp1.fCurrent commentlen.toNat) [] none [])
    rcases inp1.ShiftCurrent (commentlen.toNat + 3) with ⟨ok, inp2⟩
    cases ok with
    | false => exact ⟨rfl, rfl, hs.symm, ht⟩
    | true =>
      simp only
      rcases inp2.SkipSpaces with ⟨ok3, inp3⟩
      cases ok3 with
      | false => exact ⟨rfl, rfl, hs.symm, ht⟩
      | true => exact ⟨rfl, rfl, hs.symm, ht⟩

end

section
open TXMLEngine

/-! ## The branches of `ReadNode` with and without comment skipping -/

theorem ReadClosing_skip (xmlparent : Option SXmlNode_t) (inp : TXMLInputStream) :
    SkipRel xmlparent (ReadClosing xmlparent inp)
      (ReadClosing (xmlparent.map stripNode) inp) := by
  unfold ReadClosing
  cases xmlparent with
  | none =>
    simp only [Option.map_none']
    repeat' split
    all_goals exact ⟨rfl, rfl, rfl, rfl⟩
  | some parent =>
    simp only [Option.map_some', stripNode_fName]
    repeat' split
    all_goals first
      | exact ⟨rfl, rfl, rfl, rfl⟩
      | exact ⟨rfl, rfl, by simp [stripNode_truncateIfNs], by simp [truncateIfNs_fType]⟩

theorem ReadDtdEnd_skip (xmlparent : Option SXmlNode_t) (inp : TXMLInputStream) :
    SkipRel xmlparent (ReadDtdEnd xmlparent inp) (ReadDtdEnd (xmlparent.map stripNode) inp) := by
  unfold ReadDtdEnd
  split
  · exact ⟨rfl, rfl, rfl, rfl⟩
  · exact ⟨rfl, rfl, rfl, rfl⟩

theorem ReadDtd_skip (xmlparent : Option SXmlNode_t) (inp : TXMLInputStream) :
    SkipOutcome xmlparent (ReadDtd xmlparent inp) (ReadDtd (xmlparent.map stripNode) inp) := by
  unfold ReadDtd
  repeat' split
  all_goals first
    | exact SkipRel_same _ _ _ _ _
    | exact ReadDtdEnd_skip _ _
    | exact True.intro

theorem stripNode_bare {n : SXmlNode_t} (hc : n.fChild = []) : stripNode n = n := by
  cases n with
  | mk ty nm attrs ns ch =>
    have : ch = [] := hc
    subst this
    exact stripNode_leaf _ _ _ _

theorem ReadOpenTag_strip (up : List SXmlNode_t) (xmlparent : Option SXmlNode_t)
    (inp : TXMLInputStream) :
    ReadOpenTag (up.map stripNode) (xmlparent.map stripNode) inp =
      ReadOpenTag up xmlparent inp := by
  unfold ReadOpenTag
  cases xmlparent with
  | none => rfl
  | some parent =>
    simp only [Option.map_some']
    have hf : ∀ name, FindNs (stripNode parent :: up.map stripNode) name =
        FindNs (parent :: up) name := fun name => by
      rw [← List.map_cons, FindNs_strip]
    simp only [hf]

theorem ReadOpenTag_bare {up : List SXmlNode_t} {xmlparent : Option SXmlNode_t}
    {inp inp2 : TXMLInputStream} {tag : OpenTag}
    (h : ReadOpenTag up xmlparent inp = (some tag, inp2)) : tag.bare := by
  unfold ReadOpenTag at h
  simp only at h
  split at h
  · simp at h
  · split at h
    · simp at h
    · split at h
      · simp at h
      · simp only [Prod.mk.injEq, Option.some.injEq] at h
        obtain ⟨rfl, -⟩ := h
        constructor
        · show (if _ then _ else _) ≠ _
          split <;> simp
        · rfl

theorem ReadAttr_bare_aux (tag : OpenTag) (inp : TXMLInputStream) (hb : tag.bare) :
    (ReadAttr tag inp).2.1.bare := by
  unfold ReadAttr
  simp only
  split
  · exact hb
  · split
    · exact hb
    · split
      · exact hb
      · split
        · exact hb
        · exact hb

theorem ReadAttr_bare {tag tag2 : OpenTag} {inp inp2 : TXMLInputStream} {b : Bool}
    (hb : tag.bare) (h : ReadAttr tag inp = (b, tag2, inp2)) : tag2.bare := by
  have := ReadAttr_bare_aux tag inp hb
  rw [h] at this
  exact this

theorem SkipRel_attach (xmlparent : Option SXmlNode_t) {n : SXmlNode_t}
    (hn : n.fType ≠ EXmlNodeType.kXML_COMMENT) (hc : n.fChild = []) (res : Int)
    (n1 n2 : Option SXmlNode_t) (inp : TXMLInputStream) :
    SkipRel xmlparent ⟨res, n1, attach xmlparent n, inp⟩
      ⟨res, n2, attach (xmlparent.map stripNode) n, inp⟩ := by
  refine ⟨rfl, rfl, ?_, attach_fType _ _⟩
  rw [attach_strip _ _ hn, stripNode_bare hc]

theorem truncateIfNs_fChild (n : SXmlNode_t) : (truncateIfNs n).fChild = n.fChild := by
  unfold truncateIfNs
  split
  · rfl
  · rfl

theorem ReadTagStep_skip (xmlparent : Option SXmlNode_t) (tag : OpenTag)
    (inp : TXMLInputStream) (hb : tag.bare) :
    SkipStep xmlparent (ReadTagStep xmlparent tag inp)
      (ReadTagStep (xmlparent.map stripNode) tag inp) := by
  unfold ReadTagStep
  simp only []
  repeat' split
  all_goals first
    | exact SkipRel_attach xmlparent hb.1 hb.2 _ _ _ _
    | exact SkipRel_attach xmlparent (by rw [truncateIfNs_fType]; exact hb.1)
        (by rw [truncateIfNs_fChild]; exact hb.2) _ _ _ _
    | exact rfl
    | (rename_i heq
       have hb2 := ReadAttr_bare hb heq
       first
         | exact SkipRel_attach xmlparent hb2.1 hb2.2 _ _ _ _
         | exact ⟨rfl, rfl, hb2⟩)

theorem SkipOutcome_congr {p q : Option SXmlNode_t} {o1 o2 : Outcome ReadResult}
    (hpq : p.map (fun n => n.fType) = q.map (fun n => n.fType)) (h : SkipOutcome p o1 o2) :
    SkipOutcome q o1 o2 := by
  cases o1 <;> cases o2 <;> simp only [SkipOutcome] at h ⊢
  exact ⟨h.1, h.2.1, h.2.2.1, h.2.2.2.trans hpq⟩

/-- The end of `ReadNode` after the children were read. -/
theorem ReadNodeClosed_skip (xmlparent : Option SXmlNode_t) (tag : OpenTag)
    (r1 r2 : ReadResult) (hb : tag.bare) (hr : SkipRel (some tag.node) r1 r2) :
    SkipRel xmlparent (ReadNodeClosed xmlparent tag r1)
      (ReadNodeClosed (xmlparent.map stripNode) tag r2) := by
  obtain ⟨hres, hinp, hpar, hty⟩ := hr
  cases hp1 : r1.parent with
  | none => simp [hp1] at hty
  | some n1 =>
    rw [hp1] at hpar hty
    have hn1 : n1.fType ≠ EXmlNodeType.kXML_COMMENT := by
      have : n1.fType = tag.node.fType := by simpa using hty
      rw [this]
      exact hb.1
    unfold ReadNodeClosed
    simp only [hp1, hpar, hres, hinp, Option.map_some', Option.getD_some]
    split
    · exact ⟨rfl, rfl, by rw [attach_strip _ _ hn1], attach_fType _ _⟩
    · exact ⟨rfl, rfl, by rw [attach_strip _ _ hn1], attach_fType _ _⟩

end

section
open TXMLEngine

/-! ## The entity scan and the content branch with and without comment skipping -/

theorem ScanEntities_zero (eng : TXMLEngine) (inp : TXMLInputStream) (contptr : List Nat)
    (st : ScanState) : ScanEntities eng inp contptr 0 st = st := by
  rw [ScanEntities]

theorem ScanEntities_none (eng : TXMLEngine) (inp : TXMLInputStream) (contptr : List Nat)
    (n : Nat) (st : ScanState)
    (h : (if st.beg.isNone ∧ contptr.getD (contptr.length - (n + 1)) 0 = 38
      then some (contptr.length - (n + 1)) else st.beg) = none) :
    ScanEntities eng inp contptr (n + 1) st =
      ScanEntities eng inp contptr n { st with beg := none } := by
  rw [ScanEntities]
  simp only [h]

theorem ScanEntities_some (eng : TXMLEngine) (inp : TXMLInputStream) (contptr : List Nat)
    (n : Nat) (st : ScanState) (b : Nat)
    (h : (if st.beg.isNone ∧ contptr.getD (contptr.length - (n + 1)) 0 = 38
      then some (contptr.length - (n + 1)) else st.beg) = some b) :
    ScanEntities eng inp contptr (n + 1) st =
      if contptr.getD (contptr.length - (n + 1)) 0 ≠ 59 then
        ScanEntities eng inp contptr n { st with beg := some b }
      else if (scanFound eng inp contptr (contptr.length - (n + 1)) b st).failed then
        scanFound eng inp contptr (contptr.length - (n + 1)) b st
      else ScanEntities eng inp contptr n
        { scanFound eng inp contptr (contptr.length - (n + 1)) b st with
          beg := none, lastentity := some (contptr.length - (n + 1) + 1) } := by
  rw [ScanEntities]
  simp only [h]
  rfl

theorem entityStep_skip {eng1 eng2 : TXMLEngine} (hp : SkipPair eng1 eng2)
    (contptr : List Nat) (b : Nat) (entity : TXMLEntity) (st : ScanState)
    (p0 c : SXmlNode_t) (hc : c.fType ≠ EXmlNodeType.kXML_COMMENT)
    (hinv : st.lastentity = none → st.parent = AddChild p0 c) :
    entityStep eng2 contptr b entity st.strip = (entityStep eng1 contptr b entity st).strip ∧
      (entityStep eng1 contptr b entity st).parent.fType = st.parent.fType := by
  obtain ⟨-, -, -, -, hpf⟩ := hp
  cases st with
  | mk beg le unl fl par =>
    cases le with
    | none =>
      have hpar : par = AddChild p0 c := hinv rfl
      subst hpar
      simp only [entityStep, ScanState.strip, Option.isNone_none, if_true, Option.getD_some,
        UnlinkLast_AddChild, stripNode_AddChild _ _ hc, hpf]
      by_cases h0 : (0 : Nat) ≠ b
      · simp only [if_pos h0]
        cases entity.fSystem with
        | false =>
          simp [stripNode_AddNodeContent, AddNodeContent_fType]
        | true =>
          simp only [if_true]
          cases eng1.ParseFile entity.title with
          | none => simp [stripNode_AddNodeContent, AddNodeContent_fType]
          | some doc =>
            simp [stripNode_AddNodeContent, AddNodeContent_fType, entityNodes_stripDoc,
              stripNode_foldl_AddChild, foldl_AddChild_fType]
      · simp only [if_neg h0]
        cases entity.fSystem with
        | false =>
          simp [stripNode_AddNodeContent, AddNodeContent_fType]
        | true =>
          simp only [if_true]
          cases eng1.ParseFile entity.title with
          | none => simp
          | some doc =>
            simp [entityNodes_stripDoc, stripNode_foldl_AddChild, foldl_AddChild_fType]
    | some last =>
      simp only [entityStep, ScanState.strip, Option.isNone_some, Bool.false_eq_true, if_false,
        Option.getD_some, hpf]
      by_cases h0 : last ≠ b
      · simp only [if_pos h0]
        cases entity.fSystem with
        | false =>
          simp [stripNode_AddNodeContent, AddNodeContent_fType]
        | true =>
          simp only [if_true]
          cases eng1.ParseFile entity.title with
          | none => simp [stripNode_AddNodeContent, AddNodeContent_fType]
          | some doc =>
            simp [stripNode_AddNodeContent, AddNodeContent_fType, entityNodes_stripDoc,
              stripNode_foldl_AddChild, foldl_AddChild_fType]
      · simp only [if_neg h0]
        cases entity.fSystem with
        | false =>
          simp [stripNode_AddNodeContent, AddNodeContent_fType]
        | true =>
          simp only [if_true]
          cases eng1.ParseFile entity.title with
          | none => simp
          | some doc =>
            simp [entityNodes_stripDoc, stripNode_foldl_AddChild, foldl_AddChild_fType]

theorem scanFound_skip {eng1 eng2 : TXMLEngine} (hp : SkipPair eng1 eng2)
    (inp : TXMLInputStream) (contptr : List Nat) (curr b : Nat) (st : ScanState)
    (p0 c : SXmlNode_t) (hc : c.fType ≠ EXmlNodeType.kXML_COMMENT)
    (hinv : st.lastentity = none → st.parent = AddChild p0 c) :
    scanFound eng2 inp contptr curr b st.strip = (scanFound eng1 inp contptr curr b st).strip ∧
      (scanFound eng1 inp contptr curr b st).parent.fType = st.parent.fType := by
  unfold scanFound
  cases inp.FindEntity ((contptr.drop (b + 1)).take (curr - b - 1)) with
  | none => exact ⟨rfl, rfl⟩
  | some entity => exact entityStep_skip hp contptr b entity st p0 c hc hinv

/-- The entity scan: the parents that the two scans leave differ in the Comment nodes
only. -/
theorem ScanEntities_skip {eng1 eng2 : TXMLEngine} (hp : SkipPair eng1 eng2)
    (inp : TXMLInputStream) (contptr : List Nat) (p0 c : SXmlNode_t)
    (hc : c.fType ≠ EXmlNodeType.kXML_COMMENT) :
    ∀ (n : Nat) (st : ScanState), (st.lastentity = none → st.parent = AddChild p0 c) →
      ScanEntities eng2 inp contptr n st.strip = (ScanEntities eng1 inp contptr n st).strip ∧
        (ScanEntities eng1 inp contptr n st).parent.fType = st.parent.fType
  | 0, st, _ => by
    rw [ScanEntities_zero, ScanEntities_zero]
    exact ⟨rfl, rfl⟩
  | n + 1, st, hinv => by
    cases hb : (if st.beg.isNone ∧ contptr.getD (contptr.length - (n + 1)) 0 = 38
        then some (contptr.length - (n + 1)) else st.beg) with
    | none =>
      rw [ScanEntities_none eng1 inp contptr n st hb,
        ScanEntities_none eng2 inp contptr n st.strip hb]
      exact ScanEntities_skip hp inp contptr p0 c hc n { st with beg := none } hinv
    | some b =>
      rw [ScanEntities_some eng1 inp contptr n st b hb,
        ScanEntities_some eng2 inp contptr n st.strip b hb]
      by_cases hs : contptr.getD (contptr.length - (n + 1)) 0 ≠ 59
      · rw [if_pos hs, if_pos hs]
        exact ScanEntities_skip hp inp contptr p0 c hc n { st with beg := some b } hinv
      · rw [if_neg hs, if_neg hs]
        obtain ⟨hf, hty⟩ :=
          scanFound_skip hp inp contptr (contptr.length - (n + 1)) b st p0 c hc hinv
        rw [hf]
        by_cases hfail : (scanFound eng1 inp contptr (contptr.length - (n + 1)) b st).failed
        · have hfail2 : (scanFound eng1 inp contptr (contptr.length - (n + 1)) b
              st).strip.failed = true := hfail
          rw [if_pos hfail, if_pos hfail2]
          exact ⟨rfl, hty⟩
        · have hfail2 : ¬ (scanFound eng1 inp contptr (contptr.length - (n + 1)) b
              st).strip.failed = true := hfail
          rw [if_neg hfail, if_neg hfail2]
          obtain ⟨ih1, ih2⟩ := ScanEntities_skip hp inp contptr p0 c hc n
            { scanFound eng1 inp contptr (contptr.length - (n + 1)) b st with
              beg := none, lastentity := some (contptr.length - (n + 1) + 1) }
            (fun h => by cases h)
          exact ⟨ih1, ih2.trans hty⟩

/-- The content branch: with entities or without, the parents that the two calls leave
differ in the Comment nodes only. -/
theorem ReadContent_skip {eng1 eng2 : TXMLEngine} (hp : SkipPair eng1 eng2)
    (xmlparent : Option SXmlNode_t) (inp : TXMLInputStream) :
    SkipOutcome xmlparent (ReadContent eng1 xmlparent inp)
      (ReadContent eng2 (xmlparent.map stripNode) inp) := by
  cases xmlparent with
  | none =>
    unfold ReadContent
    exact ⟨rfl, rfl, rfl, rfl⟩
  | some parent =>
    unfold ReadContent
    simp only [Option.map_some']
    rcases inp.LocateContent with ⟨contlen, inp1⟩
    simp only
    by_cases hlen : contlen < 0
    · rw [if_pos hlen, if_pos hlen]
      exact ⟨rfl, rfl, rfl, rfl⟩
    · rw [if_neg hlen, if_neg hlen]
      have hc : (SXmlNode_t.mk EXmlNodeType.kXML_CONTENT
          (UnpackSpecialCharacters (inp1.slice inp1.fCurrent contlen.toNat)) [] none []).fType ≠
          EXmlNodeType.kXML_COMMENT := by simp [SXmlNode_t.fType]
      have hadd := stripNode_AddChild parent _ hc
      rw [stripNode_leaf] at hadd
      rcases inp1.ShiftCurrent contlen.toNat with ⟨ok, inp2⟩
      cases ok with
      | false => exact ⟨rfl, rfl, by simp [hadd], rfl⟩
      | true =>
        simp only
        by_cases hent : inp2.NumEntities ≤ 0
        · rw [if_pos hent, if_pos hent]
          exact ⟨rfl, rfl, by simp [hadd], rfl⟩
        · rw [if_neg hent, if_neg hent]
          obtain ⟨hs, hty⟩ := ScanEntities_skip hp inp2
            (UnpackSpecialCharacters (inp1.slice inp1.fCurrent contlen.toNat)) parent _ hc
            (UnpackSpecialCharacters (inp1.slice inp1.fCurrent contlen.toNat)).length
            ⟨none, none, false, false, AddChild parent (SXmlNode_t.mk EXmlNodeType.kXML_CONTENT
              (UnpackSpecialCharacters (inp1.slice inp1.fCurrent contlen.toNat)) [] none [])⟩
            (fun _ => rfl)
          simp only [ScanState.strip, hadd] at hs
          rw [hs]
          simp only
          generalize ScanEntities eng1 inp2
            (UnpackSpecialCharacters (inp1.slice inp1.fCurrent contlen.toNat))
            (UnpackSpecialCharacters (inp1.slice inp1.fCurrent contlen.toNat)).length
            ⟨none, none, false, false, AddChild parent (SXmlNode_t.mk EXmlNodeType.kXML_CONTENT
              (UnpackSpecialCharacters (inp1.slice inp1.fCurrent contlen.toNat)) [] none [])⟩ =
            st at hty ⊢
          have hty2 : st.parent.fType = parent.fType := hty
          by_cases hfail : st.failed
          · rw [if_pos hfail, if_pos hfail]
            exact ⟨rfl, rfl, rfl, by simp [hty2]⟩
          · rw [if_neg hfail, if_neg hfail]
            cases hl : st.lastentity with
            | none => exact ⟨rfl, rfl, rfl, by simp [hty2]⟩
            | some last =>
              simp only
              cases hu : st.unlinked with
              | false => exact True.intro
              | true =>
                simp only [if_true]
                split
                · exact ⟨rfl, rfl, by simp [stripNode_AddNodeContent],
                    by simp [AddNodeContent_fType, hty2]⟩
                · exact ⟨rfl, rfl, rfl, by simp [hty2]⟩

end

section
open TXMLEngine

/-! ## C26: `ReadNode` and `ParseString` with and without comment skipping -/

theorem ReadNodeStart_skip {eng1 eng2 : TXMLEngine} (hp : SkipPair eng1 eng2)
    (up : List SXmlNode_t) (xmlparent : Option SXmlNode_t) (inp : TXMLInputStream) :
    SkipStart xmlparent (ReadNodeStart eng1 up xmlparent inp)
      (ReadNodeStart eng2 (up.map stripNode) (xmlparent.map stripNode) inp) := by
  unfold ReadNodeStart
  simp only [ReadOpenTag_strip]
  repeat' split
  all_goals first
    | exact SkipRel_same _ _ _ _ _
    | exact ReadComment_skip hp _ _
    | exact ReadContent_skip hp _ _
    | exact ReadClosing_skip _ _
    | exact ReadDtd_skip _ _
    | (rename_i heq1 _ _ _
       have hb := ReadOpenTag_bare heq1
       first
         | exact SkipRel_attach xmlparent hb.1 hb.2 _ _ _ _
         | exact ⟨rfl, rfl, hb⟩)

theorem chainOf_strip (xmlparent : Option SXmlNode_t) (up : List SXmlNode_t) :
    chainOf (xmlparent.map stripNode) (up.map stripNode) = (chainOf xmlparent up).map stripNode := by
  cases xmlparent with
  | none => rfl
  | some p => rfl

/-- `ReadNode`, its attribute loop and its loop over the children: what the calls leave
with comments skipped is what they leave with comments kept, without the Comment nodes. -/
theorem ReadNode_skip {eng1 eng2 : TXMLEngine} (hp : SkipPair eng1 eng2) :
    ∀ fuel : Nat,
      (∀ up xmlparent inp,
        SkipOutcome xmlparent (ReadNode eng1 fuel up xmlparent inp)
          (ReadNode eng2 fuel (up.map stripNode) (xmlparent.map stripNode) inp)) ∧
      (∀ up xmlparent (tag : OpenTag) inp, tag.bare →
        SkipOutcome xmlparent (ReadNodeAttrs eng1 fuel up xmlparent tag inp)
          (ReadNodeAttrs eng2 fuel (up.map stripNode) (xmlparent.map stripNode) tag inp)) ∧
      (∀ up (node : SXmlNode_t) inp, node.fType ≠ EXmlNodeType.kXML_COMMENT →
        SkipOutcome (some node) (ReadNodeChildren eng1 fuel up node inp)
          (ReadNodeChildren eng2 fuel (up.map stripNode) (stripNode node) inp))
  | 0 => by
    refine ⟨fun _ _ _ => ?_, fun _ _ _ _ _ => ?_, fun _ _ _ _ => ?_⟩
    · rw [ReadNode, ReadNode]
      exact True.intro
    · rw [ReadNodeAttrs, ReadNodeAttrs]
      exact True.intro
    · rw [ReadNodeChildren, ReadNodeChildren]
      exact True.intro
  | fuel + 1 => by
    obtain ⟨ih1, ih2, ih3⟩ := ReadNode_skip hp fuel
    refine ⟨fun up xmlparent inp => ?_, fun up xmlparent tag inp hb => ?_,
      fun up node inp hn => ?_⟩
    · rw [ReadNode, ReadNode]
      have hs := ReadNodeStart_skip hp up xmlparent inp
      cases h1 : ReadNodeStart eng1 up xmlparent inp with
      | ret o1 =>
        cases h2 : ReadNodeStart eng2 (up.map stripNode) (xmlparent.map stripNode) inp with
        | ret o2 =>
          rw [h1, h2] at hs
          exact hs
        | tag t2 i2 =>
          rw [h1, h2] at hs
          exact hs.elim
      | tag t1 i1 =>
        cases h2 : ReadNodeStart eng2 (up.map stripNode) (xmlparent.map stripNode) inp with
        | ret o2 =>
          rw [h1, h2] at hs
          exact hs.elim
        | tag t2 i2 =>
          rw [h1, h2] at hs
          obtain ⟨rfl, rfl, hb⟩ := hs
          exact ih2 up xmlparent t2 i2 hb
    · rw [ReadNodeAttrs, ReadNodeAttrs]
      have hs := ReadTagStep_skip xmlparent tag inp hb
      cases h1 : ReadTagStep xmlparent tag inp with
      | ret r1 =>
        cases h2 : ReadTagStep (xmlparent.map stripNode) tag inp with
        | ret r2 =>
          rw [h1, h2] at hs
          exact hs
        | more t2 i2 =>
          rw [h1, h2] at hs
          exact hs.elim
        | children i2 =>
          rw [h1, h2] at hs
          exact hs.elim
      | more t1 i1 =>
        cases h2 : ReadTagStep (xmlparent.map stripNode) tag inp with
        | ret r2 =>
          rw [h1, h2] at hs
          exact hs.elim
        | more t2 i2 =>
          rw [h1, h2] at hs
          obtain ⟨rfl, rfl, hb2⟩ := hs
          exact ih2 up xmlparent t2 i2 hb2
        | children i2 =>
          rw [h1, h2] at hs
          exact hs.elim
      | children i1 =>
        cases h2 : ReadTagStep (xmlparent.map stripNode) tag inp with
        | ret r2 =>
          rw [h1, h2] at hs
          exact hs.elim
        | more t2 i2 =>
          rw [h1, h2] at hs
          exact hs.elim
        | children i2 =>
          rw [h1, h2] at hs
          have hi : i2 = i1 := hs
          subst hi
          simp only
          have hc := ih3 (chainOf xmlparent up) tag.node i2 hb.1
          rw [stripNode_bare hb.2, ← chainOf_strip] at hc
          cases h3 : ReadNodeChildren eng1 fuel (chainOf xmlparent up) tag.node i2 with
          | outOfFuel =>
            rw [h3] at hc
            cases h4 : ReadNodeChildren eng2 fuel
                (chainOf (xmlparent.map stripNode) (up.map stripNode)) tag.node i2 with
            | outOfFuel => exact True.intro
            | useAfterFree =>
              rw [h4] at hc
              exact hc.elim
            | done r2 =>
              rw [h4] at hc
              exact hc.elim
          | useAfterFree =>
            rw [h3] at hc
            cases h4 : ReadNodeChildren eng2 fuel
                (chainOf (xmlparent.map stripNode) (up.map stripNode)) tag.node i2 with
            | outOfFuel =>
              rw [h4] at hc
              exact hc.elim
            | useAfterFree => exact True.intro
            | done r2 =>
              rw [h4] at hc
              exact hc.elim
          | done r1 =>
            rw [h3] at hc
            cases h4 : ReadNodeChildren eng2 fuel
                (chainOf (xmlparent.map stripNode) (up.map stripNode)) tag.node i2 with
            | outOfFuel =>
              rw [h4] at hc
              exact hc.elim
            | useAfterFree =>
              rw [h4] at hc
              exact hc.elim
            | done r2 =>
              rw [h4] at hc
              exact ReadNodeClosed_skip xmlparent tag r1 r2 hb hc
    · rw [ReadNodeChildren, ReadNodeChildren]
      have hc := ih1 up (some node) inp
      simp only [Option.map_some'] at hc
      cases h3 : ReadNode eng1 fuel up (some node) inp with
      | outOfFuel =>
        rw [h3] at hc
        cases h4 : ReadNode eng2 fuel (up.map stripNode) (some (stripNode node)) inp with
        | outOfFuel => exact True.intro
        | useAfterFree =>
          rw [h4] at hc
          exact hc.elim
        | done r2 =>
          rw [h4] at hc
          exact hc.elim
      | useAfterFree =>
        rw [h3] at hc
        cases h4 : ReadNode eng2 fuel (up.map stripNode) (some (stripNode node)) inp with
        | outOfFuel =>
          rw [h4] at hc
          exact hc.elim
        | useAfterFree => exact True.intro
        | done r2 =>
          rw [h4] at hc
          exact hc.elim
      | done r1 =>
        rw [h3] at hc
        cases h4 : ReadNode eng2 fuel (up.map stripNode) (some (stripNode node)) inp with
        | outOfFuel =>
          rw [h4] at hc
          exact hc.elim
        | useAfterFree =>
          rw [h4] at hc
          exact hc.elim
        | done r2 =>
          rw [h4] at hc
          obtain ⟨hres, hinp, hpar, hty⟩ := id hc
          simp only [hres, hinp]
          by_cases h2 : r1.resvalue = 2
          · rw [if_pos h2, if_pos h2]
            cases hp1 : r1.parent with
            | none => simp [hp1] at hty
            | some n1 =>
              rw [hp1] at hpar hty
              have ht : n1.fType = node.fType := by simpa using hty
              rw [hpar]
              simp only [Option.map_some', Option.getD_some]
              exact SkipOutcome_congr (by simp [ht])
                (ih3 up n1 r1.inp (by rw [ht]; exact hn))
          · rw [if_neg h2, if_neg h2]
            exact hc

end

section
open TXMLEngine

theorem ParseStreamLoop_skip {eng1 eng2 : TXMLEngine} (hp : SkipPair eng1 eng2) :
    ∀ (fuel : Nat) (root : SXmlNode_t) (inp : TXMLInputStream),
      root.fType ≠ EXmlNodeType.kXML_COMMENT →
      ParseStreamLoop eng2 fuel (stripNode root) inp =
        mapResult stripDoc (ParseStreamLoop eng1 fuel root inp)
  | 0, root, inp, _ => by
    rw [ParseStreamLoop, ParseStreamLoop]
    rfl
  | fuel + 1, root, inp, hroot => by
    rw [ParseStreamLoop, ParseStreamLoop]
    have hc := (ReadNode_skip hp fuel).1 [] (some root) inp
    simp only [Option.map_some', List.map_nil] at hc
    cases h3 : ReadNode eng1 fuel [] (some root) inp with
    | outOfFuel =>
      rw [h3] at hc
      cases h4 : ReadNode eng2 fuel [] (some (stripNode root)) inp with
      | outOfFuel => rfl
      | useAfterFree =>
        rw [h4] at hc
        exact hc.elim
      | done r2 =>
        rw [h4] at hc
        exact hc.elim
    | useAfterFree =>
      rw [h3] at hc
      cases h4 : ReadNode eng2 fuel [] (some (stripNode root)) inp with
      | outOfFuel =>
        rw [h4] at hc
        exact hc.elim
      | useAfterFree => rfl
      | done r2 =>
        rw [h4] at hc
        exact hc.elim
    | done r1 =>
      rw [h3] at hc
      cases h4 : ReadNode eng2 fuel [] (some (stripNode root)) inp with
      | outOfFuel =>
        rw [h4] at hc
        exact hc.elim
      | useAfterFree =>
        rw [h4] at hc
        exact hc.elim
      | done r2 =>
        rw [h4] at hc
        obtain ⟨hres, hinp, hpar, hty⟩ := hc
        simp only [hres, hinp]
        by_cases h2 : r1.resvalue ≠ 2
        · rw [if_pos h2, if_pos h2]
          rfl
        · rw [if_neg h2, if_neg h2]
          cases hp1 : r1.parent with
          | none => simp [hp1] at hty
          | some n1 =>
            rw [hp1] at hpar hty
            have ht : n1.fType = root.fType := by simpa using hty
            rw [hpar]
            simp only [Option.map_some', Option.getD_some]
            have hn1 : n1.fType ≠ EXmlNodeType.kXML_COMMENT := by
              rw [ht]
              exact hroot
            generalize (if (!r1.inp.EndOfStream) = true then r1.inp.SkipSpaces.2 else r1.inp) =
              inp2
            by_cases he : inp2.EndOfStream = true
            · rw [if_pos he, if_pos he]
              rfl
            · rw [if_neg he, if_neg he]
              exact ParseStreamLoop_skip hp fuel n1 inp2 hn1

/-- C26: `ParseString` with comment skipping returns what `ParseString` without comment
skipping returns, with all Comment nodes deleted from the document (the other nodes, their
attributes and texts are the same, in the same order); an error return has the same error
code and line. So one call succeeds exactly when the other does. The two engines differ in
`fSkipComments` only, also for the files of system entities. -/
theorem ParseString_skip_comments (eng1 eng2 : TXMLEngine) (xmlstring : List Nat)
    (hp : SkipPair eng1 eng2) :
    ParseString eng2 xmlstring = mapResult stripDoc (ParseString eng1 xmlstring) ∧
      ((∃ doc, ParseString eng2 xmlstring = ParseResult.ok doc) ↔
        ∃ doc, ParseString eng1 xmlstring = ParseResult.ok doc) := by
  have key : ParseString eng2 xmlstring = mapResult stripDoc (ParseString eng1 xmlstring) := by
    unfold ParseString
    split
    · rfl
    · obtain ⟨-, -, hcs, hpb, -⟩ := id hp
      unfold ParseStream
      rw [hcs, hpb]
      have h := ParseStreamLoop_skip hp
        (2 * (TXMLInputStream.ofString xmlstring (2 * xmlstring.length) eng1.charSigned
          eng1.pastByte).avail + 4) NewDocNull.fRootNode
        (TXMLInputStream.ofString xmlstring (2 * xmlstring.length) eng1.charSigned
          eng1.pastByte) (by decide)
      rw [← h]
      rfl
  refine ⟨key, ?_⟩
  rw [key]
  cases ParseString eng1 xmlstring <;> simp [mapResult]

theorem ParseString_skip_comments_witness :
    SkipPair ⟨false, true, 0, fun _ => none⟩ ⟨true, true, 0, fun _ => none⟩ ∧
      ParseString ⟨false, true, 0, fun _ => none⟩ (bytes "<a><!--c-->t<b/><!--d--></a>") =
        ParseResult.ok ⟨SXmlNode_t.mk EXmlNodeType.kXML_NODE (bytes "??DummyTopNode??") [] none
          [SXmlNode_t.mk EXmlNodeType.kXML_NODE (bytes "a") [] none
            [SXmlNode_t.mk EXmlNodeType.kXML_COMMENT (bytes "c") [] none [],
             SXmlNode_t.mk EXmlNodeType.kXML_CONTENT (bytes "t") [] none [],
             SXmlNode_t.mk EXmlNodeType.kXML_NODE (bytes "b") [] none [],
             SXmlNode_t.mk EXmlNodeType.kXML_COMMENT (bytes "d") [] none []]], none, none⟩ ∧
      ParseString ⟨true, true, 0, fun _ => none⟩ (bytes "<a><!--c-->t<b/><!--d--></a>") =
        mapResult stripDoc
          (ParseString ⟨false, true, 0, fun _ => none⟩ (bytes "<a><!--c-->t<b/><!--d--></a>")) :=
  ⟨⟨rfl, rfl, rfl, rfl, fun _ => rfl⟩, by decide!,
    (ParseString_skip_comments ⟨false, true, 0, fun _ => none⟩ ⟨true, true, 0, fun _ => none⟩
      (bytes "<a><!--c-->t<b/><!--d--></a>") ⟨rfl, rfl, rfl, rfl, fun _ => rfl⟩).1⟩

end

section
open TXMLEngine TXMLInputStream

/-! ## `LocateValue` when `realloc` moves the buffer -/

theorem PtrStream_ExpandStream_moved (s : PtrStream) (realloc : Nat → Nat → Nat)
    (hleft : s.inp.fInpStr ≠ []) (hsize : s.inp.fBuf.length < s.inp.fBufSize * 2) :
    ∃ inp2, s.ExpandStream realloc =
      (true, ⟨inp2, realloc s.fBufAddr (s.inp.fBufSize * 2)⟩) := by
  have hpos : 0 < s.inp.fInpStr.length := List.length_pos.2 hleft
  have heof : s.inp.EndOfFile = false := by
    simp only [TXMLInputStream.EndOfFile, decide_eq_false_iff_not]
    omega
  have hno : ¬ s.inp.fInpStr.length ≤ 0 := by omega
  have h1 : s.inp.ExpandStream.1 = true := by
    unfold TXMLInputStream.ExpandStream TXMLInputStream.DoRead
    simp only [TXMLInputStream.EndOfFile, hno, decide_False, Bool.false_eq_true, if_false]
    by_cases hk : s.inp.fBufSize * 2 - s.inp.fBuf.length > s.inp.fInpStr.length
    · simp only [if_pos hk]
      rw [if_neg (by simp only [List.length_take]; omega)]
    · simp only [if_neg hk]
      rw [if_neg (by simp only [List.length_take]; omega)]
  refine ⟨s.inp.ExpandStream.2, ?_⟩
  unfold PtrStream.ExpandStream
  simp only [heof, Bool.false_eq_true, if_false, h1]

/-- The closing loop of `LocateValue` on a buffer that ends before the closing quote: the
loop reaches `fMaxAddr`, `ExpandStream` moves the buffer, and `*curr` reads through the
pointer into the old block. -/
theorem PtrStream_LocateValueLoop_stale (s : PtrStream) (realloc : Nat → Nat → Nat)
    (start : BufPtr) (quote : Nat) (hleft : s.inp.fInpStr ≠ [])
    (hsize : s.inp.fBuf.length < s.inp.fBufSize * 2)
    (hmove : realloc s.fBufAddr (s.inp.fBufSize * 2) ≠ s.fBufAddr) :
    ∀ (fuel : Nat) (curr : BufPtr), curr.block = s.fBufAddr →
      curr.off < s.inp.fBuf.length →
      (∀ i, curr.off < i → i < s.inp.fBuf.length → s.inp.deref i ≠ quote) →
      s.inp.fBuf.length - curr.off ≤ fuel →
      PtrStream.LocateValueLoop realloc start quote fuel curr s = PtrOutcome.stale
  | 0, curr, _, hlt, _, hf => by omega
  | fuel + 1, curr, hblock, hlt, hno, hf => by
    rw [PtrStream.LocateValueLoop]
    simp only
    by_cases hend : curr.off + 1 ≥ s.inp.fBuf.length
    · obtain ⟨inp2, he⟩ := PtrStream_ExpandStream_moved s realloc hleft hsize
      have hx : s.ExpandAt realloc ⟨curr.block, curr.off + 1⟩ =
          PtrOutcome.done (true, ⟨inp2, realloc s.fBufAddr (s.inp.fBufSize * 2)⟩) := by
        unfold PtrStream.ExpandAt
        simp only [hblock, ne_eq, not_true_eq_false, if_false, hend, if_true, he]
      rw [hx]
      simp only [PtrStream.read, hblock, hmove.symm, if_false]
    · have hx : s.ExpandAt realloc ⟨curr.block, curr.off + 1⟩ = PtrOutcome.done (true, s) := by
        unfold PtrStream.ExpandAt
        simp only [hblock, ne_eq, not_true_eq_false, if_false, hend]
      rw [hx]
      have hne := hno (curr.off + 1) (by omega) (by omega)
      simp only [PtrStream.read, hblock, if_true, hne, if_false]
      have hlt2 : curr.off + 1 < s.inp.fBuf.length := by omega
      have hf2 : s.inp.fBuf.length - (curr.off + 1) ≤ fuel := by omega
      have hno2 : ∀ i, curr.off + 1 < i → i < s.inp.fBuf.length → s.inp.deref i ≠ quote :=
        fun i hi hi2 => hno i (by omega) hi2
      have ih := PtrStream_LocateValueLoop_stale s realloc start quote hleft hsize hmove fuel
        ⟨curr.block, curr.off + 1⟩ hblock hlt2 hno2 hf2
      rw [hblock] at ih
      rw [if_pos hlt2]
      exact ih

theorem deref_of_drop {inp : TXMLInputStream} {p : Nat} {l : List Nat}
    (h : inp.fBuf.drop p = l) (i : Nat) (hi : i < l.length) :
    inp.deref (p + i) = l.getD i 0 := by
  subst h
  have hlt : p + i < inp.fBuf.length := by
    simp only [List.length_drop] at hi
    omega
  simp only [TXMLInputStream.deref, List.getD_eq_getElem?_getD, List.getElem?_drop,
    List.getElem?_eq_getElem hlt, Option.getD_some]

/-- `LocateValue` on a buffer that holds `="` and a part of the value without the closing
quote, with input left to read: when `realloc` returns another block, the call reads
through a pointer into the freed block. -/
theorem PtrStream_LocateValue_stale (s : PtrStream) (realloc : Nat → Nat → Nat)
    (start : BufPtr) (value : List Nat) (hblock : start.block = s.fBufAddr)
    (hbuf : s.inp.fBuf.drop start.off = 61 :: 34 :: value) (hq : 34 ∉ value)
    (hcur : s.inp.fCurrent ≤ start.off) (hleft : s.inp.fInpStr ≠ [])
    (hsize : s.inp.fBuf.length ≤ s.inp.fBufSize)
    (hmove : realloc s.fBufAddr (s.inp.fBufSize * 2) ≠ s.fBufAddr) :
    s.LocateValue realloc start true = PtrOutcome.stale := by
  have hlen : s.inp.fBuf.length = start.off + (value.length + 2) := by
    have := congrArg List.length hbuf
    simp only [List.length_drop, List.length_cons] at this
    omega
  have h0 := deref_of_drop hbuf 0 (by simp)
  have h1 := deref_of_drop hbuf 1 (by simp)
  simp only [Nat.add_zero, List.getD_cons_zero, List.getD_cons_succ] at h0 h1
  have hx0 : s.ExpandAt realloc start = PtrOutcome.done (true, s) := by
    unfold PtrStream.ExpandAt
    rw [if_neg (by simp [hblock]), if_neg (by omega)]
  have hx1 : s.ExpandAt realloc ⟨s.fBufAddr, start.off + 1⟩ = PtrOutcome.done (true, s) := by
    unfold PtrStream.ExpandAt
    rw [if_neg (by simp), if_neg (by simp only; omega)]
  unfold PtrStream.LocateValue
  rw [hx0]
  simp only [if_true, PtrStream.read, hblock, h0, ne_eq, not_true_eq_false, if_false, hx1,
    PtrStream.LocateValueQuoted, h1, false_and]
  have hsize2 : s.inp.fBuf.length < s.inp.fBufSize * 2 := by omega
  have hlt : start.off + 1 < s.inp.fBuf.length := by omega
  have hfuel : s.inp.fBuf.length - (start.off + 1) ≤ s.inp.avail + 1 := by
    simp only [TXMLInputStream.avail]
    omega
  have hno : ∀ i, start.off + 1 < i → i < s.inp.fBuf.length → s.inp.deref i ≠ 34 := by
    intro i hi hi2
    have hd := deref_of_drop hbuf (i - start.off) (by simp only [List.length_cons]; omega)
    rw [show start.off + (i - start.off) = i by omega] at hd
    rw [hd]
    obtain ⟨k, hk⟩ : ∃ k, i - start.off = k + 2 := ⟨i - start.off - 2, by omega⟩
    rw [hk, List.getD_cons_succ, List.getD_cons_succ]
    intro e
    have hkl : k < value.length := by omega
    rw [List.getD_eq_getElem?_getD, List.getElem?_eq_getElem hkl, Option.getD_some] at e
    exact hq (e ▸ List.getElem_mem hkl)
  have ih := PtrStream_LocateValueLoop_stale s realloc start 34 hleft hsize2 hmove
    (s.inp.avail + 1) ⟨s.fBufAddr, start.off + 1⟩ rfl hlt hno hfuel
  exact ih

theorem PtrStream_ExpandStream_inplace (s : PtrStream) (realloc : Nat → Nat → Nat)
    (hin : ∀ a n, realloc a n = a) :
    s.ExpandStream realloc = (s.inp.ExpandStream.1, ⟨s.inp.ExpandStream.2, s.fBufAddr⟩) := by
  unfold PtrStream.ExpandStream
  by_cases heof : s.inp.EndOfFile = true
  · rw [if_pos heof]
    unfold TXMLInputStream.ExpandStream
    rw [if_pos heof]
  · rw [if_neg heof, hin]

theorem PtrStream_ExpandStream_addr (s : PtrStream) (realloc : Nat → Nat → Nat)
    (hin : ∀ a n, realloc a n = a) : (s.ExpandStream realloc).2.fBufAddr = s.fBufAddr := by
  rw [PtrStream_ExpandStream_inplace s realloc hin]

theorem PtrStream_ExpandAt_inplace (s : PtrStream) (realloc : Nat → Nat → Nat)
    (hin : ∀ a n, realloc a n = a) (curr : BufPtr) (hb : curr.block = s.fBufAddr) :
    s.ExpandAt realloc curr =
      PtrOutcome.done ((s.inp.ExpandAt curr.off).1, ⟨(s.inp.ExpandAt curr.off).2, s.fBufAddr⟩) := by
  unfold PtrStream.ExpandAt TXMLInputStream.ExpandAt
  rw [if_neg (by simp [hb])]
  by_cases hc : curr.off ≥ s.inp.fBuf.length
  · rw [if_pos hc, if_pos hc, PtrStream_ExpandStream_inplace s realloc hin]
  · rw [if_neg hc, if_neg hc]

/-- When `realloc` extends the block in place, the closing loop of `LocateValue` with
pointers is the loop with offsets. -/
theorem PtrStream_LocateValueLoop_inplace (realloc : Nat → Nat → Nat)
    (hin : ∀ a n, realloc a n = a) (start : BufPtr) (quote : Nat) :
    ∀ (fuel : Nat) (curr : BufPtr) (s : PtrStream), curr.block = s.fBufAddr →
      PtrStream.LocateValueLoop realloc start quote fuel curr s =
        PtrOutcome.done ((s.inp.LocateValueLoop start.off quote fuel curr.off).1,
          ⟨(s.inp.LocateValueLoop start.off quote fuel curr.off).2, s.fBufAddr⟩)
  | 0, curr, s, _ => by
    rw [PtrStream.LocateValueLoop, TXMLInputStream.LocateValueLoop]
  | fuel + 1, curr, s, hb => by
    rw [PtrStream.LocateValueLoop, TXMLInputStream.LocateValueLoop]
    simp only
    rw [PtrStream_ExpandAt_inplace s realloc hin ⟨curr.block, curr.off + 1⟩ hb]
    simp only
    rcases s.inp.ExpandAt (curr.off + 1) with ⟨ok, inp2⟩
    cases ok with
    | false => rfl
    | true =>
      simp only [PtrStream.read, hb, if_true]
      by_cases hq : inp2.deref (curr.off + 1) = quote
      · rw [if_pos hq, if_pos hq]
      · rw [if_neg hq, if_neg hq]
        by_cases hl : curr.off + 1 < inp2.fBuf.length
        · rw [if_pos hl, if_pos hl]
          exact PtrStream_LocateValueLoop_inplace realloc hin start quote fuel
            ⟨s.fBufAddr, curr.off + 1⟩ ⟨inp2, s.fBufAddr⟩ rfl
        · rw [if_neg hl, if_neg hl]

/-- When `realloc` extends the block in place, `LocateValue` with pointers is `LocateValue`
with offsets. -/
theorem PtrStream_LocateValue_inplace (s : PtrStream) (realloc : Nat → Nat → Nat)
    (hin : ∀ a n, realloc a n = a) (start : BufPtr) (hb : start.block = s.fBufAddr)
    (withequalsign : Bool) :
    s.LocateValue realloc start withequalsign =
      PtrOutcome.done ((s.inp.LocateValue start.off withequalsign).1,
        ⟨(s.inp.LocateValue start.off withequalsign).2, s.fBufAddr⟩) := by
  have hquoted : ∀ (s2 : PtrStream) (curr : BufPtr), curr.block = s2.fBufAddr →
      s2.LocateValueQuoted realloc start curr =
        PtrOutcome.done ((s2.inp.LocateValueQuoted start.off curr.off).1,
          ⟨(s2.inp.LocateValueQuoted start.off curr.off).2, s2.fBufAddr⟩) := by
    intro s2 curr hc
    unfold PtrStream.LocateValueQuoted TXMLInputStream.LocateValueQuoted
    simp only [PtrStream.read, hc, if_true]
    split
    · rfl
    · exact PtrStream_LocateValueLoop_inplace realloc hin start _ _ curr s2 hc
  unfold PtrStream.LocateValue TXMLInputStream.LocateValue
  rw [PtrStream_ExpandAt_inplace s realloc hin start hb]
  rcases s.inp.ExpandAt start.off with ⟨ok, inp2⟩
  cases ok with
  | false => rfl
  | true =>
    simp only
    cases withequalsign with
    | false =>
      simp only [Bool.false_eq_true, if_false]
      exact hquoted ⟨inp2, s.fBufAddr⟩ start hb
    | true =>
      simp only [if_true, PtrStream.read, hb]
      by_cases h61 : inp2.deref start.off ≠ 61
      · rw [if_pos h61, if_pos h61]
      · rw [if_neg h61, if_neg h61]
        rw [PtrStream_ExpandAt_inplace ⟨inp2, s.fBufAddr⟩ realloc hin
          ⟨s.fBufAddr, start.off + 1⟩ rfl]
        rcases inp2.ExpandAt (start.off + 1) with ⟨ok3, inp3⟩
        cases ok3 with
        | false => rfl
        | true => exact hquoted ⟨inp3, s.fBufAddr⟩ ⟨s.fBufAddr, start.off + 1⟩ rfl

end

section
open TXMLEngine TXMLInputStream

/-! ## C28: the round trip of an attribute value -/

theorem ofString_long (str : List Nat) (n : Nat) (sg : Bool) (pb : Nat) (h : n < str.length) :
    (TXMLInputStream.ofString str n sg pb).fBuf = str.take n ∧
      (TXMLInputStream.ofString str n sg pb).fInpStr = str.drop n := by
  unfold TXMLInputStream.ofString TXMLInputStream.DoRead TXMLInputStream.EndOfFile
  have h0 : ¬ str.length ≤ 0 := by omega
  have h1 : ¬ n > str.length := by omega
  simp [h0, h1]

theorem asciiIdent_plainAttr (sg : Bool) {a : List Nat} (ha : asciiIdent a = true)
    (v : List Nat) : plainAttr sg ⟨a, v⟩ = true := by
  have hcol := asciiIdent_no_colon ha
  simp only [plainAttr, asciiIdent_isName sg ha, Bool.true_and, Bool.not_eq_true',
    Bool.and_eq_false_iff, decide_eq_false_iff_not, beq_eq_false_iff_ne, ne_eq]
  right
  intro e
  apply hcol
  have h58 : (58 : Nat) ∈ a.take 6 := by
    rw [e]
    decide
  exact List.mem_of_mem_take h58

theorem drop_take_value (P E T : List Nat) (k : Nat) (hk : P.length + 2 ≤ k)
    (hE : k - P.length - 2 ≤ E.length) :
    ((P ++ 61 :: 34 :: (E ++ T)).take k).drop P.length =
      61 :: 34 :: E.take (k - P.length - 2) := by
  rw [List.take_append_eq_append_take, List.take_of_length_le (by omega), List.drop_left]
  obtain ⟨m, hm⟩ : ∃ m, k - P.length = m + 2 := ⟨k - P.length - 2, by omega⟩
  rw [hm, List.take_succ_cons, List.take_succ_cons, List.take_append_of_le_length (by omega)]
  rw [show m + 2 - 2 = m by omega]

/-- The text that `SaveSingleNode` writes for an element with one attribute. -/
theorem nodeText_one_attr (lay : Bool) (n a v : List Nat) :
    nodeText lay 0 (SXmlNode_t.mk EXmlNodeType.kXML_NODE n [⟨a, v⟩] none []) =
      (60 :: n ++ 32 :: a) ++ 61 :: 34 :: (escapeText v ++ 34 :: 47 :: 62 :: newline lay) := by
  rw [nodeText_node_nil]
  simp [indent, attrsText, bytes_eqq]

/-- C28: an element `n` with the single attribute `a = v`, for ASCII identifiers `n` and `a`
and a value `v` without NUL byte, each shorter than 2000 bytes. `SaveSingleNode` writes it
for every layout. When the text has up to 10000 bytes (the buffer of `ReadSingleNode`),
`ReadSingleNode` reads it back as the element `n` with exactly the attribute `a = v`. When
the closing quote of the value lies behind the first 10000 bytes, `LocateValue`, called
with the buffer of `ReadSingleNode` at the end of the attribute name, uses a pointer into
the freed block as soon as `realloc` returns another address. -/
theorem ReadSingleNode_attr_round_trip (eng : TXMLEngine) (n a v : List Nat) (layout : Int)
    (hn : asciiIdent n = true) (ha : asciiIdent a = true) (hnl : n.length < 2000)
    (hal : a.length < 2000) (hvl : v.length < 2000) (_h0 : 0 ∉ v) :
    ∃ s, SaveSingleNode (NewAttr (NewChild none n none) a v) [] layout = some s ∧
      (s.length ≤ 10000 → ReadSingleNode eng s =
        ParseResult.ok (SXmlNode_t.mk EXmlNodeType.kXML_NODE n [⟨a, v⟩] none [])) ∧
      (10000 ≤ n.length + a.length + (escapeText v).length + 4 →
        ∀ (inp : TXMLInputStream) (addr : Nat) (realloc : Nat → Nat → Nat),
          inp.fBuf = (TXMLInputStream.ofString s 10000 eng.charSigned eng.pastByte).fBuf →
          inp.fInpStr = (TXMLInputStream.ofString s 10000 eng.charSigned eng.pastByte).fInpStr →
          inp.fBufSize = 10000 → inp.fCurrent = n.length + 2 →
          realloc addr 20000 ≠ addr →
          PtrStream.LocateValue ⟨inp, addr⟩ realloc ⟨addr, n.length + 2 + a.length⟩ true =
            PtrOutcome.stale) := by
  have htree : NewAttr (NewChild none n none) a v =
      SXmlNode_t.mk EXmlNodeType.kXML_NODE n [⟨a, v⟩] none [] := by
    simp [NewAttr, NewChild, SXmlNode_t.fType, SXmlNode_t.fName, SXmlNode_t.fAttr,
      SXmlNode_t.fNs, SXmlNode_t.fChild]
  have hw : widest (SXmlNode_t.mk EXmlNodeType.kXML_NODE n [⟨a, v⟩] none []) < 2500 := by
    simp [widest, widestList, attrsWidest, nsText, SXmlNode_t.nsAttr, SXmlNode_t.fNs]
    omega
  have hplain : plain eng.charSigned
      (SXmlNode_t.mk EXmlNodeType.kXML_NODE n [⟨a, v⟩] none []) = true := by
    simp [plain, plainList, asciiIdent_isName eng.charSigned hn,
      asciiIdent_plainAttr eng.charSigned ha v]
  rw [htree]
  refine ⟨_, SaveSingleNode_eq _ layout hw, fun hlen => ?_, fun hlong => ?_⟩
  · rw [ReadSingleNode_plain eng _ _ hplain hlen]
    simp [unpacked, unpackedList]
  · intro inp addr realloc hbuf hinp hsize hcur hmove
    have htext := nodeText_one_attr (decide (layout > 0)) n a v
    have hpre : (60 :: n ++ 32 :: a).length = n.length + 2 + a.length := by
      simp only [List.length_cons, List.length_append]
      omega
    have htl : 10000 < (nodeText (decide (layout > 0)) 0
        (SXmlNode_t.mk EXmlNodeType.kXML_NODE n [⟨a, v⟩] none [])).length := by
      rw [htext]
      simp only [List.length_cons, List.length_append]
      omega
    obtain ⟨hb, hi⟩ := ofString_long _ 10000 eng.charSigned eng.pastByte htl
    rw [hb] at hbuf
    rw [hi] at hinp
    have hdrop : inp.fBuf.drop (n.length + 2 + a.length) =
        61 :: 34 :: (escapeText v).take (10000 - (n.length + 2 + a.length) - 2) := by
      rw [hbuf, htext, ← hpre]
      exact drop_take_value _ _ _ 10000 (by rw [hpre]; omega) (by rw [hpre]; omega)
    refine PtrStream_LocateValue_stale ⟨inp, addr⟩ realloc ⟨addr, n.length + 2 + a.length⟩ _
      rfl hdrop (fun hm => not_mem_escapeText_34 v (List.mem_of_mem_take hm)) ?_ ?_ ?_ ?_
    · show inp.fCurrent ≤ n.length + 2 + a.length
      omega
    · show inp.fInpStr ≠ []
      rw [hinp]
      intro e
      have := congrArg List.length e
      simp only [List.length_drop, List.length_nil] at this
      omega
    · show inp.fBuf.length ≤ inp.fBufSize
      rw [hbuf, hsize, List.length_take]
      omega
    · show realloc addr (inp.fBufSize * 2) ≠ addr
      rw [hsize]
      exact hmove

theorem escapeText_quotes_length : ∀ k : Nat,
    (escapeText (List.replicate k 34)).length = 6 * k
  | 0 => rfl
  | k + 1 => by
    rw [List.replicate_succ, escapeText, List.length_append, escapeText_quotes_length k]
    have : (escapeByte 34).length = 6 := by decide
    omega

theorem ofString_fBufSize (str : List Nat) (n : Nat) (sg : Bool) (pb : Nat) :
    (TXMLInputStream.ofString str n sg pb).fBufSize = n := by
  unfold TXMLInputStream.ofString TXMLInputStream.DoRead
  simp only []
  split <;> rfl

theorem ReadSingleNode_attr_round_trip_witness :
    (∃ s, SaveSingleNode (NewAttr (NewChild none (bytes "n") none) (bytes "a") (bytes "x<\"y"))
        [] 0 = some s ∧
      ReadSingleNode ⟨false, true, 0, fun _ => none⟩ s =
        ParseResult.ok (SXmlNode_t.mk EXmlNodeType.kXML_NODE (bytes "n")
          [⟨bytes "a", bytes "x<\"y"⟩] none [])) ∧
    (∃ s, SaveSingleNode (NewAttr (NewChild none (bytes "n") none) (bytes "a")
        (List.replicate 1666 34)) [] 0 = some s ∧
      ∀ (addr : Nat) (realloc : Nat → Nat → Nat), realloc addr 20000 ≠ addr →
        PtrStream.LocateValue ⟨{ TXMLInputStream.ofString s 10000 true 0 with fCurrent := 3 },
          addr⟩ realloc ⟨addr, 4⟩ true = PtrOutcome.stale) := by
  constructor
  · obtain ⟨s, hs, hshort, -⟩ := ReadSingleNode_attr_round_trip ⟨false, true, 0, fun _ => none⟩
      (bytes "n") (bytes "a") (bytes "x<\"y") 0 (by decide) (by decide) (by decide) (by decide)
      (by decide) (by decide)
    have he : SaveSingleNode (NewAttr (NewChild none (bytes "n") none) (bytes "a")
        (bytes "x<\"y")) [] 0 = some (bytes "<n a=\"x&lt;&quot;y\"/>") := by decide
    have hse : s = bytes "<n a=\"x&lt;&quot;y\"/>" := by
      rw [he] at hs
      exact (Option.some.inj hs).symm
    exact ⟨s, hs, hshort (by rw [hse]; decide)⟩
  · obtain ⟨s, hs, -, hlong⟩ := ReadSingleNode_attr_round_trip ⟨false, true, 0, fun _ => none⟩
      (bytes "n") (bytes "a") (List.replicate 1666 34) 0 (by decide) (by decide) (by decide)
      (by decide) (by rw [List.length_replicate]; decide)
      (fun h => absurd (List.eq_of_mem_replicate h) (by decide))
    refine ⟨s, hs, fun addr realloc hmove => ?_⟩
    exact hlong (by rw [escapeText_quotes_length]; decide) _ addr realloc rfl rfl
      (ofString_fBufSize _ _ _ _) rfl hmove

end

section
open TXMLOutputStream

/-! ## C35: the output sink over a string -/

theorem runCalls_fits : ∀ (calls : List SinkCall) (out : TXMLOutputStream) (k : Nat),
    out.roomFor k → (∀ str, SinkCall.write str ∈ calls → str.length ≤ k) →
    ∃ out2, runCalls calls out = some out2 ∧ Extends out out2 (callsText calls)
  | [], out, _, _, _ => ⟨out, rfl, by simpa [callsText] using Extends.refl out⟩
  | SinkCall.write str :: calls, out, k, hr, hfit => by
    obtain ⟨o1, h1, e1⟩ := Write_extends out str (hr.mono (hfit str (List.mem_cons_self _ _)))
    obtain ⟨o2, h2, e2⟩ := runCalls_fits calls o1 k (hr.step e1)
      (fun s hs => hfit s (List.mem_cons_of_mem _ hs))
    refine ⟨o2, ?_, e1.trans e2⟩
    simp only [runCalls, SinkCall.run, h1, Option.some_bind, h2]
  | SinkCall.put symb cnt :: calls, out, k, hr, hfit => by
    have e1 := Put_extends out symb cnt
    obtain ⟨o2, h2, e2⟩ := runCalls_fits calls (out.Put symb cnt) k (hr.step e1)
      (fun s hs => hfit s (List.mem_cons_of_mem _ hs))
    refine ⟨o2, ?_, e1.trans e2⟩
    simp only [runCalls, SinkCall.run, Option.some_bind, h2]

/-- C35: a sink over a string that holds `outstr`, with the buffer size `bufsize`. When
every text handed to `Write` is shorter than the quarter of the buffer behind the soft
limit, every sequence of `Write` and `Put` calls runs, and after the destructor the string
is `outstr` followed by the texts and repeated characters in call order. A `Write` of a
text that is as long as the free space of the buffer or longer calls `fOut->write`, and
`fOut` is null for a sink over a string: the call has no result, whatever was written
before. `Put` has no such case. -/
theorem sink_preserves_written (outstr : List Nat) (bufsize : Nat) (calls : List SinkCall)
    (hfit : ∀ str, SinkCall.write str ∈ calls → bufsize * 3 / 4 + str.length < bufsize) :
    (∃ out, runCalls calls (ofString outstr bufsize) = some out ∧
      out.close = outstr ++ callsText calls) ∧
    (∀ (out : TXMLOutputStream) (str : List Nat), out.fOut = false →
      (out.Write str = none ↔ out.fBuf.length + str.length ≥ out.fMaxAddr)) ∧
    (∀ str, bufsize ≤ str.length → runCalls [SinkCall.write str] (ofString outstr bufsize) = none) := by
  refine ⟨?_, ?_, ?_⟩
  · by_cases hc : ∃ str, SinkCall.write str ∈ calls
    · obtain ⟨s0, hs0⟩ := hc
      have h0 := hfit s0 hs0
      have hroom : (ofString outstr bufsize).roomFor (bufsize - bufsize * 3 / 4 - 1) := by
        right
        simp only [ofString, List.length_nil]
        omega
      obtain ⟨out, hrun, he⟩ := runCalls_fits calls _ _ hroom (fun s hs => by
        have := hfit s hs
        omega)
      refine ⟨out, hrun, ?_⟩
      rw [close_eq_written, he.1]
      simp [written, ofString]
    · have hall : ∀ (cs : List SinkCall) (o : TXMLOutputStream),
          (∀ str, SinkCall.write str ∉ cs) →
          ∃ out2, runCalls cs o = some out2 ∧ Extends o out2 (callsText cs) := by
        intro cs
        induction cs with
        | nil => exact fun o _ => ⟨o, rfl, by simpa [callsText] using Extends.refl o⟩
        | cons c cs ih =>
          intro o hno
          cases c with
          | write str => exact absurd (List.mem_cons_self _ _) (hno str)
          | put symb cnt =>
            obtain ⟨o2, h2, e2⟩ := ih (o.Put symb cnt)
              (fun s hs => hno s (List.mem_cons_of_mem _ hs))
            exact ⟨o2, by simp only [runCalls, SinkCall.run, Option.some_bind, h2],
              (Put_extends o symb cnt).trans e2⟩
      obtain ⟨out, hrun, he⟩ := hall calls (ofString outstr bufsize)
        (fun s hs => hc ⟨s, hs⟩)
      refine ⟨out, hrun, ?_⟩
      rw [close_eq_written, he.1]
      simp [written, ofString]
  · intro out str hf
    unfold Write
    by_cases h1 : out.fBuf.length + str.length ≥ out.fMaxAddr
    · simp [h1, OutputCurrent, hf]
    · simp only [h1, if_false, iff_false]
      split <;> simp
  · intro str hlen
    simp only [runCalls, SinkCall.run, Write, ofString, List.length_nil, Nat.zero_add,
      OutputCurrent]
    rw [if_pos (by omega)]
    rfl

theorem sink_preserves_written_witness :
    (∃ out, runCalls [SinkCall.write (bytes "ab"), SinkCall.put 32 20,
        SinkCall.write (bytes "cd"), SinkCall.put 10 1] (ofString (bytes "x") 12) = some out ∧
      out.close = bytes "x" ++ callsText [SinkCall.write (bytes "ab"), SinkCall.put 32 20,
        SinkCall.write (bytes "cd"), SinkCall.put 10 1]) ∧
    runCalls [SinkCall.write (bytes "0123456789ab")] (ofString (bytes "x") 12) = none :=
  have h := sink_preserves_written (bytes "x") 12 [SinkCall.write (bytes "ab"),
    SinkCall.put 32 20, SinkCall.write (bytes "cd"), SinkCall.put 10 1] (by
      intro str hs
      simp only [List.mem_cons, SinkCall.write.injEq, List.mem_singleton, or_false,
        false_or, reduceCtorEq, List.not_mem_nil] at hs
      rcases hs with rfl | rfl <;> decide)
  ⟨h.1, h.2.2 (bytes "0123456789ab") (by decide)⟩

end

section
open TXMLEngine TXMLInputStream

/-! ## C36: `SkipSpaces` -/

/-- `SkipSpaces` passes over a run of space bytes without a newline, for both values of
`tillendl`. -/
theorem Buffered_SkipSpacesLoop_peel (tillendl : Bool) (w : List Nat) :
    ∀ (inp : TXMLInputStream), inp.Buffered → ∀ (f : Nat) (tail : List Nat),
      inp.rest = w ++ tail → (∀ b ∈ w, inp.isSpace b = true ∧ (tillendl = true → b ≠ 10)) →
      SkipSpacesLoop tillendl (f + w.length) inp =
        SkipSpacesLoop tillendl f (inp.advance w.length) := by
  induction w with
  | nil =>
    intro inp _ f tail _ _
    simp
  | cons b w ih =>
    intro inp hb f tail hr hw
    have hlt : inp.fCurrent < inp.fBuf.length := by
      have := rest_length inp; rw [hr] at this; simp at this; omega
    have hd : inp.deref inp.fCurrent = b := by rw [deref_fCurrent, hr]; rfl
    obtain ⟨hbs, hb10⟩ := hw b (List.mem_cons_self _ _)
    have hsp : ¬ (inp.asChar b > 26 ∧ b ≠ 32) := by
      intro hx; rw [← isSpace_iff] at hx; rw [hx] at hbs; exact Bool.noConfusion hbs
    have hshift := hb.ShiftCurrent 1 (by rw [hr]; simp)
    have hnl : ¬ (tillendl = true ∧ b = 10) := fun hx => hb10 hx.1 hx.2
    rw [show f + (b :: w).length = (f + w.length) + 1 by simp only [List.length_cons]; omega]
    rw [SkipSpacesLoop]
    simp only [hlt, if_true, hd, hsp, if_false, hshift, hnl]
    rw [ih (inp.advance 1) (hb.advance 1) f tail (by simp [hr])
      (fun x hx => by simpa using hw x (List.mem_cons_of_mem _ hx))]
    simp only [advance_advance, List.length_cons]
    congr 2
    omega

theorem Buffered_SkipSpaces_peel {inp : TXMLInputStream} (hb : inp.Buffered) (tillendl : Bool)
    (w tail : List Nat) (hr : inp.rest = w ++ tail)
    (hw : ∀ b ∈ w, inp.isSpace b = true ∧ (tillendl = true → b ≠ 10)) :
    inp.SkipSpaces tillendl = (inp.advance w.length).SkipSpaces tillendl := by
  unfold SkipSpaces
  have hav : inp.avail + 1 = ((inp.advance w.length).avail + 1) + w.length := by
    rw [hb.avail, (hb.advance w.length).avail, hr, advance_rest, hr]
    simp
    omega
  rw [hav]
  exact Buffered_SkipSpacesLoop_peel tillendl w inp hb _ tail hr hw

/-- The bytes that `SkipSpaces` passes over: 0x00..0x1A and 0x20, and with a signed plain
`char` also every byte from 0x80 on. -/
theorem isSpace_byte (inp : TXMLInputStream) (b : Nat) :
    inp.isSpace b = true ↔ b ≤ 26 ∨ b = 32 ∨ (inp.charSigned = true ∧ 128 ≤ b ∧ b ≤ 282) := by
  have h := isSpace_iff inp b
  have h2 : inp.isSpace b = true ↔ ¬ (inp.asChar b > 26 ∧ b ≠ 32) := by
    rw [← h]
    cases inp.isSpace b <;> simp
  rw [h2]
  unfold asChar
  by_cases hs : b ≥ 128 ∧ inp.charSigned = true
  · rw [if_pos hs]
    obtain ⟨h128, hsg⟩ := hs
    constructor
    · intro hx
      by_cases h32 : b = 32
      · exact Or.inr (Or.inl h32)
      · right; right
        refine ⟨hsg, h128, ?_⟩
        have : ¬ ((b : Int) - 256 > 26) := fun hgt => hx ⟨hgt, h32⟩
        omega
    · rintro (hx | hx | ⟨_, _, hx⟩) ⟨hgt, hne⟩
      · omega
      · exact hne hx
      · omega
  · rw [if_neg hs]
    constructor
    · intro hx
      by_cases h32 : b = 32
      · exact Or.inr (Or.inl h32)
      · left
        have : ¬ ((b : Int) > 26) := fun hgt => hx ⟨hgt, h32⟩
        omega
    · rintro (hx | hx | ⟨hsg, h128, _⟩) ⟨hgt, hne⟩
      · omega
      · exact hne hx
      · exact hs ⟨h128, hsg⟩

/-- C36: `SkipSpaces` on a stream that holds the whole source in its buffer.
`SkipSpaces(false)` passes over the longest run of space bytes at the cursor and returns
true with the cursor on the first byte that is not a space byte; it returns false, with
the cursor at the end, when only space bytes are left. `SkipSpaces(true)` does the same up
to the first newline, and returns true right behind a newline that it has passed. The
space bytes are 0x00..0x1A and 0x20, and on a platform whose plain `char` is signed also
all bytes from 0x80 on: there `SkipSpaces` passes over the byte 0xC8 in front of `A`, on a
platform with unsigned `char` it stops at it. -/
theorem SkipSpaces_run_of_spaces (inp : TXMLInputStream) (h : inp.Buffered) :
    (∀ w c tail, inp.rest = w ++ c :: tail → (∀ b ∈ w, inp.isSpace b = true) →
      inp.isSpace c = false → inp.SkipSpaces false = (true, inp.advance w.length)) ∧
    ((∀ b ∈ inp.rest, inp.isSpace b = true) →
      inp.SkipSpaces false = (false, inp.advance inp.rest.length)) ∧
    (∀ w c tail, inp.rest = w ++ c :: tail → (∀ b ∈ w, inp.isSpace b = true ∧ b ≠ 10) →
      inp.isSpace c = false → inp.SkipSpaces true = (true, inp.advance w.length)) ∧
    (∀ w tail, inp.rest = w ++ 10 :: tail → (∀ b ∈ w, inp.isSpace b = true ∧ b ≠ 10) →
      inp.SkipSpaces true = (true, inp.advance (w.length + 1))) ∧
    ((∀ b ∈ inp.rest, inp.isSpace b = true ∧ b ≠ 10) →
      inp.SkipSpaces true = (false, inp.advance inp.rest.length)) ∧
    (∀ b, b < 256 → (inp.isSpace b = true ↔
      b ≤ 26 ∨ b = 32 ∨ (inp.charSigned = true ∧ 128 ≤ b))) ∧
    ((TXMLInputStream.ofString [32, 200, 65] 6 true 0).SkipSpaces false).2.fCurrent = 2 ∧
    ((TXMLInputStream.ofString [32, 200, 65] 6 false 0).SkipSpaces false).2.fCurrent = 1 := by
  refine ⟨fun w c tail hr hw hc => h.SkipSpaces_spec w c tail hr hw hc,
    fun hw => Buffered_SkipSpaces_only h hw, ?_, ?_, ?_, ?_, by decide, by decide⟩
  · intro w c tail hr hw hc
    rw [Buffered_SkipSpaces_peel h true w (c :: tail) hr (fun b hb => ⟨(hw b hb).1,
      fun _ => (hw b hb).2⟩)]
    have := (h.advance w.length).SkipSpaces_stop true c tail (by simp [hr]) (by simpa using hc)
    exact this
  · intro w tail hr hw
    rw [Buffered_SkipSpaces_peel h true w (10 :: tail) hr (fun b hb => ⟨(hw b hb).1,
      fun _ => (hw b hb).2⟩)]
    rw [(h.advance w.length).SkipSpaces_newline tail (by simp [hr])]
    simp
  · intro hw
    rw [Buffered_SkipSpaces_peel h true inp.rest [] (by simp) (fun b hb => ⟨(hw b hb).1,
      fun _ => (hw b hb).2⟩)]
    exact (h.advance inp.rest.length).SkipSpaces_end true (by simp)
  · intro b hb
    rw [isSpace_byte]
    constructor
    · rintro (hx | hx | ⟨h1, h2, _⟩)
      · exact Or.inl hx
      · exact Or.inr (Or.inl hx)
      · exact Or.inr (Or.inr ⟨h1, h2⟩)
    · rintro (hx | hx | ⟨h1, h2⟩)
      · exact Or.inl hx
      · exact Or.inr (Or.inl hx)
      · exact Or.inr (Or.inr ⟨h1, h2, by omega⟩)

theorem SkipSpaces_run_of_spaces_witness :
    (TXMLInputStream.ofString (bytes "  \n x") 10 true 0).Buffered ∧
      (TXMLInputStream.ofString (bytes "  \n x") 10 true 0).SkipSpaces false =
        (true, (TXMLInputStream.ofString (bytes "  \n x") 10 true 0).advance 4) ∧
      (TXMLInputStream.ofString (bytes "  \n x") 10 true 0).SkipSpaces true =
        (true, (TXMLInputStream.ofString (bytes "  \n x") 10 true 0).advance 3) :=
  have hb := (ofString_spec (bytes "  \n x") 10 true 0 (by decide)).1
  ⟨hb,
    (SkipSpaces_run_of_spaces _ hb).1 (bytes "  \n ") 120 [] (by decide) (by decide) (by decide),
    (SkipSpaces_run_of_spaces _ hb).2.2.2.1 (bytes "  ") (bytes " x") (by decide) (by decide)⟩

end

section
open TXMLEngine TXMLInputStream

/-! ## C37: `SearchFor` -/

/-- C37 (counterexample): with the cursor on `-->x`, `SearchFor("-->")` fails although the
literal stands at the cursor, and on `-->x-->` it returns 4, the offset of the second
occurrence. -/
theorem SearchFor_misses_at_cursor :
    ((TXMLInputStream.ofString (bytes "-->x") 8 true 0).SearchFor (bytes "-->")).1 = -1 ∧
    ((TXMLInputStream.ofString (bytes "-->x-->") 14 true 0).SearchFor (bytes "-->")).1 = 4 := by
  constructor <;> decide

/-- C37 (amended): on a stream that holds the whole source in its buffer, `SearchFor` with a
literal that is not empty leaves the stream as it is and returns the offset from the cursor
of the first occurrence of the literal that starts behind the cursor (offset 1 or more); it
returns -1 exactly when there is no such occurrence. An occurrence at the cursor itself is
not seen. -/
theorem SearchFor_first_behind_cursor (inp : TXMLInputStream) (str : List Nat)
    (h : inp.Buffered) (hs : str ≠ []) :
    (∀ k, 1 ≤ k → (inp.rest.drop k).take str.length = str →
      (∀ j, 1 ≤ j → j < k → (inp.rest.drop j).take str.length ≠ str) →
      inp.SearchFor str = ((k : Int), inp)) ∧
    ((inp.SearchFor str).1 = -1 ↔
      ∀ j, 1 ≤ j → (inp.rest.drop j).take str.length ≠ str) ∧
    (inp.SearchFor str).2 = inp := by
  have hfound := fun k hk1 hk hno => h.SearchFor_found str hs k hk1 hk hno
  by_cases hex : ∃ k, 1 ≤ k ∧ (inp.rest.drop k).take str.length = str
  · classical
    have hk := Nat.find_spec hex
    have hmin : ∀ j, 1 ≤ j → j < Nat.find hex → (inp.rest.drop j).take str.length ≠ str :=
      fun j hj hlt e => Nat.find_min hex hlt ⟨hj, e⟩
    have hrun := hfound (Nat.find hex) hk.1 hk.2 hmin
    refine ⟨hfound, ?_, by rw [hrun]⟩
    rw [hrun]
    constructor
    · intro e
      have : ((Nat.find hex : Nat) : Int) = -1 := e
      omega
    · intro hno
      exact absurd hk.2 (hno _ hk.1)
  · have hno : ∀ j, 1 ≤ j → (inp.rest.drop j).take str.length ≠ str :=
      fun j hj e => hex ⟨j, hj, e⟩
    have hrun := h.SearchFor_none str hno
    refine ⟨hfound, ?_, by rw [hrun]⟩
    rw [hrun]
    exact ⟨fun _ => hno, fun _ => rfl⟩

theorem SearchFor_first_behind_cursor_witness :
    (TXMLInputStream.ofString (bytes "ab-->x-->") 18 true 0).Buffered ∧
      (TXMLInputStream.ofString (bytes "ab-->x-->") 18 true 0).SearchFor (bytes "-->") =
        (2, TXMLInputStream.ofString (bytes "ab-->x-->") 18 true 0) :=
  have hb := (ofString_spec (bytes "ab-->x-->") 18 true 0 (by decide)).1
  ⟨hb, (SearchFor_first_behind_cursor _ (bytes "-->") hb (by decide)).1 2 (by decide)
    (by decide) (by
      intro j h1 h2
      have : j = 1 := by omega
      subst this
      decide)⟩

end

section
open TXMLEngine TXMLInputStream

/-! ## C38: `LocateIdentifier` -/

theorem Buffered_LocateIdentifierLoop_snd {inp : TXMLInputStream} (h : inp.Buffered) :
    ∀ (fuel curr : Nat), (LocateIdentifierLoop fuel curr inp).2 = inp
  | 0, _ => by rw [LocateIdentifierLoop]
  | fuel + 1, curr => by
    rw [LocateIdentifierLoop]
    simp only [h.ExpandAt]
    by_cases hlt : curr + 1 < inp.fBuf.length
    · simp only [hlt, decide_True]
      split
      · rfl
      · exact Buffered_LocateIdentifierLoop_snd h fuel (curr + 1)
    · simp only [hlt, decide_False]

theorem Buffered_LocateIdentifier_snd {inp : TXMLInputStream} (h : inp.Buffered) :
    inp.LocateIdentifier.2 = inp := by
  unfold LocateIdentifier
  split
  · rfl
  · exact Buffered_LocateIdentifierLoop_snd h _ _

/-- A run of name bytes that reaches the end of the data: the loop of `LocateIdentifier`
returns 0. -/
theorem Buffered_LocateIdentifierLoop_end (ns : List Nat) :
    ∀ (inp : TXMLInputStream), inp.Buffered → ∀ (fuel i : Nat),
      inp.rest.drop (i + 1) = ns → (∀ b ∈ ns, GoodNextSymbol b = true) →
      LocateIdentifierLoop fuel (inp.fCurrent + i) inp = (0, inp) := by
  induction ns with
  | nil =>
    intro inp hb fuel i hr _
    cases fuel with
    | zero => rw [LocateIdentifierLoop]
    | succ f =>
      have hlen : inp.rest.length ≤ i + 1 := by
        have := congrArg List.length hr
        simp only [List.length_drop, List.length_nil] at this
        omega
      have hlt : ¬ inp.fCurrent + i + 1 < inp.fBuf.length := by
        rw [rest_length] at hlen
        omega
      rw [LocateIdentifierLoop]
      simp only [hb.ExpandAt, hlt, decide_False]
  | cons b ns ih =>
    intro inp hb fuel i hr hw
    cases fuel with
    | zero => rw [LocateIdentifierLoop]
    | succ f =>
      have hlen : i + 1 < inp.rest.length := by
        have := congrArg List.length hr; simp at this; omega
      have hd : inp.deref (inp.fCurrent + i + 1) = b := by
        rw [Nat.add_assoc, deref_add, List.getD_eq_getElem?_getD, ← List.head?_drop, hr]; rfl
      have hlt := rest_getD_lt hlen
      have hnext : inp.rest.drop (i + 1 + 1) = ns := by
        rw [← List.drop_drop, hr]; rfl
      have := ih inp hb f (i + 1) hnext (fun x hx => hw x (List.mem_cons_of_mem _ hx))
      have hlt2 : inp.fCurrent + i + 1 < inp.fBuf.length := by omega
      rw [LocateIdentifierLoop]
      simp only [hb.ExpandAt, hlt2, decide_True]
      simp only [hd, hw b (List.mem_cons_self _ _), Bool.not_true, Bool.false_eq_true, if_false,
        if_true]
      rw [show inp.fCurrent + i + 1 = inp.fCurrent + (i + 1) from by omega, this]

/-- C38 (counterexample): with the cursor on `abc` and nothing behind it,
`LocateIdentifier` returns 0 although `a` is a name-start byte; with a blank behind the
name it returns 3. -/
theorem LocateIdentifier_at_end :
    (TXMLInputStream.ofString (bytes "abc") 6 true 0).LocateIdentifier.1 = 0 ∧
    GoodStartSymbol ((TXMLInputStream.ofString (bytes "abc") 6 true 0).deref 0) = true ∧
    (TXMLInputStream.ofString (bytes "abc ") 8 true 0).LocateIdentifier.1 = 3 := by
  refine ⟨by decide, by decide, by decide⟩

/-- C38 (amended): on a stream that holds the whole source in its buffer,
`LocateIdentifier` leaves the stream as it is. When a name-start byte stands at the cursor
and the run of name bytes behind it is followed by a byte that is no name byte, it returns
the length of the run, first byte included. It returns 0 when the byte at the cursor is no
name-start byte, and also when the run of name bytes reaches the end of the data. The
name-start bytes are a-z, A-Z, `_`, 0xC0..0xD6, 0xD8..0xF6 and the bytes above 0xF8; the
name bytes are these, the digits, `:`, `-`, `.` and 0xB7. -/
theorem LocateIdentifier_run (inp : TXMLInputStream) (h : inp.Buffered) :
    (∀ n0 ns c tail, inp.rest = n0 :: ns ++ c :: tail → GoodStartSymbol n0 = true →
      (∀ b ∈ ns, GoodNextSymbol b = true) → GoodNextSymbol c = false →
      inp.LocateIdentifier = ((n0 :: ns).length, inp)) ∧
    (GoodStartSymbol (inp.deref inp.fCurrent) = false → inp.LocateIdentifier = (0, inp)) ∧
    (∀ n0 ns, inp.rest = n0 :: ns → GoodStartSymbol n0 = true →
      (∀ b ∈ ns, GoodNextSymbol b = true) → inp.LocateIdentifier = (0, inp)) ∧
    inp.LocateIdentifier.2 = inp ∧
    (∀ b, GoodStartSymbol b = true ↔ (97 ≤ b ∧ b ≤ 122) ∨ (65 ≤ b ∧ b ≤ 90) ∨ b = 95 ∨
      (192 ≤ b ∧ b ≤ 214) ∨ (216 ≤ b ∧ b ≤ 246) ∨ b > 248) ∧
    (∀ b, GoodNextSymbol b = true ↔ GoodStartSymbol b = true ∨ (48 ≤ b ∧ b ≤ 57) ∨ b = 58 ∨
      b = 45 ∨ b = 46 ∨ b = 183) := by
  refine ⟨fun n0 ns c tail hr h0 hns hc => h.LocateIdentifier_spec n0 ns c tail hr h0 hns hc,
    fun h0 => LocateIdentifier_zero h0, ?_, Buffered_LocateIdentifier_snd h, ?_, ?_⟩
  · intro n0 ns hr h0 hns
    unfold LocateIdentifier
    have hd : inp.deref inp.fCurrent = n0 := by rw [deref_fCurrent, hr]; rfl
    simp only [hd, h0, Bool.not_true, Bool.false_eq_true, if_false]
    have := Buffered_LocateIdentifierLoop_end ns inp h (inp.avail + 1) 0 (by rw [hr]; rfl) hns
    simpa using this
  · intro b
    simp only [GoodStartSymbol, Bool.or_eq_true, Bool.and_eq_true, decide_eq_true_eq,
      beq_iff_eq, or_assoc]
  · intro b
    simp only [GoodNextSymbol, Bool.or_eq_true, Bool.and_eq_true, decide_eq_true_eq,
      beq_iff_eq, or_assoc]

theorem LocateIdentifier_run_witness :
    (TXMLInputStream.ofString (bytes "a:b-c.d e") 18 true 0).Buffered ∧
      (TXMLInputStream.ofString (bytes "a:b-c.d e") 18 true 0).LocateIdentifier =
        (7, TXMLInputStream.ofString (bytes "a:b-c.d e") 18 true 0) :=
  have hb := (ofString_spec (bytes "a:b-c.d e") 18 true 0 (by decide)).1
  ⟨hb, (LocateIdentifier_run _ hb).1 97 (bytes ":b-c.d") 32 (bytes "e") (by decide) (by decide)
    (by decide) (by decide)⟩

end

section
open TXMLEngine TXMLInputStream

/-! ## C34: the syntax of an attribute -/

/-- A value without closing quote: the closing loop of `LocateValue` runs to the end of the
data and returns 0. -/
theorem Buffered_LocateValueLoop_end (v : List Nat) :
    ∀ (inp : TXMLInputStream), inp.Buffered → ∀ (fuel start i q : Nat),
      inp.rest.drop (i + 1) = v → q ∉ v →
      LocateValueLoop start q fuel (inp.fCurrent + i) inp = (0, inp) := by
  induction v with
  | nil =>
    intro inp hb fuel start i q hr _
    cases fuel with
    | zero => rw [LocateValueLoop]
    | succ f =>
      have hlen : inp.rest.length ≤ i + 1 := by
        have := congrArg List.length hr
        simp only [List.length_drop, List.length_nil] at this
        omega
      have hlt : ¬ inp.fCurrent + i + 1 < inp.fBuf.length := by
        rw [rest_length] at hlen
        omega
      rw [LocateValueLoop]
      simp only [hb.ExpandAt, hlt, decide_False]
  | cons b v ih =>
    intro inp hb fuel start i q hr hn
    cases fuel with
    | zero => rw [LocateValueLoop]
    | succ f =>
      have hlen : i + 1 < inp.rest.length := by
        have := congrArg List.length hr; simp at this; omega
      have hd : inp.deref (inp.fCurrent + i + 1) = b := by
        rw [Nat.add_assoc, deref_add, List.getD_eq_getElem?_getD, ← List.head?_drop, hr]; rfl
      have hbq : b ≠ q := fun e => hn (by simp [e])
      have hlt := rest_getD_lt hlen
      have hnext : inp.rest.drop (i + 1 + 1) = v := by
        rw [← List.drop_drop, hr]; rfl
      have := ih inp hb f start (i + 1) q hnext (fun hx => hn (List.mem_cons_of_mem _ hx))
      have hlt2 : inp.fCurrent + i + 1 < inp.fBuf.length := by omega
      rw [LocateValueLoop]
      simp only [hb.ExpandAt, hlt2, decide_True]
      simp only [hd, hbq, if_false, if_true]
      rw [show inp.fCurrent + i + 1 = inp.fCurrent + (i + 1) from by omega, this]

/-- `LocateValue(start, true)` returns 0 when no `=` stands at `start`. -/
theorem Buffered_LocateValue_no_eq {inp : TXMLInputStream} (h : inp.Buffered) (start : Nat)
    (hne : start < inp.fBuf.length → inp.deref start ≠ 61) :
    inp.LocateValue start true = (0, inp) := by
  unfold LocateValue
  simp only [h.ExpandAt]
  by_cases hlt : start < inp.fBuf.length
  · simp only [hlt, decide_True, if_true, hne hlt, ne_eq, not_false_eq_true]
  · simp only [hlt, decide_False]

/-- `LocateValue(start, true)` returns 0 when no quote character stands behind the `=`. -/
theorem Buffered_LocateValue_no_quote {inp : TXMLInputStream} (h : inp.Buffered) (start : Nat)
    (hq : start + 1 < inp.fBuf.length →
      inp.deref (start + 1) ≠ 34 ∧ inp.deref (start + 1) ≠ 39) :
    inp.LocateValue start true = (0, inp) := by
  unfold LocateValue LocateValueQuoted
  simp only [h.ExpandAt]
  by_cases hlt : start < inp.fBuf.length
  · simp only [hlt, decide_True, if_true]
    split
    · rfl
    · by_cases hlt1 : start + 1 < inp.fBuf.length
      · simp only [h.ExpandAt, hlt1, decide_True, hq hlt1, ne_eq, not_false_eq_true, and_self,
          if_true]
      · simp only [h.ExpandAt, hlt1, decide_False]
  · simp only [hlt, decide_False]

/-- `LocateValue(start, true)` returns 0 when the value has no closing quote. -/
theorem Buffered_LocateValue_open {inp : TXMLInputStream} (h : inp.Buffered)
    (i q : Nat) (v : List Nat) (hr : inp.rest.drop i = 61 :: q :: v) (hn : q ∉ v) :
    inp.LocateValue (inp.fCurrent + i) true = (0, inp) := by
  have hlen : i + 1 < inp.rest.length := by
    have := congrArg List.length hr; simp at this; omega
  have hlt := rest_getD_lt hlen
  have hd0 : inp.deref (inp.fCurrent + i) = 61 := by
    rw [deref_add, List.getD_eq_getElem?_getD, ← List.head?_drop, hr]; rfl
  have hr1 : inp.rest.drop (i + 1) = q :: v := by
    rw [← List.drop_drop, hr]; rfl
  have hd1 : inp.deref (inp.fCurrent + i + 1) = q := by
    rw [Nat.add_assoc, deref_add, List.getD_eq_getElem?_getD, ← List.head?_drop, hr1]; rfl
  have hr2 : inp.rest.drop (i + 1 + 1) = v := by
    rw [← List.drop_drop, hr1]; rfl
  unfold LocateValue LocateValueQuoted
  simp only [h.ExpandAt, show inp.fCurrent + i < inp.fBuf.length from by omega,
    show inp.fCurrent + i + 1 < inp.fBuf.length from by omega, decide_True, if_true,
    hd0, ne_eq, not_true_eq_false, if_false, hd1]
  split
  · rfl
  · have := Buffered_LocateValueLoop_end v inp h (inp.avail + 1) (inp.fCurrent + i) (i + 1) q
      hr2 hn
    rw [show inp.fCurrent + i + 1 = inp.fCurrent + (i + 1) from by omega, this]

theorem ReadAttr_no_name (tag : OpenTag) (inp : TXMLInputStream)
    (h : inp.LocateIdentifier = (0, inp)) :
    ReadAttr tag inp = (false, { tag with resvalue := -6 }, inp) := by
  unfold ReadAttr
  rw [h]
  rfl

theorem ReadAttr_no_value (tag : OpenTag) (inp : TXMLInputStream) (len : Nat)
    (h : inp.LocateIdentifier = (len, inp)) (hlen : 0 < len)
    (hv : inp.LocateValue (inp.fCurrent + len) true = (0, inp)) :
    ReadAttr tag inp = (false, { tag with resvalue := -7 }, inp) := by
  unfold ReadAttr
  rw [h]
  simp only [show ¬ len ≤ 0 by omega, if_false, hv]
  rfl

/-- The round of the attribute loop with the cursor, behind white space, on a byte that
neither ends the tag nor is `>`: the round reads an attribute. -/
theorem ReadTagStep_at_attr (xmlparent : Option SXmlNode_t) (tag : OpenTag)
    (inp : TXMLInputStream) (hb : inp.Buffered) (w : List Nat) (c : Nat) (tail : List Nat)
    (hr : inp.rest = w ++ c :: tail) (hw : ∀ b ∈ w, inp.isSpace b = true)
    (hc : inp.isSpace c = false) (hend : c ≠ tag.endsymbol) (hgt : c ≠ 62) :
    ReadTagStep xmlparent tag inp =
      if (ReadAttr tag (inp.advance w.length)).1 = true then
        TagStep.more (ReadAttr tag (inp.advance w.length)).2.1
          (ReadAttr tag (inp.advance w.length)).2.2
      else
        TagStep.ret ⟨(ReadAttr tag (inp.advance w.length)).2.1.resvalue, none,
          attach xmlparent (ReadAttr tag (inp.advance w.length)).2.1.node,
          (ReadAttr tag (inp.advance w.length)).2.2⟩ := by
  have hd : (inp.advance w.length).deref (inp.advance w.length).fCurrent = c := by
    rw [deref_fCurrent, advance_rest, hr, List.drop_left]
    rfl
  unfold ReadTagStep
  rw [hb.SkipSpaces_spec w c tail hr hw hc]
  simp only [hd, hend, hgt, if_false]
  rcases ReadAttr tag (inp.advance w.length) with ⟨ok, tag2, inp2⟩
  cases ok
  · simp only [Bool.false_eq_true, if_false]
  · simp only [if_true]

theorem deref_rest_drop {inp : TXMLInputStream} (i c : Nat) (tail : List Nat)
    (h : inp.rest.drop i = c :: tail) : inp.deref (inp.fCurrent + i) = c := by
  rw [deref_add, List.getD_eq_getElem?_getD, ← List.head?_drop, h]; rfl

theorem Buffered_LocateIdentifier_end {inp : TXMLInputStream} (h : inp.Buffered)
    (n0 : Nat) (ns : List Nat) (hr : inp.rest = n0 :: ns) (h0 : GoodStartSymbol n0 = true)
    (hns : ∀ b ∈ ns, GoodNextSymbol b = true) : inp.LocateIdentifier = (0, inp) := by
  unfold LocateIdentifier
  have hd : inp.deref inp.fCurrent = n0 := by rw [deref_fCurrent, hr]; rfl
  simp only [hd, h0, Bool.not_true, Bool.false_eq_true, if_false]
  have := Buffered_LocateIdentifierLoop_end ns inp h (inp.avail + 1) 0 (by rw [hr]; rfl) hns
  simpa using this

theorem plain_space {b : Nat} (h : b ≤ 26 ∨ b = 32) (sg : Bool) :
    spaceByte sg b = true ∧ GoodNextSymbol b = false := by
  have hb : b ≤ 32 := by omega
  have h3 : ¬ (b ≥ 128 ∧ sg = true) := by omega
  refine ⟨?_, ?_⟩
  · rcases h with h | h
    · have h4 : ¬ ((b : Int) > 26) := by omega
      simp [spaceByte, h3, h4]
    · simp [spaceByte, h]
  · simp only [GoodNextSymbol, GoodStartSymbol, Bool.or_eq_false_iff, Bool.and_eq_false_imp,
      decide_eq_true_eq, decide_eq_false_iff_not, beq_eq_false_iff_ne]
    omega

/-- An attribute `name=qvq` with matching quotes: `ReadAttr` appends it. -/
theorem ReadAttr_accept (tag : OpenTag) (inp : TXMLInputStream) (hb : inp.Buffered)
    (a0 : Nat) (as : List Nat) (q : Nat) (v more : List Nat)
    (hr : inp.rest = a0 :: as ++ 61 :: q :: v ++ q :: more)
    (hg : GoodStartSymbol a0 = true) (hns : ∀ b ∈ as, GoodNextSymbol b = true)
    (hq : q = 34 ∨ q = 39) (hn : q ∉ v) :
    ∃ tag2 : OpenTag, ReadAttr tag inp =
        (true, tag2, inp.advance ((a0 :: as).length + (v.length + 3))) ∧
      tag2.node.fAttr = tag.node.fAttr ++ [⟨a0 :: as, UnpackSpecialCharacters v⟩] ∧
      tag2.node.fName = tag.node.fName ∧ tag2.node.fType = tag.node.fType ∧
      tag2.canhaschildren = tag.canhaschildren ∧ tag2.endsymbol = tag.endsymbol := by
  have hr1 : inp.rest = a0 :: as ++ 61 :: (q :: v ++ q :: more) := by simpa using hr
  unfold ReadAttr
  rw [hb.LocateIdentifier_spec a0 as 61 _ hr1 hg hns (by decide)]
  simp only [show ¬ ((a0 :: as).length ≤ 0) from by simp, if_false]
  have hdrop : inp.rest.drop (a0 :: as).length = 61 :: q :: v ++ q :: more := by
    rw [hr1, List.drop_left]; rfl
  rw [hb.LocateValue_eq_spec (a0 :: as).length q v more hdrop hq hn]
  simp only [show ¬ (v.length + 3 < 3) from by omega, if_false]
  have hsl1 : inp.slice inp.fCurrent (a0 :: as).length = a0 :: as := by
    rw [slice_fCurrent, hr1, List.take_left]
  have hsl2 : inp.slice (inp.fCurrent + (a0 :: as).length + 2) (v.length + 3 - 3) = v := by
    rw [Nat.add_assoc, slice_add, Nat.add_sub_cancel, ← List.drop_drop, hdrop]
    simp
  rw [hsl1, hsl2]
  rw [hb.ShiftCurrent _ (by rw [hr1]; simp; omega)]
  simp only []
  split
  · exact ⟨_, rfl, rfl, rfl, rfl, rfl, rfl⟩
  · exact ⟨_, rfl, rfl, rfl, rfl, rfl, rfl⟩

/-- `ReadNode` on an open tag up to an attribute position: behind the name, the attributes
read so far and white space stands a byte that is neither white space nor `/` nor `>`, and
`ReadAttr` decides. -/
theorem ReadNode_attr_position (eng : TXMLEngine) (up : List SXmlNode_t)
    (xmlparent : Option SXmlNode_t) (inp : TXMLInputStream) (w name : List Nat)
    (attrs : List SXmlAttr_t) (sp : List Nat) (c : Nat) (tail : List Nat) (f : Nat)
    (hb : inp.Buffered) (hw : ∀ b ∈ w, spaceByte inp.charSigned b = true)
    (hname : isName inp.charSigned name = true)
    (hattrs : ∀ a ∈ attrs, isName inp.charSigned a.name = true)
    (hsp : ∀ b ∈ sp, b ≤ 26 ∨ b = 32) (hne : sp ≠ [])
    (hc : spaceByte inp.charSigned c = false) (h47 : c ≠ 47) (h62 : c ≠ 62)
    (hr : inp.rest = w ++ 60 :: name ++ (attrsText attrs ++ (sp ++ c :: tail))) :
    ∃ res : Int, ReadNode eng (attrs.length + (f + 1) + 1) up xmlparent inp =
      match ReadAttr ⟨SXmlNode_t.mk EXmlNodeType.kXML_NODE name attrs
          (slotAfter (openNs up xmlparent name) 0 attrs) [], res, true, 47⟩
        (inp.advance (w.length + 1 + name.length + (attrsText attrs).length + sp.length)) with
      | (false, tag, inp) =>
        Outcome.done ⟨tag.resvalue, none, attach xmlparent tag.node, inp⟩
      | (true, tag, inp) => ReadNodeAttrs eng f up xmlparent tag inp := by
  obtain ⟨x, X, rfl⟩ : ∃ x X, sp = x :: X := by
    cases sp with
    | nil => exact absurd rfl hne
    | cons a l => exact ⟨a, l, rfl⟩
  have hx := (plain_space (hsp x (List.mem_cons_self _ _)) inp.charSigned).2
  obtain ⟨res, h⟩ := ReadNode_header_ns eng up xmlparent inp w name attrs x (X ++ c :: tail)
    (f + 1) hb hw hname hattrs hx (by simpa using hr)
  refine ⟨res, ?_⟩
  rw [h]
  have hb2 := hb.advance (w.length + 1 + name.length + (attrsText attrs).length)
  have hr2 : (inp.advance (w.length + 1 + name.length + (attrsText attrs).length)).rest =
      (x :: X) ++ c :: tail :=
    rest_advance_eq (a := w ++ 60 :: name ++ attrsText attrs) (by rw [hr]; simp)
      (by simp; omega)
  rw [ReadNodeAttrs, ReadTagStep_at_attr xmlparent _ _ hb2 (x :: X) c tail hr2
    (fun b hm => by
      rw [isSpace_eq_spaceByte]
      exact (plain_space (hsp b hm) _).1)
    (by rw [isSpace_eq_spaceByte]; exact hc) h47 h62]
  simp only [advance_advance]
  rcases ReadAttr _ _ with ⟨ok, tag2, inp2⟩
  cases ok
  · simp only [Bool.false_eq_true, if_false]
  · simp only [if_true]

/-- C34 (as stated, refuted): an attribute name that reaches the end of the input, as in
`<a x`, has no value, and the parse fails with code -6, not -7; with one more byte behind
the name, as in `<a x>`, the code is -7. -/
theorem attribute_name_at_end :
    ParseString ⟨false, true, 0, fun _ => none⟩ (bytes "<a x") = ParseResult.error (-6) 1 ∧
    ParseString ⟨false, true, 0, fun _ => none⟩ (bytes "<a x>") = ParseResult.error (-7) 1 := by
  refine ⟨by decide!, by decide!⟩

/-- C34 (amended): in an open tag `<name attrs` of an element, read from a stream that
holds the whole source in its buffer, behind white space (bytes up to 26, or the space)
at the position of the next attribute:
(1) a name followed by a byte that is neither a name byte nor `=` (white space, `/`, `>`,
... ) makes `ReadNode` fail with -7; (2) a name followed by `=` and then by the end of
the data or a byte that is no quote character (white space included) fails with -7;
(3) a name followed by `=`, a quote character and a text without that quote character
up to the end of the data fails with -7; (4) a byte that is neither white space nor `/`
nor `>` nor a name-start byte fails with -6; (5) a name that reaches the end of the data
fails with -6; (6) a name followed by `=`, a quote character `q`, a text without `q` and
`q` is appended to the attributes of the node, with the unescaped text as value, and the
attribute loop goes on behind the closing quote. In the failing cases the cursor stands
at the start of the attribute and the node has the attributes read before. -/
theorem attr_strictness (eng : TXMLEngine) (up : List SXmlNode_t)
    (xmlparent : Option SXmlNode_t) (w name : List Nat) (attrs : List SXmlAttr_t)
    (sp : List Nat)
    (hw : ∀ b ∈ w, spaceByte eng.charSigned b = true)
    (hname : isName eng.charSigned name = true)
    (hattrs : ∀ a ∈ attrs, isName eng.charSigned a.name = true)
    (hsp : ∀ b ∈ sp, b ≤ 26 ∨ b = 32) (hne : sp ≠ []) :
    (∀ (inp : TXMLInputStream) (f : Nat) (aname : List Nat) (c : Nat) (tail : List Nat),
      inp.Buffered → inp.charSigned = eng.charSigned → isName eng.charSigned aname = true →
      GoodNextSymbol c = false → c ≠ 61 →
      inp.rest = w ++ 60 :: name ++ (attrsText attrs ++ (sp ++ (aname ++ c :: tail))) →
      ReadNode eng (attrs.length + f + 2) up xmlparent inp =
        Outcome.done ⟨-7, none,
          attach xmlparent (SXmlNode_t.mk EXmlNodeType.kXML_NODE name attrs
            (slotAfter (openNs up xmlparent name) 0 attrs) []),
          inp.advance (w.length + 1 + name.length + (attrsText attrs).length + sp.length)⟩) ∧
    (∀ (inp : TXMLInputStream) (f : Nat) (aname tail : List Nat),
      inp.Buffered → inp.charSigned = eng.charSigned → isName eng.charSigned aname = true →
      (∀ c ∈ tail.head?, c ≠ 34 ∧ c ≠ 39) →
      inp.rest = w ++ 60 :: name ++ (attrsText attrs ++ (sp ++ (aname ++ 61 :: tail))) →
      ReadNode eng (attrs.length + f + 2) up xmlparent inp =
        Outcome.done ⟨-7, none,
          attach xmlparent (SXmlNode_t.mk EXmlNodeType.kXML_NODE name attrs
            (slotAfter (openNs up xmlparent name) 0 attrs) []),
          inp.advance (w.length + 1 + name.length + (attrsText attrs).length + sp.length)⟩) ∧
    (∀ (inp : TXMLInputStream) (f : Nat) (aname : List Nat) (q : Nat) (v : List Nat),
      inp.Buffered → inp.charSigned = eng.charSigned → isName eng.charSigned aname = true →
      q ∉ v →
      inp.rest = w ++ 60 :: name ++ (attrsText attrs ++ (sp ++ (aname ++ 61 :: q :: v))) →
      ReadNode eng (attrs.length + f + 2) up xmlparent inp =
        Outcome.done ⟨-7, none,
          attach xmlparent (SXmlNode_t.mk EXmlNodeType.kXML_NODE name attrs
            (slotAfter (openNs up xmlparent name) 0 attrs) []),
          inp.advance (w.length + 1 + name.length + (attrsText attrs).length + sp.length)⟩) ∧
    (∀ (inp : TXMLInputStream) (f : Nat) (c : Nat) (tail : List Nat),
      inp.Buffered → inp.charSigned = eng.charSigned → spaceByte eng.charSigned c = false →
      c ≠ 47 → c ≠ 62 → GoodStartSymbol c = false →
      inp.rest = w ++ 60 :: name ++ (attrsText attrs ++ (sp ++ c :: tail)) →
      ReadNode eng (attrs.length + f + 2) up xmlparent inp =
        Outcome.done ⟨-6, none,
          attach xmlparent (SXmlNode_t.mk EXmlNodeType.kXML_NODE name attrs
            (slotAfter (openNs up xmlparent name) 0 attrs) []),
          inp.advance (w.length + 1 + name.length + (attrsText attrs).length + sp.length)⟩) ∧
    (∀ (inp : TXMLInputStream) (f : Nat) (aname : List Nat),
      inp.Buffered → inp.charSigned = eng.charSigned → isName eng.charSigned aname = true →
      inp.rest = w ++ 60 :: name ++ (attrsText attrs ++ (sp ++ aname)) →
      ReadNode eng (attrs.length + f + 2) up xmlparent inp =
        Outcome.done ⟨-6, none,
          attach xmlparent (SXmlNode_t.mk EXmlNodeType.kXML_NODE name attrs
            (slotAfter (openNs up xmlparent name) 0 attrs) []),
          inp.advance (w.length + 1 + name.length + (attrsText attrs).length + sp.length)⟩) ∧
    (∀ (inp : TXMLInputStream) (f : Nat) (aname : List Nat) (q : Nat) (v tail : List Nat),
      inp.Buffered → inp.charSigned = eng.charSigned → isName eng.charSigned aname = true →
      (q = 34 ∨ q = 39) → q ∉ v →
      inp.rest =
        w ++ 60 :: name ++ (attrsText attrs ++ (sp ++ (aname ++ 61 :: q :: v ++ q :: tail))) →
      ∃ tag : OpenTag,
        ReadNode eng (attrs.length + f + 2) up xmlparent inp =
          ReadNodeAttrs eng f up xmlparent tag
            (inp.advance (w.length + 1 + name.length + (attrsText attrs).length + sp.length +
              aname.length + v.length + 3)) ∧
        tag.node.fAttr = attrs ++ [⟨aname, UnpackSpecialCharacters v⟩] ∧
        tag.node.fName = name ∧ tag.node.fType = EXmlNodeType.kXML_NODE ∧
        tag.canhaschildren = true ∧ tag.endsymbol = 47) := by
  -- the common part: a name at the attribute position
  have key : ∀ (inp : TXMLInputStream) (f : Nat) (a0 : Nat) (as tail : List Nat),
      inp.Buffered → inp.charSigned = eng.charSigned → isName eng.charSigned (a0 :: as) = true →
      inp.rest = w ++ 60 :: name ++ (attrsText attrs ++ (sp ++ a0 :: (as ++ tail))) →
      (inp.advance (w.length + 1 + name.length + (attrsText attrs).length + sp.length)).Buffered ∧
      (inp.advance (w.length + 1 + name.length + (attrsText attrs).length + sp.length)).rest =
        a0 :: (as ++ tail) ∧
      GoodStartSymbol a0 = true ∧ (∀ b ∈ as, GoodNextSymbol b = true) ∧
      ∃ res : Int, ReadNode eng (attrs.length + f + 2) up xmlparent inp =
        match ReadAttr ⟨SXmlNode_t.mk EXmlNodeType.kXML_NODE name attrs
            (slotAfter (openNs up xmlparent name) 0 attrs) [], res, true, 47⟩
          (inp.advance (w.length + 1 + name.length + (attrsText attrs).length + sp.length)) with
        | (false, tag, inp) =>
          Outcome.done ⟨tag.resvalue, none, attach xmlparent tag.node, inp⟩
        | (true, tag, inp) => ReadNodeAttrs eng f up xmlparent tag inp := by
    intro inp f a0 as tail hb hsg hn hr
    obtain ⟨hg, hs, hns⟩ := isName_cons hn
    refine ⟨hb.advance _, ?_, hg, hns, ?_⟩
    · exact rest_advance_eq (a := w ++ 60 :: name ++ attrsText attrs ++ sp) (by rw [hr]; simp)
        (by simp; omega)
    · exact ReadNode_attr_position eng up xmlparent inp w name attrs sp a0 (as ++ tail) f hb
        (by rw [hsg]; exact hw) (by rw [hsg]; exact hname) (by rw [hsg]; exact hattrs) hsp hne
        (by rw [hsg]; exact hs) (GoodStart_ne hg (by decide)) (GoodStart_ne hg (by decide)) hr
  have split_name : ∀ {aname : List Nat}, isName eng.charSigned aname = true →
      ∃ a0 as, aname = a0 :: as := by
    intro aname hn
    cases aname with
    | nil => exact absurd rfl (isName_ne_nil hn)
    | cons a l => exact ⟨a, l, rfl⟩
  refine ⟨?_, ?_, ?_, ?_, ?_, ?_⟩
  · intro inp f aname c tail hb hsg hn hc h61 hr
    obtain ⟨a0, as, rfl⟩ := split_name hn
    obtain ⟨hb2, hr2, hg, hns, res, h⟩ := key inp f a0 as (c :: tail) hb hsg hn
      (by simpa using hr)
    have hid := hb2.LocateIdentifier_spec a0 as c tail hr2 hg hns hc
    have hd := deref_rest_drop (a0 :: as).length c tail
      (show _ = c :: tail by rw [hr2, ← List.cons_append, List.drop_left])
    rw [h, ReadAttr_no_value _ _ _ hid (by simp)
      (Buffered_LocateValue_no_eq hb2 _ (fun _ => by rw [hd]; exact h61))]
  · intro inp f aname tail hb hsg hn ht hr
    obtain ⟨a0, as, rfl⟩ := split_name hn
    obtain ⟨hb2, hr2, hg, hns, res, h⟩ := key inp f a0 as (61 :: tail) hb hsg hn
      (by simpa using hr)
    have hid := hb2.LocateIdentifier_spec a0 as 61 tail hr2 hg hns (by decide)
    have hq : (inp.advance (w.length + 1 + name.length + (attrsText attrs).length +
          sp.length)).fCurrent + (a0 :: as).length + 1 <
        (inp.advance (w.length + 1 + name.length + (attrsText attrs).length +
          sp.length)).fBuf.length →
        (inp.advance (w.length + 1 + name.length + (attrsText attrs).length +
          sp.length)).deref ((inp.advance (w.length + 1 + name.length +
            (attrsText attrs).length + sp.length)).fCurrent + (a0 :: as).length + 1) ≠ 34 ∧
        (inp.advance (w.length + 1 + name.length + (attrsText attrs).length +
          sp.length)).deref ((inp.advance (w.length + 1 + name.length +
            (attrsText attrs).length + sp.length)).fCurrent + (a0 :: as).length + 1) ≠ 39 := by
      intro hlt
      cases tail with
      | nil =>
        exfalso
        have hl := congrArg List.length hr2
        rw [rest_length] at hl
        simp only [List.length_cons, List.length_append, List.length_nil] at hl hlt
        omega
      | cons t ts =>
        have hd := deref_rest_drop ((a0 :: as).length + 1) t ts
          (show _ = t :: ts by
            rw [hr2, ← List.drop_drop, ← List.cons_append, List.drop_left]; rfl)
        rw [← Nat.add_assoc] at hd
        rw [hd]
        exact ht t (by simp)
    rw [h, ReadAttr_no_value _ _ _ hid (by simp) (Buffered_LocateValue_no_quote hb2 _ hq)]
  · intro inp f aname q v hb hsg hn hq hr
    obtain ⟨a0, as, rfl⟩ := split_name hn
    obtain ⟨hb2, hr2, hg, hns, res, h⟩ := key inp f a0 as (61 :: q :: v) hb hsg hn
      (by simpa using hr)
    have hid := hb2.LocateIdentifier_spec a0 as 61 (q :: v) hr2 hg hns (by decide)
    rw [h, ReadAttr_no_value _ _ _ hid (by simp)
      (Buffered_LocateValue_open hb2 _ q v
        (by rw [hr2, ← List.cons_append, List.drop_left]) hq)]
  · intro inp f c tail hb hsg hc h47 h62 hg hr
    obtain ⟨res, h⟩ := ReadNode_attr_position eng up xmlparent inp w name attrs sp c tail f hb
      (by rw [hsg]; exact hw) (by rw [hsg]; exact hname) (by rw [hsg]; exact hattrs) hsp hne
      (by rw [hsg]; exact hc) h47 h62 hr
    have hr2 : (inp.advance (w.length + 1 + name.length + (attrsText attrs).length +
        sp.length)).rest = c :: tail :=
      rest_advance_eq (a := w ++ 60 :: name ++ attrsText attrs ++ sp) (by rw [hr]; simp)
        (by simp; omega)
    rw [show attrs.length + f + 2 = attrs.length + (f + 1) + 1 from by omega, h,
      ReadAttr_no_name _ _ (LocateIdentifier_zero (by rw [deref_fCurrent, hr2]; exact hg))]
  · intro inp f aname hb hsg hn hr
    obtain ⟨a0, as, rfl⟩ := split_name hn
    obtain ⟨hb2, hr2, hg, hns, res, h⟩ := key inp f a0 as [] hb hsg hn (by simpa using hr)
    rw [h, ReadAttr_no_name _ _
      (Buffered_LocateIdentifier_end hb2 a0 as (by simpa using hr2) hg hns)]
  · intro inp f aname q v tail hb hsg hn hq hqv hr
    obtain ⟨a0, as, rfl⟩ := split_name hn
    obtain ⟨hb2, hr2, hg, hns, res, h⟩ := key inp f a0 as (61 :: q :: v ++ q :: tail) hb hsg hn
      (by simpa using hr)
    obtain ⟨tag2, h2, hattr, hnm, hty, hch, hend⟩ := ReadAttr_accept
      ⟨SXmlNode_t.mk EXmlNodeType.kXML_NODE name attrs
        (slotAfter (openNs up xmlparent name) 0 attrs) [], res, true, 47⟩ _ hb2 a0 as q v tail
      (by simpa using hr2) hg hns hq hqv
    refine ⟨tag2, ?_, hattr, hnm, hty, hch, hend⟩
    rw [h, h2]
    simp only [advance_advance]
    congr 2
    simp only [List.length_cons]; omega

theorem attr_strictness_witness :
    ReadNode ⟨false, true, 0, fun _ => none⟩ 2 [] none
        (TXMLInputStream.ofString (bytes "<a x = \"1\"/>") 24 true 0) =
      Outcome.done ⟨-7, none, none,
        (TXMLInputStream.ofString (bytes "<a x = \"1\"/>") 24 true 0).advance 3⟩ ∧
    ReadNode ⟨false, true, 0, fun _ => none⟩ 2 [] none
        (TXMLInputStream.ofString (bytes "<a x= \"1\"/>") 22 true 0) =
      Outcome.done ⟨-7, none, none,
        (TXMLInputStream.ofString (bytes "<a x= \"1\"/>") 22 true 0).advance 3⟩ ∧
    ReadNode ⟨false, true, 0, fun _ => none⟩ 2 [] none
        (TXMLInputStream.ofString (bytes "<a x=\"1/>") 18 true 0) =
      Outcome.done ⟨-7, none, none,
        (TXMLInputStream.ofString (bytes "<a x=\"1/>") 18 true 0).advance 3⟩ ∧
    ReadNode ⟨false, true, 0, fun _ => none⟩ 2 [] none
        (TXMLInputStream.ofString (bytes "<a 1=\"1\"/>") 20 true 0) =
      Outcome.done ⟨-6, none, none,
        (TXMLInputStream.ofString (bytes "<a 1=\"1\"/>") 20 true 0).advance 3⟩ ∧
    ReadNode ⟨false, true, 0, fun _ => none⟩ 2 [] none
        (TXMLInputStream.ofString (bytes "<a x") 8 true 0) =
      Outcome.done ⟨-6, none, none,
        (TXMLInputStream.ofString (bytes "<a x") 8 true 0).advance 3⟩ ∧
    (∃ tag : OpenTag,
      ReadNode ⟨false, true, 0, fun _ => none⟩ 4 [] none
          (TXMLInputStream.ofString (bytes "<a x='1\"2'/>") 24 true 0) =
        ReadNodeAttrs ⟨false, true, 0, fun _ => none⟩ 2 [] none tag
          ((TXMLInputStream.ofString (bytes "<a x='1\"2'/>") 24 true 0).advance 10) ∧
      tag.node.fAttr = [⟨bytes "x", bytes "1\"2"⟩] ∧ tag.node.fName = bytes "a" ∧
      tag.node.fType = EXmlNodeType.kXML_NODE ∧ tag.canhaschildren = true ∧
      tag.endsymbol = 47) ∧
    ParseString ⟨false, true, 0, fun _ => none⟩ (bytes "<a x = \"1\"/>") =
      ParseResult.error (-7) 1 ∧
    ParseString ⟨false, true, 0, fun _ => none⟩ (bytes "<a x>") = ParseResult.error (-7) 1 ∧
    ParseString ⟨false, true, 0, fun _ => none⟩ (bytes "<a x='1\"2'/>") =
      ParseResult.ok ⟨SXmlNode_t.mk EXmlNodeType.kXML_NODE (bytes "??DummyTopNode??") [] none
        [SXmlNode_t.mk EXmlNodeType.kXML_NODE (bytes "a") [⟨bytes "x", bytes "1\"2"⟩] none []],
        none, none⟩ :=
  have T := attr_strictness ⟨false, true, 0, fun _ => none⟩ [] none [] (bytes "a") [] [32]
    (fun _ hm => absurd hm (List.not_mem_nil _)) (by decide)
    (fun _ hm => absurd hm (List.not_mem_nil _))
    (fun _ hm => Or.inr (List.mem_singleton.1 hm)) (by decide)
  ⟨T.1 _ 0 (bytes "x") 32 (bytes "= \"1\"/>") (ofString_spec _ 24 true 0 (by decide)).1 rfl
      (by decide) (by decide) (by decide)
      ((ofString_spec _ 24 true 0 (by decide)).2.1.trans (by decide)),
    T.2.1 _ 0 (bytes "x") (bytes " \"1\"/>") (ofString_spec _ 22 true 0 (by decide)).1 rfl
      (by decide) (by decide)
      ((ofString_spec _ 22 true 0 (by decide)).2.1.trans (by decide)),
    T.2.2.1 _ 0 (bytes "x") 34 (bytes "1/>") (ofString_spec _ 18 true 0 (by decide)).1 rfl
      (by decide) (by decide)
      ((ofString_spec _ 18 true 0 (by decide)).2.1.trans (by decide)),
    T.2.2.2.1 _ 0 49 (bytes "=\"1\"/>") (ofString_spec _ 20 true 0 (by decide)).1 rfl
      (by decide) (by decide) (by decide) (by decide)
      ((ofString_spec _ 20 true 0 (by decide)).2.1.trans (by decide)),
    T.2.2.2.2.1 _ 0 (bytes "x") (ofString_spec _ 8 true 0 (by decide)).1 rfl (by decide)
      ((ofString_spec _ 8 true 0 (by decide)).2.1.trans (by decide)),
    T.2.2.2.2.2 _ 2 (bytes "x") 39 (bytes "1\"2") (bytes "/>")
      (ofString_spec _ 24 true 0 (by decide)).1 rfl (by decide) (by decide) (by decide)
      ((ofString_spec _ 24 true 0 (by decide)).2.1.trans (by decide)),
    by decide!, by decide!, by decide!⟩

end

section
open TXMLEngine TXMLInputStream

/-! ## C32: the entity re-scan and references that are not registered -/

/-- C32 (failing input): with the internal entity `e` registered with the text `v`, the
content `x &e; y` is left as the three Content nodes `x `, `v`, ` y`, whose texts
concatenate to the run with the reference replaced. A reference to a name that is not
registered breaks this: for `x &e; y &u; z` the Content nodes are `x `, `v`, ` z`, so the
text ` y &u;` is lost, because the scan sets `lastentity` behind every `;` that follows a
`&`, registered or not; and for `x &u; y`, where no registered reference occurs, the
Content node is freed while it is still linked into the parent (`lastentity` is not null
but `UnlinkNode(contnode)` never ran). The same happens for a stray `&` before a `;`. -/
theorem entity_rescan_unregistered :
    ParseString ⟨false, true, 0, fun _ => none⟩
        (bytes "<!DOCTYPE a [<!ENTITY e \"v\">]><a>x &e; y</a>") =
      ParseResult.ok ⟨SXmlNode_t.mk EXmlNodeType.kXML_NODE (bytes "??DummyTopNode??") [] none
        [SXmlNode_t.mk EXmlNodeType.kXML_NODE (bytes "a") [] none
          [SXmlNode_t.mk EXmlNodeType.kXML_CONTENT (bytes "x ") [] none [],
            SXmlNode_t.mk EXmlNodeType.kXML_CONTENT (bytes "v") [] none [],
            SXmlNode_t.mk EXmlNodeType.kXML_CONTENT (bytes " y") [] none []]], none, none⟩ ∧
    ParseString ⟨false, true, 0, fun _ => none⟩
        (bytes "<!DOCTYPE a [<!ENTITY e \"v\">]><a>x &e; y &u; z</a>") =
      ParseResult.ok ⟨SXmlNode_t.mk EXmlNodeType.kXML_NODE (bytes "??DummyTopNode??") [] none
        [SXmlNode_t.mk EXmlNodeType.kXML_NODE (bytes "a") [] none
          [SXmlNode_t.mk EXmlNodeType.kXML_CONTENT (bytes "x ") [] none [],
            SXmlNode_t.mk EXmlNodeType.kXML_CONTENT (bytes "v") [] none [],
            SXmlNode_t.mk EXmlNodeType.kXML_CONTENT (bytes " z") [] none []]], none, none⟩ ∧
    ParseString ⟨false, true, 0, fun _ => none⟩
        (bytes "<!DOCTYPE a [<!ENTITY e \"v\">]><a>x &u; y</a>") = ParseResult.useAfterFree ∧
    ParseString ⟨false, true, 0, fun _ => none⟩
        (bytes "<!DOCTYPE a [<!ENTITY e \"v\">]><a>x &amp; y; z</a>") =
      ParseResult.useAfterFree := by
  refine ⟨by decide!, by decide!, by decide!, by decide!⟩

end

section
open TXMLEngine TXMLInputStream

/-! ## The read position during a parse: what every call leaves of a buffered stream -/

namespace TXMLInputStream

theorem withEntities_advance (inp : TXMLInputStream) (es : List TXMLEntity) (k : Nat) :
    ({ inp with fEntities := es } : TXMLInputStream).advance k =
      { inp.advance k with fEntities := es } := rfl

theorem Reach.same (inp : TXMLInputStream) : Reach 0 inp inp :=
  ⟨0, inp.fEntities, Nat.le_refl 0, Nat.zero_le _, by simp, fun _ => rfl⟩

theorem Reach.of_advance (inp : TXMLInputStream) {j : Nat} (hj : j ≤ inp.rest.length) :
    Reach j inp (inp.advance j) :=
  ⟨j, inp.fEntities, Nat.le_refl j, hj, rfl, fun _ => rfl⟩

theorem Reach.of_eq {n : Nat} {inp a b : TXMLInputStream} (h : Reach n inp a) (e : b = a) :
    Reach n inp b := e ▸ h

theorem Reach.weaken {n m : Nat} {a b : TXMLInputStream} (h : Reach n a b) (hm : m ≤ n) :
    Reach m a b := by
  obtain ⟨j, es, hn, hj, e, he⟩ := h
  exact ⟨j, es, by omega, hj, e, he⟩

theorem Reach.zero {n : Nat} {a b : TXMLInputStream} (h : Reach n a b) : Reach 0 a b :=
  h.weaken (Nat.zero_le n)

theorem Reach.fBuf {n : Nat} {a b : TXMLInputStream} (h : Reach n a b) : b.fBuf = a.fBuf := by
  obtain ⟨j, es, _, _, rfl, _⟩ := h
  rfl

theorem Reach.charSigned {n : Nat} {a b : TXMLInputStream} (h : Reach n a b) :
    b.charSigned = a.charSigned := by
  obtain ⟨j, es, _, _, rfl, _⟩ := h
  rfl

theorem Reach.pastByte {n : Nat} {a b : TXMLInputStream} (h : Reach n a b) :
    b.pastByte = a.pastByte := by
  obtain ⟨j, es, _, _, rfl, _⟩ := h
  rfl

theorem Reach.buffered {n : Nat} {a b : TXMLInputStream} (h : Reach n a b) (hb : a.Buffered) :
    b.Buffered := by
  obtain ⟨j, es, _, _, rfl, _⟩ := h
  exact hb

theorem Reach.left_le {n : Nat} {a b : TXMLInputStream} (h : Reach n a b) :
    b.rest.length + n ≤ a.rest.length := by
  obtain ⟨j, es, hn, hj, rfl, _⟩ := h
  have : ({ a.advance j with fEntities := es } : TXMLInputStream).rest = (a.advance j).rest :=
    rfl
  rw [this, advance_rest, List.length_drop]
  omega

theorem Reach.fCurrent {n : Nat} {a b : TXMLInputStream} (h : Reach n a b) :
    a.fCurrent + n ≤ b.fCurrent := by
  obtain ⟨j, es, hn, hj, rfl, _⟩ := h
  show a.fCurrent + n ≤ a.fCurrent + j
  omega

theorem Reach.fCurrent_le {n : Nat} {a b : TXMLInputStream} (h : Reach n a b)
    (hle : a.fCurrent ≤ a.fBuf.length) : b.fCurrent ≤ b.fBuf.length := by
  obtain ⟨j, es, hn, hj, rfl, _⟩ := h
  show a.fCurrent + j ≤ a.fBuf.length
  rw [TXMLInputStream.rest_length] at hj
  omega

theorem Reach.entities {n : Nat} {a b : TXMLInputStream} (h : Reach n a b)
    (hno : ¬ bytes "<!ENTITY" <:+: a.fBuf) : b.fEntities = a.fEntities := by
  obtain ⟨j, es, _, _, rfl, he⟩ := h
  exact he hno

theorem Reach.andThen {n m : Nat} {a b c : TXMLInputStream} (h1 : Reach n a b)
    (h2 : Reach m b c) : Reach (n + m) a c := by
  have hl := h1.left_le
  obtain ⟨j, es, hn, hj, rfl, he⟩ := h1
  obtain ⟨k, es2, hm, hk, rfl, he2⟩ := h2
  refine ⟨j + k, es2, by omega, ?_, ?_, ?_⟩
  · have : ({ a.advance j with fEntities := es } : TXMLInputStream).rest = (a.advance j).rest :=
      rfl
    rw [this, advance_rest, List.length_drop] at hk
    omega
  · rw [withEntities_advance, advance_advance]
  · intro hno
    rw [he2 hno]
    exact he hno

theorem Reach.lineInv {n : Nat} {a b : TXMLInputStream} (h : Reach n a b) (hl : a.LineInv) :
    b.LineInv := by
  obtain ⟨j, es, _, _, rfl, _⟩ := h
  obtain ⟨h1, h2⟩ := hl
  refine ⟨?_, ?_⟩
  · show a.fCurrentLine + (a.rest.take j).count 10 =
      1 + (a.fBuf.take (a.fCurrent + j)).count 10
    rw [h1, List.take_add, List.count_append, rest]
    omega
  · show a.fTotalPos + j = a.fCurrent + j
    rw [h2]

theorem Reach.addEntity (inp : TXMLInputStream) (e : TXMLEntity)
    (h : bytes "<!ENTITY" <:+: inp.fBuf) : Reach 0 inp (inp.AddEntity e) :=
  ⟨0, inp.fEntities ++ [e], Nat.le_refl 0, Nat.zero_le _, by simp [AddEntity],
    fun hno => absurd h hno⟩

/-! ### The calls of the stream -/

theorem Buffered_SkipSpaces_reach {inp : TXMLInputStream} (hb : inp.Buffered)
    (tillendl : Bool) : Reach 0 inp (inp.SkipSpaces tillendl).2 := by
  obtain ⟨j, hj, hjl, _⟩ := hb.SkipSpaces_any tillendl
  rw [hj]
  exact (Reach.of_advance inp hjl).zero

theorem Buffered_SkipSpacesLoop_true (fuel : Nat) :
    ∀ (inp inp2 : TXMLInputStream), inp.Buffered →
      SkipSpacesLoop false fuel inp = (true, inp2) →
      inp2.fCurrent < inp2.fBuf.length ∧ inp2.isSpace (inp2.deref inp2.fCurrent) = false := by
  induction fuel with
  | zero =>
    intro inp inp2 _ h
    rw [SkipSpacesLoop] at h
    exact absurd (congrArg Prod.fst h) (by simp)
  | succ f ih =>
    intro inp inp2 hb h
    rw [SkipSpacesLoop] at h
    by_cases hlt : inp.fCurrent < inp.fBuf.length
    · simp only [hlt, if_true] at h
      by_cases hsp : inp.asChar (inp.deref inp.fCurrent) > 26 ∧ inp.deref inp.fCurrent ≠ 32
      · rw [if_pos hsp] at h
        obtain rfl := (Prod.mk.inj h).2
        exact ⟨hlt, (isSpace_iff _ _).2 hsp⟩
      · have hshift := hb.ShiftCurrent 1 (by rw [TXMLInputStream.rest_length]; omega)
        rw [if_neg hsp, hshift] at h
        simp only [Bool.false_eq_true, false_and, if_false] at h
        exact ih (inp.advance 1) inp2 (hb.advance 1) h
    · simp only [hlt, if_false] at h
      exact absurd (congrArg Prod.fst h) (by simp)

/-- After `SkipSpaces()` returned true the read position is on a byte of the data that is
no white space. -/
theorem Buffered_SkipSpaces_true {inp inp2 : TXMLInputStream} (hb : inp.Buffered)
    (h : inp.SkipSpaces false = (true, inp2)) :
    inp2.fCurrent < inp2.fBuf.length ∧ inp2.isSpace (inp2.deref inp2.fCurrent) = false :=
  Buffered_SkipSpacesLoop_true (inp.avail + 1) inp inp2 hb h

/-- `ShiftCurrent()` with a byte other than the newline at the read position (the byte
behind the data, when the read position is at the end): the byte is consumed, or the read
position is at the end of the data and the stream stays as it is. -/
theorem Buffered_ShiftCurrent_guard {inp : TXMLInputStream} (hb : inp.Buffered)
    (hne : inp.deref inp.fCurrent ≠ 10) :
    (inp.fCurrent < inp.fBuf.length ∧ inp.ShiftCurrent = (true, inp.advance 1)) ∨
    (inp.fBuf.length ≤ inp.fCurrent ∧ inp.ShiftCurrent = (false, inp)) := by
  by_cases hlt : inp.fCurrent < inp.fBuf.length
  · exact Or.inl ⟨hlt, hb.ShiftCurrent 1 (by rw [TXMLInputStream.rest_length]; omega)⟩
  · refine Or.inr ⟨by omega, ?_⟩
    have hl : inp.fCurrent ≥ inp.fLimitAddr := by
      have := hb.2
      omega
    unfold ShiftCurrent ShiftCurrentLoop
    simp only [hne, if_false, hl, ge_iff_le, if_true, hb.ShiftStream,
      show inp.fBuf.length ≤ inp.fCurrent from by omega]

theorem Buffered_ShiftCurrent_reach {inp : TXMLInputStream} (hb : inp.Buffered)
    (hne : inp.deref inp.fCurrent ≠ 10) :
    Reach (if inp.ShiftCurrent.1 = true then 1 else 0) inp inp.ShiftCurrent.2 := by
  rcases Buffered_ShiftCurrent_guard hb hne with ⟨hlt, h⟩ | ⟨_, h⟩
  · rw [h]
    show Reach 1 inp (inp.advance 1)
    exact Reach.of_advance inp (by rw [TXMLInputStream.rest_length]; omega)
  · rw [h]
    exact Reach.same inp

theorem Buffered_CheckFor_cases {inp : TXMLInputStream} (hb : inp.Buffered) (str : List Nat)
    (hne : str ≠ []) :
    (inp.rest.take str.length = str ∧ str.length ≤ inp.rest.length ∧
      inp.CheckFor str = (true, inp.advance str.length)) ∨
    (inp.rest.take str.length ≠ str ∧ inp.CheckFor str = (false, inp)) := by
  rw [hb.CheckFor_spec str hne]
  by_cases he : inp.rest.take str.length = str
  · refine Or.inl ⟨he, ?_, by simp [he]⟩
    have := congrArg List.length he
    simp only [List.length_take] at this
    omega
  · exact Or.inr ⟨he, by simp [he]⟩

theorem Buffered_CheckFor_reach {inp : TXMLInputStream} (hb : inp.Buffered) (str : List Nat)
    (hne : str ≠ []) :
    Reach (if (inp.CheckFor str).1 = true then str.length else 0) inp (inp.CheckFor str).2 := by
  rcases Buffered_CheckFor_cases hb str hne with ⟨_, hl, h⟩ | ⟨_, h⟩
  · rw [h]
    show Reach str.length inp (inp.advance str.length)
    exact Reach.of_advance inp hl
  · rw [h]
    exact Reach.same inp

theorem occurs_of_take {inp : TXMLInputStream} {str : List Nat}
    (h : inp.rest.take str.length = str) : str <:+: inp.fBuf := by
  refine ⟨inp.fBuf.take inp.fCurrent, inp.rest.drop str.length, ?_⟩
  have e := List.take_append_drop str.length inp.rest
  rw [h] at e
  rw [List.append_assoc, e, rest, List.take_append_drop]

theorem Buffered_LocateIdentifierLoop_lt {inp : TXMLInputStream} (h : inp.Buffered) :
    ∀ (fuel curr : Nat), inp.fCurrent ≤ curr →
      (LocateIdentifierLoop fuel curr inp).1 = 0 ∨
      inp.fCurrent + (LocateIdentifierLoop fuel curr inp).1 < inp.fBuf.length
  | 0, _, _ => by rw [LocateIdentifierLoop]; exact Or.inl rfl
  | fuel + 1, curr, hle => by
    rw [LocateIdentifierLoop]
    simp only [h.ExpandAt]
    by_cases hlt : curr + 1 < inp.fBuf.length
    · simp only [hlt, decide_True]
      split
      · right
        show inp.fCurrent + (curr + 1 - inp.fCurrent) < inp.fBuf.length
        omega
      · exact Buffered_LocateIdentifierLoop_lt h fuel (curr + 1) (by omega)
    · simp only [hlt, decide_False]
      exact Or.inl trivial

/-- The length that `LocateIdentifier` returns lies within the data, with a byte behind
the name. -/
theorem Buffered_LocateIdentifier_lt {inp : TXMLInputStream} (h : inp.Buffered) :
    inp.LocateIdentifier.1 = 0 ∨ inp.LocateIdentifier.1 < inp.rest.length := by
  unfold LocateIdentifier
  split
  · exact Or.inl rfl
  · rcases Buffered_LocateIdentifierLoop_lt h (inp.avail + 1) inp.fCurrent (Nat.le_refl _) with
      h0 | hlt
    · exact Or.inl h0
    · right
      rw [TXMLInputStream.rest_length]
      omega

theorem Buffered_LocateContentLoop_any {inp : TXMLInputStream} (h : inp.Buffered) :
    ∀ (fuel curr : Nat), inp.fCurrent ≤ curr →
      (LocateContentLoop fuel curr inp).2 = inp ∧
      ((LocateContentLoop fuel curr inp).1 = -1 ∨
        ∃ k : Nat, (LocateContentLoop fuel curr inp).1 = (k : Int) ∧ curr ≤ inp.fCurrent + k ∧
          inp.fCurrent + k < inp.fBuf.length ∧ inp.deref (inp.fCurrent + k) = 60)
  | 0, _, _ => by rw [LocateContentLoop]; exact ⟨rfl, Or.inl rfl⟩
  | fuel + 1, curr, hle => by
    rw [LocateContentLoop]
    by_cases hlt : curr < inp.fBuf.length
    · simp only [hlt, if_true]
      by_cases h60 : inp.deref curr = 60
      · simp only [h60, if_true]
        refine ⟨trivial, Or.inr ⟨curr - inp.fCurrent, ?_, by omega, by omega, ?_⟩⟩
        · omega
        · rw [show inp.fCurrent + (curr - inp.fCurrent) = curr from by omega]; exact h60
      · simp only [h60, if_false, h.ExpandAt]
        by_cases hlt1 : curr + 1 < inp.fBuf.length
        · simp only [hlt1, decide_True]
          obtain ⟨h1, h2⟩ := Buffered_LocateContentLoop_any h fuel (curr + 1) (by omega)
          refine ⟨h1, ?_⟩
          rcases h2 with h2 | ⟨k, hk, hk1, hk2, hk3⟩
          · exact Or.inl h2
          · exact Or.inr ⟨k, hk, by omega, hk2, hk3⟩
        · simp only [hlt1, decide_False]
          exact ⟨trivial, Or.inl trivial⟩
    · simp only [hlt, if_false]
      exact ⟨trivial, Or.inl trivial⟩

/-- `LocateContent` leaves the stream as it is and returns -1 or the offset of a `<` in
the data. -/
theorem Buffered_LocateContent_any {inp : TXMLInputStream} (h : inp.Buffered) :
    inp.LocateContent.2 = inp ∧
    (inp.LocateContent.1 = -1 ∨
      ∃ k : Nat, inp.LocateContent.1 = (k : Int) ∧ k < inp.rest.length ∧
        inp.deref (inp.fCurrent + k) = 60) := by
  obtain ⟨h1, h2⟩ := Buffered_LocateContentLoop_any h (inp.avail + 1) inp.fCurrent
    (Nat.le_refl _)
  refine ⟨h1, ?_⟩
  rcases h2 with h2 | ⟨k, hk, _, hk2, hk3⟩
  · exact Or.inl h2
  · exact Or.inr ⟨k, hk, by rw [TXMLInputStream.rest_length]; omega, hk3⟩

theorem Buffered_LocateValueLoop_any {inp : TXMLInputStream} (h : inp.Buffered)
    (start quote : Nat) :
    ∀ (fuel curr : Nat), start ≤ curr →
      (LocateValueLoop start quote fuel curr inp).2 = inp ∧
      ((LocateValueLoop start quote fuel curr inp).1 = 0 ∨
        start + (LocateValueLoop start quote fuel curr inp).1 ≤ inp.fBuf.length)
  | 0, _, _ => by rw [LocateValueLoop]; exact ⟨rfl, Or.inl rfl⟩
  | fuel + 1, curr, hle => by
    rw [LocateValueLoop]
    simp only [h.ExpandAt]
    by_cases hlt : curr + 1 < inp.fBuf.length
    · simp only [hlt, decide_True]
      split
      · refine ⟨rfl, Or.inr ?_⟩
        show start + (curr + 1 - start + 1) ≤ inp.fBuf.length
        omega
      · simp only [if_true]
        exact Buffered_LocateValueLoop_any h start quote fuel (curr + 1) (by omega)
    · simp only [hlt, decide_False]
      exact ⟨trivial, Or.inl trivial⟩

/-- `LocateValue` leaves the stream as it is and returns 0 or a length that ends within
the data. -/
theorem Buffered_LocateValue_any {inp : TXMLInputStream} (h : inp.Buffered) (start : Nat)
    (withequalsign : Bool) :
    (inp.LocateValue start withequalsign).2 = inp ∧
    ((inp.LocateValue start withequalsign).1 = 0 ∨
      start + (inp.LocateValue start withequalsign).1 ≤ inp.fBuf.length) := by
  have hq : ∀ curr, start ≤ curr → (inp.LocateValueQuoted start curr).2 = inp ∧
      ((inp.LocateValueQuoted start curr).1 = 0 ∨
        start + (inp.LocateValueQuoted start curr).1 ≤ inp.fBuf.length) := by
    intro curr hle
    unfold LocateValueQuoted
    split
    · exact ⟨rfl, Or.inl rfl⟩
    · exact Buffered_LocateValueLoop_any h start _ _ curr hle
  unfold LocateValue
  simp only [h.ExpandAt]
  by_cases hlt : start < inp.fBuf.length
  · simp only [hlt, decide_True]
    cases withequalsign with
    | false => simpa using hq start (Nat.le_refl _)
    | true =>
      simp only [if_true]
      split
      · exact ⟨rfl, Or.inl rfl⟩
      · simp only [h.ExpandAt]
        by_cases hlt1 : start + 1 < inp.fBuf.length
        · simp only [hlt1, decide_True]
          exact hq (start + 1) (by omega)
        · simp only [hlt1, decide_False]
          exact ⟨trivial, Or.inl trivial⟩
  · simp only [hlt, decide_False]
    exact ⟨trivial, Or.inl trivial⟩

theorem Buffered_SearchForLoop_any {inp : TXMLInputStream} (h : inp.Buffered)
    (str : List Nat) :
    ∀ (fuel curr : Nat), inp.fCurrent ≤ curr →
      (SearchForLoop str fuel curr inp).2 = inp ∧
      ((SearchForLoop str fuel curr inp).1 = -1 ∨
        ∃ k : Nat, (SearchForLoop str fuel curr inp).1 = (k : Int) ∧ 1 ≤ k ∧
          inp.fCurrent + k + str.length ≤ inp.fBuf.length)
  | 0, _, _ => by rw [SearchForLoop]; exact ⟨rfl, Or.inl rfl⟩
  | fuel + 1, curr, hle => by
    rw [SearchForLoop]
    simp only [h.ExpandTo]
    by_cases hfit : curr + 1 + str.length ≤ inp.fBuf.length
    · simp only [hfit, decide_True]
      split
      · refine ⟨rfl, Or.inr ⟨curr + 1 - inp.fCurrent, ?_, by omega, by omega⟩⟩
        show ((curr + 1 : Nat) : Int) - (inp.fCurrent : Int) = ((curr + 1 - inp.fCurrent : Nat) : Int)
        omega
      · split
        · exact Buffered_SearchForLoop_any h str fuel (curr + 1) (by omega)
        · exact ⟨rfl, Or.inl rfl⟩
    · simp only [hfit, decide_False]
      exact ⟨trivial, Or.inl trivial⟩

/-- `SearchFor` leaves the stream as it is and returns -1 or the offset, at least 1, of an
occurrence of the literal within the data. -/
theorem Buffered_SearchFor_any {inp : TXMLInputStream} (h : inp.Buffered) (str : List Nat) :
    (inp.SearchFor str).2 = inp ∧
    ((inp.SearchFor str).1 = -1 ∨
      ∃ k : Nat, (inp.SearchFor str).1 = (k : Int) ∧ 1 ≤ k ∧
        k + str.length ≤ inp.rest.length) := by
  obtain ⟨h1, h2⟩ := Buffered_SearchForLoop_any h str (inp.avail + 1) inp.fCurrent
    (Nat.le_refl _)
  refine ⟨h1, ?_⟩
  rcases h2 with h2 | ⟨k, hk, hk1, hk2⟩
  · exact Or.inl h2
  · exact Or.inr ⟨k, hk, hk1, by rw [TXMLInputStream.rest_length]; omega⟩

end TXMLInputStream

end

section
open TXMLEngine TXMLInputStream

/-! ## The read position during a parse: the branches of `ReadNode` -/

theorem SkipSpaces_reach_of_eq {inp i2 : TXMLInputStream} {t ok : Bool} (hb : inp.Buffered)
    (h : inp.SkipSpaces t = (ok, i2)) : Reach 0 inp i2 := by
  have := Buffered_SkipSpaces_reach hb t
  rwa [h] at this

theorem ReadComment_reach (eng : TXMLEngine) (xmlparent : Option SXmlNode_t)
    (inp : TXMLInputStream) (hb : inp.Buffered) :
    Reach 0 inp (ReadComment eng xmlparent inp).inp := by
  unfold ReadComment
  obtain ⟨h2, h1⟩ := Buffered_SearchFor_any hb (bytes "-->")
  rcases hsf : inp.SearchFor (bytes "-->") with ⟨len, i1⟩
  rw [hsf] at h1 h2
  simp only [] at h1 h2
  subst h2
  simp only []
  split
  · exact Reach.same _
  · rename_i hpos
    rcases h1 with h | ⟨k, hk, hk1, hk2⟩
    · exact absurd h (by omega)
    · subst hk
      have hk3 : k + 3 ≤ i1.rest.length := by simpa using hk2
      have hs := hb.ShiftCurrent (k + 3) hk3
      simp only [Int.toNat_ofNat, hs]
      rcases hss : (i1.advance (k + 3)).SkipSpaces with ⟨ok, i2⟩
      have r2 := SkipSpaces_reach_of_eq (hb.advance _) hss
      have r1 : Reach 0 i1 (i1.advance (k + 3)) := (Reach.of_advance i1 hk3).zero
      cases ok <;> exact r1.andThen r2

theorem ReadContent_reach (eng : TXMLEngine) (xmlparent : Option SXmlNode_t)
    (inp : TXMLInputStream) (r : ReadResult) (hb : inp.Buffered)
    (h60 : inp.deref inp.fCurrent ≠ 60)
    (h : ReadContent eng xmlparent inp = Outcome.done r) :
    Reach (if r.resvalue = 2 then 1 else 0) inp r.inp := by
  unfold ReadContent at h
  cases xmlparent with
  | none =>
    simp only [Outcome.done.injEq] at h
    subst h
    exact Reach.same _
  | some parent =>
    simp only [] at h
    obtain ⟨h2, h1⟩ := Buffered_LocateContent_any hb
    rcases hlc : inp.LocateContent with ⟨len, i1⟩
    rw [hlc] at h1 h2 h
    simp only [] at h1 h2 h
    subst h2
    rcases h1 with h1 | ⟨k, hk, hk1, hk2⟩
    · subst h1
      simp only [show ((-1 : Int) < 0) from by decide, if_true, Outcome.done.injEq] at h
      subst h
      exact Reach.same _
    · subst hk
      have hk0 : 1 ≤ k := by
        rcases Nat.eq_zero_or_pos k with h0 | h0
        · subst h0; exact absurd hk2 h60
        · exact h0
      have hs := hb.ShiftCurrent k (Nat.le_of_lt hk1)
      simp only [show ¬ ((k : Int) < 0) from by omega, if_false, Int.toNat_ofNat, hs] at h
      have key : r.inp = i1.advance k := by
        revert h
        repeat' split
        all_goals first
          | (intro h; cases h; rfl)
          | (intro h; cases h)
      rw [key]
      exact (Reach.of_advance i1 (Nat.le_of_lt hk1)).weaken (by split <;> omega)

theorem LocateIdentifier_of_eq {inp i2 : TXMLInputStream} {len : Nat} (hb : inp.Buffered)
    (h : inp.LocateIdentifier = (len, i2)) : i2 = inp ∧ (len = 0 ∨ len < inp.rest.length) := by
  have h1 := Buffered_LocateIdentifier_snd hb
  have h2 := Buffered_LocateIdentifier_lt hb
  rw [h] at h1 h2
  exact ⟨h1, h2⟩

theorem ShiftCurrent_of_eq {inp i2 : TXMLInputStream} {ok : Bool} (hb : inp.Buffered)
    (hne : inp.deref inp.fCurrent ≠ 10) (h : inp.ShiftCurrent = (ok, i2)) :
    Reach (if ok = true then 1 else 0) inp i2 := by
  have := Buffered_ShiftCurrent_reach hb hne
  rwa [h] at this

theorem ReadClosing_reach (xmlparent : Option SXmlNode_t) (inp : TXMLInputStream)
    (hb : inp.Buffered) (h47 : inp.deref inp.fCurrent = 47) :
    Reach 0 inp (ReadClosing xmlparent inp).inp ∧ (ReadClosing xmlparent inp).resvalue ≠ 2 := by
  unfold ReadClosing
  rcases hs1 : inp.ShiftCurrent with ⟨ok, i1⟩
  have r1 := (ShiftCurrent_of_eq hb (by rw [h47]; decide) hs1).zero
  have hb1 := r1.buffered hb
  cases ok
  · simp only []; exact ⟨r1, by decide⟩
  simp only []
  rcases hs2 : i1.SkipSpaces with ⟨ok, i2⟩
  have r2 := r1.andThen (SkipSpaces_reach_of_eq hb1 hs2)
  have hb2 := r2.buffered hb
  cases ok
  · simp only []; exact ⟨r2, by decide⟩
  simp only []
  rcases hs3 : i2.LocateIdentifier with ⟨len, i3⟩
  obtain ⟨rfl, hlen⟩ := LocateIdentifier_of_eq hb2 hs3
  simp only []
  split
  · simp only []; exact ⟨r2, by decide⟩
  rename_i hpos
  cases xmlparent with
  | none => simp only []; exact ⟨r2, by decide⟩
  | some parent =>
    simp only []
    split
    · simp only []; exact ⟨r2, by decide⟩
    have hl : len ≤ i3.rest.length := by omega
    rw [hb2.ShiftCurrent len hl]
    simp only []
    have r4 := r2.andThen (Reach.of_advance i3 hl).zero
    have hb4 := r4.buffered hb
    rcases hs5 : (i3.advance len).SkipSpaces with ⟨ok, i5⟩
    have r5 := r4.andThen (SkipSpaces_reach_of_eq hb4 hs5)
    have hb5 := r5.buffered hb
    cases ok
    · simp only []; exact ⟨r5, by decide⟩
    simp only []
    split
    · simp only []; exact ⟨r5, by decide⟩
    rename_i h62
    rcases hs6 : i5.ShiftCurrent with ⟨ok, i6⟩
    have r6 := r5.andThen (ShiftCurrent_of_eq hb5 (by
      have : i5.deref i5.fCurrent = 62 := by simpa using h62
      rw [this]; decide) hs6).zero
    have hb6 := r6.buffered hb
    cases ok
    · simp only []; exact ⟨r6, by decide⟩
    · simp only []; exact ⟨r6.andThen (Buffered_SkipSpaces_reach hb6 true), by decide⟩

theorem LocateValue_of_eq {inp i2 : TXMLInputStream} {len start : Nat} {w : Bool}
    (hb : inp.Buffered) (h : inp.LocateValue start w = (len, i2)) :
    i2 = inp ∧ (len = 0 ∨ start + len ≤ inp.fBuf.length) := by
  have h1 := Buffered_LocateValue_any hb start w
  rw [h] at h1
  exact h1

theorem CheckFor_of_eq {inp i2 : TXMLInputStream} {ok : Bool} {str : List Nat}
    (hb : inp.Buffered) (hne : str ≠ []) (h : inp.CheckFor str = (ok, i2)) :
    Reach (if ok = true then str.length else 0) inp i2 ∧
    (ok = true → str <:+: inp.fBuf) ∧ (ok = false → i2 = inp) := by
  have h1 := Buffered_CheckFor_reach hb str hne
  rw [h] at h1
  refine ⟨h1, ?_, ?_⟩
  · intro hok
    rcases Buffered_CheckFor_cases hb str hne with ⟨ht, _, _⟩ | ⟨_, hc⟩
    · exact occurs_of_take ht
    · rw [hc] at h
      subst hok
      exact absurd (congrArg Prod.fst h) (by simp)
  · intro hok
    rcases Buffered_CheckFor_cases hb str hne with ⟨_, _, hc⟩ | ⟨_, hc⟩
    · rw [hc] at h
      subst hok
      exact absurd (congrArg Prod.fst h) (by simp)
    · rw [hc] at h
      exact ((Prod.mk.inj h).2).symm

theorem ReadEntityClause_reach (inp : TXMLInputStream) (hb : inp.Buffered)
    (hinf : bytes "<!ENTITY" <:+: inp.fBuf) : Reach 0 inp (ReadEntityClause inp).2 := by
  unfold ReadEntityClause
  rcases hs1 : inp.SkipSpaces with ⟨ok, i1⟩
  have r1 := SkipSpaces_reach_of_eq hb hs1
  have hb1 := r1.buffered hb
  cases ok
  · simp only []; exact r1
  simp only []
  rcases hs2 : i1.LocateIdentifier with ⟨len, i2⟩
  obtain ⟨rfl, hlen⟩ := LocateIdentifier_of_eq hb1 hs2
  simp only []
  split
  · exact r1
  rename_i hpos
  have hl : len ≤ i2.rest.length := by omega
  rw [hb1.ShiftCurrent len hl]
  simp only []
  have r3 := r1.andThen (Reach.of_advance i2 hl).zero
  have hb3 := r3.buffered hb
  rcases hs4 : (i2.advance len).SkipSpaces with ⟨ok, i4⟩
  have r4 := r3.andThen (SkipSpaces_reach_of_eq hb3 hs4)
  have hb4 := r4.buffered hb
  cases ok
  · simp only []; exact r4
  simp only []
  -- the keyword SYSTEM
  split
  · rename_i sy i5 heq
    have r5 : Reach 0 i4 i5 := by
      split at heq
      · rename_i x hc
        have rc := (CheckFor_of_eq hb4 (by decide) hc).1.zero
        split at heq
        · rename_i y hs
          cases heq
          exact rc.andThen (SkipSpaces_reach_of_eq (rc.buffered hb4) hs)
        · rename_i y hs
          cases heq
      · rename_i x hc
        cases heq
    exact r4.andThen r5
  rename_i sy i5 heq
  have r5 : Reach 0 i4 i5 := by
    split at heq
    · rename_i x hc
      have rc := (CheckFor_of_eq hb4 (by decide) hc).1.zero
      split at heq
      · rename_i y hs
        cases heq
      · rename_i y hs
        cases heq
        exact rc.andThen (SkipSpaces_reach_of_eq (rc.buffered hb4) hs)
    · rename_i x hc
      cases heq
      exact (CheckFor_of_eq hb4 (by decide) hc).1.zero
  have r5 := r4.andThen r5
  have hb5 := r5.buffered hb
  rcases hs6 : i5.LocateValue i5.fCurrent false with ⟨vlen, i6⟩
  obtain ⟨rfl, hv⟩ := LocateValue_of_eq hb5 hs6
  simp only []
  split
  · exact r5
  rename_i hv2
  have hvl : vlen ≤ i6.rest.length := by
    rw [TXMLInputStream.rest_length]
    omega
  rw [hb5.ShiftCurrent vlen hvl]
  simp only []
  have r7 := r5.andThen (Reach.of_advance i6 hvl).zero
  have hb7 := r7.buffered hb
  have r8 := r7.andThen (Buffered_SkipSpaces_reach hb7 false)
  have hb8 := r8.buffered hb
  split
  · exact r8
  rename_i h62
  rcases hs9 : ((i6.advance vlen).SkipSpaces).2.ShiftCurrent with ⟨ok, i9⟩
  have r9 := r8.andThen (ShiftCurrent_of_eq hb8 (by
      have : ((i6.advance vlen).SkipSpaces).2.deref ((i6.advance vlen).SkipSpaces).2.fCurrent = 62 := by
        simpa using h62
      rw [this]; decide) hs9).zero
  have hb9 := r9.buffered hb
  cases ok
  · simp only []; exact r9
  · simp only []
    have r10 := r9.andThen (Buffered_SkipSpaces_reach hb9 false)
    refine r10.andThen (Reach.addEntity _ _ ?_)
    rw [r10.fBuf]
    exact hinf

theorem SearchFor_of_eq {inp i2 : TXMLInputStream} {found : Int} {str : List Nat}
    (hb : inp.Buffered) (h : inp.SearchFor str = (found, i2)) : i2 = inp := by
  have h1 := (Buffered_SearchFor_any hb str).1
  rw [h] at h1
  exact h1

theorem ReadElementClause_reach (inp : TXMLInputStream) (hb : inp.Buffered) :
    Reach 0 inp (ReadElementClause inp).2 := by
  unfold ReadElementClause
  rcases hs1 : inp.SkipSpaces with ⟨ok, i1⟩
  have r1 := SkipSpaces_reach_of_eq hb hs1
  have hb1 := r1.buffered hb
  cases ok
  · simp only []; exact r1
  simp only []
  rcases hs2 : i1.LocateIdentifier with ⟨len, i2⟩
  obtain ⟨rfl, hlen⟩ := LocateIdentifier_of_eq hb1 hs2
  simp only []
  split
  · exact r1
  rename_i hpos
  have hl : len ≤ i2.rest.length := by omega
  rw [hb1.ShiftCurrent len hl]
  simp only []
  have r3 := r1.andThen (Reach.of_advance i2 hl).zero
  have hb3 := r3.buffered hb
  rcases hs4 : (i2.advance len).SkipSpaces with ⟨ok, i4⟩
  have r4 := r3.andThen (SkipSpaces_reach_of_eq hb3 hs4)
  have hb4 := r4.buffered hb
  cases ok
  · simp only []; exact r4
  simp only []
  rcases hs5 : i4.CheckFor (bytes "(") with ⟨ok, i5⟩
  have r5 := r4.andThen (CheckFor_of_eq hb4 (by decide) hs5).1.zero
  have hb5 := r5.buffered hb
  cases ok
  · simp only []; exact r5
  simp only []
  rcases hs6 : i5.SearchFor (bytes ")") with ⟨found, i6⟩
  obtain rfl := SearchFor_of_eq hb5 hs6
  simp only []
  split
  · exact r5
  have r7 := r5.andThen (Buffered_SkipSpaces_reach hb5 false)
  have hb7 := r7.buffered hb
  split
  · exact r7
  rename_i h62
  rcases hs8 : (i6.SkipSpaces).2.ShiftCurrent with ⟨ok, i8⟩
  have r8 := r7.andThen (ShiftCurrent_of_eq hb7 (by
      have : (i6.SkipSpaces).2.deref (i6.SkipSpaces).2.fCurrent = 62 := by simpa using h62
      rw [this]; decide) hs8).zero
  have hb8 := r8.buffered hb
  cases ok
  · simp only []; exact r8
  · simp only []
    exact r8.andThen (Buffered_SkipSpaces_reach hb8 false)

/-- The loop over the clauses of a DTD ends within `avail + 1` rounds: every clause
consumes its keyword. -/
theorem ReadDtdClauses_reach :
    ∀ (fuel : Nat) (inp : TXMLInputStream), inp.Buffered → inp.rest.length < fuel →
      ∃ (ok : Bool) (i2 : TXMLInputStream),
        ReadDtdClauses fuel inp = Outcome.done (ok, i2) ∧ Reach 0 inp i2
  | 0, _, _, h => absurd h (by omega)
  | fuel + 1, inp, hb, hf => by
    rw [ReadDtdClauses]
    rcases hc1 : inp.CheckFor (bytes "<!ENTITY") with ⟨ok, i1⟩
    obtain ⟨r1, hinf, hsame⟩ := CheckFor_of_eq hb (by decide) hc1
    have hb1 := r1.buffered hb
    cases ok
    · simp only []
      obtain rfl := hsame rfl
      rcases hc2 : i1.CheckFor (bytes "<!ELEMENT") with ⟨ok, i2⟩
      obtain ⟨r2, _, _⟩ := CheckFor_of_eq hb (by decide) hc2
      have hb2 := r2.buffered hb
      cases ok
      · exact ⟨true, i2, rfl, r2.zero⟩
      · simp only []
        have r3 := ReadElementClause_reach i2 hb2
        rcases hre : ReadElementClause i2 with ⟨ok, i3⟩
        rw [hre] at r3
        cases ok
        · exact ⟨false, i3, rfl, r2.zero.andThen r3⟩
        · simp only []
          have hl := (r2.andThen r3).left_le
          simp only [if_true, show (bytes "<!ELEMENT").length = 9 from by decide] at hl
          obtain ⟨ok, i4, h4, r4⟩ := ReadDtdClauses_reach fuel i3 (r3.buffered hb2) (by omega)
          exact ⟨ok, i4, h4, (r2.zero.andThen r3).andThen r4⟩
    · simp only []
      have r3 := ReadEntityClause_reach i1 hb1 (by rw [r1.fBuf]; exact hinf rfl)
      rcases hre : ReadEntityClause i1 with ⟨ok, i3⟩
      rw [hre] at r3
      cases ok
      · exact ⟨false, i3, rfl, r1.zero.andThen r3⟩
      · simp only []
        have hl := (r1.andThen r3).left_le
        simp only [if_true, show (bytes "<!ENTITY").length = 8 from by decide] at hl
        obtain ⟨ok, i4, h4, r4⟩ := ReadDtdClauses_reach fuel i3 (r3.buffered hb1) (by omega)
        exact ⟨ok, i4, h4, (r1.zero.andThen r3).andThen r4⟩

theorem ReadDtdEnd_reach (xmlparent : Option SXmlNode_t) (inp : TXMLInputStream)
    (hb : inp.Buffered) : Reach 0 inp (ReadDtdEnd xmlparent inp).inp := by
  unfold ReadDtdEnd
  have r1 := Buffered_SkipSpaces_reach hb false
  have hb1 := r1.buffered hb
  rcases hc : (inp.SkipSpaces).2.CheckFor (bytes ">") with ⟨ok, i2⟩
  have r2 := r1.andThen (CheckFor_of_eq hb1 (by decide) hc).1.zero
  cases ok <;> exact r2

/-- The DTD branch of `ReadNode` returns, with the read position moved on within the
data. -/
theorem ReadDtd_reach (xmlparent : Option SXmlNode_t) (inp : TXMLInputStream)
    (hb : inp.Buffered) (h33 : inp.deref inp.fCurrent = 33) :
    ∃ r : ReadResult, ReadDtd xmlparent inp = Outcome.done r ∧ Reach 0 inp r.inp := by
  unfold ReadDtd
  rcases hs1 : inp.ShiftCurrent with ⟨ok, i1⟩
  have r1 := (ShiftCurrent_of_eq hb (by rw [h33]; decide) hs1).zero
  have hb1 := r1.buffered hb
  cases ok
  · exact ⟨_, rfl, r1⟩
  simp only []
  rcases hs2 : i1.CheckFor (bytes "DOCTYPE") with ⟨ok, i2⟩
  have r2 := r1.andThen (CheckFor_of_eq hb1 (by decide) hs2).1.zero
  have hb2 := r2.buffered hb
  cases ok
  · exact ⟨_, rfl, r2⟩
  simp only []
  rcases hs3 : i2.SkipSpaces with ⟨ok, i3⟩
  have r3 := r2.andThen (SkipSpaces_reach_of_eq hb2 hs3)
  have hb3 := r3.buffered hb
  cases ok
  · exact ⟨_, rfl, r3⟩
  simp only []
  rcases hs4 : i3.LocateIdentifier with ⟨len, i4⟩
  obtain ⟨rfl, hlen⟩ := LocateIdentifier_of_eq hb3 hs4
  simp only []
  split
  · exact ⟨_, rfl, r3⟩
  rename_i hpos
  have hl : len ≤ i4.rest.length := by omega
  rw [hb3.ShiftCurrent len hl]
  simp only []
  have r5 := r3.andThen (Reach.of_advance i4 hl).zero
  have hb5 := r5.buffered hb
  rcases hs6 : (i4.advance len).SkipSpaces with ⟨ok, i6⟩
  have r6 := r5.andThen (SkipSpaces_reach_of_eq hb5 hs6)
  have hb6 := r6.buffered hb
  cases ok
  · exact ⟨_, rfl, r6⟩
  simp only []
  rcases hs7 : i6.CheckFor (bytes "[") with ⟨ok, i7⟩
  have r7 := r6.andThen (CheckFor_of_eq hb6 (by decide) hs7).1.zero
  have hb7 := r7.buffered hb
  cases ok
  · exact ⟨_, rfl, r7.andThen (ReadDtdEnd_reach xmlparent i7 hb7)⟩
  simp only []
  rcases hs8 : i7.SkipSpaces with ⟨ok, i8⟩
  have r8 := r7.andThen (SkipSpaces_reach_of_eq hb7 hs8)
  have hb8 := r8.buffered hb
  cases ok
  · exact ⟨_, rfl, r8⟩
  simp only []
  obtain ⟨ok, i9, h9, r9⟩ := ReadDtdClauses_reach (i8.avail + 1) i8 hb8
    (by rw [hb8.avail]; omega)
  rw [h9]
  have r9 := r8.andThen r9
  have hb9 := r9.buffered hb
  cases ok
  · exact ⟨_, rfl, r9⟩
  simp only []
  rcases hs10 : i9.CheckFor (bytes "]") with ⟨ok, i10⟩
  have r10 := r9.andThen (CheckFor_of_eq hb9 (by decide) hs10).1.zero
  have hb10 := r10.buffered hb
  cases ok
  · exact ⟨_, rfl, r10⟩
  · exact ⟨_, rfl, r10.andThen (ReadDtdEnd_reach xmlparent i10 hb10)⟩

end

section
open TXMLEngine TXMLInputStream

/-! ## The read position during a parse: the open tag -/

theorem ReadAttr_reach (tag : OpenTag) (inp : TXMLInputStream) (hb : inp.Buffered) :
    Reach (if (ReadAttr tag inp).1 = true then 1 else 0) inp (ReadAttr tag inp).2.2 ∧
    (tag.resvalue ≠ 2 → (ReadAttr tag inp).2.1.resvalue ≠ 2) := by
  unfold ReadAttr
  rcases hs1 : inp.LocateIdentifier with ⟨len, i1⟩
  obtain ⟨rfl, hlen⟩ := LocateIdentifier_of_eq hb hs1
  simp only []
  split
  · exact ⟨Reach.same _, fun _ => by simp⟩
  rename_i hpos
  rcases hs2 : i1.LocateValue (i1.fCurrent + len) true with ⟨vlen, i2⟩
  obtain ⟨rfl, hv⟩ := LocateValue_of_eq hb hs2
  simp only []
  split
  · exact ⟨Reach.same _, fun _ => by simp⟩
  rename_i hv3
  have hl : len + vlen ≤ i2.rest.length := by
    rw [TXMLInputStream.rest_length]
    omega
  rw [hb.ShiftCurrent (len + vlen) hl]
  simp only []
  have r : Reach 1 i2 (i2.advance (len + vlen)) :=
    (Reach.of_advance i2 hl).weaken (by omega)
  split
  · refine ⟨r, fun hres => ?_⟩
    show (if _ then _ else _) ≠ (2 : Int)
    split
    · decide
    · split
      · decide
      · exact hres
  · exact ⟨r, fun hres => hres⟩

theorem ReadOpenTag_reach (up : List SXmlNode_t) (xmlparent : Option SXmlNode_t)
    (inp : TXMLInputStream) (hb : inp.Buffered) :
    Reach 0 inp (ReadOpenTag up xmlparent inp).2 ∧
    ∀ tag, (ReadOpenTag up xmlparent inp).1 = some tag →
      1 ≤ tag.node.fName.length ∧
      tag.node.fName.length ≤ (ReadOpenTag up xmlparent inp).2.rest.length ∧
      tag.resvalue = 0 := by
  unfold ReadOpenTag
  simp only []
  have h1 : ∃ ok i1, (if inp.deref inp.fCurrent = 63 then inp.ShiftCurrent else (true, inp)) =
      (ok, i1) ∧ Reach 0 inp i1 := by
    split
    · rename_i h63
      rcases hs : inp.ShiftCurrent with ⟨ok, i1⟩
      exact ⟨ok, i1, rfl, (ShiftCurrent_of_eq hb (by rw [h63]; decide) hs).zero⟩
    · exact ⟨true, inp, rfl, Reach.same _⟩
  obtain ⟨ok, i1, e1, r1⟩ := h1
  rw [e1]
  have hb1 := r1.buffered hb
  cases ok
  · exact ⟨r1, fun tag h => absurd h (by simp)⟩
  simp only []
  rcases hs2 : i1.SkipSpaces with ⟨ok, i2⟩
  have r2 := r1.andThen (SkipSpaces_reach_of_eq hb1 hs2)
  have hb2 := r2.buffered hb
  cases ok
  · exact ⟨r2, fun tag h => absurd h (by simp)⟩
  simp only []
  rcases hs3 : i2.LocateIdentifier with ⟨len, i3⟩
  obtain ⟨rfl, hlen⟩ := LocateIdentifier_of_eq hb2 hs3
  simp only []
  split
  · exact ⟨r2, fun tag h => absurd h (by simp)⟩
  rename_i hpos
  refine ⟨r2, ?_⟩
  intro tag h
  simp only [Option.some.injEq] at h
  subst h
  have hsl : (i3.slice i3.fCurrent len).length = len := by
    rw [slice_fCurrent, List.length_take]
    omega
  refine ⟨?_, ?_, rfl⟩
  · show 1 ≤ (i3.slice i3.fCurrent len).length
    omega
  · show (i3.slice i3.fCurrent len).length ≤ i3.rest.length
    omega

/-- One round of the attribute loop: a round that goes on has consumed at least one byte,
and a round that returns has done so when it returns the status 2. -/
theorem ReadTagStep_reach (xmlparent : Option SXmlNode_t) (tag : OpenTag)
    (inp : TXMLInputStream) (hb : inp.Buffered) (hres : tag.resvalue ≠ 2) :
    match ReadTagStep xmlparent tag inp with
    | TagStep.ret r => Reach (if r.resvalue = 2 then 1 else 0) inp r.inp
    | TagStep.more tag2 i2 => Reach 1 inp i2 ∧ tag2.resvalue ≠ 2
    | TagStep.children i2 => Reach 1 inp i2 := by
  unfold ReadTagStep
  rcases hs1 : inp.SkipSpaces with ⟨ok, i1⟩
  have r1 := SkipSpaces_reach_of_eq hb hs1
  have hb1 := r1.buffered hb
  cases ok
  · simp only [hres, if_false]; exact r1
  obtain ⟨hlt, _⟩ := Buffered_SkipSpaces_true hb hs1
  have hrl : 1 ≤ i1.rest.length := by rw [TXMLInputStream.rest_length]; omega
  have r2 : Reach 1 inp (i1.advance 1) := by
    have := r1.andThen (Reach.of_advance i1 hrl)
    exact this.weaken (by omega)
  have hb2 := r2.buffered hb
  simp only []
  by_cases hE : i1.deref i1.fCurrent = tag.endsymbol
  · rw [if_pos hE, hb1.ShiftCurrent 1 hrl]
    simp only []
    by_cases h62 : (i1.advance 1).deref (i1.advance 1).fCurrent = 62
    · rw [if_pos h62]
      rcases hs3 : (i1.advance 1).ShiftCurrent with ⟨ok, i3⟩
      have r3 := r2.andThen (ShiftCurrent_of_eq hb2 (by rw [h62]; decide) hs3).zero
      have hb3 := r3.buffered hb
      cases ok
      · simp only [hres, if_false]; exact r3.zero
      · simp only [if_true]
        exact (r3.andThen (Buffered_SkipSpaces_reach hb3 true)).weaken (by omega)
    · rw [if_neg h62]
      simp only [hres, if_false]; exact r2.zero
  · rw [if_neg hE]
    by_cases h62 : i1.deref i1.fCurrent = 62
    · rw [if_pos h62]
      by_cases hch : (!tag.canhaschildren) = true
      · rw [if_pos hch]
        simp only [show ((-11 : Int) = 2) = False from by simp, if_false]; exact r1
      · rw [if_neg hch, hb1.ShiftCurrent 1 hrl]
        exact r2
    · rw [if_neg h62]
      obtain ⟨ra, hra⟩ := ReadAttr_reach tag i1 hb1
      have hra := hra hres
      rcases hat : ReadAttr tag i1 with ⟨ok, tag2, i2⟩
      rw [hat] at ra hra
      cases ok
      · simp only [] at hra ⊢
        simp only [hra, if_false]
        exact r1.andThen ra
      · simp only [] at hra ⊢
        exact ⟨(r1.andThen ra).weaken (by simp), hra⟩

/-- A round of the attribute loop that does not return has consumed at least one byte. -/
theorem ReadTagStep_progress (xmlparent : Option SXmlNode_t) (tag : OpenTag)
    (inp : TXMLInputStream) (hb : inp.Buffered) :
    match ReadTagStep xmlparent tag inp with
    | TagStep.ret _ => True
    | TagStep.more _ i2 => Reach 1 inp i2
    | TagStep.children i2 => Reach 1 inp i2 := by
  unfold ReadTagStep
  rcases hs1 : inp.SkipSpaces with ⟨ok, i1⟩
  have r1 := SkipSpaces_reach_of_eq hb hs1
  have hb1 := r1.buffered hb
  cases ok
  · trivial
  obtain ⟨hlt, _⟩ := Buffered_SkipSpaces_true hb hs1
  have hrl : 1 ≤ i1.rest.length := by rw [TXMLInputStream.rest_length]; omega
  have r2 : Reach 1 inp (i1.advance 1) := by
    have := r1.andThen (Reach.of_advance i1 hrl)
    exact this.weaken (by omega)
  simp only []
  by_cases hE : i1.deref i1.fCurrent = tag.endsymbol
  · rw [if_pos hE, hb1.ShiftCurrent 1 hrl]
    simp only []
    by_cases h62 : (i1.advance 1).deref (i1.advance 1).fCurrent = 62
    · rw [if_pos h62]
      rcases hs3 : (i1.advance 1).ShiftCurrent with ⟨ok, i3⟩
      cases ok <;> trivial
    · rw [if_neg h62]
      trivial
  · rw [if_neg hE]
    by_cases h62 : i1.deref i1.fCurrent = 62
    · rw [if_pos h62]
      by_cases hch : (!tag.canhaschildren) = true
      · rw [if_pos hch]
        trivial
      · rw [if_neg hch, hb1.ShiftCurrent 1 hrl]
        exact r2
    · rw [if_neg h62]
      obtain ⟨ra, _⟩ := ReadAttr_reach tag i1 hb1
      rcases hat : ReadAttr tag i1 with ⟨ok, tag2, i2⟩
      rw [hat] at ra
      cases ok
      · trivial
      · exact (r1.andThen ra).weaken (by simp)

theorem ReadContent_ne_outOfFuel (eng : TXMLEngine) (xmlparent : Option SXmlNode_t)
    (inp : TXMLInputStream) : ReadContent eng xmlparent inp ≠ Outcome.outOfFuel := by
  unfold ReadContent
  simp only []
  repeat' split
  all_goals simp

/-- `ReadNode` up to the attribute loop: a return of the status 2 and the start of an open
tag have consumed at least one byte. -/
theorem ReadNodeStart_reach (eng : TXMLEngine) (up : List SXmlNode_t)
    (xmlparent : Option SXmlNode_t) (inp : TXMLInputStream) (hb : inp.Buffered) :
    match ReadNodeStart eng up xmlparent inp with
    | NodeStart.ret o => o ≠ Outcome.outOfFuel ∧
        ∀ r, o = Outcome.done r → Reach (if r.resvalue = 2 then 1 else 0) inp r.inp
    | NodeStart.tag tag i2 => Reach 1 inp i2 ∧ tag.resvalue ≠ 2 := by
  unfold ReadNodeStart
  rcases hs1 : inp.SkipSpaces with ⟨ok, i1⟩
  have r1 := SkipSpaces_reach_of_eq hb hs1
  have hb1 := r1.buffered hb
  cases ok
  · refine ⟨by simp, ?_⟩
    intro r h
    cases h
    exact r1
  obtain ⟨hlt, _⟩ := Buffered_SkipSpaces_true hb hs1
  have hrl : 1 ≤ i1.rest.length := by rw [TXMLInputStream.rest_length]; omega
  simp only []
  rcases hs2 : i1.CheckFor (bytes "<!--") with ⟨ok, i2⟩
  obtain ⟨r2, _, hsame⟩ := CheckFor_of_eq hb1 (by decide) hs2
  cases ok
  swap
  · simp only []
    refine ⟨by simp, ?_⟩
    intro r h
    cases h
    have r3 := (r1.andThen r2).andThen (ReadComment_reach eng xmlparent i2 (r2.buffered hb1))
    exact r3.weaken (by
      simp only [if_true, show (bytes "<!--").length = 4 from by decide]
      split <;> omega)
  obtain rfl := hsame rfl
  simp only []
  by_cases h60 : i2.deref i2.fCurrent ≠ 60
  · rw [if_pos h60]
    refine ⟨?_, ?_⟩
    · exact ReadContent_ne_outOfFuel eng xmlparent i2
    · intro r h
      exact (r1.andThen (ReadContent_reach eng xmlparent i2 r hb1 h60 h)).weaken (by omega)
  rw [if_neg h60]
  rw [hb1.ShiftCurrent 1 hrl]
  simp only []
  have r3 : Reach 1 inp (i2.advance 1) := (r1.andThen (Reach.of_advance i2 hrl)).weaken (by omega)
  have hb3 := r3.buffered hb
  by_cases h47 : (i2.advance 1).deref (i2.advance 1).fCurrent = 47
  · rw [if_pos h47]
    obtain ⟨r4, hne⟩ := ReadClosing_reach xmlparent (i2.advance 1) hb3 h47
    refine ⟨by simp, ?_⟩
    intro r h
    cases h
    simp only [hne, if_false]
    exact r3.zero.andThen r4
  rw [if_neg h47]
  by_cases h33 : (i2.advance 1).deref (i2.advance 1).fCurrent = 33
  · rw [if_pos h33]
    obtain ⟨r, hr, r4⟩ := ReadDtd_reach xmlparent (i2.advance 1) hb3 h33
    rw [hr]
    refine ⟨by simp, ?_⟩
    intro r5 h
    cases h
    exact (r3.andThen r4).weaken (by split <;> omega)
  rw [if_neg h33]
  obtain ⟨r4, htag⟩ := ReadOpenTag_reach up xmlparent (i2.advance 1) hb3
  rcases hot : ReadOpenTag up xmlparent (i2.advance 1) with ⟨otag, i4⟩
  rw [hot] at r4 htag
  simp only [] at r4 htag
  have hb4 := r4.buffered hb3
  cases otag with
  | none =>
    simp only []
    refine ⟨by simp, ?_⟩
    intro r h
    cases h
    exact (r3.andThen r4).zero
  | some tag =>
    obtain ⟨h1, h2, h3⟩ := htag tag rfl
    simp only []
    rw [hb4.ShiftCurrent _ h2]
    refine ⟨(r3.andThen (r4.andThen (Reach.of_advance i4 h2))).weaken (by omega), ?_⟩
    rw [h3]
    decide

end

section
open TXMLEngine TXMLInputStream

/-! ## The read position during a parse: `ReadNode` and the loops around it -/

theorem ReadNodeClosed_inp (xmlparent : Option SXmlNode_t) (tag : OpenTag) (r : ReadResult) :
    (ReadNodeClosed xmlparent tag r).inp = r.inp := by
  unfold ReadNodeClosed
  simp only []
  split <;> rfl

/-- `ReadNode`, the attribute loop and the loop over the children on a stream that holds
the whole source in its buffer: the read position moves on within the data, by at least
one byte whenever `ReadNode` returns the status 2, and the calls return when the fuel is
at least twice the number of bytes left (plus 1, or plus 2 for the loop over the
children). -/
theorem ReadNode_reach (eng : TXMLEngine) : ∀ (fuel : Nat),
    (∀ (up : List SXmlNode_t) (p : Option SXmlNode_t) (inp : TXMLInputStream), inp.Buffered →
      (∀ r, ReadNode eng fuel up p inp = Outcome.done r →
        Reach (if r.resvalue = 2 then 1 else 0) inp r.inp) ∧
      (2 * inp.rest.length + 1 ≤ fuel → ReadNode eng fuel up p inp ≠ Outcome.outOfFuel)) ∧
    (∀ (up : List SXmlNode_t) (p : Option SXmlNode_t) (tag : OpenTag) (inp : TXMLInputStream),
      inp.Buffered → tag.resvalue ≠ 2 →
      (∀ r, ReadNodeAttrs eng fuel up p tag inp = Outcome.done r → Reach 0 inp r.inp) ∧
      (2 * inp.rest.length + 1 ≤ fuel →
        ReadNodeAttrs eng fuel up p tag inp ≠ Outcome.outOfFuel)) ∧
    (∀ (up : List SXmlNode_t) (node : SXmlNode_t) (inp : TXMLInputStream), inp.Buffered →
      (∀ r, ReadNodeChildren eng fuel up node inp = Outcome.done r →
        Reach 0 inp r.inp ∧ r.resvalue ≠ 2) ∧
      (2 * inp.rest.length + 2 ≤ fuel →
        ReadNodeChildren eng fuel up node inp ≠ Outcome.outOfFuel)) := by
  intro fuel
  induction fuel with
  | zero =>
    refine ⟨?_, ?_, ?_⟩
    · intro up p inp _
      rw [ReadNode]
      exact ⟨fun r h => (by cases h), fun h => absurd h (by omega)⟩
    · intro up p tag inp _ _
      rw [ReadNodeAttrs]
      exact ⟨fun r h => (by cases h), fun h => absurd h (by omega)⟩
    · intro up node inp _
      rw [ReadNodeChildren]
      exact ⟨fun r h => (by cases h), fun h => absurd h (by omega)⟩
  | succ fuel ih =>
    obtain ⟨ihN, ihA, ihC⟩ := ih
    refine ⟨?_, ?_, ?_⟩
    · intro up p inp hb
      rw [ReadNode]
      have hst := ReadNodeStart_reach eng up p inp hb
      rcases hs : ReadNodeStart eng up p inp with o | ⟨tag, i2⟩
      · rw [hs] at hst
        exact ⟨hst.2, fun _ => hst.1⟩
      · rw [hs] at hst
        obtain ⟨r2, hres⟩ := hst
        obtain ⟨hA1, hA2⟩ := ihA up p tag i2 (r2.buffered hb) hres
        refine ⟨?_, ?_⟩
        · intro r h
          exact (r2.andThen (hA1 r h)).weaken (by split <;> omega)
        · intro hf
          have := r2.left_le
          exact hA2 (by omega)
    · intro up p tag inp hb hres
      rw [ReadNodeAttrs]
      have hst := ReadTagStep_reach p tag inp hb hres
      rcases hs : ReadTagStep p tag inp with r | ⟨tag2, i2⟩ | i2
      · rw [hs] at hst
        refine ⟨?_, fun _ => by simp⟩
        intro r2 h
        cases h
        exact hst.zero
      · rw [hs] at hst
        obtain ⟨r2, hres2⟩ := hst
        obtain ⟨hA1, hA2⟩ := ihA up p tag2 i2 (r2.buffered hb) hres2
        refine ⟨?_, ?_⟩
        · intro r h
          exact r2.zero.andThen (hA1 r h)
        · intro hf
          have := r2.left_le
          exact hA2 (by omega)
      · rw [hs] at hst
        have r2 : Reach 1 inp i2 := hst
        obtain ⟨hC1, hC2⟩ := ihC (chainOf p up) tag.node i2 (r2.buffered hb)
        simp only []
        rcases hc : ReadNodeChildren eng fuel (chainOf p up) tag.node i2 with r | _ | _
        · refine ⟨?_, fun _ => by simp⟩
          intro r3 h
          simp only [Outcome.done.injEq] at h
          subst h
          rw [ReadNodeClosed_inp]
          exact r2.zero.andThen (hC1 r hc).1
        · refine ⟨fun r h => (by cases h), ?_⟩
          intro hf
          have := r2.left_le
          exact absurd hc (hC2 (by omega))
        · exact ⟨fun r h => (by cases h), fun _ => by simp⟩
    · intro up node inp hb
      rw [ReadNodeChildren]
      obtain ⟨hN1, hN2⟩ := ihN up (some node) inp hb
      rcases hn : ReadNode eng fuel up (some node) inp with r | _ | _
      rotate_left
      · refine ⟨fun r h => (by cases h), ?_⟩
        intro hf
        exact absurd hn (hN2 (by omega))
      · exact ⟨fun r h => (by cases h), fun _ => by simp⟩
      · simp only []
        have r1 := hN1 r hn
        by_cases h2 : r.resvalue = 2
        · rw [if_pos h2] at r1
          rw [if_pos h2]
          obtain ⟨hC1, hC2⟩ := ihC up (r.parent.getD node) r.inp (r1.buffered hb)
          refine ⟨?_, ?_⟩
          · intro r3 h
            obtain ⟨r4, hne⟩ := hC1 r3 h
            exact ⟨r1.zero.andThen r4, hne⟩
          · intro hf
            have := r1.left_le
            exact hC2 (by omega)
        · rw [if_neg h2] at r1
          rw [if_neg h2]
          refine ⟨?_, fun _ => by simp⟩
          intro r3 h
          cases h
          exact ⟨r1, h2⟩

/-- The loop of `ParseStream` on a stream that holds the whole source in its buffer ends
when the fuel is at least twice the number of bytes left plus 2, and an error is reported
with the line of a read position that the parse has reached. -/
theorem ParseStreamLoop_reach (eng : TXMLEngine) :
    ∀ (fuel : Nat) (root : SXmlNode_t) (inp : TXMLInputStream), inp.Buffered →
      (2 * inp.rest.length + 2 ≤ fuel → ParseStreamLoop eng fuel root inp ≠
        ParseResult.outOfFuel) ∧
      (∀ code line, ParseStreamLoop eng fuel root inp = ParseResult.error code line →
        ∃ i2, Reach 0 inp i2 ∧ line = i2.fCurrentLine)
  | 0, _, _, _ => by
    rw [ParseStreamLoop]
    exact ⟨fun h => absurd h (by omega), fun _ _ h => (by cases h)⟩
  | fuel + 1, root, inp, hb => by
    rw [ParseStreamLoop]
    obtain ⟨hN1, hN2⟩ := (ReadNode_reach eng fuel).1 [] (some root) inp hb
    rcases hn : ReadNode eng fuel [] (some root) inp with r | _ | _
    rotate_left
    · refine ⟨?_, fun _ _ h => (by cases h)⟩
      intro hf
      exact absurd hn (hN2 (by omega))
    · exact ⟨fun _ => (by simp), fun _ _ h => (by cases h)⟩
    · simp only []
      have r1 := hN1 r hn
      by_cases h2 : r.resvalue = 2
      · rw [if_pos h2] at r1
        rw [if_neg (not_not.2 h2)]
        have hb1 := r1.buffered hb
        have r2 : Reach 0 r.inp (if (!r.inp.EndOfStream) = true then r.inp.SkipSpaces.2
            else r.inp) := by
          split
          · exact Buffered_SkipSpaces_reach hb1 false
          · exact Reach.same _
        generalize (if (!r.inp.EndOfStream) = true then r.inp.SkipSpaces.2 else r.inp) = i3
          at r2 ⊢
        by_cases hend : i3.EndOfStream = true
        · rw [if_pos hend]
          exact ⟨fun _ => (by simp), fun _ _ h => (by cases h)⟩
        · rw [if_neg hend]
          obtain ⟨hP1, hP2⟩ := ParseStreamLoop_reach eng fuel (r.parent.getD root) i3
            (r2.buffered hb1)
          refine ⟨?_, ?_⟩
          · intro hf
            have h1 := r1.left_le
            have h2 := r2.left_le
            exact hP1 (by omega)
          · intro code line h
            obtain ⟨i2, r3, hl⟩ := hP2 code line h
            exact ⟨i2, (r1.zero.andThen r2).andThen r3, hl⟩
      · rw [if_neg h2] at r1
        rw [if_pos h2]
        refine ⟨fun _ => (by simp), ?_⟩
        intro code line h
        simp only [ParseResult.error.injEq] at h
        exact ⟨r.inp, r1, h.2.symm⟩

/-- The calls of `ReadNode` that the loop of `ParseStream` makes before it reports an
error: the calls `0..k` with the parents `roots i` and the streams `inps i`; every call
before the last returns the status 2 and hands its parent and its stream (behind white
space) to the next one, and the last call returns the reported status, which is not 2,
and leaves the stream whose current line is reported. -/
theorem ParseStreamLoop_failing (eng : TXMLEngine) :
    ∀ (fuel : Nat) (root : SXmlNode_t) (inp : TXMLInputStream) (code : Int) (line : Nat),
      inp.Buffered →
      ParseStreamLoop eng fuel root inp = ParseResult.error code line →
      ∃ (k : Nat) (roots : Nat → SXmlNode_t) (inps : Nat → TXMLInputStream)
        (rs : Nat → ReadResult),
        roots 0 = root ∧ inps 0 = inp ∧
        (∀ i, i ≤ k →
          ReadNode eng (fuel - 1 - i) [] (some (roots i)) (inps i) = Outcome.done (rs i)) ∧
        (∀ i, i < k → (rs i).resvalue = 2 ∧
          roots (i + 1) = (rs i).parent.getD (roots i) ∧
          inps (i + 1) = (if (!(rs i).inp.EndOfStream) = true then (rs i).inp.SkipSpaces.2
            else (rs i).inp) ∧
          (inps (i + 1)).EndOfStream = false) ∧
        (rs k).resvalue = code ∧ code ≠ 2 ∧ line = (rs k).inp.fCurrentLine ∧
        Reach 0 inp (rs k).inp
  | 0, _, _, _, _, _, h => by
    rw [ParseStreamLoop] at h
    cases h
  | fuel + 1, root, inp, code, line, hb, h => by
    rw [ParseStreamLoop] at h
    obtain ⟨hN1, _⟩ := (ReadNode_reach eng fuel).1 [] (some root) inp hb
    rcases hn : ReadNode eng fuel [] (some root) inp with r | _ | _
    rotate_left
    · rw [hn] at h
      cases h
    · rw [hn] at h
      cases h
    · rw [hn] at h
      simp only [] at h
      have r1 := hN1 r hn
      by_cases h2 : r.resvalue = 2
      · rw [if_pos h2] at r1
        rw [if_neg (not_not.2 h2)] at h
        have hb1 := r1.buffered hb
        have r2 : Reach 0 r.inp (if (!r.inp.EndOfStream) = true then r.inp.SkipSpaces.2
            else r.inp) := by
          split
          · exact Buffered_SkipSpaces_reach hb1 false
          · exact Reach.same _
        generalize hg : (if (!r.inp.EndOfStream) = true then r.inp.SkipSpaces.2 else r.inp) = i3
          at r2 h
        by_cases hend : i3.EndOfStream = true
        · rw [if_pos hend] at h
          cases h
        · rw [if_neg hend] at h
          obtain ⟨k, roots, inps, rs, hr0, hi0, hcall, hnext, hcode, hne, hline, hreach⟩ :=
            ParseStreamLoop_failing eng fuel (r.parent.getD root) i3 code line
              (r2.buffered hb1) h
          refine ⟨k + 1,
            fun i => match i with
              | 0 => root
              | j + 1 => roots j,
            fun i => match i with
              | 0 => inp
              | j + 1 => inps j,
            fun i => match i with
              | 0 => r
              | j + 1 => rs j,
            rfl, rfl, ?_, ?_, hcode, hne, hline, (r1.zero.andThen r2).andThen hreach⟩
          · intro i hi
            cases i with
            | zero => exact hn
            | succ j =>
              have := hcall j (by omega)
              rw [show fuel + 1 - 1 - (j + 1) = fuel - 1 - j from by omega]
              exact this
          · intro i hi
            cases i with
            | zero =>
              refine ⟨h2, hr0, ?_, ?_⟩
              · show inps 0 = _
                rw [hi0, hg]
              · show (inps 0).EndOfStream = false
                rw [hi0]
                simpa using hend
            | succ j => exact hnext j (by omega)
      · rw [if_neg h2] at r1
        rw [if_pos h2] at h
        simp only [ParseResult.error.injEq] at h
        refine ⟨0, fun _ => root, fun _ => inp, fun _ => r, rfl, rfl, ?_, ?_, h.1, ?_, h.2.symm,
          r1⟩
        · intro i hi
          obtain rfl : i = 0 := by omega
          exact hn
        · intro i hi
          exact absurd hi (by omega)
        · rw [← h.1]
          exact h2

end

section
open TXMLEngine TXMLInputStream

/-! ## C39: the line and position counters -/

theorem ofString_LineInv (str : List Nat) (n : Nat) (sg : Bool) (pb : Nat)
    (h : str.length ≤ n) :
    (TXMLInputStream.ofString str n sg pb).fBuf = str ∧
      (TXMLInputStream.ofString str n sg pb).fCurrent = 0 ∧
      (TXMLInputStream.ofString str n sg pb).LineInv := by
  have hc : (TXMLInputStream.ofString str n sg pb).fCurrent = 0 := rfl
  have hl : (TXMLInputStream.ofString str n sg pb).fCurrentLine = 1 := rfl
  have ht : (TXMLInputStream.ofString str n sg pb).fTotalPos = 0 := rfl
  have hr := (ofString_spec str n sg pb h).2.1
  rw [rest, hc, List.drop_zero] at hr
  refine ⟨hr, hc, ?_, ?_⟩
  · rw [hl, hc]; simp
  · rw [ht, hc]

/-- The one call that breaks the line count: `ShiftCurrent()` with the read position at
the end of the data tests the byte behind the data, and counts a line when that byte is
the newline, although it consumes nothing. -/
theorem ShiftCurrent_at_end_newline :
    ((TXMLInputStream.ofString [60] 2 true 10).advance 1).LineInv ∧
    ((TXMLInputStream.ofString [60] 2 true 10).advance 1).ShiftCurrent.1 = false ∧
    ¬ ((TXMLInputStream.ofString [60] 2 true 10).advance 1).ShiftCurrent.2.LineInv := by
  refine ⟨by decide, by decide, by decide⟩

/-- C39: on a stream that holds the whole source in its buffer (as in `ParseString`) and
whose current line is 1 plus the number of newline bytes in front of the read position and
whose total position is the number of bytes in front of it (as after the constructor):
`ShiftCurrent(n)` within the data succeeds, moves the read position by `n` and keeps this
relation, and so do `SkipSpaces` and `CheckFor`; `ReadNode` with any arguments, whenever it
returns, leaves a stream with the same buffer, with the read position moved forward within
the data, and with the same relation. When a call `ReadNode(vroot, inp, resvalue)` of the
loop of `ParseStream` returns a status other than 2, the loop reports that status with the
line 1 plus the number of newline bytes in front of the read position that this call
left. For `ParseString`: when it reports the error `code` in the line `line`, the calls of
`ReadNode` that it made are the calls `0..k` on the parents `roots i` and the streams
`inps i`, the first on the dummy top node and the stream of the constructor over the
text; each call before the last returned the status 2 and handed its parent and its
stream, behind white space and not at its end, to the next call; and the last call
returned the status `code`, which is not 2, and left a stream over the same text whose
current line is `line`, which is 1 plus the number of newline bytes of the text in front
of the read position of that stream, and whose total position is that read position. -/
theorem line_tracking (eng : TXMLEngine) :
    (∀ (str : List Nat) (n : Nat) (sg : Bool) (pb : Nat), str.length ≤ n →
      (TXMLInputStream.ofString str n sg pb).Buffered ∧
      (TXMLInputStream.ofString str n sg pb).LineInv) ∧
    (∀ inp : TXMLInputStream, inp.Buffered → inp.LineInv →
      (∀ n, n ≤ inp.rest.length →
        (inp.ShiftCurrent n).1 = true ∧ (inp.ShiftCurrent n).2.LineInv ∧
        (inp.ShiftCurrent n).2.fCurrent = inp.fCurrent + n ∧
        (inp.ShiftCurrent n).2.fTotalPos = inp.fTotalPos + n ∧
        (inp.ShiftCurrent n).2.fCurrentLine =
          inp.fCurrentLine + (inp.rest.take n).count 10) ∧
      (∀ tillendl, (inp.SkipSpaces tillendl).2.LineInv) ∧
      (∀ str, str ≠ [] → (inp.CheckFor str).2.LineInv)) ∧
    (∀ (fuel : Nat) (up : List SXmlNode_t) (xmlparent : Option SXmlNode_t)
      (inp : TXMLInputStream) (r : ReadResult), inp.Buffered → inp.LineInv →
      ReadNode eng fuel up xmlparent inp = Outcome.done r →
      r.inp.Buffered ∧ r.inp.LineInv ∧ r.inp.fBuf = inp.fBuf ∧
      inp.fCurrent ≤ r.inp.fCurrent ∧
      (inp.fCurrent ≤ inp.fBuf.length → r.inp.fCurrent ≤ inp.fBuf.length)) ∧
    (∀ (fuel : Nat) (root : SXmlNode_t) (inp : TXMLInputStream) (r : ReadResult),
      inp.Buffered → inp.LineInv →
      ReadNode eng fuel [] (some root) inp = Outcome.done r → r.resvalue ≠ 2 →
      ParseStreamLoop eng (fuel + 1) root inp =
        ParseResult.error r.resvalue (1 + (inp.fBuf.take r.inp.fCurrent).count 10)) ∧
    (∀ (xmlstring : List Nat) (code : Int) (line : Nat),
      ParseString eng xmlstring = ParseResult.error code line →
      ∃ (k : Nat) (roots : Nat → SXmlNode_t) (inps : Nat → TXMLInputStream)
        (rs : Nat → ReadResult),
        roots 0 = NewDocNull.fRootNode ∧
        inps 0 = TXMLInputStream.ofString xmlstring (2 * xmlstring.length) eng.charSigned
          eng.pastByte ∧
        (∀ i, i ≤ k →
          ReadNode eng (2 * xmlstring.length + 3 - i) [] (some (roots i)) (inps i) =
            Outcome.done (rs i)) ∧
        (∀ i, i < k → (rs i).resvalue = 2 ∧
          roots (i + 1) = (rs i).parent.getD (roots i) ∧
          inps (i + 1) = (if (!(rs i).inp.EndOfStream) = true then (rs i).inp.SkipSpaces.2
            else (rs i).inp) ∧
          (inps (i + 1)).EndOfStream = false) ∧
        (rs k).resvalue = code ∧ code ≠ 2 ∧
        line = (rs k).inp.fCurrentLine ∧
        (rs k).inp.fBuf = xmlstring ∧ (rs k).inp.fCurrent ≤ xmlstring.length ∧
        line = 1 + (xmlstring.take (rs k).inp.fCurrent).count 10 ∧
        (rs k).inp.fTotalPos = (rs k).inp.fCurrent) := by
  refine ⟨?_, ?_, ?_, ?_, ?_⟩
  · intro str n sg pb h
    exact ⟨(ofString_spec str n sg pb h).1, (ofString_LineInv str n sg pb h).2.2⟩
  · intro inp hb hl
    refine ⟨?_, ?_, ?_⟩
    · intro n hn
      rw [hb.ShiftCurrent n hn]
      exact ⟨rfl, (Reach.of_advance inp hn).lineInv hl, rfl, rfl, rfl⟩
    · intro t
      exact (Buffered_SkipSpaces_reach hb t).lineInv hl
    · intro str hne
      exact (Buffered_CheckFor_reach hb str hne).lineInv hl
  · intro fuel up p inp r hb hl h
    have hr := ((ReadNode_reach eng fuel).1 up p inp hb).1 r h
    refine ⟨hr.buffered hb, hr.lineInv hl, hr.fBuf, ?_, ?_⟩
    · have := hr.fCurrent
      omega
    · intro hle
      have := hr.fCurrent_le hle
      rw [hr.fBuf] at this
      exact this
  · intro fuel root inp r hb hl h h2
    have hr := ((ReadNode_reach eng fuel).1 [] (some root) inp hb).1 r h
    have hl2 := hr.lineInv hl
    rw [ParseStreamLoop, h]
    simp only [h2, ne_eq, not_false_eq_true, if_true]
    rw [hl2.1, hr.fBuf]
  · intro s code line h
    unfold ParseString at h
    split at h
    · cases h
    · unfold ParseStream at h
      have hlen : s.length ≤ 2 * s.length := by omega
      obtain ⟨hbuf, hcur, hli⟩ := ofString_LineInv s (2 * s.length) eng.charSigned
        eng.pastByte hlen
      obtain ⟨hb, hrest, _, _⟩ := ofString_spec s (2 * s.length) eng.charSigned eng.pastByte
        hlen
      have hav : (TXMLInputStream.ofString s (2 * s.length) eng.charSigned eng.pastByte).avail =
          s.length := by rw [hb.avail, hrest]
      rw [hav] at h
      obtain ⟨k, roots, inps, rs, hr0, hi0, hcall, hnext, hcode, hne, hline, hreach⟩ :=
        ParseStreamLoop_failing eng _ _ _ code line hb h
      have hl2 := hreach.lineInv hli
      have hle := hreach.fCurrent_le (by rw [hcur]; exact Nat.zero_le _)
      rw [hreach.fBuf, hbuf] at hle
      refine ⟨k, roots, inps, rs, hr0, hi0, ?_, hnext, hcode, hne, hline,
        by rw [hreach.fBuf, hbuf], hle, ?_, hl2.2⟩
      · intro i hi
        have := hcall i hi
        rw [show 2 * s.length + 4 - 1 - i = 2 * s.length + 3 - i from by omega] at this
        exact this
      · rw [hline, hl2.1, hreach.fBuf, hbuf]

theorem line_tracking_witness :
    (∃ (fuel : Nat) (root : SXmlNode_t) (inp : TXMLInputStream) (r : ReadResult),
      ReadNode ⟨false, true, 10, fun _ => none⟩ fuel [] (some root) inp = Outcome.done r ∧
      r.resvalue = -7 ∧ r.inp.fCurrentLine = 3 ∧
      r.inp.fBuf = bytes "<a>\n<b x=\"1\"\n y>" ∧
      3 = 1 + ((bytes "<a>\n<b x=\"1\"\n y>").take r.inp.fCurrent).count 10) ∧
    ParseString ⟨false, true, 10, fun _ => none⟩ (bytes "<a>\n<b x=\"1\"\n y>") =
      ParseResult.error (-7) 3 ∧
    ((TXMLInputStream.ofString (bytes "a\nb\nc") 10 true 10).ShiftCurrent 4).2.fCurrentLine =
      3 ∧
    ((TXMLInputStream.ofString (bytes "a\nb\nc") 10 true 10).ShiftCurrent 4).2.fTotalPos = 4 :=
  ⟨(by
      obtain ⟨k, roots, inps, rs, _, _, hcall, _, hcode, _, hline, hbuf, _, hcount, _⟩ :=
        (line_tracking ⟨false, true, 10, fun _ => none⟩).2.2.2.2
          (bytes "<a>\n<b x=\"1\"\n y>") (-7) 3 (by decide!)
      exact ⟨_, _, _, rs k, hcall k (Nat.le_refl k), hcode, hline.symm, hbuf, hcount⟩),
    by decide!, by decide, by decide⟩

end

section
open TXMLEngine TXMLInputStream

/-! ## C40: the parse of a string ends -/

/-- C40: `ParseString` returns for every string: the fuel that the model gives to the
loops is never used up. The parse of an external (SYSTEM) entity is the call `ParseFile`,
which the model takes from the engine as a function that returns; everything else is
covered. On a stream that holds the whole source in its buffer, the number of bytes left
is the decreasing measure: (1) a `ReadNode` call that returns the status 2, which is when
the loop over the children and the loop of `ParseStream` go on, has consumed at least one
byte, and no call moves the read position back; (2) a round of the attribute loop that
does not return has consumed at least one byte; (3) a round of the loop over the clauses
of a DTD that goes on has consumed at least the 8 bytes of `<!ENTITY` or the 9 bytes of
`<!ELEMENT`; (4) `ReadNode` returns when the fuel is at least twice the number of bytes
left plus 1, the loop of `ParseStream` when it is at least that number plus 2, and the
loop over the clauses when it is above the number of bytes left. -/
theorem ParseString_terminates (eng : TXMLEngine) :
    (∀ xmlstring : List Nat, ParseString eng xmlstring ≠ ParseResult.outOfFuel) ∧
    (∀ (fuel : Nat) (up : List SXmlNode_t) (xmlparent : Option SXmlNode_t)
      (inp : TXMLInputStream) (r : ReadResult), inp.Buffered →
      ReadNode eng fuel up xmlparent inp = Outcome.done r →
      r.inp.rest.length ≤ inp.rest.length ∧
      (r.resvalue = 2 → r.inp.rest.length < inp.rest.length)) ∧
    (∀ (xmlparent : Option SXmlNode_t) (tag : OpenTag) (inp : TXMLInputStream),
      inp.Buffered →
      (∀ tag2 inp2, ReadTagStep xmlparent tag inp = TagStep.more tag2 inp2 →
        inp2.rest.length < inp.rest.length) ∧
      (∀ inp2, ReadTagStep xmlparent tag inp = TagStep.children inp2 →
        inp2.rest.length < inp.rest.length)) ∧
    (∀ (inp inp1 inp2 : TXMLInputStream), inp.Buffered →
      (inp.CheckFor (bytes "<!ENTITY") = (true, inp1) → ReadEntityClause inp1 = (true, inp2) →
        inp2.rest.length + 8 ≤ inp.rest.length) ∧
      (inp.CheckFor (bytes "<!ELEMENT") = (true, inp1) →
        ReadElementClause inp1 = (true, inp2) → inp2.rest.length + 9 ≤ inp.rest.length)) ∧
    (∀ (fuel : Nat) (up : List SXmlNode_t) (xmlparent : Option SXmlNode_t)
      (inp : TXMLInputStream), inp.Buffered → 2 * inp.rest.length + 1 ≤ fuel →
      ReadNode eng fuel up xmlparent inp ≠ Outcome.outOfFuel) ∧
    (∀ (fuel : Nat) (root : SXmlNode_t) (inp : TXMLInputStream), inp.Buffered →
      2 * inp.rest.length + 2 ≤ fuel →
      ParseStreamLoop eng fuel root inp ≠ ParseResult.outOfFuel) ∧
    (∀ (fuel : Nat) (inp : TXMLInputStream), inp.Buffered → inp.rest.length < fuel →
      ReadDtdClauses fuel inp ≠ Outcome.outOfFuel) := by
  refine ⟨?_, ?_, ?_, ?_, ?_, ?_, ?_⟩
  · intro s
    unfold ParseString
    split
    · simp
    · unfold ParseStream
      have hb := (ofString_spec s (2 * s.length) eng.charSigned eng.pastByte (by omega)).1
      exact (ParseStreamLoop_reach eng _ _ _ hb).1 (by rw [hb.avail]; omega)
  · intro fuel up p inp r hb h
    have hr := ((ReadNode_reach eng fuel).1 up p inp hb).1 r h
    refine ⟨by have := hr.left_le; omega, ?_⟩
    intro h2
    rw [if_pos h2] at hr
    have := hr.left_le
    omega
  · intro p tag inp hb
    have hst := ReadTagStep_progress p tag inp hb
    refine ⟨?_, ?_⟩
    · intro tag2 i2 h
      rw [h] at hst
      have := Reach.left_le hst
      omega
    · intro i2 h
      rw [h] at hst
      have := Reach.left_le hst
      omega
  · intro inp i1 i2 hb
    refine ⟨?_, ?_⟩
    · intro hc hre
      obtain ⟨r1, hinf, _⟩ := CheckFor_of_eq hb (by decide) hc
      have r2 := ReadEntityClause_reach i1 (r1.buffered hb) (by rw [r1.fBuf]; exact hinf rfl)
      rw [hre] at r2
      have h1 := r1.left_le
      have h2 : i2.rest.length + 0 ≤ i1.rest.length := r2.left_le
      simp only [if_true, show (bytes "<!ENTITY").length = 8 from by decide] at h1
      omega
    · intro hc hre
      obtain ⟨r1, _, _⟩ := CheckFor_of_eq hb (by decide) hc
      have r2 := ReadElementClause_reach i1 (r1.buffered hb)
      rw [hre] at r2
      have h1 := r1.left_le
      have h2 : i2.rest.length + 0 ≤ i1.rest.length := r2.left_le
      simp only [if_true, show (bytes "<!ELEMENT").length = 9 from by decide] at h1
      omega
  · intro fuel up p inp hb hf
    exact ((ReadNode_reach eng fuel).1 up p inp hb).2 hf
  · intro fuel root inp hb hf
    exact (ParseStreamLoop_reach eng fuel root inp hb).1 hf
  · intro fuel inp hb hf
    obtain ⟨ok, i2, h, _⟩ := ReadDtdClauses_reach fuel inp hb hf
    rw [h]
    simp

theorem ParseString_terminates_witness :
    ParseString ⟨false, true, 0, fun _ => none⟩ (bytes "<a x=\"1\"><b/>t</a>") ≠
      ParseResult.outOfFuel ∧
    ReadNode ⟨false, true, 0, fun _ => none⟩ 9 [] none
        (TXMLInputStream.ofString (bytes "<a/>") 8 true 0) ≠ Outcome.outOfFuel ∧
    ReadNode ⟨false, true, 0, fun _ => none⟩ 0 [] none
        (TXMLInputStream.ofString (bytes "<a/>") 8 true 0) = Outcome.outOfFuel :=
  ⟨(ParseString_terminates ⟨false, true, 0, fun _ => none⟩).1 _,
    (ParseString_terminates ⟨false, true, 0, fun _ => none⟩).2.2.2.2.1 9 [] none _
      (ofString_spec _ 8 true 0 (by decide)).1
      (by rw [(ofString_spec (bytes "<a/>") 8 true 0 (by decide)).2.1]; decide),
    rfl⟩

end

section
open TXMLEngine TXMLInputStream

/-! ## Properties of all nodes of a parsed tree -/

theorem allNodes_eq (ok : SXmlNode_t → Bool) (n : SXmlNode_t) :
    allNodes ok n = (ok n && allNodesList ok n.fChild) := by
  cases n
  rw [allNodes]
  rfl

theorem allNodesList_append (ok : SXmlNode_t → Bool) (a b : List SXmlNode_t) :
    allNodesList ok (a ++ b) = (allNodesList ok a && allNodesList ok b) := by
  induction a with
  | nil => simp [allNodesList]
  | cons c cs ih => simp [allNodesList, ih, Bool.and_assoc]

theorem allNodesList_forall (ok : SXmlNode_t → Bool) (l : List SXmlNode_t) :
    allNodesList ok l = true ↔ ∀ c ∈ l, allNodes ok c = true := by
  induction l with
  | nil => simp [allNodesList]
  | cons c cs ih => simp [allNodesList, ih]

theorem allNodesList_sublist (ok : SXmlNode_t → Bool) {l l2 : List SXmlNode_t}
    (h : allNodesList ok l = true) (hs : ∀ c ∈ l2, c ∈ l) : allNodesList ok l2 = true := by
  rw [allNodesList_forall] at h ⊢
  exact fun c hc => h c (hs c hc)

theorem elementTree_AddChild {ok : SXmlNode_t → Bool}
    (K1 : ∀ n, n.fType = EXmlNodeType.kXML_NODE → ok n = true) {p c : SXmlNode_t}
    (hp : elementTree ok p) (hc : allNodes ok c = true) : elementTree ok (AddChild p c) := by
  obtain ⟨ht, ha⟩ := hp
  have hty : (AddChild p c).fType = EXmlNodeType.kXML_NODE := ht
  refine ⟨hty, ?_⟩
  rw [allNodes_eq] at ha ⊢
  have hch : (AddChild p c).fChild = p.fChild ++ [c] := rfl
  rw [hch, allNodesList_append, K1 _ hty]
  simp only [Bool.and_eq_true] at ha
  simp [allNodesList, ha.2, hc]

theorem ParentOk_attach {ok : SXmlNode_t → Bool}
    (K1 : ∀ n, n.fType = EXmlNodeType.kXML_NODE → ok n = true) {p : Option SXmlNode_t}
    {c : SXmlNode_t} (hp : ParentOk ok p) (hc : allNodes ok c = true) :
    ParentOk ok (attach p c) := by
  intro n hn
  cases p with
  | none => cases hn
  | some q =>
    simp only [attach, Option.map_some', Option.some.injEq] at hn
    subst hn
    exact elementTree_AddChild K1 (hp q rfl) hc

theorem elementTree_truncateIfNs {ok : SXmlNode_t → Bool}
    (K1 : ∀ n, n.fType = EXmlNodeType.kXML_NODE → ok n = true) {p : SXmlNode_t}
    (hp : elementTree ok p) : elementTree ok (truncateIfNs p) := by
  obtain ⟨ht, ha⟩ := hp
  have hty : (truncateIfNs p).fType = EXmlNodeType.kXML_NODE := by
    rw [truncateIfNs_fType]; exact ht
  refine ⟨hty, ?_⟩
  rw [allNodes_eq] at ha ⊢
  rw [truncateIfNs_fChild, K1 _ hty]
  simp only [Bool.and_eq_true] at ha
  simp [ha.2]

theorem allNodes_of_leaf {ok : SXmlNode_t → Bool}
    (K2 : ∀ n, n.fType ≠ EXmlNodeType.kXML_CONTENT → n.fChild = [] → ok n = true)
    {n : SXmlNode_t} (ht : n.fType ≠ EXmlNodeType.kXML_CONTENT) (hc : n.fChild = []) :
    allNodes ok n = true := by
  rw [allNodes_eq, hc, K2 n ht hc]
  rfl

theorem TagOk_node {ok : SXmlNode_t → Bool}
    (K2 : ∀ n, n.fType ≠ EXmlNodeType.kXML_CONTENT → n.fChild = [] → ok n = true)
    {tag : OpenTag} (h : TagOk tag) :
    allNodes ok tag.node = true ∧ allNodes ok (truncateIfNs tag.node) = true :=
  ⟨allNodes_of_leaf K2 h.2.1 h.1,
    allNodes_of_leaf K2 (by rw [truncateIfNs_fType]; exact h.2.1)
      (by rw [truncateIfNs_fChild]; exact h.1)⟩

theorem ReadComment_tree {ok : SXmlNode_t → Bool}
    (K1 : ∀ n, n.fType = EXmlNodeType.kXML_NODE → ok n = true)
    (K2 : ∀ n, n.fType ≠ EXmlNodeType.kXML_CONTENT → n.fChild = [] → ok n = true)
    (eng : TXMLEngine) (p : Option SXmlNode_t) (inp : TXMLInputStream) (hp : ParentOk ok p) :
    ParentOk ok (ReadComment eng p inp).parent ∧ NodeOk ok (ReadComment eng p inp).node := by
  have hcom : ∀ name, allNodes ok (SXmlNode_t.mk EXmlNodeType.kXML_COMMENT name [] none []) =
      true := fun name => allNodes_of_leaf K2 (by simp [SXmlNode_t.fType]) rfl
  have hnone : NodeOk ok none := fun n h => by cases h
  have hsome : ∀ name, NodeOk ok
      (some (SXmlNode_t.mk EXmlNodeType.kXML_COMMENT name [] none [])) := by
    intro name n h
    cases h
    exact hcom name
  unfold ReadComment
  rcases inp.SearchFor (bytes "-->") with ⟨len, i1⟩
  simp only []
  by_cases h0 : len ≤ 0
  · rw [if_pos h0]
    exact ⟨hp, hnone⟩
  · rw [if_neg h0]
    cases eng.fSkipComments
    · simp only [Bool.not_false, if_true]
      rcases i1.ShiftCurrent (len.toNat + 3) with ⟨ok, i2⟩
      cases ok
      · exact ⟨ParentOk_attach K1 hp (hcom _), hsome _⟩
      · simp only []
        rcases i2.SkipSpaces with ⟨ok, i3⟩
        cases ok <;> exact ⟨ParentOk_attach K1 hp (hcom _), hsome _⟩
    · simp only [Bool.not_true, Bool.false_eq_true, if_false]
      rcases i1.ShiftCurrent (len.toNat + 3) with ⟨ok, i2⟩
      cases ok
      · exact ⟨hp, hnone⟩
      · simp only []
        rcases i2.SkipSpaces with ⟨ok, i3⟩
        cases ok <;> exact ⟨hp, hnone⟩

theorem NodeOk_none (ok : SXmlNode_t → Bool) : NodeOk ok none := fun n h => by cases h

theorem NodeOk_some {ok : SXmlNode_t → Bool} {n : SXmlNode_t} (h : allNodes ok n = true) :
    NodeOk ok (some n) := by
  intro m hm
  cases hm
  exact h

theorem ParentOk_none (ok : SXmlNode_t → Bool) : ParentOk ok none := fun n h => by cases h

theorem ParentOk_truncateIfNs {ok : SXmlNode_t → Bool}
    (K1 : ∀ n, n.fType = EXmlNodeType.kXML_NODE → ok n = true) {p : SXmlNode_t}
    (hp : ParentOk ok (some p)) : ParentOk ok (some (truncateIfNs p)) := by
  intro n hn
  cases hn
  exact elementTree_truncateIfNs K1 (hp p rfl)

theorem ReadClosing_tree {ok : SXmlNode_t → Bool}
    (K1 : ∀ n, n.fType = EXmlNodeType.kXML_NODE → ok n = true)
    (p : Option SXmlNode_t) (inp : TXMLInputStream) (hp : ParentOk ok p) :
    ParentOk ok (ReadClosing p inp).parent ∧ (ReadClosing p inp).node = none := by
  unfold ReadClosing
  simp only []
  repeat' split
  all_goals first
    | exact ⟨hp, rfl⟩
    | exact ⟨ParentOk_none ok, rfl⟩
    | exact ⟨ParentOk_truncateIfNs K1 hp, rfl⟩

theorem ReadDtdEnd_tree (p : Option SXmlNode_t) (inp : TXMLInputStream) :
    (ReadDtdEnd p inp).parent = p ∧ (ReadDtdEnd p inp).node = none := by
  unfold ReadDtdEnd
  split <;> exact ⟨rfl, rfl⟩

theorem ReadDtd_tree (p : Option SXmlNode_t) (inp : TXMLInputStream) (r : ReadResult)
    (h : ReadDtd p inp = Outcome.done r) : r.parent = p ∧ r.node = none := by
  revert h
  unfold ReadDtd
  simp only []
  repeat' split
  all_goals first
    | (intro h; cases h; exact ⟨rfl, rfl⟩)
    | (intro h; cases h; exact ReadDtdEnd_tree _ _)
    | (intro h; cases h)

theorem ReadOpenTag_tree (up : List SXmlNode_t) (p : Option SXmlNode_t)
    (inp : TXMLInputStream) (tag : OpenTag) (h : (ReadOpenTag up p inp).1 = some tag) :
    TagOk tag := by
  revert h
  unfold ReadOpenTag
  simp only []
  repeat' split
  all_goals first
    | (intro h; cases h; done)
    | (intro h
       simp only [Option.some.injEq] at h
       subst h
       refine ⟨rfl, ?_, ?_⟩
       · simp [SXmlNode_t.fType]
       · intro hc
         simp_all [SXmlNode_t.fType])

theorem ReadAttr_tree (tag : OpenTag) (inp : TXMLInputStream) (h : TagOk tag) :
    TagOk (ReadAttr tag inp).2.1 := by
  unfold ReadAttr
  simp only []
  repeat' split
  all_goals exact h

theorem ReadTagStep_tree {ok : SXmlNode_t → Bool}
    (K1 : ∀ n, n.fType = EXmlNodeType.kXML_NODE → ok n = true)
    (K2 : ∀ n, n.fType ≠ EXmlNodeType.kXML_CONTENT → n.fChild = [] → ok n = true)
    (p : Option SXmlNode_t) (tag : OpenTag) (inp : TXMLInputStream) (hp : ParentOk ok p)
    (ht : TagOk tag) :
    match ReadTagStep p tag inp with
    | TagStep.ret r => ParentOk ok r.parent ∧ NodeOk ok r.node
    | TagStep.more tag2 _ => TagOk tag2
    | TagStep.children _ => tag.node.fType = EXmlNodeType.kXML_NODE := by
  obtain ⟨hn1, hn2⟩ := TagOk_node K2 ht
  have hfail : ParentOk ok (attach p tag.node) ∧ NodeOk ok none :=
    ⟨ParentOk_attach K1 hp hn1, NodeOk_none ok⟩
  unfold ReadTagStep
  rcases inp.SkipSpaces with ⟨ok1, i1⟩
  cases ok1
  · exact hfail
  simp only []
  by_cases hE : i1.deref i1.fCurrent = tag.endsymbol
  · rw [if_pos hE]
    rcases i1.ShiftCurrent with ⟨ok2, i2⟩
    cases ok2
    · exact hfail
    simp only []
    by_cases h62 : i2.deref i2.fCurrent = 62
    · rw [if_pos h62]
      rcases i2.ShiftCurrent with ⟨ok3, i3⟩
      cases ok3
      · exact hfail
      · exact ⟨ParentOk_attach K1 hp hn2, NodeOk_some hn2⟩
    · rw [if_neg h62]
      exact hfail
  · rw [if_neg hE]
    by_cases h62 : i1.deref i1.fCurrent = 62
    · rw [if_pos h62]
      by_cases hch : (!tag.canhaschildren) = true
      · rw [if_pos hch]
        exact hfail
      · rw [if_neg hch]
        rcases i1.ShiftCurrent with ⟨ok2, i2⟩
        cases ok2
        · exact hfail
        · exact ht.2.2 (by simpa using hch)
    · rw [if_neg h62]
      have hat := ReadAttr_tree tag i1 ht
      rcases hra : ReadAttr tag i1 with ⟨ok2, tag2, i2⟩
      rw [hra] at hat
      cases ok2
      · exact ⟨ParentOk_attach K1 hp (TagOk_node K2 hat).1, NodeOk_none ok⟩
      · exact hat

theorem ParentOk_some {ok : SXmlNode_t → Bool} {p : SXmlNode_t} (h : elementTree ok p) :
    ParentOk ok (some p) := by
  intro n hn
  cases hn
  exact h

theorem elementTree_UnlinkLast {ok : SXmlNode_t → Bool}
    (K1 : ∀ n, n.fType = EXmlNodeType.kXML_NODE → ok n = true) {p : SXmlNode_t}
    (hp : elementTree ok p) : elementTree ok (UnlinkLast p) := by
  obtain ⟨ht, ha⟩ := hp
  have hty : (UnlinkLast p).fType = EXmlNodeType.kXML_NODE := ht
  refine ⟨hty, ?_⟩
  rw [allNodes_eq] at ha ⊢
  simp only [Bool.and_eq_true] at ha
  have hch : (UnlinkLast p).fChild = p.fChild.dropLast := rfl
  rw [hch, K1 _ hty, allNodesList_sublist ok ha.2 (fun c hc => List.mem_of_mem_dropLast hc)]
  rfl

theorem elementTree_foldl {ok : SXmlNode_t → Bool}
    (K1 : ∀ n, n.fType = EXmlNodeType.kXML_NODE → ok n = true) :
    ∀ (l : List SXmlNode_t) (p : SXmlNode_t), elementTree ok p →
      (∀ c ∈ l, allNodes ok c = true) → elementTree ok (l.foldl AddChild p)
  | [], _, hp, _ => hp
  | c :: cs, p, hp, hl =>
    elementTree_foldl K1 cs (AddChild p c)
      (elementTree_AddChild K1 hp (hl c (List.mem_cons_self _ _)))
      (fun d hd => hl d (List.mem_cons_of_mem _ hd))

theorem entityNodes_ok {ok : SXmlNode_t → Bool} {doc : SXmlDoc_t}
    (h : allNodes ok doc.fRootNode = true) : ∀ c ∈ entityNodes doc, allNodes ok c = true := by
  rw [allNodes_eq] at h
  simp only [Bool.and_eq_true] at h
  intro c hc
  exact (allNodesList_forall ok _).1 h.2 c ((List.dropWhile_suffix _).subset hc)

theorem entityStep_tree {ok : SXmlNode_t → Bool}
    (K1 : ∀ n, n.fType = EXmlNodeType.kXML_NODE → ok n = true)
    (Kc : ∀ text, allNodes ok (SXmlNode_t.mk EXmlNodeType.kXML_CONTENT text [] none []) = true)
    (eng : TXMLEngine)
    (hfile : ∀ title doc, eng.ParseFile title = some doc → allNodes ok doc.fRootNode = true)
    (contptr : List Nat) (b : Nat) (entity : TXMLEntity) (st : ScanState)
    (hp : elementTree ok st.parent) :
    elementTree ok (entityStep eng contptr b entity st).parent := by
  have hadd : ∀ {p : SXmlNode_t} (text : List Nat), elementTree ok p →
      elementTree ok (AddNodeContent p text) :=
    fun text h => elementTree_AddChild K1 h (Kc text)
  unfold entityStep
  simp only []
  repeat' split
  all_goals first
    | exact hp
    | exact hadd _ hp
    | exact elementTree_UnlinkLast K1 hp
    | exact hadd _ (elementTree_UnlinkLast K1 hp)
    | exact hadd _ (hadd _ hp)
    | exact hadd _ (hadd _ (elementTree_UnlinkLast K1 hp))
    | exact elementTree_foldl K1 _ _ hp (entityNodes_ok (hfile _ _ ‹_›))
    | exact elementTree_foldl K1 _ _ (hadd _ hp) (entityNodes_ok (hfile _ _ ‹_›))
    | exact elementTree_foldl K1 _ _ (elementTree_UnlinkLast K1 hp)
        (entityNodes_ok (hfile _ _ ‹_›))
    | exact elementTree_foldl K1 _ _ (hadd _ (elementTree_UnlinkLast K1 hp))
        (entityNodes_ok (hfile _ _ ‹_›))

theorem scanFound_tree {ok : SXmlNode_t → Bool}
    (K1 : ∀ n, n.fType = EXmlNodeType.kXML_NODE → ok n = true)
    (Kc : ∀ text, allNodes ok (SXmlNode_t.mk EXmlNodeType.kXML_CONTENT text [] none []) = true)
    (eng : TXMLEngine)
    (hfile : ∀ title doc, eng.ParseFile title = some doc → allNodes ok doc.fRootNode = true)
    (inp : TXMLInputStream) (contptr : List Nat) (curr b : Nat) (st : ScanState)
    (hp : elementTree ok st.parent) :
    elementTree ok (scanFound eng inp contptr curr b st).parent := by
  unfold scanFound
  split
  · exact hp
  · exact entityStep_tree K1 Kc eng hfile contptr b _ st hp

theorem ScanEntities_tree {ok : SXmlNode_t → Bool}
    (K1 : ∀ n, n.fType = EXmlNodeType.kXML_NODE → ok n = true)
    (Kc : ∀ text, allNodes ok (SXmlNode_t.mk EXmlNodeType.kXML_CONTENT text [] none []) = true)
    (eng : TXMLEngine)
    (hfile : ∀ title doc, eng.ParseFile title = some doc → allNodes ok doc.fRootNode = true)
    (inp : TXMLInputStream) (contptr : List Nat) :
    ∀ (n : Nat) (st : ScanState), elementTree ok st.parent →
      elementTree ok (ScanEntities eng inp contptr n st).parent
  | 0, st, hp => by rw [ScanEntities_zero]; exact hp
  | n + 1, st, hp => by
    cases hbeg : (if st.beg.isNone ∧ contptr.getD (contptr.length - (n + 1)) 0 = 38
      then some (contptr.length - (n + 1)) else st.beg) with
    | none =>
      rw [ScanEntities_none eng inp contptr n st hbeg]
      exact ScanEntities_tree K1 Kc eng hfile inp contptr n _ hp
    | some b =>
      rw [ScanEntities_some eng inp contptr n st b hbeg]
      have hf := scanFound_tree K1 Kc eng hfile inp contptr (contptr.length - (n + 1)) b st hp
      split
      · exact ScanEntities_tree K1 Kc eng hfile inp contptr n _ hp
      · split
        · exact hf
        · exact ScanEntities_tree K1 Kc eng hfile inp contptr n _ hf

theorem Unpack_head (b : Nat) (t : List Nat) (h1 : 26 < b) (h2 : b ≠ 32) :
    ∃ b2 t2, UnpackSpecialCharacters (b :: t) = b2 :: t2 ∧ 26 < b2 ∧ b2 ≠ 32 := by
  unfold UnpackSpecialCharacters
  rw [UnpackLoop]
  split_ifs
  · exact ⟨_, _, rfl, by decide, by decide⟩
  · exact ⟨_, _, rfl, by decide, by decide⟩
  · exact ⟨_, _, rfl, by decide, by decide⟩
  · exact ⟨_, _, rfl, by decide, by decide⟩
  · exact ⟨_, _, rfl, by decide, by decide⟩
  · exact ⟨_, _, rfl, h1, h2⟩
  · exact ⟨_, _, rfl, h1, h2⟩

theorem isSpace_false_gt {inp : TXMLInputStream} {b : Nat} (h : inp.isSpace b = false) :
    26 < b ∧ b ≠ 32 := by
  obtain ⟨h1, h2⟩ := (isSpace_iff inp b).1 h
  refine ⟨?_, h2⟩
  unfold TXMLInputStream.asChar at h1
  split at h1 <;> omega

/-- The content branch of `ReadNode`: the parent stays an element whose nodes pass the
test, when every Content node that the branch makes passes it. With `strict` the Content
nodes need to pass it only when their text starts with a byte that is no white space; then
the stream has no entities and stands on such a byte. -/
theorem ReadContent_tree {ok : SXmlNode_t → Bool} (strict : Prop)
    (K1 : ∀ n, n.fType = EXmlNodeType.kXML_NODE → ok n = true)
    (Kc : ∀ text, (strict → ∃ b t, text = b :: t ∧ 26 < b ∧ b ≠ 32) →
      allNodes ok (SXmlNode_t.mk EXmlNodeType.kXML_CONTENT text [] none []) = true)
    (eng : TXMLEngine)
    (hfile : ¬ strict → ∀ title doc, eng.ParseFile title = some doc →
      allNodes ok doc.fRootNode = true)
    (p : Option SXmlNode_t) (inp : TXMLInputStream) (r : ReadResult) (hp : ParentOk ok p)
    (hs : strict → NoEntities inp ∧ inp.fCurrent < inp.fBuf.length ∧
      inp.isSpace (inp.deref inp.fCurrent) = false ∧ inp.deref inp.fCurrent ≠ 60)
    (h : ReadContent eng p inp = Outcome.done r) :
    ParentOk ok r.parent ∧ NodeOk ok r.node := by
  by_cases hst : strict
  · obtain ⟨⟨hb, hent, _⟩, hlt, hsp, h60⟩ := hs hst
    unfold ReadContent at h
    cases p with
    | none =>
      simp only [Outcome.done.injEq] at h
      subst h
      exact ⟨ParentOk_none ok, NodeOk_none ok⟩
    | some parent =>
      simp only [] at h
      obtain ⟨h2, h1⟩ := Buffered_LocateContent_any hb
      rcases hlc : inp.LocateContent with ⟨len, i1⟩
      rw [hlc] at h1 h2 h
      simp only [] at h1 h2 h
      subst h2
      rcases h1 with h1 | ⟨k, hk, hk1, hk2⟩
      · subst h1
        simp only [show ((-1 : Int) < 0) from by decide, if_true, Outcome.done.injEq] at h
        subst h
        exact ⟨hp, NodeOk_none ok⟩
      · subst hk
        have hk0 : 1 ≤ k := by
          rcases Nat.eq_zero_or_pos k with h0 | h0
          · subst h0; exact absurd hk2 h60
          · exact h0
        have hs2 := hb.ShiftCurrent k (Nat.le_of_lt hk1)
        have hne : (i1.advance k).NumEntities ≤ 0 := by
          simp [NumEntities, hent]
        simp only [show ¬ ((k : Int) < 0) from by omega, if_false, Int.toNat_ofNat, hs2, hne,
          if_true, Outcome.done.injEq] at h
        subst h
        -- the text of the Content node
        obtain ⟨b, t, hr⟩ : ∃ b t, i1.rest = b :: t := by
          cases hrr : i1.rest with
          | nil => rw [hrr] at hk1; exact absurd hk1 (by simp)
          | cons b t => exact ⟨b, t, rfl⟩
        have hd : i1.deref i1.fCurrent = b := by rw [deref_fCurrent, hr]; rfl
        rw [hd] at hsp
        obtain ⟨g1, g2⟩ := isSpace_false_gt hsp
        have hsl : i1.slice i1.fCurrent k = b :: t.take (k - 1) := by
          rw [slice_fCurrent, hr]
          obtain ⟨m, rfl⟩ : ∃ m, k = m + 1 := ⟨k - 1, by omega⟩
          rfl
        obtain ⟨b2, t2, hu, g3, g4⟩ := Unpack_head b (t.take (k - 1)) g1 g2
        have hc := Kc (UnpackSpecialCharacters (i1.slice i1.fCurrent k))
          (fun _ => ⟨b2, t2, by rw [hsl, hu], g3, g4⟩)
        exact ⟨ParentOk_some (elementTree_AddChild K1 (hp parent rfl) hc), NodeOk_some hc⟩
  · have Kc2 : ∀ text,
        allNodes ok (SXmlNode_t.mk EXmlNodeType.kXML_CONTENT text [] none []) = true :=
      fun text => Kc text (fun h => absurd h hst)
    have hadd : ∀ {q : SXmlNode_t} (text : List Nat), elementTree ok q →
        elementTree ok (AddNodeContent q text) :=
      fun text h => elementTree_AddChild K1 h (Kc2 text)
    revert h
    unfold ReadContent
    cases p with
    | none =>
      intro h
      simp only [Outcome.done.injEq] at h
      subst h
      exact ⟨ParentOk_none ok, NodeOk_none ok⟩
    | some parent =>
      have hp1 := hp parent rfl
      have e1 : ∀ text, elementTree ok
          (AddChild parent (SXmlNode_t.mk EXmlNodeType.kXML_CONTENT text [] none [])) :=
        fun text => elementTree_AddChild K1 hp1 (Kc2 text)
      have e2 : ∀ i c n text, elementTree ok
          (ScanEntities eng i c n ⟨none, none, false, false,
            AddChild parent (SXmlNode_t.mk EXmlNodeType.kXML_CONTENT text [] none [])⟩).parent :=
        fun i c n text => ScanEntities_tree K1 Kc2 eng (hfile hst) i c n _ (e1 text)
      simp only []
      repeat' split
      all_goals intro h
      all_goals first
        | (cases h; done)
        | (cases h; exact ⟨hp, NodeOk_none ok⟩)
        | (cases h; exact ⟨ParentOk_some (e1 _), NodeOk_none ok⟩)
        | (cases h; exact ⟨ParentOk_some (e1 _), NodeOk_some (Kc2 _)⟩)
        | (cases h; exact ⟨ParentOk_some (e2 _ _ _ _), NodeOk_some (Kc2 _)⟩)
        | (cases h; exact ⟨ParentOk_some (e2 _ _ _ _), NodeOk_none ok⟩)
        | (cases h; exact ⟨ParentOk_some (hadd _ (e2 _ _ _ _)), NodeOk_none ok⟩)

end

section
open TXMLEngine TXMLInputStream

/-! ## Properties of all nodes of a parsed tree: `ReadNode` -/

theorem NoEntities_reach {n : Nat} {a b : TXMLInputStream} (h : NoEntities a)
    (r : Reach n a b) : NoEntities b := by
  obtain ⟨hb, he, hi⟩ := h
  refine ⟨r.buffered hb, ?_, ?_⟩
  · rw [r.entities hi]; exact he
  · rw [r.fBuf]; exact hi

theorem elementTree_getD {ok : SXmlNode_t → Bool} {p : Option SXmlNode_t} {node : SXmlNode_t}
    (hp : ParentOk ok p) (hn : elementTree ok node) : elementTree ok (p.getD node) := by
  cases p with
  | none => exact hn
  | some q => exact hp q rfl

theorem ReadNodeStart_tree {ok : SXmlNode_t → Bool} (strict : Prop)
    (K1 : ∀ n, n.fType = EXmlNodeType.kXML_NODE → ok n = true)
    (K2 : ∀ n, n.fType ≠ EXmlNodeType.kXML_CONTENT → n.fChild = [] → ok n = true)
    (Kc : ∀ text, (strict → ∃ b t, text = b :: t ∧ 26 < b ∧ b ≠ 32) →
      allNodes ok (SXmlNode_t.mk EXmlNodeType.kXML_CONTENT text [] none []) = true)
    (eng : TXMLEngine)
    (hfile : ¬ strict → ∀ title doc, eng.ParseFile title = some doc →
      allNodes ok doc.fRootNode = true)
    (up : List SXmlNode_t) (p : Option SXmlNode_t) (inp : TXMLInputStream)
    (hp : ParentOk ok p) (hs : strict → NoEntities inp) :
    match ReadNodeStart eng up p inp with
    | NodeStart.ret o => ∀ r, o = Outcome.done r → ParentOk ok r.parent ∧ NodeOk ok r.node
    | NodeStart.tag tag _ => TagOk tag := by
  unfold ReadNodeStart
  rcases hs1 : inp.SkipSpaces with ⟨ok1, i1⟩
  cases ok1
  · intro r h
    cases h
    exact ⟨hp, NodeOk_none ok⟩
  simp only []
  rcases hs2 : i1.CheckFor (bytes "<!--") with ⟨ok2, i2⟩
  cases ok2
  swap
  · intro r h
    cases h
    exact ReadComment_tree K1 K2 eng p i2 hp
  simp only []
  by_cases h60 : i2.deref i2.fCurrent ≠ 60
  · rw [if_pos h60]
    intro r h
    refine ReadContent_tree strict K1 Kc eng hfile p i2 r hp ?_ h
    intro hst
    obtain ⟨hb, he, hi⟩ := hs hst
    have r1 := SkipSpaces_reach_of_eq hb hs1
    obtain ⟨hlt, hsp⟩ := Buffered_SkipSpaces_true hb hs1
    obtain rfl := (CheckFor_of_eq (r1.buffered hb) (by decide) hs2).2.2 rfl
    exact ⟨NoEntities_reach ⟨hb, he, hi⟩ r1, hlt, hsp, h60⟩
  rw [if_neg h60]
  rcases i2.ShiftCurrent with ⟨ok3, i3⟩
  cases ok3
  · intro r h
    cases h
    exact ⟨hp, NodeOk_none ok⟩
  simp only []
  by_cases h47 : i3.deref i3.fCurrent = 47
  · rw [if_pos h47]
    intro r h
    cases h
    obtain ⟨h1, h2⟩ := ReadClosing_tree K1 p i3 hp
    exact ⟨h1, by rw [h2]; exact NodeOk_none ok⟩
  rw [if_neg h47]
  by_cases h33 : i3.deref i3.fCurrent = 33
  · rw [if_pos h33]
    intro r h
    obtain ⟨h1, h2⟩ := ReadDtd_tree p i3 r h
    rw [h1, h2]
    exact ⟨hp, NodeOk_none ok⟩
  rw [if_neg h33]
  have hot := ReadOpenTag_tree up p i3
  rcases hro : ReadOpenTag up p i3 with ⟨otag, i4⟩
  rw [hro] at hot
  cases otag with
  | none =>
    intro r h
    cases h
    exact ⟨hp, NodeOk_none ok⟩
  | some tag =>
    have ht := hot tag rfl
    simp only []
    rcases i4.ShiftCurrent tag.node.fName.length with ⟨ok5, i5⟩
    cases ok5
    · intro r h
      cases h
      exact ⟨ParentOk_attach K1 hp (TagOk_node K2 ht).1, NodeOk_none ok⟩
    · exact ht

/-- `ReadNode`, the attribute loop and the loop over the children keep the parent an
element all of whose nodes pass the test `ok`, and return only such nodes. -/
theorem ReadNode_tree {ok : SXmlNode_t → Bool} (strict : Prop)
    (K1 : ∀ n, n.fType = EXmlNodeType.kXML_NODE → ok n = true)
    (K2 : ∀ n, n.fType ≠ EXmlNodeType.kXML_CONTENT → n.fChild = [] → ok n = true)
    (Kc : ∀ text, (strict → ∃ b t, text = b :: t ∧ 26 < b ∧ b ≠ 32) →
      allNodes ok (SXmlNode_t.mk EXmlNodeType.kXML_CONTENT text [] none []) = true)
    (eng : TXMLEngine)
    (hfile : ¬ strict → ∀ title doc, eng.ParseFile title = some doc →
      allNodes ok doc.fRootNode = true) : ∀ (fuel : Nat),
    (∀ (up : List SXmlNode_t) (p : Option SXmlNode_t) (inp : TXMLInputStream) (r : ReadResult),
      ParentOk ok p → (strict → NoEntities inp) →
      ReadNode eng fuel up p inp = Outcome.done r →
      ParentOk ok r.parent ∧ NodeOk ok r.node) ∧
    (∀ (up : List SXmlNode_t) (p : Option SXmlNode_t) (tag : OpenTag) (inp : TXMLInputStream)
      (r : ReadResult), ParentOk ok p → TagOk tag → (strict → NoEntities inp) →
      ReadNodeAttrs eng fuel up p tag inp = Outcome.done r →
      ParentOk ok r.parent ∧ NodeOk ok r.node) ∧
    (∀ (up : List SXmlNode_t) (node : SXmlNode_t) (inp : TXMLInputStream) (r : ReadResult),
      elementTree ok node → (strict → NoEntities inp) →
      ReadNodeChildren eng fuel up node inp = Outcome.done r → ParentOk ok r.parent) := by
  intro fuel
  induction fuel with
  | zero =>
    refine ⟨?_, ?_, ?_⟩
    · intro up p inp r _ _ h
      rw [ReadNode] at h
      cases h
    · intro up p tag inp r _ _ _ h
      rw [ReadNodeAttrs] at h
      cases h
    · intro up node inp r _ _ h
      rw [ReadNodeChildren] at h
      cases h
  | succ fuel ih =>
    obtain ⟨ihN, ihA, ihC⟩ := ih
    refine ⟨?_, ?_, ?_⟩
    · intro up p inp r hp hs h
      rw [ReadNode] at h
      have hst := ReadNodeStart_tree strict K1 K2 Kc eng hfile up p inp hp hs
      rcases hstart : ReadNodeStart eng up p inp with o | ⟨tag, i2⟩
      · rw [hstart] at hst h
        exact hst r h
      · rw [hstart] at hst h
        refine ihA up p tag i2 r hp hst ?_ h
        intro hstrict
        have hn := hs hstrict
        have hr := ReadNodeStart_reach eng up p inp hn.1
        rw [hstart] at hr
        exact NoEntities_reach hn hr.1
    · intro up p tag inp r hp ht hs h
      rw [ReadNodeAttrs] at h
      have hst := ReadTagStep_tree K1 K2 p tag inp hp ht
      rcases hstep : ReadTagStep p tag inp with r2 | ⟨tag2, i2⟩ | i2
      · rw [hstep] at hst h
        simp only [Outcome.done.injEq] at h
        subst h
        exact hst
      · rw [hstep] at hst h
        refine ihA up p tag2 i2 r hp hst ?_ h
        intro hstrict
        have hn := hs hstrict
        have hr := ReadTagStep_progress p tag inp hn.1
        rw [hstep] at hr
        exact NoEntities_reach hn hr
      · rw [hstep] at hst h
        simp only [] at hst h
        have hnode : elementTree ok tag.node := ⟨hst, (TagOk_node K2 ht).1⟩
        have hs2 : strict → NoEntities i2 := by
          intro hstrict
          have hn := hs hstrict
          have hr := ReadTagStep_progress p tag inp hn.1
          rw [hstep] at hr
          exact NoEntities_reach hn hr
        rcases hc : ReadNodeChildren eng fuel (chainOf p up) tag.node i2 with r3 | _ | _
        · rw [hc] at h
          simp only [Outcome.done.injEq] at h
          subst h
          have hpar := ihC (chainOf p up) tag.node i2 r3 hnode hs2 hc
          have hel := elementTree_getD hpar hnode
          unfold ReadNodeClosed
          simp only []
          split
          · exact ⟨ParentOk_attach K1 hp hel.2, NodeOk_some hel.2⟩
          · exact ⟨ParentOk_attach K1 hp hel.2, NodeOk_none ok⟩
        · rw [hc] at h
          cases h
        · rw [hc] at h
          cases h
    · intro up node inp r hnode hs h
      rw [ReadNodeChildren] at h
      rcases hn : ReadNode eng fuel up (some node) inp with r2 | _ | _
      · rw [hn] at h
        simp only [] at h
        obtain ⟨hpar, _⟩ := ihN up (some node) inp r2 (ParentOk_some hnode) hs hn
        by_cases h2 : r2.resvalue = 2
        · rw [if_pos h2] at h
          refine ihC up (r2.parent.getD node) r2.inp r (elementTree_getD hpar hnode) ?_ h
          intro hstrict
          have hne := hs hstrict
          exact NoEntities_reach hne (((ReadNode_reach eng fuel).1 up (some node) inp hne.1).1
            r2 hn)
        · rw [if_neg h2] at h
          simp only [Outcome.done.injEq] at h
          subst h
          exact hpar
      · rw [hn] at h
        cases h
      · rw [hn] at h
        cases h

/-- The loop of `ParseStream` returns a document all of whose nodes pass the test. -/
theorem ParseStreamLoop_tree {ok : SXmlNode_t → Bool} (strict : Prop)
    (K1 : ∀ n, n.fType = EXmlNodeType.kXML_NODE → ok n = true)
    (K2 : ∀ n, n.fType ≠ EXmlNodeType.kXML_CONTENT → n.fChild = [] → ok n = true)
    (Kc : ∀ text, (strict → ∃ b t, text = b :: t ∧ 26 < b ∧ b ≠ 32) →
      allNodes ok (SXmlNode_t.mk EXmlNodeType.kXML_CONTENT text [] none []) = true)
    (eng : TXMLEngine)
    (hfile : ¬ strict → ∀ title doc, eng.ParseFile title = some doc →
      allNodes ok doc.fRootNode = true) :
    ∀ (fuel : Nat) (root : SXmlNode_t) (inp : TXMLInputStream) (doc : SXmlDoc_t),
      elementTree ok root → (strict → NoEntities inp) →
      ParseStreamLoop eng fuel root inp = ParseResult.ok doc →
      elementTree ok doc.fRootNode
  | 0, _, _, _, _, _, h => by
    rw [ParseStreamLoop] at h
    cases h
  | fuel + 1, root, inp, doc, hroot, hs, h => by
    rw [ParseStreamLoop] at h
    rcases hn : ReadNode eng fuel [] (some root) inp with r | _ | _
    · rw [hn] at h
      simp only [] at h
      obtain ⟨hpar, _⟩ := (ReadNode_tree strict K1 K2 Kc eng hfile fuel).1 [] (some root) inp r
        (ParentOk_some hroot) hs hn
      have hel := elementTree_getD hpar hroot
      by_cases h2 : r.resvalue = 2
      · rw [if_neg (not_not.2 h2)] at h
        have hs2 : strict → NoEntities
            (if (!r.inp.EndOfStream) = true then r.inp.SkipSpaces.2 else r.inp) := by
          intro hstrict
          have hne := hs hstrict
          have hr := ((ReadNode_reach eng fuel).1 [] (some root) inp hne.1).1 r hn
          have hne2 := NoEntities_reach hne hr
          split
          · exact NoEntities_reach hne2 (Buffered_SkipSpaces_reach hne2.1 false)
          · exact hne2
        generalize (if (!r.inp.EndOfStream) = true then r.inp.SkipSpaces.2 else r.inp) = i3
          at hs2 h
        by_cases hend : i3.EndOfStream = true
        · rw [if_pos hend] at h
          simp only [ParseResult.ok.injEq] at h
          subst h
          exact hel
        · rw [if_neg hend] at h
          exact ParseStreamLoop_tree strict K1 K2 Kc eng hfile fuel _ i3 doc hel hs2 h
      · rw [if_pos h2] at h
        cases h
    · rw [hn] at h
      cases h
    · rw [hn] at h
      cases h

end

section
open TXMLEngine TXMLInputStream

/-! ## C31: Content, Comment and processing-instruction nodes are leaves -/

theorem leafKind_element (n : SXmlNode_t) (h : n.fType = EXmlNodeType.kXML_NODE) :
    leafKind n = true := by
  unfold leafKind
  rw [h]
  rfl

theorem leafKind_leaf (n : SXmlNode_t) (h : n.fChild = []) : leafKind n = true := by
  unfold leafKind
  rw [h]
  simp

theorem elementTree_root (ok : SXmlNode_t → Bool)
    (K1 : ∀ n, n.fType = EXmlNodeType.kXML_NODE → ok n = true) :
    elementTree ok NewDocNull.fRootNode := by
  refine ⟨rfl, ?_⟩
  rw [allNodes_eq, K1 NewDocNull.fRootNode rfl]
  rfl

/-- C31: when the documents that `ParseFile` returns for external entities have no
Content, Comment or processing-instruction node with children, then in the document that
`ParseString` returns and in the node that `ReadSingleNode` returns no node of one of these
three types has children, at any depth (`allNodes leafKind`, which says that the node has
no children when it has one of the three types, and that the same holds for all its
children). The tag of a processing instruction (`<?`) gets a node of the type
`kXML_PI_NODE` that cannot have children and is ended by `?`; when the attribute loop of
such a tag meets `>`, `ReadNode` returns with the status -11. -/
theorem parsed_leaf_kinds (eng : TXMLEngine)
    (hfile : ∀ title doc, eng.ParseFile title = some doc →
      allNodes leafKind doc.fRootNode = true) :
    (∀ xmlstring doc, ParseString eng xmlstring = ParseResult.ok doc →
      allNodes leafKind doc.fRootNode = true) ∧
    (∀ src node, ReadSingleNode eng src = ParseResult.ok node →
      allNodes leafKind node = true) ∧
    (∀ n : SXmlNode_t, allNodes leafKind n = true ↔
      ((n.fType = EXmlNodeType.kXML_CONTENT ∨ n.fType = EXmlNodeType.kXML_COMMENT ∨
          n.fType = EXmlNodeType.kXML_PI_NODE → n.fChild = []) ∧
        ∀ c ∈ n.fChild, allNodes leafKind c = true)) ∧
    (∀ up xmlparent inp tag inp2, ReadOpenTag up xmlparent inp = (some tag, inp2) →
      inp.deref inp.fCurrent = 63 →
      tag.node.fType = EXmlNodeType.kXML_PI_NODE ∧ tag.node.fChild = [] ∧
      tag.canhaschildren = false ∧ tag.endsymbol = 63) ∧
    (∀ xmlparent tag inp inp2, tag.canhaschildren = false → tag.endsymbol ≠ 62 →
      inp.SkipSpaces = (true, inp2) → inp2.deref inp2.fCurrent = 62 →
      ReadTagStep xmlparent tag inp =
        TagStep.ret ⟨-11, none, attach xmlparent tag.node, inp2⟩) := by
  have Kc : ∀ text, (False → ∃ b t, text = b :: t ∧ 26 < b ∧ b ≠ 32) →
      allNodes leafKind (SXmlNode_t.mk EXmlNodeType.kXML_CONTENT text [] none []) = true :=
    fun text _ => by
      rw [allNodes_eq,
        leafKind_leaf (SXmlNode_t.mk EXmlNodeType.kXML_CONTENT text [] none []) rfl]
      rfl
  have hf : ¬ False → ∀ title doc, eng.ParseFile title = some doc →
      allNodes leafKind doc.fRootNode = true := fun _ => hfile
  refine ⟨?_, ?_, ?_, ?_, ?_⟩
  · intro s doc h
    unfold ParseString at h
    split at h
    · cases h
    · unfold ParseStream at h
      exact (ParseStreamLoop_tree False leafKind_element (fun n _ hc => leafKind_leaf n hc) Kc
        eng hf _ _ _ doc (elementTree_root leafKind leafKind_element)
        (fun hx => absurd hx not_false) h).2
  · intro src node h
    unfold ReadSingleNode at h
    simp only [] at h
    rcases hn : ReadNode eng
        (2 * (TXMLInputStream.ofString src 10000 eng.charSigned eng.pastByte).avail + 4) [] none
        (TXMLInputStream.ofString src 10000 eng.charSigned eng.pastByte) with r | _ | _
    · rw [hn] at h
      simp only [] at h
      obtain ⟨_, hnode⟩ := (ReadNode_tree False leafKind_element
        (fun n _ hc => leafKind_leaf n hc) Kc eng hf _).1 [] none _ r (ParentOk_none _)
        (fun hx => absurd hx not_false) hn
      split at h
      · cases h
      · split at h
        · rename_i n2 hn2
          simp only [ParseResult.ok.injEq] at h
          subst h
          exact hnode _ hn2
        · cases h
    · rw [hn] at h
      cases h
    · rw [hn] at h
      cases h
  · intro n
    rw [allNodes_eq, Bool.and_eq_true, allNodesList_forall]
    refine and_congr ?_ Iff.rfl
    unfold leafKind
    cases n with
    | mk ty name attrs ns ch =>
      cases ty <;> simp [SXmlNode_t.fType, SXmlNode_t.fChild]
  · intro up p inp tag i2 h h63
    revert h
    unfold ReadOpenTag
    simp only [h63, if_true]
    repeat' split
    all_goals first
      | (intro h; cases h; done)
      | (intro h
         simp only [Prod.mk.injEq, Option.some.injEq] at h
         obtain ⟨h1, _⟩ := h
         subst h1
         exact ⟨rfl, rfl, by simp, rfl⟩)
  · intro p tag inp i2 hch hend hs h62
    unfold ReadTagStep
    rw [hs]
    simp only [h62]
    rw [if_neg (fun e => hend e.symm)]
    simp only [if_true, hch, Bool.not_false]

theorem parsed_leaf_kinds_witness :
    allNodes leafKind
      (SXmlNode_t.mk EXmlNodeType.kXML_NODE (bytes "??DummyTopNode??") [] none
        [SXmlNode_t.mk EXmlNodeType.kXML_PI_NODE (bytes "xml") [⟨bytes "version", bytes "1.0"⟩]
            none [],
          SXmlNode_t.mk EXmlNodeType.kXML_NODE (bytes "a") [] none
            [SXmlNode_t.mk EXmlNodeType.kXML_CONTENT (bytes "t") [] none [],
              SXmlNode_t.mk EXmlNodeType.kXML_COMMENT (bytes "c") [] none [],
              SXmlNode_t.mk EXmlNodeType.kXML_NODE (bytes "b") [] none []]]) = true ∧
    ParseString ⟨false, true, 0, fun _ => none⟩ (bytes "<?xml version=\"1.0\">") =
      ParseResult.error (-11) 1 ∧
    ParseString ⟨false, true, 0, fun _ => none⟩ (bytes "<?xml version=\"1.0\"?><a/>") ≠
      ParseResult.error (-11) 1 :=
  ⟨(parsed_leaf_kinds ⟨false, true, 0, fun _ => none⟩ (fun _ _ h => by cases h)).1
      (bytes "<?xml version=\"1.0\"?><a>t<!--c--><b/></a>")
      ⟨SXmlNode_t.mk EXmlNodeType.kXML_NODE (bytes "??DummyTopNode??") [] none
        [SXmlNode_t.mk EXmlNodeType.kXML_PI_NODE (bytes "xml") [⟨bytes "version", bytes "1.0"⟩]
            none [],
          SXmlNode_t.mk EXmlNodeType.kXML_NODE (bytes "a") [] none
            [SXmlNode_t.mk EXmlNodeType.kXML_CONTENT (bytes "t") [] none [],
              SXmlNode_t.mk EXmlNodeType.kXML_COMMENT (bytes "c") [] none [],
              SXmlNode_t.mk EXmlNodeType.kXML_NODE (bytes "b") [] none []]], none, none⟩
      (by decide!),
    by decide!, by decide!⟩

end

section
open TXMLEngine TXMLInputStream

/-! ## C33: the text of a Content node starts with a byte that is no white space -/

theorem textStart_element (n : SXmlNode_t) (h : n.fType = EXmlNodeType.kXML_NODE) :
    textStart n = true := by
  unfold textStart
  rw [h]
  rfl

theorem textStart_other (n : SXmlNode_t) (h : n.fType ≠ EXmlNodeType.kXML_CONTENT) :
    textStart n = true := by
  unfold textStart
  simp [h]

theorem textStart_content (text : List Nat)
    (h : True → ∃ b t, text = b :: t ∧ 26 < b ∧ b ≠ 32) :
    allNodes textStart (SXmlNode_t.mk EXmlNodeType.kXML_CONTENT text [] none []) = true := by
  obtain ⟨b, t, rfl, h1, h2⟩ := h trivial
  rw [allNodes_eq]
  simp [textStart, SXmlNode_t.fType, SXmlNode_t.fName, SXmlNode_t.fChild, allNodesList, h1, h2]

theorem ofString_NoEntities (str : List Nat) (n : Nat) (sg : Bool) (pb : Nat)
    (h : str.length ≤ n) (hno : ¬ bytes "<!ENTITY" <:+: str) :
    NoEntities (TXMLInputStream.ofString str n sg pb) := by
  obtain ⟨hb, _, he, _⟩ := ofString_spec str n sg pb h
  refine ⟨hb, he, ?_⟩
  rw [(ofString_LineInv str n sg pb h).1]
  exact hno

/-- `ReadNode` passes over white space in front of a byte that is no white space. -/
theorem ReadNodeStart_skip_space (eng : TXMLEngine) (up : List SXmlNode_t)
    (p : Option SXmlNode_t) (inp : TXMLInputStream) (hb : inp.Buffered) (w : List Nat)
    (c : Nat) (tail : List Nat) (hr : inp.rest = w ++ c :: tail)
    (hw : ∀ b ∈ w, inp.isSpace b = true) (hc : inp.isSpace c = false) :
    ReadNodeStart eng up p inp = ReadNodeStart eng up p (inp.advance w.length) := by
  have hr2 : (inp.advance w.length).rest = c :: tail := rest_advance_of_append hr
  have hc2 : (inp.advance w.length).isSpace c = false := by
    rw [isSpace_eq_spaceByte] at hc ⊢
    exact hc
  unfold ReadNodeStart
  rw [hb.SkipSpaces_spec w c tail hr hw hc,
    (hb.advance w.length).SkipSpaces_stop false c tail hr2 hc2]

/-- C33: in the document that `ParseString` returns for a text without `<!ENTITY`, and in
the node that `ReadSingleNode` returns for such a text of up to 10000 bytes, every Content
node, at any depth, has a text that is not empty and whose first byte is above 26 and is
not the space (`allNodes textStart`). On a stream that holds the whole source in its
buffer, `ReadNode` passes over white space in front of a byte that is no white space, so
that white space between two tags gives no Content node; and a text up to the next `<`
that starts with a byte that is no white space becomes one Content node with all its
bytes, white space at its end included, when no entity is registered (only the five
entities `&lt;` `&gt;` `&amp;` `&quot;` `&apos;` are replaced, and a text without `&` is
stored as it stands). -/
theorem content_text_start (eng : TXMLEngine) :
    (∀ xmlstring doc, ¬ bytes "<!ENTITY" <:+: xmlstring →
      ParseString eng xmlstring = ParseResult.ok doc →
      allNodes textStart doc.fRootNode = true) ∧
    (∀ src node, src.length ≤ 10000 → ¬ bytes "<!ENTITY" <:+: src →
      ReadSingleNode eng src = ParseResult.ok node → allNodes textStart node = true) ∧
    (∀ n : SXmlNode_t, allNodes textStart n = true ↔
      ((n.fType = EXmlNodeType.kXML_CONTENT → ∃ b t, n.fName = b :: t ∧ 26 < b ∧ b ≠ 32) ∧
        ∀ c ∈ n.fChild, allNodes textStart c = true)) ∧
    (∀ (fuel : Nat) (up : List SXmlNode_t) (xmlparent : Option SXmlNode_t)
      (inp : TXMLInputStream) (w : List Nat) (c : Nat) (tail : List Nat), inp.Buffered →
      inp.rest = w ++ c :: tail → (∀ b ∈ w, inp.isSpace b = true) → inp.isSpace c = false →
      ReadNode eng fuel up xmlparent inp =
        ReadNode eng fuel up xmlparent (inp.advance w.length)) ∧
    (∀ (fuel : Nat) (up : List SXmlNode_t) (parent : SXmlNode_t) (inp : TXMLInputStream)
      (w text tail : List Nat), inp.Buffered → inp.fEntities = [] →
      inp.rest = w ++ (text ++ 60 :: tail) → (∀ b ∈ w, inp.isSpace b = true) →
      plainText inp.charSigned text = true →
      ReadNode eng (fuel + 1) up (some parent) inp =
        Outcome.done ⟨2,
          some (SXmlNode_t.mk EXmlNodeType.kXML_CONTENT (UnpackSpecialCharacters text) []
            none []),
          some (AddChild parent
            (SXmlNode_t.mk EXmlNodeType.kXML_CONTENT (UnpackSpecialCharacters text) []
              none [])),
          inp.advance (w.length + text.length)⟩) ∧
    (∀ text : List Nat, 38 ∉ text → UnpackSpecialCharacters text = text) := by
  have hf : ¬ True → ∀ title doc, eng.ParseFile title = some doc →
      allNodes textStart doc.fRootNode = true := fun h => absurd trivial h
  refine ⟨?_, ?_, ?_, ?_, ?_, ?_⟩
  · intro s doc hno h
    unfold ParseString at h
    split at h
    · cases h
    · unfold ParseStream at h
      exact (ParseStreamLoop_tree True textStart_element (fun n ht _ => textStart_other n ht)
        textStart_content eng hf _ _ _ doc (elementTree_root textStart textStart_element)
        (fun _ => ofString_NoEntities s _ _ _ (by omega) hno) h).2
  · intro src node hlen hno h
    unfold ReadSingleNode at h
    simp only [] at h
    rcases hn : ReadNode eng
        (2 * (TXMLInputStream.ofString src 10000 eng.charSigned eng.pastByte).avail + 4) [] none
        (TXMLInputStream.ofString src 10000 eng.charSigned eng.pastByte) with r | _ | _
    · rw [hn] at h
      simp only [] at h
      obtain ⟨_, hnode⟩ := (ReadNode_tree True textStart_element
        (fun n ht _ => textStart_other n ht) textStart_content eng hf _).1 [] none _ r
        (ParentOk_none _) (fun _ => ofString_NoEntities src _ _ _ hlen hno) hn
      split at h
      · cases h
      · split at h
        · rename_i n2 hn2
          simp only [ParseResult.ok.injEq] at h
          subst h
          exact hnode _ hn2
        · cases h
    · rw [hn] at h
      cases h
    · rw [hn] at h
      cases h
  · intro n
    rw [allNodes_eq, Bool.and_eq_true, allNodesList_forall]
    refine and_congr ?_ Iff.rfl
    unfold textStart
    cases n with
    | mk ty name attrs ns ch =>
      cases name with
      | nil => cases ty <;> simp [SXmlNode_t.fType, SXmlNode_t.fName]
      | cons b t => cases ty <;> simp [SXmlNode_t.fType, SXmlNode_t.fName]
  · intro fuel up p inp w c tail hb hr hw hc
    cases fuel with
    | zero => rw [ReadNode, ReadNode]
    | succ f => rw [ReadNode, ReadNode, ReadNodeStart_skip_space eng up p inp hb w c tail hr hw hc]
  · intro fuel up parent inp w text tail hb hent hr hw ht
    obtain ⟨c0, cs, rfl⟩ : ∃ c0 cs, text = c0 :: cs := by
      cases text with
      | nil => simp [plainText] at ht
      | cons a l => exact ⟨a, l, rfl⟩
    have hsp : inp.isSpace c0 = false := by
      rw [isSpace_eq_spaceByte]
      simp only [plainText, Bool.and_eq_true, Bool.not_eq_true'] at ht
      exact ht.1
    have hr0 : inp.rest = w ++ c0 :: (cs ++ 60 :: tail) := by simpa using hr
    have hr2 : (inp.advance w.length).rest = c0 :: cs ++ 60 :: tail := by
      rw [rest_advance_of_append hr0]; rfl
    rw [ReadNode, ReadNodeStart_skip_space eng up (some parent) inp hb w c0 _ hr0 hw hsp,
      ReadNodeStart_content eng up parent (inp.advance w.length) (hb.advance _) (c0 :: cs) tail
        hr2 ht hent]
    simp only [advance_advance]
  · intro text h
    exact UnpackLoop_no_amp text h

theorem content_text_start_witness :
    allNodes textStart
      (SXmlNode_t.mk EXmlNodeType.kXML_NODE (bytes "??DummyTopNode??") [] none
        [SXmlNode_t.mk EXmlNodeType.kXML_NODE (bytes "a") [] none
          [SXmlNode_t.mk EXmlNodeType.kXML_NODE (bytes "b") [] none [],
            SXmlNode_t.mk EXmlNodeType.kXML_CONTENT (bytes "x y \n") [] none [],
            SXmlNode_t.mk EXmlNodeType.kXML_NODE (bytes "c") [] none []]]) = true ∧
    ParseString ⟨false, true, 0, fun _ => none⟩ (bytes "<a> \n <b/> </a>") =
      ParseResult.ok ⟨SXmlNode_t.mk EXmlNodeType.kXML_NODE (bytes "??DummyTopNode??") [] none
        [SXmlNode_t.mk EXmlNodeType.kXML_NODE (bytes "a") [] none
          [SXmlNode_t.mk EXmlNodeType.kXML_NODE (bytes "b") [] none []]], none, none⟩ ∧
    ParseString ⟨false, true, 0, fun _ => none⟩
        (bytes "<!DOCTYPE a [<!ENTITY e \"v\">]><a>x&e; y</a>") =
      ParseResult.ok ⟨SXmlNode_t.mk EXmlNodeType.kXML_NODE (bytes "??DummyTopNode??") [] none
        [SXmlNode_t.mk EXmlNodeType.kXML_NODE (bytes "a") [] none
          [SXmlNode_t.mk EXmlNodeType.kXML_CONTENT (bytes "x") [] none [],
            SXmlNode_t.mk EXmlNodeType.kXML_CONTENT (bytes "v") [] none [],
            SXmlNode_t.mk EXmlNodeType.kXML_CONTENT (bytes " y") [] none []]], none, none⟩ :=
  ⟨(content_text_start ⟨false, true, 0, fun _ => none⟩).1
      (bytes "<a> \n <b/>  x y \n<c/></a>")
      ⟨SXmlNode_t.mk EXmlNodeType.kXML_NODE (bytes "??DummyTopNode??") [] none
        [SXmlNode_t.mk EXmlNodeType.kXML_NODE (bytes "a") [] none
          [SXmlNode_t.mk EXmlNodeType.kXML_NODE (bytes "b") [] none [],
            SXmlNode_t.mk EXmlNodeType.kXML_CONTENT (bytes "x y \n") [] none [],
            SXmlNode_t.mk EXmlNodeType.kXML_NODE (bytes "c") [] none []]], none, none⟩
      (fun h => absurd (h.subset (show 33 ∈ bytes "<!ENTITY" from by decide)) (by decide))
      (by decide!),
    by decide!, by decide!⟩

end
